import Mathlib

/-!
Walrus: the bytecode compiler of `src/parser/WASMParser.cpp`

A shallow embedding of `wabt::WASMBinaryReader`, the delegate that turns the
events of the WebAssembly binary reader into Walrus bytecode, followed by the
properties established about it.

Conventions of the embedding

* `std::vector` is `List`, in the vector's order (`back()` is the last element).
* The byte buffer `ModuleFunction::m_byteCode` is kept as its length in bytes
  (`m_byteCodeSize`) together with the records written into it, each paired
  with the byte position of its first byte, in the order they were pushed.
* `uint32_t` fields wrap modulo `2^32`, `ByteCodeStackOffset` fields modulo
  `2^16`, `int32_t` jump offsets are reduced to the signed 32-bit range and the
  `size_t` reference counters wrap modulo `2^64`.
* A step whose behaviour is undefined in C++ (reading past the end of a vector,
  `back()` of an empty vector, viewing a record as a type it does not have)
  yields `CompileError.undefined`; the `throw` of `pushVMStack` yields
  `CompileError.tooManyStackUsage`.
* Debug-only `ASSERT`s are not part of the behaviour and are left out.
-/

namespace Walrus

/-- The kinds of `Walrus::Value::Type` used by the compiler. -/
inductive ValueType where
  | I32 | I64 | F32 | F64 | V128 | FuncRef | ExternRef
  deriving DecidableEq, Repr

/-- Modelled from the spec: `valueSizeInStack` of `runtime/Value.h`, which is not among the
sources. The spec fixes `I32`/`F32` at 4 bytes, `I64`/`F64` at 8, `V128` at 16 and
references at the pointer size `ptr` (4 or 8). -/
def valueSizeInStack (ptr : Nat) : ValueType → Nat
  | .I32 => 4
  | .F32 => 4
  | .I64 => 8
  | .F64 => 8
  | .V128 => 16
  | .FuncRef => ptr
  | .ExternRef => ptr

/-- A `Walrus::FunctionType`: parameter kinds and result kinds. -/
structure FunctionType where
  param : List ValueType
  result : List ValueType
  deriving DecidableEq, Repr

/-- Modelled from the spec: `FunctionType::paramStackSize`, the sum of the stack sizes of
the parameters (the class is declared outside the sources). -/
def FunctionType.paramStackSize (ptr : Nat) (ft : FunctionType) : Nat :=
  (ft.param.map (valueSizeInStack ptr)).sum

/-- Reduction to `uint32_t`. -/
def u32 (n : Nat) : Nat := n % 4294967296

/-- Reduction to `ByteCodeStackOffset` (`uint16_t`). -/
def u16 (n : Nat) : Nat := n % 65536

/-- Reduction of an integer to the range of `int32_t`. -/
def i32 (z : Int) : Int := (z + 2147483648) % 4294967296 - 2147483648

/-- The `size_t` decrement `x--`. -/
def decSize (n : Nat) : Nat := (n + 18446744073709551615) % 18446744073709551616

/-- The `size_t` increment `x++`. -/
def incSize (n : Nat) : Nat := (n + 1) % 18446744073709551616

/-- Subtraction on `uint32_t`. -/
def subU32 (a b : Nat) : Nat := (a % 4294967296 + 4294967296 - b % 4294967296) % 4294967296

end Walrus

namespace wabt

open Walrus

/-- The enumerators of `WASMOpcode` the compiler names, and the families it takes from the
`FOR_EACH_BYTECODE_*` lists of `interpreter/ByteCode.h` (numbered within each family). -/
inductive WASMOpcode where
  | Unreachable | Call | CallIndirect
  | I32Const | I64Const | F32Const | F64Const
  | Const32 | Const64 | Move32 | Move64
  | GlobalGet | GlobalSet
  | If | Else | Br | BrIf | BrTable | Select
  | Throw | Catch | End
  | MemoryInit | MemoryCopy | MemoryFill | DataDrop | MemoryGrow | MemorySize
  | TableGet | TableSet | TableGrow | TableSize | TableCopy | TableFill | ElemDrop | TableInit
  | RefFunc | RefIsNull
  | I32ReinterpretF32 | I64ReinterpretF64 | F32ReinterpretI32 | F64ReinterpretI64
  | I32Load | I64Load | F32Load | F64Load
  | I32Store | I64Store | F32Store | F64Store
  | I32Eqz | I64Eqz
  | Binary (n : Nat)
  | Unary (n : Nat)
  | Load (n : Nat)
  | Store (n : Nat)
  | OpcodeKindEnd
  deriving Repr

/-- A code for an opcode: the place of its enumerator in the list above, and the number
within its family. -/
def WASMOpcode.toPair : WASMOpcode → Nat × Nat
  | WASMOpcode.Unreachable => (0, 0)
  | WASMOpcode.Call => (1, 0)
  | WASMOpcode.CallIndirect => (2, 0)
  | WASMOpcode.I32Const => (3, 0)
  | WASMOpcode.I64Const => (4, 0)
  | WASMOpcode.F32Const => (5, 0)
  | WASMOpcode.F64Const => (6, 0)
  | WASMOpcode.Const32 => (7, 0)
  | WASMOpcode.Const64 => (8, 0)
  | WASMOpcode.Move32 => (9, 0)
  | WASMOpcode.Move64 => (10, 0)
  | WASMOpcode.GlobalGet => (11, 0)
  | WASMOpcode.GlobalSet => (12, 0)
  | WASMOpcode.If => (13, 0)
  | WASMOpcode.Else => (14, 0)
  | WASMOpcode.Br => (15, 0)
  | WASMOpcode.BrIf => (16, 0)
  | WASMOpcode.BrTable => (17, 0)
  | WASMOpcode.Select => (18, 0)
  | WASMOpcode.Throw => (19, 0)
  | WASMOpcode.Catch => (20, 0)
  | WASMOpcode.End => (21, 0)
  | WASMOpcode.MemoryInit => (22, 0)
  | WASMOpcode.MemoryCopy => (23, 0)
  | WASMOpcode.MemoryFill => (24, 0)
  | WASMOpcode.DataDrop => (25, 0)
  | WASMOpcode.MemoryGrow => (26, 0)
  | WASMOpcode.MemorySize => (27, 0)
  | WASMOpcode.TableGet => (28, 0)
  | WASMOpcode.TableSet => (29, 0)
  | WASMOpcode.TableGrow => (30, 0)
  | WASMOpcode.TableSize => (31, 0)
  | WASMOpcode.TableCopy => (32, 0)
  | WASMOpcode.TableFill => (33, 0)
  | WASMOpcode.ElemDrop => (34, 0)
  | WASMOpcode.TableInit => (35, 0)
  | WASMOpcode.RefFunc => (36, 0)
  | WASMOpcode.RefIsNull => (37, 0)
  | WASMOpcode.I32ReinterpretF32 => (38, 0)
  | WASMOpcode.I64ReinterpretF64 => (39, 0)
  | WASMOpcode.F32ReinterpretI32 => (40, 0)
  | WASMOpcode.F64ReinterpretI64 => (41, 0)
  | WASMOpcode.I32Load => (42, 0)
  | WASMOpcode.I64Load => (43, 0)
  | WASMOpcode.F32Load => (44, 0)
  | WASMOpcode.F64Load => (45, 0)
  | WASMOpcode.I32Store => (46, 0)
  | WASMOpcode.I64Store => (47, 0)
  | WASMOpcode.F32Store => (48, 0)
  | WASMOpcode.F64Store => (49, 0)
  | WASMOpcode.I32Eqz => (50, 0)
  | WASMOpcode.I64Eqz => (51, 0)
  | WASMOpcode.Binary n => (52, n)
  | WASMOpcode.Unary n => (53, n)
  | WASMOpcode.Load n => (54, n)
  | WASMOpcode.Store n => (55, n)
  | WASMOpcode.OpcodeKindEnd => (56, 0)

/-- The opcode of a code. -/
def WASMOpcode.ofPair : Nat × Nat → WASMOpcode
  | (0, _) => WASMOpcode.Unreachable
  | (1, _) => WASMOpcode.Call
  | (2, _) => WASMOpcode.CallIndirect
  | (3, _) => WASMOpcode.I32Const
  | (4, _) => WASMOpcode.I64Const
  | (5, _) => WASMOpcode.F32Const
  | (6, _) => WASMOpcode.F64Const
  | (7, _) => WASMOpcode.Const32
  | (8, _) => WASMOpcode.Const64
  | (9, _) => WASMOpcode.Move32
  | (10, _) => WASMOpcode.Move64
  | (11, _) => WASMOpcode.GlobalGet
  | (12, _) => WASMOpcode.GlobalSet
  | (13, _) => WASMOpcode.If
  | (14, _) => WASMOpcode.Else
  | (15, _) => WASMOpcode.Br
  | (16, _) => WASMOpcode.BrIf
  | (17, _) => WASMOpcode.BrTable
  | (18, _) => WASMOpcode.Select
  | (19, _) => WASMOpcode.Throw
  | (20, _) => WASMOpcode.Catch
  | (21, _) => WASMOpcode.End
  | (22, _) => WASMOpcode.MemoryInit
  | (23, _) => WASMOpcode.MemoryCopy
  | (24, _) => WASMOpcode.MemoryFill
  | (25, _) => WASMOpcode.DataDrop
  | (26, _) => WASMOpcode.MemoryGrow
  | (27, _) => WASMOpcode.MemorySize
  | (28, _) => WASMOpcode.TableGet
  | (29, _) => WASMOpcode.TableSet
  | (30, _) => WASMOpcode.TableGrow
  | (31, _) => WASMOpcode.TableSize
  | (32, _) => WASMOpcode.TableCopy
  | (33, _) => WASMOpcode.TableFill
  | (34, _) => WASMOpcode.ElemDrop
  | (35, _) => WASMOpcode.TableInit
  | (36, _) => WASMOpcode.RefFunc
  | (37, _) => WASMOpcode.RefIsNull
  | (38, _) => WASMOpcode.I32ReinterpretF32
  | (39, _) => WASMOpcode.I64ReinterpretF64
  | (40, _) => WASMOpcode.F32ReinterpretI32
  | (41, _) => WASMOpcode.F64ReinterpretI64
  | (42, _) => WASMOpcode.I32Load
  | (43, _) => WASMOpcode.I64Load
  | (44, _) => WASMOpcode.F32Load
  | (45, _) => WASMOpcode.F64Load
  | (46, _) => WASMOpcode.I32Store
  | (47, _) => WASMOpcode.I64Store
  | (48, _) => WASMOpcode.F32Store
  | (49, _) => WASMOpcode.F64Store
  | (50, _) => WASMOpcode.I32Eqz
  | (51, _) => WASMOpcode.I64Eqz
  | (52, n) => WASMOpcode.Binary n
  | (53, n) => WASMOpcode.Unary n
  | (54, n) => WASMOpcode.Load n
  | (55, n) => WASMOpcode.Store n
  | _ => WASMOpcode.OpcodeKindEnd

instance : DecidableEq WASMOpcode := fun a b =>
  decidable_of_iff (a.toPair = b.toPair)
    ⟨fun h => by
      have back : ∀ x : WASMOpcode, WASMOpcode.ofPair x.toPair = x := by
        intro x
        cases x <;> rfl
      have h2 := congrArg WASMOpcode.ofPair h
      rw [back, back] at h2
      exact h2,
    fun h => by rw [h]⟩

/-- `WASMCodeInfo::CodeType`. -/
inductive CodeType where
  | none | I32 | I64 | F32 | F64 | V128
  deriving DecidableEq, Repr

/-- `WASMCodeInfo::codeTypeToMemorySize`. -/
def codeTypeToMemorySize : CodeType → Nat
  | .I32 => 4
  | .F32 => 4
  | .I64 => 8
  | .F64 => 8
  | .V128 => 16
  | .none => 0

/-- An entry of `g_wasmCodeInfo` (result and parameter types of an opcode). -/
structure WASMCodeInfo where
  m_resultType : CodeType
  m_paramTypes : CodeType × CodeType × CodeType
  deriving DecidableEq, Repr

/-- The block signature type `wabt::Type`: a value type, `Void`, or the index of a function
type. -/
inductive SigType where
  | I32 | I64 | F32 | F64 | V128 | FuncRef | ExternRef | Void
  | Index (i : Nat)
  deriving DecidableEq, Repr

/-- `Type::IsIndex`. -/
def SigType.IsIndex : SigType → Bool
  | .Index _ => true
  | _ => false

/-- The errors a compilation step can end in. -/
inductive CompileError where
  | tooManyStackUsage
  | releaseAssert
  | undefined
  deriving DecidableEq, Repr

deriving instance DecidableEq for Except

/-- `toValueKind`; the `default` case is `RELEASE_ASSERT_NOT_REACHED`. -/
def toValueKind : SigType → Except CompileError ValueType
  | .I32 => .ok .I32
  | .I64 => .ok .I64
  | .F32 => .ok .F32
  | .F64 => .ok .F64
  | .FuncRef => .ok .FuncRef
  | .ExternRef => .ok .ExternRef
  | _ => .error .releaseAssert

end wabt

namespace Walrus

open wabt

/-- The bytecode records of `interpreter/ByteCode.h` that the compiler constructs. Stack
offsets are `ByteCodeStackOffset`s, jump offsets `int32_t`. -/
inductive ByteCode where
  | Const32 (dstOffset : Nat) (value : Nat)
  | Const64 (dstOffset : Nat) (value : Nat)
  | Move32 (srcOffset dstOffset : Nat)
  | Move64 (srcOffset dstOffset : Nat)
  | BinaryOperation (code : WASMOpcode) (src0 src1 dstOffset : Nat)
  | UnaryOperation (code : WASMOpcode) (srcOffset dstOffset : Nat)
  | Load32 (srcOffset dstOffset : Nat)
  | Load64 (srcOffset dstOffset : Nat)
  | Store32 (src0 src1 : Nat)
  | Store64 (src0 src1 : Nat)
  | MemoryLoad (code : WASMOpcode) (offset srcOffset dstOffset : Nat)
  | MemoryStore (code : WASMOpcode) (offset src0 src1 : Nat)
  | GlobalGet32 (dstOffset index : Nat)
  | GlobalGet64 (dstOffset index : Nat)
  | GlobalSet32 (srcOffset index : Nat)
  | GlobalSet64 (srcOffset index : Nat)
  | Call (index : Nat) (count : Nat) (stackOffsets : List Nat)
  | CallIndirect (calleeOffset tableIndex : Nat) (functionType : FunctionType)
      (stackOffsets : List Nat)
  | Jump (offset : Int)
  | JumpIfTrue (srcOffset : Nat) (offset : Int)
  | JumpIfFalse (srcOffset : Nat) (offset : Int)
  | BrTable (condOffset tableSize : Nat) (defaultOffset : Int) (jumpOffsets : List Int)
  | Select (condOffset size src0 src1 dstOffset : Nat)
  | Throw (tagIndex offsetsSize : Nat) (dataOffsets : List Nat)
  | MemoryInit (memIndex segmentIndex src0 src1 src2 : Nat)
  | MemoryCopy (srcMemIndex dstMemIndex src0 src1 src2 : Nat)
  | MemoryFill (memIndex src0 src1 src2 : Nat)
  | DataDrop (segmentIndex : Nat)
  | MemoryGrow (memIndex srcOffset dstOffset : Nat)
  | MemorySize (memIndex dstOffset : Nat)
  | TableGet (tableIndex srcOffset dstOffset : Nat)
  | TableSet (tableIndex src0 src1 : Nat)
  | TableGrow (tableIndex src0 src1 dstOffset : Nat)
  | TableSize (tableIndex dstOffset : Nat)
  | TableCopy (dstIndex srcIndex src0 src1 src2 : Nat)
  | TableFill (tableIndex src0 src1 src2 : Nat)
  | ElemDrop (segmentIndex : Nat)
  | TableInit (tableIndex segmentIndex src0 src1 src2 : Nat)
  | RefFunc (funcIndex dstOffset : Nat)
  | Unreachable
  | End (offsetsSize : Nat) (resultOffsets : List Nat)
  deriving Repr

set_option maxHeartbeats 0 in
deriving instance DecidableEq for ByteCode

/-- What the compiler uses from declarations that are not among the sources: the pointer
size, the `sizeof` of every record type of `interpreter/ByteCode.h`,
`BrTable::offsetOfDefault()`, the numeric value of every `WASMOpcode` enumerator and the
table `g_wasmCodeInfo` (both generated from `parser/opcode.def`). -/
structure Target where
  sizeofPointer : Nat
  sizeofConst32 : Nat
  sizeofConst64 : Nat
  sizeofMove32 : Nat
  sizeofMove64 : Nat
  sizeofBinaryOperation : Nat
  sizeofUnaryOperation : Nat
  sizeofLoad32 : Nat
  sizeofLoad64 : Nat
  sizeofStore32 : Nat
  sizeofStore64 : Nat
  sizeofMemoryLoad : Nat
  sizeofMemoryStore : Nat
  sizeofGlobalGet32 : Nat
  sizeofGlobalGet64 : Nat
  sizeofGlobalSet32 : Nat
  sizeofGlobalSet64 : Nat
  sizeofCall : Nat
  sizeofCallIndirect : Nat
  sizeofJump : Nat
  sizeofJumpIfFalse : Nat
  sizeofBrTable : Nat
  offsetOfDefault : Nat
  sizeofSelect : Nat
  sizeofThrow : Nat
  sizeofMemoryOp : Nat
  sizeofTableOp : Nat
  sizeofRefFunc : Nat
  sizeofUnreachable : Nat
  sizeofEnd : Nat
  opcodeValue : WASMOpcode → Nat
  g_wasmCodeInfo : WASMOpcode → WASMCodeInfo

/-- The `sizeof` of the C++ type of a record (`JumpIfTrue` and `JumpIfFalse` have the same
size by the `static_assert` of `BlockInfo`). -/
def Target.sizeof (t : Target) : ByteCode → Nat
  | .Const32 .. => t.sizeofConst32
  | .Const64 .. => t.sizeofConst64
  | .Move32 .. => t.sizeofMove32
  | .Move64 .. => t.sizeofMove64
  | .BinaryOperation .. => t.sizeofBinaryOperation
  | .UnaryOperation .. => t.sizeofUnaryOperation
  | .Load32 .. => t.sizeofLoad32
  | .Load64 .. => t.sizeofLoad64
  | .Store32 .. => t.sizeofStore32
  | .Store64 .. => t.sizeofStore64
  | .MemoryLoad .. => t.sizeofMemoryLoad
  | .MemoryStore .. => t.sizeofMemoryStore
  | .GlobalGet32 .. => t.sizeofGlobalGet32
  | .GlobalGet64 .. => t.sizeofGlobalGet64
  | .GlobalSet32 .. => t.sizeofGlobalSet32
  | .GlobalSet64 .. => t.sizeofGlobalSet64
  | .Call .. => t.sizeofCall
  | .CallIndirect .. => t.sizeofCallIndirect
  | .Jump .. => t.sizeofJump
  | .JumpIfTrue .. => t.sizeofJumpIfFalse
  | .JumpIfFalse .. => t.sizeofJumpIfFalse
  | .BrTable .. => t.sizeofBrTable
  | .Select .. => t.sizeofSelect
  | .Throw .. => t.sizeofThrow
  | .MemoryInit .. => t.sizeofMemoryOp
  | .MemoryCopy .. => t.sizeofMemoryOp
  | .MemoryFill .. => t.sizeofMemoryOp
  | .DataDrop .. => t.sizeofMemoryOp
  | .MemoryGrow .. => t.sizeofMemoryOp
  | .MemorySize .. => t.sizeofMemoryOp
  | .TableGet .. => t.sizeofTableOp
  | .TableSet .. => t.sizeofTableOp
  | .TableGrow .. => t.sizeofTableOp
  | .TableSize .. => t.sizeofTableOp
  | .TableCopy .. => t.sizeofTableOp
  | .TableFill .. => t.sizeofTableOp
  | .ElemDrop .. => t.sizeofTableOp
  | .TableInit .. => t.sizeofTableOp
  | .RefFunc .. => t.sizeofRefFunc
  | .Unreachable => t.sizeofUnreachable
  | .End .. => t.sizeofEnd

/-- A handler record committed to a `ModuleFunction` (`ModuleFunction::CatchInfo`). -/
structure CatchInfo where
  m_tryStart : Nat
  m_tryEnd : Nat
  m_catchStart : Nat
  m_stackSizeToBe : Nat
  m_tagIndex : Nat
  deriving DecidableEq, Repr

/-- The parts of `Walrus::ModuleFunction` the compiler reads and writes. -/
structure ModuleFunction where
  m_functionType : FunctionType
  m_local : List ValueType := []
  m_requiredStackSize : Nat := 0
  m_requiredStackSizeDueToLocal : Nat := 0
  m_byteCode : List (Nat × ByteCode) := []
  m_byteCodeSize : Nat := 0
  m_catchInfo : List CatchInfo := []
  deriving DecidableEq, Repr

/-- `ModuleFunction::currentByteCodeSize`. -/
def ModuleFunction.currentByteCodeSize (mf : ModuleFunction) : Nat := mf.m_byteCodeSize

/-- `ModuleFunction::pushByteCode`: the record is written at the end of the buffer. -/
def ModuleFunction.pushByteCode (t : Target) (mf : ModuleFunction) (code : ByteCode) :
    ModuleFunction :=
  { mf with
    m_byteCode := mf.m_byteCode ++ [(mf.m_byteCodeSize, code)]
    m_byteCodeSize := mf.m_byteCodeSize + t.sizeof code }

/-- `ModuleFunction::expandByteCode`: `s` more bytes at the end of the buffer. -/
def ModuleFunction.expandByteCode (mf : ModuleFunction) (s : Nat) : ModuleFunction :=
  { mf with m_byteCodeSize := mf.m_byteCodeSize + s }

/-- The record that starts at byte position `pos`, if there is one. -/
def lookupByteCode (pos : Nat) : List (Nat × ByteCode) → Option ByteCode
  | [] => none
  | (p, c) :: rest => if p = pos then some c else lookupByteCode pos rest

/-- Rewrite the record that starts at byte position `pos` with `f`; `none` when no record
starts there or `f` does not accept the record found. -/
def updateByteCode (pos : Nat) (f : ByteCode → Option ByteCode) :
    List (Nat × ByteCode) → Option (List (Nat × ByteCode))
  | [] => none
  | (p, c) :: rest =>
    if p = pos then (f c).map (fun c' => (p, c') :: rest)
    else (updateByteCode pos f rest).map (fun rest' => (p, c) :: rest')

/-- `ModuleFunction::peekByteCode<T>(pos)` read access. -/
def ModuleFunction.peekByteCode (mf : ModuleFunction) (pos : Nat) : Option ByteCode :=
  lookupByteCode pos mf.m_byteCode

end Walrus

namespace Walrus

/-- A `Walrus::GlobalType`: value kind and mutability. -/
structure GlobalType where
  m_type : ValueType
  m_mutable : Bool
  deriving DecidableEq, Repr

/-- A `Walrus::TagType`: the index of the tag's function type. -/
structure TagType where
  m_sigIndex : Nat
  deriving DecidableEq, Repr

/-- A `Walrus::TableType`: the kind of the elements and the size limits. -/
structure TableType where
  m_type : ValueType
  m_initialSize : Nat
  m_maximumSize : Nat
  deriving DecidableEq, Repr

/-- A `Walrus::MemoryType`: the size limits. -/
structure MemoryType where
  m_initialSize : Nat
  m_maximumSize : Nat
  deriving DecidableEq, Repr

/-- `ImportType::Type`, the kind of an import. -/
inductive ImportKind where
  | Function | Global | Table | Memory | Tag
  deriving DecidableEq, Repr

/-- The type object the last argument of the constructor of `ImportType` points to. -/
inductive ImportRef where
  | function (ft : FunctionType)
  | global (g : GlobalType)
  | table (tt : TableType)
  | memory (m : MemoryType)
  | tag (tg : TagType)
  deriving DecidableEq, Repr

/-- A `Walrus::ImportType` as the parser constructs it: the kind, the module name, the
field name and the type object. -/
structure ImportType where
  m_type : ImportKind
  m_moduleName : String
  m_fieldName : String
  m_ref : ImportRef
  deriving DecidableEq, Repr

/-- The parts of `Walrus::WASMParsingResult` that function bodies and the import section
refer to. -/
structure WASMParsingResult where
  m_imports : List ImportType := []
  m_functionTypes : List FunctionType := []
  m_functions : List ModuleFunction := []
  m_globalTypes : List GlobalType := []
  m_tableTypes : List TableType := []
  m_memoryTypes : List MemoryType := []
  m_tagTypes : List TagType := []
  deriving DecidableEq, Repr

end Walrus

namespace wabt

open Walrus

/-- `WASMBinaryReader::VMStackInfo`. The sentinel `numeric_limits<size_t>::max()` of
`m_localIndex` is `none`. -/
structure VMStackInfo where
  m_size : Nat
  m_position : Nat
  m_nonOptimizedPosition : Nat
  m_localIndex : Option Nat
  deriving DecidableEq, Repr

/-- `VMStackInfo::hasValidLocalIndex`. -/
def VMStackInfo.hasValidLocalIndex (v : VMStackInfo) : Bool := v.m_localIndex.isSome

/-- `BlockInfo::BlockType`. -/
inductive BlockType where
  | IfElse | Loop | Block | TryCatch
  deriving DecidableEq, Repr

/-- `BlockInfo::JumpToEndBrInfo::JumpToEndType`. -/
inductive JumpToEndType where
  | IsJump | IsJumpIf | IsBrTable
  deriving DecidableEq, Repr

/-- `BlockInfo::JumpToEndBrInfo`. -/
structure JumpToEndBrInfo where
  m_type : JumpToEndType
  m_position : Nat
  deriving DecidableEq, Repr

/-- `WASMBinaryReader::BlockInfo`. -/
structure BlockInfo where
  m_blockType : BlockType
  m_returnValueType : SigType
  m_position : Nat
  m_vmStack : List VMStackInfo
  m_parameterPositions : List Nat
  m_functionStackSizeSoFar : Nat
  m_shouldRestoreVMStackAtEnd : Bool
  m_byteCodeGenerationStopped : Bool
  m_jumpToEndBrInfo : List JumpToEndBrInfo
  deriving DecidableEq, Repr

/-- `WASMBinaryReader::CatchInfo`, a catch clause of a try block that is still open. -/
structure CatchInfo where
  m_tryCatchBlockDepth : Nat
  m_tryStart : Nat
  m_tryEnd : Nat
  m_catchStart : Nat
  m_tagIndex : Nat
  deriving DecidableEq, Repr

/-- `WASMBinaryReader::LocalInfo`. -/
structure LocalInfo where
  m_refCount : Nat := 0
  m_canUseDirectReference : Bool := true
  deriving DecidableEq, Repr

/-- `LocalInfo::reset`. -/
def LocalInfo.reset (info : LocalInfo) : LocalInfo := { info with m_refCount := 0 }

/-- The state of `WASMBinaryReader` while a function body is compiled: its own members, the
members of the base class `WASMBinaryReaderDelegate` it uses
(`m_shouldContinueToGenerateByteCode`, `m_resumeGenerateByteCodeAfterNBlockEnd`,
`m_skipValidationUntil`), the reader offset `*m_readerOffsetPointer` and the
`ModuleFunction` that `m_currentFunction` points to. -/
structure WASMBinaryReader where
  readerOffset : Nat := 0
  m_skipValidationUntil : Nat := 0
  m_shouldContinueToGenerateByteCode : Bool := true
  m_resumeGenerateByteCodeAfterNBlockEnd : Nat := 0
  m_codeStartOffset : Nat := 0
  m_currentFunction : ModuleFunction
  m_currentFunctionType : FunctionType
  m_initialFunctionStackSize : Nat := 0
  m_functionStackSizeSoFar : Nat := 0
  m_lastByteCodePosition : Nat := 0
  m_lastPushedOpcode : WASMOpcode := WASMOpcode.OpcodeKindEnd
  m_lastOpcode : Nat × Nat := (0, 0)
  m_vmStack : List VMStackInfo := []
  m_blockInfo : List BlockInfo := []
  m_catchInfo : List CatchInfo := []
  m_localInfo : List LocalInfo := []
  m_result : WASMParsingResult := {}
  deriving DecidableEq, Repr

/-- A compilation step: a function of the reader state that ends in a value and a new
state, or in an error. -/
def M (α : Type) : Type := WASMBinaryReader → Except CompileError (α × WASMBinaryReader)

instance : Monad M where
  pure a := fun s => Except.ok (a, s)
  bind m f := fun s =>
    match m s with
    | Except.ok (a, s1) => f a s1
    | Except.error e => Except.error e

/-- Read the state. -/
def getS : M WASMBinaryReader := fun s => Except.ok (s, s)

/-- Change the state. -/
def modifyS (f : WASMBinaryReader → WASMBinaryReader) : M Unit := fun s => Except.ok ((), f s)

/-- End in an error. -/
def failM {α : Type} (e : CompileError) : M α := fun _ => Except.error e

/-- Use the result of a computation that only reads. -/
def liftE {α : Type} (x : Except CompileError α) : M α := fun s =>
  match x with
  | Except.ok a => Except.ok (a, s)
  | Except.error e => Except.error e

/-- An element of a vector; reading outside the vector is undefined. -/
def elemAt {α : Type} (l : List α) (i : Nat) : Except CompileError α :=
  match l[i]? with
  | some a => Except.ok a
  | none => Except.error CompileError.undefined

/-- Apply `f` to the reference count of local `idx`. -/
def modifyRefCount (f : Nat → Nat) : Nat → List LocalInfo → List LocalInfo
  | _, [] => []
  | 0, x :: xs => { x with m_refCount := f x.m_refCount } :: xs
  | n + 1, x :: xs => x :: modifyRefCount f n xs

/-- `VMStackInfo::increaseRefCountIfNeeds`, run when a `VMStackInfo` is constructed or
copied. -/
def increaseRefCountIfNeeds (infos : List LocalInfo) : Option Nat → List LocalInfo
  | some idx => modifyRefCount incSize idx infos
  | none => infos

/-- `VMStackInfo::decreaseRefCountIfNeeds`, run when a `VMStackInfo` is destroyed. -/
def decreaseRefCountIfNeeds (infos : List LocalInfo) : Option Nat → List LocalInfo
  | some idx => modifyRefCount decSize idx infos
  | none => infos

/-- The copy of a whole `std::vector<VMStackInfo>`: every element is copy-constructed. -/
def copyStackRefs (infos : List LocalInfo) (stack : List VMStackInfo) : List LocalInfo :=
  stack.foldl (fun acc e => increaseRefCountIfNeeds acc e.m_localIndex) infos

/-- The destruction of a whole `std::vector<VMStackInfo>`. -/
def destroyStackRefs (infos : List LocalInfo) (stack : List VMStackInfo) : List LocalInfo :=
  stack.foldl (fun acc e => decreaseRefCountIfNeeds acc e.m_localIndex) infos

namespace WASMBinaryReader

/-- `pushVMStack(size, pos, localIndex)`. -/
def pushVMStackAt (size pos : Nat) (localIndex : Option Nat) : M Unit := do
  let s ← getS
  let soFar := u32 (s.m_functionStackSizeSoFar + size)
  if soFar > 65535 then
    failM CompileError.tooManyStackUsage
  else
    modifyS fun s => { s with
      m_vmStack := s.m_vmStack ++ [⟨size, pos, s.m_functionStackSizeSoFar, localIndex⟩]
      m_localInfo := increaseRefCountIfNeeds s.m_localInfo localIndex
      m_functionStackSizeSoFar := u32 (s.m_functionStackSizeSoFar + size)
      m_currentFunction := { s.m_currentFunction with
        m_requiredStackSize := max s.m_currentFunction.m_requiredStackSize
          (u32 (s.m_functionStackSizeSoFar + size)) } }

/-- `pushVMStack(size)`. -/
def pushVMStack (size : Nat) : M Nat := do
  let s ← getS
  let pos := s.m_functionStackSizeSoFar
  pushVMStackAt size pos none
  pure pos

/-- `popVMStackInfo`. The temporary copy that is returned is accounted for as destroyed. -/
def popVMStackInfo : M VMStackInfo := do
  let s ← getS
  match s.m_vmStack.getLast? with
  | none => failM CompileError.undefined
  | some info =>
    modifyS fun s => { s with
      m_vmStack := s.m_vmStack.dropLast
      m_localInfo := decreaseRefCountIfNeeds s.m_localInfo info.m_localIndex
      m_functionStackSizeSoFar := subU32 s.m_functionStackSizeSoFar info.m_size }
    pure info

/-- `popVMStackSize`. -/
def popVMStackSize : M Nat := do
  let info ← popVMStackInfo
  pure info.m_size

/-- `popVMStack`. -/
def popVMStack : M Nat := do
  let info ← popVMStackInfo
  pure info.m_position

/-- `peekVMStackInfo`. -/
def peekVMStackInfo : M VMStackInfo := do
  let s ← getS
  match s.m_vmStack.getLast? with
  | none => failM CompileError.undefined
  | some info => pure info

/-- `peekVMStackSize`. -/
def peekVMStackSize : M Nat := do
  let info ← peekVMStackInfo
  pure info.m_size

/-- `peekVMStack`. -/
def peekVMStack : M Nat := do
  let info ← peekVMStackInfo
  pure info.m_position

/-- `resetFunctionCodeDataFromHere`. -/
def resetFunctionCodeDataFromHere : M Unit :=
  modifyS fun s =>
    { s with
      m_skipValidationUntil := s.readerOffset
      readerOffset := s.m_codeStartOffset
      m_currentFunction := { s.m_currentFunction with
        m_byteCode := []
        m_byteCodeSize := 0
        m_catchInfo := [] }
      m_blockInfo := []
      m_catchInfo := []
      m_functionStackSizeSoFar := s.m_initialFunctionStackSize
      m_lastByteCodePosition := 0
      m_lastPushedOpcode := WASMOpcode.OpcodeKindEnd
      m_lastOpcode := (0, 0)
      m_vmStack := []
      m_localInfo := s.m_localInfo.map LocalInfo.reset }

/-- `pushByteCode(code, opcode)`. -/
def pushByteCode (t : Target) (code : ByteCode) (opcode : WASMOpcode) : M Unit :=
  modifyS fun s =>
    { s with
      m_lastByteCodePosition := u32 s.m_currentFunction.currentByteCodeSize
      m_lastPushedOpcode := opcode
      m_currentFunction := s.m_currentFunction.pushByteCode t code }

/-- `m_currentFunction->expandByteCode(n)`. -/
def expandByteCode (n : Nat) : M Unit :=
  modifyS fun s => { s with m_currentFunction := s.m_currentFunction.expandByteCode n }

/-- `m_currentFunction->currentByteCodeSize()`. -/
def currentByteCodeSize : M Nat := do
  let s ← getS
  pure s.m_currentFunction.currentByteCodeSize

/-- A write through `peekByteCode<T>(pos)`: the record at `pos` is replaced by `f` of it;
undefined when no record of a type `f` accepts starts at `pos`. -/
def pokeByteCode (pos : Nat) (f : ByteCode → Option ByteCode) : M Unit := do
  let s ← getS
  match updateByteCode pos f s.m_currentFunction.m_byteCode with
  | none => failM CompileError.undefined
  | some code =>
    modifyS fun s => { s with m_currentFunction := { s.m_currentFunction with m_byteCode := code } }

/-- `canUseDirectReference(localIndex, pos)`; `pos` is a `uint32_t` parameter. -/
def canUseDirectReference (s : WASMBinaryReader) (localIndex pos : Nat) :
    Except CompileError Bool :=
  if s.m_blockInfo.any (fun bi => bi.m_parameterPositions.any (fun p => decide (u32 pos = p))) then
    Except.ok false
  else do
    let info ← elemAt s.m_localInfo localIndex
    pure info.m_canUseDirectReference

/-- `resolveLocalOffsetAndSize(localIndex)`; the result is a pair of `uint32_t`. -/
def resolveLocalOffsetAndSize (t : Target) (s : WASMBinaryReader) (localIndex : Nat) :
    Except CompileError (Nat × Nat) :=
  let param := s.m_currentFunctionType.param
  if localIndex < param.length then do
    let offset := ((param.take localIndex).map (valueSizeInStack t.sizeofPointer)).sum
    let ty ← elemAt param localIndex
    pure (u32 offset, u32 (valueSizeInStack t.sizeofPointer ty))
  else do
    let localIndex := localIndex - param.length
    let offset := s.m_currentFunctionType.paramStackSize t.sizeofPointer
      + (((s.m_currentFunction.m_local).take localIndex).map (valueSizeInStack t.sizeofPointer)).sum
    let ty ← elemAt s.m_currentFunction.m_local localIndex
    pure (u32 offset, u32 (valueSizeInStack t.sizeofPointer ty))

/-- `generateMoveCodeIfNeeds(srcPosition, dstPosition, size)`. -/
def generateMoveCodeIfNeeds (t : Target) (srcPosition dstPosition size : Nat) : M Unit :=
  if srcPosition ≠ dstPosition then
    if size = 4 then
      pushByteCode t (ByteCode.Move32 (u16 srcPosition) (u16 dstPosition)) WASMOpcode.Move32
    else
      pushByteCode t (ByteCode.Move64 (u16 srcPosition) (u16 dstPosition)) WASMOpcode.Move64
  else
    pure ()

/-- `isBinaryOperation`: the opcodes of `FOR_EACH_BYTECODE_BINARY_OP`. -/
def isBinaryOperation : WASMOpcode → Bool
  | WASMOpcode.Binary _ => true
  | _ => false

/-- `BinaryOperation::setDstOffset` seen through `peekByteCode<BinaryOperation>`. -/
def setDstOffsetBinary (o : Nat) : ByteCode → Option ByteCode
  | ByteCode.BinaryOperation code s0 s1 _ => some (ByteCode.BinaryOperation code s0 s1 (u16 o))
  | _ => none

/-- `Const32::setDstOffset` seen through `peekByteCode<Const32>`. -/
def setDstOffsetConst32 (o : Nat) : ByteCode → Option ByteCode
  | ByteCode.Const32 _ v => some (ByteCode.Const32 (u16 o) v)
  | _ => none

/-- `Const64::setDstOffset` seen through `peekByteCode<Const64>`. -/
def setDstOffsetConst64 (o : Nat) : ByteCode → Option ByteCode
  | ByteCode.Const64 _ v => some (ByteCode.Const64 (u16 o) v)
  | _ => none

/-- `Jump::setOffset` seen through `peekByteCode<Jump>`. -/
def setOffsetJump (o : Int) : ByteCode → Option ByteCode
  | ByteCode.Jump _ => some (ByteCode.Jump (i32 o))
  | _ => none

/-- `JumpIfFalse::setOffset` seen through `peekByteCode<JumpIfFalse>`; `JumpIfTrue` has the
same layout and is patched through the same view. -/
def setOffsetJumpIf (o : Int) : ByteCode → Option ByteCode
  | ByteCode.JumpIfFalse src _ => some (ByteCode.JumpIfFalse src (i32 o))
  | ByteCode.JumpIfTrue src _ => some (ByteCode.JumpIfTrue src (i32 o))
  | _ => none

/-- `omitUpdateLocalValueIfPossible(localIndex, localOffsetAndSize, stack)`. -/
def omitUpdateLocalValueIfPossible (t : Target) (localIndex : Nat)
    (localOffsetAndSize : Nat × Nat) (stack : VMStackInfo) : M Bool := do
  let s ← getS
  let direct ← liftE (canUseDirectReference s localIndex stack.m_position)
  if direct && decide (stack.m_position ≠ localOffsetAndSize.1) && !stack.hasValidLocalIndex then
    if decide (s.m_lastOpcode.2 = u32 (t.opcodeValue s.m_lastPushedOpcode))
        && isBinaryOperation s.m_lastPushedOpcode then
      pokeByteCode s.m_lastByteCodePosition (setDstOffsetBinary localOffsetAndSize.1)
      pure true
    else
      match s.m_lastPushedOpcode with
      | WASMOpcode.Const32 =>
        pokeByteCode s.m_lastByteCodePosition (setDstOffsetConst32 localOffsetAndSize.1)
        pure true
      | WASMOpcode.Const64 =>
        pokeByteCode s.m_lastByteCodePosition (setDstOffsetConst64 localOffsetAndSize.1)
        pure true
      | _ => pure false
  else
    pure false

/-- `OnOpcode(opcode)`. -/
def OnOpcode (opcode : Nat) : M Unit :=
  modifyS fun s => { s with m_lastOpcode := (u32 opcode, s.m_lastOpcode.1) }

/-- `OnI32ConstExpr(value)`. -/
def OnI32ConstExpr (t : Target) (value : Nat) : M Unit := do
  let dst ← pushVMStack (valueSizeInStack t.sizeofPointer ValueType.I32)
  pushByteCode t (ByteCode.Const32 (u16 dst) value) WASMOpcode.I32Const

/-- `OnI64ConstExpr(value)`. -/
def OnI64ConstExpr (t : Target) (value : Nat) : M Unit := do
  let dst ← pushVMStack (valueSizeInStack t.sizeofPointer ValueType.I64)
  pushByteCode t (ByteCode.Const64 (u16 dst) value) WASMOpcode.I64Const

/-- `OnF32ConstExpr(value)`. -/
def OnF32ConstExpr (t : Target) (value : Nat) : M Unit := do
  let dst ← pushVMStack (valueSizeInStack t.sizeofPointer ValueType.F32)
  pushByteCode t (ByteCode.Const32 (u16 dst) value) WASMOpcode.F32Const

/-- `OnF64ConstExpr(value)`. -/
def OnF64ConstExpr (t : Target) (value : Nat) : M Unit := do
  let dst ← pushVMStack (valueSizeInStack t.sizeofPointer ValueType.F64)
  pushByteCode t (ByteCode.Const64 (u16 dst) value) WASMOpcode.F64Const

/-- `OnLocalGetExpr(localIndex)`. -/
def OnLocalGetExpr (t : Target) (localIndex : Nat) : M Unit := do
  let s ← getS
  let r ← liftE (resolveLocalOffsetAndSize t s localIndex)
  let direct ← liftE (canUseDirectReference s localIndex s.m_functionStackSizeSoFar)
  if direct then
    pushVMStackAt r.2 r.1 (some localIndex)
  else
    let pos := s.m_functionStackSizeSoFar
    pushVMStackAt r.2 pos (some localIndex)
    generateMoveCodeIfNeeds t r.1 pos r.2

/-- The write `m_localInfo[localIndex].m_canUseDirectReference = false`. -/
def clearDirectReference : Nat → List LocalInfo → List LocalInfo
  | _, [] => []
  | 0, x :: xs => { x with m_canUseDirectReference := false } :: xs
  | n + 1, x :: xs => x :: clearDirectReference n xs

/-- `OnLocalSetExpr(localIndex)`. -/
def OnLocalSetExpr (t : Target) (localIndex : Nat) : M Unit := do
  let s ← getS
  let r ← liftE (resolveLocalOffsetAndSize t s localIndex)
  let info ← liftE (elemAt s.m_localInfo localIndex)
  let top ← (if info.m_refCount ≠ 0 ∧ info.m_canUseDirectReference = true then do
      let top ← peekVMStackInfo
      pure (decide (top.m_position ≠ r.1))
    else pure false)
  if top then
    -- rewind generating bytecode
    modifyS fun s => { s with m_localInfo := clearDirectReference localIndex s.m_localInfo }
    resetFunctionCodeDataFromHere
  else
    let src ← popVMStackInfo
    let omitted ← omitUpdateLocalValueIfPossible t localIndex r src
    if !omitted then
      generateMoveCodeIfNeeds t src.m_position r.1 r.2
    else
      pure ()

/-- `OnLocalTeeExpr(localIndex)`. -/
def OnLocalTeeExpr (t : Target) (localIndex : Nat) : M Unit := do
  let s ← getS
  let info ← liftE (elemAt s.m_localInfo localIndex)
  if info.m_refCount ≠ 0 ∧ info.m_canUseDirectReference = true then
    modifyS fun s => { s with m_localInfo := clearDirectReference localIndex s.m_localInfo }
    resetFunctionCodeDataFromHere
  else
    let r ← liftE (resolveLocalOffsetAndSize t s localIndex)
    let dstInfo ← peekVMStackInfo
    let omitted ← omitUpdateLocalValueIfPossible t localIndex r dstInfo
    if omitted then
      let oldInfo ← popVMStackInfo
      pushVMStackAt oldInfo.m_size r.1 (some localIndex)
    else
      generateMoveCodeIfNeeds t dstInfo.m_position r.1 r.2

/-- `OnGlobalGetExpr(index)`. -/
def OnGlobalGetExpr (t : Target) (index : Nat) : M Unit := do
  let s ← getS
  let g ← liftE (elemAt s.m_result.m_globalTypes index)
  let sz := valueSizeInStack t.sizeofPointer g.m_type
  let stackPos ← pushVMStack sz
  if sz = 4 then
    pushByteCode t (ByteCode.GlobalGet32 (u16 stackPos) index) WASMOpcode.GlobalGet
  else
    pushByteCode t (ByteCode.GlobalGet64 (u16 stackPos) index) WASMOpcode.GlobalGet

/-- `OnGlobalSetExpr(index)`. -/
def OnGlobalSetExpr (t : Target) (index : Nat) : M Unit := do
  let stackPos ← peekVMStack
  let s ← getS
  let g ← liftE (elemAt s.m_result.m_globalTypes index)
  let sz := valueSizeInStack t.sizeofPointer g.m_type
  if sz = 4 then
    pushByteCode t (ByteCode.GlobalSet32 (u16 stackPos) index) WASMOpcode.GlobalSet
  else
    pushByteCode t (ByteCode.GlobalSet64 (u16 stackPos) index) WASMOpcode.GlobalSet
  let _ ← popVMStack

/-- `OnDropExpr`. -/
def OnDropExpr : M Unit := do
  let _ ← popVMStack

/-- `generateBinaryCode(code, src0, src1, dst)`: one `case` per opcode of
`FOR_EACH_BYTECODE_BINARY_OP`, nothing in the `default` case. -/
def generateBinaryCode (t : Target) (code : WASMOpcode) (src0 src1 dst : Nat) : M Unit :=
  if isBinaryOperation code then
    pushByteCode t (ByteCode.BinaryOperation code (u16 src0) (u16 src1) (u16 dst)) code
  else
    pure ()

/-- The opcodes of `FOR_EACH_BYTECODE_UNARY_OP` and `FOR_EACH_BYTECODE_UNARY_OP_2`. -/
def isUnaryOperation : WASMOpcode → Bool
  | WASMOpcode.Unary _ => true
  | WASMOpcode.I32Eqz => true
  | WASMOpcode.I64Eqz => true
  | _ => false

/-- `generateUnaryCode(code, src, dst)`. -/
def generateUnaryCode (t : Target) (code : WASMOpcode) (src dst : Nat) : M Unit :=
  if isUnaryOperation code then
    pushByteCode t (ByteCode.UnaryOperation code (u16 src) (u16 dst)) code
  else
    pure ()

/-- `OnBinaryExpr(opcode)`. -/
def OnBinaryExpr (t : Target) (code : WASMOpcode) : M Unit := do
  let src1 ← popVMStack
  let src0 ← popVMStack
  let dst ← pushVMStack (codeTypeToMemorySize (t.g_wasmCodeInfo code).m_resultType)
  generateBinaryCode t code src0 src1 dst

/-- `OnUnaryExpr(opcode)`. -/
def OnUnaryExpr (t : Target) (code : WASMOpcode) : M Unit := do
  let src ← popVMStack
  let dst ← pushVMStack (codeTypeToMemorySize (t.g_wasmCodeInfo code).m_resultType)
  match code with
  | WASMOpcode.I32ReinterpretF32 =>
    generateMoveCodeIfNeeds t src dst (codeTypeToMemorySize (t.g_wasmCodeInfo code).m_resultType)
  | WASMOpcode.I64ReinterpretF64 =>
    generateMoveCodeIfNeeds t src dst (codeTypeToMemorySize (t.g_wasmCodeInfo code).m_resultType)
  | WASMOpcode.F32ReinterpretI32 =>
    generateMoveCodeIfNeeds t src dst (codeTypeToMemorySize (t.g_wasmCodeInfo code).m_resultType)
  | WASMOpcode.F64ReinterpretI64 =>
    generateMoveCodeIfNeeds t src dst (codeTypeToMemorySize (t.g_wasmCodeInfo code).m_resultType)
  | _ => generateUnaryCode t code src dst

/-- Run `f` on the elements of a list, first to last. -/
def forEachM {α : Type} (f : α → M Unit) : List α → M Unit
  | [] => pure ()
  | a :: rest => do
    f a
    forEachM f rest

/-- The function type a block signature of index kind names, `m_result.m_functionTypes[type]`. -/
def functionTypeAt (s : WASMBinaryReader) (i : Nat) : Except CompileError FunctionType :=
  elemAt s.m_result.m_functionTypes i

/-- The constructor `BlockInfo(type, returnValueType, binaryReader)`. The VM stack is copied
by the member initialisers, before the parameters are moved to their registers. -/
def newBlockInfo (t : Target) (type : BlockType) (returnValueType : SigType) : M BlockInfo := do
  let s ← getS
  let snapshot := s.m_vmStack
  let soFar := s.m_functionStackSizeSoFar
  modifyS fun s => { s with m_localInfo := copyStackRefs s.m_localInfo snapshot }
  let parameterPositions ← (match returnValueType with
    | SigType.Index i => do
      let ft ← liftE (functionTypeAt s i)
      let n := ft.param.length
      if n ≠ 0 then
        if n > s.m_vmStack.length then
          failM CompileError.undefined
        else
          -- record parameter positions
          let top := (s.m_vmStack.reverse).take n
          -- assign local values which use direct-access into general register
          forEachM (fun (e : VMStackInfo) =>
            if e.m_position ≠ e.m_nonOptimizedPosition then
              generateMoveCodeIfNeeds t e.m_position e.m_nonOptimizedPosition e.m_size
            else pure ()) top
          modifyS fun s1 => { s1 with
            m_vmStack := s1.m_vmStack.take (s1.m_vmStack.length - n)
              ++ (s1.m_vmStack.drop (s1.m_vmStack.length - n)).map
                  (fun e => { e with m_position := e.m_nonOptimizedPosition }) }
          pure (top.map (fun e => u32 e.m_nonOptimizedPosition))
      else
        pure []
    | _ => pure [])
  let position ← currentByteCodeSize
  pure {
    m_blockType := type
    m_returnValueType := returnValueType
    m_position := position
    m_vmStack := snapshot
    m_parameterPositions := parameterPositions
    m_functionStackSizeSoFar := soFar
    m_shouldRestoreVMStackAtEnd := false
    m_byteCodeGenerationStopped := false
    m_jumpToEndBrInfo := [] }

/-- `m_blockInfo.push_back(b)`. -/
def pushBlockInfo (b : BlockInfo) : M Unit :=
  modifyS fun s => { s with m_blockInfo := s.m_blockInfo ++ [b] }

/-- `OnIfExpr(sigType)`. -/
def OnIfExpr (t : Target) (sigType : SigType) : M Unit := do
  let stackPos ← popVMStack
  let b ← newBlockInfo t BlockType.IfElse sigType
  pushBlockInfo { b with
    m_jumpToEndBrInfo := b.m_jumpToEndBrInfo ++ [⟨JumpToEndType.IsJumpIf, b.m_position⟩] }
  pushByteCode t (ByteCode.JumpIfFalse (u16 stackPos) 0) WASMOpcode.If

/-- `OnLoopExpr(sigType)`. -/
def OnLoopExpr (t : Target) (sigType : SigType) : M Unit := do
  let b ← newBlockInfo t BlockType.Loop sigType
  pushBlockInfo b

/-- `OnBlockExpr(sigType)`. -/
def OnBlockExpr (t : Target) (sigType : SigType) : M Unit := do
  let b ← newBlockInfo t BlockType.Block sigType
  pushBlockInfo b

/-- `OnTryExpr(sigType)`. -/
def OnTryExpr (t : Target) (sigType : SigType) : M Unit := do
  let b ← newBlockInfo t BlockType.TryCatch sigType
  pushBlockInfo b

/-- `restoreVMStackBy(blockInfo)`: the vector assignment destroys the old entries and copies
the entries of the snapshot. -/
def restoreVMStackBy (blockInfo : BlockInfo) : M Unit :=
  modifyS fun s => { s with
    m_localInfo := copyStackRefs (destroyStackRefs s.m_localInfo s.m_vmStack) blockInfo.m_vmStack
    m_vmStack := blockInfo.m_vmStack
    m_functionStackSizeSoFar := blockInfo.m_functionStackSizeSoFar }

/-- Run `f` `n` times. -/
def repeatM (f : M Unit) : Nat → M Unit
  | 0 => pure ()
  | n + 1 => do
    f
    repeatM f n

/-- `restoreVMStackRegardToPartOfBlockEnd(blockInfo)`. -/
def restoreVMStackRegardToPartOfBlockEnd (blockInfo : BlockInfo) : M Unit := do
  if blockInfo.m_shouldRestoreVMStackAtEnd then
    restoreVMStackBy blockInfo
  else
    match blockInfo.m_returnValueType with
    | SigType.Index i =>
      let s ← getS
      let ft ← liftE (functionTypeAt s i)
      if ft.param.length ≠ 0 then
        restoreVMStackBy blockInfo
      else
        repeatM (do let _ ← popVMStackSize) ft.result.length
    | SigType.Void => pure ()
    | _ =>
      let _ ← popVMStackSize

/-- The block `depth` levels out from the innermost one, `*(m_blockInfo.rbegin() + depth)`. -/
def blockAtDepth (s : WASMBinaryReader) (depth : Nat) : Except CompileError BlockInfo :=
  if depth < s.m_blockInfo.length then
    elemAt s.m_blockInfo (s.m_blockInfo.length - 1 - depth)
  else
    Except.error CompileError.undefined

/-- `findBlockInfoInBr(depth)`. -/
def findBlockInfoInBr (s : WASMBinaryReader) (depth : Nat) : Except CompileError BlockInfo :=
  blockAtDepth s depth

/-- Replace an element of a vector. -/
def modifyAt {α : Type} (f : α → α) : Nat → List α → List α
  | _, [] => []
  | 0, x :: xs => f x :: xs
  | n + 1, x :: xs => x :: modifyAt f n xs

/-- A write to the block `depth` levels out from the innermost one. -/
def modifyBlockAtDepth (depth : Nat) (f : BlockInfo → BlockInfo) : M Unit :=
  modifyS fun s => { s with
    m_blockInfo := modifyAt f (s.m_blockInfo.length - 1 - depth) s.m_blockInfo }

/-- `stopToGenerateByteCodeWhileBlockEnd`. -/
def stopToGenerateByteCodeWhileBlockEnd : M Unit := do
  let s ← getS
  if s.m_resumeGenerateByteCodeAfterNBlockEnd ≠ 0 then
    pure ()
  else
    if s.m_blockInfo.length ≠ 0 then
      modifyS fun s => { s with
        m_resumeGenerateByteCodeAfterNBlockEnd := 1
        m_blockInfo := modifyAt (fun b => { b with
            m_shouldRestoreVMStackAtEnd := true
            m_byteCodeGenerationStopped := true }) (s.m_blockInfo.length - 1) s.m_blockInfo
        m_shouldContinueToGenerateByteCode := false }
    else
      modifyS fun s => { s with m_shouldContinueToGenerateByteCode := false }

/-- The sum of the sizes of the entries `m_vmStack[start ..]`. -/
def sizeAbove (stack : List VMStackInfo) (start : Nat) : Nat :=
  ((stack.drop start).map (fun e => e.m_size)).sum

/-- `dropStackValuesBeforeBrIfNeeds(depth)`: the drop size and the parameter size. -/
def dropStackValuesBeforeBrIfNeeds (t : Target) (s : WASMBinaryReader) (depth : Nat) :
    Except CompileError (Nat × Nat) :=
  if depth < s.m_blockInfo.length then do
    let iter ← blockAtDepth s depth
    if iter.m_vmStack.length < s.m_vmStack.length then
      let dropValueSize := sizeAbove s.m_vmStack iter.m_vmStack.length
      if iter.m_blockType = BlockType.Loop then
        match iter.m_returnValueType with
        | SigType.Index i => do
          let ft ← functionTypeAt s i
          pure (dropValueSize + ft.paramStackSize t.sizeofPointer, ft.paramStackSize t.sizeofPointer)
        | _ => pure (dropValueSize, 0)
      else
        match iter.m_returnValueType with
        | SigType.Index i => do
          let ft ← functionTypeAt s i
          pure (dropValueSize, (ft.result.map (valueSizeInStack t.sizeofPointer)).sum)
        | SigType.Void => pure (dropValueSize, 0)
        | ty => do
          let k ← toValueKind ty
          pure (dropValueSize, valueSizeInStack t.sizeofPointer k)
    else
      pure (0, 0)
  else
    match s.m_blockInfo with
    | [] => pure (0, 0)
    | iter :: _ => pure (sizeAbove s.m_vmStack iter.m_vmStack.length, 0)

/-- The search loops of `generateMoveValuesCodeRegardToDrop`: walk down from the top of the
stack (`rev` is the stack, top first) until the sizes passed add up to `remainSize`.
`some idx` is the distance of the entry found from the top, `none` the case
"stack mismatch"; walking past the bottom of the stack is undefined. -/
def findIterBySize : Int → Nat → List VMStackInfo → Except CompileError (Option Nat)
  | _, _, [] => Except.error CompileError.undefined
  | remainSize, idx, e :: rest =>
    let remain := remainSize - (e.m_size : Int)
    if remain = 0 then Except.ok (some idx)
    else if remain < 0 then Except.ok none
    else findIterBySize remain (idx + 1) rest

/-- The copy loop of `generateMoveValuesCodeRegardToDrop`, "reverse order copy to protect
newer values": `srcIdx` and `dstIdx` are distances from the top, `srcIter--` and
`dstIter--` move towards the top; stepping above the top is undefined. -/
def moveValuesLoop (t : Target) (rev : List VMStackInfo) : Nat → Nat → Int → M Unit
  | 0, dstIdx, remainSize => do
    let src ← liftE (elemAt rev 0)
    let dst ← liftE (elemAt rev dstIdx)
    generateMoveCodeIfNeeds t src.m_position dst.m_nonOptimizedPosition src.m_size
    if remainSize - (src.m_size : Int) = 0 then pure () else failM CompileError.undefined
  | srcIdx + 1, dstIdx, remainSize => do
    let src ← liftE (elemAt rev (srcIdx + 1))
    let dst ← liftE (elemAt rev dstIdx)
    generateMoveCodeIfNeeds t src.m_position dst.m_nonOptimizedPosition src.m_size
    if remainSize - (src.m_size : Int) = 0 then pure ()
    else
      match dstIdx with
      | 0 => failM CompileError.undefined
      | d + 1 => moveValuesLoop t rev srcIdx d (remainSize - (src.m_size : Int))

/-- `generateMoveValuesCodeRegardToDrop(dropSize)`. -/
def generateMoveValuesCodeRegardToDrop (t : Target) (dropSize : Nat × Nat) : M Unit := do
  let s ← getS
  let rev := s.m_vmStack.reverse
  let srcIter ← liftE (findIterBySize (dropSize.2 : Int) 0 rev)
  match srcIter with
  | none => pure ()
  | some srcIdx =>
    let dstIter ← liftE (findIterBySize (dropSize.1 : Int) 0 rev)
    match dstIter with
    | none => pure ()
    | some dstIdx => moveValuesLoop t rev srcIdx dstIdx (dropSize.2 : Int)

/-- `keepSubResultsIfNeeds`. In the condition
`(IsIndex() && m_functionTypes[type]->result().size()) || type != Type::Void` the second
disjunct holds for every index type, so for an index type the function type is read and the
condition is true whatever its result count. -/
def keepSubResultsIfNeeds (t : Target) : M Unit := do
  let s ← getS
  let blockInfo ← liftE (blockAtDepth s 0)
  let hasResult ← (match blockInfo.m_returnValueType with
    | SigType.Index i => do
      let _ ← liftE (functionTypeAt s i)
      pure true
    | SigType.Void => pure false
    | _ => pure true)
  if hasResult then
    modifyBlockAtDepth 0 (fun b => { b with m_shouldRestoreVMStackAtEnd := true })
    let s1 ← getS
    let dropSize ← liftE (dropStackValuesBeforeBrIfNeeds t s1 0)
    if dropSize.2 ≠ 0 then
      generateMoveValuesCodeRegardToDrop t dropSize
    else
      pure ()
  else
    pure ()

/-- `End::resultOffsets()` written through `peekByteCode<End>`. -/
def setResultOffsets (offsets : List Nat) : ByteCode → Option ByteCode
  | ByteCode.End n _ => some (ByteCode.End n offsets)
  | _ => none

/-- `generateEndCode`. The loop stores the positions of the top `n` entries of the VM stack
in source order (`resultOffsets()[n - i - 1]` is the entry `i` below the top). -/
def generateEndCode (t : Target) : M Unit := do
  let s ← getS
  let n := s.m_currentFunctionType.result.length
  if n > s.m_vmStack.length then
    -- error case of global init expr
    pure ()
  else
    let pos ← currentByteCodeSize
    pushByteCode t (ByteCode.End n (List.replicate n 0)) WASMOpcode.End
    expandByteCode (2 * n)
    pokeByteCode pos (setResultOffsets
      ((s.m_vmStack.drop (s.m_vmStack.length - n)).map (fun e => u16 e.m_position)))

/-- Subtraction on `size_t`. -/
def subSize (a b : Nat) : Nat :=
  (a % 18446744073709551616 + 18446744073709551616 - b % 18446744073709551616)
    % 18446744073709551616

/-- The loop `while (dropSize) { dropSize -= popVMStackSize(); }` of
`generateFunctionReturnCode`; every pass pops an entry, so `fuel` above the height of the
stack is never used up. -/
def popWhileDropSize : Nat → Nat → M Unit
  | _, 0 => pure ()
  | 0, _ + 1 => failM CompileError.undefined
  | fuel + 1, dropSize + 1 => do
    let sz ← popVMStackSize
    popWhileDropSize fuel (subSize (dropSize + 1) sz)

/-- `generateFunctionReturnCode(shouldClearVMStack)`. -/
def generateFunctionReturnCode (t : Target) (shouldClearVMStack : Bool) : M Unit := do
  generateEndCode t
  if shouldClearVMStack then
    let s ← getS
    let dropSize ← liftE (dropStackValuesBeforeBrIfNeeds t s s.m_blockInfo.length)
    popWhileDropSize (s.m_vmStack.length + 1) dropSize.1
  else
    let s ← getS
    repeatM (do let _ ← popVMStackSize) s.m_currentFunctionType.result.length
    stopToGenerateByteCodeWhileBlockEnd
  let s ← getS
  if s.m_blockInfo.length = 0 then
    -- stop to generate bytecode from here!
    modifyS fun s => { s with
      m_shouldContinueToGenerateByteCode := false
      m_resumeGenerateByteCodeAfterNBlockEnd := 0 }
  else
    pure ()

/-- `blockInfo.m_jumpToEndBrInfo.push_back(...)` on the block found by `findBlockInfoInBr`,
done when the block is a `Block` or an `IfElse`. -/
def pushJumpToEndIfBlockOrIfElse (depth : Nat) (blockInfo : BlockInfo) (type : JumpToEndType)
    (position : Nat) : M Unit :=
  if blockInfo.m_blockType = BlockType.Block ∨ blockInfo.m_blockType = BlockType.IfElse then
    modifyBlockAtDepth depth (fun b => { b with
      m_jumpToEndBrInfo := b.m_jumpToEndBrInfo ++ [⟨type, position⟩] })
  else
    pure ()

/-- `OnBrExpr(depth)`. -/
def OnBrExpr (t : Target) (depth : Nat) : M Unit := do
  let s ← getS
  if s.m_blockInfo.length = depth then
    -- this case acts like return
    generateFunctionReturnCode t true
  else
    let blockInfo ← liftE (findBlockInfoInBr s depth)
    let offset := i32 (i32 (blockInfo.m_position : Int)
      - i32 (s.m_currentFunction.currentByteCodeSize : Int))
    let dropSize ← liftE (dropStackValuesBeforeBrIfNeeds t s depth)
    if dropSize.2 ≠ 0 then
      generateMoveValuesCodeRegardToDrop t dropSize
    else
      pure ()
    let pos ← currentByteCodeSize
    pushJumpToEndIfBlockOrIfElse depth blockInfo JumpToEndType.IsJump pos
    pushByteCode t (ByteCode.Jump offset) WASMOpcode.Br
    stopToGenerateByteCodeWhileBlockEnd

/-- `OnBrIfExpr(depth)`. -/
def OnBrIfExpr (t : Target) (depth : Nat) : M Unit := do
  let s ← getS
  if s.m_blockInfo.length = depth then
    -- this case acts like return
    let stackPos ← popVMStack
    pushByteCode t (ByteCode.JumpIfFalse (u16 stackPos)
      (i32 ((t.sizeofJumpIfFalse + t.sizeofEnd + 2 * s.m_currentFunctionType.result.length : Nat)
        : Int))) WASMOpcode.BrIf
    generateEndCode t
  else
    let stackPos ← popVMStack
    let s1 ← getS
    let blockInfo ← liftE (findBlockInfoInBr s1 depth)
    let dropSize ← liftE (dropStackValuesBeforeBrIfNeeds t s1 depth)
    if dropSize.2 ≠ 0 then
      let pos ← currentByteCodeSize
      pushByteCode t (ByteCode.JumpIfFalse (u16 stackPos) 0) WASMOpcode.BrIf
      generateMoveValuesCodeRegardToDrop t dropSize
      let cur ← currentByteCodeSize
      let offset := i32 (i32 (blockInfo.m_position : Int) - i32 (cur : Int))
      pushJumpToEndIfBlockOrIfElse depth blockInfo JumpToEndType.IsJump cur
      pushByteCode t (ByteCode.Jump offset) WASMOpcode.BrIf
      let cur2 ← currentByteCodeSize
      pokeByteCode pos (setOffsetJumpIf ((cur2 : Int) - (pos : Int)))
    else
      let cur ← currentByteCodeSize
      let offset := i32 (i32 (blockInfo.m_position : Int) - i32 (cur : Int))
      pushJumpToEndIfBlockOrIfElse depth blockInfo JumpToEndType.IsJumpIf cur
      pushByteCode t (ByteCode.JumpIfTrue (u16 stackPos) offset) WASMOpcode.BrIf

/-- The `int32_t` at byte `rel` of a `BrTable` record followed by its table: the member
`m_defaultOffset` at `offsetOfDefault()`, the table entries from `sizeof(BrTable)` on. -/
def writeBrTableSlot (t : Target) (rel : Nat) (f : Int → Int) : ByteCode → Option ByteCode
  | ByteCode.BrTable cond n dflt offs =>
    if rel = t.offsetOfDefault then
      some (ByteCode.BrTable cond n (f dflt) offs)
    else if t.sizeofBrTable ≤ rel ∧ (rel - t.sizeofBrTable) % 4 = 0
        ∧ (rel - t.sizeofBrTable) / 4 < offs.length then
      some (ByteCode.BrTable cond n dflt
        (modifyAt f ((rel - t.sizeofBrTable) / 4) offs))
    else
      none
  | _ => none

/-- A write through `peekByteCode<int32_t>(pos)`, the `int32_t` at byte `pos` of the buffer:
it belongs to the record that starts at or before `pos` and has an `int32_t` there. -/
def updateInt32At (t : Target) (pos : Nat) (f : Int → Int) :
    List (Nat × ByteCode) → Option (List (Nat × ByteCode))
  | [] => none
  | (p, c) :: rest =>
    match (if p ≤ pos then writeBrTableSlot t (pos - p) f c else none) with
    | some c1 => some ((p, c1) :: rest)
    | none => (updateInt32At t pos f rest).map (fun rest1 => (p, c) :: rest1)

/-- The read-modify-write of the `int32_t` at byte `pos` of the buffer. -/
def pokeInt32 (t : Target) (pos : Nat) (f : Int → Int) : M Unit := do
  let s ← getS
  match updateInt32At t pos f s.m_currentFunction.m_byteCode with
  | none => failM CompileError.undefined
  | some code =>
    modifyS fun s => { s with m_currentFunction := { s.m_currentFunction with m_byteCode := code } }

/-- `emitBrTableCase(brTableCode, depth, jumpOffset)`. -/
def emitBrTableCase (t : Target) (brTableCode depth jumpOffset : Nat) : M Unit := do
  let s ← getS
  let offset := i32 ((s.m_currentFunction.currentByteCodeSize : Int) - (brTableCode : Int))
  if s.m_blockInfo.length = depth then
    -- this case acts like return
    pokeByteCode brTableCode (writeBrTableSlot t jumpOffset (fun _ => offset))
    generateEndCode t
  else
    let dropSize ← liftE (dropStackValuesBeforeBrIfNeeds t s depth)
    if dropSize.2 ≠ 0 then
      pokeByteCode brTableCode (writeBrTableSlot t jumpOffset (fun _ => offset))
      OnBrExpr t depth
    else
      let blockInfo ← liftE (findBlockInfoInBr s depth)
      if blockInfo.m_blockType = BlockType.Block ∨ blockInfo.m_blockType = BlockType.IfElse then
        modifyBlockAtDepth depth (fun b => { b with
          m_jumpToEndBrInfo := b.m_jumpToEndBrInfo
            ++ [⟨JumpToEndType.IsBrTable, brTableCode + jumpOffset⟩] })
        pokeByteCode brTableCode (writeBrTableSlot t jumpOffset (fun _ => i32 (jumpOffset : Int)))
      else
        pokeByteCode brTableCode (writeBrTableSlot t jumpOffset
          (fun _ => i32 ((blockInfo.m_position : Int) - (brTableCode : Int))))

/-- `OnBrTableExpr(numTargets, targetDepths, defaultTargetDepth)`. -/
def OnBrTableExpr (t : Target) (targetDepths : List Nat) (defaultTargetDepth : Nat) :
    M Unit := do
  let stackPos ← popVMStack
  let brTableCode ← currentByteCodeSize
  let numTargets := targetDepths.length
  pushByteCode t (ByteCode.BrTable (u16 stackPos) (u32 numTargets) 0
    (List.replicate numTargets 0)) WASMOpcode.BrTable
  if numTargets ≠ 0 then
    expandByteCode (4 * numTargets)
    forEachM (fun (p : Nat × Nat) => emitBrTableCase t brTableCode p.2 (t.sizeofBrTable + p.1 * 4))
      targetDepths.enum
  else
    pure ()
  -- generate default
  emitBrTableCase t brTableCode defaultTargetDepth t.offsetOfDefault
  stopToGenerateByteCodeWhileBlockEnd

/-- `OnElseExpr`. -/
def OnElseExpr (t : Target) : M Unit := do
  keepSubResultsIfNeeds t
  let s ← getS
  let blockInfo ← liftE (blockAtDepth s 0)
  if blockInfo.m_jumpToEndBrInfo.length = 0 then
    failM CompileError.undefined
  else
    let pos ← currentByteCodeSize
    modifyBlockAtDepth 0 (fun b => { b with
      m_jumpToEndBrInfo := b.m_jumpToEndBrInfo.tail ++ [⟨JumpToEndType.IsJump, pos⟩] })
    pushByteCode t (ByteCode.Jump 0) WASMOpcode.Else
    let s1 ← getS
    let blockInfo1 ← liftE (blockAtDepth s1 0)
    restoreVMStackRegardToPartOfBlockEnd blockInfo1
    let cur ← currentByteCodeSize
    pokeByteCode blockInfo1.m_position
      (setOffsetJumpIf ((cur : Int) - (blockInfo1.m_position : Int)))

/-- The `TryCatch` case of `OnEndExpr`: every pending catch of the block that ends is
committed to the function and erased. `depth` is `m_blockInfo.size()` after the block was
popped, `snapshotSize` is `blockInfo.m_vmStack.size()`. -/
def commitCatchInfo (s : WASMBinaryReader) (depth snapshotSize : Nat) :
    List CatchInfo → Except CompileError (List Walrus.CatchInfo × List CatchInfo)
  | [] => Except.ok ([], [])
  | c :: rest =>
    if decSize c.m_tryCatchBlockDepth ≠ depth then do
      let r ← commitCatchInfo s depth snapshotSize rest
      pure (r.1, c :: r.2)
    else if snapshotSize > s.m_vmStack.length then
      Except.error CompileError.undefined
    else do
      let stackSizeToBe := s.m_initialFunctionStackSize
        + ((s.m_vmStack.take snapshotSize).map (fun e => e.m_size)).sum
      let r ← commitCatchInfo s depth snapshotSize rest
      pure (⟨c.m_tryStart, c.m_tryEnd, c.m_catchStart, stackSizeToBe, c.m_tagIndex⟩ :: r.1, r.2)

/-- The loop over `blockInfo.m_jumpToEndBrInfo` at the end of `OnEndExpr`. -/
def patchJumpToEnd (t : Target) (info : JumpToEndBrInfo) : M Unit := do
  let cur ← currentByteCodeSize
  match info.m_type with
  | JumpToEndType.IsJump =>
    pokeByteCode info.m_position (setOffsetJump ((cur : Int) - (info.m_position : Int)))
  | JumpToEndType.IsJumpIf =>
    pokeByteCode info.m_position (setOffsetJumpIf ((cur : Int) - (info.m_position : Int)))
  | JumpToEndType.IsBrTable =>
    pokeInt32 t info.m_position (fun offset => i32 ((cur : Int) + offset - (info.m_position : Int)))

/-- `pushVMStack(valueSizeInStack(k))` for the kinds of a list, first to last. -/
def pushVMStackKinds (t : Target) : List ValueType → M (List Nat)
  | [] => pure []
  | k :: rest => do
    let pos ← pushVMStack (valueSizeInStack t.sizeofPointer k)
    let more ← pushVMStackKinds t rest
    pure (pos :: more)

/-- `OnEndExpr`. The copy `blockInfo` of the block that ends is destroyed when the function
returns; its reference counts are released here, where the block leaves `m_blockInfo`. -/
def OnEndExpr (t : Target) : M Unit := do
  let s ← getS
  if s.m_blockInfo.length ≠ 0 then
    let dropSize ← liftE (dropStackValuesBeforeBrIfNeeds t s 0)
    let blockInfo ← liftE (blockAtDepth s 0)
    modifyS fun s => { s with
      m_blockInfo := s.m_blockInfo.dropLast
      m_localInfo := destroyStackRefs s.m_localInfo blockInfo.m_vmStack }
    let stopHere ← (match blockInfo.m_blockType with
      | BlockType.TryCatch => do
        let s1 ← getS
        let r ← liftE (commitCatchInfo s1 s1.m_blockInfo.length blockInfo.m_vmStack.length
          s1.m_catchInfo)
        modifyS fun s => { s with
          m_catchInfo := r.2
          m_currentFunction := { s.m_currentFunction with
            m_catchInfo := s.m_currentFunction.m_catchInfo ++ r.1 } }
        pure false
      | BlockType.IfElse => pure false
      | _ =>
        pure (blockInfo.m_byteCodeGenerationStopped
          && decide (blockInfo.m_jumpToEndBrInfo.length = 0)))
    if stopHere then
      stopToGenerateByteCodeWhileBlockEnd
    else
      if blockInfo.m_shouldRestoreVMStackAtEnd then
        if dropSize.2 ≠ 0 then
          generateMoveValuesCodeRegardToDrop t dropSize
        else
          pure ()
        restoreVMStackBy blockInfo
        match blockInfo.m_returnValueType with
        | SigType.Index i =>
          let s2 ← getS
          let ft ← liftE (functionTypeAt s2 i)
          repeatM (do let _ ← popVMStack) ft.param.length
          let _ ← pushVMStackKinds t ft.result
        | SigType.Void => pure ()
        | ty =>
          let k ← liftE (toValueKind ty)
          let _ ← pushVMStack (valueSizeInStack t.sizeofPointer k)
      else
        pure ()
      forEachM (patchJumpToEnd t) blockInfo.m_jumpToEndBrInfo
  else
    generateEndCode t

/-- `OnUnreachableExpr`. -/
def OnUnreachableExpr (t : Target) : M Unit := do
  pushByteCode t ByteCode.Unreachable WASMOpcode.Unreachable
  stopToGenerateByteCodeWhileBlockEnd

/-- `OnReturnExpr`. -/
def OnReturnExpr (t : Target) : M Unit :=
  generateFunctionReturnCode t false

/-- `OnNopExpr`. -/
def OnNopExpr : M Unit := pure ()

/-- The parameters of a tag, `m_functionTypes[m_tagTypes[tagIndex]->sigIndex()]->param()`. -/
def tagFunctionType (s : WASMBinaryReader) (tagIndex : Nat) : Except CompileError FunctionType := do
  let tag ← elemAt s.m_result.m_tagTypes tagIndex
  functionTypeAt s tag.m_sigIndex

/-- `Throw::dataOffsets()` written through `peekByteCode<Throw>`. -/
def setDataOffsets (offsets : List Nat) : ByteCode → Option ByteCode
  | ByteCode.Throw tag n _ => some (ByteCode.Throw tag n offsets)
  | _ => none

/-- `OnThrowExpr(tagIndex)`; `4294967295` is `numeric_limits<Index>::max()`, the rethrow-all
tag. -/
def OnThrowExpr (t : Target) (tagIndex : Nat) : M Unit := do
  let s ← getS
  let pos ← currentByteCodeSize
  if tagIndex ≠ 4294967295 then
    let functionType ← liftE (tagFunctionType s tagIndex)
    let n := functionType.param.length
    pushByteCode t (ByteCode.Throw tagIndex (u32 n) (List.replicate n 0)) WASMOpcode.Throw
    expandByteCode (2 * n)
    if n > s.m_vmStack.length then
      failM CompileError.undefined
    else
      pokeByteCode pos (setDataOffsets
        ((s.m_vmStack.drop (s.m_vmStack.length - n)).map (fun e => u16 e.m_position)))
      repeatM (do let _ ← popVMStack) n
  else
    pushByteCode t (ByteCode.Throw tagIndex 0 []) WASMOpcode.Throw
  stopToGenerateByteCodeWhileBlockEnd

/-- `processCatchExpr(tagIndex)`. -/
def processCatchExpr (t : Target) (tagIndex : Nat) : M Unit := do
  keepSubResultsIfNeeds t
  let s ← getS
  let blockInfo ← liftE (blockAtDepth s 0)
  restoreVMStackRegardToPartOfBlockEnd blockInfo
  let cur ← currentByteCodeSize
  let s1 ← getS
  let tryEnd := (match s1.m_catchInfo.getLast? with
    | some last => if last.m_tryCatchBlockDepth = s1.m_blockInfo.length then last.m_tryEnd else cur
    | none => cur)
  modifyBlockAtDepth 0 (fun b => { b with
    m_jumpToEndBrInfo := b.m_jumpToEndBrInfo ++ [⟨JumpToEndType.IsJump, cur⟩] })
  pushByteCode t (ByteCode.Jump 0) WASMOpcode.Catch
  let s2 ← getS
  let block2 ← liftE (blockAtDepth s2 0)
  modifyS fun s => { s with
    m_catchInfo := s.m_catchInfo ++ [⟨s.m_blockInfo.length, block2.m_position, tryEnd,
      s.m_currentFunction.currentByteCodeSize, u32 tagIndex⟩] }
  if tagIndex ≠ 4294967295 then
    let functionType ← liftE (tagFunctionType s2 tagIndex)
    let _ ← pushVMStackKinds t functionType.param
  else
    pure ()

/-- `OnCatchExpr(tagIndex)`. -/
def OnCatchExpr (t : Target) (tagIndex : Nat) : M Unit :=
  processCatchExpr t tagIndex

/-- `OnCatchAllExpr`. -/
def OnCatchAllExpr (t : Target) : M Unit :=
  processCatchExpr t 4294967295

/-- The loop `stackOffsets()[siz - c++ - 1] = popVMStack()` of the call handlers: `n` pops,
the positions returned in source order. -/
def popVMStackArgs : Nat → M (List Nat)
  | 0 => pure []
  | n + 1 => do
    let p ← popVMStack
    let rest ← popVMStackArgs n
    pure (rest ++ [p])

/-- `Call::stackOffsets()` and `CallIndirect::stackOffsets()` written through
`peekByteCode`. -/
def setStackOffsets (offsets : List Nat) : ByteCode → Option ByteCode
  | ByteCode.Call index n _ => some (ByteCode.Call index n offsets)
  | ByteCode.CallIndirect callee table ft _ => some (ByteCode.CallIndirect callee table ft offsets)
  | _ => none

/-- `OnCallExpr(index)`. -/
def OnCallExpr (t : Target) (index : Nat) : M Unit := do
  let s ← getS
  let f ← liftE (elemAt s.m_result.m_functions index)
  let functionType := f.m_functionType
  let callPos ← currentByteCodeSize
  let count := functionType.param.length + functionType.result.length
  pushByteCode t (ByteCode.Call index (u32 count) (List.replicate count 0)) WASMOpcode.Call
  expandByteCode (2 * count)
  let args ← popVMStackArgs functionType.param.length
  let results ← pushVMStackKinds t functionType.result
  pokeByteCode callPos (setStackOffsets ((args ++ results).map u16))

/-- `OnCallIndirectExpr(sigIndex, tableIndex)`. -/
def OnCallIndirectExpr (t : Target) (sigIndex tableIndex : Nat) : M Unit := do
  let s ← getS
  let functionType ← liftE (functionTypeAt s sigIndex)
  let callPos ← currentByteCodeSize
  let callee ← popVMStack
  let count := functionType.param.length + functionType.result.length
  pushByteCode t (ByteCode.CallIndirect (u16 callee) tableIndex functionType
    (List.replicate count 0)) WASMOpcode.CallIndirect
  expandByteCode (2 * count)
  let args ← popVMStackArgs functionType.param.length
  let results ← pushVMStackKinds t functionType.result
  pokeByteCode callPos (setStackOffsets ((args ++ results).map u16))

/-- `OnSelectExpr(resultCount, resultTypes)`. -/
def OnSelectExpr (t : Target) : M Unit := do
  let stackPos ← popVMStack
  let size ← peekVMStackSize
  let src1 ← popVMStack
  let src0 ← popVMStack
  let dst ← pushVMStack size
  pushByteCode t (ByteCode.Select (u16 stackPos) size (u16 src0) (u16 src1) (u16 dst))
    WASMOpcode.Select

/-- `OnMemoryInitExpr(segmentIndex, memidx)`. -/
def OnMemoryInitExpr (t : Target) (segmentIndex memidx : Nat) : M Unit := do
  let src2 ← popVMStack
  let src1 ← popVMStack
  let src0 ← popVMStack
  pushByteCode t (ByteCode.MemoryInit memidx segmentIndex (u16 src0) (u16 src1) (u16 src2))
    WASMOpcode.MemoryInit

/-- `OnMemoryCopyExpr(srcMemIndex, dstMemIndex)`. -/
def OnMemoryCopyExpr (t : Target) (srcMemIndex dstMemIndex : Nat) : M Unit := do
  let src2 ← popVMStack
  let src1 ← popVMStack
  let src0 ← popVMStack
  pushByteCode t (ByteCode.MemoryCopy srcMemIndex dstMemIndex (u16 src0) (u16 src1) (u16 src2))
    WASMOpcode.MemoryCopy

/-- `OnMemoryFillExpr(memidx)`. -/
def OnMemoryFillExpr (t : Target) (memidx : Nat) : M Unit := do
  let src2 ← popVMStack
  let src1 ← popVMStack
  let src0 ← popVMStack
  pushByteCode t (ByteCode.MemoryFill memidx (u16 src0) (u16 src1) (u16 src2))
    WASMOpcode.MemoryFill

/-- `OnDataDropExpr(segmentIndex)`. -/
def OnDataDropExpr (t : Target) (segmentIndex : Nat) : M Unit :=
  pushByteCode t (ByteCode.DataDrop segmentIndex) WASMOpcode.DataDrop

/-- `OnMemoryGrowExpr(memidx)`. -/
def OnMemoryGrowExpr (t : Target) (memidx : Nat) : M Unit := do
  let src ← popVMStack
  let dst ← pushVMStack (valueSizeInStack t.sizeofPointer ValueType.I32)
  pushByteCode t (ByteCode.MemoryGrow memidx (u16 src) (u16 dst)) WASMOpcode.MemoryGrow

/-- `OnMemorySizeExpr(memidx)`. -/
def OnMemorySizeExpr (t : Target) (memidx : Nat) : M Unit := do
  let stackPos ← pushVMStack (valueSizeInStack t.sizeofPointer ValueType.I32)
  pushByteCode t (ByteCode.MemorySize memidx (u16 stackPos)) WASMOpcode.MemorySize

/-- `OnTableGetExpr(tableIndex)`. -/
def OnTableGetExpr (t : Target) (tableIndex : Nat) : M Unit := do
  let src ← popVMStack
  let dst ← pushVMStack (valueSizeInStack t.sizeofPointer ValueType.FuncRef)
  pushByteCode t (ByteCode.TableGet tableIndex (u16 src) (u16 dst)) WASMOpcode.TableGet

/-- `OnTableSetExpr(table_index)`. -/
def OnTableSetExpr (t : Target) (tableIndex : Nat) : M Unit := do
  let src1 ← popVMStack
  let src0 ← popVMStack
  pushByteCode t (ByteCode.TableSet tableIndex (u16 src0) (u16 src1)) WASMOpcode.TableSet

/-- `OnTableGrowExpr(table_index)`. -/
def OnTableGrowExpr (t : Target) (tableIndex : Nat) : M Unit := do
  let src1 ← popVMStack
  let src0 ← popVMStack
  let dst ← pushVMStack (valueSizeInStack t.sizeofPointer ValueType.I32)
  pushByteCode t (ByteCode.TableGrow tableIndex (u16 src0) (u16 src1) (u16 dst))
    WASMOpcode.TableGrow

/-- `OnTableSizeExpr(table_index)`. -/
def OnTableSizeExpr (t : Target) (tableIndex : Nat) : M Unit := do
  let dst ← pushVMStack (valueSizeInStack t.sizeofPointer ValueType.I32)
  pushByteCode t (ByteCode.TableSize tableIndex (u16 dst)) WASMOpcode.TableSize

/-- `OnTableCopyExpr(dst_index, src_index)`. -/
def OnTableCopyExpr (t : Target) (dstIndex srcIndex : Nat) : M Unit := do
  let src2 ← popVMStack
  let src1 ← popVMStack
  let src0 ← popVMStack
  pushByteCode t (ByteCode.TableCopy dstIndex srcIndex (u16 src0) (u16 src1) (u16 src2))
    WASMOpcode.TableCopy

/-- `OnTableFillExpr(table_index)`. -/
def OnTableFillExpr (t : Target) (tableIndex : Nat) : M Unit := do
  let src2 ← popVMStack
  let src1 ← popVMStack
  let src0 ← popVMStack
  pushByteCode t (ByteCode.TableFill tableIndex (u16 src0) (u16 src1) (u16 src2))
    WASMOpcode.TableFill

/-- `OnElemDropExpr(segmentIndex)`. -/
def OnElemDropExpr (t : Target) (segmentIndex : Nat) : M Unit :=
  pushByteCode t (ByteCode.ElemDrop segmentIndex) WASMOpcode.ElemDrop

/-- `OnTableInitExpr(segmentIndex, tableIndex)`. -/
def OnTableInitExpr (t : Target) (segmentIndex tableIndex : Nat) : M Unit := do
  let src2 ← popVMStack
  let src1 ← popVMStack
  let src0 ← popVMStack
  pushByteCode t (ByteCode.TableInit tableIndex segmentIndex (u16 src0) (u16 src1) (u16 src2))
    WASMOpcode.TableInit

/-- The opcodes of `FOR_EACH_BYTECODE_LOAD_OP`. -/
def isLoadOperation : WASMOpcode → Bool
  | WASMOpcode.Load _ => true
  | WASMOpcode.I32Load => true
  | WASMOpcode.I64Load => true
  | WASMOpcode.F32Load => true
  | WASMOpcode.F64Load => true
  | _ => false

/-- The opcodes of `FOR_EACH_BYTECODE_STORE_OP`. -/
def isStoreOperation : WASMOpcode → Bool
  | WASMOpcode.Store _ => true
  | WASMOpcode.I32Store => true
  | WASMOpcode.I64Store => true
  | WASMOpcode.F32Store => true
  | WASMOpcode.F64Store => true
  | _ => false

/-- `generateMemoryLoadCode(code, offset, src, dst)`. -/
def generateMemoryLoadCode (t : Target) (code : WASMOpcode) (offset src dst : Nat) : M Unit :=
  if isLoadOperation code then
    pushByteCode t (ByteCode.MemoryLoad code (u32 offset) (u16 src) (u16 dst)) code
  else
    pure ()

/-- `generateMemoryStoreCode(code, offset, src0, src1)`. -/
def generateMemoryStoreCode (t : Target) (code : WASMOpcode) (offset src0 src1 : Nat) : M Unit :=
  if isStoreOperation code then
    pushByteCode t (ByteCode.MemoryStore code (u32 offset) (u16 src0) (u16 src1)) code
  else
    pure ()

/-- `OnLoadExpr(opcode, memidx, alignmentLog2, offset)`. -/
def OnLoadExpr (t : Target) (code : WASMOpcode) (offset : Nat) : M Unit := do
  let src ← popVMStack
  let dst ← pushVMStack (codeTypeToMemorySize (t.g_wasmCodeInfo code).m_resultType)
  match code with
  | WASMOpcode.I32Load =>
    if offset = 0 then pushByteCode t (ByteCode.Load32 (u16 src) (u16 dst)) code
    else generateMemoryLoadCode t code offset src dst
  | WASMOpcode.F32Load =>
    if offset = 0 then pushByteCode t (ByteCode.Load32 (u16 src) (u16 dst)) code
    else generateMemoryLoadCode t code offset src dst
  | WASMOpcode.I64Load =>
    if offset = 0 then pushByteCode t (ByteCode.Load64 (u16 src) (u16 dst)) code
    else generateMemoryLoadCode t code offset src dst
  | WASMOpcode.F64Load =>
    if offset = 0 then pushByteCode t (ByteCode.Load64 (u16 src) (u16 dst)) code
    else generateMemoryLoadCode t code offset src dst
  | _ => generateMemoryLoadCode t code offset src dst

/-- `OnStoreExpr(opcode, memidx, alignmentLog2, offset)`. -/
def OnStoreExpr (t : Target) (code : WASMOpcode) (offset : Nat) : M Unit := do
  let src1 ← popVMStack
  let src0 ← popVMStack
  match code with
  | WASMOpcode.I32Store =>
    if offset = 0 then pushByteCode t (ByteCode.Store32 (u16 src0) (u16 src1)) code
    else generateMemoryStoreCode t code offset src0 src1
  | WASMOpcode.F32Store =>
    if offset = 0 then pushByteCode t (ByteCode.Store32 (u16 src0) (u16 src1)) code
    else generateMemoryStoreCode t code offset src0 src1
  | WASMOpcode.I64Store =>
    if offset = 0 then pushByteCode t (ByteCode.Store64 (u16 src0) (u16 src1)) code
    else generateMemoryStoreCode t code offset src0 src1
  | WASMOpcode.F64Store =>
    if offset = 0 then pushByteCode t (ByteCode.Store64 (u16 src0) (u16 src1)) code
    else generateMemoryStoreCode t code offset src0 src1
  | _ => generateMemoryStoreCode t code offset src0 src1

/-- `OnRefFuncExpr(func_index)`. -/
def OnRefFuncExpr (t : Target) (funcIndex : Nat) : M Unit := do
  let dst ← pushVMStack (valueSizeInStack t.sizeofPointer ValueType.FuncRef)
  pushByteCode t (ByteCode.RefFunc funcIndex (u16 dst)) WASMOpcode.RefFunc

/-- `OnRefNullExpr(type)`; `Value::Null` is the null reference, whose bits are zero. -/
def OnRefNullExpr (t : Target) : M Unit := do
  let dst ← pushVMStack (valueSizeInStack t.sizeofPointer ValueType.FuncRef)
  if t.sizeofPointer = 4 then
    pushByteCode t (ByteCode.Const32 (u16 dst) 0) WASMOpcode.Const32
  else
    pushByteCode t (ByteCode.Const64 (u16 dst) 0) WASMOpcode.Const64

/-- `OnRefIsNullExpr`. -/
def OnRefIsNullExpr (t : Target) : M Unit := do
  let src ← popVMStack
  let dst ← pushVMStack (valueSizeInStack t.sizeofPointer ValueType.I32)
  if t.sizeofPointer = 4 then
    pushByteCode t (ByteCode.UnaryOperation WASMOpcode.I32Eqz (u16 src) (u16 dst))
      WASMOpcode.RefIsNull
  else
    pushByteCode t (ByteCode.UnaryOperation WASMOpcode.I64Eqz (u16 src) (u16 dst))
      WASMOpcode.RefIsNull

end WASMBinaryReader

/-- The instruction events of a function body, as the binary reader delivers them to the
delegate. -/
inductive Event where
  | OnOpcode (opcode : Nat)
  | OnCallExpr (index : Nat)
  | OnCallIndirectExpr (sigIndex tableIndex : Nat)
  | OnI32ConstExpr (value : Nat)
  | OnI64ConstExpr (value : Nat)
  | OnF32ConstExpr (value : Nat)
  | OnF64ConstExpr (value : Nat)
  | OnLocalGetExpr (localIndex : Nat)
  | OnLocalSetExpr (localIndex : Nat)
  | OnLocalTeeExpr (localIndex : Nat)
  | OnGlobalGetExpr (index : Nat)
  | OnGlobalSetExpr (index : Nat)
  | OnDropExpr
  | OnBinaryExpr (code : WASMOpcode)
  | OnUnaryExpr (code : WASMOpcode)
  | OnIfExpr (sigType : SigType)
  | OnElseExpr
  | OnLoopExpr (sigType : SigType)
  | OnBlockExpr (sigType : SigType)
  | OnBrExpr (depth : Nat)
  | OnBrIfExpr (depth : Nat)
  | OnBrTableExpr (targetDepths : List Nat) (defaultTargetDepth : Nat)
  | OnSelectExpr
  | OnThrowExpr (tagIndex : Nat)
  | OnTryExpr (sigType : SigType)
  | OnCatchExpr (tagIndex : Nat)
  | OnCatchAllExpr
  | OnMemoryInitExpr (segmentIndex memidx : Nat)
  | OnMemoryCopyExpr (srcMemIndex dstMemIndex : Nat)
  | OnMemoryFillExpr (memidx : Nat)
  | OnDataDropExpr (segmentIndex : Nat)
  | OnMemoryGrowExpr (memidx : Nat)
  | OnMemorySizeExpr (memidx : Nat)
  | OnTableGetExpr (tableIndex : Nat)
  | OnTableSetExpr (tableIndex : Nat)
  | OnTableGrowExpr (tableIndex : Nat)
  | OnTableSizeExpr (tableIndex : Nat)
  | OnTableCopyExpr (dstIndex srcIndex : Nat)
  | OnTableFillExpr (tableIndex : Nat)
  | OnElemDropExpr (segmentIndex : Nat)
  | OnTableInitExpr (segmentIndex tableIndex : Nat)
  | OnLoadExpr (code : WASMOpcode) (offset : Nat)
  | OnStoreExpr (code : WASMOpcode) (offset : Nat)
  | OnRefFuncExpr (funcIndex : Nat)
  | OnRefNullExpr
  | OnRefIsNullExpr
  | OnNopExpr
  | OnReturnExpr
  | OnEndExpr
  | OnUnreachableExpr
  deriving Repr

/-- The handler the delegate runs for an event. -/
def Event.handler (t : Target) : Event → M Unit
  | .OnOpcode opcode => WASMBinaryReader.OnOpcode opcode
  | .OnCallExpr index => WASMBinaryReader.OnCallExpr t index
  | .OnCallIndirectExpr sigIndex tableIndex => WASMBinaryReader.OnCallIndirectExpr t sigIndex tableIndex
  | .OnI32ConstExpr value => WASMBinaryReader.OnI32ConstExpr t value
  | .OnI64ConstExpr value => WASMBinaryReader.OnI64ConstExpr t value
  | .OnF32ConstExpr value => WASMBinaryReader.OnF32ConstExpr t value
  | .OnF64ConstExpr value => WASMBinaryReader.OnF64ConstExpr t value
  | .OnLocalGetExpr localIndex => WASMBinaryReader.OnLocalGetExpr t localIndex
  | .OnLocalSetExpr localIndex => WASMBinaryReader.OnLocalSetExpr t localIndex
  | .OnLocalTeeExpr localIndex => WASMBinaryReader.OnLocalTeeExpr t localIndex
  | .OnGlobalGetExpr index => WASMBinaryReader.OnGlobalGetExpr t index
  | .OnGlobalSetExpr index => WASMBinaryReader.OnGlobalSetExpr t index
  | .OnDropExpr => WASMBinaryReader.OnDropExpr
  | .OnBinaryExpr code => WASMBinaryReader.OnBinaryExpr t code
  | .OnUnaryExpr code => WASMBinaryReader.OnUnaryExpr t code
  | .OnIfExpr sigType => WASMBinaryReader.OnIfExpr t sigType
  | .OnElseExpr => WASMBinaryReader.OnElseExpr t
  | .OnLoopExpr sigType => WASMBinaryReader.OnLoopExpr t sigType
  | .OnBlockExpr sigType => WASMBinaryReader.OnBlockExpr t sigType
  | .OnBrExpr depth => WASMBinaryReader.OnBrExpr t depth
  | .OnBrIfExpr depth => WASMBinaryReader.OnBrIfExpr t depth
  | .OnBrTableExpr targetDepths defaultTargetDepth =>
    WASMBinaryReader.OnBrTableExpr t targetDepths defaultTargetDepth
  | .OnSelectExpr => WASMBinaryReader.OnSelectExpr t
  | .OnThrowExpr tagIndex => WASMBinaryReader.OnThrowExpr t tagIndex
  | .OnTryExpr sigType => WASMBinaryReader.OnTryExpr t sigType
  | .OnCatchExpr tagIndex => WASMBinaryReader.OnCatchExpr t tagIndex
  | .OnCatchAllExpr => WASMBinaryReader.OnCatchAllExpr t
  | .OnMemoryInitExpr segmentIndex memidx => WASMBinaryReader.OnMemoryInitExpr t segmentIndex memidx
  | .OnMemoryCopyExpr srcMemIndex dstMemIndex => WASMBinaryReader.OnMemoryCopyExpr t srcMemIndex dstMemIndex
  | .OnMemoryFillExpr memidx => WASMBinaryReader.OnMemoryFillExpr t memidx
  | .OnDataDropExpr segmentIndex => WASMBinaryReader.OnDataDropExpr t segmentIndex
  | .OnMemoryGrowExpr memidx => WASMBinaryReader.OnMemoryGrowExpr t memidx
  | .OnMemorySizeExpr memidx => WASMBinaryReader.OnMemorySizeExpr t memidx
  | .OnTableGetExpr tableIndex => WASMBinaryReader.OnTableGetExpr t tableIndex
  | .OnTableSetExpr tableIndex => WASMBinaryReader.OnTableSetExpr t tableIndex
  | .OnTableGrowExpr tableIndex => WASMBinaryReader.OnTableGrowExpr t tableIndex
  | .OnTableSizeExpr tableIndex => WASMBinaryReader.OnTableSizeExpr t tableIndex
  | .OnTableCopyExpr dstIndex srcIndex => WASMBinaryReader.OnTableCopyExpr t dstIndex srcIndex
  | .OnTableFillExpr tableIndex => WASMBinaryReader.OnTableFillExpr t tableIndex
  | .OnElemDropExpr segmentIndex => WASMBinaryReader.OnElemDropExpr t segmentIndex
  | .OnTableInitExpr segmentIndex tableIndex => WASMBinaryReader.OnTableInitExpr t segmentIndex tableIndex
  | .OnLoadExpr code offset => WASMBinaryReader.OnLoadExpr t code offset
  | .OnStoreExpr code offset => WASMBinaryReader.OnStoreExpr t code offset
  | .OnRefFuncExpr funcIndex => WASMBinaryReader.OnRefFuncExpr t funcIndex
  | .OnRefNullExpr => WASMBinaryReader.OnRefNullExpr t
  | .OnRefIsNullExpr => WASMBinaryReader.OnRefIsNullExpr t
  | .OnNopExpr => WASMBinaryReader.OnNopExpr
  | .OnReturnExpr => WASMBinaryReader.OnReturnExpr t
  | .OnEndExpr => WASMBinaryReader.OnEndExpr t
  | .OnUnreachableExpr => WASMBinaryReader.OnUnreachableExpr t

/-- The state after the handlers of a list of events have run one after the other. -/
def runEvents (t : Target) : List Event → WASMBinaryReader → Except CompileError WASMBinaryReader
  | [], s => Except.ok s
  | e :: rest, s =>
    match e.handler t s with
    | Except.ok (_, s1) => runEvents t rest s1
    | Except.error err => Except.error err

end wabt

namespace wabt

open Walrus

namespace WASMBinaryReader

/-- `beginFunction(mf)`. -/
def beginFunction (t : Target) (mf : ModuleFunction) : M Unit :=
  modifyS fun s =>
    let soFar := u32 (mf.m_functionType.paramStackSize t.sizeofPointer)
    { s with
      m_currentFunction := { mf with m_requiredStackSize := max mf.m_requiredStackSize soFar }
      m_currentFunctionType := mf.m_functionType
      m_localInfo := mf.m_functionType.param.map (fun _ => ({} : LocalInfo))
      m_initialFunctionStackSize := soFar
      m_functionStackSizeSoFar := soFar
      m_lastByteCodePosition := 0
      m_lastPushedOpcode := WASMOpcode.OpcodeKindEnd }

/-- One pass of the loop of `OnLocalDecl`. -/
def declareLocal (t : Target) (wType : ValueType) (s : WASMBinaryReader) : WASMBinaryReader :=
  let sz := valueSizeInStack t.sizeofPointer wType
  { s with
    m_currentFunction := { s.m_currentFunction with
      m_local := s.m_currentFunction.m_local ++ [wType]
      m_requiredStackSizeDueToLocal := u32 (s.m_currentFunction.m_requiredStackSizeDueToLocal + sz) }
    m_localInfo := s.m_localInfo ++ [({} : LocalInfo)]
    m_initialFunctionStackSize := u32 (s.m_initialFunctionStackSize + sz)
    m_functionStackSizeSoFar := u32 (s.m_functionStackSizeSoFar + sz) }

/-- `OnLocalDecl(decl_index, count, type)`. -/
def OnLocalDecl (t : Target) (count : Nat) (type : SigType) : M Unit := do
  if count ≠ 0 then
    let wType ← liftE (toValueKind type)
    modifyS fun s => Nat.iterate (declareLocal t wType) count s
  else
    pure ()
  modifyS fun s => { s with
    m_currentFunction := { s.m_currentFunction with
      m_requiredStackSize := max s.m_currentFunction.m_requiredStackSize s.m_functionStackSizeSoFar } }

/-- `OnStartReadInstructions`. -/
def OnStartReadInstructions : M Unit :=
  modifyS fun s => { s with m_codeStartOffset := s.readerOffset }

end WASMBinaryReader

end wabt

namespace Walrus

open wabt

/-- The bytes `frame[off .. off + n)` of a frame read as a little-endian number. -/
def readFrame (frame : List Nat) (off : Nat) : Nat → Nat
  | 0 => 0
  | n + 1 => frame.getD off 0 + 256 * readFrame frame (off + 1) n

/-- The frame after the `n` low bytes of `v` were stored at `frame[off .. off + n)`. -/
def writeFrame (frame : List Nat) (off : Nat) (v : Nat) : Nat → List Nat
  | 0 => frame
  | n + 1 => writeFrame (frame.set off (v % 256)) (off + 1) (v / 256) n

/-- The values at the result offsets of an `End` record. -/
def readResults (ptr : Nat) (frame : List Nat) : List Nat → List ValueType → List Nat
  | off :: offs, k :: ks => readFrame frame off (valueSizeInStack ptr k) :: readResults ptr frame offs ks
  | _, _ => []

/-- Modelled from the spec: the interpreter loop of `interpreter/Interpreter.cpp`, which is not
among the sources, for the records `Const32`, `Const64`, `Move32`, `Move64`, `Jump`,
`JumpIfTrue`, `JumpIfFalse` and `End`. The spec says: a record operates on the bit
patterns at its frame offsets, advances `programCounter` by its stride, a branch offset is
relative to the start of its own record, `JumpIfTrue`/`JumpIfFalse` test the 32-bit value
at their condition offset, and `End` hands back the values at its result offsets. Any
other record, a position where no record starts, and the end of `fuel` give no result. -/
def interpret (t : Target) (mf : ModuleFunction) : Nat → Nat → List Nat → Option (List Nat)
  | 0, _, _ => none
  | fuel + 1, programCounter, frame =>
    match mf.peekByteCode programCounter with
    | some (ByteCode.Const32 dst v) =>
      interpret t mf fuel (programCounter + t.sizeofConst32) (writeFrame frame dst v 4)
    | some (ByteCode.Const64 dst v) =>
      interpret t mf fuel (programCounter + t.sizeofConst64) (writeFrame frame dst v 8)
    | some (ByteCode.Move32 src dst) =>
      interpret t mf fuel (programCounter + t.sizeofMove32)
        (writeFrame frame dst (readFrame frame src 4) 4)
    | some (ByteCode.Move64 src dst) =>
      interpret t mf fuel (programCounter + t.sizeofMove64)
        (writeFrame frame dst (readFrame frame src 8) 8)
    | some (ByteCode.Jump offset) =>
      interpret t mf fuel ((programCounter : Int) + offset).toNat frame
    | some (ByteCode.JumpIfTrue src offset) =>
      if readFrame frame src 4 ≠ 0 then
        interpret t mf fuel ((programCounter : Int) + offset).toNat frame
      else
        interpret t mf fuel (programCounter + t.sizeofJumpIfFalse) frame
    | some (ByteCode.JumpIfFalse src offset) =>
      if readFrame frame src 4 ≠ 0 then
        interpret t mf fuel (programCounter + t.sizeofJumpIfFalse) frame
      else
        interpret t mf fuel ((programCounter : Int) + offset).toNat frame
    | some (ByteCode.End _ offsets) =>
      some (readResults t.sizeofPointer frame offsets mf.m_functionType.result)
    | _ => none

/-- The frame a call starts with: `m_requiredStackSize` bytes, the arguments stored at the
parameter slots, everything else zero. -/
def initialFrame (ptr : Nat) (size : Nat) : Nat → List ValueType → List Nat → List Nat
  | off, k :: ks, v :: vs =>
    writeFrame (initialFrame ptr size (off + valueSizeInStack ptr k) ks vs) off v
      (valueSizeInStack ptr k)
  | _, _, _ => List.replicate size 0

/-- Modelled from the spec: a call of a compiled function (`DefinedFunction::call`, not among
the sources): the interpreter runs from position 0 on the initial frame. -/
def callFunction (t : Target) (mf : ModuleFunction) (fuel : Nat) (args : List Nat) :
    Option (List Nat) :=
  interpret t mf fuel 0
    (initialFrame t.sizeofPointer mf.m_requiredStackSize 0 mf.m_functionType.param args)

/-- A target for the worked examples: the record sizes of a build with 8-byte pointers
(every record starts with the 8-byte address of its handler), and a numbering of the
opcodes. -/
def exampleTarget : Target where
  sizeofPointer := 8
  sizeofConst32 := 16
  sizeofConst64 := 24
  sizeofMove32 := 16
  sizeofMove64 := 16
  sizeofBinaryOperation := 16
  sizeofUnaryOperation := 16
  sizeofLoad32 := 16
  sizeofLoad64 := 16
  sizeofStore32 := 16
  sizeofStore64 := 16
  sizeofMemoryLoad := 16
  sizeofMemoryStore := 16
  sizeofGlobalGet32 := 16
  sizeofGlobalGet64 := 16
  sizeofGlobalSet32 := 16
  sizeofGlobalSet64 := 16
  sizeofCall := 16
  sizeofCallIndirect := 24
  sizeofJump := 16
  sizeofJumpIfFalse := 16
  sizeofBrTable := 24
  offsetOfDefault := 12
  sizeofSelect := 24
  sizeofThrow := 16
  sizeofMemoryOp := 24
  sizeofTableOp := 24
  sizeofRefFunc := 16
  sizeofUnreachable := 8
  sizeofEnd := 16
  opcodeValue := fun op =>
    match op with
    | WASMOpcode.Binary n => 4 * n + 1000
    | WASMOpcode.Unary n => 4 * n + 1001
    | WASMOpcode.Load n => 4 * n + 1002
    | WASMOpcode.Store n => 4 * n + 1003
    | WASMOpcode.Unreachable => 0
    | WASMOpcode.I32Const => 65
    | WASMOpcode.I64Const => 66
    | WASMOpcode.F32Const => 67
    | WASMOpcode.F64Const => 68
    | WASMOpcode.Const32 => 500
    | WASMOpcode.Const64 => 501
    | WASMOpcode.Move32 => 502
    | WASMOpcode.Move64 => 503
    | _ => 999
  g_wasmCodeInfo := fun op =>
    match op with
    | WASMOpcode.Binary n =>
      if n % 2 = 0 then ⟨CodeType.I32, CodeType.I32, CodeType.I32, CodeType.none⟩
      else ⟨CodeType.I64, CodeType.I64, CodeType.I64, CodeType.none⟩
    | WASMOpcode.Unary n =>
      if n % 2 = 0 then ⟨CodeType.I32, CodeType.I32, CodeType.none, CodeType.none⟩
      else ⟨CodeType.I64, CodeType.I64, CodeType.none, CodeType.none⟩
    | _ => ⟨CodeType.I32, CodeType.I32, CodeType.none, CodeType.none⟩

/-- A reader at the start of a function body of type `ft`, in a module whose function types
are `types`: `beginFunction` has run and every local may be referenced directly. -/
def exampleReader (ft : FunctionType) (types : List FunctionType) : WASMBinaryReader :=
  match WASMBinaryReader.beginFunction exampleTarget { m_functionType := ft }
      { m_currentFunction := { m_functionType := ft }
        m_currentFunctionType := ft
        m_result := { m_functionTypes := types } } with
  | Except.ok (_, s) => s
  | Except.error _ =>
    { m_currentFunction := { m_functionType := ft }
      m_currentFunctionType := ft }

/-- The same reader with `m_canUseDirectReference` of every local forced to `false`. -/
def forceNoDirectReference (s : WASMBinaryReader) : WASMBinaryReader :=
  { s with m_localInfo := s.m_localInfo.map (fun i => { i with m_canUseDirectReference := false }) }

/-- The function compiled from a body, given as the events of its instructions. -/
def compileExample (ft : FunctionType) (types : List FunctionType) (direct : Bool)
    (body : List Event) : Except CompileError WASMBinaryReader :=
  runEvents exampleTarget body
    (if direct then exampleReader ft types else forceNoDirectReference (exampleReader ft types))

/-- The reader in the function `(param i32)` after `local.get 0  i32.const 1`, about to
handle a `local.set 0` or `local.tee 0` read at offset 3 of the body. -/
def exampleAliasedReader : WASMBinaryReader :=
  { readerOffset := 3
    m_currentFunction :=
      { m_functionType := ⟨[ValueType.I32], []⟩
        m_requiredStackSize := 12
        m_byteCode := [(0, ByteCode.Const32 8 1)]
        m_byteCodeSize := 16 }
    m_currentFunctionType := ⟨[ValueType.I32], []⟩
    m_initialFunctionStackSize := 4
    m_functionStackSizeSoFar := 12
    m_lastPushedOpcode := WASMOpcode.I32Const
    m_vmStack := [⟨4, 0, 4, some 0⟩, ⟨4, 8, 8, none⟩]
    m_localInfo := [⟨1, true⟩] }

/-- The reader in a function `() -> ()` after the first `n` instructions of the body
`i32.const 1  if  else  end`. -/
def exampleIfElse (n : Nat) : WASMBinaryReader :=
  match compileExample ⟨[], []⟩ [] true
      ([Event.OnI32ConstExpr 1, Event.OnIfExpr SigType.Void, Event.OnElseExpr,
        Event.OnEndExpr].take n) with
  | Except.ok s => s
  | Except.error _ => exampleReader ⟨[], []⟩ []

end Walrus

namespace wabt

open Walrus

/-- The flags `m_canUseDirectReference` of the locals, in the order of the locals. -/
def directReferenceFlags (s : WASMBinaryReader) : List Bool :=
  s.m_localInfo.map (fun info => info.m_canUseDirectReference)

/-- The rewinds of a run of handlers. `steps` lists the handler calls: the offset the reader
has reached when it makes the call (it has read the instruction), and the event. A call
is a rewind when the handler leaves the reader offset somewhere else, which is what
`resetFunctionCodeDataFromHere` does. -/
def countRewinds (t : Target) : List (Nat × Event) → WASMBinaryReader → Except CompileError Nat
  | [], _ => Except.ok 0
  | (offset, e) :: rest, s =>
    match e.handler t { s with readerOffset := offset } with
    | Except.ok (_, s1) =>
      match countRewinds t rest s1 with
      | Except.ok n => Except.ok (n + (if s1.readerOffset ≠ offset then 1 else 0))
      | Except.error err => Except.error err
    | Except.error err => Except.error err

/-- Every successful run of `m` relates the state before to the state after by `R`. -/
def Preserves (R : WASMBinaryReader → WASMBinaryReader → Prop) {α : Type} (m : M α) : Prop :=
  ∀ s a s1, m s = Except.ok (a, s1) → R s s1

/-- The relation of a state to one with the same direct-reference flags and the same reader
offset. -/
def SameFlags (s s1 : WASMBinaryReader) : Prop :=
  directReferenceFlags s1 = directReferenceFlags s ∧ s1.readerOffset = s.readerOffset

/-- The relation of a state to one in which exactly one direct-reference flag, set before,
is cleared. -/
def ClearsOneFlag (s s1 : WASMBinaryReader) : Prop :=
  ∃ i, (directReferenceFlags s)[i]? = some true
    ∧ directReferenceFlags s1 = (directReferenceFlags s).set i false

end wabt

namespace wabt

open Walrus

/-- What `OnElseExpr` and `OnEndExpr` read of an open block: its type, its position and its
pending jumps. -/
def BlockInfo.pending (b : BlockInfo) : BlockType × Nat × List JumpToEndBrInfo :=
  (b.m_blockType, b.m_position, b.m_jumpToEndBrInfo)

/-- The relation of a state to one whose bytecode records are the old ones followed by new
ones, the open blocks keeping their types, positions and pending jumps. -/
def AppendsCode (s s1 : WASMBinaryReader) : Prop :=
  (∃ extra, s1.m_currentFunction.m_byteCode = s.m_currentFunction.m_byteCode ++ extra)
    ∧ s1.m_blockInfo.map BlockInfo.pending = s.m_blockInfo.map BlockInfo.pending

/-- The relation of a state to one with the same function under compilation and the same
open blocks. -/
def SameCode (s s1 : WASMBinaryReader) : Prop :=
  s1.m_currentFunction = s.m_currentFunction ∧ s1.m_blockInfo = s.m_blockInfo

/-- Whether a record is a `BrTable`. -/
def isBrTableRecord : ByteCode → Bool
  | ByteCode.BrTable _ _ _ _ => true
  | _ => false

/-- The write `patchJumpToEnd` makes to a record that is not a `BrTable`, by the type of the
pending jump: `setOffset` through the `Jump` view, `setOffset` through the `JumpIfFalse`
view, or none (an `IsBrTable` entry writes to a `BrTable` record only). -/
def patchedRecord (ty : JumpToEndType) (o : Int) (c : ByteCode) : Option ByteCode :=
  match ty with
  | JumpToEndType.IsJump => WASMBinaryReader.setOffsetJump o c
  | JumpToEndType.IsJumpIf => WASMBinaryReader.setOffsetJumpIf o c
  | JumpToEndType.IsBrTable => some c

/-- The steps that end in the patch loop of `OnEndExpr` over the pending jumps `l` and before
it only append records to the bytecode. -/
def EndsWithPatch (t : Target) (l : List JumpToEndBrInfo) (m : M Unit) : Prop :=
  ∀ s s1, m s = Except.ok ((), s1) →
    ∃ sP, AppendsCode s sP
      ∧ WASMBinaryReader.forEachM (WASMBinaryReader.patchJumpToEnd t) l sP = Except.ok ((), s1)

end wabt

namespace wabt

open Walrus

/-- The relation of a state to one with the same bytecode records and the same bytecode
size. -/
def SameByteCode (s s1 : WASMBinaryReader) : Prop :=
  s1.m_currentFunction.m_byteCode = s.m_currentFunction.m_byteCode
    ∧ s1.m_currentFunction.m_byteCodeSize = s.m_currentFunction.m_byteCodeSize

end wabt

namespace wabt

open Walrus

/-- The relation of a state to one that differs from it at most in the VM stack, the
reference counts of the locals and the watermark. -/
def OnlyStack (s s1 : WASMBinaryReader) : Prop :=
  s1 = { s with
    m_vmStack := s1.m_vmStack
    m_localInfo := s1.m_localInfo
    m_functionStackSizeSoFar := s1.m_functionStackSizeSoFar }

/-- The watermark after the entries `top`, the last one first, are popped at watermark `w`. -/
def watermarkAfterPops (w : Nat) (top : List VMStackInfo) : Nat :=
  top.foldr (fun e w1 => subU32 w1 e.m_size) w

end wabt

namespace Walrus

open wabt

/-- The reader after the handlers of `body` have run at the start of a function of type
`ft` in a module whose function types are `types`. -/
def exampleAfter (ft : FunctionType) (types : List FunctionType) (body : List Event) :
    WASMBinaryReader :=
  match compileExample ft types true body with
  | Except.ok s => s
  | Except.error _ => exampleReader ft types

/-- The positions of the top `n` entries of the VM stack in source order, in the words of the
specification: the `k`-th is the position of the entry at index `stackSize - n + k`, as a
`ByteCodeStackOffset`. -/
def topPositions (s : WASMBinaryReader) (n : Nat) : List Nat :=
  (List.range n).map fun k =>
    u16 (((s.m_vmStack[s.m_vmStack.length - n + k]?).map (fun e => e.m_position)).getD 0)

/-- The `End` record in the words of the specification: `n` is the number of results of the
function and `resultOffsets` are the positions of the top `n` entries in source order. -/
def endRecordOfTop (s : WASMBinaryReader) : ByteCode :=
  ByteCode.End s.m_currentFunctionType.result.length
    (topPositions s s.m_currentFunctionType.result.length)

/-- Consecutive frame slots for values of the given sizes, the first one at `w`. -/
def consecutivePositions (w : Nat) : List Nat → List Nat
  | [] => []
  | sz :: rest => w :: consecutivePositions (w + sz) rest

/-- The VM-stack entries of freshly allocated values of the given sizes, the first one at
watermark `w`: each at the watermark reached by the ones before it, with no local index. -/
def freshEntries (w : Nat) : List Nat → List VMStackInfo
  | [] => []
  | sz :: rest => ⟨sz, w, w, none⟩ :: freshEntries (w + sz) rest

end Walrus

namespace wabt

open Walrus

/-- The state after `pushByteCode(code, opcode)` followed by `expandByteCode(extra)`: the
record is the last one of the bytecode, which has grown by the size of the record and
`extra` bytes. -/
def appendRecord (t : Target) (s : WASMBinaryReader) (code : ByteCode) (opcode : WASMOpcode)
    (extra : Nat) : WASMBinaryReader :=
  { s with
    m_lastByteCodePosition := u32 s.m_currentFunction.m_byteCodeSize
    m_lastPushedOpcode := opcode
    m_currentFunction := { s.m_currentFunction with
      m_byteCode := s.m_currentFunction.m_byteCode ++ [(s.m_currentFunction.m_byteCodeSize, code)]
      m_byteCodeSize := s.m_currentFunction.m_byteCodeSize + t.sizeof code + extra } }

end wabt

namespace Walrus

open wabt

/-- A module for the worked examples: one function type `(i32, i64) -> (i32)`, one function
of that type and one tag of that type. -/
def exampleModule : WASMParsingResult :=
  { m_functionTypes := [⟨[ValueType.I32, ValueType.I64], [ValueType.I32]⟩]
    m_functions := [{ m_functionType := ⟨[ValueType.I32, ValueType.I64], [ValueType.I32]⟩ }]
    m_tagTypes := [⟨0⟩] }

/-- The reader after the handlers of `body` have run at the start of a function `() -> ()` of
the example module. -/
def exampleModuleReader (body : List Event) : WASMBinaryReader :=
  match runEvents exampleTarget body
      { (exampleReader ⟨[], []⟩ []) with m_result := exampleModule } with
  | Except.ok s => s
  | Except.error _ => exampleReader ⟨[], []⟩ []

end Walrus

namespace wabt

open Walrus

/-- The bytes a branch to the block `b` carries, in the words of the specification: the
parameter stack bytes of the signature of `b` when `b` is a loop, the stack bytes of the
results of the signature otherwise. A signature that is a value type has no parameter and
one result, the signature `void` has neither. -/
def carriedBytesOfTarget (t : Target) (s : WASMBinaryReader) (b : BlockInfo) :
    Except CompileError Nat :=
  match b.m_returnValueType with
  | SigType.Index i => do
    let ft ← WASMBinaryReader.functionTypeAt s i
    pure (if b.m_blockType = BlockType.Loop then ft.paramStackSize t.sizeofPointer
      else (ft.result.map (valueSizeInStack t.sizeofPointer)).sum)
  | SigType.Void => pure 0
  | ty =>
    if b.m_blockType = BlockType.Loop then pure 0
    else do
      let k ← toValueKind ty
      pure (valueSizeInStack t.sizeofPointer k)

end wabt

namespace wabt

open Walrus

/-- The sizes of the entries of a VM stack, the top entry first. -/
def sizesTopFirst (stack : List VMStackInfo) : List Nat :=
  (stack.map (fun e => e.m_size)).reverse

/-- Popping entries of the sizes `sizes` one after the other, starting at the watermark `w`
(each pop is `m_functionStackSizeSoFar -= size` on `uint32_t`), never leaves a watermark
above `req`. -/
def StackOk (req : Nat) : List Nat → Nat → Prop
  | [], w => w ≤ req
  | sz :: rest, w => w ≤ req ∧ StackOk req rest (subU32 w sz)

/-- A VM stack together with its watermark, as they are in the reader or in the snapshot of
a block: the watermark is a `uint32_t` and stays within `req` however many entries are
popped. -/
def SnapshotOk (req : Nat) (stack : List VMStackInfo) (w : Nat) : Prop :=
  w < 4294967296 ∧ StackOk req (sizesTopFirst stack) w

/-- The invariant of the stack accounting: the initial stack size, the VM stack with the
watermark, and the snapshot of every open block are within `requiredStackSize`. -/
def StackInv (s : WASMBinaryReader) : Prop :=
  s.m_initialFunctionStackSize < 4294967296
    ∧ s.m_initialFunctionStackSize ≤ s.m_currentFunction.m_requiredStackSize
    ∧ SnapshotOk s.m_currentFunction.m_requiredStackSize s.m_vmStack s.m_functionStackSizeSoFar
    ∧ ∀ b ∈ s.m_blockInfo, SnapshotOk s.m_currentFunction.m_requiredStackSize b.m_vmStack
        b.m_functionStackSizeSoFar

/-- The state between `beginFunction` and the first instruction, while the locals are
declared: nothing is on the VM stack, no block is open, and the watermark is the initial
stack size. -/
def DeclPhase (s : WASMBinaryReader) : Prop :=
  s.m_vmStack = [] ∧ s.m_blockInfo = []
    ∧ s.m_initialFunctionStackSize = s.m_functionStackSizeSoFar
    ∧ s.m_functionStackSizeSoFar < 4294967296
    ∧ s.m_functionStackSizeSoFar ≤ s.m_currentFunction.m_requiredStackSize

/-- The relation of a state to a later one: `requiredStackSize` has not decreased, and the
invariant `StackInv` has been kept, given that the snapshot of the block `g` (a block read
from `m_blockInfo` earlier in the same handler) was within `requiredStackSize`. -/
def KeepsStack (g : BlockInfo) (s s1 : WASMBinaryReader) : Prop :=
  (StackInv s →
      SnapshotOk s.m_currentFunction.m_requiredStackSize g.m_vmStack g.m_functionStackSizeSoFar →
      StackInv s1)
    ∧ s.m_currentFunction.m_requiredStackSize ≤ s1.m_currentFunction.m_requiredStackSize

end wabt

namespace Walrus

/-- `Walrus::SegmentMode`. -/
inductive SegmentMode where
  | None | Active | Passive | Declared
  deriving DecidableEq, Repr

end Walrus

namespace wabt

open Walrus

/-- `toSegmentMode(flags)`; `flags` is a `uint8_t`. The enumerators are `SegPassive = 1`
and `SegDeclared = 3`. -/
def toSegmentMode (flags : Nat) : SegmentMode :=
  if (flags % 256) &&& 3 = 3 then SegmentMode.Declared
  else if (flags % 256) &&& 1 = 1 then SegmentMode.Passive
  else SegmentMode.Active

end wabt

namespace Walrus

/-- `Function::checkStackLimit(state)`. The macro `STACK_GROWS_DOWN` of the build, the
accessor `ExecutionState::stackLimit` and the intrinsic `currentStackPointer()` (cast to
`size_t`) are inputs; `Trap::throwException(state, msg)` ends the call with the message. -/
def Function.checkStackLimit {σ : Type} (stackGrowsDown : Bool) (stackLimit : σ → Nat)
    (currentStackPointer : Nat) (state : σ) : Except String σ :=
  if stackGrowsDown then
    if stackLimit state > currentStackPointer then Except.error "call stack exhausted"
    else Except.ok state
  else
    if stackLimit state < currentStackPointer then Except.error "call stack exhausted"
    else Except.ok state

end Walrus

/-! ## The shell (`shell/Shell.cpp`) -/

namespace Shell

open Walrus wabt

/-- The sign of `std::char_traits<char>::compare` followed by the comparison of the lengths,
as `std::string::compare` returns it: negative, zero or positive. -/
def stringCompare : List Char → List Char → Int
  | [], [] => 0
  | [], _ :: _ => -1
  | _ :: _, [] => 1
  | a :: as, b :: bs =>
    if a.toNat < b.toNat then -1
    else if b.toNat < a.toNat then 1
    else stringCompare as bs

/-- `str.compare(pos, len, other)`: `str.substr(pos, len)` compared with `other`. -/
def compareAt (str : List Char) (pos len : Nat) (other : List Char) : Int :=
  stringCompare ((str.drop pos).take len) other

/-- `endsWith(str, suffix)`. -/
def endsWith (str suffix : String) : Bool :=
  decide (str.data.length ≥ suffix.data.length)
    && decide (0 = compareAt str.data (str.data.length - suffix.data.length)
        suffix.data.length suffix.data)

/-- What `main` does with a file it could open, by the chain of `endsWith` tests on the
path. -/
inductive FileKind where
  | binary | script | ignored
  deriving DecidableEq, Repr

/-- The chain `if (endsWith(filePath, "wasm")) .. else if (endsWith(filePath, "wat") ||
endsWith(filePath, "wast")) ..` of `main`. -/
def fileKind (filePath : String) : FileKind :=
  if endsWith filePath "wasm" then FileKind.binary
  else if endsWith filePath "wat" || endsWith filePath "wast" then FileKind.script
  else FileKind.ignored

/-- The position of the highest set bit of `n`, found in at most `fuel` halvings. -/
def highestBit : Nat → Nat → Nat
  | 0, _ => 0
  | fuel + 1, n => if n < 2 then 0 else highestBit fuel (n / 2) + 1

/-- The bits of the IEEE-754 binary format with `mbits` mantissa bits and `ebits` exponent
bits that the conversion of the integer `n` to the floating type yields: the nearest
representable value, ties to even. -/
def floatBitsOfNat (mbits ebits n : Nat) : Nat :=
  if n = 0 then 0
  else
    let k := highestBit n n
    let bias := 2 ^ (ebits - 1) - 1
    if k ≤ mbits then
      ((k + bias) <<< mbits) + ((n <<< (mbits - k)) - 2 ^ mbits)
    else
      let shift := k - mbits
      let q := n >>> shift
      let r := n % 2 ^ shift
      let half := 2 ^ (shift - 1)
      let q1 := if r > half ∨ (r = half ∧ q % 2 = 1) then q + 1 else q
      ((k + bias) <<< mbits) + (q1 - 2 ^ mbits)

/-- Reduction of an integer to the range of `int64_t`. -/
def i64 (z : Int) : Int :=
  (z + 9223372036854775808) % 18446744073709551616 - 9223372036854775808

/-- Modelled from the spec: a `Walrus::Value` (runtime/Value.h), the tagged union of the value
kinds the shell constructs. Integers are held as `int32_t`/`int64_t`, floats by their bit
pattern, and a reference by its raw pointer, the null reference being the null pointer. -/
inductive Value where
  | I32 (v : Int)
  | I64 (v : Int)
  | F32 (bits : Nat)
  | F64 (bits : Nat)
  | FuncRef (raw : Nat)
  | ExternRef (raw : Nat)
  deriving DecidableEq, Repr

/-- Modelled from the spec: `Value::isNull`, the test of a reference for the null pointer. -/
def Value.isNull : Value → Bool
  | Value.FuncRef raw => decide (raw = 0)
  | Value.ExternRef raw => decide (raw = 0)
  | _ => false

/-- `wabt::ExpectedNan`. -/
inductive ExpectedNan where
  | None | Canonical | Arithmetic
  deriving DecidableEq, Repr

/-- Modelled from the spec: a `wabt::Const` (third_party/wabt), a constant of a script: its
type, its payload (the accessors `u32`, `u64`, `f32_bits`, `f64_bits` and `ref_bits` read
the low bits of it) and the kind of NaN it stands for, if any. -/
structure Const where
  type : SigType
  data : Nat
  nan : ExpectedNan := ExpectedNan.None
  deriving DecidableEq, Repr

/-- Modelled from the spec: `Const::u32`. -/
def Const.u32 (c : Const) : Nat := c.data % 4294967296

/-- Modelled from the spec: `Const::u64`. -/
def Const.u64 (c : Const) : Nat := c.data % 18446744073709551616

/-- Modelled from the spec: `Const::f32_bits`. -/
def Const.f32_bits (c : Const) : Nat := c.data % 4294967296

/-- Modelled from the spec: `Const::f64_bits`. -/
def Const.f64_bits (c : Const) : Nat := c.data % 18446744073709551616

/-- Modelled from the spec: `Const::ref_bits`, a `uintptr_t` of `w` bits. -/
def Const.ref_bits (w : Nat) (c : Const) : Nat := c.data % 2 ^ w

/-- Modelled from the spec: `Const::is_expected_nan(0)`. -/
def Const.is_expected_nan (c : Const) : Bool := decide (c.nan ≠ ExpectedNan.None)

/-- Modelled from the spec: `wabt::Const::kRefNullBits`, `~uintptr_t(0)`; `Const::set_null`
stores it as the `ref_bits` of the constant. -/
def kRefNullBits (w : Nat) : Nat := 2 ^ w - 1

/-- The bit pattern of `std::numeric_limits<float>::quiet_NaN()`. -/
def quietNaNF32 : Nat := 0x7fc00000

/-- The bit pattern of `std::numeric_limits<double>::quiet_NaN()`. -/
def quietNaNF64 : Nat := 0x7ff8000000000000

/-- `toWalrusValue(c)`; `w` is the width of `uintptr_t`. The `default` case is
`RELEASE_ASSERT_NOT_REACHED`. -/
def toWalrusValue (w : Nat) (c : Const) : Except CompileError Value :=
  match c.type with
  | SigType.I32 => Except.ok (Value.I32 (i32 (c.u32 : Int)))
  | SigType.I64 => Except.ok (Value.I64 (i64 (c.u64 : Int)))
  | SigType.F32 =>
    if c.is_expected_nan then Except.ok (Value.F32 quietNaNF32)
    else Except.ok (Value.F32 c.f32_bits)
  | SigType.F64 =>
    if c.is_expected_nan then Except.ok (Value.F64 quietNaNF64)
    else Except.ok (Value.F64 c.f64_bits)
  | SigType.FuncRef =>
    if c.ref_bits w = kRefNullBits w then Except.ok (Value.FuncRef 0)
    else Except.ok (Value.FuncRef ((c.ref_bits w + 1) % 2 ^ w))
  | SigType.ExternRef =>
    if c.ref_bits w = kRefNullBits w then Except.ok (Value.ExternRef 0)
    else Except.ok (Value.ExternRef ((c.ref_bits w + 1) % 2 ^ w))
  | _ => Except.error CompileError.releaseAssert

/-- `isCanonicalNan(float)`, on the bit pattern. -/
def isCanonicalNanF32 (s : Nat) : Bool := decide (s = 0x7fc00000) || decide (s = 0xffc00000)

/-- `isCanonicalNan(double)`, on the bit pattern. -/
def isCanonicalNanF64 (s : Nat) : Bool :=
  decide (s = 0x7ff8000000000000) || decide (s = 0xfff8000000000000)

/-- `isArithmeticNan(float)`, on the bit pattern. -/
def isArithmeticNanF32 (s : Nat) : Bool := decide (s &&& 0x7fc00000 = 0x7fc00000)

/-- `isArithmeticNan(double)`, on the bit pattern. -/
def isArithmeticNanF64 (s : Nat) : Bool :=
  decide (s &&& 0x7ff8000000000000 = 0x7ff8000000000000)

/-- `equals(v, c)`; `w` is the width of `uintptr_t`. -/
def equals (w : Nat) (v : Value) (c : Const) : Bool :=
  match c.type, v with
  | SigType.I32, Value.I32 x => decide (x = i32 (c.u32 : Int))
  | SigType.I64, Value.I64 x => decide (x = i64 (c.u64 : Int))
  | SigType.F32, Value.F32 bits =>
    if c.is_expected_nan then
      if c.nan = ExpectedNan.Arithmetic then isArithmeticNanF32 bits
      else isCanonicalNanF32 bits
    else decide (c.f32_bits = bits)
  | SigType.F64, Value.F64 bits =>
    if c.is_expected_nan then
      if c.nan = ExpectedNan.Arithmetic then isArithmeticNanF64 bits
      else isCanonicalNanF64 bits
    else decide (c.f64_bits = bits)
  | SigType.ExternRef, Value.ExternRef raw =>
    if c.ref_bits w = kRefNullBits w then (Value.ExternRef raw).isNull
    else decide ((c.ref_bits w + 1) % 2 ^ w = raw)
  | SigType.FuncRef, Value.FuncRef raw =>
    if c.ref_bits w = kRefNullBits w then (Value.FuncRef raw).isNull
    else decide ((c.ref_bits w + 1) % 2 ^ w = raw)
  | _, _ => false

end Shell

namespace Shell

open Walrus wabt

/-- `SpecTestFunctionTypes::Index`. -/
inductive SpecTestFunctionTypes.Index where
  | NONE | I32 | I64 | F32 | F64 | I32F32 | F64F64 | INVALID
  deriving DecidableEq, Repr

/-- The callbacks `executeWASM` gives to the imported functions it creates. -/
inductive HostCallback where
  | nothing | printI32 | printI64 | printF32 | printF64 | printI32F32 | printF64F64 | procExit
  deriving DecidableEq, Repr

/-- `ExportType::Type`. -/
inductive ExportKind where
  | Function | Table | Memory | Global | Tag
  deriving DecidableEq, Repr

/-- An element of the vector `importValues` of `executeWASM`: an object made by one of the
`create..` calls, or an export of a registered instance. -/
inductive Extern where
  | importedFunction (ft : SpecTestFunctionTypes.Index) (callback : HostCallback)
  | global (v : Value)
  | table (type : ValueType) (initialSize maximumSize : Nat)
  | memory (initialSize maximumSize : Nat)
  | exported (kind : ExportKind) (moduleName fieldName : String)
  deriving DecidableEq, Repr

/-- The names of an `ImportType`, which is what the shell reads of it. -/
structure ImportName where
  moduleName : String
  fieldName : String
  deriving DecidableEq, Repr

/-- An `ExportType` as the shell reads it. -/
structure ExportType where
  exportType : ExportKind
  name : String
  itemIndex : Nat
  deriving DecidableEq, Repr

/-- A parsed `Module` as the shell reads it. -/
structure Module where
  imports : List ImportName := []
  exports : List ExportType := []
  deriving DecidableEq, Repr

/-- `Trap::TrapResult`: the exception a run ended in, if any, by its message. -/
structure TrapResult where
  exception : Option String := none
  deriving DecidableEq, Repr

/-- The engine and the file system as the shell uses them, code that is not among the
sources: `fopen`/`fread` of a path, `WASMParser::parseBinary` (the module and the error
message), `Trap::run` of the instantiation of a module with its import values, `Trap::run`
of the instantiation followed by the call of an export (the lambda of `runExports`),
`Memory::s_memoryPageSize`, and whether `executeWAST` returns from a script or ends the
process in a `RELEASE_ASSERT`. -/
structure Runtime where
  readFile : String → Option (List Nat)
  parseBinary : String → List Nat → Option Module × String
  instantiate : Module → List Extern → TrapResult
  runExport : Module → ExportType → TrapResult
  s_memoryPageSize : Nat
  executeWAST : String → List Nat → Bool

/-- The import value `executeWASM` creates for an import of the module `spectest`. -/
def spectestImportValue (rt : Runtime) (fieldName : String) : Extern :=
  if fieldName = "print" then
    Extern.importedFunction SpecTestFunctionTypes.Index.NONE HostCallback.nothing
  else if fieldName = "print_i32" then
    Extern.importedFunction SpecTestFunctionTypes.Index.I32 HostCallback.printI32
  else if fieldName = "print_i64" then
    Extern.importedFunction SpecTestFunctionTypes.Index.I64 HostCallback.printI64
  else if fieldName = "print_f32" then
    Extern.importedFunction SpecTestFunctionTypes.Index.F32 HostCallback.printF32
  else if fieldName = "print_f64" then
    Extern.importedFunction SpecTestFunctionTypes.Index.F64 HostCallback.printF64
  else if fieldName = "print_i32_f32" then
    Extern.importedFunction SpecTestFunctionTypes.Index.I32F32 HostCallback.printI32F32
  else if fieldName = "print_f64_f64" then
    Extern.importedFunction SpecTestFunctionTypes.Index.F64F64 HostCallback.printF64F64
  else if fieldName = "global_i32" then
    -- Value(int32_t(666))
    Extern.global (Value.I32 (i32 666))
  else if fieldName = "global_i64" then
    -- Value(int64_t(666))
    Extern.global (Value.I64 (i64 666))
  else if fieldName = "global_f32" then
    -- Value(float(0x44268000)): the conversion of the `int` 0x44268000 to `float`
    Extern.global (Value.F32 (floatBitsOfNat 23 8 0x44268000))
  else if fieldName = "global_f64" then
    -- Value(double(0x4084d00000000000)): the conversion of the `long` to `double`
    Extern.global (Value.F64 (floatBitsOfNat 52 11 0x4084d00000000000))
  else if fieldName = "table" then
    Extern.table ValueType.FuncRef 10 20
  else if fieldName = "memory" then
    Extern.memory (1 * rt.s_memoryPageSize) (2 * rt.s_memoryPageSize)
  else
    -- import wrong value for test
    Extern.importedFunction SpecTestFunctionTypes.Index.INVALID HostCallback.nothing

/-- One pass of the loop of `executeWASM` over the imports: the value pushed to
`importValues`, if any. `registeredInstanceMap` maps the name of a registered instance to
its exports; an export that is not found is a `RELEASE_ASSERT`. -/
def importValueOf (rt : Runtime)
    (registeredInstanceMap : Option (String → Option (String → Option Extern)))
    (imp : ImportName) : Except CompileError (Option Extern) :=
  if imp.moduleName = "spectest" then
    Except.ok (some (spectestImportValue rt imp.fieldName))
  else if imp.moduleName = "wasi_snapshot_preview1" then
    if imp.fieldName = "proc_exit" then
      Except.ok (some (Extern.importedFunction SpecTestFunctionTypes.Index.I32
        HostCallback.procExit))
    else Except.ok none
  else
    match registeredInstanceMap with
    | some map =>
      match map imp.moduleName with
      | some inst =>
        match inst imp.fieldName with
        | some e => Except.ok (some e)
        | none => Except.error CompileError.releaseAssert
      | none => Except.ok none
    | none => Except.ok none

/-- The loop of `executeWASM` over the imports. -/
def importValuesOf (rt : Runtime)
    (registeredInstanceMap : Option (String → Option (String → Option Extern))) :
    List ImportName → Except CompileError (List Extern)
  | [] => Except.ok []
  | imp :: rest => do
    let v ← importValueOf rt registeredInstanceMap imp
    let more ← importValuesOf rt registeredInstanceMap rest
    pure (match v with
      | some e => e :: more
      | none => more)

/-- `executeWASM(store, filename, src, functionTypes, registeredInstanceMap)`. -/
def executeWASM (rt : Runtime) (filename : String) (src : List Nat)
    (registeredInstanceMap : Option (String → Option (String → Option Extern))) :
    Except CompileError TrapResult :=
  let parseResult := rt.parseBinary filename src
  if parseResult.2 ≠ "" then
    Except.ok { exception := some parseResult.2 }
  else
    match parseResult.1 with
    | none => Except.error CompileError.undefined
    | some parsed => do
      let importValues ← importValuesOf rt registeredInstanceMap parsed.imports
      pure (rt.instantiate parsed importValues)

/-- What a call of `runExports` did; the function itself returns nothing. -/
inductive ExportsRun where
  | parseError (message : String)
  | hasImports
  | ran (results : List (String × TrapResult))
  deriving DecidableEq, Repr

/-- `runExports(store, filename, src, entry)`: the exported functions it runs, each with the
result of its `trap.run`, which is dropped. -/
def runExports (rt : Runtime) (filename : String) (src : List Nat) (entry : String) :
    Except CompileError ExportsRun :=
  let parseResult := rt.parseBinary filename src
  if parseResult.2 ≠ "" then
    Except.ok (ExportsRun.parseError parseResult.2)
  else
    match parseResult.1 with
    | none => Except.error CompileError.undefined
    | some parsed =>
      if parsed.imports.length ≠ 0 then
        Except.ok ExportsRun.hasImports
      else
        Except.ok (ExportsRun.ran
          ((parsed.exports.filter (fun exp =>
              decide (exp.exportType = ExportKind.Function)
                && !(decide (entry ≠ exp.name) && decide (entry ≠ "")))).map
            (fun exp => (exp.name, rt.runExport parsed exp))))

/-- The loop of `main` over `argv[i]`, `i ≥ 1`, with the flags read so far; the result is the
value `main` returns. -/
def mainLoop (rt : Runtime) : Bool → String → List String → Except CompileError Int
  | _, _, [] => Except.ok 0
  | runAllExports, entry, arg :: rest =>
    let file : Except CompileError Int :=
      match rt.readFile arg with
      | some buf =>
        match fileKind arg with
        | FileKind.binary =>
          if runAllExports || decide (entry ≠ "") then do
            let _ ← runExports rt arg buf entry
            mainLoop rt runAllExports entry rest
          else do
            let trapResult ← executeWASM rt arg buf none
            if trapResult.exception.isSome then
              -- "Uncaught Exception: .."
              pure (-1)
            else
              mainLoop rt runAllExports entry rest
        | FileKind.script =>
          if rt.executeWAST arg buf then mainLoop rt runAllExports entry rest
          else Except.error CompileError.releaseAssert
        | FileKind.ignored => mainLoop rt runAllExports entry rest
      | none =>
        -- "Cannot open file .."
        Except.ok (-1)
    if arg.data.head? = some '-' then
      if arg = "--run-all-exports" then
        mainLoop rt true entry rest
      else if arg = "--entry" then
        match rest with
        | [] =>
          -- "error: --entry requires an argument"
          Except.ok 1
        | name :: rest1 => mainLoop rt runAllExports name rest1
      else file
    else file

/-- `main(argc, argv)`; `args` is `argv[1 .. argc)`. -/
def main (rt : Runtime) (args : List String) : Except CompileError Int :=
  mainLoop rt false "" args

/-- A runtime for examples: the file `t.wasm` parses to a module that exports the function
`f` and has no import, its instantiation succeeds and the run of `f` traps with
"unreachable"; the file `bad.wasm` does not parse; no other file can be opened. -/
def exampleRuntime : Runtime where
  readFile := fun path =>
    if path = "t.wasm" then some [0] else if path = "bad.wasm" then some [1] else none
  parseBinary := fun _ src =>
    if src = [0] then (some { exports := [⟨ExportKind.Function, "f", 0⟩] }, "")
    else (none, "unexpected end")
  instantiate := fun _ _ => {}
  runExport := fun _ _ => { exception := some "unreachable" }
  s_memoryPageSize := 65536
  executeWAST := fun _ _ => true

/-- The same runtime with a start function in `t.wasm` that traps during instantiation. -/
def exampleTrappingRuntime : Runtime :=
  { exampleRuntime with instantiate := fun _ _ => { exception := some "unreachable" } }

end Shell

/-! ## The import section -/

section ImportSection

set_option linter.unusedVariables false

namespace wabt

open Walrus

namespace WASMBinaryReader

/-- `OnImportFunc`: the function type is read from `m_functionTypes[sigIndex]`, a new
`ModuleFunction` of that type is pushed and the import is recorded.  The two `ASSERT`s on
`importIndex` and `funcIndex` are no code in a release build. -/
def OnImportFunc (importIndex : Nat) (moduleName fieldName : String) (funcIndex sigIndex : Nat) :
    M Unit := do
  let s ← getS
  let ft ← liftE (elemAt s.m_result.m_functionTypes sigIndex)
  modifyS fun s => { s with m_result := { s.m_result with
    m_functions := s.m_result.m_functions ++ [{ m_functionType := ft }] } }
  modifyS fun s => { s with m_result := { s.m_result with
    m_imports := s.m_result.m_imports ++
      [{ m_type := ImportKind.Function, m_moduleName := moduleName, m_fieldName := fieldName,
         m_ref := ImportRef.function ft }] } }

/-- `OnImportGlobal`: a new `GlobalType` is pushed, then the import is recorded with
`m_globalTypes[globalIndex]`. -/
def OnImportGlobal (importIndex : Nat) (moduleName fieldName : String) (globalIndex : Nat)
    (type : SigType) (mutable_ : Bool) : M Unit := do
  let kind ← liftE (toValueKind type)
  modifyS fun s => { s with m_result := { s.m_result with
    m_globalTypes := s.m_result.m_globalTypes ++ [{ m_type := kind, m_mutable := mutable_ }] } }
  let s ← getS
  let g ← liftE (elemAt s.m_result.m_globalTypes globalIndex)
  modifyS fun s => { s with m_result := { s.m_result with
    m_imports := s.m_result.m_imports ++
      [{ m_type := ImportKind.Global, m_moduleName := moduleName, m_fieldName := fieldName,
         m_ref := ImportRef.global g }] } }

/-- `OnImportTable`: a new `TableType` is pushed, then the import is recorded with
`m_tableTypes[tableIndex]`. -/
def OnImportTable (importIndex : Nat) (moduleName fieldName : String) (tableIndex : Nat)
    (type : SigType) (initialSize maximumSize : Nat) : M Unit := do
  modifyS fun s => { s with m_result := { s.m_result with
    m_tableTypes := s.m_result.m_tableTypes ++
      [{ m_type := if type = SigType.FuncRef then ValueType.FuncRef else ValueType.ExternRef,
         m_initialSize := initialSize, m_maximumSize := maximumSize }] } }
  let s ← getS
  let tt ← liftE (elemAt s.m_result.m_tableTypes tableIndex)
  modifyS fun s => { s with m_result := { s.m_result with
    m_imports := s.m_result.m_imports ++
      [{ m_type := ImportKind.Table, m_moduleName := moduleName, m_fieldName := fieldName,
         m_ref := ImportRef.table tt }] } }

/-- `OnImportMemory`: a new `MemoryType` is pushed, then the import is recorded with
`m_memoryTypes[memoryIndex]`. -/
def OnImportMemory (importIndex : Nat) (moduleName fieldName : String) (memoryIndex : Nat)
    (initialSize maximumSize : Nat) : M Unit := do
  modifyS fun s => { s with m_result := { s.m_result with
    m_memoryTypes := s.m_result.m_memoryTypes ++
      [{ m_initialSize := initialSize, m_maximumSize := maximumSize }] } }
  let s ← getS
  let m ← liftE (elemAt s.m_result.m_memoryTypes memoryIndex)
  modifyS fun s => { s with m_result := { s.m_result with
    m_imports := s.m_result.m_imports ++
      [{ m_type := ImportKind.Memory, m_moduleName := moduleName, m_fieldName := fieldName,
         m_ref := ImportRef.memory m }] } }

/-- `OnImportTag`: a new `TagType` is pushed, then the import is recorded with
`m_tagTypes[tagIndex]`. -/
def OnImportTag (importIndex : Nat) (moduleName fieldName : String) (tagIndex sigIndex : Nat) :
    M Unit := do
  modifyS fun s => { s with m_result := { s.m_result with
    m_tagTypes := s.m_result.m_tagTypes ++ [{ m_sigIndex := sigIndex }] } }
  let s ← getS
  let tg ← liftE (elemAt s.m_result.m_tagTypes tagIndex)
  modifyS fun s => { s with m_result := { s.m_result with
    m_imports := s.m_result.m_imports ++
      [{ m_type := ImportKind.Tag, m_moduleName := moduleName, m_fieldName := fieldName,
         m_ref := ImportRef.tag tg }] } }

end WASMBinaryReader

end wabt

end ImportSection

/-! ## The block stack and the catch infos -/

namespace wabt

open Walrus

/-- What stays of an open block from the handler that opens it to the `end` that closes it:
its type, its signature, its position, the snapshot of the VM stack, the parameter positions
and the saved watermark. -/
def BlockInfo.shape (b : BlockInfo) :
    BlockType × SigType × Nat × List VMStackInfo × List Nat × Nat :=
  (b.m_blockType, b.m_returnValueType, b.m_position, b.m_vmStack, b.m_parameterPositions,
    b.m_functionStackSizeSoFar)

/-- The relation of a state to one with the same open blocks (as many, each with the same
`shape`), the same pending catch infos, the same catch infos of the function, and a bytecode
buffer that is not shorter. -/
def KeepsBlocks (s s1 : WASMBinaryReader) : Prop :=
  s1.m_blockInfo.map BlockInfo.shape = s.m_blockInfo.map BlockInfo.shape
    ∧ s1.m_catchInfo = s.m_catchInfo
    ∧ s1.m_currentFunction.m_catchInfo = s.m_currentFunction.m_catchInfo
    ∧ s.m_currentFunction.m_byteCodeSize ≤ s1.m_currentFunction.m_byteCodeSize

/-- The relation of a state to one in which one more block is open: the blocks that were open
keep their shape and the new, innermost `BlockInfo` has the type `ty`, the signature `sig`, the
snapshot `stack` of the VM stack and the saved watermark `watermark`, and starts within the
bytecode; the catch infos are the same and the bytecode buffer is not shorter. -/
def OpensBlock (ty : BlockType) (sig : SigType) (stack : List VMStackInfo) (watermark : Nat)
    (s s1 : WASMBinaryReader) : Prop :=
  ∃ b : BlockInfo, s1.m_blockInfo.map BlockInfo.shape = s.m_blockInfo.map BlockInfo.shape ++ [b.shape]
    ∧ s1.m_blockInfo.getLast? = some b
    ∧ b.m_blockType = ty ∧ b.m_returnValueType = sig ∧ b.m_vmStack = stack
    ∧ b.m_functionStackSizeSoFar = watermark
    ∧ b.m_position ≤ s1.m_currentFunction.m_byteCodeSize
    ∧ s1.m_catchInfo = s.m_catchInfo
    ∧ s1.m_currentFunction.m_catchInfo = s.m_currentFunction.m_catchInfo
    ∧ s.m_currentFunction.m_byteCodeSize ≤ s1.m_currentFunction.m_byteCodeSize

/-- The condition under which `OnLocalSetExpr` and `OnLocalTeeExpr` call
`resetFunctionCodeDataFromHere`, read off the two handlers; no other handler rewinds. -/
def Event.rewinds (t : Target) (s : WASMBinaryReader) : Event → Bool
  | .OnLocalSetExpr localIndex =>
    match WASMBinaryReader.resolveLocalOffsetAndSize t s localIndex, s.m_localInfo[localIndex]?,
        s.m_vmStack.getLast? with
    | Except.ok r, some info, some top =>
      decide (info.m_refCount ≠ 0) && info.m_canUseDirectReference
        && decide (top.m_position ≠ r.1)
    | _, _, _ => false
  | .OnLocalTeeExpr localIndex =>
    match s.m_localInfo[localIndex]? with
    | some info => decide (info.m_refCount ≠ 0) && info.m_canUseDirectReference
    | none => false
  | _ => false

/-- No handler of the run rewinds. -/
def runsWithoutRewind (t : Target) : List Event → WASMBinaryReader → Bool
  | [], _ => true
  | e :: rest, s =>
    !e.rewinds t s &&
      (match e.handler t s with
       | Except.ok (_, s1) => runsWithoutRewind t rest s1
       | Except.error _ => true)

/-- The events that open a block. -/
def Event.opensBlock : Event → Bool
  | .OnBlockExpr _ => true
  | .OnLoopExpr _ => true
  | .OnIfExpr _ => true
  | .OnTryExpr _ => true
  | _ => false

/-- The events handled by `processCatchExpr`. -/
def Event.isCatch : Event → Bool
  | .OnCatchExpr _ => true
  | .OnCatchAllExpr => true
  | _ => false

/-- The nesting depth of the Wasm code after an event, in the words of the specification: an
event that opens a block adds one, an `end` closes the innermost open block when there is one
(the `end` at depth 0 is the end of the function), every other event keeps the depth. -/
def Event.depthAfter (depth : Nat) : Event → Nat
  | .OnBlockExpr _ => depth + 1
  | .OnLoopExpr _ => depth + 1
  | .OnIfExpr _ => depth + 1
  | .OnTryExpr _ => depth + 1
  | .OnEndExpr => depth - 1
  | _ => depth

/-- The number of blocks opened and not yet ended after a list of events, starting with
`depth` open blocks. -/
def depthAfterEvents (depth : Nat) (events : List Event) : Nat :=
  events.foldl Event.depthAfter depth

/-- The catch infos that `OnEndExpr` commits at the end of a try block, in the words of the
code: the pending catch infos whose `m_tryCatchBlockDepth - 1` is the number of blocks left
open, each with `stackSizeToBe` the initial stack size plus the sizes of the first
`snapshotSize` entries of the VM stack. -/
def committedAtEnd (s : WASMBinaryReader) (depth snapshotSize : Nat) : List Walrus.CatchInfo :=
  (s.m_catchInfo.filter (fun c => decide (decSize c.m_tryCatchBlockDepth = depth))).map
    (fun c => ⟨c.m_tryStart, c.m_tryEnd, c.m_catchStart,
      s.m_initialFunctionStackSize + ((s.m_vmStack.take snapshotSize).map (fun e => e.m_size)).sum,
      c.m_tagIndex⟩)

end wabt

namespace Walrus

open wabt

/-- The reader at the start of a function `() -> ()` of the example module. -/
def exampleModuleStart : WASMBinaryReader :=
  { (exampleReader ⟨[], []⟩ []) with m_result := exampleModule }

/-- A try block with two catch clauses, up to its `end`:
`i32.const 1  try  i32.const 7  drop  catch 0  drop  drop  catch_all`. The tag 0 of the
example module has the parameters `(i32, i64)`. -/
def exampleTryCatch : List Event :=
  [Event.OnI32ConstExpr 1, Event.OnTryExpr SigType.Void, Event.OnI32ConstExpr 7,
    Event.OnDropExpr, Event.OnCatchExpr 0, Event.OnDropExpr, Event.OnDropExpr,
    Event.OnCatchAllExpr]

/-- Two try blocks, the second one in a catch clause of the first, up to the `end` of the
inner one: `i32.const 1  try  catch_all  try  catch_all  catch 0  drop  drop`. -/
def exampleNestedTry : List Event :=
  [Event.OnI32ConstExpr 1, Event.OnTryExpr SigType.Void, Event.OnCatchAllExpr,
    Event.OnTryExpr SigType.Void, Event.OnCatchAllExpr, Event.OnCatchExpr 0,
    Event.OnDropExpr, Event.OnDropExpr]

/-- Blocks of every kind, two of them still open at the end:
`block  i32.const 1  if  else  end  loop  try  catch_all  end`. -/
def exampleNesting : List Event :=
  [Event.OnBlockExpr SigType.Void, Event.OnI32ConstExpr 1, Event.OnIfExpr SigType.Void,
    Event.OnElseExpr, Event.OnEndExpr, Event.OnLoopExpr SigType.Void,
    Event.OnTryExpr SigType.Void, Event.OnCatchAllExpr, Event.OnEndExpr]

end Walrus


/-! ## The slots of the locals -/

namespace wabt

open Walrus

/-- The types of the locals of the current function in index order: the parameters, then
the declared locals. -/
def localTypes (s : WASMBinaryReader) : List ValueType :=
  s.m_currentFunctionType.param ++ s.m_currentFunction.m_local

/-- The claim's words for the offset of local `i`: the sum of the stack sizes of the
parameters and locals with a smaller index. -/
def localOffset (t : Target) (s : WASMBinaryReader) (i : Nat) : Nat :=
  (((localTypes s).take i).map (valueSizeInStack t.sizeofPointer)).sum

/-- The stack size of all parameters and locals of the current function. -/
def localSlotsSize (t : Target) (s : WASMBinaryReader) : Nat :=
  ((localTypes s).map (valueSizeInStack t.sizeofPointer)).sum

end wabt

namespace Walrus

open wabt

/-- The reader of a function `(i32, i64) -> ()` after `beginFunction` and the
declarations `(local funcref funcref) (local f32)`. -/
def exampleLocals : WASMBinaryReader :=
  match (do
      WASMBinaryReader.OnLocalDecl exampleTarget 2 SigType.FuncRef
      WASMBinaryReader.OnLocalDecl exampleTarget 1 SigType.F32 : M Unit)
    (exampleReader ⟨[ValueType.I32, ValueType.I64], []⟩ []) with
  | Except.ok (_, s) => s
  | Except.error _ => exampleReader ⟨[ValueType.I32, ValueType.I64], []⟩ []

end Walrus

/-! ## The layout of the VM stack above the locals -/

namespace wabt

open Walrus

/-- The offset of the slot of local `i` among locals of the types `tys`: the sum of the stack
sizes of the locals before it. -/
def slotOffset (t : Target) (tys : List ValueType) (i : Nat) : Nat :=
  ((tys.take i).map (valueSizeInStack t.sizeofPointer)).sum

/-- The stack size of the slots of locals of the types `tys`. -/
def slotsSize (t : Target) (tys : List ValueType) : Nat :=
  (tys.map (valueSizeInStack t.sizeofPointer)).sum

/-- The number of entries of a VM stack that hold a reference to local `i`. -/
def refsTo (i : Nat) (stack : List VMStackInfo) : Nat :=
  stack.countP (fun e => decide (e.m_localIndex = some i))

/-- The VM stack and the watermark saved in each open block, outermost block first. -/
def snapshots (s : WASMBinaryReader) : List (List VMStackInfo × Nat) :=
  s.m_blockInfo.map (fun b => (b.m_vmStack, b.m_functionStackSizeSoFar))

/-- The number of `VMStackInfo` objects that refer to local `i`: the entries of the VM stack
and of the snapshots of the open blocks. -/
def refCountOf (s : WASMBinaryReader) (i : Nat) : Nat :=
  refsTo i s.m_vmStack + ((snapshots s).map (fun p => refsTo i p.1)).sum

/-- The reference counts of `infos` (each a `size_t`) are the numbers `c` of references. -/
def RefsOk (infos : List LocalInfo) (c : Nat → Nat) : Prop :=
  ∀ i info, infos[i]? = some info → info.m_refCount = c i % 18446744073709551616

/-- The reference count of every local (a `size_t`) is the number of `VMStackInfo` objects
that refer to it. -/
def RefCountsOk (s : WASMBinaryReader) : Prop :=
  RefsOk s.m_localInfo (refCountOf s)

/-- The layout of a VM stack `stack` with the watermark `w` above an initial stack size `w0`:
the watermark is `w0` plus the sizes of all entries, a stack that is not empty is within the
limit of `pushVMStack`, and the non-optimized position of every entry is `w0` plus the sizes
of the entries below it. -/
def LayoutOk (w0 : Nat) (stack : List VMStackInfo) (w : Nat) : Prop :=
  w = w0 + (stack.map (fun e => e.m_size)).sum
    ∧ (stack ≠ [] → w ≤ 65535)
    ∧ ∀ k e, stack[k]? = some e →
        e.m_nonOptimizedPosition = w0 + ((stack.take k).map (fun e => e.m_size)).sum

/-- Where an entry of the VM stack may live: at its non-optimized position, or in the slot
of the local it refers to, whose flag `m_canUseDirectReference` is then set. Its size is at
most that of a `v128`. -/
def EntryOk (t : Target) (tys : List ValueType) (flags : List Bool) (e : VMStackInfo) : Prop :=
  e.m_size ≤ 16
    ∧ (e.m_position = e.m_nonOptimizedPosition
      ∨ ∃ i, e.m_localIndex = some i ∧ i < tys.length ∧ e.m_position = slotOffset t tys i
          ∧ flags[i]? = some true)

/-- A VM stack with its watermark, as they are in the reader or in the snapshot of a block,
above the slots of locals of the types `tys`. -/
def StackFrameOk (t : Target) (tys : List ValueType) (flags : List Bool)
    (stack : List VMStackInfo) (w : Nat) : Prop :=
  LayoutOk (slotsSize t tys) stack w ∧ ∀ e ∈ stack, EntryOk t tys flags e

/-- The invariant of the frame of a function whose locals have the types `tys` and the
direct-reference flags `flags`: the pointer size is positive and at most 16, the slots of the
locals end 16 bytes or more below `2 ^ 32`, the initial stack size is the size of the slots,
the VM stack and the snapshot of every open block are laid out above the slots, and the
reference counts are exact. -/
def FrameInvAt (t : Target) (tys : List ValueType) (flags : List Bool)
    (s : WASMBinaryReader) : Prop :=
  (0 < t.sizeofPointer ∧ t.sizeofPointer ≤ 16 ∧ slotsSize t tys + 16 < 4294967296)
    ∧ (localTypes s = tys ∧ directReferenceFlags s = flags
      ∧ s.m_initialFunctionStackSize = slotsSize t tys)
    ∧ StackFrameOk t tys flags s.m_vmStack s.m_functionStackSizeSoFar
    ∧ (∀ p ∈ snapshots s, StackFrameOk t tys flags p.1 p.2)
    ∧ RefCountsOk s

/-- The invariant `FrameInvAt` for the locals and the flags of the state itself. -/
def FrameInv (t : Target) (s : WASMBinaryReader) : Prop :=
  FrameInvAt t (localTypes s) (directReferenceFlags s) s

/-- The relation of a state to a later one: the invariant `FrameInvAt` has been kept, given
that the snapshot of the block `g` (a block read from `m_blockInfo` earlier in the same
handler) was laid out above the slots. -/
def KeepsFrame (t : Target) (tys : List ValueType) (flags : List Bool) (g : BlockInfo)
    (s s1 : WASMBinaryReader) : Prop :=
  FrameInvAt t tys flags s → StackFrameOk t tys flags g.m_vmStack g.m_functionStackSizeSoFar →
    FrameInvAt t tys flags s1

end wabt

/-! ## The parameters of a block -/

namespace wabt

open Walrus

/-- The `Move32` or `Move64` that brings a VM-stack entry from its position to its
non-optimized position. -/
def parameterMove (e : VMStackInfo) : ByteCode :=
  if e.m_size = 4 then ByteCode.Move32 (u16 e.m_position) (u16 e.m_nonOptimizedPosition)
  else ByteCode.Move64 (u16 e.m_position) (u16 e.m_nonOptimizedPosition)

/-- The claim's words for the moves at a block entry: one move for each of the entries
`top` whose position differs from its non-optimized position, in the order of `top`. -/
def parameterMoves (top : List VMStackInfo) : List ByteCode :=
  (top.filter (fun e => decide (e.m_position ≠ e.m_nonOptimizedPosition))).map parameterMove

end wabt

namespace Walrus

open wabt

/-- The reader of a function `(i32, i64) -> ()`, in a module whose type 0 is
`(i64, i32) -> ()`, after `local.get 1  local.get 0`: both stack entries refer to the slots
of the locals directly. -/
def exampleBlockParams : WASMBinaryReader :=
  exampleAfter ⟨[ValueType.I32, ValueType.I64], []⟩ [⟨[ValueType.I64, ValueType.I32], []⟩]
    [Event.OnLocalGetExpr 1, Event.OnLocalGetExpr 0]

end Walrus

namespace Walrus

open wabt

/-- The reader at the start of a function `(param i64)` in a module whose function 0 has the
type `() -> (i64)`. -/
def exampleCallReader : WASMBinaryReader :=
  { (exampleReader ⟨[ValueType.I64], []⟩ []) with
    m_result :=
      { m_functionTypes := [⟨[], [ValueType.I64]⟩]
        m_functions := [{ m_functionType := ⟨[], [ValueType.I64]⟩ }] } }

end Walrus

namespace Walrus

open wabt

/-- The reader of a function `(i32, i64) -> ()` after the body
`i64.const 5  block  local.get 0  local.get 1  i32.const 1`: three entries lie on the VM stack
above the one saved in the snapshot of the block, two of them in the slots of the locals. -/
def exampleLayout : WASMBinaryReader :=
  exampleAfter ⟨[ValueType.I32, ValueType.I64], []⟩ []
    [Event.OnI64ConstExpr 5, Event.OnBlockExpr SigType.Void, Event.OnLocalGetExpr 0,
      Event.OnLocalGetExpr 1, Event.OnI32ConstExpr 1]

end Walrus

namespace wabt

open Walrus

/-- The relation of a state to one with the same VM stack, the same open blocks and the same
`m_localInfo`. -/
def SameStacks (s s1 : WASMBinaryReader) : Prop :=
  s1.m_vmStack = s.m_vmStack ∧ s1.m_blockInfo = s.m_blockInfo ∧ s1.m_localInfo = s.m_localInfo

/-- No entry of the VM stacks `stack` and of the snapshots of the blocks `blocks` lives at
the position `pos`. -/
def NoEntryAt (pos : Nat) (stack : List VMStackInfo) (blocks : List BlockInfo) : Prop :=
  (∀ e ∈ stack, e.m_position ≠ pos) ∧ ∀ b ∈ blocks, ∀ e ∈ b.m_vmStack, e.m_position ≠ pos

end wabt

namespace Walrus

open wabt

/-- The reader of a function `(i32, i32) -> ()` after
`block  local.get 1  i32.const 7`, about to handle a `local.set 0` or a `local.tee 0`. -/
def exampleLocalWrite : WASMBinaryReader :=
  exampleAfter ⟨[ValueType.I32, ValueType.I32], []⟩ []
    [Event.OnBlockExpr SigType.Void, Event.OnLocalGetExpr 1, Event.OnI32ConstExpr 7]

end Walrus

namespace Walrus

open wabt

/-- The reader `exampleLocalWrite` after `local.set 0`. -/
def exampleLocalWritten : WASMBinaryReader :=
  exampleAfter ⟨[ValueType.I32, ValueType.I32], []⟩ []
    [Event.OnBlockExpr SigType.Void, Event.OnLocalGetExpr 1, Event.OnI32ConstExpr 7,
      Event.OnLocalSetExpr 0]

end Walrus
/-! ## Running a compilation step -/

namespace wabt

open Walrus

@[simp] theorem run_pure {α : Type} (a : α) (s : WASMBinaryReader) :
    (pure a : M α) s = Except.ok (a, s) := rfl

@[simp] theorem run_bind {α β : Type} (m : M α) (f : α → M β) (s : WASMBinaryReader) :
    (m >>= f) s = (match m s with
      | Except.ok (a, s1) => f a s1
      | Except.error e => Except.error e) := rfl

@[simp] theorem run_getS (s : WASMBinaryReader) : getS s = Except.ok (s, s) := rfl

@[simp] theorem run_modifyS (f : WASMBinaryReader → WASMBinaryReader) (s : WASMBinaryReader) :
    modifyS f s = Except.ok ((), f s) := rfl

@[simp] theorem run_failM {α : Type} (e : CompileError) (s : WASMBinaryReader) :
    (failM e : M α) s = Except.error e := rfl

@[simp] theorem run_liftE_ok {α : Type} (a : α) (s : WASMBinaryReader) :
    liftE (Except.ok a) s = Except.ok (a, s) := rfl

@[simp] theorem run_liftE_error {α : Type} (e : CompileError) (s : WASMBinaryReader) :
    (liftE (Except.error e) : M α) s = Except.error e := rfl

theorem bind_eq_ok {α β : Type} {m : M α} {f : α → M β} {s s2 : WASMBinaryReader} {b : β} :
    (m >>= f) s = Except.ok (b, s2) ↔
      ∃ a s1, m s = Except.ok (a, s1) ∧ f a s1 = Except.ok (b, s2) := by
  rw [run_bind]
  cases h : m s with
  | error e => simp
  | ok p =>
    obtain ⟨a, s1⟩ := p
    simp only []
    constructor
    · intro h2
      exact ⟨a, s1, rfl, h2⟩
    · rintro ⟨a1, s3, h3, h2⟩
      cases h3
      exact h2

theorem liftE_eq_ok {α : Type} {x : Except CompileError α} {s s1 : WASMBinaryReader} {a : α} :
    liftE x s = Except.ok (a, s1) ↔ x = Except.ok a ∧ s1 = s := by
  cases x with
  | error e => simp
  | ok b =>
    simp only [run_liftE_ok, Except.ok.injEq, Prod.mk.injEq]
    constructor
    · rintro ⟨rfl, rfl⟩
      exact ⟨rfl, rfl⟩
    · rintro ⟨h, rfl⟩
      exact ⟨h, rfl⟩

/-! ## Relations every step of a handler keeps -/

section preserves

variable {R : WASMBinaryReader → WASMBinaryReader → Prop}

theorem Preserves.pure [IsRefl WASMBinaryReader R] {α : Type} (a : α) :
    Preserves R (pure a : M α) := by
  intro s b s1 h
  simp at h
  obtain ⟨-, rfl⟩ := h
  exact IsRefl.refl s

theorem Preserves.bind [IsTrans WASMBinaryReader R] {α β : Type} {m : M α} {f : α → M β}
    (hm : Preserves R m) (hf : ∀ a, Preserves R (f a)) : Preserves R (m >>= f) := by
  intro s b s2 h
  obtain ⟨a, s1, h1, h2⟩ := bind_eq_ok.mp h
  exact IsTrans.trans _ _ _ (hm s a s1 h1) (hf a s1 b s2 h2)

theorem Preserves.getS [IsRefl WASMBinaryReader R] : Preserves R getS := by
  intro s b s1 h
  simp at h
  obtain ⟨-, rfl⟩ := h
  exact IsRefl.refl s

theorem Preserves.failM {α : Type} (e : CompileError) : Preserves R (failM e : M α) := by
  intro s b s1 h
  simp at h

theorem Preserves.liftE [IsRefl WASMBinaryReader R] {α : Type} (x : Except CompileError α) :
    Preserves R (liftE x) := by
  intro s b s1 h
  obtain ⟨-, rfl⟩ := liftE_eq_ok.mp h
  exact IsRefl.refl s1

theorem Preserves.modifyS {f : WASMBinaryReader → WASMBinaryReader} (hf : ∀ s, R s (f s)) :
    Preserves R (modifyS f) := by
  intro s b s1 h
  simp at h
  obtain ⟨-, rfl⟩ := h
  exact hf s

theorem Preserves.forEachM [IsRefl WASMBinaryReader R] [IsTrans WASMBinaryReader R] {α : Type}
    {f : α → M Unit} (hf : ∀ a, Preserves R (f a)) (l : List α) :
    Preserves R (WASMBinaryReader.forEachM f l) := by
  induction l with
  | nil =>
    unfold WASMBinaryReader.forEachM
    exact Preserves.pure ()
  | cons a rest ih =>
    unfold WASMBinaryReader.forEachM
    exact Preserves.bind (hf a) (fun _ => ih)

theorem Preserves.repeatM [IsRefl WASMBinaryReader R] [IsTrans WASMBinaryReader R]
    {f : M Unit} (hf : Preserves R f) (n : Nat) :
    Preserves R (WASMBinaryReader.repeatM f n) := by
  induction n with
  | zero =>
    unfold WASMBinaryReader.repeatM
    exact Preserves.pure ()
  | succ n ih =>
    unfold WASMBinaryReader.repeatM
    exact Preserves.bind hf (fun _ => ih)

end preserves

instance : IsRefl WASMBinaryReader SameFlags := ⟨fun _ => ⟨rfl, rfl⟩⟩

instance : IsTrans WASMBinaryReader SameFlags :=
  ⟨fun _ _ _ h1 h2 => ⟨h2.1.trans h1.1, h2.2.trans h1.2⟩⟩

theorem modifyRefCount_flags (f : Nat → Nat) (idx : Nat) (infos : List LocalInfo) :
    (modifyRefCount f idx infos).map (fun info => info.m_canUseDirectReference)
      = infos.map (fun info => info.m_canUseDirectReference) := by
  induction infos generalizing idx with
  | nil => cases idx <;> rfl
  | cons x xs ih =>
    cases idx with
    | zero => rfl
    | succ n => simp [modifyRefCount, ih]

@[simp] theorem increaseRefCountIfNeeds_flags (infos : List LocalInfo) (li : Option Nat) :
    (increaseRefCountIfNeeds infos li).map (fun info => info.m_canUseDirectReference)
      = infos.map (fun info => info.m_canUseDirectReference) := by
  cases li <;> simp [increaseRefCountIfNeeds, modifyRefCount_flags]

@[simp] theorem decreaseRefCountIfNeeds_flags (infos : List LocalInfo) (li : Option Nat) :
    (decreaseRefCountIfNeeds infos li).map (fun info => info.m_canUseDirectReference)
      = infos.map (fun info => info.m_canUseDirectReference) := by
  cases li <;> simp [decreaseRefCountIfNeeds, modifyRefCount_flags]

@[simp] theorem copyStackRefs_flags (infos : List LocalInfo) (stack : List VMStackInfo) :
    (copyStackRefs infos stack).map (fun info => info.m_canUseDirectReference)
      = infos.map (fun info => info.m_canUseDirectReference) := by
  unfold copyStackRefs
  induction stack generalizing infos with
  | nil => rfl
  | cons e rest ih => simp [List.foldl, ih]

@[simp] theorem destroyStackRefs_flags (infos : List LocalInfo) (stack : List VMStackInfo) :
    (destroyStackRefs infos stack).map (fun info => info.m_canUseDirectReference)
      = infos.map (fun info => info.m_canUseDirectReference) := by
  unfold destroyStackRefs
  induction stack generalizing infos with
  | nil => rfl
  | cons e rest ih => simp [List.foldl, ih]

end wabt

/-! ## No handler but the rewinding ones touches the direct-reference flags -/

set_option linter.unusedTactic false
set_option linter.unreachableTactic false

namespace wabt.WASMBinaryReader

open Walrus

theorem pushVMStackAt_sameFlags (size pos : Nat) (li : Option Nat) :
    Preserves SameFlags (pushVMStackAt size pos li) := by
  simp only [pushVMStackAt]
  repeat (first
    | with_reducible apply Preserves.getS
    | with_reducible apply Preserves.pure
    | with_reducible apply Preserves.failM
    | with_reducible apply Preserves.liftE
    | (with_reducible apply Preserves.modifyS; intro s; simp [SameFlags, directReferenceFlags])
    | with_reducible refine Preserves.forEachM (fun _ => ?_) _
    | with_reducible refine Preserves.repeatM ?_ _
    | with_reducible refine Preserves.bind ?_ (fun _ => ?_)
    | split
    | dsimp only)

theorem pushVMStack_sameFlags (size : Nat) :
    Preserves SameFlags (pushVMStack size) := by
  simp only [pushVMStack]
  repeat (first
    | with_reducible apply Preserves.getS
    | with_reducible apply Preserves.pure
    | with_reducible apply Preserves.failM
    | with_reducible apply Preserves.liftE
    | (with_reducible apply Preserves.modifyS; intro s; simp [SameFlags, directReferenceFlags])
    | with_reducible apply pushVMStackAt_sameFlags
    | with_reducible refine Preserves.forEachM (fun _ => ?_) _
    | with_reducible refine Preserves.repeatM ?_ _
    | with_reducible refine Preserves.bind ?_ (fun _ => ?_)
    | split
    | dsimp only)

theorem popVMStackInfo_sameFlags :
    Preserves SameFlags (popVMStackInfo) := by
  simp only [popVMStackInfo]
  repeat (first
    | with_reducible apply Preserves.getS
    | with_reducible apply Preserves.pure
    | with_reducible apply Preserves.failM
    | with_reducible apply Preserves.liftE
    | (with_reducible apply Preserves.modifyS; intro s; simp [SameFlags, directReferenceFlags])
    | with_reducible refine Preserves.forEachM (fun _ => ?_) _
    | with_reducible refine Preserves.repeatM ?_ _
    | with_reducible refine Preserves.bind ?_ (fun _ => ?_)
    | split
    | dsimp only)

theorem popVMStackSize_sameFlags :
    Preserves SameFlags (popVMStackSize) := by
  simp only [popVMStackSize]
  repeat (first
    | with_reducible apply Preserves.getS
    | with_reducible apply Preserves.pure
    | with_reducible apply Preserves.failM
    | with_reducible apply Preserves.liftE
    | (with_reducible apply Preserves.modifyS; intro s; simp [SameFlags, directReferenceFlags])
    | with_reducible apply popVMStackInfo_sameFlags
    | with_reducible refine Preserves.forEachM (fun _ => ?_) _
    | with_reducible refine Preserves.repeatM ?_ _
    | with_reducible refine Preserves.bind ?_ (fun _ => ?_)
    | split
    | dsimp only)

theorem popVMStack_sameFlags :
    Preserves SameFlags (popVMStack) := by
  simp only [popVMStack]
  repeat (first
    | with_reducible apply Preserves.getS
    | with_reducible apply Preserves.pure
    | with_reducible apply Preserves.failM
    | with_reducible apply Preserves.liftE
    | (with_reducible apply Preserves.modifyS; intro s; simp [SameFlags, directReferenceFlags])
    | with_reducible apply popVMStackInfo_sameFlags
    | with_reducible refine Preserves.forEachM (fun _ => ?_) _
    | with_reducible refine Preserves.repeatM ?_ _
    | with_reducible refine Preserves.bind ?_ (fun _ => ?_)
    | split
    | dsimp only)

theorem peekVMStackInfo_sameFlags :
    Preserves SameFlags (peekVMStackInfo) := by
  simp only [peekVMStackInfo]
  repeat (first
    | with_reducible apply Preserves.getS
    | with_reducible apply Preserves.pure
    | with_reducible apply Preserves.failM
    | with_reducible apply Preserves.liftE
    | (with_reducible apply Preserves.modifyS; intro s; simp [SameFlags, directReferenceFlags])
    | with_reducible refine Preserves.forEachM (fun _ => ?_) _
    | with_reducible refine Preserves.repeatM ?_ _
    | with_reducible refine Preserves.bind ?_ (fun _ => ?_)
    | split
    | dsimp only)

theorem peekVMStackSize_sameFlags :
    Preserves SameFlags (peekVMStackSize) := by
  simp only [peekVMStackSize]
  repeat (first
    | with_reducible apply Preserves.getS
    | with_reducible apply Preserves.pure
    | with_reducible apply Preserves.failM
    | with_reducible apply Preserves.liftE
    | (with_reducible apply Preserves.modifyS; intro s; simp [SameFlags, directReferenceFlags])
    | with_reducible apply peekVMStackInfo_sameFlags
    | with_reducible refine Preserves.forEachM (fun _ => ?_) _
    | with_reducible refine Preserves.repeatM ?_ _
    | with_reducible refine Preserves.bind ?_ (fun _ => ?_)
    | split
    | dsimp only)

theorem peekVMStack_sameFlags :
    Preserves SameFlags (peekVMStack) := by
  simp only [peekVMStack]
  repeat (first
    | with_reducible apply Preserves.getS
    | with_reducible apply Preserves.pure
    | with_reducible apply Preserves.failM
    | with_reducible apply Preserves.liftE
    | (with_reducible apply Preserves.modifyS; intro s; simp [SameFlags, directReferenceFlags])
    | with_reducible apply peekVMStackInfo_sameFlags
    | with_reducible refine Preserves.forEachM (fun _ => ?_) _
    | with_reducible refine Preserves.repeatM ?_ _
    | with_reducible refine Preserves.bind ?_ (fun _ => ?_)
    | split
    | dsimp only)

theorem pushByteCode_sameFlags (t : Target) (code : ByteCode) (op : WASMOpcode) :
    Preserves SameFlags (pushByteCode t code op) := by
  simp only [pushByteCode]
  repeat (first
    | with_reducible apply Preserves.getS
    | with_reducible apply Preserves.pure
    | with_reducible apply Preserves.failM
    | with_reducible apply Preserves.liftE
    | (with_reducible apply Preserves.modifyS; intro s; simp [SameFlags, directReferenceFlags])
    | with_reducible refine Preserves.forEachM (fun _ => ?_) _
    | with_reducible refine Preserves.repeatM ?_ _
    | with_reducible refine Preserves.bind ?_ (fun _ => ?_)
    | split
    | dsimp only)

theorem expandByteCode_sameFlags (n : Nat) :
    Preserves SameFlags (expandByteCode n) := by
  simp only [expandByteCode]
  repeat (first
    | with_reducible apply Preserves.getS
    | with_reducible apply Preserves.pure
    | with_reducible apply Preserves.failM
    | with_reducible apply Preserves.liftE
    | (with_reducible apply Preserves.modifyS; intro s; simp [SameFlags, directReferenceFlags])
    | with_reducible refine Preserves.forEachM (fun _ => ?_) _
    | with_reducible refine Preserves.repeatM ?_ _
    | with_reducible refine Preserves.bind ?_ (fun _ => ?_)
    | split
    | dsimp only)

theorem currentByteCodeSize_sameFlags :
    Preserves SameFlags (currentByteCodeSize) := by
  simp only [currentByteCodeSize]
  repeat (first
    | with_reducible apply Preserves.getS
    | with_reducible apply Preserves.pure
    | with_reducible apply Preserves.failM
    | with_reducible apply Preserves.liftE
    | (with_reducible apply Preserves.modifyS; intro s; simp [SameFlags, directReferenceFlags])
    | with_reducible refine Preserves.forEachM (fun _ => ?_) _
    | with_reducible refine Preserves.repeatM ?_ _
    | with_reducible refine Preserves.bind ?_ (fun _ => ?_)
    | split
    | dsimp only)

theorem pokeByteCode_sameFlags (pos : Nat) (f : ByteCode → Option ByteCode) :
    Preserves SameFlags (pokeByteCode pos f) := by
  simp only [pokeByteCode]
  repeat (first
    | with_reducible apply Preserves.getS
    | with_reducible apply Preserves.pure
    | with_reducible apply Preserves.failM
    | with_reducible apply Preserves.liftE
    | (with_reducible apply Preserves.modifyS; intro s; simp [SameFlags, directReferenceFlags])
    | with_reducible refine Preserves.forEachM (fun _ => ?_) _
    | with_reducible refine Preserves.repeatM ?_ _
    | with_reducible refine Preserves.bind ?_ (fun _ => ?_)
    | split
    | dsimp only)

theorem pokeInt32_sameFlags (t : Target) (pos : Nat) (f : Int → Int) :
    Preserves SameFlags (pokeInt32 t pos f) := by
  simp only [pokeInt32]
  repeat (first
    | with_reducible apply Preserves.getS
    | with_reducible apply Preserves.pure
    | with_reducible apply Preserves.failM
    | with_reducible apply Preserves.liftE
    | (with_reducible apply Preserves.modifyS; intro s; simp [SameFlags, directReferenceFlags])
    | with_reducible refine Preserves.forEachM (fun _ => ?_) _
    | with_reducible refine Preserves.repeatM ?_ _
    | with_reducible refine Preserves.bind ?_ (fun _ => ?_)
    | split
    | dsimp only)

theorem generateMoveCodeIfNeeds_sameFlags (t : Target) (a b c : Nat) :
    Preserves SameFlags (generateMoveCodeIfNeeds t a b c) := by
  simp only [generateMoveCodeIfNeeds]
  repeat (first
    | with_reducible apply Preserves.getS
    | with_reducible apply Preserves.pure
    | with_reducible apply Preserves.failM
    | with_reducible apply Preserves.liftE
    | (with_reducible apply Preserves.modifyS; intro s; simp [SameFlags, directReferenceFlags])
    | with_reducible apply pushByteCode_sameFlags
    | with_reducible refine Preserves.forEachM (fun _ => ?_) _
    | with_reducible refine Preserves.repeatM ?_ _
    | with_reducible refine Preserves.bind ?_ (fun _ => ?_)
    | split
    | dsimp only)

theorem omitUpdateLocalValueIfPossible_sameFlags (t : Target) (i : Nat) (r : Nat × Nat) (e : VMStackInfo) :
    Preserves SameFlags (omitUpdateLocalValueIfPossible t i r e) := by
  simp only [omitUpdateLocalValueIfPossible]
  repeat (first
    | with_reducible apply Preserves.getS
    | with_reducible apply Preserves.pure
    | with_reducible apply Preserves.failM
    | with_reducible apply Preserves.liftE
    | (with_reducible apply Preserves.modifyS; intro s; simp [SameFlags, directReferenceFlags])
    | with_reducible apply pokeByteCode_sameFlags
    | with_reducible refine Preserves.forEachM (fun _ => ?_) _
    | with_reducible refine Preserves.repeatM ?_ _
    | with_reducible refine Preserves.bind ?_ (fun _ => ?_)
    | split
    | dsimp only)

theorem newBlockInfo_sameFlags (t : Target) (ty : BlockType) (sig : SigType) :
    Preserves SameFlags (newBlockInfo t ty sig) := by
  simp only [newBlockInfo]
  repeat (first
    | with_reducible apply Preserves.getS
    | with_reducible apply Preserves.pure
    | with_reducible apply Preserves.failM
    | with_reducible apply Preserves.liftE
    | (with_reducible apply Preserves.modifyS; intro s; simp [SameFlags, directReferenceFlags])
    | with_reducible apply generateMoveCodeIfNeeds_sameFlags
    | with_reducible apply currentByteCodeSize_sameFlags
    | with_reducible refine Preserves.forEachM (fun _ => ?_) _
    | with_reducible refine Preserves.repeatM ?_ _
    | with_reducible refine Preserves.bind ?_ (fun _ => ?_)
    | split
    | dsimp only)

theorem pushBlockInfo_sameFlags (b : BlockInfo) :
    Preserves SameFlags (pushBlockInfo b) := by
  simp only [pushBlockInfo]
  repeat (first
    | with_reducible apply Preserves.getS
    | with_reducible apply Preserves.pure
    | with_reducible apply Preserves.failM
    | with_reducible apply Preserves.liftE
    | (with_reducible apply Preserves.modifyS; intro s; simp [SameFlags, directReferenceFlags])
    | with_reducible refine Preserves.forEachM (fun _ => ?_) _
    | with_reducible refine Preserves.repeatM ?_ _
    | with_reducible refine Preserves.bind ?_ (fun _ => ?_)
    | split
    | dsimp only)

theorem restoreVMStackBy_sameFlags (b : BlockInfo) :
    Preserves SameFlags (restoreVMStackBy b) := by
  simp only [restoreVMStackBy]
  repeat (first
    | with_reducible apply Preserves.getS
    | with_reducible apply Preserves.pure
    | with_reducible apply Preserves.failM
    | with_reducible apply Preserves.liftE
    | (with_reducible apply Preserves.modifyS; intro s; simp [SameFlags, directReferenceFlags])
    | with_reducible refine Preserves.forEachM (fun _ => ?_) _
    | with_reducible refine Preserves.repeatM ?_ _
    | with_reducible refine Preserves.bind ?_ (fun _ => ?_)
    | split
    | dsimp only)

theorem restoreVMStackRegardToPartOfBlockEnd_sameFlags (b : BlockInfo) :
    Preserves SameFlags (restoreVMStackRegardToPartOfBlockEnd b) := by
  simp only [restoreVMStackRegardToPartOfBlockEnd]
  repeat (first
    | with_reducible apply Preserves.getS
    | with_reducible apply Preserves.pure
    | with_reducible apply Preserves.failM
    | with_reducible apply Preserves.liftE
    | (with_reducible apply Preserves.modifyS; intro s; simp [SameFlags, directReferenceFlags])
    | with_reducible apply restoreVMStackBy_sameFlags
    | with_reducible apply popVMStackSize_sameFlags
    | with_reducible refine Preserves.forEachM (fun _ => ?_) _
    | with_reducible refine Preserves.repeatM ?_ _
    | with_reducible refine Preserves.bind ?_ (fun _ => ?_)
    | split
    | dsimp only)

theorem modifyBlockAtDepth_sameFlags (depth : Nat) (f : BlockInfo → BlockInfo) :
    Preserves SameFlags (modifyBlockAtDepth depth f) := by
  simp only [modifyBlockAtDepth]
  repeat (first
    | with_reducible apply Preserves.getS
    | with_reducible apply Preserves.pure
    | with_reducible apply Preserves.failM
    | with_reducible apply Preserves.liftE
    | (with_reducible apply Preserves.modifyS; intro s; simp [SameFlags, directReferenceFlags])
    | with_reducible refine Preserves.forEachM (fun _ => ?_) _
    | with_reducible refine Preserves.repeatM ?_ _
    | with_reducible refine Preserves.bind ?_ (fun _ => ?_)
    | split
    | dsimp only)

theorem stopToGenerateByteCodeWhileBlockEnd_sameFlags :
    Preserves SameFlags (stopToGenerateByteCodeWhileBlockEnd) := by
  simp only [stopToGenerateByteCodeWhileBlockEnd]
  repeat (first
    | with_reducible apply Preserves.getS
    | with_reducible apply Preserves.pure
    | with_reducible apply Preserves.failM
    | with_reducible apply Preserves.liftE
    | (with_reducible apply Preserves.modifyS; intro s; simp [SameFlags, directReferenceFlags])
    | with_reducible refine Preserves.forEachM (fun _ => ?_) _
    | with_reducible refine Preserves.repeatM ?_ _
    | with_reducible refine Preserves.bind ?_ (fun _ => ?_)
    | split
    | dsimp only)

theorem moveValuesLoop_sameFlags (t : Target) (rev : List VMStackInfo) (srcIdx dstIdx : Nat)
    (remain : Int) : Preserves SameFlags (moveValuesLoop t rev srcIdx dstIdx remain) := by
  induction srcIdx generalizing dstIdx remain with
  | zero =>
    unfold moveValuesLoop
    repeat (first
      | with_reducible apply Preserves.getS
      | with_reducible apply Preserves.pure
      | with_reducible apply Preserves.failM
      | with_reducible apply Preserves.liftE
      | (with_reducible apply Preserves.modifyS; intro s; simp [SameFlags, directReferenceFlags])
      | with_reducible apply generateMoveCodeIfNeeds_sameFlags
      | with_reducible refine Preserves.forEachM (fun _ => ?_) _
      | with_reducible refine Preserves.repeatM ?_ _
      | with_reducible refine Preserves.bind ?_ (fun _ => ?_)
      | split
      | dsimp only)
  | succ n ih =>
    unfold moveValuesLoop
    repeat (first
      | with_reducible apply Preserves.getS
      | with_reducible apply Preserves.pure
      | with_reducible apply Preserves.failM
      | with_reducible apply Preserves.liftE
      | (with_reducible apply Preserves.modifyS; intro s; simp [SameFlags, directReferenceFlags])
      | with_reducible apply generateMoveCodeIfNeeds_sameFlags
      | with_reducible apply ih
      | with_reducible refine Preserves.forEachM (fun _ => ?_) _
      | with_reducible refine Preserves.repeatM ?_ _
      | with_reducible refine Preserves.bind ?_ (fun _ => ?_)
      | split
      | dsimp only)

theorem generateMoveValuesCodeRegardToDrop_sameFlags (t : Target) (d : Nat × Nat) :
    Preserves SameFlags (generateMoveValuesCodeRegardToDrop t d) := by
  simp only [generateMoveValuesCodeRegardToDrop]
  repeat (first
    | with_reducible apply Preserves.getS
    | with_reducible apply Preserves.pure
    | with_reducible apply Preserves.failM
    | with_reducible apply Preserves.liftE
    | (with_reducible apply Preserves.modifyS; intro s; simp [SameFlags, directReferenceFlags])
    | with_reducible apply moveValuesLoop_sameFlags
    | with_reducible refine Preserves.forEachM (fun _ => ?_) _
    | with_reducible refine Preserves.repeatM ?_ _
    | with_reducible refine Preserves.bind ?_ (fun _ => ?_)
    | split
    | dsimp only)

theorem keepSubResultsIfNeeds_sameFlags (t : Target) :
    Preserves SameFlags (keepSubResultsIfNeeds t) := by
  simp only [keepSubResultsIfNeeds]
  repeat (first
    | with_reducible apply Preserves.getS
    | with_reducible apply Preserves.pure
    | with_reducible apply Preserves.failM
    | with_reducible apply Preserves.liftE
    | (with_reducible apply Preserves.modifyS; intro s; simp [SameFlags, directReferenceFlags])
    | with_reducible apply modifyBlockAtDepth_sameFlags
    | with_reducible apply generateMoveValuesCodeRegardToDrop_sameFlags
    | with_reducible refine Preserves.forEachM (fun _ => ?_) _
    | with_reducible refine Preserves.repeatM ?_ _
    | with_reducible refine Preserves.bind ?_ (fun _ => ?_)
    | split
    | dsimp only)

theorem generateEndCode_sameFlags (t : Target) :
    Preserves SameFlags (generateEndCode t) := by
  simp only [generateEndCode]
  repeat (first
    | with_reducible apply Preserves.getS
    | with_reducible apply Preserves.pure
    | with_reducible apply Preserves.failM
    | with_reducible apply Preserves.liftE
    | (with_reducible apply Preserves.modifyS; intro s; simp [SameFlags, directReferenceFlags])
    | with_reducible apply currentByteCodeSize_sameFlags
    | with_reducible apply pushByteCode_sameFlags
    | with_reducible apply expandByteCode_sameFlags
    | with_reducible apply pokeByteCode_sameFlags
    | with_reducible refine Preserves.forEachM (fun _ => ?_) _
    | with_reducible refine Preserves.repeatM ?_ _
    | with_reducible refine Preserves.bind ?_ (fun _ => ?_)
    | split
    | dsimp only)

theorem popWhileDropSize_sameFlags (fuel dropSize : Nat) :
    Preserves SameFlags (popWhileDropSize fuel dropSize) := by
  induction fuel generalizing dropSize with
  | zero =>
    cases dropSize with
    | zero =>
      unfold popWhileDropSize
      exact Preserves.pure ()
    | succ d =>
      unfold popWhileDropSize
      exact Preserves.failM _
  | succ n ih =>
    cases dropSize with
    | zero =>
      unfold popWhileDropSize
      exact Preserves.pure ()
    | succ d =>
      unfold popWhileDropSize
      exact Preserves.bind popVMStackSize_sameFlags (fun _ => ih _)

theorem generateFunctionReturnCode_sameFlags (t : Target) (b : Bool) :
    Preserves SameFlags (generateFunctionReturnCode t b) := by
  simp only [generateFunctionReturnCode]
  repeat (first
    | with_reducible apply Preserves.getS
    | with_reducible apply Preserves.pure
    | with_reducible apply Preserves.failM
    | with_reducible apply Preserves.liftE
    | (with_reducible apply Preserves.modifyS; intro s; simp [SameFlags, directReferenceFlags])
    | with_reducible apply generateEndCode_sameFlags
    | with_reducible apply popWhileDropSize_sameFlags
    | with_reducible apply popVMStackSize_sameFlags
    | with_reducible apply stopToGenerateByteCodeWhileBlockEnd_sameFlags
    | with_reducible refine Preserves.forEachM (fun _ => ?_) _
    | with_reducible refine Preserves.repeatM ?_ _
    | with_reducible refine Preserves.bind ?_ (fun _ => ?_)
    | split
    | dsimp only)

theorem pushJumpToEndIfBlockOrIfElse_sameFlags (depth : Nat) (b : BlockInfo) (ty : JumpToEndType) (pos : Nat) :
    Preserves SameFlags (pushJumpToEndIfBlockOrIfElse depth b ty pos) := by
  simp only [pushJumpToEndIfBlockOrIfElse]
  repeat (first
    | with_reducible apply Preserves.getS
    | with_reducible apply Preserves.pure
    | with_reducible apply Preserves.failM
    | with_reducible apply Preserves.liftE
    | (with_reducible apply Preserves.modifyS; intro s; simp [SameFlags, directReferenceFlags])
    | with_reducible apply modifyBlockAtDepth_sameFlags
    | with_reducible refine Preserves.forEachM (fun _ => ?_) _
    | with_reducible refine Preserves.repeatM ?_ _
    | with_reducible refine Preserves.bind ?_ (fun _ => ?_)
    | split
    | dsimp only)

theorem OnBrExpr_sameFlags (t : Target) (depth : Nat) :
    Preserves SameFlags (OnBrExpr t depth) := by
  simp only [OnBrExpr]
  repeat (first
    | with_reducible apply Preserves.getS
    | with_reducible apply Preserves.pure
    | with_reducible apply Preserves.failM
    | with_reducible apply Preserves.liftE
    | (with_reducible apply Preserves.modifyS; intro s; simp [SameFlags, directReferenceFlags])
    | with_reducible apply generateFunctionReturnCode_sameFlags
    | with_reducible apply generateMoveValuesCodeRegardToDrop_sameFlags
    | with_reducible apply currentByteCodeSize_sameFlags
    | with_reducible apply pushJumpToEndIfBlockOrIfElse_sameFlags
    | with_reducible apply pushByteCode_sameFlags
    | with_reducible apply stopToGenerateByteCodeWhileBlockEnd_sameFlags
    | with_reducible refine Preserves.forEachM (fun _ => ?_) _
    | with_reducible refine Preserves.repeatM ?_ _
    | with_reducible refine Preserves.bind ?_ (fun _ => ?_)
    | split
    | dsimp only)

theorem OnBrIfExpr_sameFlags (t : Target) (depth : Nat) :
    Preserves SameFlags (OnBrIfExpr t depth) := by
  simp only [OnBrIfExpr]
  repeat (first
    | with_reducible apply Preserves.getS
    | with_reducible apply Preserves.pure
    | with_reducible apply Preserves.failM
    | with_reducible apply Preserves.liftE
    | (with_reducible apply Preserves.modifyS; intro s; simp [SameFlags, directReferenceFlags])
    | with_reducible apply popVMStack_sameFlags
    | with_reducible apply generateEndCode_sameFlags
    | with_reducible apply generateMoveValuesCodeRegardToDrop_sameFlags
    | with_reducible apply currentByteCodeSize_sameFlags
    | with_reducible apply pushJumpToEndIfBlockOrIfElse_sameFlags
    | with_reducible apply pushByteCode_sameFlags
    | with_reducible apply pokeByteCode_sameFlags
    | with_reducible refine Preserves.forEachM (fun _ => ?_) _
    | with_reducible refine Preserves.repeatM ?_ _
    | with_reducible refine Preserves.bind ?_ (fun _ => ?_)
    | split
    | dsimp only)

theorem emitBrTableCase_sameFlags (t : Target) (code depth off : Nat) :
    Preserves SameFlags (emitBrTableCase t code depth off) := by
  simp only [emitBrTableCase]
  repeat (first
    | with_reducible apply Preserves.getS
    | with_reducible apply Preserves.pure
    | with_reducible apply Preserves.failM
    | with_reducible apply Preserves.liftE
    | (with_reducible apply Preserves.modifyS; intro s; simp [SameFlags, directReferenceFlags])
    | with_reducible apply pokeByteCode_sameFlags
    | with_reducible apply generateEndCode_sameFlags
    | with_reducible apply OnBrExpr_sameFlags
    | with_reducible apply modifyBlockAtDepth_sameFlags
    | with_reducible refine Preserves.forEachM (fun _ => ?_) _
    | with_reducible refine Preserves.repeatM ?_ _
    | with_reducible refine Preserves.bind ?_ (fun _ => ?_)
    | split
    | dsimp only)

theorem OnBrTableExpr_sameFlags (t : Target) (targets : List Nat) (dflt : Nat) :
    Preserves SameFlags (OnBrTableExpr t targets dflt) := by
  simp only [OnBrTableExpr]
  repeat (first
    | with_reducible apply Preserves.getS
    | with_reducible apply Preserves.pure
    | with_reducible apply Preserves.failM
    | with_reducible apply Preserves.liftE
    | (with_reducible apply Preserves.modifyS; intro s; simp [SameFlags, directReferenceFlags])
    | with_reducible apply popVMStack_sameFlags
    | with_reducible apply currentByteCodeSize_sameFlags
    | with_reducible apply pushByteCode_sameFlags
    | with_reducible apply expandByteCode_sameFlags
    | with_reducible apply emitBrTableCase_sameFlags
    | with_reducible apply stopToGenerateByteCodeWhileBlockEnd_sameFlags
    | with_reducible refine Preserves.forEachM (fun _ => ?_) _
    | with_reducible refine Preserves.repeatM ?_ _
    | with_reducible refine Preserves.bind ?_ (fun _ => ?_)
    | split
    | dsimp only)

theorem OnElseExpr_sameFlags (t : Target) :
    Preserves SameFlags (OnElseExpr t) := by
  simp only [OnElseExpr]
  repeat (first
    | with_reducible apply Preserves.getS
    | with_reducible apply Preserves.pure
    | with_reducible apply Preserves.failM
    | with_reducible apply Preserves.liftE
    | (with_reducible apply Preserves.modifyS; intro s; simp [SameFlags, directReferenceFlags])
    | with_reducible apply keepSubResultsIfNeeds_sameFlags
    | with_reducible apply currentByteCodeSize_sameFlags
    | with_reducible apply modifyBlockAtDepth_sameFlags
    | with_reducible apply pushByteCode_sameFlags
    | with_reducible apply restoreVMStackRegardToPartOfBlockEnd_sameFlags
    | with_reducible apply pokeByteCode_sameFlags
    | with_reducible refine Preserves.forEachM (fun _ => ?_) _
    | with_reducible refine Preserves.repeatM ?_ _
    | with_reducible refine Preserves.bind ?_ (fun _ => ?_)
    | split
    | dsimp only)

theorem patchJumpToEnd_sameFlags (t : Target) (info : JumpToEndBrInfo) :
    Preserves SameFlags (patchJumpToEnd t info) := by
  simp only [patchJumpToEnd]
  repeat (first
    | with_reducible apply Preserves.getS
    | with_reducible apply Preserves.pure
    | with_reducible apply Preserves.failM
    | with_reducible apply Preserves.liftE
    | (with_reducible apply Preserves.modifyS; intro s; simp [SameFlags, directReferenceFlags])
    | with_reducible apply currentByteCodeSize_sameFlags
    | with_reducible apply pokeByteCode_sameFlags
    | with_reducible apply pokeInt32_sameFlags
    | with_reducible refine Preserves.forEachM (fun _ => ?_) _
    | with_reducible refine Preserves.repeatM ?_ _
    | with_reducible refine Preserves.bind ?_ (fun _ => ?_)
    | split
    | dsimp only)

theorem pushVMStackKinds_sameFlags (t : Target) (kinds : List ValueType) :
    Preserves SameFlags (pushVMStackKinds t kinds) := by
  induction kinds with
  | nil =>
    unfold pushVMStackKinds
    exact Preserves.pure _
  | cons k rest ih =>
    unfold pushVMStackKinds
    exact Preserves.bind (pushVMStack_sameFlags _)
      (fun _ => Preserves.bind ih (fun _ => Preserves.pure _))

theorem popVMStackArgs_sameFlags (n : Nat) : Preserves SameFlags (popVMStackArgs n) := by
  induction n with
  | zero =>
    unfold popVMStackArgs
    exact Preserves.pure _
  | succ n ih =>
    unfold popVMStackArgs
    exact Preserves.bind popVMStack_sameFlags
      (fun _ => Preserves.bind ih (fun _ => Preserves.pure _))

theorem OnEndExpr_sameFlags (t : Target) :
    Preserves SameFlags (OnEndExpr t) := by
  simp only [OnEndExpr]
  repeat (first
    | with_reducible apply Preserves.getS
    | with_reducible apply Preserves.pure
    | with_reducible apply Preserves.failM
    | with_reducible apply Preserves.liftE
    | (with_reducible apply Preserves.modifyS; intro s; simp [SameFlags, directReferenceFlags])
    | with_reducible apply stopToGenerateByteCodeWhileBlockEnd_sameFlags
    | with_reducible apply generateMoveValuesCodeRegardToDrop_sameFlags
    | with_reducible apply restoreVMStackBy_sameFlags
    | with_reducible apply popVMStack_sameFlags
    | with_reducible apply pushVMStackKinds_sameFlags
    | with_reducible apply pushVMStack_sameFlags
    | with_reducible apply patchJumpToEnd_sameFlags
    | with_reducible apply generateEndCode_sameFlags
    | with_reducible refine Preserves.forEachM (fun _ => ?_) _
    | with_reducible refine Preserves.repeatM ?_ _
    | with_reducible refine Preserves.bind ?_ (fun _ => ?_)
    | split
    | dsimp only)

theorem OnThrowExpr_sameFlags (t : Target) (tag : Nat) :
    Preserves SameFlags (OnThrowExpr t tag) := by
  simp only [OnThrowExpr]
  repeat (first
    | with_reducible apply Preserves.getS
    | with_reducible apply Preserves.pure
    | with_reducible apply Preserves.failM
    | with_reducible apply Preserves.liftE
    | (with_reducible apply Preserves.modifyS; intro s; simp [SameFlags, directReferenceFlags])
    | with_reducible apply currentByteCodeSize_sameFlags
    | with_reducible apply pushByteCode_sameFlags
    | with_reducible apply expandByteCode_sameFlags
    | with_reducible apply pokeByteCode_sameFlags
    | with_reducible apply popVMStack_sameFlags
    | with_reducible apply stopToGenerateByteCodeWhileBlockEnd_sameFlags
    | with_reducible refine Preserves.forEachM (fun _ => ?_) _
    | with_reducible refine Preserves.repeatM ?_ _
    | with_reducible refine Preserves.bind ?_ (fun _ => ?_)
    | split
    | dsimp only)

theorem processCatchExpr_sameFlags (t : Target) (tag : Nat) :
    Preserves SameFlags (processCatchExpr t tag) := by
  simp only [processCatchExpr]
  repeat (first
    | with_reducible apply Preserves.getS
    | with_reducible apply Preserves.pure
    | with_reducible apply Preserves.failM
    | with_reducible apply Preserves.liftE
    | (with_reducible apply Preserves.modifyS; intro s; simp [SameFlags, directReferenceFlags])
    | with_reducible apply keepSubResultsIfNeeds_sameFlags
    | with_reducible apply restoreVMStackRegardToPartOfBlockEnd_sameFlags
    | with_reducible apply currentByteCodeSize_sameFlags
    | with_reducible apply modifyBlockAtDepth_sameFlags
    | with_reducible apply pushByteCode_sameFlags
    | with_reducible apply pushVMStackKinds_sameFlags
    | with_reducible refine Preserves.forEachM (fun _ => ?_) _
    | with_reducible refine Preserves.repeatM ?_ _
    | with_reducible refine Preserves.bind ?_ (fun _ => ?_)
    | split
    | dsimp only)

theorem OnCallExpr_sameFlags (t : Target) (index : Nat) :
    Preserves SameFlags (OnCallExpr t index) := by
  simp only [OnCallExpr]
  repeat (first
    | with_reducible apply Preserves.getS
    | with_reducible apply Preserves.pure
    | with_reducible apply Preserves.failM
    | with_reducible apply Preserves.liftE
    | (with_reducible apply Preserves.modifyS; intro s; simp [SameFlags, directReferenceFlags])
    | with_reducible apply currentByteCodeSize_sameFlags
    | with_reducible apply pushByteCode_sameFlags
    | with_reducible apply expandByteCode_sameFlags
    | with_reducible apply popVMStackArgs_sameFlags
    | with_reducible apply pushVMStackKinds_sameFlags
    | with_reducible apply pokeByteCode_sameFlags
    | with_reducible refine Preserves.forEachM (fun _ => ?_) _
    | with_reducible refine Preserves.repeatM ?_ _
    | with_reducible refine Preserves.bind ?_ (fun _ => ?_)
    | split
    | dsimp only)

theorem OnCallIndirectExpr_sameFlags (t : Target) (sig table : Nat) :
    Preserves SameFlags (OnCallIndirectExpr t sig table) := by
  simp only [OnCallIndirectExpr]
  repeat (first
    | with_reducible apply Preserves.getS
    | with_reducible apply Preserves.pure
    | with_reducible apply Preserves.failM
    | with_reducible apply Preserves.liftE
    | (with_reducible apply Preserves.modifyS; intro s; simp [SameFlags, directReferenceFlags])
    | with_reducible apply currentByteCodeSize_sameFlags
    | with_reducible apply popVMStack_sameFlags
    | with_reducible apply pushByteCode_sameFlags
    | with_reducible apply expandByteCode_sameFlags
    | with_reducible apply popVMStackArgs_sameFlags
    | with_reducible apply pushVMStackKinds_sameFlags
    | with_reducible apply pokeByteCode_sameFlags
    | with_reducible refine Preserves.forEachM (fun _ => ?_) _
    | with_reducible refine Preserves.repeatM ?_ _
    | with_reducible refine Preserves.bind ?_ (fun _ => ?_)
    | split
    | dsimp only)

/-- Every handler other than `OnLocalSetExpr` and `OnLocalTeeExpr` keeps the direct-reference
flags and the reader offset. -/
theorem handler_sameFlags (t : Target) (e : Event)
    (hset : ∀ i, e ≠ Event.OnLocalSetExpr i) (htee : ∀ i, e ≠ Event.OnLocalTeeExpr i) :
    Preserves SameFlags (e.handler t) := by
  cases e
  case OnLocalSetExpr i => exact absurd rfl (hset i)
  case OnLocalTeeExpr i => exact absurd rfl (htee i)
  all_goals
    simp only [Event.handler, OnOpcode, OnI32ConstExpr, OnI64ConstExpr, OnF32ConstExpr,
      OnF64ConstExpr, OnLocalGetExpr, OnGlobalGetExpr, OnGlobalSetExpr, OnDropExpr,
      OnBinaryExpr, OnUnaryExpr, generateBinaryCode, generateUnaryCode, OnIfExpr,
      OnLoopExpr, OnBlockExpr, OnTryExpr, OnSelectExpr, OnCatchExpr,
      OnCatchAllExpr, OnMemoryInitExpr, OnMemoryCopyExpr, OnMemoryFillExpr, OnDataDropExpr,
      OnMemoryGrowExpr, OnMemorySizeExpr, OnTableGetExpr, OnTableSetExpr, OnTableGrowExpr,
      OnTableSizeExpr, OnTableCopyExpr, OnTableFillExpr, OnElemDropExpr, OnTableInitExpr,
      OnLoadExpr, OnStoreExpr, generateMemoryLoadCode, generateMemoryStoreCode, OnRefFuncExpr,
      OnRefNullExpr, OnRefIsNullExpr, OnNopExpr, OnReturnExpr, OnUnreachableExpr]
    repeat (first
      | with_reducible apply Preserves.getS
      | with_reducible apply Preserves.pure
      | with_reducible apply Preserves.failM
      | with_reducible apply Preserves.liftE
      | (with_reducible apply Preserves.modifyS; intro s; simp [SameFlags, directReferenceFlags])
      | with_reducible apply popVMStack_sameFlags
      | with_reducible apply peekVMStack_sameFlags
      | with_reducible apply peekVMStackSize_sameFlags
      | with_reducible apply pushVMStack_sameFlags
      | with_reducible apply pushVMStackAt_sameFlags
      | with_reducible apply pushByteCode_sameFlags
      | with_reducible apply generateMoveCodeIfNeeds_sameFlags
      | with_reducible apply stopToGenerateByteCodeWhileBlockEnd_sameFlags
      | with_reducible apply generateFunctionReturnCode_sameFlags
      | with_reducible apply newBlockInfo_sameFlags
      | with_reducible apply pushBlockInfo_sameFlags
      | with_reducible apply processCatchExpr_sameFlags
      | with_reducible apply OnCallExpr_sameFlags
      | with_reducible apply OnCallIndirectExpr_sameFlags
      | with_reducible apply OnBrExpr_sameFlags
      | with_reducible apply OnBrIfExpr_sameFlags
      | with_reducible apply OnBrTableExpr_sameFlags
      | with_reducible apply OnElseExpr_sameFlags
      | with_reducible apply OnEndExpr_sameFlags
      | with_reducible apply OnThrowExpr_sameFlags
      | with_reducible refine Preserves.forEachM (fun _ => ?_) _
      | with_reducible refine Preserves.repeatM ?_ _
      | with_reducible refine Preserves.bind ?_ (fun _ => ?_)
      | split
      | dsimp only)

end wabt.WASMBinaryReader

/-! ## The rewinding handlers -/

namespace wabt.WASMBinaryReader

open Walrus

theorem elemAt_eq_ok {α : Type} {l : List α} {i : Nat} {a : α} :
    elemAt l i = Except.ok a ↔ l[i]? = some a := by
  unfold elemAt
  cases h : l[i]? with
  | none => simp
  | some b => simp

theorem clearDirectReference_flags (i : Nat) (infos : List LocalInfo) :
    (clearDirectReference i infos).map (fun info => info.m_canUseDirectReference)
      = (infos.map (fun info => info.m_canUseDirectReference)).set i false := by
  induction infos generalizing i with
  | nil => cases i <;> rfl
  | cons x xs ih =>
    cases i with
    | zero => rfl
    | succ n => simp [clearDirectReference, ih]

theorem map_reset_flags (infos : List LocalInfo) :
    (infos.map LocalInfo.reset).map (fun info => info.m_canUseDirectReference)
      = infos.map (fun info => info.m_canUseDirectReference) := by
  induction infos with
  | nil => rfl
  | cons x xs ih => simp [LocalInfo.reset]

/-- The state in which a rewind for local `i` leaves the reader. -/
theorem rewind_run (i : Nat) (s : WASMBinaryReader) :
    ((modifyS fun s => { s with m_localInfo := clearDirectReference i s.m_localInfo }) >>=
        fun _ => resetFunctionCodeDataFromHere) s
      = Except.ok ((), { s with
          m_skipValidationUntil := s.readerOffset
          readerOffset := s.m_codeStartOffset
          m_currentFunction := { s.m_currentFunction with
            m_byteCode := []
            m_byteCodeSize := 0
            m_catchInfo := [] }
          m_blockInfo := []
          m_catchInfo := []
          m_functionStackSizeSoFar := s.m_initialFunctionStackSize
          m_lastByteCodePosition := 0
          m_lastPushedOpcode := WASMOpcode.OpcodeKindEnd
          m_lastOpcode := (0, 0)
          m_vmStack := []
          m_localInfo := (clearDirectReference i s.m_localInfo).map LocalInfo.reset }) := by
  simp [resetFunctionCodeDataFromHere]

/-- `OnLocalSetExpr` when its rewind condition holds. -/
theorem OnLocalSetExpr_rewinds (t : Target) (s : WASMBinaryReader) (i : Nat) (r : Nat × Nat)
    (info : LocalInfo) (top : VMStackInfo)
    (hr : resolveLocalOffsetAndSize t s i = Except.ok r)
    (hinfo : s.m_localInfo[i]? = some info)
    (htop : s.m_vmStack.getLast? = some top)
    (hcount : info.m_refCount ≠ 0) (hflag : info.m_canUseDirectReference = true)
    (hpos : top.m_position ≠ r.1) :
    OnLocalSetExpr t i s
      = ((modifyS fun s => { s with m_localInfo := clearDirectReference i s.m_localInfo }) >>=
        fun _ => resetFunctionCodeDataFromHere) s := by
  have hinfo2 : elemAt s.m_localInfo i = Except.ok info := elemAt_eq_ok.mpr hinfo
  simp [OnLocalSetExpr, hr, hinfo2, peekVMStackInfo, htop, hcount, hflag, hpos]

/-- `OnLocalSetExpr` when its rewind condition fails. -/
theorem OnLocalSetExpr_continues (t : Target) (s : WASMBinaryReader) (i : Nat) (r : Nat × Nat)
    (info : LocalInfo)
    (hr : resolveLocalOffsetAndSize t s i = Except.ok r)
    (hinfo : s.m_localInfo[i]? = some info)
    (hno : ∀ top, s.m_vmStack.getLast? = some top →
      ¬ (info.m_refCount ≠ 0 ∧ info.m_canUseDirectReference = true ∧ top.m_position ≠ r.1))
    (a : Unit) (s1 : WASMBinaryReader) (h : OnLocalSetExpr t i s = Except.ok (a, s1)) :
    SameFlags s s1 := by
  have hinfo2 : elemAt s.m_localInfo i = Except.ok info := elemAt_eq_ok.mpr hinfo
  have hrest : Preserves SameFlags (do
      let src ← popVMStackInfo
      let omitted ← omitUpdateLocalValueIfPossible t i r src
      if !omitted then
        generateMoveCodeIfNeeds t src.m_position r.1 r.2
      else
        pure ()) := by
    repeat (first
      | with_reducible apply Preserves.pure
      | with_reducible apply popVMStackInfo_sameFlags
      | with_reducible apply omitUpdateLocalValueIfPossible_sameFlags
      | with_reducible apply generateMoveCodeIfNeeds_sameFlags
      | with_reducible refine Preserves.bind ?_ (fun _ => ?_)
      | split)
  simp only [OnLocalSetExpr, run_bind, run_getS, hr, run_liftE_ok, hinfo2] at h
  by_cases hc : info.m_refCount ≠ 0 ∧ info.m_canUseDirectReference = true
  · rw [if_pos hc] at h
    cases htop : s.m_vmStack.getLast? with
    | none =>
      simp [peekVMStackInfo, htop] at h
    | some top =>
      have hp : top.m_position = r.1 := by
        by_contra hne
        exact hno top htop ⟨hc.1, hc.2, hne⟩
      simp only [peekVMStackInfo, run_bind, run_getS, htop, run_pure, hp, ne_eq,
        not_true_eq_false, decide_False, Bool.false_eq_true, if_false] at h
      exact hrest s a s1 h
  · rw [if_neg hc] at h
    simp only [run_pure, Bool.false_eq_true, if_false] at h
    exact hrest s a s1 h

/-- `OnLocalTeeExpr` when its rewind condition holds. -/
theorem OnLocalTeeExpr_rewinds (t : Target) (s : WASMBinaryReader) (i : Nat) (info : LocalInfo)
    (hinfo : s.m_localInfo[i]? = some info)
    (hcount : info.m_refCount ≠ 0) (hflag : info.m_canUseDirectReference = true) :
    OnLocalTeeExpr t i s
      = ((modifyS fun s => { s with m_localInfo := clearDirectReference i s.m_localInfo }) >>=
        fun _ => resetFunctionCodeDataFromHere) s := by
  have hinfo2 : elemAt s.m_localInfo i = Except.ok info := elemAt_eq_ok.mpr hinfo
  simp [OnLocalTeeExpr, hinfo2, hcount, hflag]

/-- `OnLocalTeeExpr` when its rewind condition fails. -/
theorem OnLocalTeeExpr_continues (t : Target) (s : WASMBinaryReader) (i : Nat) (info : LocalInfo)
    (hinfo : s.m_localInfo[i]? = some info)
    (hno : ¬ (info.m_refCount ≠ 0 ∧ info.m_canUseDirectReference = true))
    (a : Unit) (s1 : WASMBinaryReader) (h : OnLocalTeeExpr t i s = Except.ok (a, s1)) :
    SameFlags s s1 := by
  have hinfo2 : elemAt s.m_localInfo i = Except.ok info := elemAt_eq_ok.mpr hinfo
  have hrest : Preserves SameFlags (do
      let r ← liftE (resolveLocalOffsetAndSize t s i)
      let dstInfo ← peekVMStackInfo
      let omitted ← omitUpdateLocalValueIfPossible t i r dstInfo
      if omitted then
        let oldInfo ← popVMStackInfo
        pushVMStackAt oldInfo.m_size r.1 (some i)
      else
        generateMoveCodeIfNeeds t dstInfo.m_position r.1 r.2) := by
    repeat (first
      | with_reducible apply Preserves.liftE
      | with_reducible apply popVMStackInfo_sameFlags
      | with_reducible apply peekVMStackInfo_sameFlags
      | with_reducible apply pushVMStackAt_sameFlags
      | with_reducible apply omitUpdateLocalValueIfPossible_sameFlags
      | with_reducible apply generateMoveCodeIfNeeds_sameFlags
      | with_reducible refine Preserves.bind ?_ (fun _ => ?_)
      | split)
  simp only [OnLocalTeeExpr, run_bind, run_getS, run_liftE_ok, hinfo2] at h
  rw [if_neg hno] at h
  exact hrest s a s1 h

/-- A rewind clears one flag that was set. -/
theorem rewind_clearsOneFlag (s s1 : WASMBinaryReader) (i : Nat) (info : LocalInfo)
    (hinfo : s.m_localInfo[i]? = some info) (hflag : info.m_canUseDirectReference = true)
    (a : Unit)
    (h : ((modifyS fun s => { s with m_localInfo := clearDirectReference i s.m_localInfo }) >>=
        fun _ => resetFunctionCodeDataFromHere) s = Except.ok (a, s1)) :
    ClearsOneFlag s s1 := by
  rw [rewind_run] at h
  simp only [Except.ok.injEq, Prod.mk.injEq, true_and] at h
  subst h
  refine ⟨i, ?_, ?_⟩
  · simp [directReferenceFlags, hinfo, hflag]
  · show ((clearDirectReference i s.m_localInfo).map LocalInfo.reset).map
        (fun info => info.m_canUseDirectReference) = _
    rw [map_reset_flags, clearDirectReference_flags]
    rfl

/-- A handler either keeps the direct-reference flags and the reader offset, or clears one
flag that was set. -/
theorem handler_step (t : Target) (e : Event) (s s1 : WASMBinaryReader) (a : Unit)
    (h : e.handler t s = Except.ok (a, s1)) : SameFlags s s1 ∨ ClearsOneFlag s s1 := by
  by_cases hset : ∃ i, e = Event.OnLocalSetExpr i
  · obtain ⟨i, rfl⟩ := hset
    simp only [Event.handler] at h
    cases hr : resolveLocalOffsetAndSize t s i with
    | error err => simp [OnLocalSetExpr, hr] at h
    | ok r =>
      cases hinfo : s.m_localInfo[i]? with
      | none =>
        have : elemAt s.m_localInfo i = Except.error CompileError.undefined := by
          simp [elemAt, hinfo]
        simp [OnLocalSetExpr, hr, this] at h
      | some info =>
        by_cases hg : ∃ top, s.m_vmStack.getLast? = some top
            ∧ info.m_refCount ≠ 0 ∧ info.m_canUseDirectReference = true ∧ top.m_position ≠ r.1
        · obtain ⟨top, htop, hcount, hflag, hpos⟩ := hg
          rw [OnLocalSetExpr_rewinds t s i r info top hr hinfo htop hcount hflag hpos] at h
          exact Or.inr (rewind_clearsOneFlag s s1 i info hinfo hflag a h)
        · refine Or.inl (OnLocalSetExpr_continues t s i r info hr hinfo ?_ a s1 h)
          intro top htop hc
          exact hg ⟨top, htop, hc⟩
  · by_cases htee : ∃ i, e = Event.OnLocalTeeExpr i
    · obtain ⟨i, rfl⟩ := htee
      simp only [Event.handler] at h
      cases hinfo : s.m_localInfo[i]? with
      | none =>
        have : elemAt s.m_localInfo i = Except.error CompileError.undefined := by
          simp [elemAt, hinfo]
        simp [OnLocalTeeExpr, this] at h
      | some info =>
        by_cases hg : info.m_refCount ≠ 0 ∧ info.m_canUseDirectReference = true
        · rw [OnLocalTeeExpr_rewinds t s i info hinfo hg.1 hg.2] at h
          exact Or.inr (rewind_clearsOneFlag s s1 i info hinfo hg.2 a h)
        · exact Or.inl (OnLocalTeeExpr_continues t s i info hinfo hg a s1 h)
    · refine Or.inl (handler_sameFlags t e ?_ ?_ s a s1 h)
      · intro i hi
        exact hset ⟨i, hi⟩
      · intro i hi
        exact htee ⟨i, hi⟩

theorem count_set_false_of_getElem (l : List Bool) (i : Nat) (h : l[i]? = some true) :
    (l.set i false).count true + 1 = l.count true := by
  induction l generalizing i with
  | nil => simp at h
  | cons x xs ih =>
    cases i with
    | zero =>
      simp at h
      subst h
      simp
    | succ n =>
      simp at h
      have := ih n h
      cases x <;> simp [List.count_cons] <;> omega

/-- The number of rewinds of a run is at most the number of flags set at its start. -/
theorem countRewinds_le (t : Target) (steps : List (Nat × Event)) (s : WASMBinaryReader) (n : Nat)
    (h : countRewinds t steps s = Except.ok n) :
    n ≤ (directReferenceFlags s).count true := by
  induction steps generalizing s n with
  | nil =>
    simp [countRewinds] at h
    omega
  | cons step rest ih =>
    obtain ⟨offset, e⟩ := step
    unfold countRewinds at h
    cases hstep : e.handler t { s with readerOffset := offset } with
    | error err => simp [hstep] at h
    | ok p =>
      obtain ⟨a, s1⟩ := p
      simp only [hstep] at h
      cases hrest : countRewinds t rest s1 with
      | error err => simp [hrest] at h
      | ok m =>
        simp only [hrest, Except.ok.injEq] at h
        have hm := ih s1 m hrest
        have hflags : directReferenceFlags { s with readerOffset := offset }
            = directReferenceFlags s := rfl
        rcases handler_step t e _ s1 a hstep with hsame | hclear
        · obtain ⟨hf, ho⟩ := hsame
          have ho2 : s1.readerOffset = offset := ho
          rw [hflags] at hf
          rw [if_neg (by simpa using ho2)] at h
          rw [← hf]
          omega
        · obtain ⟨i, hi, hf⟩ := hclear
          rw [hflags] at hi hf
          have hc := count_set_false_of_getElem _ i hi
          rw [← hf] at hc
          split at h <;> omega

theorem iterate_declareLocal_length (t : Target) (k : ValueType) (count : Nat)
    (s : WASMBinaryReader) :
    (Nat.iterate (declareLocal t k) count s).m_localInfo.length = s.m_localInfo.length + count
    ∧ (Nat.iterate (declareLocal t k) count s).m_currentFunction.m_local.length
      = s.m_currentFunction.m_local.length + count
    ∧ (Nat.iterate (declareLocal t k) count s).m_currentFunctionType = s.m_currentFunctionType := by
  induction count generalizing s with
  | zero => simp
  | succ n ih =>
    rw [Function.iterate_succ_apply]
    obtain ⟨h1, h2, h3⟩ := ih (declareLocal t k s)
    rw [h1, h2, h3]
    simp [declareLocal]
    omega

end wabt.WASMBinaryReader

/-! ## The records of the byte buffer under appends and patches -/

namespace Walrus

theorem lookupByteCode_append {pos : Nat} {l : List (Nat × ByteCode)} {c : ByteCode}
    (h : lookupByteCode pos l = some c) (e : List (Nat × ByteCode)) :
    lookupByteCode pos (l ++ e) = some c := by
  induction l with
  | nil => simp [lookupByteCode] at h
  | cons x rest ih =>
    obtain ⟨p, c0⟩ := x
    simp only [lookupByteCode, List.cons_append] at h ⊢
    split
    · next hp => simpa [hp] using h
    · next hp => exact ih (by simpa [hp] using h)

theorem lookupByteCode_append_new {pos : Nat} {l : List (Nat × ByteCode)} {c : ByteCode}
    (h : ∀ x ∈ l, x.1 ≠ pos) : lookupByteCode pos (l ++ [(pos, c)]) = some c := by
  induction l with
  | nil => simp [lookupByteCode]
  | cons x rest ih =>
    obtain ⟨p, c0⟩ := x
    have hp : p ≠ pos := h (p, c0) (List.mem_cons_self _ _)
    simp only [lookupByteCode, List.cons_append, if_neg hp]
    exact ih (fun y hy => h y (List.mem_cons_of_mem _ hy))

theorem updateByteCode_lookup {pos : Nat} {f : ByteCode → Option ByteCode}
    {l l1 : List (Nat × ByteCode)} (h : updateByteCode pos f l = some l1)
    {q : Nat} {c : ByteCode} (hc : lookupByteCode q l = some c) :
    ∃ c3, lookupByteCode q l1 = some c3 ∧ (if pos = q then f c = some c3 else c3 = c) := by
  induction l generalizing l1 with
  | nil => simp [lookupByteCode] at hc
  | cons x rest ih =>
    obtain ⟨p, c0⟩ := x
    simp only [updateByteCode] at h
    simp only [lookupByteCode] at hc
    by_cases hp : p = pos
    · rw [if_pos hp] at h
      cases hf : f c0 with
      | none => simp [hf] at h
      | some c1 =>
        simp only [hf, Option.map_some', Option.some.injEq] at h
        subst h
        by_cases hq : p = q
        · rw [if_pos hq] at hc
          cases hc
          refine ⟨c1, by simp [lookupByteCode, hq], ?_⟩
          rw [if_pos (hp.symm.trans hq)]
          exact hf
        · rw [if_neg hq] at hc
          refine ⟨c, by simp [lookupByteCode, hq, hc], ?_⟩
          rw [if_neg (fun hEq => hq (hp.trans hEq))]
    · rw [if_neg hp] at h
      cases hu : updateByteCode pos f rest with
      | none => simp [hu] at h
      | some rest1 =>
        simp only [hu, Option.map_some', Option.some.injEq] at h
        subst h
        by_cases hq : p = q
        · rw [if_pos hq] at hc
          cases hc
          refine ⟨c, by simp [lookupByteCode, hq], ?_⟩
          rw [if_neg (fun hEq => hp (hq.trans hEq.symm))]
        · rw [if_neg hq] at hc
          obtain ⟨c3, h3, h4⟩ := ih hu hc
          exact ⟨c3, by simp [lookupByteCode, hq, h3], h4⟩

theorem getLast?_cons_of_getLast? {α : Type} {l : List α} {x y : α}
    (h : l.getLast? = some x) : (y :: l).getLast? = some x := by
  cases l with
  | nil => cases h
  | cons z zs => rw [List.getLast?_cons_cons]; exact h

theorem updateByteCode_getLast {pos : Nat} {f : ByteCode → Option ByteCode}
    {l l1 : List (Nat × ByteCode)} {x : Nat × ByteCode} {c : ByteCode}
    (hc : lookupByteCode pos l = some c)
    (h : updateByteCode pos f (l ++ [x]) = some l1) : l1.getLast? = some x := by
  induction l generalizing l1 with
  | nil => simp [lookupByteCode] at hc
  | cons y rest ih =>
    obtain ⟨p, c0⟩ := y
    simp only [updateByteCode, List.cons_append] at h
    simp only [lookupByteCode] at hc
    by_cases hp : p = pos
    · rw [if_pos hp] at h
      cases hf : f c0 with
      | none => simp [hf] at h
      | some c1 =>
        simp only [hf, Option.map_some', Option.some.injEq] at h
        subst h
        exact getLast?_cons_of_getLast? (List.getLast?_concat rest)
    · rw [if_neg hp] at h hc
      change Option.map _ (updateByteCode pos f (rest ++ [x])) = some l1 at h
      cases hu : updateByteCode pos f (rest ++ [x]) with
      | none => simp [hu] at h
      | some rest1 =>
        simp only [hu, Option.map_some', Option.some.injEq] at h
        subst h
        exact getLast?_cons_of_getLast? (ih hc hu)

end Walrus

namespace wabt

open Walrus

theorem writeBrTableSlot_isBrTable {t : Target} {rel : Nat} {f : Int → Int} {c c1 : ByteCode}
    (h : WASMBinaryReader.writeBrTableSlot t rel f c = some c1) : isBrTableRecord c = true := by
  cases c <;> first | rfl | simp [WASMBinaryReader.writeBrTableSlot] at h

theorem updateInt32At_lookup {t : Target} {pos : Nat} {f : Int → Int}
    {l l1 : List (Nat × ByteCode)} (h : WASMBinaryReader.updateInt32At t pos f l = some l1)
    {q : Nat} {c : ByteCode} (hc : lookupByteCode q l = some c)
    (hnb : isBrTableRecord c = false) : lookupByteCode q l1 = some c := by
  induction l generalizing l1 with
  | nil => simp [lookupByteCode] at hc
  | cons x rest ih =>
    obtain ⟨p, c0⟩ := x
    simp only [WASMBinaryReader.updateInt32At] at h
    simp only [lookupByteCode] at hc
    split at h
    · next c1 hw =>
      cases h
      have hbr : isBrTableRecord c0 = true := by
        by_cases hle : p ≤ pos
        · rw [if_pos hle] at hw
          exact writeBrTableSlot_isBrTable hw
        · rw [if_neg hle] at hw
          cases hw
      by_cases hq : p = q
      · rw [if_pos hq] at hc
        cases hc
        rw [hbr] at hnb
        cases hnb
      · rw [if_neg hq] at hc
        simp [lookupByteCode, hq, hc]
    · cases hu : WASMBinaryReader.updateInt32At t pos f rest with
      | none => simp [hu] at h
      | some rest1 =>
        simp only [hu, Option.map_some', Option.some.injEq] at h
        subst h
        by_cases hq : p = q
        · rw [if_pos hq] at hc
          simp [lookupByteCode, hq, hc]
        · rw [if_neg hq] at hc
          simp [lookupByteCode, hq, ih hu hc]

end wabt

/-! ## The patch loop of `OnEndExpr` -/

namespace wabt.WASMBinaryReader

open Walrus

theorem patchedRecord_notBrTable {ty : JumpToEndType} {o : Int} {c c3 : ByteCode}
    (h : patchedRecord ty o c = some c3) (hnb : isBrTableRecord c = false) :
    isBrTableRecord c3 = false := by
  cases ty <;> cases c <;>
    simp_all [patchedRecord, setOffsetJump, setOffsetJumpIf, isBrTableRecord] <;>
    subst h <;> rfl

theorem patchedRecord_again {ty ty1 : JumpToEndType} {o : Int} {c c3 : ByteCode}
    (h : patchedRecord ty o c = some c3) (h1 : ty1 ≠ JumpToEndType.IsBrTable) :
    patchedRecord ty1 o c3 = patchedRecord ty1 o c := by
  cases ty <;> cases ty1 <;> cases c <;>
    simp_all [patchedRecord, setOffsetJump, setOffsetJumpIf] <;>
    subst h <;> rfl

theorem patchedRecord_fixed {ty ty1 : JumpToEndType} {o : Int} {c c4 : ByteCode}
    (hfix : patchedRecord ty o c = some c) (hty : ty ≠ JumpToEndType.IsBrTable)
    (h : patchedRecord ty1 o c = some c4) : c4 = c := by
  cases ty <;> cases ty1 <;> cases c <;>
    simp_all [patchedRecord, setOffsetJump, setOffsetJumpIf]

theorem patchedRecord_idem {ty : JumpToEndType} {o : Int} {c c3 : ByteCode}
    (h : patchedRecord ty o c = some c3) : patchedRecord ty o c3 = some c3 := by
  cases ty <;> cases c <;>
    simp_all [patchedRecord, setOffsetJump, setOffsetJumpIf] <;>
    subst h <;> rfl

theorem pokeByteCode_eq_ok {pos : Nat} {f : ByteCode → Option ByteCode}
    {s s1 : WASMBinaryReader} (h : pokeByteCode pos f s = Except.ok ((), s1)) :
    ∃ code, updateByteCode pos f s.m_currentFunction.m_byteCode = some code
      ∧ s1 = { s with m_currentFunction := { s.m_currentFunction with m_byteCode := code } } := by
  unfold pokeByteCode at h
  simp only [run_bind, run_getS] at h
  cases hu : updateByteCode pos f s.m_currentFunction.m_byteCode with
  | none => simp [hu] at h
  | some code =>
    simp only [hu, run_modifyS, Except.ok.injEq, Prod.mk.injEq, true_and] at h
    exact ⟨code, rfl, h.symm⟩

theorem pokeInt32_eq_ok {t : Target} {pos : Nat} {f : Int → Int}
    {s s1 : WASMBinaryReader} (h : pokeInt32 t pos f s = Except.ok ((), s1)) :
    ∃ code, updateInt32At t pos f s.m_currentFunction.m_byteCode = some code
      ∧ s1 = { s with m_currentFunction := { s.m_currentFunction with m_byteCode := code } } := by
  unfold pokeInt32 at h
  simp only [run_bind, run_getS] at h
  cases hu : updateInt32At t pos f s.m_currentFunction.m_byteCode with
  | none => simp [hu] at h
  | some code =>
    simp only [hu, run_modifyS, Except.ok.injEq, Prod.mk.injEq, true_and] at h
    exact ⟨code, rfl, h.symm⟩

theorem patchJumpToEnd_step {t : Target} {e : JumpToEndBrInfo} {s s1 : WASMBinaryReader}
    (h : patchJumpToEnd t e s = Except.ok ((), s1)) :
    s1.m_currentFunction.m_byteCodeSize = s.m_currentFunction.m_byteCodeSize
    ∧ ∀ q c, lookupByteCode q s.m_currentFunction.m_byteCode = some c →
        isBrTableRecord c = false →
        ∃ c3, lookupByteCode q s1.m_currentFunction.m_byteCode = some c3
          ∧ (if e.m_position = q then
              patchedRecord e.m_type
                ((s.m_currentFunction.m_byteCodeSize : Int) - (q : Int)) c = some c3
            else c3 = c) := by
  unfold patchJumpToEnd at h
  simp only [WASMBinaryReader.currentByteCodeSize, ModuleFunction.currentByteCodeSize, run_bind,
    run_getS, run_pure] at h
  cases hty : e.m_type with
  | IsJump =>
    simp only [hty] at h
    obtain ⟨code, hu, rfl⟩ := pokeByteCode_eq_ok h
    refine ⟨rfl, fun q c hc _ => ?_⟩
    obtain ⟨c3, h3, h4⟩ := updateByteCode_lookup hu hc
    refine ⟨c3, h3, ?_⟩
    by_cases hq : e.m_position = q
    · rw [if_pos hq] at h4 ⊢
      subst hq
      exact h4
    · rw [if_neg hq] at h4 ⊢
      exact h4
  | IsJumpIf =>
    simp only [hty] at h
    obtain ⟨code, hu, rfl⟩ := pokeByteCode_eq_ok h
    refine ⟨rfl, fun q c hc _ => ?_⟩
    obtain ⟨c3, h3, h4⟩ := updateByteCode_lookup hu hc
    refine ⟨c3, h3, ?_⟩
    by_cases hq : e.m_position = q
    · rw [if_pos hq] at h4 ⊢
      subst hq
      exact h4
    · rw [if_neg hq] at h4 ⊢
      exact h4
  | IsBrTable =>
    simp only [hty] at h
    obtain ⟨code, hu, rfl⟩ := pokeInt32_eq_ok h
    refine ⟨rfl, fun q c hc hnb => ⟨c, updateInt32At_lookup hu hc hnb, ?_⟩⟩
    split
    · rfl
    · rfl

theorem forEachM_cons_eq_ok {α : Type} {f : α → M Unit} {a : α} {l : List α}
    {s s2 : WASMBinaryReader} (h : forEachM f (a :: l) s = Except.ok ((), s2)) :
    ∃ s1, f a s = Except.ok ((), s1) ∧ forEachM f l s1 = Except.ok ((), s2) := by
  unfold forEachM at h
  obtain ⟨_, s1, h1, h2⟩ := bind_eq_ok.mp h
  exact ⟨s1, h1, h2⟩

theorem patchLoop_size {t : Target} {l : List JumpToEndBrInfo} {s s1 : WASMBinaryReader}
    (h : forEachM (patchJumpToEnd t) l s = Except.ok ((), s1)) :
    s1.m_currentFunction.m_byteCodeSize = s.m_currentFunction.m_byteCodeSize := by
  induction l generalizing s with
  | nil =>
    unfold forEachM at h
    simp at h
    rw [h]
  | cons e rest ih =>
    obtain ⟨s2, h1, h2⟩ := forEachM_cons_eq_ok h
    rw [ih h2, (patchJumpToEnd_step h1).1]

theorem patchLoop_keeps {t : Target} {l : List JumpToEndBrInfo} {s s1 : WASMBinaryReader}
    (h : forEachM (patchJumpToEnd t) l s = Except.ok ((), s1)) {q : Nat} {c : ByteCode}
    (hc : lookupByteCode q s.m_currentFunction.m_byteCode = some c)
    (hnb : isBrTableRecord c = false)
    (hfix : ∀ e ∈ l, e.m_position = q → ∀ c4,
      patchedRecord e.m_type ((s.m_currentFunction.m_byteCodeSize : Int) - (q : Int)) c
        = some c4 → c4 = c) :
    lookupByteCode q s1.m_currentFunction.m_byteCode = some c := by
  induction l generalizing s with
  | nil =>
    unfold forEachM at h
    simp at h
    rw [← h]
    exact hc
  | cons e rest ih =>
    obtain ⟨s2, h1, h2⟩ := forEachM_cons_eq_ok h
    obtain ⟨hsize, hstep⟩ := patchJumpToEnd_step h1
    obtain ⟨c3, h3, h4⟩ := hstep q c hc hnb
    have hc3 : c3 = c := by
      by_cases hq : e.m_position = q
      · rw [if_pos hq] at h4
        exact hfix e (List.mem_cons_self _ _) hq c3 h4
      · rw [if_neg hq] at h4
        exact h4
    subst hc3
    refine ih h2 h3 ?_
    intro e1 he1 hq1 c4 h5
    rw [hsize] at h5
    exact hfix e1 (List.mem_cons_of_mem _ he1) hq1 c4 h5

theorem patchLoop_patches {t : Target} {l : List JumpToEndBrInfo} {s s1 : WASMBinaryReader}
    (h : forEachM (patchJumpToEnd t) l s = Except.ok ((), s1)) {e : JumpToEndBrInfo}
    (he : e ∈ l) (hty : e.m_type ≠ JumpToEndType.IsBrTable) {c : ByteCode}
    (hc : lookupByteCode e.m_position s.m_currentFunction.m_byteCode = some c)
    (hnb : isBrTableRecord c = false) :
    lookupByteCode e.m_position s1.m_currentFunction.m_byteCode
      = patchedRecord e.m_type
          ((s.m_currentFunction.m_byteCodeSize : Int) - (e.m_position : Int)) c := by
  induction l generalizing s c with
  | nil => cases he
  | cons e0 rest ih =>
    obtain ⟨s2, h1, h2⟩ := forEachM_cons_eq_ok h
    obtain ⟨hsize, hstep⟩ := patchJumpToEnd_step h1
    obtain ⟨c3, h3, h4⟩ := hstep e.m_position c hc hnb
    rcases List.mem_cons.mp he with hEq | hmem
    · subst hEq
      rw [if_pos rfl] at h4
      rw [h4]
      refine patchLoop_keeps h2 h3 (patchedRecord_notBrTable h4 hnb) ?_
      intro e1 _ _ c4 h5
      rw [hsize] at h5
      exact patchedRecord_fixed (patchedRecord_idem h4) hty h5
    · have h6 := ih h2 hmem h3 (by
        by_cases hq : e0.m_position = e.m_position
        · rw [if_pos hq] at h4
          exact patchedRecord_notBrTable h4 hnb
        · rw [if_neg hq] at h4
          rw [h4]
          exact hnb)
      rw [h6, hsize]
      by_cases hq : e0.m_position = e.m_position
      · rw [if_pos hq] at h4
        exact patchedRecord_again h4 hty
      · rw [if_neg hq] at h4
        rw [h4]

end wabt.WASMBinaryReader

/-! ## What the steps before a patch leave of the bytecode and of the open blocks -/

namespace wabt

open Walrus

instance : IsRefl WASMBinaryReader AppendsCode := ⟨fun _ => ⟨⟨[], by simp⟩, rfl⟩⟩

instance : IsTrans WASMBinaryReader AppendsCode :=
  ⟨fun _ _ _ h1 h2 => by
    obtain ⟨⟨e1, h11⟩, h12⟩ := h1
    obtain ⟨⟨e2, h21⟩, h22⟩ := h2
    exact ⟨⟨e1 ++ e2, by rw [h21, h11, List.append_assoc]⟩, h22.trans h12⟩⟩

instance : IsRefl WASMBinaryReader SameCode := ⟨fun _ => ⟨rfl, rfl⟩⟩

instance : IsTrans WASMBinaryReader SameCode :=
  ⟨fun _ _ _ h1 h2 => ⟨h2.1.trans h1.1, h2.2.trans h1.2⟩⟩

theorem SameCode.appendsCode {s s1 : WASMBinaryReader} (h : SameCode s s1) :
    AppendsCode s s1 :=
  ⟨⟨[], by rw [h.1]; simp⟩, by rw [h.2]⟩

theorem map_pending_modifyAt {f : BlockInfo → BlockInfo}
    (hf : ∀ b, (f b).pending = b.pending) (i : Nat) (l : List BlockInfo) :
    (WASMBinaryReader.modifyAt f i l).map BlockInfo.pending = l.map BlockInfo.pending := by
  induction l generalizing i with
  | nil => cases i <;> rfl
  | cons x xs ih =>
    cases i with
    | zero => simp [WASMBinaryReader.modifyAt, hf]
    | succ n => simp [WASMBinaryReader.modifyAt, ih]

theorem blockAtDepth_eq_ok {s : WASMBinaryReader} {b : BlockInfo} :
    WASMBinaryReader.blockAtDepth s 0 = Except.ok b ↔ s.m_blockInfo.getLast? = some b := by
  unfold WASMBinaryReader.blockAtDepth
  rw [List.getLast?_eq_getElem?]
  by_cases h : 0 < s.m_blockInfo.length
  · rw [if_pos h]
    exact WASMBinaryReader.elemAt_eq_ok
  · rw [if_neg h]
    have h0 : s.m_blockInfo = [] := List.length_eq_zero.mp (by omega)
    simp [h0]

theorem AppendsCode.blockAtDepth {s s1 : WASMBinaryReader} (h : AppendsCode s s1)
    {b : BlockInfo} (hb : WASMBinaryReader.blockAtDepth s 0 = Except.ok b) :
    ∃ b1, WASMBinaryReader.blockAtDepth s1 0 = Except.ok b1 ∧ b1.pending = b.pending := by
  rw [blockAtDepth_eq_ok] at hb
  have h1 : (s1.m_blockInfo.map BlockInfo.pending).getLast? = some b.pending := by
    rw [h.2, List.getLast?_map, hb]
    rfl
  rw [List.getLast?_map] at h1
  cases h2 : s1.m_blockInfo.getLast? with
  | none => simp [h2] at h1
  | some b1 =>
    simp only [h2, Option.map_some', Option.some.injEq] at h1
    exact ⟨b1, blockAtDepth_eq_ok.mpr h2, h1⟩

end wabt

namespace wabt.WASMBinaryReader

open Walrus

theorem popVMStackInfo_sameCode :
    Preserves SameCode (popVMStackInfo) := by
  simp only [popVMStackInfo]
  repeat (first
    | with_reducible apply Preserves.getS
    | with_reducible apply Preserves.pure
    | with_reducible apply Preserves.failM
    | with_reducible apply Preserves.liftE
    | (with_reducible apply Preserves.modifyS; intro s; simp [SameCode])
    | with_reducible refine Preserves.forEachM (fun _ => ?_) _
    | with_reducible refine Preserves.repeatM ?_ _
    | with_reducible refine Preserves.bind ?_ (fun _ => ?_)
    | split
    | dsimp only)

theorem popVMStackSize_sameCode :
    Preserves SameCode (popVMStackSize) := by
  simp only [popVMStackSize]
  repeat (first
    | with_reducible apply Preserves.getS
    | with_reducible apply Preserves.pure
    | with_reducible apply Preserves.failM
    | with_reducible apply Preserves.liftE
    | (with_reducible apply Preserves.modifyS; intro s; simp [SameCode])
    | with_reducible apply popVMStackInfo_sameCode
    | with_reducible refine Preserves.forEachM (fun _ => ?_) _
    | with_reducible refine Preserves.repeatM ?_ _
    | with_reducible refine Preserves.bind ?_ (fun _ => ?_)
    | split
    | dsimp only)

theorem popVMStack_sameCode :
    Preserves SameCode (popVMStack) := by
  simp only [popVMStack]
  repeat (first
    | with_reducible apply Preserves.getS
    | with_reducible apply Preserves.pure
    | with_reducible apply Preserves.failM
    | with_reducible apply Preserves.liftE
    | (with_reducible apply Preserves.modifyS; intro s; simp [SameCode])
    | with_reducible apply popVMStackInfo_sameCode
    | with_reducible refine Preserves.forEachM (fun _ => ?_) _
    | with_reducible refine Preserves.repeatM ?_ _
    | with_reducible refine Preserves.bind ?_ (fun _ => ?_)
    | split
    | dsimp only)

theorem restoreVMStackBy_sameCode (b : BlockInfo) :
    Preserves SameCode (restoreVMStackBy b) := by
  simp only [restoreVMStackBy]
  repeat (first
    | with_reducible apply Preserves.getS
    | with_reducible apply Preserves.pure
    | with_reducible apply Preserves.failM
    | with_reducible apply Preserves.liftE
    | (with_reducible apply Preserves.modifyS; intro s; simp [SameCode])
    | with_reducible refine Preserves.forEachM (fun _ => ?_) _
    | with_reducible refine Preserves.repeatM ?_ _
    | with_reducible refine Preserves.bind ?_ (fun _ => ?_)
    | split
    | dsimp only)

theorem restoreVMStackRegardToPartOfBlockEnd_sameCode (b : BlockInfo) :
    Preserves SameCode (restoreVMStackRegardToPartOfBlockEnd b) := by
  simp only [restoreVMStackRegardToPartOfBlockEnd]
  repeat (first
    | with_reducible apply Preserves.getS
    | with_reducible apply Preserves.pure
    | with_reducible apply Preserves.failM
    | with_reducible apply Preserves.liftE
    | (with_reducible apply Preserves.modifyS; intro s; simp [SameCode])
    | with_reducible apply restoreVMStackBy_sameCode
    | with_reducible apply popVMStackSize_sameCode
    | with_reducible refine Preserves.forEachM (fun _ => ?_) _
    | with_reducible refine Preserves.repeatM ?_ _
    | with_reducible refine Preserves.bind ?_ (fun _ => ?_)
    | split
    | dsimp only)

theorem popVMStack_appendsCode : Preserves AppendsCode popVMStack :=
  fun s a s1 h => (popVMStack_sameCode s a s1 h).appendsCode

theorem restoreVMStackBy_appendsCode (b : BlockInfo) :
    Preserves AppendsCode (restoreVMStackBy b) :=
  fun s a s1 h => (restoreVMStackBy_sameCode b s a s1 h).appendsCode

theorem pushVMStackAt_appendsCode (size pos : Nat) (li : Option Nat) :
    Preserves AppendsCode (pushVMStackAt size pos li) := by
  simp only [pushVMStackAt]
  repeat (first
    | with_reducible apply Preserves.getS
    | with_reducible apply Preserves.pure
    | with_reducible apply Preserves.failM
    | with_reducible apply Preserves.liftE
    | (with_reducible apply Preserves.modifyS; intro s; simp [AppendsCode, ModuleFunction.pushByteCode])
    | with_reducible refine Preserves.forEachM (fun _ => ?_) _
    | with_reducible refine Preserves.repeatM ?_ _
    | with_reducible refine Preserves.bind ?_ (fun _ => ?_)
    | split
    | dsimp only)

theorem pushVMStack_appendsCode (size : Nat) :
    Preserves AppendsCode (pushVMStack size) := by
  simp only [pushVMStack]
  repeat (first
    | with_reducible apply Preserves.getS
    | with_reducible apply Preserves.pure
    | with_reducible apply Preserves.failM
    | with_reducible apply Preserves.liftE
    | (with_reducible apply Preserves.modifyS; intro s; simp [AppendsCode, ModuleFunction.pushByteCode])
    | with_reducible apply pushVMStackAt_appendsCode
    | with_reducible refine Preserves.forEachM (fun _ => ?_) _
    | with_reducible refine Preserves.repeatM ?_ _
    | with_reducible refine Preserves.bind ?_ (fun _ => ?_)
    | split
    | dsimp only)

theorem pushByteCode_appendsCode (t : Target) (code : ByteCode) (op : WASMOpcode) :
    Preserves AppendsCode (pushByteCode t code op) := by
  simp only [pushByteCode]
  repeat (first
    | with_reducible apply Preserves.getS
    | with_reducible apply Preserves.pure
    | with_reducible apply Preserves.failM
    | with_reducible apply Preserves.liftE
    | (with_reducible apply Preserves.modifyS; intro s; simp [AppendsCode, ModuleFunction.pushByteCode])
    | with_reducible refine Preserves.forEachM (fun _ => ?_) _
    | with_reducible refine Preserves.repeatM ?_ _
    | with_reducible refine Preserves.bind ?_ (fun _ => ?_)
    | split
    | dsimp only)

theorem generateMoveCodeIfNeeds_appendsCode (t : Target) (a b c : Nat) :
    Preserves AppendsCode (generateMoveCodeIfNeeds t a b c) := by
  simp only [generateMoveCodeIfNeeds]
  repeat (first
    | with_reducible apply Preserves.getS
    | with_reducible apply Preserves.pure
    | with_reducible apply Preserves.failM
    | with_reducible apply Preserves.liftE
    | (with_reducible apply Preserves.modifyS; intro s; simp [AppendsCode, ModuleFunction.pushByteCode])
    | with_reducible apply pushByteCode_appendsCode
    | with_reducible refine Preserves.forEachM (fun _ => ?_) _
    | with_reducible refine Preserves.repeatM ?_ _
    | with_reducible refine Preserves.bind ?_ (fun _ => ?_)
    | split
    | dsimp only)

theorem moveValuesLoop_appendsCode (t : Target) (rev : List VMStackInfo) (srcIdx dstIdx : Nat)
    (remain : Int) : Preserves AppendsCode (moveValuesLoop t rev srcIdx dstIdx remain) := by
  induction srcIdx generalizing dstIdx remain with
  | zero =>
    unfold moveValuesLoop
    repeat (first
      | with_reducible apply Preserves.getS
      | with_reducible apply Preserves.pure
      | with_reducible apply Preserves.failM
      | with_reducible apply Preserves.liftE
      | (with_reducible apply Preserves.modifyS; intro s; simp [AppendsCode, ModuleFunction.pushByteCode])
      | with_reducible apply generateMoveCodeIfNeeds_appendsCode
      | with_reducible refine Preserves.forEachM (fun _ => ?_) _
      | with_reducible refine Preserves.repeatM ?_ _
      | with_reducible refine Preserves.bind ?_ (fun _ => ?_)
      | split
      | dsimp only)
  | succ n ih =>
    unfold moveValuesLoop
    repeat (first
      | with_reducible apply Preserves.getS
      | with_reducible apply Preserves.pure
      | with_reducible apply Preserves.failM
      | with_reducible apply Preserves.liftE
      | (with_reducible apply Preserves.modifyS; intro s; simp [AppendsCode, ModuleFunction.pushByteCode])
      | with_reducible apply generateMoveCodeIfNeeds_appendsCode
      | with_reducible apply ih
      | with_reducible refine Preserves.forEachM (fun _ => ?_) _
      | with_reducible refine Preserves.repeatM ?_ _
      | with_reducible refine Preserves.bind ?_ (fun _ => ?_)
      | split
      | dsimp only)

theorem generateMoveValuesCodeRegardToDrop_appendsCode (t : Target) (d : Nat × Nat) :
    Preserves AppendsCode (generateMoveValuesCodeRegardToDrop t d) := by
  simp only [generateMoveValuesCodeRegardToDrop]
  repeat (first
    | with_reducible apply Preserves.getS
    | with_reducible apply Preserves.pure
    | with_reducible apply Preserves.failM
    | with_reducible apply Preserves.liftE
    | (with_reducible apply Preserves.modifyS; intro s; simp [AppendsCode, ModuleFunction.pushByteCode])
    | with_reducible apply moveValuesLoop_appendsCode
    | with_reducible refine Preserves.forEachM (fun _ => ?_) _
    | with_reducible refine Preserves.repeatM ?_ _
    | with_reducible refine Preserves.bind ?_ (fun _ => ?_)
    | split
    | dsimp only)

theorem pushVMStackKinds_appendsCode (t : Target) (kinds : List ValueType) :
    Preserves AppendsCode (pushVMStackKinds t kinds) := by
  induction kinds with
  | nil =>
    unfold pushVMStackKinds
    exact Preserves.pure _
  | cons k rest ih =>
    unfold pushVMStackKinds
    exact Preserves.bind (pushVMStack_appendsCode _)
      (fun _ => Preserves.bind ih (fun _ => Preserves.pure _))

theorem setRestore_appendsCode :
    Preserves AppendsCode
      (modifyBlockAtDepth 0 (fun b => { b with m_shouldRestoreVMStackAtEnd := true })) := by
  unfold modifyBlockAtDepth
  apply Preserves.modifyS
  intro s
  exact ⟨⟨[], by simp⟩,
    map_pending_modifyAt (f := fun b => { b with m_shouldRestoreVMStackAtEnd := true })
      (fun _ => rfl) _ _⟩

theorem keepSubResultsIfNeeds_appendsCode (t : Target) :
    Preserves AppendsCode (keepSubResultsIfNeeds t) := by
  simp only [keepSubResultsIfNeeds]
  repeat (first
    | with_reducible apply Preserves.getS
    | with_reducible apply Preserves.pure
    | with_reducible apply Preserves.failM
    | with_reducible apply Preserves.liftE
    | (with_reducible apply Preserves.modifyS; intro s; simp [AppendsCode, ModuleFunction.pushByteCode])
    | with_reducible apply setRestore_appendsCode
    | with_reducible apply generateMoveValuesCodeRegardToDrop_appendsCode
    | with_reducible refine Preserves.forEachM (fun _ => ?_) _
    | with_reducible refine Preserves.repeatM ?_ _
    | with_reducible refine Preserves.bind ?_ (fun _ => ?_)
    | split
    | dsimp only)

end wabt.WASMBinaryReader

/-! ## `if`, `else` and `end` -/

namespace wabt.WASMBinaryReader

open Walrus

theorem popVMStack_eq_ok {s s1 : WASMBinaryReader} {pos : Nat}
    (h : popVMStack s = Except.ok (pos, s1)) :
    ∃ top, s.m_vmStack.getLast? = some top ∧ pos = top.m_position := by
  unfold popVMStack popVMStackInfo at h
  simp only [run_bind, run_getS] at h
  cases hl : s.m_vmStack.getLast? with
  | none => simp [hl] at h
  | some top =>
    simp only [hl, run_bind, run_modifyS, run_pure, Except.ok.injEq, Prod.mk.injEq] at h
    exact ⟨top, rfl, h.1.symm⟩

theorem newBlockInfo_result {t : Target} {ty : BlockType} {sig : SigType}
    {s s1 : WASMBinaryReader} {b : BlockInfo}
    (h : newBlockInfo t ty sig s = Except.ok (b, s1)) :
    b.m_blockType = ty ∧ b.m_jumpToEndBrInfo = []
      ∧ b.m_position = s1.m_currentFunction.m_byteCodeSize := by
  unfold newBlockInfo at h
  obtain ⟨s0, sa, h0, h⟩ := bind_eq_ok.mp h
  dsimp only at h
  obtain ⟨_, sb, h1, h⟩ := bind_eq_ok.mp h
  obtain ⟨pp, sc, h2, h⟩ := bind_eq_ok.mp h
  obtain ⟨position, sd, h3, h⟩ := bind_eq_ok.mp h
  simp only [WASMBinaryReader.currentByteCodeSize, ModuleFunction.currentByteCodeSize, run_bind,
    run_getS, run_pure, Except.ok.injEq, Prod.mk.injEq] at h3 h
  obtain ⟨rfl, rfl⟩ := h3
  obtain ⟨rfl, rfl⟩ := h
  exact ⟨rfl, rfl, rfl⟩

theorem OnIfExpr_result {t : Target} {sigType : SigType} {s s1 : WASMBinaryReader}
    (h : OnIfExpr t sigType s = Except.ok ((), s1)) :
    ∃ (top : VMStackInfo) (b : BlockInfo) (code : List (Nat × ByteCode)),
      s.m_vmStack.getLast? = some top
      ∧ blockAtDepth s1 0 = Except.ok b
      ∧ b.m_blockType = BlockType.IfElse
      ∧ b.m_jumpToEndBrInfo = [⟨JumpToEndType.IsJumpIf, b.m_position⟩]
      ∧ s1.m_currentFunction.m_byteCode
          = code ++ [(b.m_position, ByteCode.JumpIfFalse (u16 top.m_position) 0)]
      ∧ s1.m_currentFunction.m_byteCodeSize = b.m_position + t.sizeofJumpIfFalse := by
  unfold OnIfExpr at h
  obtain ⟨pos, sa, h0, h⟩ := bind_eq_ok.mp h
  obtain ⟨b, sb, h1, h⟩ := bind_eq_ok.mp h
  obtain ⟨_, sc, h2, h⟩ := bind_eq_ok.mp h
  obtain ⟨top, htop, rfl⟩ := popVMStack_eq_ok h0
  obtain ⟨hty, hlist, hpos⟩ := newBlockInfo_result h1
  simp only [pushBlockInfo, run_modifyS, Except.ok.injEq, Prod.mk.injEq, true_and] at h2
  subst h2
  simp only [WASMBinaryReader.pushByteCode, ModuleFunction.pushByteCode, run_modifyS,
    Except.ok.injEq, Prod.mk.injEq, true_and] at h
  subst h
  refine ⟨top, { b with m_jumpToEndBrInfo :=
      b.m_jumpToEndBrInfo ++ [⟨JumpToEndType.IsJumpIf, b.m_position⟩] },
    sb.m_currentFunction.m_byteCode, htop, ?_, hty, ?_, ?_, ?_⟩
  · rw [blockAtDepth_eq_ok]
    simp
  · simp [hlist]
  · simp [hpos]
  · simp [hpos, Target.sizeof]

end wabt.WASMBinaryReader

namespace wabt.WASMBinaryReader

open Walrus

theorem getLast?_modifyAt_last {α : Type} (f : α → α) {l : List α} {b : α}
    (h : l.getLast? = some b) : (modifyAt f (l.length - 1 - 0) l).getLast? = some (f b) := by
  induction l with
  | nil => cases h
  | cons x xs ih =>
    cases xs with
    | nil =>
      simp only [List.getLast?_singleton, Option.some.injEq] at h
      subst h
      rfl
    | cons y ys =>
      rw [List.getLast?_cons_cons] at h
      have h1 := ih h
      simp only [List.length_cons, Nat.add_sub_cancel, Nat.sub_zero] at h1 ⊢
      show (x :: modifyAt f ys.length (y :: ys)).getLast? = some (f b)
      exact getLast?_cons_of_getLast? h1

theorem currentByteCodeSize_eq_ok {s s1 : WASMBinaryReader} {n : Nat}
    (h : WASMBinaryReader.currentByteCodeSize s = Except.ok (n, s1)) :
    n = s.m_currentFunction.m_byteCodeSize ∧ s1 = s := by
  simp only [WASMBinaryReader.currentByteCodeSize, ModuleFunction.currentByteCodeSize, run_bind,
    run_getS, run_pure, Except.ok.injEq, Prod.mk.injEq] at h
  exact ⟨h.1.symm, h.2.symm⟩

theorem getS_bind {β : Type} (f : WASMBinaryReader → M β) (s : WASMBinaryReader) :
    (getS >>= f) s = f s s := rfl

theorem liftE_ok_bind {α β : Type} (a : α) (f : α → M β) (s : WASMBinaryReader) :
    (liftE (Except.ok a) >>= f) s = f a s := rfl

theorem modifyS_bind {β : Type} (g : WASMBinaryReader → WASMBinaryReader) (f : Unit → M β)
    (s : WASMBinaryReader) : (modifyS g >>= f) s = f () (g s) := rfl

theorem pure_bind_run {α β : Type} (a : α) (f : α → M β) (s : WASMBinaryReader) :
    (pure a >>= f) s = f a s := rfl

theorem currentByteCodeSize_bind {β : Type} (f : Nat → M β) (s : WASMBinaryReader) :
    (WASMBinaryReader.currentByteCodeSize >>= f) s = f s.m_currentFunction.m_byteCodeSize s :=
  rfl

theorem OnElseExpr_result {t : Target} {s s1 : WASMBinaryReader} {b : BlockInfo}
    {j : JumpToEndBrInfo} {rest : List JumpToEndBrInfo} {src : Nat} {off : Int}
    (hb : blockAtDepth s 0 = Except.ok b)
    (hlist : b.m_jumpToEndBrInfo = j :: rest)
    (hrec : lookupByteCode b.m_position s.m_currentFunction.m_byteCode
      = some (ByteCode.JumpIfFalse src off))
    (h : OnElseExpr t s = Except.ok ((), s1)) :
    ∃ (p : Nat) (b1 : BlockInfo),
      blockAtDepth s1 0 = Except.ok b1
      ∧ b1.m_blockType = b.m_blockType
      ∧ b1.m_position = b.m_position
      ∧ b1.m_jumpToEndBrInfo = rest ++ [⟨JumpToEndType.IsJump, p⟩]
      ∧ s1.m_currentFunction.m_byteCode.getLast? = some (p, ByteCode.Jump 0)
      ∧ s1.m_currentFunction.m_byteCodeSize = p + t.sizeofJump
      ∧ lookupByteCode b.m_position s1.m_currentFunction.m_byteCode
          = some (ByteCode.JumpIfFalse src
              (i32 ((s1.m_currentFunction.m_byteCodeSize : Int) - (b.m_position : Int)))) := by
  unfold OnElseExpr at h
  obtain ⟨_, sA, hA, k1⟩ := bind_eq_ok.mp h
  have hApp := keepSubResultsIfNeeds_appendsCode t s () sA hA
  obtain ⟨bA, hbA, hpend⟩ := hApp.blockAtDepth hb
  obtain ⟨extra, hextra⟩ := hApp.1
  simp only [BlockInfo.pending, Prod.mk.injEq] at hpend
  obtain ⟨hty, hpos, hl⟩ := hpend
  have hne : ¬ (bA.m_jumpToEndBrInfo.length = 0) := by simp [hl, hlist]
  have hlastA := blockAtDepth_eq_ok.mp hbA
  simp only [getS_bind, hbA, liftE_ok_bind, if_neg hne, currentByteCodeSize_bind,
    modifyBlockAtDepth, modifyS_bind, WASMBinaryReader.pushByteCode,
    ModuleFunction.pushByteCode] at k1
  obtain ⟨b1, sX, h7, k2⟩ := bind_eq_ok.mp k1
  obtain ⟨h7a, hX⟩ := liftE_eq_ok.mp h7
  subst hX
  have hb1 := blockAtDepth_eq_ok.mp h7a
  dsimp only at hb1
  rw [getLast?_modifyAt_last _ hlastA, Option.some.injEq] at hb1
  subst hb1
  obtain ⟨_, sG, h8, k3⟩ := bind_eq_ok.mp k2
  have hsame := restoreVMStackRegardToPartOfBlockEnd_sameCode _ _ () sG h8
  simp only [currentByteCodeSize_bind] at k3
  obtain ⟨code, hu, hs1⟩ := pokeByteCode_eq_ok k3
  subst hs1
  have hrecA : lookupByteCode b.m_position (s.m_currentFunction.m_byteCode ++ extra)
      = some (ByteCode.JumpIfFalse src off) := lookupByteCode_append hrec extra
  rw [hsame.1] at hu
  dsimp only at hu
  rw [hextra, hpos] at hu
  refine ⟨sA.m_currentFunction.m_byteCodeSize,
    { bA with m_jumpToEndBrInfo := bA.m_jumpToEndBrInfo.tail
        ++ [⟨JumpToEndType.IsJump, sA.m_currentFunction.m_byteCodeSize⟩] },
    ?_, hty, hpos, ?_, ?_, ?_, ?_⟩
  · rw [blockAtDepth_eq_ok]
    show sG.m_blockInfo.getLast? = _
    rw [hsame.2]
    exact getLast?_modifyAt_last _ hlastA
  · show bA.m_jumpToEndBrInfo.tail ++ _ = _
    rw [hl, hlist]
    rfl
  · exact updateByteCode_getLast hrecA hu
  · show sG.m_currentFunction.m_byteCodeSize = _
    rw [hsame.1]
    rfl
  · obtain ⟨c3, h10, h11⟩ := updateByteCode_lookup hu (lookupByteCode_append hrecA _)
    rw [if_pos rfl] at h11
    simp only [setOffsetJumpIf, Option.some.injEq] at h11
    have hsz : sG.m_currentFunction.m_byteCodeSize
        = sA.m_currentFunction.m_byteCodeSize + t.sizeof (ByteCode.Jump 0) := by
      rw [hsame.1]
    show lookupByteCode b.m_position code = some (ByteCode.JumpIfFalse src
      (i32 ((sG.m_currentFunction.m_byteCodeSize : Int) - (b.m_position : Int))))
    rw [h10, ← h11, hsz]

end wabt.WASMBinaryReader

namespace wabt.WASMBinaryReader

open Walrus

theorem EndsWithPatch.base (t : Target) (l : List JumpToEndBrInfo) :
    EndsWithPatch t l (forEachM (patchJumpToEnd t) l) :=
  fun s _ h => ⟨s, IsRefl.refl s, h⟩

theorem EndsWithPatch.andThen {t : Target} {l : List JumpToEndBrInfo} {α : Type} {m : M α}
    {f : α → M Unit} (hm : Preserves AppendsCode m) (hf : ∀ a, EndsWithPatch t l (f a)) :
    EndsWithPatch t l (m >>= f) := by
  intro s s2 h
  obtain ⟨a, s1, h1, h2⟩ := bind_eq_ok.mp h
  obtain ⟨sP, hP, h3⟩ := hf a s1 s2 h2
  exact ⟨sP, IsTrans.trans _ _ _ (hm s a s1 h1) hP, h3⟩

theorem EndsWithPatch.run {t : Target} {l : List JumpToEndBrInfo} {m : M Unit}
    (hm : EndsWithPatch t l m) {s s1 : WASMBinaryReader} (h : m s = Except.ok ((), s1)) :
    ∃ (sP : WASMBinaryReader) (extra : List (Nat × ByteCode)),
      sP.m_currentFunction.m_byteCode = s.m_currentFunction.m_byteCode ++ extra
      ∧ forEachM (patchJumpToEnd t) l sP = Except.ok ((), s1) := by
  obtain ⟨sP, hP, h1⟩ := hm s s1 h
  obtain ⟨extra, hextra⟩ := hP.1
  exact ⟨sP, extra, hextra, h1⟩

theorem OnEndExpr_ifElse {t : Target} {s s1 : WASMBinaryReader} {b : BlockInfo}
    (hb : blockAtDepth s 0 = Except.ok b) (hty : b.m_blockType = BlockType.IfElse)
    (h : OnEndExpr t s = Except.ok ((), s1)) :
    ∃ (sP : WASMBinaryReader) (extra : List (Nat × ByteCode)),
      sP.m_currentFunction.m_byteCode = s.m_currentFunction.m_byteCode ++ extra
      ∧ forEachM (patchJumpToEnd t) b.m_jumpToEndBrInfo sP = Except.ok ((), s1) := by
  unfold OnEndExpr at h
  have hlen : s.m_blockInfo.length ≠ 0 := by
    have h1 := blockAtDepth_eq_ok.mp hb
    intro h0
    rw [List.length_eq_zero.mp h0] at h1
    cases h1
  simp only [getS_bind, if_pos hlen] at h
  obtain ⟨dropSize, sX, hd, k1⟩ := bind_eq_ok.mp h
  obtain ⟨hd1, hX⟩ := liftE_eq_ok.mp hd
  subst hX
  simp only [hb, liftE_ok_bind, modifyS_bind, hty, pure_bind_run, Bool.false_eq_true,
    if_false] at k1
  have key := EndsWithPatch.run (?hends : EndsWithPatch t b.m_jumpToEndBrInfo _) k1
  · exact key
  repeat (first
    | with_reducible apply Preserves.getS
    | with_reducible apply Preserves.pure
    | with_reducible apply Preserves.failM
    | with_reducible apply Preserves.liftE
    | with_reducible apply generateMoveValuesCodeRegardToDrop_appendsCode
    | with_reducible apply restoreVMStackBy_appendsCode
    | with_reducible apply pushVMStackKinds_appendsCode
    | with_reducible apply pushVMStack_appendsCode
    | with_reducible apply popVMStack_appendsCode
    | with_reducible refine Preserves.repeatM ?_ _
    | with_reducible refine Preserves.bind ?_ (fun _ => ?_)
    | with_reducible apply EndsWithPatch.base
    | with_reducible refine EndsWithPatch.andThen ?_ (fun _ => ?_)
    | split
    | dsimp only)

end wabt.WASMBinaryReader

open wabt Walrus wabt.WASMBinaryReader

/-- C1, evaluated on the code: the function `(param i32 i32) (result i32)` with body
`block (result i32) i32.const 7; local.get 1; br_if 0; drop; local.get 0; end`, called with
`(3, 1)`. Compiled with direct references the bytecode returns `3`, the value of local 0;
compiled with every `m_canUseDirectReference` forced to `false` it returns `7`, the value
the taken branch carries out of the block. -/
theorem directReference_changes_result :
    (compileExample ⟨[ValueType.I32, ValueType.I32], [ValueType.I32]⟩ [] true
        [Event.OnBlockExpr SigType.I32, Event.OnI32ConstExpr 7, Event.OnLocalGetExpr 1,
          Event.OnBrIfExpr 0, Event.OnDropExpr, Event.OnLocalGetExpr 0, Event.OnEndExpr,
          Event.OnEndExpr]).toOption.map
      (fun s => callFunction exampleTarget s.m_currentFunction 8 [3, 1]) = some (some [3])
    ∧ (compileExample ⟨[ValueType.I32, ValueType.I32], [ValueType.I32]⟩ [] false
        [Event.OnBlockExpr SigType.I32, Event.OnI32ConstExpr 7, Event.OnLocalGetExpr 1,
          Event.OnBrIfExpr 0, Event.OnDropExpr, Event.OnLocalGetExpr 0, Event.OnEndExpr,
          Event.OnEndExpr]).toOption.map
      (fun s => callFunction exampleTarget s.m_currentFunction 8 [3, 1]) = some (some [7]) := by
  decide!

/-- C2, evaluated on the code: `try  br 0  catch_all  end` in a function `() -> ()`. The `Jump`
that `br 0` emits starts at byte 0 and keeps the offset 0 it was given (the position of the
try block minus its own position): `OnBrExpr` enters the jump in the pending list of a
`Block` or an `IfElse` only, so the `End` of the `TryCatch` block never patches it, and
the bytecode ends at byte 32. The same body with `block` in place of `try` (and no
catch) has its `Jump` patched to the end of the bytecode, 16. -/
theorem br_to_try_block_lands_on_its_start :
    (compileExample ⟨[], []⟩ [] true
        [Event.OnTryExpr SigType.Void, Event.OnBrExpr 0, Event.OnCatchAllExpr,
          Event.OnEndExpr]).toOption.map
      (fun s => (s.m_currentFunction.m_byteCode, s.m_currentFunction.m_byteCodeSize))
      = some ([(0, ByteCode.Jump 0), (16, ByteCode.Jump 16)], 32)
    ∧ (compileExample ⟨[], []⟩ [] true
        [Event.OnBlockExpr SigType.Void, Event.OnBrExpr 0, Event.OnEndExpr]).toOption.map
      (fun s => (s.m_currentFunction.m_byteCode, s.m_currentFunction.m_byteCodeSize))
      = some ([(0, ByteCode.Jump 16)], 16) := by
  decide!

/-- C3, evaluated on the code: `i32.const 5  loop (param i32)  i32.const 1  br 0` in a
function `() -> ()`. The loop's entry position `m_position` is 16. `br 0` carries the top
value into the loop's parameter slot with a `Move32` at byte 32 and emits its `Jump` at
byte 48 with the offset -16 that was computed before the move was emitted: the jump lands
on byte 32, the move, and not on the loop entry. -/
theorem br_to_loop_offset_ignores_the_moves :
    (compileExample ⟨[], []⟩ [⟨[ValueType.I32], []⟩] true
        [Event.OnI32ConstExpr 5, Event.OnLoopExpr (SigType.Index 0), Event.OnI32ConstExpr 1,
          Event.OnBrExpr 0]).toOption.map
      (fun s => (s.m_blockInfo.map (fun b => (b.m_blockType, b.m_position)),
        s.m_currentFunction.m_byteCode))
      = some ([(BlockType.Loop, 16)],
          [(0, ByteCode.Const32 0 5), (16, ByteCode.Const32 4 1), (32, ByteCode.Move32 4 0),
            (48, ByteCode.Jump (-16))]) := by
  decide!

/-- C4, evaluated on the code: the function `() -> (i32, i32)` with body
`block (result i32 i32)  i64.const 9  i32.const 1  i32.const 2  br 0  end`. At the `br`
the stack holds an 8-byte entry at 0 and 4-byte entries at 8 and 12. The moves emitted
before the jump copy slot 8 to slot 0 and slot 12 to slot 8, the non-optimized position of
the entry one below the top; `OnEndExpr` pushes the block's results at 0 and 4, and the
function's `End` reads them there. Called, the function returns `(1, 0)` and not `(1, 2)`. -/
theorem br_moves_miss_the_result_slots :
    (compileExample ⟨[], [ValueType.I32, ValueType.I32]⟩
        [⟨[], [ValueType.I32, ValueType.I32]⟩] true
        [Event.OnBlockExpr (SigType.Index 0), Event.OnI64ConstExpr 9, Event.OnI32ConstExpr 1,
          Event.OnI32ConstExpr 2, Event.OnBrExpr 0]).toOption.map
      (fun s => s.m_currentFunction.m_byteCode)
      = some [(0, ByteCode.Const64 0 9), (24, ByteCode.Const32 8 1), (40, ByteCode.Const32 12 2),
          (56, ByteCode.Move32 8 0), (72, ByteCode.Move32 12 8), (88, ByteCode.Jump (-56))]
    ∧ (compileExample ⟨[], [ValueType.I32, ValueType.I32]⟩
        [⟨[], [ValueType.I32, ValueType.I32]⟩] true
        [Event.OnBlockExpr (SigType.Index 0), Event.OnI64ConstExpr 9, Event.OnI32ConstExpr 1,
          Event.OnI32ConstExpr 2, Event.OnBrExpr 0, Event.OnEndExpr]).toOption.map
      (fun s => s.m_vmStack.map (fun e => (e.m_size, e.m_position)))
      = some [(4, 0), (4, 4)]
    ∧ (compileExample ⟨[], [ValueType.I32, ValueType.I32]⟩
        [⟨[], [ValueType.I32, ValueType.I32]⟩] true
        [Event.OnBlockExpr (SigType.Index 0), Event.OnI64ConstExpr 9, Event.OnI32ConstExpr 1,
          Event.OnI32ConstExpr 2, Event.OnBrExpr 0, Event.OnEndExpr,
          Event.OnEndExpr]).toOption.map
      (fun s => callFunction exampleTarget s.m_currentFunction 8 [])
      = some (some [1, 0]) := by
  decide!

/-- C6, evaluated on the code: `try  i32.const 0  br_table 0 0  catch_all  end` in a function
`() -> ()`. The `BrTable` record starts at byte 16 and the bytecode ends at byte 60, so a
slot that lands just past the block would hold 44. Both slots hold -16, the position of
the try block minus the position of the record: `emitBrTableCase` registers a slot for
patching when the target is a `Block` or an `IfElse` only. With `block` in place of `try`
both slots are patched to the block end. -/
theorem br_table_slot_of_try_block_is_not_patched :
    (compileExample ⟨[], []⟩ [] true
        [Event.OnTryExpr SigType.Void, Event.OnI32ConstExpr 0, Event.OnBrTableExpr [0] 0,
          Event.OnCatchAllExpr, Event.OnEndExpr]).toOption.map
      (fun s => (s.m_currentFunction.m_byteCode, s.m_currentFunction.m_byteCodeSize))
      = some ([(0, ByteCode.Const32 0 0), (16, ByteCode.BrTable 0 1 (-16) [-16]),
          (44, ByteCode.Jump 16)], 60)
    ∧ (compileExample ⟨[], []⟩ [] true
        [Event.OnBlockExpr SigType.Void, Event.OnI32ConstExpr 0, Event.OnBrTableExpr [0] 0,
          Event.OnEndExpr]).toOption.map
      (fun s => (s.m_currentFunction.m_byteCode, s.m_currentFunction.m_byteCodeSize))
      = some ([(0, ByteCode.Const32 0 0), (16, ByteCode.BrTable 0 1 28 [28])], 44) := by
  decide!

/-- C10, evaluated on the code: `i32.const 5  local.set 0` and `i64.const 5  local.tee 0` in
functions with one parameter of the constant's type. Local 0 may be referenced directly,
no stack entry refers to it and its slot 0 differs from the constant's slot, yet the
constant keeps its destination and a `Move32`/`Move64` into the local is emitted: the
records of the four constant instructions are pushed with the opcodes `I32Const`, ..,
`F64Const`, and `omitUpdateLocalValueIfPossible` looks for `Const32` and `Const64`, which
only `ref.null` uses. For `ref.null  local.set 0` the constant is retargeted. -/
theorem const_write_back_is_not_folded :
    (compileExample ⟨[ValueType.I32], []⟩ [] true
        [Event.OnI32ConstExpr 5, Event.OnLocalSetExpr 0]).toOption.map
      (fun s => (s.m_currentFunction.m_byteCode, s.m_currentFunction.m_byteCodeSize))
      = some ([(0, ByteCode.Const32 4 5), (16, ByteCode.Move32 4 0)], 32)
    ∧ (compileExample ⟨[ValueType.I64], []⟩ [] true
        [Event.OnI64ConstExpr 5, Event.OnLocalTeeExpr 0]).toOption.map
      (fun s => (s.m_currentFunction.m_byteCode, s.m_currentFunction.m_byteCodeSize))
      = some ([(0, ByteCode.Const64 8 5), (24, ByteCode.Move64 8 0)], 40)
    ∧ (compileExample ⟨[ValueType.FuncRef], []⟩ [] true
        [Event.OnRefNullExpr, Event.OnLocalSetExpr 0]).toOption.map
      (fun s => (s.m_currentFunction.m_byteCode, s.m_currentFunction.m_byteCodeSize))
      = some ([(0, ByteCode.Const64 0 0)], 24) := by
  decide!

/-- C7 as stated fails: in the function `(param i32)` after
`i32.const 5  loop (param i32)  drop` the flag `m_canUseDirectReference` of local 0 is set,
but the watermark 4 is the recorded parameter position of the open loop, so
`OnLocalGetExpr(0)` places the entry at the watermark (`m_position` 4, not the local's
offset 0) and emits a `Move32` from 0 to 4. -/
theorem localGet_with_flag_set_emits_a_move :
    (compileExample ⟨[ValueType.I32], []⟩ [⟨[ValueType.I32], []⟩] true
        [Event.OnI32ConstExpr 5, Event.OnLoopExpr (SigType.Index 0),
          Event.OnDropExpr]).toOption.map
      (fun s => (s.m_localInfo, s.m_functionStackSizeSoFar,
        s.m_blockInfo.map (fun b => b.m_parameterPositions)))
      = some ([⟨0, true⟩], 4, [[4]])
    ∧ (compileExample ⟨[ValueType.I32], []⟩ [⟨[ValueType.I32], []⟩] true
        [Event.OnI32ConstExpr 5, Event.OnLoopExpr (SigType.Index 0), Event.OnDropExpr,
          Event.OnLocalGetExpr 0]).toOption.map
      (fun s => (s.m_vmStack, s.m_currentFunction.m_byteCode))
      = some ([⟨4, 4, 4, some 0⟩], [(0, ByteCode.Const32 4 5), (16, ByteCode.Move32 0 4)]) := by
  decide!

namespace wabt.WASMBinaryReader

open Walrus

theorem i32_of_small {x : Int} (h1 : -2147483648 ≤ x) (h2 : x < 2147483648) : i32 x = x := by
  unfold i32
  omega

end wabt.WASMBinaryReader

open wabt Walrus wabt.WASMBinaryReader

/-- C5: (1) `OnIfExpr` pops the condition, opens an `IfElse` block whose only pending jump is
an `IsJumpIf` entry at the block's recorded position, and appends at that position a
`JumpIfFalse` that reads the popped slot, with offset 0. (2) `OnElseExpr`, run where the
innermost block has the pending jumps `j :: rest` and the record at the block's position
is a `JumpIfFalse`, removes `j`, appends a `Jump` as the last record and adds it to the
pending jumps, and leaves at the block's position the same `JumpIfFalse` with offset
(bytecode size right after that `Jump`) minus (the block's position), as an `int32_t`,
which is the plain difference while both stay below 2^31. (3) `OnEndExpr` of an `IfElse`
block sets every pending `Jump` and every pending `JumpIfFalse`, that of an `if` without
`else` among them, to (bytecode size at the end) minus (its position), and leaves every
other record that is not a `BrTable` as it was, the `JumpIfFalse` that `OnElseExpr` removed
from the pending jumps among them. -/
theorem if_else_jumps_are_patched (t : Target) :
    (∀ (sigType : SigType) (s s1 : WASMBinaryReader),
        OnIfExpr t sigType s = Except.ok ((), s1) →
        ∃ (top : VMStackInfo) (b : BlockInfo) (code : List (Nat × ByteCode)),
          s.m_vmStack.getLast? = some top
          ∧ blockAtDepth s1 0 = Except.ok b
          ∧ b.m_blockType = BlockType.IfElse
          ∧ b.m_jumpToEndBrInfo = [⟨JumpToEndType.IsJumpIf, b.m_position⟩]
          ∧ s1.m_currentFunction.m_byteCode
              = code ++ [(b.m_position, ByteCode.JumpIfFalse (u16 top.m_position) 0)]
          ∧ s1.m_currentFunction.m_byteCodeSize = b.m_position + t.sizeofJumpIfFalse
          ∧ ((∀ x ∈ code, x.1 ≠ b.m_position) →
              lookupByteCode b.m_position s1.m_currentFunction.m_byteCode
                = some (ByteCode.JumpIfFalse (u16 top.m_position) 0)))
    ∧ (∀ (s s1 : WASMBinaryReader) (b : BlockInfo) (j : JumpToEndBrInfo)
        (rest : List JumpToEndBrInfo) (src : Nat) (off : Int),
        blockAtDepth s 0 = Except.ok b →
        b.m_jumpToEndBrInfo = j :: rest →
        lookupByteCode b.m_position s.m_currentFunction.m_byteCode
          = some (ByteCode.JumpIfFalse src off) →
        OnElseExpr t s = Except.ok ((), s1) →
        ∃ (p : Nat) (b1 : BlockInfo),
          blockAtDepth s1 0 = Except.ok b1
          ∧ b1.m_blockType = b.m_blockType
          ∧ b1.m_position = b.m_position
          ∧ b1.m_jumpToEndBrInfo = rest ++ [⟨JumpToEndType.IsJump, p⟩]
          ∧ s1.m_currentFunction.m_byteCode.getLast? = some (p, ByteCode.Jump 0)
          ∧ s1.m_currentFunction.m_byteCodeSize = p + t.sizeofJump
          ∧ lookupByteCode b.m_position s1.m_currentFunction.m_byteCode
              = some (ByteCode.JumpIfFalse src
                  (i32 ((s1.m_currentFunction.m_byteCodeSize : Int) - (b.m_position : Int))))
          ∧ (s1.m_currentFunction.m_byteCodeSize < 2147483648 → b.m_position < 2147483648 →
              lookupByteCode b.m_position s1.m_currentFunction.m_byteCode
                = some (ByteCode.JumpIfFalse src
                    ((s1.m_currentFunction.m_byteCodeSize : Int) - (b.m_position : Int)))))
    ∧ (∀ (s s1 : WASMBinaryReader) (b : BlockInfo),
        blockAtDepth s 0 = Except.ok b →
        b.m_blockType = BlockType.IfElse →
        OnEndExpr t s = Except.ok ((), s1) →
        (∀ (p : Nat) (o : Int), ⟨JumpToEndType.IsJump, p⟩ ∈ b.m_jumpToEndBrInfo →
            lookupByteCode p s.m_currentFunction.m_byteCode = some (ByteCode.Jump o) →
            lookupByteCode p s1.m_currentFunction.m_byteCode
              = some (ByteCode.Jump
                  (i32 ((s1.m_currentFunction.m_byteCodeSize : Int) - (p : Int)))))
        ∧ (∀ (p src : Nat) (o : Int), ⟨JumpToEndType.IsJumpIf, p⟩ ∈ b.m_jumpToEndBrInfo →
            lookupByteCode p s.m_currentFunction.m_byteCode
              = some (ByteCode.JumpIfFalse src o) →
            lookupByteCode p s1.m_currentFunction.m_byteCode
              = some (ByteCode.JumpIfFalse src
                  (i32 ((s1.m_currentFunction.m_byteCodeSize : Int) - (p : Int)))))
        ∧ (∀ (q : Nat) (c : ByteCode),
            lookupByteCode q s.m_currentFunction.m_byteCode = some c →
            isBrTableRecord c = false →
            (∀ e ∈ b.m_jumpToEndBrInfo, e.m_position ≠ q) →
            lookupByteCode q s1.m_currentFunction.m_byteCode = some c)) := by
  refine ⟨?_, ?_, ?_⟩
  · intro sigType s s1 h
    obtain ⟨top, b, code, h1, h2, h3, h4, h5, h6⟩ := OnIfExpr_result h
    refine ⟨top, b, code, h1, h2, h3, h4, h5, h6, fun hnew => ?_⟩
    rw [h5]
    exact lookupByteCode_append_new hnew
  · intro s s1 b j rest src off hb hlist hrec h
    obtain ⟨p, b1, h1, h2, h3, h4, h5, h6, h7⟩ := OnElseExpr_result hb hlist hrec h
    refine ⟨p, b1, h1, h2, h3, h4, h5, h6, h7, fun hs hp => ?_⟩
    rw [h7, i32_of_small (by omega) (by omega)]
  · intro s s1 b hb hty h
    obtain ⟨sP, extra, hextra, hloop⟩ := OnEndExpr_ifElse hb hty h
    have hsize := patchLoop_size hloop
    refine ⟨?_, ?_, ?_⟩
    · intro p o hmem hrec
      have hP : lookupByteCode p sP.m_currentFunction.m_byteCode = some (ByteCode.Jump o) := by
        rw [hextra]
        exact lookupByteCode_append hrec extra
      have h1 := patchLoop_patches hloop hmem (by simp) hP rfl
      rw [hsize]
      exact h1
    · intro p src o hmem hrec
      have hP : lookupByteCode p sP.m_currentFunction.m_byteCode
          = some (ByteCode.JumpIfFalse src o) := by
        rw [hextra]
        exact lookupByteCode_append hrec extra
      have h1 := patchLoop_patches hloop hmem (by simp) hP rfl
      rw [hsize]
      exact h1
    · intro q c hrec hnb hfree
      have hP : lookupByteCode q sP.m_currentFunction.m_byteCode = some c := by
        rw [hextra]
        exact lookupByteCode_append hrec extra
      exact patchLoop_keeps hloop hP hnb (fun e he hq => absurd hq (hfree e he))

/-- C5 at a concrete input, the body `i32.const 1  if  else  end` of a function `() -> ()`:
`if` appends `JumpIfFalse 0 0` at position 16, `else` appends `Jump 0` at position 32 and
sets the `JumpIfFalse` to offset 32 = 48 - 16, `end` sets the `Jump` to offset 16 = 48 - 32
and leaves the `JumpIfFalse` as it was. -/
theorem if_else_jumps_are_patched_witness :
    (OnIfExpr exampleTarget SigType.Void (exampleIfElse 1) = Except.ok ((), exampleIfElse 2)
      ∧ (exampleIfElse 2).m_currentFunction.m_byteCode
          = [(0, ByteCode.Const32 0 1), (16, ByteCode.JumpIfFalse 0 0)])
    ∧ (OnElseExpr exampleTarget (exampleIfElse 2) = Except.ok ((), exampleIfElse 3)
      ∧ lookupByteCode 16 (exampleIfElse 3).m_currentFunction.m_byteCode
          = some (ByteCode.JumpIfFalse 0 32))
    ∧ (OnEndExpr exampleTarget (exampleIfElse 3) = Except.ok ((), exampleIfElse 4)
      ∧ lookupByteCode 32 (exampleIfElse 4).m_currentFunction.m_byteCode
          = some (ByteCode.Jump 16)
      ∧ lookupByteCode 16 (exampleIfElse 4).m_currentFunction.m_byteCode
          = some (ByteCode.JumpIfFalse 0 32)) := by
  have hIf : OnIfExpr exampleTarget SigType.Void (exampleIfElse 1)
      = Except.ok ((), exampleIfElse 2) := by decide!
  have hElse : OnElseExpr exampleTarget (exampleIfElse 2)
      = Except.ok ((), exampleIfElse 3) := by decide!
  have hEnd : OnEndExpr exampleTarget (exampleIfElse 3)
      = Except.ok ((), exampleIfElse 4) := by decide!
  refine ⟨⟨hIf, ?_⟩, ⟨hElse, ?_⟩, ⟨hEnd, ?_, ?_⟩⟩
  · obtain ⟨top, b, code, -, hb, -, -, hcode, -, -⟩ :=
      (if_else_jumps_are_patched exampleTarget).1 SigType.Void _ _ hIf
    decide!
  · obtain ⟨p, b1, -, -, -, -, -, -, -, h8⟩ :=
      (if_else_jumps_are_patched exampleTarget).2.1 (exampleIfElse 2) (exampleIfElse 3)
        ⟨BlockType.IfElse, SigType.Void, 16, [], [], 0, false, false,
          [⟨JumpToEndType.IsJumpIf, 16⟩]⟩
        ⟨JumpToEndType.IsJumpIf, 16⟩ [] 0 0 (by decide!) rfl (by decide!) hElse
    exact (h8 (by decide!) (by decide!)).trans (by decide!)
  · exact (((if_else_jumps_are_patched exampleTarget).2.2 (exampleIfElse 3) (exampleIfElse 4)
        ⟨BlockType.IfElse, SigType.Void, 16, [], [], 0, false, false,
          [⟨JumpToEndType.IsJump, 32⟩]⟩
        (by decide!) rfl hEnd).1 32 0 (by decide!) (by decide!)).trans (by decide!)
  · exact ((if_else_jumps_are_patched exampleTarget).2.2 (exampleIfElse 3) (exampleIfElse 4)
        ⟨BlockType.IfElse, SigType.Void, 16, [], [], 0, false, false,
          [⟨JumpToEndType.IsJump, 32⟩]⟩
        (by decide!) rfl hEnd).2.2 16 (ByteCode.JumpIfFalse 0 32) (by decide!) rfl (by decide!)

/-! ## `local.get`, and the rewind of `local.set` and `local.tee` -/

/-- C7, amended: let `OnLocalGetExpr(i)` run where the local's slot lies below the watermark
and the push stays within the stack limit. If the local's flag is set and the watermark
is not a recorded parameter position of an open block, the pushed entry has the local's
offset as `m_position` and `i` as `m_localIndex`, and the bytecode is unchanged. If the
flag is clear, or the watermark is a recorded parameter position of an open block, the
entry is placed at the watermark and exactly one record is appended to the bytecode: a
`Move32` (size 4) or a `Move64` (any other size) from the local's offset to the
watermark. -/
theorem localGet_direct_or_moved (t : Target) (s : WASMBinaryReader) (i : Nat) (r : Nat × Nat)
    (info : LocalInfo)
    (hr : resolveLocalOffsetAndSize t s i = Except.ok r)
    (hinfo : s.m_localInfo[i]? = some info)
    (hfit : s.m_functionStackSizeSoFar + r.2 ≤ 65535)
    (hbelow : r.1 < s.m_functionStackSizeSoFar) :
    ((info.m_canUseDirectReference = true
        ∧ ∀ b ∈ s.m_blockInfo, s.m_functionStackSizeSoFar ∉ b.m_parameterPositions) →
      OnLocalGetExpr t i s = Except.ok ((), { s with
        m_vmStack := s.m_vmStack ++ [⟨r.2, r.1, s.m_functionStackSizeSoFar, some i⟩]
        m_localInfo := increaseRefCountIfNeeds s.m_localInfo (some i)
        m_functionStackSizeSoFar := s.m_functionStackSizeSoFar + r.2
        m_currentFunction := { s.m_currentFunction with
          m_requiredStackSize := max s.m_currentFunction.m_requiredStackSize
            (s.m_functionStackSizeSoFar + r.2) } }))
    ∧ ((info.m_canUseDirectReference = false
        ∨ ∃ b ∈ s.m_blockInfo, s.m_functionStackSizeSoFar ∈ b.m_parameterPositions) →
      OnLocalGetExpr t i s = Except.ok ((), { s with
        m_vmStack := s.m_vmStack
          ++ [⟨r.2, s.m_functionStackSizeSoFar, s.m_functionStackSizeSoFar, some i⟩]
        m_localInfo := increaseRefCountIfNeeds s.m_localInfo (some i)
        m_functionStackSizeSoFar := s.m_functionStackSizeSoFar + r.2
        m_lastByteCodePosition := u32 s.m_currentFunction.m_byteCodeSize
        m_lastPushedOpcode := if r.2 = 4 then WASMOpcode.Move32 else WASMOpcode.Move64
        m_currentFunction := { s.m_currentFunction with
          m_requiredStackSize := max s.m_currentFunction.m_requiredStackSize
            (s.m_functionStackSizeSoFar + r.2)
          m_byteCode := s.m_currentFunction.m_byteCode
            ++ [(s.m_currentFunction.m_byteCodeSize,
                if r.2 = 4 then ByteCode.Move32 r.1 s.m_functionStackSizeSoFar
                else ByteCode.Move64 r.1 s.m_functionStackSizeSoFar)]
          m_byteCodeSize := s.m_currentFunction.m_byteCodeSize
            + (if r.2 = 4 then t.sizeofMove32 else t.sizeofMove64) } })) := by
  have hinfo2 : elemAt s.m_localInfo i = Except.ok info := elemAt_eq_ok.mpr hinfo
  obtain ⟨r1, r2⟩ := r
  simp only at hfit hbelow
  have h32 : u32 s.m_functionStackSizeSoFar = s.m_functionStackSizeSoFar := by
    unfold u32
    omega
  have h16 : u16 s.m_functionStackSizeSoFar = s.m_functionStackSizeSoFar := by
    unfold u16
    omega
  have h16b : u16 r1 = r1 := by
    unfold u16
    omega
  have hne : r1 ≠ s.m_functionStackSizeSoFar := by omega
  constructor
  · rintro ⟨hflag, hparam⟩
    have h32b : u32 (s.m_functionStackSizeSoFar + r2) = s.m_functionStackSizeSoFar + r2 := by
      unfold u32
      omega
    have hle : ¬ (65535 < s.m_functionStackSizeSoFar + r2) := by omega
    have hany : (s.m_blockInfo.any fun bi =>
        bi.m_parameterPositions.any fun p => decide (u32 s.m_functionStackSizeSoFar = p))
        = false := by
      rw [h32]
      simp only [List.any_eq_false, List.any_eq_true, decide_eq_true_eq, not_exists, not_and]
      intro b hb p hp hEq
      exact hparam b hb (hEq ▸ hp)
    have hdirect : canUseDirectReference s i s.m_functionStackSizeSoFar = Except.ok true := by
      unfold canUseDirectReference
      rw [hany]
      simp [hinfo2, hflag]
    simp [OnLocalGetExpr, hr, hdirect, pushVMStackAt, h32b, hle]
  · intro hcase
    have hdirect : canUseDirectReference s i s.m_functionStackSizeSoFar = Except.ok false := by
      unfold canUseDirectReference
      by_cases hany : (s.m_blockInfo.any fun bi =>
          bi.m_parameterPositions.any fun p => decide (u32 s.m_functionStackSizeSoFar = p))
          = true
      · rw [if_pos hany]
      · rw [if_neg hany]
        rcases hcase with hflag | ⟨b, hb, hp⟩
        · simp [hinfo2, hflag]
        · exfalso
          apply hany
          rw [h32]
          simp only [List.any_eq_true, decide_eq_true_eq]
          exact ⟨b, hb, _, hp, rfl⟩
    by_cases h4 : r2 = 4
    · subst h4
      have h32b : u32 (s.m_functionStackSizeSoFar + 4) = s.m_functionStackSizeSoFar + 4 := by
        unfold u32
        omega
      have hle : ¬ (65535 < s.m_functionStackSizeSoFar + 4) := by omega
      simp [OnLocalGetExpr, hr, hdirect, pushVMStackAt, h32b, hle, generateMoveCodeIfNeeds, hne,
        pushByteCode, ModuleFunction.pushByteCode, ModuleFunction.currentByteCodeSize,
        Target.sizeof, h16, h16b]
    · have h32b : u32 (s.m_functionStackSizeSoFar + r2) = s.m_functionStackSizeSoFar + r2 := by
        unfold u32
        omega
      have hle : ¬ (65535 < s.m_functionStackSizeSoFar + r2) := by omega
      simp [OnLocalGetExpr, hr, hdirect, pushVMStackAt, h32b, hle, generateMoveCodeIfNeeds, hne,
        h4, pushByteCode, ModuleFunction.pushByteCode, ModuleFunction.currentByteCodeSize,
        Target.sizeof, h16, h16b]

/-- C7, amended, at a concrete input: `local.get 1` at the start of a function
`(param i32 i32)`, with the flag of local 1 set and with the flag cleared. -/
theorem localGet_direct_or_moved_witness :
    OnLocalGetExpr exampleTarget 1 (exampleReader ⟨[ValueType.I32, ValueType.I32], []⟩ [])
      = Except.ok ((), { exampleReader ⟨[ValueType.I32, ValueType.I32], []⟩ [] with
          m_vmStack := [⟨4, 4, 8, some 1⟩]
          m_localInfo := [⟨0, true⟩, ⟨1, true⟩]
          m_functionStackSizeSoFar := 12
          m_currentFunction :=
            { m_functionType := ⟨[ValueType.I32, ValueType.I32], []⟩
              m_requiredStackSize := 12 } })
    ∧ ((OnLocalGetExpr exampleTarget 1
        (forceNoDirectReference (exampleReader ⟨[ValueType.I32, ValueType.I32], []⟩ []))).toOption.map
        (fun p => (p.2.m_vmStack, p.2.m_currentFunction.m_byteCode)))
      = some ([⟨4, 8, 8, some 1⟩], [(0, ByteCode.Move32 4 8)]) := by
  have hA := (localGet_direct_or_moved exampleTarget
    (exampleReader ⟨[ValueType.I32, ValueType.I32], []⟩ []) 1 (4, 4) ⟨0, true⟩
    (by decide!) (by decide!) (by decide!) (by decide!)).1 ⟨rfl, by decide!⟩
  have hB := (localGet_direct_or_moved exampleTarget
    (forceNoDirectReference (exampleReader ⟨[ValueType.I32, ValueType.I32], []⟩ [])) 1 (4, 4)
    ⟨0, false⟩ (by decide!) (by decide!) (by decide!) (by decide!)).2 (Or.inl rfl)
  constructor
  · rw [hA]
    decide!
  · rw [hB]
    decide!

/-- C8: let `OnLocalSetExpr(i)` or `OnLocalTeeExpr(i)` run on a local `i` with a stack slot, a
non-empty VM stack with top entry `top`, and a reader that has moved past the start of the
code. `OnLocalSetExpr` rewinds when `m_refCount` of the local is non-zero, its flag is set
and `top.m_position` differs from the local's offset, and does not rewind otherwise (the
reader offset is not set back and no flag changes); `OnLocalTeeExpr` rewinds when
`m_refCount` is non-zero and the flag is set, and not otherwise. The rewind leaves the
state `s1` that differs from the state before in: the flag of local `i` is cleared; the
function's bytecode and catch infos, the block stack, the pending catch list and the VM
stack are empty; the watermark is `m_initialFunctionStackSize`; every `m_refCount` is 0;
the reader offset is `m_codeStartOffset` (and `m_skipValidationUntil` the offset reached);
the record of the last pushed bytecode and opcodes is reset. -/
theorem rewind_exactly_when_aliased_local_is_overwritten (t : Target) (s : WASMBinaryReader)
    (i : Nat) (r : Nat × Nat) (info : LocalInfo) (top : VMStackInfo)
    (hr : resolveLocalOffsetAndSize t s i = Except.ok r)
    (hinfo : s.m_localInfo[i]? = some info)
    (htop : s.m_vmStack.getLast? = some top)
    (hoff : s.m_codeStartOffset ≠ s.readerOffset) :
    ∃ s1 : WASMBinaryReader,
      s1 = { s with
          m_skipValidationUntil := s.readerOffset
          readerOffset := s.m_codeStartOffset
          m_currentFunction := { s.m_currentFunction with
            m_byteCode := []
            m_byteCodeSize := 0
            m_catchInfo := [] }
          m_blockInfo := []
          m_catchInfo := []
          m_functionStackSizeSoFar := s.m_initialFunctionStackSize
          m_lastByteCodePosition := 0
          m_lastPushedOpcode := WASMOpcode.OpcodeKindEnd
          m_lastOpcode := (0, 0)
          m_vmStack := []
          m_localInfo := (clearDirectReference i s.m_localInfo).map LocalInfo.reset }
      ∧ ((info.m_refCount ≠ 0 ∧ info.m_canUseDirectReference = true ∧ top.m_position ≠ r.1) →
          OnLocalSetExpr t i s = Except.ok ((), s1))
      ∧ (¬ (info.m_refCount ≠ 0 ∧ info.m_canUseDirectReference = true ∧ top.m_position ≠ r.1) →
          ∀ s2, OnLocalSetExpr t i s = Except.ok ((), s2) →
            s2.readerOffset ≠ s.m_codeStartOffset
            ∧ directReferenceFlags s2 = directReferenceFlags s)
      ∧ ((info.m_refCount ≠ 0 ∧ info.m_canUseDirectReference = true) →
          OnLocalTeeExpr t i s = Except.ok ((), s1))
      ∧ (¬ (info.m_refCount ≠ 0 ∧ info.m_canUseDirectReference = true) →
          ∀ s2, OnLocalTeeExpr t i s = Except.ok ((), s2) →
            s2.readerOffset ≠ s.m_codeStartOffset
            ∧ directReferenceFlags s2 = directReferenceFlags s)
      ∧ (directReferenceFlags s1)[i]? = some false
      ∧ (∀ j, j ≠ i → (directReferenceFlags s1)[j]? = (directReferenceFlags s)[j]?)
      ∧ (∀ l ∈ s1.m_localInfo, l.m_refCount = 0) := by
  refine ⟨_, rfl, ?_, ?_, ?_, ?_, ?_, ?_, ?_⟩
  · rintro ⟨hcount, hflag, hpos⟩
    rw [OnLocalSetExpr_rewinds t s i r info top hr hinfo htop hcount hflag hpos, rewind_run]
  · intro hno s2 h
    have hsame := OnLocalSetExpr_continues t s i r info hr hinfo
      (fun top2 htop2 => by
        rw [htop] at htop2
        cases htop2
        exact hno) () s2 h
    refine ⟨?_, hsame.1⟩
    rw [hsame.2]
    exact fun hEq => hoff hEq.symm
  · rintro ⟨hcount, hflag⟩
    rw [OnLocalTeeExpr_rewinds t s i info hinfo hcount hflag, rewind_run]
  · intro hno s2 h
    have hsame := OnLocalTeeExpr_continues t s i info hinfo hno () s2 h
    refine ⟨?_, hsame.1⟩
    rw [hsame.2]
    exact fun hEq => hoff hEq.symm
  · show (((clearDirectReference i s.m_localInfo).map LocalInfo.reset).map
        (fun info => info.m_canUseDirectReference))[i]? = some false
    rw [map_reset_flags, clearDirectReference_flags]
    have hlt : i < s.m_localInfo.length := by
      rcases Nat.lt_or_ge i s.m_localInfo.length with h | h
      · exact h
      · rw [List.getElem?_eq_none h] at hinfo
        cases hinfo
    simp [List.getElem?_set, hlt]
  · intro j hj
    show (((clearDirectReference i s.m_localInfo).map LocalInfo.reset).map
        (fun info => info.m_canUseDirectReference))[j]? = _
    rw [map_reset_flags, clearDirectReference_flags]
    simp [directReferenceFlags, List.getElem?_set, Ne.symm hj]
  · intro l hl
    simp only [List.mem_map] at hl
    obtain ⟨l0, -, rfl⟩ := hl
    rfl

/-- C8 at a concrete input: in the function `(param i32)` after `local.get 0  i32.const 1`,
both `local.set 0` and `local.tee 0` rewind. -/
theorem rewind_witness :
    OnLocalSetExpr exampleTarget 0 exampleAliasedReader
      = Except.ok ((),
        { m_skipValidationUntil := 3
          m_currentFunction := { m_functionType := ⟨[ValueType.I32], []⟩, m_requiredStackSize := 12 }
          m_currentFunctionType := ⟨[ValueType.I32], []⟩
          m_initialFunctionStackSize := 4
          m_functionStackSizeSoFar := 4
          m_localInfo := [⟨0, false⟩] })
    ∧ OnLocalTeeExpr exampleTarget 0 exampleAliasedReader
      = OnLocalSetExpr exampleTarget 0 exampleAliasedReader := by
  obtain ⟨s1, hs1, hset, -, htee, -⟩ :=
    rewind_exactly_when_aliased_local_is_overwritten exampleTarget exampleAliasedReader 0 (0, 4)
      ⟨1, true⟩ ⟨4, 8, 8, none⟩ (by decide!) (by decide!) (by decide!) (by decide!)
  have h1 := hset ⟨by decide, rfl, by decide⟩
  have h2 := htee ⟨by decide, rfl⟩
  rw [h2, h1, hs1]
  exact ⟨by decide!, rfl⟩

/-- C9: (1) no handler sets a direct-reference flag back: the number of locals is unchanged
and a flag that is clear before a handler runs is clear after it; (2) a handler that moves
the reader offset, that is a rewind, clears a flag that was set; (3) hence in every run
of handlers the number of rewinds is at most the number of flags set at its start, which
is at most the number of locals; (4) the locals are the parameters (`beginFunction`) and
the declared locals (`OnLocalDecl` adds `count` of them). -/
theorem restart_terminates (t : Target) :
    (∀ (e : Event) (s s1 : WASMBinaryReader), e.handler t s = Except.ok ((), s1) →
        s1.m_localInfo.length = s.m_localInfo.length
        ∧ ∀ j : Nat, (directReferenceFlags s)[j]? = some false →
            (directReferenceFlags s1)[j]? = some false)
    ∧ (∀ (e : Event) (s s1 : WASMBinaryReader), e.handler t s = Except.ok ((), s1) →
        s1.readerOffset ≠ s.readerOffset →
        ∃ j : Nat, (directReferenceFlags s)[j]? = some true
          ∧ (directReferenceFlags s1)[j]? = some false)
    ∧ (∀ (steps : List (Nat × Event)) (s : WASMBinaryReader) (n : Nat),
        countRewinds t steps s = Except.ok n →
        n ≤ (directReferenceFlags s).count true
        ∧ (directReferenceFlags s).count true ≤ s.m_localInfo.length)
    ∧ (∀ (mf : ModuleFunction) (s s1 : WASMBinaryReader),
        beginFunction t mf s = Except.ok ((), s1) →
        s1.m_localInfo.length = mf.m_functionType.param.length
        ∧ s1.m_currentFunctionType = mf.m_functionType)
    ∧ (∀ (count : Nat) (type : SigType) (s s1 : WASMBinaryReader),
        OnLocalDecl t count type s = Except.ok ((), s1) →
        s1.m_localInfo.length = s.m_localInfo.length + count
        ∧ s1.m_currentFunction.m_local.length = s.m_currentFunction.m_local.length + count
        ∧ s1.m_currentFunctionType = s.m_currentFunctionType) := by
  refine ⟨?_, ?_, ?_, ?_, ?_⟩
  · intro e s s1 h
    rcases handler_step t e s s1 () h with hsame | ⟨i, hi, hf⟩
    · constructor
      · have := congrArg List.length hsame.1
        simpa [directReferenceFlags] using this
      · intro j hj
        rw [hsame.1]
        exact hj
    · constructor
      · have := congrArg List.length hf
        simpa [directReferenceFlags] using this
      · intro j hj
        rw [hf, List.getElem?_set]
        split
        · have hlt : j < (directReferenceFlags s).length := by
            rcases Nat.lt_or_ge j (directReferenceFlags s).length with h1 | h1
            · exact h1
            · rw [List.getElem?_eq_none h1] at hj
              cases hj
          next hEq =>
            subst hEq
            simp [hlt]
        · exact hj
  · intro e s s1 h hne
    rcases handler_step t e s s1 () h with hsame | ⟨i, hi, hf⟩
    · exact absurd hsame.2 hne
    · refine ⟨i, hi, ?_⟩
      rw [hf, List.getElem?_set]
      have hlt : i < (directReferenceFlags s).length := by
        rcases Nat.lt_or_ge i (directReferenceFlags s).length with h1 | h1
        · exact h1
        · rw [List.getElem?_eq_none h1] at hi
          cases hi
      simp [hlt]
  · intro steps s n h
    refine ⟨countRewinds_le t steps s n h, ?_⟩
    have := List.count_le_length (l := directReferenceFlags s) (a := true)
    simpa [directReferenceFlags] using this
  · intro mf s s1 h
    simp [beginFunction] at h
    subst h
    simp
  · intro count type s s1 h
    unfold OnLocalDecl at h
    by_cases hc : count = 0
    · subst hc
      simp at h
      subst h
      simp
    · cases hk : toValueKind type with
      | error err => simp [hc, hk] at h
      | ok k =>
        simp [hc, hk] at h
        subst h
        exact iterate_declareLocal_length t k count s

/-- C9 at a concrete input: the body `local.get 0  i32.const 1  local.set 0` of a function
`(param i32)` is read twice, the first `local.set 0` rewinds, and the run has one rewind. -/
theorem restart_terminates_witness :
    countRewinds exampleTarget
        [(1, Event.OnLocalGetExpr 0), (2, Event.OnI32ConstExpr 1), (3, Event.OnLocalSetExpr 0),
          (1, Event.OnLocalGetExpr 0), (2, Event.OnI32ConstExpr 1), (3, Event.OnLocalSetExpr 0)]
        (exampleReader ⟨[ValueType.I32], []⟩ []) = Except.ok 1
    ∧ 1 ≤ (directReferenceFlags (exampleReader ⟨[ValueType.I32], []⟩ [])).count true
    ∧ (directReferenceFlags (exampleReader ⟨[ValueType.I32], []⟩ [])).count true
        ≤ (exampleReader ⟨[ValueType.I32], []⟩ []).m_localInfo.length := by
  have hrun : countRewinds exampleTarget
      [(1, Event.OnLocalGetExpr 0), (2, Event.OnI32ConstExpr 1), (3, Event.OnLocalSetExpr 0),
        (1, Event.OnLocalGetExpr 0), (2, Event.OnI32ConstExpr 1), (3, Event.OnLocalSetExpr 0)]
      (exampleReader ⟨[ValueType.I32], []⟩ []) = Except.ok 1 := by decide!
  exact ⟨hrun, (restart_terminates exampleTarget).2.2.1 _ _ 1 hrun⟩


/-! ## Writing a record that was just appended -/

namespace Walrus

theorem updateByteCode_append_new {pos : Nat} (f : ByteCode → Option ByteCode)
    {l : List (Nat × ByteCode)} (c : ByteCode) (hnew : ∀ x ∈ l, x.1 ≠ pos) :
    updateByteCode pos f (l ++ [(pos, c)]) = (f c).map (fun c1 => l ++ [(pos, c1)]) := by
  induction l with
  | nil => simp [updateByteCode]
  | cons x rest ih =>
    obtain ⟨p, c0⟩ := x
    have hp : p ≠ pos := hnew (p, c0) (List.mem_cons_self _ _)
    simp only [List.cons_append, updateByteCode, if_neg hp]
    change Option.map _ (updateByteCode pos f (rest ++ [(pos, c)])) = _
    rw [ih (fun y hy => hnew y (List.mem_cons_of_mem _ hy))]
    cases f c <;> rfl

end Walrus

namespace wabt.WASMBinaryReader

open Walrus

theorem pokeByteCode_eq (pos : Nat) (f : ByteCode → Option ByteCode) (s : WASMBinaryReader) :
    pokeByteCode pos f s
      = match updateByteCode pos f s.m_currentFunction.m_byteCode with
        | none => Except.error CompileError.undefined
        | some code => Except.ok ((),
            { s with m_currentFunction := { s.m_currentFunction with m_byteCode := code } }) := by
  unfold pokeByteCode
  simp only [run_bind, run_getS]
  cases updateByteCode pos f s.m_currentFunction.m_byteCode <;> rfl

theorem generateEndCode_run (t : Target) (s : WASMBinaryReader)
    (hn : s.m_currentFunctionType.result.length ≤ s.m_vmStack.length)
    (hfresh : ∀ x ∈ s.m_currentFunction.m_byteCode, x.1 ≠ s.m_currentFunction.m_byteCodeSize) :
    generateEndCode t s = Except.ok ((), { s with
      m_lastByteCodePosition := u32 s.m_currentFunction.m_byteCodeSize
      m_lastPushedOpcode := WASMOpcode.End
      m_currentFunction := { s.m_currentFunction with
        m_byteCode := s.m_currentFunction.m_byteCode
          ++ [(s.m_currentFunction.m_byteCodeSize,
              ByteCode.End s.m_currentFunctionType.result.length
                ((s.m_vmStack.drop
                  (s.m_vmStack.length - s.m_currentFunctionType.result.length)).map
                  (fun e => u16 e.m_position)))]
        m_byteCodeSize := s.m_currentFunction.m_byteCodeSize + t.sizeofEnd
          + 2 * s.m_currentFunctionType.result.length } }) := by
  unfold generateEndCode
  have hn1 : ¬ (s.m_currentFunctionType.result.length > s.m_vmStack.length) := by omega
  simp only [getS_bind, if_neg hn1, currentByteCodeSize_bind, WASMBinaryReader.pushByteCode,
    WASMBinaryReader.expandByteCode, modifyS_bind]
  simp only [pokeByteCode_eq, ModuleFunction.pushByteCode, ModuleFunction.expandByteCode,
    ModuleFunction.currentByteCodeSize, updateByteCode_append_new _ _ hfresh, setResultOffsets,
    Option.map_some', Target.sizeof]

theorem generateEndCode_skip (t : Target) (s : WASMBinaryReader)
    (hn : s.m_vmStack.length < s.m_currentFunctionType.result.length) :
    generateEndCode t s = Except.ok ((), s) := by
  unfold generateEndCode
  simp only [getS_bind, if_pos (show s.m_currentFunctionType.result.length > s.m_vmStack.length
    from hn), run_pure]

end wabt.WASMBinaryReader

/-! ## Popping entries -/

set_option linter.unusedTactic false
set_option linter.unreachableTactic false

namespace wabt

open Walrus

instance : IsRefl WASMBinaryReader SameByteCode := ⟨fun _ => ⟨rfl, rfl⟩⟩

instance : IsTrans WASMBinaryReader SameByteCode :=
  ⟨fun _ _ _ h1 h2 => ⟨h2.1.trans h1.1, h2.2.trans h1.2⟩⟩

theorem bind_run_ok {α β : Type} {m : M α} {f : α → M β} {s s1 s2 : WASMBinaryReader} {a : α}
    {b : β} (h1 : m s = Except.ok (a, s1)) (h2 : f a s1 = Except.ok (b, s2)) :
    (m >>= f) s = Except.ok (b, s2) :=
  bind_eq_ok.mpr ⟨a, s1, h1, h2⟩

theorem bind_run_error {α β : Type} {m : M α} {f : α → M β} {s : WASMBinaryReader}
    {e : CompileError} (h1 : m s = Except.error e) : (m >>= f) s = Except.error e := by
  rw [run_bind, h1]

theorem bind_run_ok_error {α β : Type} {m : M α} {f : α → M β} {s s1 : WASMBinaryReader}
    {a : α} {e : CompileError} (h1 : m s = Except.ok (a, s1)) (h2 : f a s1 = Except.error e) :
    (m >>= f) s = Except.error e := by
  rw [run_bind, h1]
  exact h2

namespace WASMBinaryReader

theorem popVMStackInfo_run (s : WASMBinaryReader) (l : List VMStackInfo) (e : VMStackInfo)
    (h : s.m_vmStack = l ++ [e]) :
    popVMStackInfo s = Except.ok (e, { s with
      m_vmStack := l
      m_localInfo := decreaseRefCountIfNeeds s.m_localInfo e.m_localIndex
      m_functionStackSizeSoFar := subU32 s.m_functionStackSizeSoFar e.m_size }) := by
  unfold popVMStackInfo
  simp only [getS_bind, h, List.getLast?_concat, modifyS_bind, List.dropLast_concat, run_pure]

theorem popVMStackInfo_empty (s : WASMBinaryReader) (h : s.m_vmStack = []) :
    popVMStackInfo s = Except.error CompileError.undefined := by
  unfold popVMStackInfo
  simp only [getS_bind, h, List.getLast?_nil, run_failM]

theorem popVMStackSize_run (s : WASMBinaryReader) (l : List VMStackInfo) (e : VMStackInfo)
    (h : s.m_vmStack = l ++ [e]) :
    popVMStackSize s = Except.ok (e.m_size, { s with
      m_vmStack := l
      m_localInfo := decreaseRefCountIfNeeds s.m_localInfo e.m_localIndex
      m_functionStackSizeSoFar := subU32 s.m_functionStackSizeSoFar e.m_size }) := by
  unfold popVMStackSize
  exact bind_run_ok (popVMStackInfo_run s l e h) rfl

theorem popVMStack_run (s : WASMBinaryReader) (l : List VMStackInfo) (e : VMStackInfo)
    (h : s.m_vmStack = l ++ [e]) :
    popVMStack s = Except.ok (e.m_position, { s with
      m_vmStack := l
      m_localInfo := decreaseRefCountIfNeeds s.m_localInfo e.m_localIndex
      m_functionStackSizeSoFar := subU32 s.m_functionStackSizeSoFar e.m_size }) := by
  unfold popVMStack
  exact bind_run_ok (popVMStackInfo_run s l e h) rfl

theorem popVMStackInfo_sameByteCode : Preserves SameByteCode popVMStackInfo := by
  simp only [popVMStackInfo]
  repeat (first
    | with_reducible apply Preserves.getS
    | with_reducible apply Preserves.pure
    | with_reducible apply Preserves.failM
    | (with_reducible apply Preserves.modifyS; intro s; simp [SameByteCode])
    | with_reducible refine Preserves.bind ?_ (fun _ => ?_)
    | split
    | dsimp only)

theorem popVMStackSize_sameByteCode : Preserves SameByteCode popVMStackSize := by
  simp only [popVMStackSize]
  exact Preserves.bind popVMStackInfo_sameByteCode (fun _ => Preserves.pure _)

theorem stopToGenerateByteCodeWhileBlockEnd_sameByteCode :
    Preserves SameByteCode stopToGenerateByteCodeWhileBlockEnd := by
  simp only [stopToGenerateByteCodeWhileBlockEnd]
  repeat (first
    | with_reducible apply Preserves.getS
    | with_reducible apply Preserves.pure
    | with_reducible apply Preserves.failM
    | (with_reducible apply Preserves.modifyS; intro s; simp [SameByteCode])
    | with_reducible refine Preserves.bind ?_ (fun _ => ?_)
    | split
    | dsimp only)

theorem popWhileDropSize_sameByteCode (fuel dropSize : Nat) :
    Preserves SameByteCode (popWhileDropSize fuel dropSize) := by
  induction fuel generalizing dropSize with
  | zero =>
    cases dropSize with
    | zero =>
      unfold popWhileDropSize
      exact Preserves.pure _
    | succ d =>
      unfold popWhileDropSize
      exact Preserves.failM _
  | succ f ih =>
    cases dropSize with
    | zero =>
      unfold popWhileDropSize
      exact Preserves.pure _
    | succ d =>
      unfold popWhileDropSize
      exact Preserves.bind popVMStackSize_sameByteCode (fun _ => ih _)

theorem stopToGenerateByteCodeWhileBlockEnd_ok (s : WASMBinaryReader) :
    ∃ s1, stopToGenerateByteCodeWhileBlockEnd s = Except.ok ((), s1) := by
  unfold stopToGenerateByteCodeWhileBlockEnd
  simp only [getS_bind]
  split
  · exact ⟨_, rfl⟩
  · split
    · exact ⟨_, rfl⟩
    · exact ⟨_, rfl⟩

end WASMBinaryReader

end wabt

namespace wabt

open Walrus

instance : IsRefl WASMBinaryReader OnlyStack := ⟨fun _ => rfl⟩

instance : IsTrans WASMBinaryReader OnlyStack :=
  ⟨fun a b c h1 h2 => by
    unfold OnlyStack at h1 h2 ⊢
    rw [h2, h1]⟩

theorem OnlyStack.sameByteCode {s s1 : WASMBinaryReader} (h : OnlyStack s s1) :
    SameByteCode s s1 := by
  unfold OnlyStack at h
  constructor <;> rw [h]

namespace WASMBinaryReader

theorem popVMStackArgs_run (top : List VMStackInfo) :
    ∀ (l : List VMStackInfo) (s : WASMBinaryReader), s.m_vmStack = l ++ top →
      ∃ s1, popVMStackArgs top.length s = Except.ok (top.map (fun e => e.m_position), s1)
        ∧ s1.m_vmStack = l
        ∧ s1.m_functionStackSizeSoFar = watermarkAfterPops s.m_functionStackSizeSoFar top
        ∧ OnlyStack s s1 := by
  induction top using List.reverseRecOn with
  | nil =>
    intro l s h
    refine ⟨s, rfl, by simpa using h, rfl, rfl⟩
  | append_singleton top e ih =>
    intro l s h
    have h1 : s.m_vmStack = (l ++ top) ++ [e] := by rw [h, List.append_assoc]
    obtain ⟨s1, h2, h3, h4, h5⟩ := ih l _ (show ({ s with
      m_vmStack := l ++ top
      m_localInfo := decreaseRefCountIfNeeds s.m_localInfo e.m_localIndex
      m_functionStackSizeSoFar := subU32 s.m_functionStackSizeSoFar e.m_size }
        : WASMBinaryReader).m_vmStack = l ++ top from rfl)
    refine ⟨s1, ?_, h3, ?_, ?_⟩
    · rw [List.length_append, List.length_singleton]
      unfold popVMStackArgs
      refine bind_run_ok (popVMStack_run s _ e h1) (bind_run_ok h2 ?_)
      simp
    · rw [h4]
      simp [watermarkAfterPops]
    · unfold OnlyStack at h5 ⊢
      rw [h5]

theorem repeatM_popVMStack_run (top : List VMStackInfo) :
    ∀ (l : List VMStackInfo) (s : WASMBinaryReader), s.m_vmStack = l ++ top →
      ∃ s1, repeatM (do let _ ← popVMStack) top.length s = Except.ok ((), s1)
        ∧ s1.m_vmStack = l
        ∧ s1.m_functionStackSizeSoFar = watermarkAfterPops s.m_functionStackSizeSoFar top
        ∧ OnlyStack s s1 := by
  induction top using List.reverseRecOn with
  | nil =>
    intro l s h
    refine ⟨s, rfl, by simpa using h, rfl, rfl⟩
  | append_singleton top e ih =>
    intro l s h
    have h1 : s.m_vmStack = (l ++ top) ++ [e] := by rw [h, List.append_assoc]
    obtain ⟨s1, h2, h3, h4, h5⟩ := ih l _ (show ({ s with
      m_vmStack := l ++ top
      m_localInfo := decreaseRefCountIfNeeds s.m_localInfo e.m_localIndex
      m_functionStackSizeSoFar := subU32 s.m_functionStackSizeSoFar e.m_size }
        : WASMBinaryReader).m_vmStack = l ++ top from rfl)
    refine ⟨s1, ?_, h3, ?_, ?_⟩
    · rw [List.length_append, List.length_singleton]
      unfold repeatM
      exact bind_run_ok (bind_run_ok (popVMStack_run s _ e h1) rfl) h2
    · rw [h4]
      simp [watermarkAfterPops]
    · unfold OnlyStack at h5 ⊢
      rw [h5]

theorem repeatM_popVMStackSize_run (top : List VMStackInfo) :
    ∀ (l : List VMStackInfo) (s : WASMBinaryReader), s.m_vmStack = l ++ top →
      ∃ s1, repeatM (do let _ ← popVMStackSize) top.length s = Except.ok ((), s1)
        ∧ s1.m_vmStack = l
        ∧ s1.m_functionStackSizeSoFar = watermarkAfterPops s.m_functionStackSizeSoFar top
        ∧ OnlyStack s s1 := by
  induction top using List.reverseRecOn with
  | nil =>
    intro l s h
    refine ⟨s, rfl, by simpa using h, rfl, rfl⟩
  | append_singleton top e ih =>
    intro l s h
    have h1 : s.m_vmStack = (l ++ top) ++ [e] := by rw [h, List.append_assoc]
    obtain ⟨s1, h2, h3, h4, h5⟩ := ih l _ (show ({ s with
      m_vmStack := l ++ top
      m_localInfo := decreaseRefCountIfNeeds s.m_localInfo e.m_localIndex
      m_functionStackSizeSoFar := subU32 s.m_functionStackSizeSoFar e.m_size }
        : WASMBinaryReader).m_vmStack = l ++ top from rfl)
    refine ⟨s1, ?_, h3, ?_, ?_⟩
    · rw [List.length_append, List.length_singleton]
      unfold repeatM
      exact bind_run_ok (bind_run_ok (popVMStackSize_run s _ e h1) rfl) h2
    · rw [h4]
      simp [watermarkAfterPops]
    · unfold OnlyStack at h5 ⊢
      rw [h5]

theorem repeatM_popVMStackSize_short (n : Nat) :
    ∀ (s : WASMBinaryReader), s.m_vmStack.length < n →
      repeatM (do let _ ← popVMStackSize) n s = Except.error CompileError.undefined := by
  induction n with
  | zero => intro s h; omega
  | succ n ih =>
    intro s h
    unfold repeatM
    rcases List.eq_nil_or_concat s.m_vmStack with h0 | ⟨l, e, h1⟩
    on_goal 2 => rw [List.concat_eq_append] at h1
    · refine bind_run_error (bind_run_error ?_)
      unfold popVMStackSize
      exact bind_run_error (popVMStackInfo_empty s h0)
    · refine bind_run_ok_error (bind_run_ok (popVMStackSize_run s l e h1) rfl) (ih _ ?_)
      rw [h1, List.length_append, List.length_singleton] at h
      show l.length < n
      omega

end WASMBinaryReader

end wabt

namespace wabt.WASMBinaryReader

open Walrus

theorem popWhileDropSize_zero (fuel : Nat) : popWhileDropSize fuel 0 = pure () := by
  cases fuel <;> rfl

theorem popWhileDropSize_run (top : List VMStackInfo) :
    ∀ (l : List VMStackInfo) (s : WASMBinaryReader) (fuel : Nat), s.m_vmStack = l ++ top →
      top.length < fuel → (top.map (fun e => e.m_size)).sum < 18446744073709551616 →
      ∃ s1, popWhileDropSize fuel (top.map (fun e => e.m_size)).sum s = Except.ok ((), s1)
        ∧ OnlyStack s s1 := by
  induction top using List.reverseRecOn with
  | nil =>
    intro l s fuel _ _ _
    refine ⟨s, ?_, rfl⟩
    simp only [List.map_nil, List.sum_nil, popWhileDropSize_zero]
    rfl
  | append_singleton top e ih =>
    intro l s fuel h hfuel hsum
    simp only [List.map_append, List.map_cons, List.map_nil, List.sum_append, List.sum_cons,
      List.sum_nil, Nat.add_zero] at hsum ⊢
    generalize hD : (top.map (fun e => e.m_size)).sum + e.m_size = D at hsum ⊢
    cases D with
    | zero =>
      refine ⟨s, ?_, rfl⟩
      rw [popWhileDropSize_zero]
      rfl
    | succ d =>
      cases fuel with
      | zero => omega
      | succ f =>
        have h1 : s.m_vmStack = (l ++ top) ++ [e] := by rw [h, List.append_assoc]
        have hf : top.length < f := by
          rw [List.length_append, List.length_singleton] at hfuel
          omega
        obtain ⟨s1, h2, h3⟩ := ih l _ f (show ({ s with
          m_vmStack := l ++ top
          m_localInfo := decreaseRefCountIfNeeds s.m_localInfo e.m_localIndex
          m_functionStackSizeSoFar := subU32 s.m_functionStackSizeSoFar e.m_size }
            : WASMBinaryReader).m_vmStack = l ++ top from rfl) hf (by omega)
        have hsub : subSize (d + 1) e.m_size = (top.map (fun e => e.m_size)).sum := by
          unfold subSize
          omega
        refine ⟨s1, ?_, ?_⟩
        · unfold popWhileDropSize
          refine bind_run_ok (popVMStackSize_run s _ e h1) ?_
          rw [hsub]
          exact h2
        · unfold OnlyStack at h3 ⊢
          rw [h3]

theorem sum_drop_le (l : List Nat) (n : Nat) : (l.drop n).sum ≤ l.sum := by
  have h := congrArg List.sum (List.take_append_drop n l)
  rw [List.sum_append] at h
  omega

/-- The part of `generateFunctionReturnCode` after `generateEndCode`, as a relation: it
succeeds and leaves the bytecode as it is. -/
theorem generateFunctionReturnCode_clear_run (t : Target) (s sE : WASMBinaryReader)
    (hE : generateEndCode t s = Except.ok ((), sE))
    (hsum : sizeAbove sE.m_vmStack 0 < 18446744073709551616) :
    ∃ s1, generateFunctionReturnCode t true s = Except.ok ((), s1) ∧ SameByteCode sE s1 := by
  have hdrop : ∃ start, dropStackValuesBeforeBrIfNeeds t sE sE.m_blockInfo.length
      = Except.ok (sizeAbove sE.m_vmStack start, 0) := by
    unfold dropStackValuesBeforeBrIfNeeds
    rw [if_neg (Nat.lt_irrefl _)]
    cases sE.m_blockInfo with
    | nil => exact ⟨sE.m_vmStack.length, by simp [sizeAbove]; rfl⟩
    | cons b rest => exact ⟨_, rfl⟩
  obtain ⟨start, hstart⟩ := hdrop
  have hle : sizeAbove sE.m_vmStack start < 18446744073709551616 := by
    have h1 := sum_drop_le (sE.m_vmStack.map (fun e => e.m_size)) start
    unfold sizeAbove at hsum ⊢
    rw [List.drop_zero] at hsum
    rw [List.map_drop]
    omega
  obtain ⟨s2, h2, h3⟩ := popWhileDropSize_run (sE.m_vmStack.drop start)
    (sE.m_vmStack.take start) sE (sE.m_vmStack.length + 1)
    (List.take_append_drop _ _).symm
    (by rw [List.length_drop]; omega) hle
  have htail : ∃ s1, (do
      let s ← getS
      if s.m_blockInfo.length = 0 then
        modifyS fun s => { s with
          m_shouldContinueToGenerateByteCode := false
          m_resumeGenerateByteCodeAfterNBlockEnd := 0 }
      else
        pure () : M Unit) s2 = Except.ok ((), s1) ∧ SameByteCode s2 s1 := by
    simp only [getS_bind]
    split
    · exact ⟨_, rfl, rfl, rfl⟩
    · exact ⟨_, rfl, rfl, rfl⟩
  obtain ⟨s1, h4, h5⟩ := htail
  refine ⟨s1, ?_, IsTrans.trans _ _ _ h3.sameByteCode h5⟩
  unfold generateFunctionReturnCode
  refine bind_run_ok hE ?_
  simp only [if_true, getS_bind, hstart, liftE_ok_bind]
  exact bind_run_ok h2 h4

theorem generateFunctionReturnCode_keep_run (t : Target) (s sE : WASMBinaryReader)
    (hE : generateEndCode t s = Except.ok ((), sE))
    (hty : sE.m_currentFunctionType = s.m_currentFunctionType)
    (hn : s.m_currentFunctionType.result.length ≤ sE.m_vmStack.length) :
    ∃ s1, generateFunctionReturnCode t false s = Except.ok ((), s1) ∧ SameByteCode sE s1 := by
  obtain ⟨s2, h2, -, -, h3⟩ := repeatM_popVMStackSize_run
    (sE.m_vmStack.drop (sE.m_vmStack.length - s.m_currentFunctionType.result.length))
    (sE.m_vmStack.take (sE.m_vmStack.length - s.m_currentFunctionType.result.length)) sE
    (List.take_append_drop _ _).symm
  have hlen : (sE.m_vmStack.drop
      (sE.m_vmStack.length - s.m_currentFunctionType.result.length)).length
      = sE.m_currentFunctionType.result.length := by
    rw [List.length_drop, hty]
    omega
  rw [hlen] at h2
  obtain ⟨s3, h4⟩ := stopToGenerateByteCodeWhileBlockEnd_ok s2
  have h5 := stopToGenerateByteCodeWhileBlockEnd_sameByteCode s2 () s3 h4
  have htail : ∃ s1, (do
      let s ← getS
      if s.m_blockInfo.length = 0 then
        modifyS fun s => { s with
          m_shouldContinueToGenerateByteCode := false
          m_resumeGenerateByteCodeAfterNBlockEnd := 0 }
      else
        pure () : M Unit) s3 = Except.ok ((), s1) ∧ SameByteCode s3 s1 := by
    simp only [getS_bind]
    split
    · exact ⟨_, rfl, rfl, rfl⟩
    · exact ⟨_, rfl, rfl, rfl⟩
  obtain ⟨s1, h6, h7⟩ := htail
  refine ⟨s1, ?_, IsTrans.trans _ _ _ h3.sameByteCode (IsTrans.trans _ _ _ h5 h7)⟩
  unfold generateFunctionReturnCode
  refine bind_run_ok hE ?_
  simp only [Bool.false_eq_true, if_false, getS_bind]
  exact bind_run_ok h2 (bind_run_ok h4 h6)

theorem generateFunctionReturnCode_keep_short (t : Target) (s : WASMBinaryReader)
    (hn : s.m_vmStack.length < s.m_currentFunctionType.result.length) :
    generateFunctionReturnCode t false s = Except.error CompileError.undefined := by
  unfold generateFunctionReturnCode
  refine bind_run_ok_error (generateEndCode_skip t s hn) ?_
  simp only [Bool.false_eq_true, if_false, getS_bind]
  exact bind_run_error (repeatM_popVMStackSize_short _ s hn)

end wabt.WASMBinaryReader

/-! ## Folding the write-back of a binary operation -/

namespace wabt.WASMBinaryReader

open Walrus

theorem canUseDirectReference_of_flag (s : WASMBinaryReader) (i pos : Nat) (info : LocalInfo)
    (hinfo : s.m_localInfo[i]? = some info)
    (hblocks : ∀ b ∈ s.m_blockInfo, ∀ p ∈ b.m_parameterPositions, u32 pos ≠ p) :
    canUseDirectReference s i pos = Except.ok info.m_canUseDirectReference := by
  unfold canUseDirectReference
  have hany : s.m_blockInfo.any
      (fun bi => bi.m_parameterPositions.any (fun p => decide (u32 pos = p))) = false := by
    rw [List.any_eq_false]
    intro b hb
    rw [Bool.not_eq_true, List.any_eq_false]
    intro p hp
    simpa using hblocks b hb p hp
  rw [hany]
  simp only [Bool.false_eq_true, if_false, elemAt_eq_ok.mpr hinfo]
  rfl

theorem omitUpdateLocalValueIfPossible_binary_run (t : Target) (i : Nat) (r : Nat × Nat)
    (stack : VMStackInfo) (s : WASMBinaryReader) (info : LocalInfo)
    (code0 : List (Nat × ByteCode)) (c : WASMOpcode) (src0 src1 d : Nat)
    (hinfo : s.m_localInfo[i]? = some info) (hflag : info.m_canUseDirectReference = true)
    (hblocks : ∀ b ∈ s.m_blockInfo, ∀ p ∈ b.m_parameterPositions, u32 stack.m_position ≠ p)
    (hne : stack.m_position ≠ r.1) (hnone : stack.m_localIndex = none)
    (hlast : s.m_lastOpcode.2 = u32 (t.opcodeValue s.m_lastPushedOpcode))
    (hbin : isBinaryOperation s.m_lastPushedOpcode = true)
    (hcode : s.m_currentFunction.m_byteCode
      = code0 ++ [(s.m_lastByteCodePosition, ByteCode.BinaryOperation c src0 src1 d)])
    (hfresh : ∀ x ∈ code0, x.1 ≠ s.m_lastByteCodePosition) :
    omitUpdateLocalValueIfPossible t i r stack s
      = Except.ok (true, { s with m_currentFunction := { s.m_currentFunction with
          m_byteCode := code0
            ++ [(s.m_lastByteCodePosition, ByteCode.BinaryOperation c src0 src1 (u16 r.1))] } }) := by
  unfold omitUpdateLocalValueIfPossible
  simp only [getS_bind, canUseDirectReference_of_flag s i stack.m_position info hinfo hblocks,
    liftE_ok_bind, hflag, VMStackInfo.hasValidLocalIndex, hnone, Option.isSome_none,
    Bool.not_false, Bool.and_true, Bool.true_and, decide_eq_true_eq, ne_eq, hne,
    not_false_eq_true, if_true, hlast, hbin, decide_True]
  have hpoke : pokeByteCode s.m_lastByteCodePosition (setDstOffsetBinary r.1) s
      = Except.ok ((), { s with m_currentFunction := { s.m_currentFunction with
          m_byteCode := code0 ++ [(s.m_lastByteCodePosition,
            ByteCode.BinaryOperation c src0 src1 (u16 r.1))] } }) := by
    rw [pokeByteCode_eq, hcode, updateByteCode_append_new _ _ hfresh]
    rfl
  exact bind_run_ok hpoke rfl

end wabt.WASMBinaryReader

open wabt Walrus wabt.WASMBinaryReader

/-- C11 as stated fails: in a function `(param i32)`, inside `loop (param i32)` entered with
an `i32` at frame offset 4, `i32.const 1; i32.add` writes to offset 4; local 0 has direct
reference enabled, no live stack entry refers to it and its slot 0 differs from 4, and the
`local.set 0` that follows appends `Move32 4 0` and leaves the destination of the `i32.add`
record at 4, because offset 4 is a recorded parameter position of the open loop. -/
theorem binary_write_back_into_block_parameter_slot_is_not_folded :
    (compileExample ⟨[ValueType.I32], []⟩ [⟨[ValueType.I32], []⟩] true
        [Event.OnI32ConstExpr 5, Event.OnLoopExpr (SigType.Index 0), Event.OnI32ConstExpr 1,
          Event.OnOpcode 1000, Event.OnBinaryExpr (WASMOpcode.Binary 0)]).toOption.map
      (fun s => (s.m_localInfo, s.m_vmStack, s.m_currentFunction.m_byteCode))
      = some ([⟨0, true⟩], [⟨4, 4, 4, none⟩],
          [(0, ByteCode.Const32 4 5), (16, ByteCode.Const32 8 1),
            (32, ByteCode.BinaryOperation (WASMOpcode.Binary 0) 4 8 4)])
    ∧ (compileExample ⟨[ValueType.I32], []⟩ [⟨[ValueType.I32], []⟩] true
        [Event.OnI32ConstExpr 5, Event.OnLoopExpr (SigType.Index 0), Event.OnI32ConstExpr 1,
          Event.OnOpcode 1000, Event.OnBinaryExpr (WASMOpcode.Binary 0),
          Event.OnOpcode 33, Event.OnLocalSetExpr 0]).toOption.map
      (fun s => s.m_currentFunction.m_byteCode)
      = some [(0, ByteCode.Const32 4 5), (16, ByteCode.Const32 8 1),
          (32, ByteCode.BinaryOperation (WASMOpcode.Binary 0) 4 8 4),
          (48, ByteCode.Move32 4 0)] := by
  decide!

/-- C11, amended: `local.set i` or `local.tee i` read right after a binary operation (the
last record of the bytecode is the operation's, the opcode read before this one is the
one last pushed, the top VM-stack entry has no local index), where local `i` has direct
reference enabled, reference count 0 and a frame offset other than the position of the top
entry, and where that position is not a recorded parameter position of an open block.
`local.set` pops the top entry, sets the destination of the binary record to the offset
of the local and appends no record; `local.tee`, with the watermark in range, does the
same to the record and replaces the top entry by one of the same size at the offset of the
local, tagged with `i`. -/
theorem binary_write_back_is_folded (t : Target) (s : WASMBinaryReader) (i : Nat)
    (r : Nat × Nat) (info : LocalInfo) (l : List VMStackInfo) (top : VMStackInfo)
    (code0 : List (Nat × ByteCode)) (c : WASMOpcode) (src0 src1 d : Nat)
    (hr : resolveLocalOffsetAndSize t s i = Except.ok r)
    (hinfo : s.m_localInfo[i]? = some info)
    (href : info.m_refCount = 0) (hflag : info.m_canUseDirectReference = true)
    (hstack : s.m_vmStack = l ++ [top]) (hnone : top.m_localIndex = none)
    (hne : top.m_position ≠ r.1)
    (hblocks : ∀ b ∈ s.m_blockInfo, ∀ p ∈ b.m_parameterPositions, u32 top.m_position ≠ p)
    (hbin : isBinaryOperation s.m_lastPushedOpcode = true)
    (hlast : s.m_lastOpcode.2 = u32 (t.opcodeValue s.m_lastPushedOpcode))
    (hcode : s.m_currentFunction.m_byteCode
      = code0 ++ [(s.m_lastByteCodePosition, ByteCode.BinaryOperation c src0 src1 d)])
    (hfresh : ∀ x ∈ code0, x.1 ≠ s.m_lastByteCodePosition) :
    OnLocalSetExpr t i s = Except.ok ((), { s with
        m_vmStack := l
        m_functionStackSizeSoFar := subU32 s.m_functionStackSizeSoFar top.m_size
        m_currentFunction := { s.m_currentFunction with
          m_byteCode := code0 ++ [(s.m_lastByteCodePosition,
            ByteCode.BinaryOperation c src0 src1 (u16 r.1))] } })
    ∧ (top.m_size ≤ s.m_functionStackSizeSoFar → s.m_functionStackSizeSoFar ≤ 65535 →
        OnLocalTeeExpr t i s = Except.ok ((), { s with
          m_vmStack := l
            ++ [⟨top.m_size, r.1, s.m_functionStackSizeSoFar - top.m_size, some i⟩]
          m_localInfo := modifyRefCount incSize i s.m_localInfo
          m_currentFunction := { s.m_currentFunction with
            m_requiredStackSize := max s.m_currentFunction.m_requiredStackSize
              s.m_functionStackSizeSoFar
            m_byteCode := code0 ++ [(s.m_lastByteCodePosition,
              ByteCode.BinaryOperation c src0 src1 (u16 r.1))] } })) := by
  have hcond : ¬ (info.m_refCount ≠ 0 ∧ info.m_canUseDirectReference = true) := by
    rw [href]
    simp
  constructor
  · unfold OnLocalSetExpr
    simp only [getS_bind, hr, liftE_ok_bind, elemAt_eq_ok.mpr hinfo, if_neg hcond,
      pure_bind_run, Bool.false_eq_true, if_false]
    refine bind_run_ok (popVMStackInfo_run s l top hstack) ?_
    refine bind_run_ok (omitUpdateLocalValueIfPossible_binary_run t i r top _ info code0 c
      src0 src1 d (by rw [hnone]; exact hinfo) hflag hblocks hne hnone hlast hbin hcode
      hfresh) ?_
    simp only [hnone, decreaseRefCountIfNeeds]
    rfl
  · intro hsz hlim
    have hsub : subU32 s.m_functionStackSizeSoFar top.m_size
        = s.m_functionStackSizeSoFar - top.m_size := by
      unfold subU32
      omega
    have h32 : u32 (s.m_functionStackSizeSoFar - top.m_size + top.m_size)
        = s.m_functionStackSizeSoFar := by
      unfold u32
      omega
    have hle : ¬ (s.m_functionStackSizeSoFar > 65535) := by omega
    unfold OnLocalTeeExpr
    simp only [getS_bind, hr, liftE_ok_bind, elemAt_eq_ok.mpr hinfo, if_neg hcond]
    have hpeek : peekVMStackInfo s = Except.ok (top, s) := by
      unfold peekVMStackInfo
      simp only [getS_bind, hstack, List.getLast?_concat, run_pure]
    refine bind_run_ok hpeek ?_
    refine bind_run_ok (omitUpdateLocalValueIfPossible_binary_run t i r top s info code0 c
      src0 src1 d hinfo hflag hblocks hne hnone hlast hbin hcode hfresh) ?_
    simp only [if_true]
    refine bind_run_ok (popVMStackInfo_run _ l top hstack) ?_
    unfold pushVMStackAt
    simp only [getS_bind, hsub, h32, if_neg hle, run_modifyS, hnone, decreaseRefCountIfNeeds,
      increaseRefCountIfNeeds]

/-- C11, amended, at a concrete input: in a function `(param i32)`, after
`i32.const 1; i32.const 2; i32.add`, `local.set 0` retargets the `i32.add` record to offset 0
and empties the VM stack, and `local.tee 0` retargets it and leaves the entry
`(4, 0, 4, local 0)`; the bytecode keeps its three records. -/
theorem binary_write_back_is_folded_witness :
    (OnLocalSetExpr exampleTarget 0
        (exampleAfter ⟨[ValueType.I32], []⟩ []
          [Event.OnI32ConstExpr 1, Event.OnI32ConstExpr 2, Event.OnOpcode 1000,
            Event.OnBinaryExpr (WASMOpcode.Binary 0), Event.OnOpcode 33])).toOption.map
      (fun p => (p.2.m_vmStack, p.2.m_currentFunction.m_byteCode))
      = some ([], [(0, ByteCode.Const32 4 1), (16, ByteCode.Const32 8 2),
          (32, ByteCode.BinaryOperation (WASMOpcode.Binary 0) 4 8 0)])
    ∧ (OnLocalTeeExpr exampleTarget 0
        (exampleAfter ⟨[ValueType.I32], []⟩ []
          [Event.OnI32ConstExpr 1, Event.OnI32ConstExpr 2, Event.OnOpcode 1000,
            Event.OnBinaryExpr (WASMOpcode.Binary 0), Event.OnOpcode 34])).toOption.map
      (fun p => (p.2.m_vmStack, p.2.m_currentFunction.m_byteCode))
      = some ([⟨4, 0, 4, some 0⟩], [(0, ByteCode.Const32 4 1), (16, ByteCode.Const32 8 2),
          (32, ByteCode.BinaryOperation (WASMOpcode.Binary 0) 4 8 0)]) := by
  have h1 := (binary_write_back_is_folded exampleTarget
    (exampleAfter ⟨[ValueType.I32], []⟩ []
      [Event.OnI32ConstExpr 1, Event.OnI32ConstExpr 2, Event.OnOpcode 1000,
        Event.OnBinaryExpr (WASMOpcode.Binary 0), Event.OnOpcode 33])
    0 (0, 4) ⟨0, true⟩ [] ⟨4, 4, 4, none⟩
    [(0, ByteCode.Const32 4 1), (16, ByteCode.Const32 8 2)] (WASMOpcode.Binary 0) 4 8 4
    (by decide!) (by decide!) (by decide!) (by decide!) (by decide!) (by decide!)
    (by decide!) (by decide!) (by decide!) (by decide!) (by decide!) (by decide!)).1
  have h2 := (binary_write_back_is_folded exampleTarget
    (exampleAfter ⟨[ValueType.I32], []⟩ []
      [Event.OnI32ConstExpr 1, Event.OnI32ConstExpr 2, Event.OnOpcode 1000,
        Event.OnBinaryExpr (WASMOpcode.Binary 0), Event.OnOpcode 34])
    0 (0, 4) ⟨0, true⟩ [] ⟨4, 4, 4, none⟩
    [(0, ByteCode.Const32 4 1), (16, ByteCode.Const32 8 2)] (WASMOpcode.Binary 0) 4 8 4
    (by decide!) (by decide!) (by decide!) (by decide!) (by decide!) (by decide!)
    (by decide!) (by decide!) (by decide!) (by decide!) (by decide!) (by decide!)).2
    (by decide!) (by decide!)
  constructor
  · rw [h1]
    decide!
  · rw [h2]
    decide!

/-! ## `pushVMStack` -/

open wabt Walrus wabt.WASMBinaryReader

/-- C12: `pushVMStack(size)`, when it succeeds, returns the watermark `w` held before the
call and leaves the state that differs from the one before in: one entry appended to the VM
stack, with `m_size = size`, `m_position = m_nonOptimizedPosition = w` and no local index;
the watermark `w + size`; `requiredStackSize = max(old requiredStackSize, w + size)`. The
other VM-stack entries and every other field, the reference counts of the locals among
them, are unchanged. The sum `w + size` is the one of the `uint32_t` watermark, and it is
the exact sum whenever that is representable. -/
theorem pushVMStack_allocates_at_the_watermark (size : Nat) (s s1 : WASMBinaryReader)
    (pos : Nat) (h : pushVMStack size s = Except.ok (pos, s1)) :
    pos = s.m_functionStackSizeSoFar
    ∧ s1 = { s with
        m_vmStack := s.m_vmStack
          ++ [⟨size, s.m_functionStackSizeSoFar, s.m_functionStackSizeSoFar, none⟩]
        m_functionStackSizeSoFar := u32 (s.m_functionStackSizeSoFar + size)
        m_currentFunction := { s.m_currentFunction with
          m_requiredStackSize := max s.m_currentFunction.m_requiredStackSize
            (u32 (s.m_functionStackSizeSoFar + size)) } }
    ∧ (s.m_functionStackSizeSoFar + size < 4294967296 →
        u32 (s.m_functionStackSizeSoFar + size) = s.m_functionStackSizeSoFar + size) := by
  have h32 : s.m_functionStackSizeSoFar + size < 4294967296 →
      u32 (s.m_functionStackSizeSoFar + size) = s.m_functionStackSizeSoFar + size := by
    intro hfit
    unfold u32
    omega
  unfold pushVMStack pushVMStackAt at h
  simp only [run_bind, run_getS] at h
  by_cases hlim : u32 (s.m_functionStackSizeSoFar + size) > 65535
  · rw [if_pos hlim] at h
    simp at h
  · rw [if_neg hlim] at h
    simp only [run_modifyS, run_pure, Except.ok.injEq, Prod.mk.injEq] at h
    obtain ⟨h1, h2⟩ := h
    refine ⟨h1.symm, ?_, h32⟩
    rw [← h2]
    simp only [increaseRefCountIfNeeds]

/-- C12 at a concrete input: the first push of 4 bytes in a function `(param i32)`, whose
watermark is 4. -/
theorem pushVMStack_allocates_at_the_watermark_witness :
    pushVMStack 4 (exampleReader ⟨[ValueType.I32], []⟩ [])
      = Except.ok (4, { (exampleReader ⟨[ValueType.I32], []⟩ []) with
          m_vmStack := [⟨4, 4, 4, none⟩]
          m_functionStackSizeSoFar := 8
          m_currentFunction := { (exampleReader ⟨[ValueType.I32], []⟩ []).m_currentFunction with
            m_requiredStackSize := 8 } })
    ∧ (4 : Nat) = (exampleReader ⟨[ValueType.I32], []⟩ []).m_functionStackSizeSoFar := by
  have h : pushVMStack 4 (exampleReader ⟨[ValueType.I32], []⟩ [])
      = Except.ok (4, { (exampleReader ⟨[ValueType.I32], []⟩ []) with
          m_vmStack := [⟨4, 4, 4, none⟩]
          m_functionStackSizeSoFar := 8
          m_currentFunction := { (exampleReader ⟨[ValueType.I32], []⟩ []).m_currentFunction with
            m_requiredStackSize := 8 } }) := by decide!
  exact ⟨h, (pushVMStack_allocates_at_the_watermark 4 _ _ 4 h).1⟩

/-- C13 as stated fails: with the watermark at 65532 a push of 4 bytes allocates the frame
offset 65532, which is in range, and raises the error, because the watermark after the
push, 65536, is what is compared with 65535. -/
theorem pushVMStack_fails_with_offset_in_range :
    (65532 : Nat) ≤ 65535
    ∧ pushVMStack 4 { (exampleReader ⟨[], []⟩ []) with m_functionStackSizeSoFar := 65532 }
      = Except.error CompileError.tooManyStackUsage := by
  decide!

/-- C13, amended: `pushVMStack(size)` raises "too many stack usage" exactly when the watermark
after the push, `w + size` in `uint32_t`, is greater than 65535; it raises no other error;
and when that watermark is at most 65535 the push succeeds and returns `w`. -/
theorem pushVMStack_fails_iff_new_watermark_out_of_range (size : Nat) (s : WASMBinaryReader) :
    (pushVMStack size s = Except.error CompileError.tooManyStackUsage
        ↔ 65535 < u32 (s.m_functionStackSizeSoFar + size))
    ∧ (∀ e, pushVMStack size s = Except.error e → e = CompileError.tooManyStackUsage)
    ∧ (u32 (s.m_functionStackSizeSoFar + size) ≤ 65535 →
        ∃ s1, pushVMStack size s = Except.ok (s.m_functionStackSizeSoFar, s1)) := by
  unfold pushVMStack pushVMStackAt
  simp only [run_bind, run_getS]
  by_cases hlim : u32 (s.m_functionStackSizeSoFar + size) > 65535
  · rw [if_pos hlim]
    refine ⟨⟨fun _ => hlim, fun _ => rfl⟩, ?_, fun hle => absurd hlim (by omega)⟩
    intro e he
    simp only [run_failM, Except.error.injEq] at he
    exact he.symm
  · rw [if_neg hlim]
    refine ⟨⟨fun he => ?_, fun hgt => absurd hgt hlim⟩, ?_, fun _ => ⟨_, rfl⟩⟩
    · simp at he
    · intro e he
      simp at he

/-- C13, amended, at concrete inputs: at watermark 65532 a push of 4 bytes fails and at
watermark 65531 it succeeds and returns 65531. -/
theorem pushVMStack_fails_iff_new_watermark_out_of_range_witness :
    pushVMStack 4 { (exampleReader ⟨[], []⟩ []) with m_functionStackSizeSoFar := 65532 }
      = Except.error CompileError.tooManyStackUsage
    ∧ ∃ s1, pushVMStack 4
        { (exampleReader ⟨[], []⟩ []) with m_functionStackSizeSoFar := 65531 }
      = Except.ok (65531, s1) :=
  ⟨(pushVMStack_fails_iff_new_watermark_out_of_range 4
      { (exampleReader ⟨[], []⟩ []) with m_functionStackSizeSoFar := 65532 }).1.mpr
      (by decide!),
    (pushVMStack_fails_iff_new_watermark_out_of_range 4
      { (exampleReader ⟨[], []⟩ []) with m_functionStackSizeSoFar := 65531 }).2.2
      (by decide!)⟩

/-! ## Declared locals and the stack limit -/

namespace wabt.WASMBinaryReader

open Walrus

theorem iterate_u32_add (sz : Nat) (n w : Nat) (hw : w < 4294967296) :
    (fun x => u32 (x + sz))^[n] w = u32 (w + n * sz) := by
  induction n with
  | zero =>
    simp only [Function.iterate_zero, id_eq, Nat.zero_mul, Nat.add_zero]
    unfold u32
    omega
  | succ n ih =>
    rw [Function.iterate_succ_apply', ih]
    unfold u32
    rw [Nat.succ_mul]
    omega

theorem iterate_declareLocal_fields (t : Target) (k : ValueType) (n : Nat)
    (s : WASMBinaryReader) :
    ((declareLocal t k)^[n] s).m_blockInfo = s.m_blockInfo
    ∧ ((declareLocal t k)^[n] s).m_vmStack = s.m_vmStack
    ∧ ((declareLocal t k)^[n] s).m_currentFunctionType = s.m_currentFunctionType
    ∧ ((declareLocal t k)^[n] s).m_currentFunction.m_byteCode = s.m_currentFunction.m_byteCode
    ∧ ((declareLocal t k)^[n] s).m_currentFunction.m_byteCodeSize
        = s.m_currentFunction.m_byteCodeSize
    ∧ ((declareLocal t k)^[n] s).m_currentFunction.m_requiredStackSize
        = s.m_currentFunction.m_requiredStackSize
    ∧ ((declareLocal t k)^[n] s).m_functionStackSizeSoFar
        = (fun x => u32 (x + valueSizeInStack t.sizeofPointer k))^[n]
            s.m_functionStackSizeSoFar
    ∧ ((declareLocal t k)^[n] s).m_initialFunctionStackSize
        = (fun x => u32 (x + valueSizeInStack t.sizeofPointer k))^[n]
            s.m_initialFunctionStackSize := by
  induction n with
  | zero => exact ⟨rfl, rfl, rfl, rfl, rfl, rfl, rfl, rfl⟩
  | succ n ih =>
    simp only [Function.iterate_succ_apply']
    obtain ⟨h1, h2, h3, h4, h5, h6, h7, h8⟩ := ih
    refine ⟨h1, h2, h3, h4, h5, h6, ?_, ?_⟩
    · show u32 (_ + _) = _
      rw [h7]
    · show u32 (_ + _) = _
      rw [h8]

theorem OnLocalDecl_run (t : Target) (count : Nat) (type : SigType) (k : ValueType)
    (s : WASMBinaryReader) (hc : count ≠ 0) (hk : toValueKind type = Except.ok k) :
    OnLocalDecl t count type s = Except.ok ((),
      { (declareLocal t k)^[count] s with
        m_currentFunction := { ((declareLocal t k)^[count] s).m_currentFunction with
          m_requiredStackSize := max
            ((declareLocal t k)^[count] s).m_currentFunction.m_requiredStackSize
            ((declareLocal t k)^[count] s).m_functionStackSizeSoFar } }) := by
  unfold OnLocalDecl
  simp only [if_pos hc, hk]
  rfl

theorem OnLocalDecl_fields (t : Target) (count : Nat) (type : SigType) (k : ValueType)
    (s s1 : WASMBinaryReader) (hc : count ≠ 0) (hk : toValueKind type = Except.ok k)
    (hw : s.m_functionStackSizeSoFar < 4294967296)
    (h : OnLocalDecl t count type s = Except.ok ((), s1)) :
    s1.m_blockInfo = s.m_blockInfo
    ∧ s1.m_vmStack = s.m_vmStack
    ∧ s1.m_currentFunctionType = s.m_currentFunctionType
    ∧ s1.m_currentFunction.m_byteCode = s.m_currentFunction.m_byteCode
    ∧ s1.m_currentFunction.m_byteCodeSize = s.m_currentFunction.m_byteCodeSize
    ∧ s1.m_functionStackSizeSoFar
        = u32 (s.m_functionStackSizeSoFar + count * valueSizeInStack t.sizeofPointer k)
    ∧ s1.m_currentFunction.m_requiredStackSize
        = max s.m_currentFunction.m_requiredStackSize
            (u32 (s.m_functionStackSizeSoFar + count * valueSizeInStack t.sizeofPointer k)) := by
  rw [OnLocalDecl_run t count type k s hc hk] at h
  simp only [Except.ok.injEq, Prod.mk.injEq, true_and] at h
  subst h
  obtain ⟨h1, h2, h3, h4, h5, h6, h7, -⟩ := iterate_declareLocal_fields t k count s
  rw [iterate_u32_add _ _ _ hw] at h7
  refine ⟨h1, h2, h3, h4, h5, h7, ?_⟩
  show max _ _ = _
  rw [h6, h7]

theorem OnEndExpr_of_empty_function (t : Target) (s : WASMBinaryReader)
    (hb : s.m_blockInfo = []) (hty : s.m_currentFunctionType.result = [])
    (hcode : s.m_currentFunction.m_byteCode = []) (hsize : s.m_currentFunction.m_byteCodeSize = 0) :
    ∃ s1, OnEndExpr t s = Except.ok ((), s1)
      ∧ s1.m_currentFunction.m_requiredStackSize = s.m_currentFunction.m_requiredStackSize
      ∧ s1.m_functionStackSizeSoFar = s.m_functionStackSizeSoFar
      ∧ s1.m_currentFunction.m_byteCode = [(0, ByteCode.End 0 [])] := by
  have hrun : OnEndExpr t s = generateEndCode t s := by
    unfold OnEndExpr
    simp only [getS_bind, hb, List.length_nil, ne_eq, not_true_eq_false, if_false]
  have hn : s.m_currentFunctionType.result.length ≤ s.m_vmStack.length := by
    rw [hty]
    exact Nat.zero_le _
  have hfresh : ∀ x ∈ s.m_currentFunction.m_byteCode,
      x.1 ≠ s.m_currentFunction.m_byteCodeSize := by
    intro x hx
    rw [hcode] at hx
    cases hx
  refine ⟨_, hrun.trans (generateEndCode_run t s hn hfresh), rfl, rfl, ?_⟩
  show _ ++ [(_, ByteCode.End _ _)] = _
  rw [hcode, hsize, hty]
  simp

end wabt.WASMBinaryReader

open wabt Walrus wabt.WASMBinaryReader

/-- C14, evaluated on the code: a function `() -> ()` that declares 16384 locals of type
`i32` and has the body `end`. `OnLocalDecl` raises no error and leaves
`requiredStackSize = 65536`, above the limit 65535, and the `End` of the body is compiled
without an error: only `pushVMStack` compares the watermark with the limit, and neither
`OnLocalDecl` nor `beginFunction`, which move the watermark too, does. -/
theorem declared_locals_escape_the_stack_limit :
    ∃ s1 s2,
      OnLocalDecl exampleTarget 16384 SigType.I32 (exampleReader ⟨[], []⟩ [])
        = Except.ok ((), s1)
      ∧ OnEndExpr exampleTarget s1 = Except.ok ((), s2)
      ∧ s2.m_currentFunction.m_requiredStackSize = 65536
      ∧ s2.m_functionStackSizeSoFar = 65536
      ∧ s2.m_currentFunction.m_byteCode = [(0, ByteCode.End 0 [])] := by
  have hd := OnLocalDecl_run exampleTarget 16384 SigType.I32 ValueType.I32
    (exampleReader ⟨[], []⟩ []) (by decide) rfl
  obtain ⟨h1, -, h3, h4, h5, h6, h7⟩ := OnLocalDecl_fields exampleTarget 16384 SigType.I32
    ValueType.I32 (exampleReader ⟨[], []⟩ []) _ (by decide) rfl (by decide!) hd
  have hsz : u32 ((exampleReader ⟨[], []⟩ []).m_functionStackSizeSoFar
      + 16384 * valueSizeInStack exampleTarget.sizeofPointer ValueType.I32) = 65536 := by
    decide!
  rw [hsz] at h6 h7
  obtain ⟨s2, h8, h9, h10, h11⟩ := OnEndExpr_of_empty_function exampleTarget _
    (h1.trans (by decide!)) (by rw [h3]; decide!) (h4.trans (by decide!))
    (h5.trans (by decide!))
  refine ⟨_, s2, hd, h8, ?_, h10.trans h6, h11⟩
  rw [h9, h7]
  decide!

/-! ## The watermark stays within `requiredStackSize` -/

namespace wabt

open Walrus

theorem StackOk.of_req_le {req req1 : Nat} (h : req ≤ req1) :
    ∀ (sizes : List Nat) (w : Nat), StackOk req sizes w → StackOk req1 sizes w
  | [], _, hw => Nat.le_trans hw h
  | _ :: rest, _, hw => ⟨Nat.le_trans hw.1 h, StackOk.of_req_le h rest _ hw.2⟩

theorem StackOk.top_le {req : Nat} : ∀ {sizes : List Nat} {w : Nat}, StackOk req sizes w → w ≤ req
  | [], _, hw => hw
  | _ :: _, _, hw => hw.1

theorem SnapshotOk.grow {req req1 : Nat} (h : req ≤ req1) {stack : List VMStackInfo} {w : Nat}
    (hs : SnapshotOk req stack w) : SnapshotOk req1 stack w :=
  ⟨hs.1, StackOk.of_req_le h _ _ hs.2⟩

theorem sizesTopFirst_concat (l : List VMStackInfo) (e : VMStackInfo) :
    sizesTopFirst (l ++ [e]) = e.m_size :: sizesTopFirst l := by
  simp [sizesTopFirst]

theorem subU32_lt (a b : Nat) : subU32 a b < 4294967296 := by
  unfold subU32
  omega

theorem subU32_u32_add (w sz : Nat) (hw : w < 4294967296) : subU32 (u32 (w + sz)) sz = w := by
  unfold subU32 u32
  omega

theorem u32_lt (n : Nat) : u32 n < 4294967296 := by
  unfold u32
  omega

theorem SnapshotOk.push {req : Nat} {stack : List VMStackInfo} {w : Nat}
    (hs : SnapshotOk req stack w) (e : VMStackInfo) :
    SnapshotOk (max req (u32 (w + e.m_size))) (stack ++ [e]) (u32 (w + e.m_size)) := by
  refine ⟨u32_lt _, ?_⟩
  rw [sizesTopFirst_concat]
  refine ⟨Nat.le_max_right _ _, ?_⟩
  rw [subU32_u32_add _ _ hs.1]
  exact StackOk.of_req_le (Nat.le_max_left _ _) _ _ hs.2

theorem SnapshotOk.pop {req : Nat} {l : List VMStackInfo} {e : VMStackInfo} {w : Nat}
    (hs : SnapshotOk req (l ++ [e]) w) : SnapshotOk req l (subU32 w e.m_size) := by
  refine ⟨subU32_lt _ _, ?_⟩
  have h := hs.2
  rw [sizesTopFirst_concat] at h
  exact h.2

theorem StackInv.le {s : WASMBinaryReader} (h : StackInv s) :
    s.m_functionStackSizeSoFar ≤ s.m_currentFunction.m_requiredStackSize :=
  h.2.2.1.2.top_le

theorem DeclPhase.stackInv {s : WASMBinaryReader} (h : DeclPhase s) : StackInv s := by
  obtain ⟨h1, h2, h3, h4, h5⟩ := h
  refine ⟨h3 ▸ h4, h3 ▸ h5, ⟨h4, ?_⟩, ?_⟩
  · rw [h1]
    exact h5
  · rw [h2]
    intro b hb
    cases hb

instance (g : BlockInfo) : IsRefl WASMBinaryReader (KeepsStack g) :=
  ⟨fun _ => ⟨fun h _ => h, Nat.le_refl _⟩⟩

instance (g : BlockInfo) : IsTrans WASMBinaryReader (KeepsStack g) :=
  ⟨fun _ _ _ h1 h2 =>
    ⟨fun hI hg => h2.1 (h1.1 hI hg) (hg.grow h1.2), Nat.le_trans h1.2 h2.2⟩⟩

theorem KeepsStack.of_fields (g : BlockInfo) (s s1 : WASMBinaryReader)
    (h1 : s1.m_initialFunctionStackSize = s.m_initialFunctionStackSize)
    (h2 : s1.m_currentFunction.m_requiredStackSize = s.m_currentFunction.m_requiredStackSize)
    (h3 : sizesTopFirst s1.m_vmStack = sizesTopFirst s.m_vmStack)
    (h4 : s1.m_functionStackSizeSoFar = s.m_functionStackSizeSoFar)
    (h5 : ∀ b ∈ s1.m_blockInfo, ∃ b0 ∈ s.m_blockInfo, b.m_vmStack = b0.m_vmStack
      ∧ b.m_functionStackSizeSoFar = b0.m_functionStackSizeSoFar) :
    KeepsStack g s s1 := by
  refine ⟨fun hI _ => ?_, Nat.le_of_eq h2.symm⟩
  obtain ⟨i1, i2, i3, i4⟩ := hI
  refine ⟨h1 ▸ i1, ?_, ?_, ?_⟩
  · rw [h1, h2]
    exact i2
  · rw [h2, h4]
    exact ⟨i3.1, by rw [h3]; exact i3.2⟩
  · intro b hb
    obtain ⟨b0, hb0, e1, e2⟩ := h5 b hb
    rw [h2, e1, e2]
    exact i4 b0 hb0

theorem mem_modifyAt {α : Type} (f : α → α) (l : List α) :
    ∀ (i : Nat) (x : α), x ∈ WASMBinaryReader.modifyAt f i l → x ∈ l ∨ ∃ y ∈ l, x = f y := by
  induction l with
  | nil =>
    intro i x h
    cases i <;> simp [WASMBinaryReader.modifyAt] at h
  | cons y ys ih =>
    intro i x h
    cases i with
    | zero =>
      simp only [WASMBinaryReader.modifyAt] at h
      rcases List.mem_cons.mp h with h1 | h1
      · exact Or.inr ⟨y, List.mem_cons_self _ _, h1⟩
      · exact Or.inl (List.mem_cons_of_mem _ h1)
    | succ n =>
      simp only [WASMBinaryReader.modifyAt] at h
      rcases List.mem_cons.mp h with h1 | h1
      · exact Or.inl (h1 ▸ List.mem_cons_self _ _)
      · rcases ih n x h1 with h2 | ⟨z, hz, h2⟩
        · exact Or.inl (List.mem_cons_of_mem _ h2)
        · exact Or.inr ⟨z, List.mem_cons_of_mem _ hz, h2⟩

theorem KeepsStack.of_modifyAt (g : BlockInfo) (s : WASMBinaryReader) (f : BlockInfo → BlockInfo)
    (i : Nat) (s1 : WASMBinaryReader)
    (hf : ∀ b, (f b).m_vmStack = b.m_vmStack
      ∧ (f b).m_functionStackSizeSoFar = b.m_functionStackSizeSoFar)
    (h1 : s1.m_initialFunctionStackSize = s.m_initialFunctionStackSize)
    (h2 : s1.m_currentFunction.m_requiredStackSize = s.m_currentFunction.m_requiredStackSize)
    (h3 : s1.m_vmStack = s.m_vmStack)
    (h4 : s1.m_functionStackSizeSoFar = s.m_functionStackSizeSoFar)
    (h5 : s1.m_blockInfo = WASMBinaryReader.modifyAt f i s.m_blockInfo) :
    KeepsStack g s s1 := by
  refine KeepsStack.of_fields g s s1 h1 h2 (by rw [h3]) h4 ?_
  intro b hb
  rw [h5] at hb
  rcases mem_modifyAt f _ i b hb with h | ⟨y, hy, h⟩
  · exact ⟨b, h, rfl, rfl⟩
  · exact ⟨y, hy, h ▸ (hf y).1, h ▸ (hf y).2⟩

theorem KeepsStack.of_dropLast (g : BlockInfo) (s s1 : WASMBinaryReader)
    (h1 : s1.m_initialFunctionStackSize = s.m_initialFunctionStackSize)
    (h2 : s1.m_currentFunction.m_requiredStackSize = s.m_currentFunction.m_requiredStackSize)
    (h3 : s1.m_vmStack = s.m_vmStack)
    (h4 : s1.m_functionStackSizeSoFar = s.m_functionStackSizeSoFar)
    (h5 : s1.m_blockInfo = s.m_blockInfo.dropLast) :
    KeepsStack g s s1 := by
  refine KeepsStack.of_fields g s s1 h1 h2 (by rw [h3]) h4 ?_
  intro b hb
  rw [h5] at hb
  exact ⟨b, List.mem_of_mem_dropLast hb, rfl, rfl⟩

theorem sizesTopFirst_reposition (l : List VMStackInfo) (k : Nat) :
    sizesTopFirst (l.take k
      ++ (l.drop k).map (fun e => { e with m_position := e.m_nonOptimizedPosition }))
      = sizesTopFirst l := by
  unfold sizesTopFirst
  rw [List.map_append, List.map_map]
  have : ((fun e => e.m_size) ∘ fun (e : VMStackInfo) =>
      { e with m_position := e.m_nonOptimizedPosition }) = fun e => e.m_size := rfl
  rw [this, ← List.map_append, List.take_append_drop]

end wabt

namespace wabt

open Walrus

theorem readBlock_keepsStack {β : Type} (g : BlockInfo) (d : Nat)
    (f : WASMBinaryReader → BlockInfo → M β)
    (hf : ∀ s0 b, Preserves (KeepsStack b) (f s0 b)) :
    Preserves (KeepsStack g)
      (getS >>= fun s => liftE (WASMBinaryReader.blockAtDepth s d) >>= fun b => f s b) := by
  intro s a s1 h
  rw [WASMBinaryReader.getS_bind] at h
  obtain ⟨b, s0, h1, h2⟩ := bind_eq_ok.mp h
  obtain ⟨hb, rfl⟩ := liftE_eq_ok.mp h1
  have hmem : b ∈ s0.m_blockInfo := by
    unfold WASMBinaryReader.blockAtDepth at hb
    split at hb
    · exact List.getElem?_mem (WASMBinaryReader.elemAt_eq_ok.mp hb)
    · cases hb
  have hk := hf s0 b s0 a s1 h2
  exact ⟨fun hI _ => hk.1 hI (hI.2.2.2 b hmem), hk.2⟩

end wabt

set_option linter.unusedTactic false
set_option linter.unreachableTactic false

namespace wabt.WASMBinaryReader

open Walrus

theorem pushVMStackAt_keepsStack (g : BlockInfo) (size pos : Nat) (li : Option Nat) :
    Preserves (KeepsStack g) (pushVMStackAt size pos li) := by
  intro s a s1 h
  unfold pushVMStackAt at h
  simp only [getS_bind] at h
  split at h
  · simp at h
  · simp only [run_modifyS, Except.ok.injEq, Prod.mk.injEq, true_and] at h
    subst h
    refine ⟨fun hI _ => ⟨hI.1, Nat.le_trans hI.2.1 (Nat.le_max_left _ _), ?_, ?_⟩,
      Nat.le_max_left _ _⟩
    · exact hI.2.2.1.push ⟨size, pos, s.m_functionStackSizeSoFar, li⟩
    · intro b hb
      exact (hI.2.2.2 b hb).grow (Nat.le_max_left _ _)

theorem popVMStackInfo_keepsStack (g : BlockInfo) :
    Preserves (KeepsStack g) popVMStackInfo := by
  intro s a s1 h
  rcases List.eq_nil_or_concat s.m_vmStack with hnil | ⟨l, e, hl⟩
  · rw [popVMStackInfo_empty s hnil] at h
    cases h
  · rw [List.concat_eq_append] at hl
    rw [popVMStackInfo_run s l e hl] at h
    simp only [Except.ok.injEq, Prod.mk.injEq] at h
    obtain ⟨-, rfl⟩ := h
    refine ⟨fun hI _ => ⟨hI.1, hI.2.1, ?_, hI.2.2.2⟩, Nat.le_refl _⟩
    have h3 := hI.2.2.1
    rw [hl] at h3
    exact h3.pop

theorem restoreVMStackBy_keepsStack (g : BlockInfo) :
    Preserves (KeepsStack g) (restoreVMStackBy g) := by
  unfold restoreVMStackBy
  apply Preserves.modifyS
  intro s
  exact ⟨fun hI hg => ⟨hI.1, hI.2.1, hg, hI.2.2.2⟩, Nat.le_refl _⟩

theorem resetFunctionCodeDataFromHere_keepsStack (g : BlockInfo) :
    Preserves (KeepsStack g) resetFunctionCodeDataFromHere := by
  unfold resetFunctionCodeDataFromHere
  apply Preserves.modifyS
  intro s
  exact ⟨fun hI _ => ⟨hI.1, hI.2.1, ⟨hI.1, hI.2.1⟩, fun b hb => nomatch hb⟩, Nat.le_refl _⟩

theorem modifyBlockAtDepth_keepsStack (g : BlockInfo) (depth : Nat) (f : BlockInfo → BlockInfo)
    (hf : ∀ b, (f b).m_vmStack = b.m_vmStack
      ∧ (f b).m_functionStackSizeSoFar = b.m_functionStackSizeSoFar) :
    Preserves (KeepsStack g) (modifyBlockAtDepth depth f) := by
  unfold modifyBlockAtDepth
  apply Preserves.modifyS
  intro s
  exact KeepsStack.of_modifyAt g s f _ _ hf rfl rfl rfl rfl rfl

theorem pushBlockInfo_keepsStack (g b : BlockInfo)
    (hb : b.m_vmStack = g.m_vmStack
      ∧ b.m_functionStackSizeSoFar = g.m_functionStackSizeSoFar) :
    Preserves (KeepsStack g) (pushBlockInfo b) := by
  unfold pushBlockInfo
  apply Preserves.modifyS
  intro s
  refine ⟨fun hI hg => ⟨hI.1, hI.2.1, hI.2.2.1, ?_⟩, Nat.le_refl _⟩
  intro b1 hb1
  rcases List.mem_append.mp hb1 with h1 | h1
  · exact hI.2.2.2 b1 h1
  · rw [List.mem_singleton.mp h1, hb.1, hb.2]
    exact hg

theorem pushVMStack_keepsStack (g : BlockInfo) (size : Nat) :
    Preserves (KeepsStack g) (pushVMStack size) := by
  simp only [pushVMStack]
  repeat (first
    | with_reducible apply Preserves.getS
    | with_reducible apply Preserves.pure
    | with_reducible apply Preserves.failM
    | with_reducible apply Preserves.liftE
    | ((with_reducible apply Preserves.modifyS); intro s; exact ⟨fun h _ => h, Nat.le_refl _⟩)
    | ((with_reducible apply Preserves.modifyS); intro s;
        refine KeepsStack.of_modifyAt _ _ _ _ _ ?_ rfl rfl rfl rfl rfl; exact fun _ => ⟨rfl, rfl⟩)
    | ((with_reducible apply Preserves.modifyS); intro s;
        exact KeepsStack.of_fields _ _ _ rfl rfl (sizesTopFirst_reposition _ _) rfl
          (fun b hb => ⟨b, hb, rfl, rfl⟩))
    | with_reducible apply pushVMStackAt_keepsStack
    | with_reducible refine Preserves.forEachM (fun _ => ?_) _
    | with_reducible refine Preserves.repeatM ?_ _
    | with_reducible refine readBlock_keepsStack _ _ _ (fun _ _ => ?_)
    | with_reducible refine Preserves.bind ?_ (fun _ => ?_)
    | split
    | dsimp only)

theorem popVMStackSize_keepsStack (g : BlockInfo) :
    Preserves (KeepsStack g) (popVMStackSize) := by
  simp only [popVMStackSize]
  repeat (first
    | with_reducible apply Preserves.getS
    | with_reducible apply Preserves.pure
    | with_reducible apply Preserves.failM
    | with_reducible apply Preserves.liftE
    | ((with_reducible apply Preserves.modifyS); intro s; exact ⟨fun h _ => h, Nat.le_refl _⟩)
    | ((with_reducible apply Preserves.modifyS); intro s;
        refine KeepsStack.of_modifyAt _ _ _ _ _ ?_ rfl rfl rfl rfl rfl; exact fun _ => ⟨rfl, rfl⟩)
    | ((with_reducible apply Preserves.modifyS); intro s;
        exact KeepsStack.of_fields _ _ _ rfl rfl (sizesTopFirst_reposition _ _) rfl
          (fun b hb => ⟨b, hb, rfl, rfl⟩))
    | with_reducible apply popVMStackInfo_keepsStack
    | with_reducible refine Preserves.forEachM (fun _ => ?_) _
    | with_reducible refine Preserves.repeatM ?_ _
    | with_reducible refine readBlock_keepsStack _ _ _ (fun _ _ => ?_)
    | with_reducible refine Preserves.bind ?_ (fun _ => ?_)
    | split
    | dsimp only)

theorem popVMStack_keepsStack (g : BlockInfo) :
    Preserves (KeepsStack g) (popVMStack) := by
  simp only [popVMStack]
  repeat (first
    | with_reducible apply Preserves.getS
    | with_reducible apply Preserves.pure
    | with_reducible apply Preserves.failM
    | with_reducible apply Preserves.liftE
    | ((with_reducible apply Preserves.modifyS); intro s; exact ⟨fun h _ => h, Nat.le_refl _⟩)
    | ((with_reducible apply Preserves.modifyS); intro s;
        refine KeepsStack.of_modifyAt _ _ _ _ _ ?_ rfl rfl rfl rfl rfl; exact fun _ => ⟨rfl, rfl⟩)
    | ((with_reducible apply Preserves.modifyS); intro s;
        exact KeepsStack.of_fields _ _ _ rfl rfl (sizesTopFirst_reposition _ _) rfl
          (fun b hb => ⟨b, hb, rfl, rfl⟩))
    | with_reducible apply popVMStackInfo_keepsStack
    | with_reducible refine Preserves.forEachM (fun _ => ?_) _
    | with_reducible refine Preserves.repeatM ?_ _
    | with_reducible refine readBlock_keepsStack _ _ _ (fun _ _ => ?_)
    | with_reducible refine Preserves.bind ?_ (fun _ => ?_)
    | split
    | dsimp only)

theorem peekVMStackInfo_keepsStack (g : BlockInfo) :
    Preserves (KeepsStack g) (peekVMStackInfo) := by
  simp only [peekVMStackInfo]
  repeat (first
    | with_reducible apply Preserves.getS
    | with_reducible apply Preserves.pure
    | with_reducible apply Preserves.failM
    | with_reducible apply Preserves.liftE
    | ((with_reducible apply Preserves.modifyS); intro s; exact ⟨fun h _ => h, Nat.le_refl _⟩)
    | ((with_reducible apply Preserves.modifyS); intro s;
        refine KeepsStack.of_modifyAt _ _ _ _ _ ?_ rfl rfl rfl rfl rfl; exact fun _ => ⟨rfl, rfl⟩)
    | ((with_reducible apply Preserves.modifyS); intro s;
        exact KeepsStack.of_fields _ _ _ rfl rfl (sizesTopFirst_reposition _ _) rfl
          (fun b hb => ⟨b, hb, rfl, rfl⟩))
    | with_reducible refine Preserves.forEachM (fun _ => ?_) _
    | with_reducible refine Preserves.repeatM ?_ _
    | with_reducible refine readBlock_keepsStack _ _ _ (fun _ _ => ?_)
    | with_reducible refine Preserves.bind ?_ (fun _ => ?_)
    | split
    | dsimp only)

theorem peekVMStackSize_keepsStack (g : BlockInfo) :
    Preserves (KeepsStack g) (peekVMStackSize) := by
  simp only [peekVMStackSize]
  repeat (first
    | with_reducible apply Preserves.getS
    | with_reducible apply Preserves.pure
    | with_reducible apply Preserves.failM
    | with_reducible apply Preserves.liftE
    | ((with_reducible apply Preserves.modifyS); intro s; exact ⟨fun h _ => h, Nat.le_refl _⟩)
    | ((with_reducible apply Preserves.modifyS); intro s;
        refine KeepsStack.of_modifyAt _ _ _ _ _ ?_ rfl rfl rfl rfl rfl; exact fun _ => ⟨rfl, rfl⟩)
    | ((with_reducible apply Preserves.modifyS); intro s;
        exact KeepsStack.of_fields _ _ _ rfl rfl (sizesTopFirst_reposition _ _) rfl
          (fun b hb => ⟨b, hb, rfl, rfl⟩))
    | with_reducible apply peekVMStackInfo_keepsStack
    | with_reducible refine Preserves.forEachM (fun _ => ?_) _
    | with_reducible refine Preserves.repeatM ?_ _
    | with_reducible refine readBlock_keepsStack _ _ _ (fun _ _ => ?_)
    | with_reducible refine Preserves.bind ?_ (fun _ => ?_)
    | split
    | dsimp only)

theorem peekVMStack_keepsStack (g : BlockInfo) :
    Preserves (KeepsStack g) (peekVMStack) := by
  simp only [peekVMStack]
  repeat (first
    | with_reducible apply Preserves.getS
    | with_reducible apply Preserves.pure
    | with_reducible apply Preserves.failM
    | with_reducible apply Preserves.liftE
    | ((with_reducible apply Preserves.modifyS); intro s; exact ⟨fun h _ => h, Nat.le_refl _⟩)
    | ((with_reducible apply Preserves.modifyS); intro s;
        refine KeepsStack.of_modifyAt _ _ _ _ _ ?_ rfl rfl rfl rfl rfl; exact fun _ => ⟨rfl, rfl⟩)
    | ((with_reducible apply Preserves.modifyS); intro s;
        exact KeepsStack.of_fields _ _ _ rfl rfl (sizesTopFirst_reposition _ _) rfl
          (fun b hb => ⟨b, hb, rfl, rfl⟩))
    | with_reducible apply peekVMStackInfo_keepsStack
    | with_reducible refine Preserves.forEachM (fun _ => ?_) _
    | with_reducible refine Preserves.repeatM ?_ _
    | with_reducible refine readBlock_keepsStack _ _ _ (fun _ _ => ?_)
    | with_reducible refine Preserves.bind ?_ (fun _ => ?_)
    | split
    | dsimp only)

theorem pushByteCode_keepsStack (g : BlockInfo) (t : Target) (code : ByteCode) (op : WASMOpcode) :
    Preserves (KeepsStack g) (pushByteCode t code op) := by
  simp only [pushByteCode]
  repeat (first
    | with_reducible apply Preserves.getS
    | with_reducible apply Preserves.pure
    | with_reducible apply Preserves.failM
    | with_reducible apply Preserves.liftE
    | ((with_reducible apply Preserves.modifyS); intro s; exact ⟨fun h _ => h, Nat.le_refl _⟩)
    | ((with_reducible apply Preserves.modifyS); intro s;
        refine KeepsStack.of_modifyAt _ _ _ _ _ ?_ rfl rfl rfl rfl rfl; exact fun _ => ⟨rfl, rfl⟩)
    | ((with_reducible apply Preserves.modifyS); intro s;
        exact KeepsStack.of_fields _ _ _ rfl rfl (sizesTopFirst_reposition _ _) rfl
          (fun b hb => ⟨b, hb, rfl, rfl⟩))
    | with_reducible refine Preserves.forEachM (fun _ => ?_) _
    | with_reducible refine Preserves.repeatM ?_ _
    | with_reducible refine readBlock_keepsStack _ _ _ (fun _ _ => ?_)
    | with_reducible refine Preserves.bind ?_ (fun _ => ?_)
    | split
    | dsimp only)

theorem expandByteCode_keepsStack (g : BlockInfo) (n : Nat) :
    Preserves (KeepsStack g) (expandByteCode n) := by
  simp only [expandByteCode]
  repeat (first
    | with_reducible apply Preserves.getS
    | with_reducible apply Preserves.pure
    | with_reducible apply Preserves.failM
    | with_reducible apply Preserves.liftE
    | ((with_reducible apply Preserves.modifyS); intro s; exact ⟨fun h _ => h, Nat.le_refl _⟩)
    | ((with_reducible apply Preserves.modifyS); intro s;
        refine KeepsStack.of_modifyAt _ _ _ _ _ ?_ rfl rfl rfl rfl rfl; exact fun _ => ⟨rfl, rfl⟩)
    | ((with_reducible apply Preserves.modifyS); intro s;
        exact KeepsStack.of_fields _ _ _ rfl rfl (sizesTopFirst_reposition _ _) rfl
          (fun b hb => ⟨b, hb, rfl, rfl⟩))
    | with_reducible refine Preserves.forEachM (fun _ => ?_) _
    | with_reducible refine Preserves.repeatM ?_ _
    | with_reducible refine readBlock_keepsStack _ _ _ (fun _ _ => ?_)
    | with_reducible refine Preserves.bind ?_ (fun _ => ?_)
    | split
    | dsimp only)

theorem currentByteCodeSize_keepsStack (g : BlockInfo) :
    Preserves (KeepsStack g) (currentByteCodeSize) := by
  simp only [currentByteCodeSize]
  repeat (first
    | with_reducible apply Preserves.getS
    | with_reducible apply Preserves.pure
    | with_reducible apply Preserves.failM
    | with_reducible apply Preserves.liftE
    | ((with_reducible apply Preserves.modifyS); intro s; exact ⟨fun h _ => h, Nat.le_refl _⟩)
    | ((with_reducible apply Preserves.modifyS); intro s;
        refine KeepsStack.of_modifyAt _ _ _ _ _ ?_ rfl rfl rfl rfl rfl; exact fun _ => ⟨rfl, rfl⟩)
    | ((with_reducible apply Preserves.modifyS); intro s;
        exact KeepsStack.of_fields _ _ _ rfl rfl (sizesTopFirst_reposition _ _) rfl
          (fun b hb => ⟨b, hb, rfl, rfl⟩))
    | with_reducible refine Preserves.forEachM (fun _ => ?_) _
    | with_reducible refine Preserves.repeatM ?_ _
    | with_reducible refine readBlock_keepsStack _ _ _ (fun _ _ => ?_)
    | with_reducible refine Preserves.bind ?_ (fun _ => ?_)
    | split
    | dsimp only)

theorem pokeByteCode_keepsStack (g : BlockInfo) (pos : Nat) (f : ByteCode → Option ByteCode) :
    Preserves (KeepsStack g) (pokeByteCode pos f) := by
  simp only [pokeByteCode]
  repeat (first
    | with_reducible apply Preserves.getS
    | with_reducible apply Preserves.pure
    | with_reducible apply Preserves.failM
    | with_reducible apply Preserves.liftE
    | ((with_reducible apply Preserves.modifyS); intro s; exact ⟨fun h _ => h, Nat.le_refl _⟩)
    | ((with_reducible apply Preserves.modifyS); intro s;
        refine KeepsStack.of_modifyAt _ _ _ _ _ ?_ rfl rfl rfl rfl rfl; exact fun _ => ⟨rfl, rfl⟩)
    | ((with_reducible apply Preserves.modifyS); intro s;
        exact KeepsStack.of_fields _ _ _ rfl rfl (sizesTopFirst_reposition _ _) rfl
          (fun b hb => ⟨b, hb, rfl, rfl⟩))
    | with_reducible refine Preserves.forEachM (fun _ => ?_) _
    | with_reducible refine Preserves.repeatM ?_ _
    | with_reducible refine readBlock_keepsStack _ _ _ (fun _ _ => ?_)
    | with_reducible refine Preserves.bind ?_ (fun _ => ?_)
    | split
    | dsimp only)

theorem pokeInt32_keepsStack (g : BlockInfo) (t : Target) (pos : Nat) (f : Int → Int) :
    Preserves (KeepsStack g) (pokeInt32 t pos f) := by
  simp only [pokeInt32]
  repeat (first
    | with_reducible apply Preserves.getS
    | with_reducible apply Preserves.pure
    | with_reducible apply Preserves.failM
    | with_reducible apply Preserves.liftE
    | ((with_reducible apply Preserves.modifyS); intro s; exact ⟨fun h _ => h, Nat.le_refl _⟩)
    | ((with_reducible apply Preserves.modifyS); intro s;
        refine KeepsStack.of_modifyAt _ _ _ _ _ ?_ rfl rfl rfl rfl rfl; exact fun _ => ⟨rfl, rfl⟩)
    | ((with_reducible apply Preserves.modifyS); intro s;
        exact KeepsStack.of_fields _ _ _ rfl rfl (sizesTopFirst_reposition _ _) rfl
          (fun b hb => ⟨b, hb, rfl, rfl⟩))
    | with_reducible refine Preserves.forEachM (fun _ => ?_) _
    | with_reducible refine Preserves.repeatM ?_ _
    | with_reducible refine readBlock_keepsStack _ _ _ (fun _ _ => ?_)
    | with_reducible refine Preserves.bind ?_ (fun _ => ?_)
    | split
    | dsimp only)

theorem generateMoveCodeIfNeeds_keepsStack (g : BlockInfo) (t : Target) (a b c : Nat) :
    Preserves (KeepsStack g) (generateMoveCodeIfNeeds t a b c) := by
  simp only [generateMoveCodeIfNeeds]
  repeat (first
    | with_reducible apply Preserves.getS
    | with_reducible apply Preserves.pure
    | with_reducible apply Preserves.failM
    | with_reducible apply Preserves.liftE
    | ((with_reducible apply Preserves.modifyS); intro s; exact ⟨fun h _ => h, Nat.le_refl _⟩)
    | ((with_reducible apply Preserves.modifyS); intro s;
        refine KeepsStack.of_modifyAt _ _ _ _ _ ?_ rfl rfl rfl rfl rfl; exact fun _ => ⟨rfl, rfl⟩)
    | ((with_reducible apply Preserves.modifyS); intro s;
        exact KeepsStack.of_fields _ _ _ rfl rfl (sizesTopFirst_reposition _ _) rfl
          (fun b hb => ⟨b, hb, rfl, rfl⟩))
    | with_reducible apply pushByteCode_keepsStack
    | with_reducible refine Preserves.forEachM (fun _ => ?_) _
    | with_reducible refine Preserves.repeatM ?_ _
    | with_reducible refine readBlock_keepsStack _ _ _ (fun _ _ => ?_)
    | with_reducible refine Preserves.bind ?_ (fun _ => ?_)
    | split
    | dsimp only)

theorem omitUpdateLocalValueIfPossible_keepsStack (g : BlockInfo) (t : Target) (i : Nat) (r : Nat × Nat) (e : VMStackInfo) :
    Preserves (KeepsStack g) (omitUpdateLocalValueIfPossible t i r e) := by
  simp only [omitUpdateLocalValueIfPossible]
  repeat (first
    | with_reducible apply Preserves.getS
    | with_reducible apply Preserves.pure
    | with_reducible apply Preserves.failM
    | with_reducible apply Preserves.liftE
    | ((with_reducible apply Preserves.modifyS); intro s; exact ⟨fun h _ => h, Nat.le_refl _⟩)
    | ((with_reducible apply Preserves.modifyS); intro s;
        refine KeepsStack.of_modifyAt _ _ _ _ _ ?_ rfl rfl rfl rfl rfl; exact fun _ => ⟨rfl, rfl⟩)
    | ((with_reducible apply Preserves.modifyS); intro s;
        exact KeepsStack.of_fields _ _ _ rfl rfl (sizesTopFirst_reposition _ _) rfl
          (fun b hb => ⟨b, hb, rfl, rfl⟩))
    | with_reducible apply pokeByteCode_keepsStack
    | with_reducible refine Preserves.forEachM (fun _ => ?_) _
    | with_reducible refine Preserves.repeatM ?_ _
    | with_reducible refine readBlock_keepsStack _ _ _ (fun _ _ => ?_)
    | with_reducible refine Preserves.bind ?_ (fun _ => ?_)
    | split
    | dsimp only)

theorem newBlockInfo_keepsStack (g : BlockInfo) (t : Target) (ty : BlockType) (sig : SigType) :
    Preserves (KeepsStack g) (newBlockInfo t ty sig) := by
  simp only [newBlockInfo]
  repeat (first
    | with_reducible apply Preserves.getS
    | with_reducible apply Preserves.pure
    | with_reducible apply Preserves.failM
    | with_reducible apply Preserves.liftE
    | ((with_reducible apply Preserves.modifyS); intro s; exact ⟨fun h _ => h, Nat.le_refl _⟩)
    | ((with_reducible apply Preserves.modifyS); intro s;
        refine KeepsStack.of_modifyAt _ _ _ _ _ ?_ rfl rfl rfl rfl rfl; exact fun _ => ⟨rfl, rfl⟩)
    | ((with_reducible apply Preserves.modifyS); intro s;
        exact KeepsStack.of_fields _ _ _ rfl rfl (sizesTopFirst_reposition _ _) rfl
          (fun b hb => ⟨b, hb, rfl, rfl⟩))
    | with_reducible apply generateMoveCodeIfNeeds_keepsStack
    | with_reducible apply currentByteCodeSize_keepsStack
    | with_reducible refine Preserves.forEachM (fun _ => ?_) _
    | with_reducible refine Preserves.repeatM ?_ _
    | with_reducible refine readBlock_keepsStack _ _ _ (fun _ _ => ?_)
    | with_reducible refine Preserves.bind ?_ (fun _ => ?_)
    | split
    | dsimp only)

theorem restoreVMStackRegardToPartOfBlockEnd_keepsStack (g : BlockInfo) :
    Preserves (KeepsStack g) (restoreVMStackRegardToPartOfBlockEnd g) := by
  simp only [restoreVMStackRegardToPartOfBlockEnd]
  repeat (first
    | with_reducible apply Preserves.getS
    | with_reducible apply Preserves.pure
    | with_reducible apply Preserves.failM
    | with_reducible apply Preserves.liftE
    | ((with_reducible apply Preserves.modifyS); intro s; exact ⟨fun h _ => h, Nat.le_refl _⟩)
    | ((with_reducible apply Preserves.modifyS); intro s;
        refine KeepsStack.of_modifyAt _ _ _ _ _ ?_ rfl rfl rfl rfl rfl; exact fun _ => ⟨rfl, rfl⟩)
    | ((with_reducible apply Preserves.modifyS); intro s;
        exact KeepsStack.of_fields _ _ _ rfl rfl (sizesTopFirst_reposition _ _) rfl
          (fun b hb => ⟨b, hb, rfl, rfl⟩))
    | with_reducible apply restoreVMStackBy_keepsStack
    | with_reducible apply popVMStackSize_keepsStack
    | with_reducible refine Preserves.forEachM (fun _ => ?_) _
    | with_reducible refine Preserves.repeatM ?_ _
    | with_reducible refine readBlock_keepsStack _ _ _ (fun _ _ => ?_)
    | with_reducible refine Preserves.bind ?_ (fun _ => ?_)
    | split
    | dsimp only)

theorem stopToGenerateByteCodeWhileBlockEnd_keepsStack (g : BlockInfo) :
    Preserves (KeepsStack g) (stopToGenerateByteCodeWhileBlockEnd) := by
  simp only [stopToGenerateByteCodeWhileBlockEnd]
  repeat (first
    | with_reducible apply Preserves.getS
    | with_reducible apply Preserves.pure
    | with_reducible apply Preserves.failM
    | with_reducible apply Preserves.liftE
    | ((with_reducible apply Preserves.modifyS); intro s; exact ⟨fun h _ => h, Nat.le_refl _⟩)
    | ((with_reducible apply Preserves.modifyS); intro s;
        refine KeepsStack.of_modifyAt _ _ _ _ _ ?_ rfl rfl rfl rfl rfl; exact fun _ => ⟨rfl, rfl⟩)
    | ((with_reducible apply Preserves.modifyS); intro s;
        exact KeepsStack.of_fields _ _ _ rfl rfl (sizesTopFirst_reposition _ _) rfl
          (fun b hb => ⟨b, hb, rfl, rfl⟩))
    | with_reducible refine Preserves.forEachM (fun _ => ?_) _
    | with_reducible refine Preserves.repeatM ?_ _
    | with_reducible refine readBlock_keepsStack _ _ _ (fun _ _ => ?_)
    | with_reducible refine Preserves.bind ?_ (fun _ => ?_)
    | split
    | dsimp only)

theorem moveValuesLoop_keepsStack (g : BlockInfo) (t : Target) (rev : List VMStackInfo) (srcIdx dstIdx : Nat)
    (remain : Int) : Preserves (KeepsStack g) (moveValuesLoop t rev srcIdx dstIdx remain) := by
  induction srcIdx generalizing dstIdx remain with
  | zero =>
    unfold moveValuesLoop
    repeat (first
      | with_reducible apply Preserves.getS
      | with_reducible apply Preserves.pure
      | with_reducible apply Preserves.failM
      | with_reducible apply Preserves.liftE
      | ((with_reducible apply Preserves.modifyS); intro s; exact ⟨fun h _ => h, Nat.le_refl _⟩)
      | ((with_reducible apply Preserves.modifyS); intro s;
          refine KeepsStack.of_modifyAt _ _ _ _ _ ?_ rfl rfl rfl rfl rfl; exact fun _ => ⟨rfl, rfl⟩)
      | ((with_reducible apply Preserves.modifyS); intro s;
          exact KeepsStack.of_fields _ _ _ rfl rfl (sizesTopFirst_reposition _ _) rfl
            (fun b hb => ⟨b, hb, rfl, rfl⟩))
      | with_reducible apply generateMoveCodeIfNeeds_keepsStack
      | with_reducible refine Preserves.forEachM (fun _ => ?_) _
      | with_reducible refine Preserves.repeatM ?_ _
      | with_reducible refine readBlock_keepsStack _ _ _ (fun _ _ => ?_)
      | with_reducible refine Preserves.bind ?_ (fun _ => ?_)
      | split
      | dsimp only)
  | succ n ih =>
    unfold moveValuesLoop
    repeat (first
      | with_reducible apply Preserves.getS
      | with_reducible apply Preserves.pure
      | with_reducible apply Preserves.failM
      | with_reducible apply Preserves.liftE
      | ((with_reducible apply Preserves.modifyS); intro s; exact ⟨fun h _ => h, Nat.le_refl _⟩)
      | ((with_reducible apply Preserves.modifyS); intro s;
          refine KeepsStack.of_modifyAt _ _ _ _ _ ?_ rfl rfl rfl rfl rfl; exact fun _ => ⟨rfl, rfl⟩)
      | ((with_reducible apply Preserves.modifyS); intro s;
          exact KeepsStack.of_fields _ _ _ rfl rfl (sizesTopFirst_reposition _ _) rfl
            (fun b hb => ⟨b, hb, rfl, rfl⟩))
      | with_reducible apply generateMoveCodeIfNeeds_keepsStack
      | with_reducible apply ih
      | with_reducible refine Preserves.forEachM (fun _ => ?_) _
      | with_reducible refine Preserves.repeatM ?_ _
      | with_reducible refine readBlock_keepsStack _ _ _ (fun _ _ => ?_)
      | with_reducible refine Preserves.bind ?_ (fun _ => ?_)
      | split
      | dsimp only)

theorem generateMoveValuesCodeRegardToDrop_keepsStack (g : BlockInfo) (t : Target) (d : Nat × Nat) :
    Preserves (KeepsStack g) (generateMoveValuesCodeRegardToDrop t d) := by
  simp only [generateMoveValuesCodeRegardToDrop]
  repeat (first
    | with_reducible apply Preserves.getS
    | with_reducible apply Preserves.pure
    | with_reducible apply Preserves.failM
    | with_reducible apply Preserves.liftE
    | ((with_reducible apply Preserves.modifyS); intro s; exact ⟨fun h _ => h, Nat.le_refl _⟩)
    | ((with_reducible apply Preserves.modifyS); intro s;
        refine KeepsStack.of_modifyAt _ _ _ _ _ ?_ rfl rfl rfl rfl rfl; exact fun _ => ⟨rfl, rfl⟩)
    | ((with_reducible apply Preserves.modifyS); intro s;
        exact KeepsStack.of_fields _ _ _ rfl rfl (sizesTopFirst_reposition _ _) rfl
          (fun b hb => ⟨b, hb, rfl, rfl⟩))
    | with_reducible apply moveValuesLoop_keepsStack
    | with_reducible refine Preserves.forEachM (fun _ => ?_) _
    | with_reducible refine Preserves.repeatM ?_ _
    | with_reducible refine readBlock_keepsStack _ _ _ (fun _ _ => ?_)
    | with_reducible refine Preserves.bind ?_ (fun _ => ?_)
    | split
    | dsimp only)

theorem keepSubResultsIfNeeds_keepsStack (g : BlockInfo) (t : Target) :
    Preserves (KeepsStack g) (keepSubResultsIfNeeds t) := by
  simp only [keepSubResultsIfNeeds]
  repeat (first
    | with_reducible apply Preserves.getS
    | with_reducible apply Preserves.pure
    | with_reducible apply Preserves.failM
    | with_reducible apply Preserves.liftE
    | ((with_reducible apply Preserves.modifyS); intro s; exact ⟨fun h _ => h, Nat.le_refl _⟩)
    | ((with_reducible apply Preserves.modifyS); intro s;
        refine KeepsStack.of_modifyAt _ _ _ _ _ ?_ rfl rfl rfl rfl rfl; exact fun _ => ⟨rfl, rfl⟩)
    | ((with_reducible apply Preserves.modifyS); intro s;
        exact KeepsStack.of_fields _ _ _ rfl rfl (sizesTopFirst_reposition _ _) rfl
          (fun b hb => ⟨b, hb, rfl, rfl⟩))
    | with_reducible refine modifyBlockAtDepth_keepsStack _ _ _ (fun _ => ⟨rfl, rfl⟩)
    | with_reducible apply generateMoveValuesCodeRegardToDrop_keepsStack
    | with_reducible refine Preserves.forEachM (fun _ => ?_) _
    | with_reducible refine Preserves.repeatM ?_ _
    | with_reducible refine readBlock_keepsStack _ _ _ (fun _ _ => ?_)
    | with_reducible refine Preserves.bind ?_ (fun _ => ?_)
    | split
    | dsimp only)

theorem generateEndCode_keepsStack (g : BlockInfo) (t : Target) :
    Preserves (KeepsStack g) (generateEndCode t) := by
  simp only [generateEndCode]
  repeat (first
    | with_reducible apply Preserves.getS
    | with_reducible apply Preserves.pure
    | with_reducible apply Preserves.failM
    | with_reducible apply Preserves.liftE
    | ((with_reducible apply Preserves.modifyS); intro s; exact ⟨fun h _ => h, Nat.le_refl _⟩)
    | ((with_reducible apply Preserves.modifyS); intro s;
        refine KeepsStack.of_modifyAt _ _ _ _ _ ?_ rfl rfl rfl rfl rfl; exact fun _ => ⟨rfl, rfl⟩)
    | ((with_reducible apply Preserves.modifyS); intro s;
        exact KeepsStack.of_fields _ _ _ rfl rfl (sizesTopFirst_reposition _ _) rfl
          (fun b hb => ⟨b, hb, rfl, rfl⟩))
    | with_reducible apply currentByteCodeSize_keepsStack
    | with_reducible apply pushByteCode_keepsStack
    | with_reducible apply expandByteCode_keepsStack
    | with_reducible apply pokeByteCode_keepsStack
    | with_reducible refine Preserves.forEachM (fun _ => ?_) _
    | with_reducible refine Preserves.repeatM ?_ _
    | with_reducible refine readBlock_keepsStack _ _ _ (fun _ _ => ?_)
    | with_reducible refine Preserves.bind ?_ (fun _ => ?_)
    | split
    | dsimp only)

theorem popWhileDropSize_keepsStack (g : BlockInfo) (fuel dropSize : Nat) :
    Preserves (KeepsStack g) (popWhileDropSize fuel dropSize) := by
  induction fuel generalizing dropSize with
  | zero =>
    cases dropSize with
    | zero =>
      unfold popWhileDropSize
      exact Preserves.pure ()
    | succ d =>
      unfold popWhileDropSize
      exact Preserves.failM _
  | succ n ih =>
    cases dropSize with
    | zero =>
      unfold popWhileDropSize
      exact Preserves.pure ()
    | succ d =>
      unfold popWhileDropSize
      exact Preserves.bind (popVMStackSize_keepsStack g) (fun _ => ih _)

theorem generateFunctionReturnCode_keepsStack (g : BlockInfo) (t : Target) (b : Bool) :
    Preserves (KeepsStack g) (generateFunctionReturnCode t b) := by
  simp only [generateFunctionReturnCode]
  repeat (first
    | with_reducible apply Preserves.getS
    | with_reducible apply Preserves.pure
    | with_reducible apply Preserves.failM
    | with_reducible apply Preserves.liftE
    | ((with_reducible apply Preserves.modifyS); intro s; exact ⟨fun h _ => h, Nat.le_refl _⟩)
    | ((with_reducible apply Preserves.modifyS); intro s;
        refine KeepsStack.of_modifyAt _ _ _ _ _ ?_ rfl rfl rfl rfl rfl; exact fun _ => ⟨rfl, rfl⟩)
    | ((with_reducible apply Preserves.modifyS); intro s;
        exact KeepsStack.of_fields _ _ _ rfl rfl (sizesTopFirst_reposition _ _) rfl
          (fun b hb => ⟨b, hb, rfl, rfl⟩))
    | with_reducible apply generateEndCode_keepsStack
    | with_reducible apply popWhileDropSize_keepsStack
    | with_reducible apply popVMStackSize_keepsStack
    | with_reducible apply stopToGenerateByteCodeWhileBlockEnd_keepsStack
    | with_reducible refine Preserves.forEachM (fun _ => ?_) _
    | with_reducible refine Preserves.repeatM ?_ _
    | with_reducible refine readBlock_keepsStack _ _ _ (fun _ _ => ?_)
    | with_reducible refine Preserves.bind ?_ (fun _ => ?_)
    | split
    | dsimp only)

theorem pushJumpToEndIfBlockOrIfElse_keepsStack (g : BlockInfo) (depth : Nat) (b : BlockInfo) (ty : JumpToEndType) (pos : Nat) :
    Preserves (KeepsStack g) (pushJumpToEndIfBlockOrIfElse depth b ty pos) := by
  simp only [pushJumpToEndIfBlockOrIfElse]
  repeat (first
    | with_reducible apply Preserves.getS
    | with_reducible apply Preserves.pure
    | with_reducible apply Preserves.failM
    | with_reducible apply Preserves.liftE
    | ((with_reducible apply Preserves.modifyS); intro s; exact ⟨fun h _ => h, Nat.le_refl _⟩)
    | ((with_reducible apply Preserves.modifyS); intro s;
        refine KeepsStack.of_modifyAt _ _ _ _ _ ?_ rfl rfl rfl rfl rfl; exact fun _ => ⟨rfl, rfl⟩)
    | ((with_reducible apply Preserves.modifyS); intro s;
        exact KeepsStack.of_fields _ _ _ rfl rfl (sizesTopFirst_reposition _ _) rfl
          (fun b hb => ⟨b, hb, rfl, rfl⟩))
    | with_reducible refine modifyBlockAtDepth_keepsStack _ _ _ (fun _ => ⟨rfl, rfl⟩)
    | with_reducible refine Preserves.forEachM (fun _ => ?_) _
    | with_reducible refine Preserves.repeatM ?_ _
    | with_reducible refine readBlock_keepsStack _ _ _ (fun _ _ => ?_)
    | with_reducible refine Preserves.bind ?_ (fun _ => ?_)
    | split
    | dsimp only)

theorem OnBrExpr_keepsStack (g : BlockInfo) (t : Target) (depth : Nat) :
    Preserves (KeepsStack g) (OnBrExpr t depth) := by
  simp only [OnBrExpr]
  repeat (first
    | with_reducible apply Preserves.getS
    | with_reducible apply Preserves.pure
    | with_reducible apply Preserves.failM
    | with_reducible apply Preserves.liftE
    | ((with_reducible apply Preserves.modifyS); intro s; exact ⟨fun h _ => h, Nat.le_refl _⟩)
    | ((with_reducible apply Preserves.modifyS); intro s;
        refine KeepsStack.of_modifyAt _ _ _ _ _ ?_ rfl rfl rfl rfl rfl; exact fun _ => ⟨rfl, rfl⟩)
    | ((with_reducible apply Preserves.modifyS); intro s;
        exact KeepsStack.of_fields _ _ _ rfl rfl (sizesTopFirst_reposition _ _) rfl
          (fun b hb => ⟨b, hb, rfl, rfl⟩))
    | with_reducible apply generateFunctionReturnCode_keepsStack
    | with_reducible apply generateMoveValuesCodeRegardToDrop_keepsStack
    | with_reducible apply currentByteCodeSize_keepsStack
    | with_reducible apply pushJumpToEndIfBlockOrIfElse_keepsStack
    | with_reducible apply pushByteCode_keepsStack
    | with_reducible apply stopToGenerateByteCodeWhileBlockEnd_keepsStack
    | with_reducible refine Preserves.forEachM (fun _ => ?_) _
    | with_reducible refine Preserves.repeatM ?_ _
    | with_reducible refine readBlock_keepsStack _ _ _ (fun _ _ => ?_)
    | with_reducible refine Preserves.bind ?_ (fun _ => ?_)
    | split
    | dsimp only)

theorem OnBrIfExpr_keepsStack (g : BlockInfo) (t : Target) (depth : Nat) :
    Preserves (KeepsStack g) (OnBrIfExpr t depth) := by
  simp only [OnBrIfExpr]
  repeat (first
    | with_reducible apply Preserves.getS
    | with_reducible apply Preserves.pure
    | with_reducible apply Preserves.failM
    | with_reducible apply Preserves.liftE
    | ((with_reducible apply Preserves.modifyS); intro s; exact ⟨fun h _ => h, Nat.le_refl _⟩)
    | ((with_reducible apply Preserves.modifyS); intro s;
        refine KeepsStack.of_modifyAt _ _ _ _ _ ?_ rfl rfl rfl rfl rfl; exact fun _ => ⟨rfl, rfl⟩)
    | ((with_reducible apply Preserves.modifyS); intro s;
        exact KeepsStack.of_fields _ _ _ rfl rfl (sizesTopFirst_reposition _ _) rfl
          (fun b hb => ⟨b, hb, rfl, rfl⟩))
    | with_reducible apply popVMStack_keepsStack
    | with_reducible apply generateEndCode_keepsStack
    | with_reducible apply generateMoveValuesCodeRegardToDrop_keepsStack
    | with_reducible apply currentByteCodeSize_keepsStack
    | with_reducible apply pushJumpToEndIfBlockOrIfElse_keepsStack
    | with_reducible apply pushByteCode_keepsStack
    | with_reducible apply pokeByteCode_keepsStack
    | with_reducible refine Preserves.forEachM (fun _ => ?_) _
    | with_reducible refine Preserves.repeatM ?_ _
    | with_reducible refine readBlock_keepsStack _ _ _ (fun _ _ => ?_)
    | with_reducible refine Preserves.bind ?_ (fun _ => ?_)
    | split
    | dsimp only)

theorem emitBrTableCase_keepsStack (g : BlockInfo) (t : Target) (code depth off : Nat) :
    Preserves (KeepsStack g) (emitBrTableCase t code depth off) := by
  simp only [emitBrTableCase]
  repeat (first
    | with_reducible apply Preserves.getS
    | with_reducible apply Preserves.pure
    | with_reducible apply Preserves.failM
    | with_reducible apply Preserves.liftE
    | ((with_reducible apply Preserves.modifyS); intro s; exact ⟨fun h _ => h, Nat.le_refl _⟩)
    | ((with_reducible apply Preserves.modifyS); intro s;
        refine KeepsStack.of_modifyAt _ _ _ _ _ ?_ rfl rfl rfl rfl rfl; exact fun _ => ⟨rfl, rfl⟩)
    | ((with_reducible apply Preserves.modifyS); intro s;
        exact KeepsStack.of_fields _ _ _ rfl rfl (sizesTopFirst_reposition _ _) rfl
          (fun b hb => ⟨b, hb, rfl, rfl⟩))
    | with_reducible apply pokeByteCode_keepsStack
    | with_reducible apply generateEndCode_keepsStack
    | with_reducible apply OnBrExpr_keepsStack
    | with_reducible refine modifyBlockAtDepth_keepsStack _ _ _ (fun _ => ⟨rfl, rfl⟩)
    | with_reducible refine Preserves.forEachM (fun _ => ?_) _
    | with_reducible refine Preserves.repeatM ?_ _
    | with_reducible refine readBlock_keepsStack _ _ _ (fun _ _ => ?_)
    | with_reducible refine Preserves.bind ?_ (fun _ => ?_)
    | split
    | dsimp only)

theorem OnBrTableExpr_keepsStack (g : BlockInfo) (t : Target) (targets : List Nat) (dflt : Nat) :
    Preserves (KeepsStack g) (OnBrTableExpr t targets dflt) := by
  simp only [OnBrTableExpr]
  repeat (first
    | with_reducible apply Preserves.getS
    | with_reducible apply Preserves.pure
    | with_reducible apply Preserves.failM
    | with_reducible apply Preserves.liftE
    | ((with_reducible apply Preserves.modifyS); intro s; exact ⟨fun h _ => h, Nat.le_refl _⟩)
    | ((with_reducible apply Preserves.modifyS); intro s;
        refine KeepsStack.of_modifyAt _ _ _ _ _ ?_ rfl rfl rfl rfl rfl; exact fun _ => ⟨rfl, rfl⟩)
    | ((with_reducible apply Preserves.modifyS); intro s;
        exact KeepsStack.of_fields _ _ _ rfl rfl (sizesTopFirst_reposition _ _) rfl
          (fun b hb => ⟨b, hb, rfl, rfl⟩))
    | with_reducible apply popVMStack_keepsStack
    | with_reducible apply currentByteCodeSize_keepsStack
    | with_reducible apply pushByteCode_keepsStack
    | with_reducible apply expandByteCode_keepsStack
    | with_reducible apply emitBrTableCase_keepsStack
    | with_reducible apply stopToGenerateByteCodeWhileBlockEnd_keepsStack
    | with_reducible refine Preserves.forEachM (fun _ => ?_) _
    | with_reducible refine Preserves.repeatM ?_ _
    | with_reducible refine readBlock_keepsStack _ _ _ (fun _ _ => ?_)
    | with_reducible refine Preserves.bind ?_ (fun _ => ?_)
    | split
    | dsimp only)

theorem OnElseExpr_keepsStack (g : BlockInfo) (t : Target) :
    Preserves (KeepsStack g) (OnElseExpr t) := by
  simp only [OnElseExpr]
  repeat (first
    | with_reducible apply Preserves.getS
    | with_reducible apply Preserves.pure
    | with_reducible apply Preserves.failM
    | with_reducible apply Preserves.liftE
    | ((with_reducible apply Preserves.modifyS); intro s; exact ⟨fun h _ => h, Nat.le_refl _⟩)
    | ((with_reducible apply Preserves.modifyS); intro s;
        refine KeepsStack.of_modifyAt _ _ _ _ _ ?_ rfl rfl rfl rfl rfl; exact fun _ => ⟨rfl, rfl⟩)
    | ((with_reducible apply Preserves.modifyS); intro s;
        exact KeepsStack.of_fields _ _ _ rfl rfl (sizesTopFirst_reposition _ _) rfl
          (fun b hb => ⟨b, hb, rfl, rfl⟩))
    | with_reducible apply keepSubResultsIfNeeds_keepsStack
    | with_reducible apply currentByteCodeSize_keepsStack
    | with_reducible refine modifyBlockAtDepth_keepsStack _ _ _ (fun _ => ⟨rfl, rfl⟩)
    | with_reducible apply pushByteCode_keepsStack
    | with_reducible apply restoreVMStackRegardToPartOfBlockEnd_keepsStack
    | with_reducible apply pokeByteCode_keepsStack
    | with_reducible refine Preserves.forEachM (fun _ => ?_) _
    | with_reducible refine Preserves.repeatM ?_ _
    | with_reducible refine readBlock_keepsStack _ _ _ (fun _ _ => ?_)
    | with_reducible refine Preserves.bind ?_ (fun _ => ?_)
    | split
    | dsimp only)

theorem patchJumpToEnd_keepsStack (g : BlockInfo) (t : Target) (info : JumpToEndBrInfo) :
    Preserves (KeepsStack g) (patchJumpToEnd t info) := by
  simp only [patchJumpToEnd]
  repeat (first
    | with_reducible apply Preserves.getS
    | with_reducible apply Preserves.pure
    | with_reducible apply Preserves.failM
    | with_reducible apply Preserves.liftE
    | ((with_reducible apply Preserves.modifyS); intro s; exact ⟨fun h _ => h, Nat.le_refl _⟩)
    | ((with_reducible apply Preserves.modifyS); intro s;
        refine KeepsStack.of_modifyAt _ _ _ _ _ ?_ rfl rfl rfl rfl rfl; exact fun _ => ⟨rfl, rfl⟩)
    | ((with_reducible apply Preserves.modifyS); intro s;
        exact KeepsStack.of_fields _ _ _ rfl rfl (sizesTopFirst_reposition _ _) rfl
          (fun b hb => ⟨b, hb, rfl, rfl⟩))
    | with_reducible apply currentByteCodeSize_keepsStack
    | with_reducible apply pokeByteCode_keepsStack
    | with_reducible apply pokeInt32_keepsStack
    | with_reducible refine Preserves.forEachM (fun _ => ?_) _
    | with_reducible refine Preserves.repeatM ?_ _
    | with_reducible refine readBlock_keepsStack _ _ _ (fun _ _ => ?_)
    | with_reducible refine Preserves.bind ?_ (fun _ => ?_)
    | split
    | dsimp only)

theorem pushVMStackKinds_keepsStack (g : BlockInfo) (t : Target) (kinds : List ValueType) :
    Preserves (KeepsStack g) (pushVMStackKinds t kinds) := by
  induction kinds with
  | nil =>
    unfold pushVMStackKinds
    exact Preserves.pure _
  | cons k rest ih =>
    unfold pushVMStackKinds
    exact Preserves.bind (pushVMStack_keepsStack g _)
      (fun _ => Preserves.bind ih (fun _ => Preserves.pure _))

theorem popVMStackArgs_keepsStack (g : BlockInfo) (n : Nat) : Preserves (KeepsStack g) (popVMStackArgs n) := by
  induction n with
  | zero =>
    unfold popVMStackArgs
    exact Preserves.pure _
  | succ n ih =>
    unfold popVMStackArgs
    exact Preserves.bind (popVMStack_keepsStack g)
      (fun _ => Preserves.bind ih (fun _ => Preserves.pure _))

theorem OnThrowExpr_keepsStack (g : BlockInfo) (t : Target) (tag : Nat) :
    Preserves (KeepsStack g) (OnThrowExpr t tag) := by
  simp only [OnThrowExpr]
  repeat (first
    | with_reducible apply Preserves.getS
    | with_reducible apply Preserves.pure
    | with_reducible apply Preserves.failM
    | with_reducible apply Preserves.liftE
    | ((with_reducible apply Preserves.modifyS); intro s; exact ⟨fun h _ => h, Nat.le_refl _⟩)
    | ((with_reducible apply Preserves.modifyS); intro s;
        refine KeepsStack.of_modifyAt _ _ _ _ _ ?_ rfl rfl rfl rfl rfl; exact fun _ => ⟨rfl, rfl⟩)
    | ((with_reducible apply Preserves.modifyS); intro s;
        exact KeepsStack.of_fields _ _ _ rfl rfl (sizesTopFirst_reposition _ _) rfl
          (fun b hb => ⟨b, hb, rfl, rfl⟩))
    | with_reducible apply currentByteCodeSize_keepsStack
    | with_reducible apply pushByteCode_keepsStack
    | with_reducible apply expandByteCode_keepsStack
    | with_reducible apply pokeByteCode_keepsStack
    | with_reducible apply popVMStack_keepsStack
    | with_reducible apply stopToGenerateByteCodeWhileBlockEnd_keepsStack
    | with_reducible refine Preserves.forEachM (fun _ => ?_) _
    | with_reducible refine Preserves.repeatM ?_ _
    | with_reducible refine readBlock_keepsStack _ _ _ (fun _ _ => ?_)
    | with_reducible refine Preserves.bind ?_ (fun _ => ?_)
    | split
    | dsimp only)

theorem processCatchExpr_keepsStack (g : BlockInfo) (t : Target) (tag : Nat) :
    Preserves (KeepsStack g) (processCatchExpr t tag) := by
  simp only [processCatchExpr]
  repeat (first
    | with_reducible apply Preserves.getS
    | with_reducible apply Preserves.pure
    | with_reducible apply Preserves.failM
    | with_reducible apply Preserves.liftE
    | ((with_reducible apply Preserves.modifyS); intro s; exact ⟨fun h _ => h, Nat.le_refl _⟩)
    | ((with_reducible apply Preserves.modifyS); intro s;
        refine KeepsStack.of_modifyAt _ _ _ _ _ ?_ rfl rfl rfl rfl rfl; exact fun _ => ⟨rfl, rfl⟩)
    | ((with_reducible apply Preserves.modifyS); intro s;
        exact KeepsStack.of_fields _ _ _ rfl rfl (sizesTopFirst_reposition _ _) rfl
          (fun b hb => ⟨b, hb, rfl, rfl⟩))
    | with_reducible apply keepSubResultsIfNeeds_keepsStack
    | with_reducible apply restoreVMStackRegardToPartOfBlockEnd_keepsStack
    | with_reducible apply currentByteCodeSize_keepsStack
    | with_reducible refine modifyBlockAtDepth_keepsStack _ _ _ (fun _ => ⟨rfl, rfl⟩)
    | with_reducible apply pushByteCode_keepsStack
    | with_reducible apply pushVMStackKinds_keepsStack
    | with_reducible refine Preserves.forEachM (fun _ => ?_) _
    | with_reducible refine Preserves.repeatM ?_ _
    | with_reducible refine readBlock_keepsStack _ _ _ (fun _ _ => ?_)
    | with_reducible refine Preserves.bind ?_ (fun _ => ?_)
    | split
    | dsimp only)

theorem OnCallExpr_keepsStack (g : BlockInfo) (t : Target) (index : Nat) :
    Preserves (KeepsStack g) (OnCallExpr t index) := by
  simp only [OnCallExpr]
  repeat (first
    | with_reducible apply Preserves.getS
    | with_reducible apply Preserves.pure
    | with_reducible apply Preserves.failM
    | with_reducible apply Preserves.liftE
    | ((with_reducible apply Preserves.modifyS); intro s; exact ⟨fun h _ => h, Nat.le_refl _⟩)
    | ((with_reducible apply Preserves.modifyS); intro s;
        refine KeepsStack.of_modifyAt _ _ _ _ _ ?_ rfl rfl rfl rfl rfl; exact fun _ => ⟨rfl, rfl⟩)
    | ((with_reducible apply Preserves.modifyS); intro s;
        exact KeepsStack.of_fields _ _ _ rfl rfl (sizesTopFirst_reposition _ _) rfl
          (fun b hb => ⟨b, hb, rfl, rfl⟩))
    | with_reducible apply currentByteCodeSize_keepsStack
    | with_reducible apply pushByteCode_keepsStack
    | with_reducible apply expandByteCode_keepsStack
    | with_reducible apply popVMStackArgs_keepsStack
    | with_reducible apply pushVMStackKinds_keepsStack
    | with_reducible apply pokeByteCode_keepsStack
    | with_reducible refine Preserves.forEachM (fun _ => ?_) _
    | with_reducible refine Preserves.repeatM ?_ _
    | with_reducible refine readBlock_keepsStack _ _ _ (fun _ _ => ?_)
    | with_reducible refine Preserves.bind ?_ (fun _ => ?_)
    | split
    | dsimp only)

theorem OnCallIndirectExpr_keepsStack (g : BlockInfo) (t : Target) (sig table : Nat) :
    Preserves (KeepsStack g) (OnCallIndirectExpr t sig table) := by
  simp only [OnCallIndirectExpr]
  repeat (first
    | with_reducible apply Preserves.getS
    | with_reducible apply Preserves.pure
    | with_reducible apply Preserves.failM
    | with_reducible apply Preserves.liftE
    | ((with_reducible apply Preserves.modifyS); intro s; exact ⟨fun h _ => h, Nat.le_refl _⟩)
    | ((with_reducible apply Preserves.modifyS); intro s;
        refine KeepsStack.of_modifyAt _ _ _ _ _ ?_ rfl rfl rfl rfl rfl; exact fun _ => ⟨rfl, rfl⟩)
    | ((with_reducible apply Preserves.modifyS); intro s;
        exact KeepsStack.of_fields _ _ _ rfl rfl (sizesTopFirst_reposition _ _) rfl
          (fun b hb => ⟨b, hb, rfl, rfl⟩))
    | with_reducible apply currentByteCodeSize_keepsStack
    | with_reducible apply popVMStack_keepsStack
    | with_reducible apply pushByteCode_keepsStack
    | with_reducible apply expandByteCode_keepsStack
    | with_reducible apply popVMStackArgs_keepsStack
    | with_reducible apply pushVMStackKinds_keepsStack
    | with_reducible apply pokeByteCode_keepsStack
    | with_reducible refine Preserves.forEachM (fun _ => ?_) _
    | with_reducible refine Preserves.repeatM ?_ _
    | with_reducible refine readBlock_keepsStack _ _ _ (fun _ _ => ?_)
    | with_reducible refine Preserves.bind ?_ (fun _ => ?_)
    | split
    | dsimp only)

/-- Every handler other than `OnLocalSetExpr` and `OnLocalTeeExpr` keeps the direct-reference
flags and the reader offset. -/

theorem newBlockInfo_snapshot {t : Target} {ty : BlockType} {sig : SigType}
    {s s1 : WASMBinaryReader} {b : BlockInfo}
    (h : newBlockInfo t ty sig s = Except.ok (b, s1)) :
    b.m_vmStack = s.m_vmStack ∧ b.m_functionStackSizeSoFar = s.m_functionStackSizeSoFar := by
  unfold newBlockInfo at h
  obtain ⟨s0, sa, h0, h⟩ := bind_eq_ok.mp h
  simp only [run_getS, Except.ok.injEq, Prod.mk.injEq] at h0
  obtain ⟨rfl, rfl⟩ := h0
  dsimp only at h
  obtain ⟨_, sb, h1, h⟩ := bind_eq_ok.mp h
  obtain ⟨pp, sc, h2, h⟩ := bind_eq_ok.mp h
  obtain ⟨position, sd, h3, h⟩ := bind_eq_ok.mp h
  simp only [run_pure, Except.ok.injEq, Prod.mk.injEq] at h
  obtain ⟨rfl, -⟩ := h
  exact ⟨rfl, rfl⟩

theorem newBlockInfo_bind_keepsStack {β : Type} (g : BlockInfo) (t : Target) (ty : BlockType)
    (sig : SigType) (f : BlockInfo → M β) (hf : ∀ b, Preserves (KeepsStack b) (f b)) :
    Preserves (KeepsStack g) (newBlockInfo t ty sig >>= f) := by
  intro s a s2 h
  obtain ⟨b, s1, h1, h2⟩ := bind_eq_ok.mp h
  have hk1 := newBlockInfo_keepsStack g t ty sig s b s1 h1
  have hk2 := hf b s1 a s2 h2
  obtain ⟨e1, e2⟩ := newBlockInfo_snapshot h1
  refine ⟨fun hI hg => hk2.1 (hk1.1 hI hg) ?_, Nat.le_trans hk1.2 hk2.2⟩
  rw [e1, e2]
  exact hI.2.2.1.grow hk1.2


theorem OnEndExpr_keepsStack (g : BlockInfo) (t : Target) :
    Preserves (KeepsStack g) (OnEndExpr t) := by
  intro s a s1 h
  unfold OnEndExpr at h
  rw [getS_bind] at h
  split at h
  · obtain ⟨dropSize, sa, h1, k1⟩ := bind_eq_ok.mp h
    obtain ⟨-, rfl⟩ := liftE_eq_ok.mp h1
    obtain ⟨blockInfo, sb, h2, k2⟩ := bind_eq_ok.mp k1
    obtain ⟨hb, rfl⟩ := liftE_eq_ok.mp h2
    have hmem : blockInfo ∈ sb.m_blockInfo := by
      unfold blockAtDepth at hb
      split at hb
      · exact List.getElem?_mem (elemAt_eq_ok.mp hb)
      · cases hb
    refine (fun (key : KeepsStack blockInfo sb s1) =>
      (⟨fun hI _ => key.1 hI (hI.2.2.2 _ hmem), key.2⟩ : KeepsStack g sb s1))
      ((?_ : Preserves (KeepsStack blockInfo) _) sb a s1 k2)
    repeat (first
      | with_reducible apply Preserves.getS
      | with_reducible apply Preserves.pure
      | with_reducible apply Preserves.failM
      | with_reducible apply Preserves.liftE
      | ((with_reducible apply Preserves.modifyS); intro s; exact ⟨fun h _ => h, Nat.le_refl _⟩)
      | ((with_reducible apply Preserves.modifyS); intro s;
          exact KeepsStack.of_dropLast _ _ _ rfl rfl rfl rfl rfl)
      | with_reducible apply stopToGenerateByteCodeWhileBlockEnd_keepsStack
      | with_reducible apply generateMoveValuesCodeRegardToDrop_keepsStack
      | with_reducible apply restoreVMStackBy_keepsStack
      | with_reducible apply popVMStack_keepsStack
      | with_reducible apply pushVMStackKinds_keepsStack
      | with_reducible apply pushVMStack_keepsStack
      | with_reducible apply patchJumpToEnd_keepsStack
      | with_reducible refine Preserves.forEachM (fun _ => ?_) _
      | with_reducible refine Preserves.repeatM ?_ _
      | with_reducible refine Preserves.bind ?_ (fun _ => ?_)
      | split
      | dsimp only)
  · exact generateEndCode_keepsStack g t s a s1 h

theorem handler_keepsStack (g : BlockInfo) (t : Target) (e : Event) :
    Preserves (KeepsStack g) (e.handler t) := by
  cases e
  all_goals
    simp only [Event.handler, OnOpcode, OnI32ConstExpr, OnI64ConstExpr, OnF32ConstExpr,
      OnF64ConstExpr, OnLocalGetExpr, OnLocalSetExpr, OnLocalTeeExpr, OnGlobalGetExpr,
      OnGlobalSetExpr, OnDropExpr,
      OnBinaryExpr, OnUnaryExpr, generateBinaryCode, generateUnaryCode, OnIfExpr,
      OnLoopExpr, OnBlockExpr, OnTryExpr, OnSelectExpr, OnCatchExpr,
      OnCatchAllExpr, OnMemoryInitExpr, OnMemoryCopyExpr, OnMemoryFillExpr, OnDataDropExpr,
      OnMemoryGrowExpr, OnMemorySizeExpr, OnTableGetExpr, OnTableSetExpr, OnTableGrowExpr,
      OnTableSizeExpr, OnTableCopyExpr, OnTableFillExpr, OnElemDropExpr, OnTableInitExpr,
      OnLoadExpr, OnStoreExpr, generateMemoryLoadCode, generateMemoryStoreCode, OnRefFuncExpr,
      OnRefNullExpr, OnRefIsNullExpr, OnNopExpr, OnReturnExpr, OnUnreachableExpr]
    repeat (first
      | with_reducible apply Preserves.getS
      | with_reducible apply Preserves.pure
      | with_reducible apply Preserves.failM
      | with_reducible apply Preserves.liftE
      | ((with_reducible apply Preserves.modifyS); intro s; exact ⟨fun h _ => h, Nat.le_refl _⟩)
      | with_reducible apply popVMStack_keepsStack
      | with_reducible apply popVMStackInfo_keepsStack
      | with_reducible apply peekVMStack_keepsStack
      | with_reducible apply peekVMStackSize_keepsStack
      | with_reducible apply peekVMStackInfo_keepsStack
      | with_reducible apply pushVMStack_keepsStack
      | with_reducible apply pushVMStackAt_keepsStack
      | with_reducible apply pushByteCode_keepsStack
      | with_reducible apply generateMoveCodeIfNeeds_keepsStack
      | with_reducible apply omitUpdateLocalValueIfPossible_keepsStack
      | with_reducible apply resetFunctionCodeDataFromHere_keepsStack
      | with_reducible apply stopToGenerateByteCodeWhileBlockEnd_keepsStack
      | with_reducible apply generateFunctionReturnCode_keepsStack
      | with_reducible refine newBlockInfo_bind_keepsStack _ _ _ _ _ (fun _ => ?_)
      | with_reducible refine pushBlockInfo_keepsStack _ _ ⟨rfl, rfl⟩
      | with_reducible apply processCatchExpr_keepsStack
      | with_reducible apply OnCallExpr_keepsStack
      | with_reducible apply OnCallIndirectExpr_keepsStack
      | with_reducible apply OnBrExpr_keepsStack
      | with_reducible apply OnBrIfExpr_keepsStack
      | with_reducible apply OnBrTableExpr_keepsStack
      | with_reducible apply OnElseExpr_keepsStack
      | with_reducible apply OnEndExpr_keepsStack
      | with_reducible apply OnThrowExpr_keepsStack
      | with_reducible refine Preserves.forEachM (fun _ => ?_) _
      | with_reducible refine Preserves.repeatM ?_ _
      | with_reducible refine Preserves.bind ?_ (fun _ => ?_)
      | split
      | dsimp only)

theorem runEvents_keepsStack (g : BlockInfo) (t : Target) (events : List Event) :
    ∀ (s s1 : WASMBinaryReader), runEvents t events s = Except.ok s1 → KeepsStack g s s1 := by
  induction events with
  | nil =>
    intro s s1 h
    unfold runEvents at h
    cases h
    exact IsRefl.refl s
  | cons e rest ih =>
    intro s s1 h
    unfold runEvents at h
    split at h
    · rename_i u s0 h0
      exact IsTrans.trans _ _ _ (handler_keepsStack g t e s u s0 h0) (ih s0 s1 h)
    · cases h

theorem beginFunction_declPhase (t : Target) (mf : ModuleFunction) (s : WASMBinaryReader)
    (hs : s.m_vmStack = []) (hb : s.m_blockInfo = []) :
    ∃ s1, beginFunction t mf s = Except.ok ((), s1) ∧ DeclPhase s1 :=
  ⟨_, rfl, hs, hb, rfl, u32_lt _, Nat.le_max_right _ _⟩

theorem OnLocalDecl_declPhase (t : Target) (count : Nat) (type : SigType)
    (s s1 : WASMBinaryReader) (hs : DeclPhase s)
    (h : OnLocalDecl t count type s = Except.ok ((), s1)) :
    DeclPhase s1
      ∧ s.m_currentFunction.m_requiredStackSize ≤ s1.m_currentFunction.m_requiredStackSize := by
  obtain ⟨d1, d2, d3, d4, d5⟩ := hs
  by_cases hc : count = 0
  · subst hc
    unfold OnLocalDecl at h
    simp only [ne_eq, not_true_eq_false, if_false, pure_bind_run, run_modifyS, Except.ok.injEq,
      Prod.mk.injEq, true_and] at h
    subst h
    exact ⟨⟨d1, d2, d3, d4, Nat.le_max_right _ _⟩, Nat.le_max_left _ _⟩
  · cases hk : toValueKind type with
    | error e =>
      unfold OnLocalDecl at h
      simp only [ne_eq, hc, not_false_eq_true, if_true, hk] at h
      cases h
    | ok k =>
      rw [OnLocalDecl_run t count type k s hc hk] at h
      simp only [Except.ok.injEq, Prod.mk.injEq, true_and] at h
      subst h
      obtain ⟨f1, f2, -, -, -, f6, f7, f8⟩ := iterate_declareLocal_fields t k count s
      rw [iterate_u32_add _ _ _ d4] at f7
      rw [d3, iterate_u32_add _ _ _ d4] at f8
      refine ⟨⟨f2.trans d1, f1.trans d2, f8.trans f7.symm, ?_, Nat.le_max_right _ _⟩, ?_⟩
      · show ((declareLocal t k)^[count] s).m_functionStackSizeSoFar < _
        rw [f7]
        exact u32_lt _
      · show _ ≤ max _ _
        rw [f6]
        exact Nat.le_max_left _ _

end wabt.WASMBinaryReader

open wabt Walrus wabt.WASMBinaryReader

/-- C15: the stack accounting of a function. `beginFunction`, run with no entry on the VM
stack and no open block, and every `OnLocalDecl` after it leave the watermark
`m_functionStackSizeSoFar` within `requiredStackSize` (the state `DeclPhase`, which implies
the invariant `StackInv`). Every handler of an instruction, every sequence of them, and
the steps inside them (a push, a pop, the restore of the stack of a block whose snapshot
is within `requiredStackSize`, the rewind `resetFunctionCodeDataFromHere`) keep `StackInv`
and never decrease `requiredStackSize`; and in every state with `StackInv` the watermark
is at most `requiredStackSize`. -/
theorem watermark_stays_within_required_stack_size (t : Target) :
    (∀ mf s, s.m_vmStack = [] → s.m_blockInfo = [] →
      ∃ s1, beginFunction t mf s = Except.ok ((), s1) ∧ DeclPhase s1)
    ∧ (∀ count type s s1, DeclPhase s → OnLocalDecl t count type s = Except.ok ((), s1) →
        DeclPhase s1
          ∧ s.m_currentFunction.m_requiredStackSize ≤ s1.m_currentFunction.m_requiredStackSize)
    ∧ (∀ s, DeclPhase s → StackInv s)
    ∧ (∀ s, StackInv s →
        s.m_functionStackSizeSoFar ≤ s.m_currentFunction.m_requiredStackSize)
    ∧ (∀ (e : Event) s s1, StackInv s → e.handler t s = Except.ok ((), s1) →
        StackInv s1
          ∧ s.m_currentFunction.m_requiredStackSize ≤ s1.m_currentFunction.m_requiredStackSize)
    ∧ (∀ events s s1, StackInv s → runEvents t events s = Except.ok s1 →
        StackInv s1
          ∧ s1.m_functionStackSizeSoFar ≤ s1.m_currentFunction.m_requiredStackSize
          ∧ s.m_currentFunction.m_requiredStackSize ≤ s1.m_currentFunction.m_requiredStackSize)
    ∧ (∀ size pos li s s1, StackInv s → pushVMStackAt size pos li s = Except.ok ((), s1) →
        StackInv s1
          ∧ s.m_currentFunction.m_requiredStackSize ≤ s1.m_currentFunction.m_requiredStackSize)
    ∧ (∀ s info s1, StackInv s → popVMStackInfo s = Except.ok (info, s1) →
        StackInv s1
          ∧ s.m_currentFunction.m_requiredStackSize ≤ s1.m_currentFunction.m_requiredStackSize)
    ∧ (∀ b s s1, StackInv s →
        SnapshotOk s.m_currentFunction.m_requiredStackSize b.m_vmStack
          b.m_functionStackSizeSoFar →
        restoreVMStackBy b s = Except.ok ((), s1) →
        StackInv s1
          ∧ s.m_currentFunction.m_requiredStackSize ≤ s1.m_currentFunction.m_requiredStackSize)
    ∧ (∀ s s1, StackInv s → resetFunctionCodeDataFromHere s = Except.ok ((), s1) →
        StackInv s1
          ∧ s.m_currentFunction.m_requiredStackSize
            ≤ s1.m_currentFunction.m_requiredStackSize) := by
  have hnil : ∀ (req : Nat), SnapshotOk req ([] : List VMStackInfo) 0 :=
    fun req => ⟨by decide, Nat.zero_le req⟩
  refine ⟨fun mf s hs hb => beginFunction_declPhase t mf s hs hb,
    fun count type s s1 hs h => OnLocalDecl_declPhase t count type s s1 hs h,
    fun s hs => hs.stackInv, fun s hs => hs.le, ?_, ?_, ?_, ?_, ?_, ?_⟩
  · intro e s s1 hI h
    have hk := handler_keepsStack ⟨BlockType.Block, SigType.Void, 0, [], [], 0, false, false, []⟩
      t e s () s1 h
    exact ⟨hk.1 hI (hnil _), hk.2⟩
  · intro events s s1 hI h
    have hk := runEvents_keepsStack
      ⟨BlockType.Block, SigType.Void, 0, [], [], 0, false, false, []⟩ t events s s1 h
    exact ⟨hk.1 hI (hnil _), (hk.1 hI (hnil _)).le, hk.2⟩
  · intro size pos li s s1 hI h
    have hk := pushVMStackAt_keepsStack
      ⟨BlockType.Block, SigType.Void, 0, [], [], 0, false, false, []⟩ size pos li s () s1 h
    exact ⟨hk.1 hI (hnil _), hk.2⟩
  · intro s info s1 hI h
    have hk := popVMStackInfo_keepsStack
      ⟨BlockType.Block, SigType.Void, 0, [], [], 0, false, false, []⟩ s info s1 h
    exact ⟨hk.1 hI (hnil _), hk.2⟩
  · intro b s s1 hI hb h
    have hk := restoreVMStackBy_keepsStack b s () s1 h
    exact ⟨hk.1 hI hb, hk.2⟩
  · intro s s1 hI h
    have hk := resetFunctionCodeDataFromHere_keepsStack
      ⟨BlockType.Block, SigType.Void, 0, [], [], 0, false, false, []⟩ s () s1 h
    exact ⟨hk.1 hI (hnil _), hk.2⟩

/-! ## `dropStackValuesBeforeBrIfNeeds` -/

open wabt Walrus wabt.WASMBinaryReader

/-- C16 as stated fails, twice. In a function with the type `(param i32)` at index 0, after
`i32.const 5; loop (type 0); i32.const 1` one entry of 4 bytes is above the snapshot of the
loop and the pair returned for depth 0 is (8, 4), not (4, 4): the parameter bytes of a loop
are added to the first component. After `i32.const 5; loop (type 0)` alone the stack is
the snapshot and the pair is (0, 0), not (0, 4). -/
theorem drop_size_of_loop_includes_the_parameters :
    sizeAbove
        (exampleAfter ⟨[], []⟩ [⟨[ValueType.I32], []⟩]
          [Event.OnI32ConstExpr 5, Event.OnLoopExpr (SigType.Index 0),
            Event.OnI32ConstExpr 1]).m_vmStack
        1 = 4
    ∧ (blockAtDepth
        (exampleAfter ⟨[], []⟩ [⟨[ValueType.I32], []⟩]
          [Event.OnI32ConstExpr 5, Event.OnLoopExpr (SigType.Index 0),
            Event.OnI32ConstExpr 1]) 0).toOption.map
        (fun b => (b.m_blockType, b.m_returnValueType, b.m_vmStack.length))
        = some (BlockType.Loop, SigType.Index 0, 1)
    ∧ dropStackValuesBeforeBrIfNeeds exampleTarget
        (exampleAfter ⟨[], []⟩ [⟨[ValueType.I32], []⟩]
          [Event.OnI32ConstExpr 5, Event.OnLoopExpr (SigType.Index 0),
            Event.OnI32ConstExpr 1]) 0 = Except.ok (8, 4)
    ∧ (blockAtDepth
        (exampleAfter ⟨[], []⟩ [⟨[ValueType.I32], []⟩]
          [Event.OnI32ConstExpr 5, Event.OnLoopExpr (SigType.Index 0)]) 0).toOption.map
        (fun b => (b.m_blockType, b.m_returnValueType, b.m_vmStack.length))
        = some (BlockType.Loop, SigType.Index 0, 1)
    ∧ (carriedBytesOfTarget exampleTarget
        (exampleAfter ⟨[], []⟩ [⟨[ValueType.I32], []⟩]
          [Event.OnI32ConstExpr 5, Event.OnLoopExpr (SigType.Index 0)])
        ⟨BlockType.Loop, SigType.Index 0, 16, [⟨4, 0, 0, none⟩], [0], 4, false, false, []⟩)
        = Except.ok 4
    ∧ dropStackValuesBeforeBrIfNeeds exampleTarget
        (exampleAfter ⟨[], []⟩ [⟨[ValueType.I32], []⟩]
          [Event.OnI32ConstExpr 5, Event.OnLoopExpr (SigType.Index 0)]) 0
        = Except.ok (0, 0) := by
  decide!

/-- C16, amended: for every depth `d` below the number of open blocks, with `b` the block
`d` levels out, `dropStackValuesBeforeBrIfNeeds(d)` returns (0, 0) when the VM stack is
not taller than the snapshot of `b`; otherwise it returns `(a, c)`, where `c` is the
parameter stack bytes of the signature of `b` when `b` is a loop and the stack bytes of
its results otherwise, and `a` is the sum of the sizes of the entries above the snapshot,
plus `c` when `b` is a loop. It fails only where the signature of `b` cannot be read. -/
theorem dropStackValuesBeforeBrIfNeeds_pair (t : Target) (s : WASMBinaryReader) (depth : Nat)
    (hd : depth < s.m_blockInfo.length) :
    ∃ b, blockAtDepth s depth = Except.ok b
      ∧ dropStackValuesBeforeBrIfNeeds t s depth
        = if b.m_vmStack.length < s.m_vmStack.length then
            (carriedBytesOfTarget t s b).map (fun c =>
              (sizeAbove s.m_vmStack b.m_vmStack.length
                + (if b.m_blockType = BlockType.Loop then c else 0), c))
          else Except.ok (0, 0) := by
  have hidx : s.m_blockInfo.length - 1 - depth < s.m_blockInfo.length := by omega
  have hb : blockAtDepth s depth
      = Except.ok (s.m_blockInfo.get ⟨s.m_blockInfo.length - 1 - depth, hidx⟩) := by
    unfold blockAtDepth
    rw [if_pos hd]
    exact elemAt_eq_ok.mpr (List.getElem?_eq_getElem hidx)
  refine ⟨_, hb, ?_⟩
  generalize s.m_blockInfo.get ⟨s.m_blockInfo.length - 1 - depth, hidx⟩ = b at hb
  unfold dropStackValuesBeforeBrIfNeeds
  rw [if_pos hd, hb]
  show (if b.m_vmStack.length < s.m_vmStack.length then _ else _) = _
  by_cases hlen : b.m_vmStack.length < s.m_vmStack.length
  · rw [if_pos hlen, if_pos hlen]
    unfold carriedBytesOfTarget
    by_cases hloop : b.m_blockType = BlockType.Loop
    · rw [if_pos hloop]
      cases hsig : b.m_returnValueType <;> simp only [if_pos hloop] <;> try rfl
      rename_i i
      cases hft : functionTypeAt s i <;> rfl
    · rw [if_neg hloop]
      cases hsig : b.m_returnValueType <;> simp only [if_neg hloop] <;> try rfl
      rename_i i
      cases hft : functionTypeAt s i <;> rfl
  · rw [if_neg hlen, if_neg hlen]
    rfl

/-- C16, amended, at a concrete input: the first state of the counterexample, where the
block at depth 0 is the loop with the signature `(param i32)` and the pair is
`(4 + 4, 4)`. -/
theorem dropStackValuesBeforeBrIfNeeds_pair_witness :
    ∃ b, blockAtDepth
        (exampleAfter ⟨[], []⟩ [⟨[ValueType.I32], []⟩]
          [Event.OnI32ConstExpr 5, Event.OnLoopExpr (SigType.Index 0),
            Event.OnI32ConstExpr 1]) 0 = Except.ok b
      ∧ dropStackValuesBeforeBrIfNeeds exampleTarget
          (exampleAfter ⟨[], []⟩ [⟨[ValueType.I32], []⟩]
            [Event.OnI32ConstExpr 5, Event.OnLoopExpr (SigType.Index 0),
              Event.OnI32ConstExpr 1]) 0
        = if b.m_vmStack.length
              < (exampleAfter ⟨[], []⟩ [⟨[ValueType.I32], []⟩]
                [Event.OnI32ConstExpr 5, Event.OnLoopExpr (SigType.Index 0),
                  Event.OnI32ConstExpr 1]).m_vmStack.length then
            (carriedBytesOfTarget exampleTarget
              (exampleAfter ⟨[], []⟩ [⟨[ValueType.I32], []⟩]
                [Event.OnI32ConstExpr 5, Event.OnLoopExpr (SigType.Index 0),
                  Event.OnI32ConstExpr 1]) b).map (fun c =>
              (sizeAbove
                  (exampleAfter ⟨[], []⟩ [⟨[ValueType.I32], []⟩]
                    [Event.OnI32ConstExpr 5, Event.OnLoopExpr (SigType.Index 0),
                      Event.OnI32ConstExpr 1]).m_vmStack b.m_vmStack.length
                + (if b.m_blockType = BlockType.Loop then c else 0), c))
          else Except.ok (0, 0) :=
  dropStackValuesBeforeBrIfNeeds_pair exampleTarget _ 0 (by decide!)

/-! ## The `End` record of a function-level branch and of `return` -/

namespace wabt.WASMBinaryReader

open Walrus

theorem map_drop_eq_range {α β : Type} (l : List α) (n : Nat) (f : α → β) (d : β)
    (hn : n ≤ l.length) :
    (l.drop (l.length - n)).map f
      = (List.range n).map (fun k => ((l[l.length - n + k]?).map f).getD d) := by
  apply List.ext_getElem?
  intro k
  simp only [List.getElem?_map, List.getElem?_drop, List.getElem?_range]
  by_cases hk : k < n
  · have hlt : l.length - n + k < l.length := by omega
    simp [List.getElem?_range hk, List.getElem?_eq_getElem hlt]
  · have hge : l.length ≤ l.length - n + k := by omega
    have hr : (List.range n)[k]? = none :=
      List.getElem?_eq_none (by rw [List.length_range]; omega)
    rw [List.getElem?_eq_none hge, hr]
    rfl

theorem generateEndCode_emits (t : Target) (s : WASMBinaryReader)
    (hn : s.m_currentFunctionType.result.length ≤ s.m_vmStack.length)
    (hfresh : ∀ x ∈ s.m_currentFunction.m_byteCode, x.1 ≠ s.m_currentFunction.m_byteCodeSize) :
    ∃ sE, generateEndCode t s = Except.ok ((), sE)
      ∧ sE.m_vmStack = s.m_vmStack
      ∧ sE.m_currentFunctionType = s.m_currentFunctionType
      ∧ sE.m_currentFunction.m_byteCode = s.m_currentFunction.m_byteCode
          ++ [(s.m_currentFunction.m_byteCodeSize, endRecordOfTop s)]
      ∧ sE.m_currentFunction.m_byteCodeSize = s.m_currentFunction.m_byteCodeSize + t.sizeofEnd
          + 2 * s.m_currentFunctionType.result.length := by
  refine ⟨_, generateEndCode_run t s hn hfresh, rfl, rfl, ?_, rfl⟩
  show s.m_currentFunction.m_byteCode ++ _ = _
  unfold endRecordOfTop topPositions
  rw [map_drop_eq_range s.m_vmStack _ (fun e => u16 e.m_position) (u16 0) hn]
  congr 4
  apply List.map_congr_left
  intro k _
  cases s.m_vmStack[s.m_vmStack.length - s.m_currentFunctionType.result.length + k]? <;> rfl

end wabt.WASMBinaryReader

open wabt Walrus wabt.WASMBinaryReader

/-- C17: `return` and `br d` with `d` the number of open blocks, run where no record of the
bytecode starts at its end and the sizes on the VM stack add up within `size_t`. When the
VM stack holds at least `n` entries, `n` the number of results of the function, both
succeed and append exactly one record at the end of the bytecode, the `End` record with
`n` offsets, `resultOffsets[k]` the position of the entry at index `stackSize - n + k`, and
the bytecode grows by `sizeof(End)` and two bytes per offset. When the VM stack holds fewer
than `n` entries, `br d` succeeds and leaves the bytecode as it is, and `return` emits
nothing and goes on to pop an empty VM stack, which is undefined. -/
theorem function_return_emits_end (t : Target) (s : WASMBinaryReader)
    (hfresh : ∀ x ∈ s.m_currentFunction.m_byteCode, x.1 ≠ s.m_currentFunction.m_byteCodeSize)
    (hsum : sizeAbove s.m_vmStack 0 < 18446744073709551616) :
    (s.m_currentFunctionType.result.length ≤ s.m_vmStack.length →
      (∃ s1, OnReturnExpr t s = Except.ok ((), s1)
        ∧ s1.m_currentFunction.m_byteCode = s.m_currentFunction.m_byteCode
            ++ [(s.m_currentFunction.m_byteCodeSize, endRecordOfTop s)]
        ∧ s1.m_currentFunction.m_byteCodeSize = s.m_currentFunction.m_byteCodeSize
            + t.sizeofEnd + 2 * s.m_currentFunctionType.result.length)
      ∧ (∃ s1, OnBrExpr t s.m_blockInfo.length s = Except.ok ((), s1)
        ∧ s1.m_currentFunction.m_byteCode = s.m_currentFunction.m_byteCode
            ++ [(s.m_currentFunction.m_byteCodeSize, endRecordOfTop s)]
        ∧ s1.m_currentFunction.m_byteCodeSize = s.m_currentFunction.m_byteCodeSize
            + t.sizeofEnd + 2 * s.m_currentFunctionType.result.length))
    ∧ (s.m_vmStack.length < s.m_currentFunctionType.result.length →
      OnReturnExpr t s = Except.error CompileError.undefined
      ∧ (∃ s1, OnBrExpr t s.m_blockInfo.length s = Except.ok ((), s1)
        ∧ s1.m_currentFunction.m_byteCode = s.m_currentFunction.m_byteCode
        ∧ s1.m_currentFunction.m_byteCodeSize = s.m_currentFunction.m_byteCodeSize)) := by
  have hbr : OnBrExpr t s.m_blockInfo.length s = generateFunctionReturnCode t true s := by
    unfold OnBrExpr
    simp only [getS_bind, if_true]
  constructor
  · intro hn
    obtain ⟨sE, hE, hst, hty, hcode, hsize⟩ := generateEndCode_emits t s hn hfresh
    constructor
    · obtain ⟨s1, h1, h2⟩ := generateFunctionReturnCode_keep_run t s sE hE hty (by rw [hst]; exact hn)
      exact ⟨s1, h1, h2.1.trans hcode, h2.2.trans hsize⟩
    · obtain ⟨s1, h1, h2⟩ := generateFunctionReturnCode_clear_run t s sE hE (by rw [hst]; exact hsum)
      exact ⟨s1, hbr.trans h1, h2.1.trans hcode, h2.2.trans hsize⟩
  · intro hn
    refine ⟨generateFunctionReturnCode_keep_short t s hn, ?_⟩
    obtain ⟨s1, h1, h2⟩ := generateFunctionReturnCode_clear_run t s s
      (generateEndCode_skip t s hn) hsum
    exact ⟨s1, hbr.trans h1, h2.1, h2.2⟩

/-- C17 at a concrete input: in the function `() -> (i32)` after `i32.const 7`, `return` and
`br 0` (no block is open) append `End 1 [0]` at byte 16 and the bytecode ends at byte 34. -/
theorem function_return_emits_end_witness :
    (∃ s1, OnReturnExpr exampleTarget
        (exampleAfter ⟨[], [ValueType.I32]⟩ [] [Event.OnI32ConstExpr 7]) = Except.ok ((), s1)
      ∧ s1.m_currentFunction.m_byteCode = [(0, ByteCode.Const32 0 7), (16, ByteCode.End 1 [0])]
      ∧ s1.m_currentFunction.m_byteCodeSize = 34)
    ∧ (∃ s1, OnBrExpr exampleTarget 0
        (exampleAfter ⟨[], [ValueType.I32]⟩ [] [Event.OnI32ConstExpr 7]) = Except.ok ((), s1)
      ∧ s1.m_currentFunction.m_byteCode = [(0, ByteCode.Const32 0 7), (16, ByteCode.End 1 [0])]
      ∧ s1.m_currentFunction.m_byteCodeSize = 34) := by
  obtain ⟨⟨s1, h1, h2, h3⟩, ⟨s2, h4, h5, h6⟩⟩ :=
    (function_return_emits_end exampleTarget
      (exampleAfter ⟨[], [ValueType.I32]⟩ [] [Event.OnI32ConstExpr 7])
      (by decide!) (by decide!)).1 (by decide!)
  exact ⟨⟨s1, h1, h2.trans (by decide!), h3.trans (by decide!)⟩,
    ⟨s2, h4, h5.trans (by decide!), h6.trans (by decide!)⟩⟩

/-! ## Stop-generating mode -/

open wabt Walrus wabt.WASMBinaryReader

/-- C18, evaluated on the code: in a function `() -> ()`, `block  br 1`, a branch to the
function level from inside a block. After `OnBrExpr(1)` the flag
`m_shouldContinueToGenerateByteCode` is still `true`,
`m_resumeGenerateByteCodeAfterNBlockEnd` is 0 and the block is marked neither
`m_byteCodeGenerationStopped` nor `m_shouldRestoreVMStackAtEnd`: the branch that "acts like
return" runs `generateFunctionReturnCode(true)`, which clears the VM stack and stops the
generation only when no block is open. `block  return` at the same place does enter the
stop-generating mode. The instructions after the branch are then compiled on the cleared
VM stack: in `block  i32.const 1  br 1  drop` the handler of `drop` pops an empty stack. -/
theorem function_level_br_in_block_keeps_generating :
    (compileExample ⟨[], []⟩ [] true
        [Event.OnBlockExpr SigType.Void, Event.OnBrExpr 1]).toOption.map
      (fun s => (s.m_shouldContinueToGenerateByteCode, s.m_resumeGenerateByteCodeAfterNBlockEnd,
        s.m_blockInfo.map
          (fun b => (b.m_byteCodeGenerationStopped, b.m_shouldRestoreVMStackAtEnd))))
      = some (true, 0, [(false, false)])
    ∧ (compileExample ⟨[], []⟩ [] true
        [Event.OnBlockExpr SigType.Void, Event.OnReturnExpr]).toOption.map
      (fun s => (s.m_shouldContinueToGenerateByteCode, s.m_resumeGenerateByteCodeAfterNBlockEnd,
        s.m_blockInfo.map
          (fun b => (b.m_byteCodeGenerationStopped, b.m_shouldRestoreVMStackAtEnd))))
      = some (false, 1, [(true, true)])
    ∧ (compileExample ⟨[], []⟩ [] true
        [Event.OnBlockExpr SigType.Void, Event.OnI32ConstExpr 1,
          Event.OnBrExpr 1]).toOption.map
      (fun s => (s.m_shouldContinueToGenerateByteCode, s.m_vmStack))
      = some (true, [])
    ∧ compileExample ⟨[], []⟩ [] true
        [Event.OnBlockExpr SigType.Void, Event.OnI32ConstExpr 1, Event.OnBrExpr 1,
          Event.OnDropExpr]
      = Except.error CompileError.undefined := by
  decide!

/-! ## `throw` -/

namespace wabt.WASMBinaryReader

open Walrus

theorem stopToGenerateByteCodeWhileBlockEnd_fields (s s1 : WASMBinaryReader)
    (h : stopToGenerateByteCodeWhileBlockEnd s = Except.ok ((), s1)) :
    s1.m_vmStack = s.m_vmStack ∧ s1.m_functionStackSizeSoFar = s.m_functionStackSizeSoFar
      ∧ s1.m_currentFunction = s.m_currentFunction := by
  unfold stopToGenerateByteCodeWhileBlockEnd at h
  simp only [getS_bind] at h
  split at h
  · simp only [run_pure, Except.ok.injEq, Prod.mk.injEq, true_and] at h
    subst h
    exact ⟨rfl, rfl, rfl⟩
  · split at h
    · simp only [run_modifyS, Except.ok.injEq, Prod.mk.injEq, true_and] at h
      subst h
      exact ⟨rfl, rfl, rfl⟩
    · simp only [run_modifyS, Except.ok.injEq, Prod.mk.injEq, true_and] at h
      subst h
      exact ⟨rfl, rfl, rfl⟩

theorem topPositions_eq (s : WASMBinaryReader) (n : Nat) (hn : n ≤ s.m_vmStack.length) :
    (s.m_vmStack.drop (s.m_vmStack.length - n)).map (fun e => u16 e.m_position)
      = topPositions s n := by
  unfold topPositions
  rw [map_drop_eq_range s.m_vmStack _ (fun e => u16 e.m_position) (u16 0) hn]
  apply List.map_congr_left
  intro k _
  cases s.m_vmStack[s.m_vmStack.length - n + k]? <;> rfl

theorem OnThrowExpr_eq (t : Target) (s : WASMBinaryReader) (tagIndex : Nat) (ft : FunctionType)
    (htag : tagIndex ≠ 4294967295) (hft : tagFunctionType s tagIndex = Except.ok ft)
    (hn : ft.param.length ≤ s.m_vmStack.length)
    (hfresh : ∀ x ∈ s.m_currentFunction.m_byteCode, x.1 ≠ s.m_currentFunction.m_byteCodeSize) :
    OnThrowExpr t tagIndex s
      = (do
          repeatM (do let _ ← popVMStack) ft.param.length
          stopToGenerateByteCodeWhileBlockEnd)
        (appendRecord t s
          (ByteCode.Throw tagIndex (u32 ft.param.length) (topPositions s ft.param.length))
          WASMOpcode.Throw (2 * ft.param.length)) := by
  have hn1 : ¬ (ft.param.length > s.m_vmStack.length) := by omega
  unfold OnThrowExpr
  simp only [getS_bind, currentByteCodeSize_bind, if_pos htag, hft, liftE_ok_bind,
    WASMBinaryReader.pushByteCode, WASMBinaryReader.expandByteCode, modifyS_bind, if_neg hn1]
  simp only [run_bind, pokeByteCode_eq, ModuleFunction.pushByteCode, ModuleFunction.expandByteCode,
    ModuleFunction.currentByteCodeSize, updateByteCode_append_new _ _ hfresh, setDataOffsets,
    Option.map_some', topPositions_eq s _ hn]
  rfl

end wabt.WASMBinaryReader

open wabt Walrus wabt.WASMBinaryReader

/-- C19: `OnThrowExpr(tag)`, run where no record of the bytecode starts at its end. When the
tag's signature has `n` parameters and the VM stack holds at least `n` entries, the handler
succeeds and appends exactly one record, `Throw` with `tagIndex = tag`, `n` offsets,
`dataOffsets[k]` the position of the entry at index `stackSize - n + k` before the throw,
and the VM stack loses exactly its top `n` entries. For the index 0xFFFFFFFF the record
has no offsets and the VM stack is unchanged. -/
theorem throw_captures_top_entries (t : Target) (s : WASMBinaryReader)
    (hfresh : ∀ x ∈ s.m_currentFunction.m_byteCode, x.1 ≠ s.m_currentFunction.m_byteCodeSize) :
    (∀ (tagIndex : Nat) (ft : FunctionType), tagIndex ≠ 4294967295 →
      tagFunctionType s tagIndex = Except.ok ft →
      ft.param.length ≤ s.m_vmStack.length →
      ∃ s1, OnThrowExpr t tagIndex s = Except.ok ((), s1)
        ∧ s1.m_currentFunction.m_byteCode = s.m_currentFunction.m_byteCode
            ++ [(s.m_currentFunction.m_byteCodeSize,
                ByteCode.Throw tagIndex (u32 ft.param.length)
                  (topPositions s ft.param.length))]
        ∧ s1.m_currentFunction.m_byteCodeSize
            = s.m_currentFunction.m_byteCodeSize + t.sizeofThrow + 2 * ft.param.length
        ∧ s1.m_vmStack = s.m_vmStack.take (s.m_vmStack.length - ft.param.length))
    ∧ (∃ s1, OnThrowExpr t 4294967295 s = Except.ok ((), s1)
        ∧ s1.m_currentFunction.m_byteCode = s.m_currentFunction.m_byteCode
            ++ [(s.m_currentFunction.m_byteCodeSize, ByteCode.Throw 4294967295 0 [])]
        ∧ s1.m_currentFunction.m_byteCodeSize
            = s.m_currentFunction.m_byteCodeSize + t.sizeofThrow
        ∧ s1.m_vmStack = s.m_vmStack) := by
  constructor
  · intro tagIndex ft htag hft hn
    obtain ⟨s2, h2, h3, -, h5⟩ := repeatM_popVMStack_run
      (s.m_vmStack.drop (s.m_vmStack.length - ft.param.length))
      (s.m_vmStack.take (s.m_vmStack.length - ft.param.length))
      (appendRecord t s
        (ByteCode.Throw tagIndex (u32 ft.param.length) (topPositions s ft.param.length))
        WASMOpcode.Throw (2 * ft.param.length))
      (List.take_append_drop _ _).symm
    have hlen : (s.m_vmStack.drop (s.m_vmStack.length - ft.param.length)).length
        = ft.param.length := by
      rw [List.length_drop]
      omega
    rw [hlen] at h2
    obtain ⟨s1, h6⟩ := stopToGenerateByteCodeWhileBlockEnd_ok s2
    obtain ⟨h7, -, h9⟩ := stopToGenerateByteCodeWhileBlockEnd_fields s2 s1 h6
    have h10 := h5.sameByteCode
    refine ⟨s1, ?_, ?_, ?_, h7.trans h3⟩
    · rw [OnThrowExpr_eq t s tagIndex ft htag hft hn hfresh]
      exact bind_run_ok h2 h6
    · rw [h9, h10.1]
      rfl
    · rw [h9, h10.2]
      rfl
  · obtain ⟨s1, h6⟩ := stopToGenerateByteCodeWhileBlockEnd_ok
      (appendRecord t s (ByteCode.Throw 4294967295 0 []) WASMOpcode.Throw 0)
    obtain ⟨h7, -, h9⟩ := stopToGenerateByteCodeWhileBlockEnd_fields _ s1 h6
    refine ⟨s1, ?_, ?_, ?_, h7⟩
    · unfold OnThrowExpr
      simp only [getS_bind, currentByteCodeSize_bind, ne_eq, not_true_eq_false, if_false,
        WASMBinaryReader.pushByteCode, modifyS_bind]
      exact h6
    · rw [h9]
      rfl
    · rw [h9]
      rfl

/-- C19 at a concrete input: in the example module, after `i32.const 1  i64.const 2`,
`throw 0` (the tag takes an `i32` and an `i64`) appends `Throw 0 2 [0, 4]` at byte 40,
the bytecode ends at byte 60 and the VM stack is empty. -/
theorem throw_captures_top_entries_witness :
    ∃ s1, OnThrowExpr exampleTarget 0
        (exampleModuleReader [Event.OnI32ConstExpr 1, Event.OnI64ConstExpr 2])
        = Except.ok ((), s1)
      ∧ s1.m_currentFunction.m_byteCode
          = [(0, ByteCode.Const32 0 1), (16, ByteCode.Const64 4 2),
              (40, ByteCode.Throw 0 2 [0, 4])]
      ∧ s1.m_currentFunction.m_byteCodeSize = 60
      ∧ s1.m_vmStack = [] := by
  obtain ⟨s1, h1, h2, h3, h4⟩ :=
    (throw_captures_top_entries exampleTarget
      (exampleModuleReader [Event.OnI32ConstExpr 1, Event.OnI64ConstExpr 2])
      (by decide!)).1 0 ⟨[ValueType.I32, ValueType.I64], [ValueType.I32]⟩ (by decide)
      (by decide!) (by decide!)
  exact ⟨s1, h1, h2.trans (by decide!), h3.trans (by decide!), h4.trans (by decide!)⟩

/-! ## `call` -/

namespace wabt.WASMBinaryReader

open Walrus

theorem pushVMStack_run (size : Nat) (s : WASMBinaryReader)
    (hfit : s.m_functionStackSizeSoFar + size ≤ 65535) :
    pushVMStack size s = Except.ok (s.m_functionStackSizeSoFar, { s with
      m_vmStack := s.m_vmStack
        ++ [⟨size, s.m_functionStackSizeSoFar, s.m_functionStackSizeSoFar, none⟩]
      m_functionStackSizeSoFar := s.m_functionStackSizeSoFar + size
      m_currentFunction := { s.m_currentFunction with
        m_requiredStackSize := max s.m_currentFunction.m_requiredStackSize
          (s.m_functionStackSizeSoFar + size) } }) := by
  have h32 : u32 (s.m_functionStackSizeSoFar + size) = s.m_functionStackSizeSoFar + size := by
    unfold u32
    omega
  have hlim : ¬ (s.m_functionStackSizeSoFar + size > 65535) := by omega
  unfold pushVMStack pushVMStackAt
  simp only [run_bind, run_getS, h32]
  rw [if_neg hlim]
  simp only [run_modifyS, run_pure, h32, increaseRefCountIfNeeds]

theorem pushVMStackKinds_run (t : Target) (kinds : List ValueType) :
    ∀ (s : WASMBinaryReader),
      s.m_functionStackSizeSoFar + (kinds.map (valueSizeInStack t.sizeofPointer)).sum ≤ 65535 →
      ∃ s1, pushVMStackKinds t kinds s
          = Except.ok (consecutivePositions s.m_functionStackSizeSoFar
              (kinds.map (valueSizeInStack t.sizeofPointer)), s1)
        ∧ s1.m_vmStack = s.m_vmStack ++ freshEntries s.m_functionStackSizeSoFar
            (kinds.map (valueSizeInStack t.sizeofPointer))
        ∧ s1.m_functionStackSizeSoFar = s.m_functionStackSizeSoFar
            + (kinds.map (valueSizeInStack t.sizeofPointer)).sum
        ∧ SameByteCode s s1 := by
  induction kinds with
  | nil =>
    intro s _
    exact ⟨s, rfl, by simp [freshEntries], by simp, rfl, rfl⟩
  | cons k rest ih =>
    intro s hfit
    simp only [List.map_cons, List.sum_cons] at hfit ⊢
    have h1 := pushVMStack_run (valueSizeInStack t.sizeofPointer k) s (by omega)
    obtain ⟨s1, h2, h3, h4, h5⟩ := ih _ (show ({ s with
      m_vmStack := s.m_vmStack ++ [⟨valueSizeInStack t.sizeofPointer k,
        s.m_functionStackSizeSoFar, s.m_functionStackSizeSoFar, none⟩]
      m_functionStackSizeSoFar := s.m_functionStackSizeSoFar
        + valueSizeInStack t.sizeofPointer k
      m_currentFunction := { s.m_currentFunction with
        m_requiredStackSize := max s.m_currentFunction.m_requiredStackSize
          (s.m_functionStackSizeSoFar + valueSizeInStack t.sizeofPointer k) } }
        : WASMBinaryReader).m_functionStackSizeSoFar
          + (rest.map (valueSizeInStack t.sizeofPointer)).sum ≤ 65535 from by
        show s.m_functionStackSizeSoFar + valueSizeInStack t.sizeofPointer k + _ ≤ 65535
        omega)
    refine ⟨s1, ?_, ?_, ?_, ?_⟩
    · unfold pushVMStackKinds
      exact bind_run_ok h1 (bind_run_ok h2 rfl)
    · rw [h3]
      show (s.m_vmStack ++ [_]) ++ _ = _
      rw [List.append_assoc]
      rfl
    · rw [h4]
      show s.m_functionStackSizeSoFar + _ + _ = _
      omega
    · exact ⟨h5.1, h5.2⟩

theorem OnCallExpr_eq (t : Target) (s : WASMBinaryReader) (index : Nat) (mf : ModuleFunction)
    (hf : s.m_result.m_functions[index]? = some mf) :
    OnCallExpr t index s
      = (do
          let args ← popVMStackArgs mf.m_functionType.param.length
          let results ← pushVMStackKinds t mf.m_functionType.result
          pokeByteCode s.m_currentFunction.m_byteCodeSize
            (setStackOffsets ((args ++ results).map u16)))
        (appendRecord t s
          (ByteCode.Call index
            (u32 (mf.m_functionType.param.length + mf.m_functionType.result.length))
            (List.replicate
              (mf.m_functionType.param.length + mf.m_functionType.result.length) 0))
          WASMOpcode.Call
          (2 * (mf.m_functionType.param.length + mf.m_functionType.result.length))) := by
  unfold OnCallExpr
  simp only [getS_bind, elemAt_eq_ok.mpr hf, liftE_ok_bind, currentByteCodeSize_bind,
    WASMBinaryReader.pushByteCode, WASMBinaryReader.expandByteCode, modifyS_bind]
  rfl

end wabt.WASMBinaryReader

open wabt Walrus wabt.WASMBinaryReader

/-- C20: `OnCallExpr(f)`, run where no record of the bytecode starts at its end, the type of
`f` has `p` parameters and `r` results, the VM stack ends in the `p` entries `args` and
the results fit under the stack limit at the watermark `w` reached after popping the
arguments. The handler succeeds and appends exactly one record, `Call` with
`funcIndex = f`, `count = p + r` and the offsets: first the positions of `args` in source
order, then the positions of the results, consecutive from `w`. Afterwards the VM stack
is the old one without `args`, followed by the `r` freshly allocated result entries. -/
theorem call_record_lists_arguments_then_results (t : Target) (s : WASMBinaryReader)
    (index : Nat) (mf : ModuleFunction) (l args : List VMStackInfo)
    (hfresh : ∀ x ∈ s.m_currentFunction.m_byteCode, x.1 ≠ s.m_currentFunction.m_byteCodeSize)
    (hf : s.m_result.m_functions[index]? = some mf)
    (hstack : s.m_vmStack = l ++ args)
    (hargs : args.length = mf.m_functionType.param.length)
    (hfit : watermarkAfterPops s.m_functionStackSizeSoFar args
      + (mf.m_functionType.result.map (valueSizeInStack t.sizeofPointer)).sum ≤ 65535) :
    ∃ s1, OnCallExpr t index s = Except.ok ((), s1)
      ∧ s1.m_currentFunction.m_byteCode = s.m_currentFunction.m_byteCode
          ++ [(s.m_currentFunction.m_byteCodeSize,
              ByteCode.Call index
                (u32 (mf.m_functionType.param.length + mf.m_functionType.result.length))
                ((args.map (fun e => e.m_position)
                  ++ consecutivePositions
                      (watermarkAfterPops s.m_functionStackSizeSoFar args)
                      (mf.m_functionType.result.map (valueSizeInStack t.sizeofPointer))).map
                  u16))]
      ∧ s1.m_currentFunction.m_byteCodeSize = s.m_currentFunction.m_byteCodeSize + t.sizeofCall
          + 2 * (mf.m_functionType.param.length + mf.m_functionType.result.length)
      ∧ s1.m_vmStack = l ++ freshEntries (watermarkAfterPops s.m_functionStackSizeSoFar args)
          (mf.m_functionType.result.map (valueSizeInStack t.sizeofPointer))
      ∧ s1.m_functionStackSizeSoFar = watermarkAfterPops s.m_functionStackSizeSoFar args
          + (mf.m_functionType.result.map (valueSizeInStack t.sizeofPointer)).sum := by
  obtain ⟨sA, hA1, hA2, hA3, hA4⟩ := popVMStackArgs_run args l
    (appendRecord t s
      (ByteCode.Call index
        (u32 (mf.m_functionType.param.length + mf.m_functionType.result.length))
        (List.replicate (mf.m_functionType.param.length + mf.m_functionType.result.length) 0))
      WASMOpcode.Call
      (2 * (mf.m_functionType.param.length + mf.m_functionType.result.length))) hstack
  rw [hargs] at hA1
  have hA5 : sA.m_functionStackSizeSoFar
      = watermarkAfterPops s.m_functionStackSizeSoFar args := hA3
  obtain ⟨sB, hB1, hB2, hB3, hB4⟩ := pushVMStackKinds_run t mf.m_functionType.result sA
    (by rw [hA5]; exact hfit)
  have hcode : sB.m_currentFunction.m_byteCode = s.m_currentFunction.m_byteCode
      ++ [(s.m_currentFunction.m_byteCodeSize,
          ByteCode.Call index
            (u32 (mf.m_functionType.param.length + mf.m_functionType.result.length))
            (List.replicate
              (mf.m_functionType.param.length + mf.m_functionType.result.length) 0))] := by
    rw [hB4.1, hA4.sameByteCode.1]
    simp only [appendRecord]
  have hsize : sB.m_currentFunction.m_byteCodeSize = s.m_currentFunction.m_byteCodeSize
      + t.sizeofCall
      + 2 * (mf.m_functionType.param.length + mf.m_functionType.result.length) := by
    rw [hB4.2, hA4.sameByteCode.2]
    simp only [appendRecord, Target.sizeof]
  refine ⟨{ sB with m_currentFunction := { sB.m_currentFunction with
    m_byteCode := s.m_currentFunction.m_byteCode
      ++ [(s.m_currentFunction.m_byteCodeSize,
          ByteCode.Call index
            (u32 (mf.m_functionType.param.length + mf.m_functionType.result.length))
            ((args.map (fun e => e.m_position)
              ++ consecutivePositions
                  (watermarkAfterPops s.m_functionStackSizeSoFar args)
                  (mf.m_functionType.result.map (valueSizeInStack t.sizeofPointer))).map
              u16))] } }, ?_, rfl, hsize, ?_, ?_⟩
  · rw [OnCallExpr_eq t s index mf hf]
    refine bind_run_ok hA1 (bind_run_ok hB1 ?_)
    rw [pokeByteCode_eq, hcode, updateByteCode_append_new _ _ hfresh, hA5]
    rfl
  · show sB.m_vmStack = _
    rw [hB2, hA2, hA5]
  · show sB.m_functionStackSizeSoFar = _
    rw [hB3, hA5]

/-- C20 at a concrete input: in the module whose function 0 has the type
`(param i32 i64) (result i32)`, `call 0` after `i32.const 1; i64.const 2` appends
`Call 0` with the three offsets 0, 4 (the arguments) and 0 (the result, allocated at the
watermark left by the two pops), and leaves the result entry alone on the VM stack. -/
theorem call_record_lists_arguments_then_results_witness :
    ∃ s1, OnCallExpr exampleTarget 0
        (exampleModuleReader [Event.OnI32ConstExpr 1, Event.OnI64ConstExpr 2])
        = Except.ok ((), s1)
      ∧ s1.m_currentFunction.m_byteCode
          = [(0, ByteCode.Const32 0 1), (16, ByteCode.Const64 4 2),
              (40, ByteCode.Call 0 3 [0, 4, 0])]
      ∧ s1.m_currentFunction.m_byteCodeSize = 62
      ∧ s1.m_vmStack = [⟨4, 0, 0, none⟩]
      ∧ s1.m_functionStackSizeSoFar = 4 := by
  have h := call_record_lists_arguments_then_results exampleTarget
    (exampleModuleReader [Event.OnI32ConstExpr 1, Event.OnI64ConstExpr 2]) 0
    { m_functionType := ⟨[ValueType.I32, ValueType.I64], [ValueType.I32]⟩ }
    [] [⟨4, 0, 0, none⟩, ⟨8, 4, 4, none⟩]
    (by decide!) (by decide!) (by decide!) (by decide!) (by decide!)
  obtain ⟨s1, h1, h2, h3, h4, h5⟩ := h
  refine ⟨s1, h1, ?_, ?_, ?_, ?_⟩
  · rw [h2]
    decide!
  · rw [h3]
    decide!
  · rw [h4]
    decide!
  · rw [h5]
    decide!

/-! ## Handlers that keep the open blocks and the catch infos -/

set_option linter.unusedTactic false
set_option linter.unreachableTactic false

namespace wabt

open Walrus

instance : IsRefl WASMBinaryReader KeepsBlocks := ⟨fun _ => ⟨rfl, rfl, rfl, Nat.le_refl _⟩⟩

instance : IsTrans WASMBinaryReader KeepsBlocks :=
  ⟨fun _ _ _ h1 h2 =>
    ⟨h2.1.trans h1.1, h2.2.1.trans h1.2.1, h2.2.2.1.trans h1.2.2.1,
      Nat.le_trans h1.2.2.2 h2.2.2.2⟩⟩

theorem map_shape_modifyAt {f : BlockInfo → BlockInfo}
    (hf : ∀ b, (f b).shape = b.shape) (i : Nat) (l : List BlockInfo) :
    (WASMBinaryReader.modifyAt f i l).map BlockInfo.shape = l.map BlockInfo.shape := by
  induction l generalizing i with
  | nil => cases i <;> rfl
  | cons x xs ih =>
    cases i with
    | zero => simp [WASMBinaryReader.modifyAt, hf]
    | succ n => simp [WASMBinaryReader.modifyAt, ih]

theorem keepsBlocks_of_modifyAt (s s1 : WASMBinaryReader) (f : BlockInfo → BlockInfo) (i : Nat)
    (hf : ∀ b, (f b).shape = b.shape)
    (hb : s1.m_blockInfo = WASMBinaryReader.modifyAt f i s.m_blockInfo)
    (hc : s1.m_catchInfo = s.m_catchInfo)
    (hm : s1.m_currentFunction = s.m_currentFunction) : KeepsBlocks s s1 :=
  ⟨by rw [hb, map_shape_modifyAt hf], hc, by rw [hm], by rw [hm]⟩

end wabt

namespace wabt.WASMBinaryReader

open Walrus

theorem modifyBlockAtDepth_keepsBlocks (depth : Nat) (f : BlockInfo → BlockInfo)
    (hf : ∀ b, (f b).shape = b.shape) :
    Preserves KeepsBlocks (modifyBlockAtDepth depth f) := by
  intro s a s1 h
  simp only [modifyBlockAtDepth, run_modifyS, Except.ok.injEq, Prod.mk.injEq] at h
  obtain ⟨_, rfl⟩ := h
  exact keepsBlocks_of_modifyAt _ _ _ _ hf rfl rfl rfl

theorem pushVMStackAt_keepsBlocks (size pos : Nat) (li : Option Nat) :
    Preserves KeepsBlocks (pushVMStackAt size pos li) := by
  simp only [pushVMStackAt]
  repeat (first
    | with_reducible apply Preserves.getS
    | with_reducible apply Preserves.pure
    | with_reducible apply Preserves.failM
    | with_reducible apply Preserves.liftE
    | ((with_reducible apply Preserves.modifyS); intro s; exact ⟨rfl, rfl, rfl, Nat.le_refl _⟩)
    | ((with_reducible apply Preserves.modifyS); intro s;
        exact ⟨rfl, rfl, rfl, Nat.le_add_right _ _⟩)
    | ((with_reducible apply Preserves.modifyS); intro s;
        refine keepsBlocks_of_modifyAt _ _ _ _ ?_ rfl rfl rfl; exact fun _ => rfl)
    | with_reducible refine Preserves.forEachM (fun _ => ?_) _
    | with_reducible refine Preserves.repeatM ?_ _
    | with_reducible refine Preserves.bind ?_ (fun _ => ?_)
    | split
    | dsimp only)

theorem pushVMStack_keepsBlocks (size : Nat) :
    Preserves KeepsBlocks (pushVMStack size) := by
  simp only [pushVMStack]
  repeat (first
    | with_reducible apply Preserves.getS
    | with_reducible apply Preserves.pure
    | with_reducible apply Preserves.failM
    | with_reducible apply Preserves.liftE
    | ((with_reducible apply Preserves.modifyS); intro s; exact ⟨rfl, rfl, rfl, Nat.le_refl _⟩)
    | ((with_reducible apply Preserves.modifyS); intro s;
        exact ⟨rfl, rfl, rfl, Nat.le_add_right _ _⟩)
    | ((with_reducible apply Preserves.modifyS); intro s;
        refine keepsBlocks_of_modifyAt _ _ _ _ ?_ rfl rfl rfl; exact fun _ => rfl)
    | with_reducible apply pushVMStackAt_keepsBlocks
    | with_reducible refine Preserves.forEachM (fun _ => ?_) _
    | with_reducible refine Preserves.repeatM ?_ _
    | with_reducible refine Preserves.bind ?_ (fun _ => ?_)
    | split
    | dsimp only)

theorem popVMStackInfo_keepsBlocks :
    Preserves KeepsBlocks (popVMStackInfo) := by
  simp only [popVMStackInfo]
  repeat (first
    | with_reducible apply Preserves.getS
    | with_reducible apply Preserves.pure
    | with_reducible apply Preserves.failM
    | with_reducible apply Preserves.liftE
    | ((with_reducible apply Preserves.modifyS); intro s; exact ⟨rfl, rfl, rfl, Nat.le_refl _⟩)
    | ((with_reducible apply Preserves.modifyS); intro s;
        exact ⟨rfl, rfl, rfl, Nat.le_add_right _ _⟩)
    | ((with_reducible apply Preserves.modifyS); intro s;
        refine keepsBlocks_of_modifyAt _ _ _ _ ?_ rfl rfl rfl; exact fun _ => rfl)
    | with_reducible refine Preserves.forEachM (fun _ => ?_) _
    | with_reducible refine Preserves.repeatM ?_ _
    | with_reducible refine Preserves.bind ?_ (fun _ => ?_)
    | split
    | dsimp only)

theorem popVMStackSize_keepsBlocks :
    Preserves KeepsBlocks (popVMStackSize) := by
  simp only [popVMStackSize]
  repeat (first
    | with_reducible apply Preserves.getS
    | with_reducible apply Preserves.pure
    | with_reducible apply Preserves.failM
    | with_reducible apply Preserves.liftE
    | ((with_reducible apply Preserves.modifyS); intro s; exact ⟨rfl, rfl, rfl, Nat.le_refl _⟩)
    | ((with_reducible apply Preserves.modifyS); intro s;
        exact ⟨rfl, rfl, rfl, Nat.le_add_right _ _⟩)
    | ((with_reducible apply Preserves.modifyS); intro s;
        refine keepsBlocks_of_modifyAt _ _ _ _ ?_ rfl rfl rfl; exact fun _ => rfl)
    | with_reducible apply popVMStackInfo_keepsBlocks
    | with_reducible refine Preserves.forEachM (fun _ => ?_) _
    | with_reducible refine Preserves.repeatM ?_ _
    | with_reducible refine Preserves.bind ?_ (fun _ => ?_)
    | split
    | dsimp only)

theorem popVMStack_keepsBlocks :
    Preserves KeepsBlocks (popVMStack) := by
  simp only [popVMStack]
  repeat (first
    | with_reducible apply Preserves.getS
    | with_reducible apply Preserves.pure
    | with_reducible apply Preserves.failM
    | with_reducible apply Preserves.liftE
    | ((with_reducible apply Preserves.modifyS); intro s; exact ⟨rfl, rfl, rfl, Nat.le_refl _⟩)
    | ((with_reducible apply Preserves.modifyS); intro s;
        exact ⟨rfl, rfl, rfl, Nat.le_add_right _ _⟩)
    | ((with_reducible apply Preserves.modifyS); intro s;
        refine keepsBlocks_of_modifyAt _ _ _ _ ?_ rfl rfl rfl; exact fun _ => rfl)
    | with_reducible apply popVMStackInfo_keepsBlocks
    | with_reducible refine Preserves.forEachM (fun _ => ?_) _
    | with_reducible refine Preserves.repeatM ?_ _
    | with_reducible refine Preserves.bind ?_ (fun _ => ?_)
    | split
    | dsimp only)

theorem peekVMStackInfo_keepsBlocks :
    Preserves KeepsBlocks (peekVMStackInfo) := by
  simp only [peekVMStackInfo]
  repeat (first
    | with_reducible apply Preserves.getS
    | with_reducible apply Preserves.pure
    | with_reducible apply Preserves.failM
    | with_reducible apply Preserves.liftE
    | ((with_reducible apply Preserves.modifyS); intro s; exact ⟨rfl, rfl, rfl, Nat.le_refl _⟩)
    | ((with_reducible apply Preserves.modifyS); intro s;
        exact ⟨rfl, rfl, rfl, Nat.le_add_right _ _⟩)
    | ((with_reducible apply Preserves.modifyS); intro s;
        refine keepsBlocks_of_modifyAt _ _ _ _ ?_ rfl rfl rfl; exact fun _ => rfl)
    | with_reducible refine Preserves.forEachM (fun _ => ?_) _
    | with_reducible refine Preserves.repeatM ?_ _
    | with_reducible refine Preserves.bind ?_ (fun _ => ?_)
    | split
    | dsimp only)

theorem peekVMStackSize_keepsBlocks :
    Preserves KeepsBlocks (peekVMStackSize) := by
  simp only [peekVMStackSize]
  repeat (first
    | with_reducible apply Preserves.getS
    | with_reducible apply Preserves.pure
    | with_reducible apply Preserves.failM
    | with_reducible apply Preserves.liftE
    | ((with_reducible apply Preserves.modifyS); intro s; exact ⟨rfl, rfl, rfl, Nat.le_refl _⟩)
    | ((with_reducible apply Preserves.modifyS); intro s;
        exact ⟨rfl, rfl, rfl, Nat.le_add_right _ _⟩)
    | ((with_reducible apply Preserves.modifyS); intro s;
        refine keepsBlocks_of_modifyAt _ _ _ _ ?_ rfl rfl rfl; exact fun _ => rfl)
    | with_reducible apply peekVMStackInfo_keepsBlocks
    | with_reducible refine Preserves.forEachM (fun _ => ?_) _
    | with_reducible refine Preserves.repeatM ?_ _
    | with_reducible refine Preserves.bind ?_ (fun _ => ?_)
    | split
    | dsimp only)

theorem peekVMStack_keepsBlocks :
    Preserves KeepsBlocks (peekVMStack) := by
  simp only [peekVMStack]
  repeat (first
    | with_reducible apply Preserves.getS
    | with_reducible apply Preserves.pure
    | with_reducible apply Preserves.failM
    | with_reducible apply Preserves.liftE
    | ((with_reducible apply Preserves.modifyS); intro s; exact ⟨rfl, rfl, rfl, Nat.le_refl _⟩)
    | ((with_reducible apply Preserves.modifyS); intro s;
        exact ⟨rfl, rfl, rfl, Nat.le_add_right _ _⟩)
    | ((with_reducible apply Preserves.modifyS); intro s;
        refine keepsBlocks_of_modifyAt _ _ _ _ ?_ rfl rfl rfl; exact fun _ => rfl)
    | with_reducible apply peekVMStackInfo_keepsBlocks
    | with_reducible refine Preserves.forEachM (fun _ => ?_) _
    | with_reducible refine Preserves.repeatM ?_ _
    | with_reducible refine Preserves.bind ?_ (fun _ => ?_)
    | split
    | dsimp only)

theorem pushByteCode_keepsBlocks (t : Target) (code : ByteCode) (op : WASMOpcode) :
    Preserves KeepsBlocks (pushByteCode t code op) := by
  simp only [pushByteCode]
  repeat (first
    | with_reducible apply Preserves.getS
    | with_reducible apply Preserves.pure
    | with_reducible apply Preserves.failM
    | with_reducible apply Preserves.liftE
    | ((with_reducible apply Preserves.modifyS); intro s; exact ⟨rfl, rfl, rfl, Nat.le_refl _⟩)
    | ((with_reducible apply Preserves.modifyS); intro s;
        exact ⟨rfl, rfl, rfl, Nat.le_add_right _ _⟩)
    | ((with_reducible apply Preserves.modifyS); intro s;
        refine keepsBlocks_of_modifyAt _ _ _ _ ?_ rfl rfl rfl; exact fun _ => rfl)
    | with_reducible refine Preserves.forEachM (fun _ => ?_) _
    | with_reducible refine Preserves.repeatM ?_ _
    | with_reducible refine Preserves.bind ?_ (fun _ => ?_)
    | split
    | dsimp only)

theorem expandByteCode_keepsBlocks (n : Nat) :
    Preserves KeepsBlocks (expandByteCode n) := by
  simp only [expandByteCode]
  repeat (first
    | with_reducible apply Preserves.getS
    | with_reducible apply Preserves.pure
    | with_reducible apply Preserves.failM
    | with_reducible apply Preserves.liftE
    | ((with_reducible apply Preserves.modifyS); intro s; exact ⟨rfl, rfl, rfl, Nat.le_refl _⟩)
    | ((with_reducible apply Preserves.modifyS); intro s;
        exact ⟨rfl, rfl, rfl, Nat.le_add_right _ _⟩)
    | ((with_reducible apply Preserves.modifyS); intro s;
        refine keepsBlocks_of_modifyAt _ _ _ _ ?_ rfl rfl rfl; exact fun _ => rfl)
    | with_reducible refine Preserves.forEachM (fun _ => ?_) _
    | with_reducible refine Preserves.repeatM ?_ _
    | with_reducible refine Preserves.bind ?_ (fun _ => ?_)
    | split
    | dsimp only)

theorem currentByteCodeSize_keepsBlocks :
    Preserves KeepsBlocks (currentByteCodeSize) := by
  simp only [currentByteCodeSize]
  repeat (first
    | with_reducible apply Preserves.getS
    | with_reducible apply Preserves.pure
    | with_reducible apply Preserves.failM
    | with_reducible apply Preserves.liftE
    | ((with_reducible apply Preserves.modifyS); intro s; exact ⟨rfl, rfl, rfl, Nat.le_refl _⟩)
    | ((with_reducible apply Preserves.modifyS); intro s;
        exact ⟨rfl, rfl, rfl, Nat.le_add_right _ _⟩)
    | ((with_reducible apply Preserves.modifyS); intro s;
        refine keepsBlocks_of_modifyAt _ _ _ _ ?_ rfl rfl rfl; exact fun _ => rfl)
    | with_reducible refine Preserves.forEachM (fun _ => ?_) _
    | with_reducible refine Preserves.repeatM ?_ _
    | with_reducible refine Preserves.bind ?_ (fun _ => ?_)
    | split
    | dsimp only)

theorem pokeByteCode_keepsBlocks (pos : Nat) (f : ByteCode → Option ByteCode) :
    Preserves KeepsBlocks (pokeByteCode pos f) := by
  simp only [pokeByteCode]
  repeat (first
    | with_reducible apply Preserves.getS
    | with_reducible apply Preserves.pure
    | with_reducible apply Preserves.failM
    | with_reducible apply Preserves.liftE
    | ((with_reducible apply Preserves.modifyS); intro s; exact ⟨rfl, rfl, rfl, Nat.le_refl _⟩)
    | ((with_reducible apply Preserves.modifyS); intro s;
        exact ⟨rfl, rfl, rfl, Nat.le_add_right _ _⟩)
    | ((with_reducible apply Preserves.modifyS); intro s;
        refine keepsBlocks_of_modifyAt _ _ _ _ ?_ rfl rfl rfl; exact fun _ => rfl)
    | with_reducible refine Preserves.forEachM (fun _ => ?_) _
    | with_reducible refine Preserves.repeatM ?_ _
    | with_reducible refine Preserves.bind ?_ (fun _ => ?_)
    | split
    | dsimp only)

theorem pokeInt32_keepsBlocks (t : Target) (pos : Nat) (f : Int → Int) :
    Preserves KeepsBlocks (pokeInt32 t pos f) := by
  simp only [pokeInt32]
  repeat (first
    | with_reducible apply Preserves.getS
    | with_reducible apply Preserves.pure
    | with_reducible apply Preserves.failM
    | with_reducible apply Preserves.liftE
    | ((with_reducible apply Preserves.modifyS); intro s; exact ⟨rfl, rfl, rfl, Nat.le_refl _⟩)
    | ((with_reducible apply Preserves.modifyS); intro s;
        exact ⟨rfl, rfl, rfl, Nat.le_add_right _ _⟩)
    | ((with_reducible apply Preserves.modifyS); intro s;
        refine keepsBlocks_of_modifyAt _ _ _ _ ?_ rfl rfl rfl; exact fun _ => rfl)
    | with_reducible refine Preserves.forEachM (fun _ => ?_) _
    | with_reducible refine Preserves.repeatM ?_ _
    | with_reducible refine Preserves.bind ?_ (fun _ => ?_)
    | split
    | dsimp only)

theorem generateMoveCodeIfNeeds_keepsBlocks (t : Target) (a b c : Nat) :
    Preserves KeepsBlocks (generateMoveCodeIfNeeds t a b c) := by
  simp only [generateMoveCodeIfNeeds]
  repeat (first
    | with_reducible apply Preserves.getS
    | with_reducible apply Preserves.pure
    | with_reducible apply Preserves.failM
    | with_reducible apply Preserves.liftE
    | ((with_reducible apply Preserves.modifyS); intro s; exact ⟨rfl, rfl, rfl, Nat.le_refl _⟩)
    | ((with_reducible apply Preserves.modifyS); intro s;
        exact ⟨rfl, rfl, rfl, Nat.le_add_right _ _⟩)
    | ((with_reducible apply Preserves.modifyS); intro s;
        refine keepsBlocks_of_modifyAt _ _ _ _ ?_ rfl rfl rfl; exact fun _ => rfl)
    | with_reducible apply pushByteCode_keepsBlocks
    | with_reducible refine Preserves.forEachM (fun _ => ?_) _
    | with_reducible refine Preserves.repeatM ?_ _
    | with_reducible refine Preserves.bind ?_ (fun _ => ?_)
    | split
    | dsimp only)

theorem omitUpdateLocalValueIfPossible_keepsBlocks (t : Target) (i : Nat) (r : Nat × Nat) (e : VMStackInfo) :
    Preserves KeepsBlocks (omitUpdateLocalValueIfPossible t i r e) := by
  simp only [omitUpdateLocalValueIfPossible]
  repeat (first
    | with_reducible apply Preserves.getS
    | with_reducible apply Preserves.pure
    | with_reducible apply Preserves.failM
    | with_reducible apply Preserves.liftE
    | ((with_reducible apply Preserves.modifyS); intro s; exact ⟨rfl, rfl, rfl, Nat.le_refl _⟩)
    | ((with_reducible apply Preserves.modifyS); intro s;
        exact ⟨rfl, rfl, rfl, Nat.le_add_right _ _⟩)
    | ((with_reducible apply Preserves.modifyS); intro s;
        refine keepsBlocks_of_modifyAt _ _ _ _ ?_ rfl rfl rfl; exact fun _ => rfl)
    | with_reducible apply pokeByteCode_keepsBlocks
    | with_reducible refine Preserves.forEachM (fun _ => ?_) _
    | with_reducible refine Preserves.repeatM ?_ _
    | with_reducible refine Preserves.bind ?_ (fun _ => ?_)
    | split
    | dsimp only)

theorem newBlockInfo_keepsBlocks (t : Target) (ty : BlockType) (sig : SigType) :
    Preserves KeepsBlocks (newBlockInfo t ty sig) := by
  simp only [newBlockInfo]
  repeat (first
    | with_reducible apply Preserves.getS
    | with_reducible apply Preserves.pure
    | with_reducible apply Preserves.failM
    | with_reducible apply Preserves.liftE
    | ((with_reducible apply Preserves.modifyS); intro s; exact ⟨rfl, rfl, rfl, Nat.le_refl _⟩)
    | ((with_reducible apply Preserves.modifyS); intro s;
        exact ⟨rfl, rfl, rfl, Nat.le_add_right _ _⟩)
    | ((with_reducible apply Preserves.modifyS); intro s;
        refine keepsBlocks_of_modifyAt _ _ _ _ ?_ rfl rfl rfl; exact fun _ => rfl)
    | with_reducible apply generateMoveCodeIfNeeds_keepsBlocks
    | with_reducible apply currentByteCodeSize_keepsBlocks
    | with_reducible refine Preserves.forEachM (fun _ => ?_) _
    | with_reducible refine Preserves.repeatM ?_ _
    | with_reducible refine Preserves.bind ?_ (fun _ => ?_)
    | split
    | dsimp only)

theorem restoreVMStackBy_keepsBlocks (b : BlockInfo) :
    Preserves KeepsBlocks (restoreVMStackBy b) := by
  simp only [restoreVMStackBy]
  repeat (first
    | with_reducible apply Preserves.getS
    | with_reducible apply Preserves.pure
    | with_reducible apply Preserves.failM
    | with_reducible apply Preserves.liftE
    | ((with_reducible apply Preserves.modifyS); intro s; exact ⟨rfl, rfl, rfl, Nat.le_refl _⟩)
    | ((with_reducible apply Preserves.modifyS); intro s;
        exact ⟨rfl, rfl, rfl, Nat.le_add_right _ _⟩)
    | ((with_reducible apply Preserves.modifyS); intro s;
        refine keepsBlocks_of_modifyAt _ _ _ _ ?_ rfl rfl rfl; exact fun _ => rfl)
    | with_reducible refine Preserves.forEachM (fun _ => ?_) _
    | with_reducible refine Preserves.repeatM ?_ _
    | with_reducible refine Preserves.bind ?_ (fun _ => ?_)
    | split
    | dsimp only)

theorem restoreVMStackRegardToPartOfBlockEnd_keepsBlocks (b : BlockInfo) :
    Preserves KeepsBlocks (restoreVMStackRegardToPartOfBlockEnd b) := by
  simp only [restoreVMStackRegardToPartOfBlockEnd]
  repeat (first
    | with_reducible apply Preserves.getS
    | with_reducible apply Preserves.pure
    | with_reducible apply Preserves.failM
    | with_reducible apply Preserves.liftE
    | ((with_reducible apply Preserves.modifyS); intro s; exact ⟨rfl, rfl, rfl, Nat.le_refl _⟩)
    | ((with_reducible apply Preserves.modifyS); intro s;
        exact ⟨rfl, rfl, rfl, Nat.le_add_right _ _⟩)
    | ((with_reducible apply Preserves.modifyS); intro s;
        refine keepsBlocks_of_modifyAt _ _ _ _ ?_ rfl rfl rfl; exact fun _ => rfl)
    | with_reducible apply restoreVMStackBy_keepsBlocks
    | with_reducible apply popVMStackSize_keepsBlocks
    | with_reducible refine Preserves.forEachM (fun _ => ?_) _
    | with_reducible refine Preserves.repeatM ?_ _
    | with_reducible refine Preserves.bind ?_ (fun _ => ?_)
    | split
    | dsimp only)

theorem stopToGenerateByteCodeWhileBlockEnd_keepsBlocks :
    Preserves KeepsBlocks (stopToGenerateByteCodeWhileBlockEnd) := by
  simp only [stopToGenerateByteCodeWhileBlockEnd]
  repeat (first
    | with_reducible apply Preserves.getS
    | with_reducible apply Preserves.pure
    | with_reducible apply Preserves.failM
    | with_reducible apply Preserves.liftE
    | ((with_reducible apply Preserves.modifyS); intro s; exact ⟨rfl, rfl, rfl, Nat.le_refl _⟩)
    | ((with_reducible apply Preserves.modifyS); intro s;
        exact ⟨rfl, rfl, rfl, Nat.le_add_right _ _⟩)
    | ((with_reducible apply Preserves.modifyS); intro s;
        refine keepsBlocks_of_modifyAt _ _ _ _ ?_ rfl rfl rfl; exact fun _ => rfl)
    | with_reducible refine Preserves.forEachM (fun _ => ?_) _
    | with_reducible refine Preserves.repeatM ?_ _
    | with_reducible refine Preserves.bind ?_ (fun _ => ?_)
    | split
    | dsimp only)

theorem moveValuesLoop_keepsBlocks (t : Target) (rev : List VMStackInfo) (srcIdx dstIdx : Nat)
    (remain : Int) : Preserves KeepsBlocks (moveValuesLoop t rev srcIdx dstIdx remain) := by
  induction srcIdx generalizing dstIdx remain with
  | zero =>
    unfold moveValuesLoop
    repeat (first
      | with_reducible apply Preserves.getS
      | with_reducible apply Preserves.pure
      | with_reducible apply Preserves.failM
      | with_reducible apply Preserves.liftE
      | ((with_reducible apply Preserves.modifyS); intro s; exact ⟨rfl, rfl, rfl, Nat.le_refl _⟩)
      | ((with_reducible apply Preserves.modifyS); intro s;
          exact ⟨rfl, rfl, rfl, Nat.le_add_right _ _⟩)
      | ((with_reducible apply Preserves.modifyS); intro s;
          refine keepsBlocks_of_modifyAt _ _ _ _ ?_ rfl rfl rfl; exact fun _ => rfl)
      | with_reducible apply generateMoveCodeIfNeeds_keepsBlocks
      | with_reducible refine Preserves.forEachM (fun _ => ?_) _
      | with_reducible refine Preserves.repeatM ?_ _
      | with_reducible refine Preserves.bind ?_ (fun _ => ?_)
      | split
      | dsimp only)
  | succ n ih =>
    unfold moveValuesLoop
    repeat (first
      | with_reducible apply Preserves.getS
      | with_reducible apply Preserves.pure
      | with_reducible apply Preserves.failM
      | with_reducible apply Preserves.liftE
      | ((with_reducible apply Preserves.modifyS); intro s; exact ⟨rfl, rfl, rfl, Nat.le_refl _⟩)
      | ((with_reducible apply Preserves.modifyS); intro s;
          exact ⟨rfl, rfl, rfl, Nat.le_add_right _ _⟩)
      | ((with_reducible apply Preserves.modifyS); intro s;
          refine keepsBlocks_of_modifyAt _ _ _ _ ?_ rfl rfl rfl; exact fun _ => rfl)
      | with_reducible apply generateMoveCodeIfNeeds_keepsBlocks
      | with_reducible apply ih
      | with_reducible refine Preserves.forEachM (fun _ => ?_) _
      | with_reducible refine Preserves.repeatM ?_ _
      | with_reducible refine Preserves.bind ?_ (fun _ => ?_)
      | split
      | dsimp only)

theorem generateMoveValuesCodeRegardToDrop_keepsBlocks (t : Target) (d : Nat × Nat) :
    Preserves KeepsBlocks (generateMoveValuesCodeRegardToDrop t d) := by
  simp only [generateMoveValuesCodeRegardToDrop]
  repeat (first
    | with_reducible apply Preserves.getS
    | with_reducible apply Preserves.pure
    | with_reducible apply Preserves.failM
    | with_reducible apply Preserves.liftE
    | ((with_reducible apply Preserves.modifyS); intro s; exact ⟨rfl, rfl, rfl, Nat.le_refl _⟩)
    | ((with_reducible apply Preserves.modifyS); intro s;
        exact ⟨rfl, rfl, rfl, Nat.le_add_right _ _⟩)
    | ((with_reducible apply Preserves.modifyS); intro s;
        refine keepsBlocks_of_modifyAt _ _ _ _ ?_ rfl rfl rfl; exact fun _ => rfl)
    | with_reducible apply moveValuesLoop_keepsBlocks
    | with_reducible refine Preserves.forEachM (fun _ => ?_) _
    | with_reducible refine Preserves.repeatM ?_ _
    | with_reducible refine Preserves.bind ?_ (fun _ => ?_)
    | split
    | dsimp only)

theorem keepSubResultsIfNeeds_keepsBlocks (t : Target) :
    Preserves KeepsBlocks (keepSubResultsIfNeeds t) := by
  simp only [keepSubResultsIfNeeds]
  repeat (first
    | with_reducible apply Preserves.getS
    | with_reducible apply Preserves.pure
    | with_reducible apply Preserves.failM
    | with_reducible apply Preserves.liftE
    | ((with_reducible apply Preserves.modifyS); intro s; exact ⟨rfl, rfl, rfl, Nat.le_refl _⟩)
    | ((with_reducible apply Preserves.modifyS); intro s;
        exact ⟨rfl, rfl, rfl, Nat.le_add_right _ _⟩)
    | ((with_reducible apply Preserves.modifyS); intro s;
        refine keepsBlocks_of_modifyAt _ _ _ _ ?_ rfl rfl rfl; exact fun _ => rfl)
    | ((with_reducible refine modifyBlockAtDepth_keepsBlocks _ _ ?_); exact fun _ => rfl)
    | with_reducible apply generateMoveValuesCodeRegardToDrop_keepsBlocks
    | with_reducible refine Preserves.forEachM (fun _ => ?_) _
    | with_reducible refine Preserves.repeatM ?_ _
    | with_reducible refine Preserves.bind ?_ (fun _ => ?_)
    | split
    | dsimp only)

theorem generateEndCode_keepsBlocks (t : Target) :
    Preserves KeepsBlocks (generateEndCode t) := by
  simp only [generateEndCode]
  repeat (first
    | with_reducible apply Preserves.getS
    | with_reducible apply Preserves.pure
    | with_reducible apply Preserves.failM
    | with_reducible apply Preserves.liftE
    | ((with_reducible apply Preserves.modifyS); intro s; exact ⟨rfl, rfl, rfl, Nat.le_refl _⟩)
    | ((with_reducible apply Preserves.modifyS); intro s;
        exact ⟨rfl, rfl, rfl, Nat.le_add_right _ _⟩)
    | ((with_reducible apply Preserves.modifyS); intro s;
        refine keepsBlocks_of_modifyAt _ _ _ _ ?_ rfl rfl rfl; exact fun _ => rfl)
    | with_reducible apply currentByteCodeSize_keepsBlocks
    | with_reducible apply pushByteCode_keepsBlocks
    | with_reducible apply expandByteCode_keepsBlocks
    | with_reducible apply pokeByteCode_keepsBlocks
    | with_reducible refine Preserves.forEachM (fun _ => ?_) _
    | with_reducible refine Preserves.repeatM ?_ _
    | with_reducible refine Preserves.bind ?_ (fun _ => ?_)
    | split
    | dsimp only)

theorem popWhileDropSize_keepsBlocks (fuel dropSize : Nat) :
    Preserves KeepsBlocks (popWhileDropSize fuel dropSize) := by
  induction fuel generalizing dropSize with
  | zero =>
    cases dropSize with
    | zero =>
      unfold popWhileDropSize
      exact Preserves.pure ()
    | succ d =>
      unfold popWhileDropSize
      exact Preserves.failM _
  | succ n ih =>
    cases dropSize with
    | zero =>
      unfold popWhileDropSize
      exact Preserves.pure ()
    | succ d =>
      unfold popWhileDropSize
      exact Preserves.bind popVMStackSize_keepsBlocks (fun _ => ih _)

theorem generateFunctionReturnCode_keepsBlocks (t : Target) (b : Bool) :
    Preserves KeepsBlocks (generateFunctionReturnCode t b) := by
  simp only [generateFunctionReturnCode]
  repeat (first
    | with_reducible apply Preserves.getS
    | with_reducible apply Preserves.pure
    | with_reducible apply Preserves.failM
    | with_reducible apply Preserves.liftE
    | ((with_reducible apply Preserves.modifyS); intro s; exact ⟨rfl, rfl, rfl, Nat.le_refl _⟩)
    | ((with_reducible apply Preserves.modifyS); intro s;
        exact ⟨rfl, rfl, rfl, Nat.le_add_right _ _⟩)
    | ((with_reducible apply Preserves.modifyS); intro s;
        refine keepsBlocks_of_modifyAt _ _ _ _ ?_ rfl rfl rfl; exact fun _ => rfl)
    | with_reducible apply generateEndCode_keepsBlocks
    | with_reducible apply popWhileDropSize_keepsBlocks
    | with_reducible apply popVMStackSize_keepsBlocks
    | with_reducible apply stopToGenerateByteCodeWhileBlockEnd_keepsBlocks
    | with_reducible refine Preserves.forEachM (fun _ => ?_) _
    | with_reducible refine Preserves.repeatM ?_ _
    | with_reducible refine Preserves.bind ?_ (fun _ => ?_)
    | split
    | dsimp only)

theorem pushJumpToEndIfBlockOrIfElse_keepsBlocks (depth : Nat) (b : BlockInfo) (ty : JumpToEndType) (pos : Nat) :
    Preserves KeepsBlocks (pushJumpToEndIfBlockOrIfElse depth b ty pos) := by
  simp only [pushJumpToEndIfBlockOrIfElse]
  repeat (first
    | with_reducible apply Preserves.getS
    | with_reducible apply Preserves.pure
    | with_reducible apply Preserves.failM
    | with_reducible apply Preserves.liftE
    | ((with_reducible apply Preserves.modifyS); intro s; exact ⟨rfl, rfl, rfl, Nat.le_refl _⟩)
    | ((with_reducible apply Preserves.modifyS); intro s;
        exact ⟨rfl, rfl, rfl, Nat.le_add_right _ _⟩)
    | ((with_reducible apply Preserves.modifyS); intro s;
        refine keepsBlocks_of_modifyAt _ _ _ _ ?_ rfl rfl rfl; exact fun _ => rfl)
    | ((with_reducible refine modifyBlockAtDepth_keepsBlocks _ _ ?_); exact fun _ => rfl)
    | with_reducible refine Preserves.forEachM (fun _ => ?_) _
    | with_reducible refine Preserves.repeatM ?_ _
    | with_reducible refine Preserves.bind ?_ (fun _ => ?_)
    | split
    | dsimp only)

theorem OnBrExpr_keepsBlocks (t : Target) (depth : Nat) :
    Preserves KeepsBlocks (OnBrExpr t depth) := by
  simp only [OnBrExpr]
  repeat (first
    | with_reducible apply Preserves.getS
    | with_reducible apply Preserves.pure
    | with_reducible apply Preserves.failM
    | with_reducible apply Preserves.liftE
    | ((with_reducible apply Preserves.modifyS); intro s; exact ⟨rfl, rfl, rfl, Nat.le_refl _⟩)
    | ((with_reducible apply Preserves.modifyS); intro s;
        exact ⟨rfl, rfl, rfl, Nat.le_add_right _ _⟩)
    | ((with_reducible apply Preserves.modifyS); intro s;
        refine keepsBlocks_of_modifyAt _ _ _ _ ?_ rfl rfl rfl; exact fun _ => rfl)
    | with_reducible apply generateFunctionReturnCode_keepsBlocks
    | with_reducible apply generateMoveValuesCodeRegardToDrop_keepsBlocks
    | with_reducible apply currentByteCodeSize_keepsBlocks
    | with_reducible apply pushJumpToEndIfBlockOrIfElse_keepsBlocks
    | with_reducible apply pushByteCode_keepsBlocks
    | with_reducible apply stopToGenerateByteCodeWhileBlockEnd_keepsBlocks
    | with_reducible refine Preserves.forEachM (fun _ => ?_) _
    | with_reducible refine Preserves.repeatM ?_ _
    | with_reducible refine Preserves.bind ?_ (fun _ => ?_)
    | split
    | dsimp only)

theorem OnBrIfExpr_keepsBlocks (t : Target) (depth : Nat) :
    Preserves KeepsBlocks (OnBrIfExpr t depth) := by
  simp only [OnBrIfExpr]
  repeat (first
    | with_reducible apply Preserves.getS
    | with_reducible apply Preserves.pure
    | with_reducible apply Preserves.failM
    | with_reducible apply Preserves.liftE
    | ((with_reducible apply Preserves.modifyS); intro s; exact ⟨rfl, rfl, rfl, Nat.le_refl _⟩)
    | ((with_reducible apply Preserves.modifyS); intro s;
        exact ⟨rfl, rfl, rfl, Nat.le_add_right _ _⟩)
    | ((with_reducible apply Preserves.modifyS); intro s;
        refine keepsBlocks_of_modifyAt _ _ _ _ ?_ rfl rfl rfl; exact fun _ => rfl)
    | with_reducible apply popVMStack_keepsBlocks
    | with_reducible apply generateEndCode_keepsBlocks
    | with_reducible apply generateMoveValuesCodeRegardToDrop_keepsBlocks
    | with_reducible apply currentByteCodeSize_keepsBlocks
    | with_reducible apply pushJumpToEndIfBlockOrIfElse_keepsBlocks
    | with_reducible apply pushByteCode_keepsBlocks
    | with_reducible apply pokeByteCode_keepsBlocks
    | with_reducible refine Preserves.forEachM (fun _ => ?_) _
    | with_reducible refine Preserves.repeatM ?_ _
    | with_reducible refine Preserves.bind ?_ (fun _ => ?_)
    | split
    | dsimp only)

theorem emitBrTableCase_keepsBlocks (t : Target) (code depth off : Nat) :
    Preserves KeepsBlocks (emitBrTableCase t code depth off) := by
  simp only [emitBrTableCase]
  repeat (first
    | with_reducible apply Preserves.getS
    | with_reducible apply Preserves.pure
    | with_reducible apply Preserves.failM
    | with_reducible apply Preserves.liftE
    | ((with_reducible apply Preserves.modifyS); intro s; exact ⟨rfl, rfl, rfl, Nat.le_refl _⟩)
    | ((with_reducible apply Preserves.modifyS); intro s;
        exact ⟨rfl, rfl, rfl, Nat.le_add_right _ _⟩)
    | ((with_reducible apply Preserves.modifyS); intro s;
        refine keepsBlocks_of_modifyAt _ _ _ _ ?_ rfl rfl rfl; exact fun _ => rfl)
    | with_reducible apply pokeByteCode_keepsBlocks
    | with_reducible apply generateEndCode_keepsBlocks
    | with_reducible apply OnBrExpr_keepsBlocks
    | ((with_reducible refine modifyBlockAtDepth_keepsBlocks _ _ ?_); exact fun _ => rfl)
    | with_reducible refine Preserves.forEachM (fun _ => ?_) _
    | with_reducible refine Preserves.repeatM ?_ _
    | with_reducible refine Preserves.bind ?_ (fun _ => ?_)
    | split
    | dsimp only)

theorem OnBrTableExpr_keepsBlocks (t : Target) (targets : List Nat) (dflt : Nat) :
    Preserves KeepsBlocks (OnBrTableExpr t targets dflt) := by
  simp only [OnBrTableExpr]
  repeat (first
    | with_reducible apply Preserves.getS
    | with_reducible apply Preserves.pure
    | with_reducible apply Preserves.failM
    | with_reducible apply Preserves.liftE
    | ((with_reducible apply Preserves.modifyS); intro s; exact ⟨rfl, rfl, rfl, Nat.le_refl _⟩)
    | ((with_reducible apply Preserves.modifyS); intro s;
        exact ⟨rfl, rfl, rfl, Nat.le_add_right _ _⟩)
    | ((with_reducible apply Preserves.modifyS); intro s;
        refine keepsBlocks_of_modifyAt _ _ _ _ ?_ rfl rfl rfl; exact fun _ => rfl)
    | with_reducible apply popVMStack_keepsBlocks
    | with_reducible apply currentByteCodeSize_keepsBlocks
    | with_reducible apply pushByteCode_keepsBlocks
    | with_reducible apply expandByteCode_keepsBlocks
    | with_reducible apply emitBrTableCase_keepsBlocks
    | with_reducible apply stopToGenerateByteCodeWhileBlockEnd_keepsBlocks
    | with_reducible refine Preserves.forEachM (fun _ => ?_) _
    | with_reducible refine Preserves.repeatM ?_ _
    | with_reducible refine Preserves.bind ?_ (fun _ => ?_)
    | split
    | dsimp only)

theorem OnElseExpr_keepsBlocks (t : Target) :
    Preserves KeepsBlocks (OnElseExpr t) := by
  simp only [OnElseExpr]
  repeat (first
    | with_reducible apply Preserves.getS
    | with_reducible apply Preserves.pure
    | with_reducible apply Preserves.failM
    | with_reducible apply Preserves.liftE
    | ((with_reducible apply Preserves.modifyS); intro s; exact ⟨rfl, rfl, rfl, Nat.le_refl _⟩)
    | ((with_reducible apply Preserves.modifyS); intro s;
        exact ⟨rfl, rfl, rfl, Nat.le_add_right _ _⟩)
    | ((with_reducible apply Preserves.modifyS); intro s;
        refine keepsBlocks_of_modifyAt _ _ _ _ ?_ rfl rfl rfl; exact fun _ => rfl)
    | with_reducible apply keepSubResultsIfNeeds_keepsBlocks
    | with_reducible apply currentByteCodeSize_keepsBlocks
    | ((with_reducible refine modifyBlockAtDepth_keepsBlocks _ _ ?_); exact fun _ => rfl)
    | with_reducible apply pushByteCode_keepsBlocks
    | with_reducible apply restoreVMStackRegardToPartOfBlockEnd_keepsBlocks
    | with_reducible apply pokeByteCode_keepsBlocks
    | with_reducible refine Preserves.forEachM (fun _ => ?_) _
    | with_reducible refine Preserves.repeatM ?_ _
    | with_reducible refine Preserves.bind ?_ (fun _ => ?_)
    | split
    | dsimp only)

theorem patchJumpToEnd_keepsBlocks (t : Target) (info : JumpToEndBrInfo) :
    Preserves KeepsBlocks (patchJumpToEnd t info) := by
  simp only [patchJumpToEnd]
  repeat (first
    | with_reducible apply Preserves.getS
    | with_reducible apply Preserves.pure
    | with_reducible apply Preserves.failM
    | with_reducible apply Preserves.liftE
    | ((with_reducible apply Preserves.modifyS); intro s; exact ⟨rfl, rfl, rfl, Nat.le_refl _⟩)
    | ((with_reducible apply Preserves.modifyS); intro s;
        exact ⟨rfl, rfl, rfl, Nat.le_add_right _ _⟩)
    | ((with_reducible apply Preserves.modifyS); intro s;
        refine keepsBlocks_of_modifyAt _ _ _ _ ?_ rfl rfl rfl; exact fun _ => rfl)
    | with_reducible apply currentByteCodeSize_keepsBlocks
    | with_reducible apply pokeByteCode_keepsBlocks
    | with_reducible apply pokeInt32_keepsBlocks
    | with_reducible refine Preserves.forEachM (fun _ => ?_) _
    | with_reducible refine Preserves.repeatM ?_ _
    | with_reducible refine Preserves.bind ?_ (fun _ => ?_)
    | split
    | dsimp only)

theorem pushVMStackKinds_keepsBlocks (t : Target) (kinds : List ValueType) :
    Preserves KeepsBlocks (pushVMStackKinds t kinds) := by
  induction kinds with
  | nil =>
    unfold pushVMStackKinds
    exact Preserves.pure _
  | cons k rest ih =>
    unfold pushVMStackKinds
    exact Preserves.bind (pushVMStack_keepsBlocks _)
      (fun _ => Preserves.bind ih (fun _ => Preserves.pure _))

theorem popVMStackArgs_keepsBlocks (n : Nat) : Preserves KeepsBlocks (popVMStackArgs n) := by
  induction n with
  | zero =>
    unfold popVMStackArgs
    exact Preserves.pure _
  | succ n ih =>
    unfold popVMStackArgs
    exact Preserves.bind popVMStack_keepsBlocks
      (fun _ => Preserves.bind ih (fun _ => Preserves.pure _))

theorem OnThrowExpr_keepsBlocks (t : Target) (tag : Nat) :
    Preserves KeepsBlocks (OnThrowExpr t tag) := by
  simp only [OnThrowExpr]
  repeat (first
    | with_reducible apply Preserves.getS
    | with_reducible apply Preserves.pure
    | with_reducible apply Preserves.failM
    | with_reducible apply Preserves.liftE
    | ((with_reducible apply Preserves.modifyS); intro s; exact ⟨rfl, rfl, rfl, Nat.le_refl _⟩)
    | ((with_reducible apply Preserves.modifyS); intro s;
        exact ⟨rfl, rfl, rfl, Nat.le_add_right _ _⟩)
    | ((with_reducible apply Preserves.modifyS); intro s;
        refine keepsBlocks_of_modifyAt _ _ _ _ ?_ rfl rfl rfl; exact fun _ => rfl)
    | with_reducible apply currentByteCodeSize_keepsBlocks
    | with_reducible apply pushByteCode_keepsBlocks
    | with_reducible apply expandByteCode_keepsBlocks
    | with_reducible apply pokeByteCode_keepsBlocks
    | with_reducible apply popVMStack_keepsBlocks
    | with_reducible apply stopToGenerateByteCodeWhileBlockEnd_keepsBlocks
    | with_reducible refine Preserves.forEachM (fun _ => ?_) _
    | with_reducible refine Preserves.repeatM ?_ _
    | with_reducible refine Preserves.bind ?_ (fun _ => ?_)
    | split
    | dsimp only)

theorem OnCallExpr_keepsBlocks (t : Target) (index : Nat) :
    Preserves KeepsBlocks (OnCallExpr t index) := by
  simp only [OnCallExpr]
  repeat (first
    | with_reducible apply Preserves.getS
    | with_reducible apply Preserves.pure
    | with_reducible apply Preserves.failM
    | with_reducible apply Preserves.liftE
    | ((with_reducible apply Preserves.modifyS); intro s; exact ⟨rfl, rfl, rfl, Nat.le_refl _⟩)
    | ((with_reducible apply Preserves.modifyS); intro s;
        exact ⟨rfl, rfl, rfl, Nat.le_add_right _ _⟩)
    | ((with_reducible apply Preserves.modifyS); intro s;
        refine keepsBlocks_of_modifyAt _ _ _ _ ?_ rfl rfl rfl; exact fun _ => rfl)
    | with_reducible apply currentByteCodeSize_keepsBlocks
    | with_reducible apply pushByteCode_keepsBlocks
    | with_reducible apply expandByteCode_keepsBlocks
    | with_reducible apply popVMStackArgs_keepsBlocks
    | with_reducible apply pushVMStackKinds_keepsBlocks
    | with_reducible apply pokeByteCode_keepsBlocks
    | with_reducible refine Preserves.forEachM (fun _ => ?_) _
    | with_reducible refine Preserves.repeatM ?_ _
    | with_reducible refine Preserves.bind ?_ (fun _ => ?_)
    | split
    | dsimp only)

theorem OnCallIndirectExpr_keepsBlocks (t : Target) (sig table : Nat) :
    Preserves KeepsBlocks (OnCallIndirectExpr t sig table) := by
  simp only [OnCallIndirectExpr]
  repeat (first
    | with_reducible apply Preserves.getS
    | with_reducible apply Preserves.pure
    | with_reducible apply Preserves.failM
    | with_reducible apply Preserves.liftE
    | ((with_reducible apply Preserves.modifyS); intro s; exact ⟨rfl, rfl, rfl, Nat.le_refl _⟩)
    | ((with_reducible apply Preserves.modifyS); intro s;
        exact ⟨rfl, rfl, rfl, Nat.le_add_right _ _⟩)
    | ((with_reducible apply Preserves.modifyS); intro s;
        refine keepsBlocks_of_modifyAt _ _ _ _ ?_ rfl rfl rfl; exact fun _ => rfl)
    | with_reducible apply currentByteCodeSize_keepsBlocks
    | with_reducible apply popVMStack_keepsBlocks
    | with_reducible apply pushByteCode_keepsBlocks
    | with_reducible apply expandByteCode_keepsBlocks
    | with_reducible apply popVMStackArgs_keepsBlocks
    | with_reducible apply pushVMStackKinds_keepsBlocks
    | with_reducible apply pokeByteCode_keepsBlocks
    | with_reducible refine Preserves.forEachM (fun _ => ?_) _
    | with_reducible refine Preserves.repeatM ?_ _
    | with_reducible refine Preserves.bind ?_ (fun _ => ?_)
    | split
    | dsimp only)
end wabt.WASMBinaryReader

namespace wabt.WASMBinaryReader

open Walrus

theorem preserves_of_run {R : WASMBinaryReader → WASMBinaryReader → Prop} {α : Type} {m : M α}
    {s s1 : WASMBinaryReader} {a : α} (h : m s = Except.ok (a, s1)) (hm : Preserves R m) :
    R s s1 :=
  hm s a s1 h

/-- Every handler but the ones of the block structure and the two that can rewind keeps the
open blocks and the catch infos. -/
theorem handler_keepsBlocks (t : Target) (e : Event)
    (hset : ∀ i, e ≠ Event.OnLocalSetExpr i) (htee : ∀ i, e ≠ Event.OnLocalTeeExpr i)
    (hopen : e.opensBlock = false) (hcatch : e.isCatch = false) (hend : e ≠ Event.OnEndExpr) :
    Preserves KeepsBlocks (e.handler t) := by
  cases e
  case OnLocalSetExpr i => exact absurd rfl (hset i)
  case OnLocalTeeExpr i => exact absurd rfl (htee i)
  case OnIfExpr sig => cases hopen
  case OnLoopExpr sig => cases hopen
  case OnBlockExpr sig => cases hopen
  case OnTryExpr sig => cases hopen
  case OnCatchExpr tag => cases hcatch
  case OnCatchAllExpr => cases hcatch
  case OnEndExpr => exact absurd rfl hend
  all_goals
    simp only [Event.handler, OnOpcode, OnI32ConstExpr, OnI64ConstExpr, OnF32ConstExpr,
      OnF64ConstExpr, OnLocalGetExpr, OnGlobalGetExpr, OnGlobalSetExpr, OnDropExpr,
      OnBinaryExpr, OnUnaryExpr, generateBinaryCode, generateUnaryCode,
      OnSelectExpr, OnMemoryInitExpr, OnMemoryCopyExpr, OnMemoryFillExpr, OnDataDropExpr,
      OnMemoryGrowExpr, OnMemorySizeExpr, OnTableGetExpr, OnTableSetExpr, OnTableGrowExpr,
      OnTableSizeExpr, OnTableCopyExpr, OnTableFillExpr, OnElemDropExpr, OnTableInitExpr,
      OnLoadExpr, OnStoreExpr, generateMemoryLoadCode, generateMemoryStoreCode, OnRefFuncExpr,
      OnRefNullExpr, OnRefIsNullExpr, OnNopExpr, OnReturnExpr, OnUnreachableExpr]
    repeat (first
      | with_reducible apply Preserves.getS
      | with_reducible apply Preserves.pure
      | with_reducible apply Preserves.failM
      | with_reducible apply Preserves.liftE
      | ((with_reducible apply Preserves.modifyS); intro s; exact ⟨rfl, rfl, rfl, Nat.le_refl _⟩)
      | with_reducible apply popVMStack_keepsBlocks
      | with_reducible apply peekVMStack_keepsBlocks
      | with_reducible apply peekVMStackSize_keepsBlocks
      | with_reducible apply pushVMStack_keepsBlocks
      | with_reducible apply pushVMStackAt_keepsBlocks
      | with_reducible apply pushByteCode_keepsBlocks
      | with_reducible apply generateMoveCodeIfNeeds_keepsBlocks
      | with_reducible apply stopToGenerateByteCodeWhileBlockEnd_keepsBlocks
      | with_reducible apply generateFunctionReturnCode_keepsBlocks
      | with_reducible apply OnCallExpr_keepsBlocks
      | with_reducible apply OnCallIndirectExpr_keepsBlocks
      | with_reducible apply OnBrExpr_keepsBlocks
      | with_reducible apply OnBrIfExpr_keepsBlocks
      | with_reducible apply OnBrTableExpr_keepsBlocks
      | with_reducible apply OnElseExpr_keepsBlocks
      | with_reducible apply OnThrowExpr_keepsBlocks
      | with_reducible refine Preserves.forEachM (fun _ => ?_) _
      | with_reducible refine Preserves.repeatM ?_ _
      | with_reducible refine Preserves.bind ?_ (fun _ => ?_)
      | split
      | dsimp only)

/-- `OnLocalSetExpr` when its rewind condition fails keeps the open blocks. -/
theorem OnLocalSetExpr_keepsBlocks (t : Target) (s : WASMBinaryReader) (i : Nat)
    (hno : (Event.OnLocalSetExpr i).rewinds t s = false)
    (a : Unit) (s1 : WASMBinaryReader) (h : OnLocalSetExpr t i s = Except.ok (a, s1)) :
    KeepsBlocks s s1 := by
  have hrest : ∀ r, Preserves KeepsBlocks (do
      let src ← popVMStackInfo
      let omitted ← omitUpdateLocalValueIfPossible t i r src
      if !omitted then
        generateMoveCodeIfNeeds t src.m_position r.1 r.2
      else
        pure ()) := by
    intro r
    repeat (first
      | with_reducible apply Preserves.pure
      | with_reducible apply popVMStackInfo_keepsBlocks
      | with_reducible apply omitUpdateLocalValueIfPossible_keepsBlocks
      | with_reducible apply generateMoveCodeIfNeeds_keepsBlocks
      | with_reducible refine Preserves.bind ?_ (fun _ => ?_)
      | split)
  cases hr : resolveLocalOffsetAndSize t s i with
  | error err => simp [OnLocalSetExpr, hr] at h
  | ok r =>
    cases hinfo : s.m_localInfo[i]? with
    | none =>
      have : elemAt s.m_localInfo i = Except.error CompileError.undefined := by
        simp [elemAt, hinfo]
      simp [OnLocalSetExpr, hr, this] at h
    | some info =>
      have hinfo2 : elemAt s.m_localInfo i = Except.ok info := elemAt_eq_ok.mpr hinfo
      simp only [OnLocalSetExpr, run_bind, run_getS, hr, run_liftE_ok, hinfo2] at h
      by_cases hc : info.m_refCount ≠ 0 ∧ info.m_canUseDirectReference = true
      · rw [if_pos hc] at h
        cases htop : s.m_vmStack.getLast? with
        | none =>
          simp [peekVMStackInfo, htop] at h
        | some top =>
          have hp : top.m_position = r.1 := by
            by_contra hne
            simp [Event.rewinds, hr, hinfo, htop, hc.1, hc.2, hne] at hno
          simp only [peekVMStackInfo, run_bind, run_getS, htop, run_pure, hp, ne_eq,
            not_true_eq_false, decide_False, Bool.false_eq_true, if_false] at h
          exact hrest r s a s1 h
      · rw [if_neg hc] at h
        simp only [run_pure, Bool.false_eq_true, if_false] at h
        exact hrest r s a s1 h

/-- `OnLocalTeeExpr` when its rewind condition fails keeps the open blocks. -/
theorem OnLocalTeeExpr_keepsBlocks (t : Target) (s : WASMBinaryReader) (i : Nat)
    (hno : (Event.OnLocalTeeExpr i).rewinds t s = false)
    (a : Unit) (s1 : WASMBinaryReader) (h : OnLocalTeeExpr t i s = Except.ok (a, s1)) :
    KeepsBlocks s s1 := by
  have hrest : Preserves KeepsBlocks (do
      let r ← liftE (resolveLocalOffsetAndSize t s i)
      let dstInfo ← peekVMStackInfo
      let omitted ← omitUpdateLocalValueIfPossible t i r dstInfo
      if omitted then
        let oldInfo ← popVMStackInfo
        pushVMStackAt oldInfo.m_size r.1 (some i)
      else
        generateMoveCodeIfNeeds t dstInfo.m_position r.1 r.2) := by
    repeat (first
      | with_reducible apply Preserves.liftE
      | with_reducible apply popVMStackInfo_keepsBlocks
      | with_reducible apply peekVMStackInfo_keepsBlocks
      | with_reducible apply pushVMStackAt_keepsBlocks
      | with_reducible apply omitUpdateLocalValueIfPossible_keepsBlocks
      | with_reducible apply generateMoveCodeIfNeeds_keepsBlocks
      | with_reducible refine Preserves.bind ?_ (fun _ => ?_)
      | split)
  cases hinfo : s.m_localInfo[i]? with
  | none =>
    have : elemAt s.m_localInfo i = Except.error CompileError.undefined := by
      simp [elemAt, hinfo]
    simp [OnLocalTeeExpr, this] at h
  | some info =>
    have hinfo2 : elemAt s.m_localInfo i = Except.ok info := elemAt_eq_ok.mpr hinfo
    have hc : ¬ (info.m_refCount ≠ 0 ∧ info.m_canUseDirectReference = true) := by
      intro hc
      simp [Event.rewinds, hinfo, hc.1, hc.2] at hno
    simp only [OnLocalTeeExpr, run_bind, run_getS, run_liftE_ok, hinfo2] at h
    rw [if_neg hc] at h
    exact hrest s a s1 h

/-- A handler that rewinds leaves no open block and no catch info. -/
theorem handler_rewound (t : Target) (e : Event) (s s1 : WASMBinaryReader)
    (hrw : e.rewinds t s = true) (h : e.handler t s = Except.ok ((), s1)) :
    s1.m_blockInfo = [] ∧ s1.m_catchInfo = [] ∧ s1.m_currentFunction.m_catchInfo = [] := by
  cases e
  case OnLocalSetExpr i =>
    simp only [Event.rewinds] at hrw
    split at hrw
    · rename_i r info top hr hinfo htop
      simp only [Bool.and_eq_true, decide_eq_true_eq] at hrw
      simp only [Event.handler] at h
      rw [OnLocalSetExpr_rewinds t s i r info top hr hinfo htop hrw.1.1 hrw.1.2 hrw.2,
        rewind_run] at h
      simp only [Except.ok.injEq, Prod.mk.injEq, true_and] at h
      subst h
      exact ⟨rfl, rfl, rfl⟩
    · cases hrw
  case OnLocalTeeExpr i =>
    simp only [Event.rewinds] at hrw
    split at hrw
    · rename_i info hinfo
      simp only [Bool.and_eq_true, decide_eq_true_eq] at hrw
      simp only [Event.handler] at h
      rw [OnLocalTeeExpr_rewinds t s i info hinfo hrw.1 hrw.2, rewind_run] at h
      simp only [Except.ok.injEq, Prod.mk.injEq, true_and] at h
      subst h
      exact ⟨rfl, rfl, rfl⟩
    · cases hrw
  all_goals cases hrw

end wabt.WASMBinaryReader

namespace wabt.WASMBinaryReader

open Walrus

/-- What the constructor of `BlockInfo` returns. -/
theorem newBlockInfo_spec {t : Target} {ty : BlockType} {sig : SigType}
    {s s1 : WASMBinaryReader} {b : BlockInfo}
    (h : newBlockInfo t ty sig s = Except.ok (b, s1)) :
    b.m_blockType = ty ∧ b.m_returnValueType = sig ∧ b.m_vmStack = s.m_vmStack
      ∧ b.m_functionStackSizeSoFar = s.m_functionStackSizeSoFar
      ∧ b.m_position = s1.m_currentFunction.m_byteCodeSize
      ∧ b.m_jumpToEndBrInfo = []
      ∧ KeepsBlocks s s1 := by
  have hk := newBlockInfo_keepsBlocks t ty sig s b s1 h
  simp only [newBlockInfo] at h
  rw [getS_bind, modifyS_bind] at h
  obtain ⟨pp, s2, -, h2⟩ := bind_eq_ok.mp h
  rw [currentByteCodeSize_bind] at h2
  simp only [run_pure, Except.ok.injEq, Prod.mk.injEq] at h2
  obtain ⟨rfl, rfl⟩ := h2
  exact ⟨rfl, rfl, rfl, rfl, rfl, rfl, hk⟩

end wabt.WASMBinaryReader

namespace wabt.WASMBinaryReader

open Walrus

/-- A new `BlockInfo` pushed on the block stack, followed by a step that keeps the blocks. -/
theorem opensBlock_of_new {t : Target} {ty : BlockType} {sig : SigType}
    {s s1 s2 s3 : WASMBinaryReader} {b : BlockInfo} (b1 : BlockInfo)
    (hk0 : KeepsBlocks s s1)
    (hnew : newBlockInfo t ty sig s1 = Except.ok (b, s2))
    (hshape : b1.shape = b.shape)
    (hk : KeepsBlocks { s2 with m_blockInfo := s2.m_blockInfo ++ [b1] } s3) :
    ∃ b2, s3.m_blockInfo.getLast? = some b2 ∧ b2.shape = b.shape
      ∧ OpensBlock ty sig s1.m_vmStack s1.m_functionStackSizeSoFar s s3 := by
  obtain ⟨hty, hsig, hstack, hw, hpos, -, hk1⟩ := newBlockInfo_spec hnew
  obtain ⟨k1, k2, k3, k4⟩ := hk
  obtain ⟨j1, j2, j3, j4⟩ := hk1
  obtain ⟨i1, i2, i3, i4⟩ := hk0
  simp only [List.map_append, List.map_cons, List.map_nil] at k1
  have hlast : (s3.m_blockInfo.map BlockInfo.shape).getLast? = some b.shape := by
    rw [k1, hshape]; simp
  rw [List.getLast?_map] at hlast
  cases hl : s3.m_blockInfo.getLast? with
  | none => rw [hl] at hlast; cases hlast
  | some b2 =>
    rw [hl] at hlast
    simp only [Option.map_some', Option.some.injEq] at hlast
    have hf : b2.m_blockType = b.m_blockType ∧ b2.m_returnValueType = b.m_returnValueType
        ∧ b2.m_position = b.m_position ∧ b2.m_vmStack = b.m_vmStack
        ∧ b2.m_functionStackSizeSoFar = b.m_functionStackSizeSoFar := by
      simp only [BlockInfo.shape, Prod.mk.injEq] at hlast
      exact ⟨hlast.1, hlast.2.1, hlast.2.2.1, hlast.2.2.2.1, hlast.2.2.2.2.2⟩
    refine ⟨b2, rfl, hlast, b2, ?_, hl, hf.1.trans hty, hf.2.1.trans hsig,
      hf.2.2.2.1.trans hstack, hf.2.2.2.2.trans hw, ?_, ?_, ?_, ?_⟩
    · rw [k1, j1, i1, hlast, hshape]
    · rw [hf.2.2.1, hpos]; exact k4
    · rw [k2]; exact j2.trans i2
    · rw [k3]; exact j3.trans i3
    · exact Nat.le_trans i4 (Nat.le_trans j4 k4)

theorem OnBlockExpr_opens {t : Target} {sig : SigType} {s s1 : WASMBinaryReader}
    (h : OnBlockExpr t sig s = Except.ok ((), s1)) :
    OpensBlock BlockType.Block sig s.m_vmStack s.m_functionStackSizeSoFar s s1 := by
  simp only [OnBlockExpr, pushBlockInfo] at h
  obtain ⟨b, s2, hnew, h2⟩ := bind_eq_ok.mp h
  simp only [run_modifyS, Except.ok.injEq, Prod.mk.injEq, true_and] at h2
  subst h2
  obtain ⟨_, _, _, hopen⟩ := opensBlock_of_new b (IsRefl.refl s) hnew rfl (IsRefl.refl _)
  exact hopen

theorem OnLoopExpr_opens {t : Target} {sig : SigType} {s s1 : WASMBinaryReader}
    (h : OnLoopExpr t sig s = Except.ok ((), s1)) :
    OpensBlock BlockType.Loop sig s.m_vmStack s.m_functionStackSizeSoFar s s1 := by
  simp only [OnLoopExpr, pushBlockInfo] at h
  obtain ⟨b, s2, hnew, h2⟩ := bind_eq_ok.mp h
  simp only [run_modifyS, Except.ok.injEq, Prod.mk.injEq, true_and] at h2
  subst h2
  obtain ⟨_, _, _, hopen⟩ := opensBlock_of_new b (IsRefl.refl s) hnew rfl (IsRefl.refl _)
  exact hopen

theorem OnTryExpr_opens {t : Target} {sig : SigType} {s s1 : WASMBinaryReader}
    (h : OnTryExpr t sig s = Except.ok ((), s1)) :
    OpensBlock BlockType.TryCatch sig s.m_vmStack s.m_functionStackSizeSoFar s s1 := by
  simp only [OnTryExpr, pushBlockInfo] at h
  obtain ⟨b, s2, hnew, h2⟩ := bind_eq_ok.mp h
  simp only [run_modifyS, Except.ok.injEq, Prod.mk.injEq, true_and] at h2
  subst h2
  obtain ⟨_, _, _, hopen⟩ := opensBlock_of_new b (IsRefl.refl s) hnew rfl (IsRefl.refl _)
  exact hopen

theorem OnIfExpr_opens {t : Target} {sig : SigType} {s s1 : WASMBinaryReader}
    (h : OnIfExpr t sig s = Except.ok ((), s1)) :
    ∃ stackPos s0, popVMStack s = Except.ok (stackPos, s0)
      ∧ OpensBlock BlockType.IfElse sig s0.m_vmStack s0.m_functionStackSizeSoFar s s1 := by
  simp only [OnIfExpr, pushBlockInfo] at h
  obtain ⟨stackPos, s0, hpop, h1⟩ := bind_eq_ok.mp h
  obtain ⟨b, s2, hnew, h2⟩ := bind_eq_ok.mp h1
  rw [modifyS_bind] at h2
  have hk := pushByteCode_keepsBlocks t _ _ _ _ _ h2
  obtain ⟨_, _, _, hopen⟩ := opensBlock_of_new
    { b with m_jumpToEndBrInfo :=
      b.m_jumpToEndBrInfo ++ [⟨JumpToEndType.IsJumpIf, b.m_position⟩] }
    (popVMStack_keepsBlocks s stackPos s0 hpop) hnew rfl hk
  exact ⟨stackPos, s0, hpop, hopen⟩

end wabt.WASMBinaryReader

namespace wabt.WASMBinaryReader

open Walrus

/-- The loop of `OnEndExpr` over the pending catch infos, in closed form. -/
theorem commitCatchInfo_eq (s : WASMBinaryReader) (depth snapshotSize : Nat)
    (l : List CatchInfo) (r : List Walrus.CatchInfo × List CatchInfo)
    (h : commitCatchInfo s depth snapshotSize l = Except.ok r) :
    r.1 = (l.filter (fun c => decide (decSize c.m_tryCatchBlockDepth = depth))).map
        (fun c => ⟨c.m_tryStart, c.m_tryEnd, c.m_catchStart,
          s.m_initialFunctionStackSize
            + ((s.m_vmStack.take snapshotSize).map (fun e => e.m_size)).sum, c.m_tagIndex⟩)
      ∧ r.2 = l.filter (fun c => decide (decSize c.m_tryCatchBlockDepth ≠ depth)) := by
  induction l generalizing r with
  | nil =>
    simp only [commitCatchInfo, Except.ok.injEq] at h
    subst h
    exact ⟨rfl, rfl⟩
  | cons c rest ih =>
    simp only [commitCatchInfo] at h
    by_cases hd : decSize c.m_tryCatchBlockDepth ≠ depth
    · rw [if_pos hd] at h
      cases hrest : commitCatchInfo s depth snapshotSize rest with
      | error e => rw [hrest] at h; cases h
      | ok r1 =>
        rw [hrest] at h
        obtain ⟨h1, h2⟩ := ih r1 hrest
        have hr : r = (r1.1, c :: r1.2) := by
          injection h with h; exact h.symm
        subst hr
        exact ⟨by simpa [List.filter_cons, hd] using h1, by simp [List.filter_cons, hd, h2]⟩
    · rw [if_neg hd] at h
      by_cases hk : snapshotSize > s.m_vmStack.length
      · rw [if_pos hk] at h; cases h
      · rw [if_neg hk] at h
        cases hrest : commitCatchInfo s depth snapshotSize rest with
        | error e => rw [hrest] at h; cases h
        | ok r1 =>
          rw [hrest] at h
          obtain ⟨h1, h2⟩ := ih r1 hrest
          have hr : r = (⟨c.m_tryStart, c.m_tryEnd, c.m_catchStart,
              s.m_initialFunctionStackSize
                + ((s.m_vmStack.take snapshotSize).map (fun e => e.m_size)).sum,
              c.m_tagIndex⟩ :: r1.1, r1.2) := by
            injection h with h; exact h.symm
          subst hr
          have hd2 : decSize c.m_tryCatchBlockDepth = depth := not_not.mp hd
          exact ⟨by simp [List.filter_cons, hd2, h1], by simpa [List.filter_cons, hd2] using h2⟩

/-- The loop of `OnEndExpr` over the pending catch infos returns when the snapshot of the
block is not higher than the VM stack. -/
theorem commitCatchInfo_total (s : WASMBinaryReader) (depth snapshotSize : Nat)
    (hk : snapshotSize ≤ s.m_vmStack.length) (l : List CatchInfo) :
    ∃ r, commitCatchInfo s depth snapshotSize l = Except.ok r := by
  induction l with
  | nil => exact ⟨_, rfl⟩
  | cons c rest ih =>
    obtain ⟨r, hr⟩ := ih
    simp only [commitCatchInfo, hr]
    by_cases hd : decSize c.m_tryCatchBlockDepth ≠ depth
    · rw [if_pos hd]; exact ⟨_, rfl⟩
    · rw [if_neg hd, if_neg (Nat.not_lt.mpr hk)]; exact ⟨_, rfl⟩

/-- What `OnEndExpr` does to the block stack and the catch infos when a block is open: the
innermost block is popped; when it is a try block its pending catch infos are committed to
the function, otherwise the catch infos stay. -/
theorem OnEndExpr_pops {t : Target} {s s1 : WASMBinaryReader} {b : BlockInfo}
    (hb : blockAtDepth s 0 = Except.ok b)
    (h : OnEndExpr t s = Except.ok ((), s1)) :
    s1.m_blockInfo.map BlockInfo.shape = s.m_blockInfo.dropLast.map BlockInfo.shape
      ∧ s.m_currentFunction.m_byteCodeSize ≤ s1.m_currentFunction.m_byteCodeSize
      ∧ (b.m_blockType ≠ BlockType.TryCatch →
          s1.m_catchInfo = s.m_catchInfo
            ∧ s1.m_currentFunction.m_catchInfo = s.m_currentFunction.m_catchInfo)
      ∧ (b.m_blockType = BlockType.TryCatch →
          s1.m_catchInfo = s.m_catchInfo.filter
              (fun c => decide (decSize c.m_tryCatchBlockDepth ≠ s.m_blockInfo.length - 1))
            ∧ s1.m_currentFunction.m_catchInfo = s.m_currentFunction.m_catchInfo
                ++ committedAtEnd s (s.m_blockInfo.length - 1) b.m_vmStack.length) := by
  have hne : s.m_blockInfo.length ≠ 0 := by
    intro h0
    simp [blockAtDepth, h0] at hb
  simp only [OnEndExpr] at h
  rw [getS_bind, if_pos hne] at h
  obtain ⟨dropSize, sa, h1, h⟩ := bind_eq_ok.mp h
  obtain ⟨-, hsa⟩ := liftE_eq_ok.mp h1
  rw [hsa] at h
  rw [hb, liftE_ok_bind, modifyS_bind] at h
  obtain ⟨stopHere, sc, h3, h4⟩ := bind_eq_ok.mp h
  have hk : KeepsBlocks sc s1 := by
    refine preserves_of_run h4 ?_
    repeat (first
      | with_reducible apply Preserves.getS
      | with_reducible apply Preserves.pure
      | with_reducible apply Preserves.failM
      | with_reducible apply Preserves.liftE
      | with_reducible apply popVMStack_keepsBlocks
      | with_reducible apply pushVMStack_keepsBlocks
      | with_reducible apply pushVMStackKinds_keepsBlocks
      | with_reducible apply restoreVMStackBy_keepsBlocks
      | with_reducible apply generateMoveValuesCodeRegardToDrop_keepsBlocks
      | with_reducible apply stopToGenerateByteCodeWhileBlockEnd_keepsBlocks
      | with_reducible apply patchJumpToEnd_keepsBlocks
      | with_reducible refine Preserves.forEachM (fun _ => ?_) _
      | with_reducible refine Preserves.repeatM ?_ _
      | with_reducible refine Preserves.bind ?_ (fun _ => ?_)
      | split
      | dsimp only)
  obtain ⟨k1, k2, k3, k4⟩ := hk
  cases hty : b.m_blockType with
  | TryCatch =>
    rw [hty] at h3
    simp only [] at h3
    rw [getS_bind] at h3
    obtain ⟨r, sd, h5, h6⟩ := bind_eq_ok.mp h3
    obtain ⟨hr, hsd⟩ := liftE_eq_ok.mp h5
    rw [hsd, modifyS_bind] at h6
    simp only [run_pure, Except.ok.injEq, Prod.mk.injEq] at h6
    obtain ⟨-, rfl⟩ := h6
    obtain ⟨r1, r2⟩ := commitCatchInfo_eq _ _ _ _ _ hr
    simp only [List.length_dropLast] at r1 r2
    refine ⟨k1, k4, fun hx => absurd rfl hx, fun _ => ⟨?_, ?_⟩⟩
    · rw [k2]; exact r2
    · rw [k3]
      simp [r1, committedAtEnd]
  | IfElse =>
    rw [hty] at h3
    simp only [run_pure, Except.ok.injEq, Prod.mk.injEq] at h3
    obtain ⟨-, rfl⟩ := h3
    exact ⟨k1, k4, fun _ => ⟨k2, k3⟩, fun hx => by cases hx⟩
  | Loop =>
    rw [hty] at h3
    simp only [run_pure, Except.ok.injEq, Prod.mk.injEq] at h3
    obtain ⟨-, rfl⟩ := h3
    exact ⟨k1, k4, fun _ => ⟨k2, k3⟩, fun hx => by cases hx⟩
  | Block =>
    rw [hty] at h3
    simp only [run_pure, Except.ok.injEq, Prod.mk.injEq] at h3
    obtain ⟨-, rfl⟩ := h3
    exact ⟨k1, k4, fun _ => ⟨k2, k3⟩, fun hx => by cases hx⟩

end wabt.WASMBinaryReader

namespace wabt.WASMBinaryReader

open Walrus

theorem keepsBlocks_length {s s1 : WASMBinaryReader} (h : KeepsBlocks s s1) :
    s1.m_blockInfo.length = s.m_blockInfo.length := by
  have := congrArg List.length h.1
  simpa using this

/-- What `processCatchExpr` does to the block stack and the catch infos: the open blocks keep
their shape, and one catch info is added to the pending ones; it names the innermost block,
starts where that block starts, ends the try part where the last pending catch info of the
same block does, or else at the bytecode position `cur` of the handler call, and starts the
handler at a later position. -/
theorem processCatchExpr_adds {t : Target} {tagIndex : Nat} {s s1 : WASMBinaryReader}
    (h : processCatchExpr t tagIndex s = Except.ok ((), s1)) :
    s1.m_blockInfo.map BlockInfo.shape = s.m_blockInfo.map BlockInfo.shape
      ∧ s1.m_currentFunction.m_catchInfo = s.m_currentFunction.m_catchInfo
      ∧ s.m_currentFunction.m_byteCodeSize ≤ s1.m_currentFunction.m_byteCodeSize
      ∧ ∃ c cur, s1.m_catchInfo = s.m_catchInfo ++ [c]
          ∧ c.m_tryCatchBlockDepth = s.m_blockInfo.length
          ∧ c.m_tagIndex = u32 tagIndex
          ∧ c.m_catchStart ≤ s1.m_currentFunction.m_byteCodeSize
          ∧ (∃ sh, (s.m_blockInfo.map BlockInfo.shape).getLast? = some sh
              ∧ sh.2.2.1 = c.m_tryStart)
          ∧ s.m_currentFunction.m_byteCodeSize ≤ cur ∧ cur ≤ c.m_catchStart
          ∧ c.m_tryEnd = (match s.m_catchInfo.getLast? with
              | some last =>
                if last.m_tryCatchBlockDepth = s.m_blockInfo.length then last.m_tryEnd else cur
              | none => cur) := by
  simp only [processCatchExpr] at h
  obtain ⟨u, sa, ha, h⟩ := bind_eq_ok.mp h
  have ka : KeepsBlocks s sa := keepSubResultsIfNeeds_keepsBlocks t s u sa ha
  rw [getS_bind] at h
  obtain ⟨blockInfo, sb, hb, h⟩ := bind_eq_ok.mp h
  obtain ⟨hblock, hsb⟩ := liftE_eq_ok.mp hb
  rw [hsb] at h
  obtain ⟨u2, sc, hc, h⟩ := bind_eq_ok.mp h
  have kc : KeepsBlocks sa sc := restoreVMStackRegardToPartOfBlockEnd_keepsBlocks _ sa u2 sc hc
  rw [currentByteCodeSize_bind, getS_bind] at h
  obtain ⟨u3, sd, hd, h⟩ := bind_eq_ok.mp h
  have kd : KeepsBlocks sc sd := by
    refine preserves_of_run hd ?_
    refine modifyBlockAtDepth_keepsBlocks _ _ ?_
    exact fun _ => rfl
  obtain ⟨u4, se, he, h⟩ := bind_eq_ok.mp h
  have ke : KeepsBlocks sd se := pushByteCode_keepsBlocks t _ _ sd u4 se he
  rw [getS_bind] at h
  obtain ⟨block2, sf, hf, h⟩ := bind_eq_ok.mp h
  obtain ⟨hblock2, hsf⟩ := liftE_eq_ok.mp hf
  rw [hsf, modifyS_bind] at h
  have kac : KeepsBlocks s sc := IsTrans.trans _ _ _ ka kc
  have kae : KeepsBlocks s se := IsTrans.trans _ _ _ kac (IsTrans.trans _ _ _ kd ke)
  have ktail := preserves_of_run (R := KeepsBlocks) h (by
    repeat (first
      | with_reducible apply Preserves.getS
      | with_reducible apply Preserves.pure
      | with_reducible apply Preserves.liftE
      | with_reducible apply pushVMStackKinds_keepsBlocks
      | with_reducible refine Preserves.bind ?_ (fun _ => ?_)
      | split
      | dsimp only))
  obtain ⟨t1, t2, t3, t4⟩ := ktail
  obtain ⟨e1, e2, e3, e4⟩ := kae
  obtain ⟨c1, c2, c3, c4⟩ := kac
  have hsh : (se.m_blockInfo.map BlockInfo.shape).getLast? = some block2.shape := by
    rw [List.getLast?_map, blockAtDepth_eq_ok.mp hblock2]; rfl
  refine ⟨t1.trans e1, t3.trans e3, Nat.le_trans e4 t4,
    ⟨se.m_blockInfo.length, block2.m_position,
      (match sc.m_catchInfo.getLast? with
        | some last =>
          if last.m_tryCatchBlockDepth = sc.m_blockInfo.length then last.m_tryEnd
          else sc.m_currentFunction.m_byteCodeSize
        | none => sc.m_currentFunction.m_byteCodeSize),
      se.m_currentFunction.m_byteCodeSize, u32 tagIndex⟩,
    sc.m_currentFunction.m_byteCodeSize, ?_, ?_, rfl, t4, ⟨block2.shape, ?_, rfl⟩, c4, ?_, ?_⟩
  · rw [← e2]; exact t2
  · exact keepsBlocks_length ⟨e1, e2, e3, e4⟩
  · rw [← e1]; exact hsh
  · exact Nat.le_trans kd.2.2.2 ke.2.2.2
  · show (match sc.m_catchInfo.getLast? with
      | some last =>
        if last.m_tryCatchBlockDepth = sc.m_blockInfo.length then last.m_tryEnd
        else sc.m_currentFunction.m_byteCodeSize
      | none => sc.m_currentFunction.m_byteCodeSize) = _
    rw [c2, keepsBlocks_length ⟨c1, c2, c3, c4⟩]

end wabt.WASMBinaryReader

namespace wabt.WASMBinaryReader

open Walrus

theorem decSize_of_pos {n : Nat} (h1 : 1 ≤ n) (h2 : n < 18446744073709551616) :
    decSize n = n - 1 := by
  unfold decSize
  omega

end wabt.WASMBinaryReader

namespace wabt.WASMBinaryReader

open Walrus

theorem opensBlock_length {s s1 : WASMBinaryReader} {ty : BlockType} {sig : SigType}
    {stack : List VMStackInfo} {w : Nat} (ho : OpensBlock ty sig stack w s s1) :
    s1.m_blockInfo.length = s.m_blockInfo.length + 1 := by
  obtain ⟨b, o1, -⟩ := ho
  have := congrArg List.length o1
  simpa using this

theorem exists_blockAtDepth_zero {s : WASMBinaryReader} (hne : s.m_blockInfo.length ≠ 0) :
    ∃ b, blockAtDepth s 0 = Except.ok b := by
  cases hl : s.m_blockInfo.getLast? with
  | none =>
    rw [List.getLast?_eq_none_iff] at hl
    rw [hl] at hne
    exact absurd rfl hne
  | some b => exact ⟨b, blockAtDepth_eq_ok.mpr hl⟩

/-- `OnEndExpr` with no block open is `generateEndCode`. -/
theorem OnEndExpr_at_function_level {t : Target} {s : WASMBinaryReader}
    (h0 : s.m_blockInfo.length = 0) : OnEndExpr t s = generateEndCode t s := by
  simp only [OnEndExpr]
  rw [getS_bind, if_neg (by rw [h0]; exact fun h => h rfl)]

/-- The number of open blocks after a handler that does not rewind. -/
theorem handler_depth (t : Target) (e : Event) (s s1 : WASMBinaryReader)
    (hno : e.rewinds t s = false) (h : e.handler t s = Except.ok ((), s1)) :
    s1.m_blockInfo.length = e.depthAfter s.m_blockInfo.length := by
  cases e
  case OnLocalSetExpr i => exact keepsBlocks_length (OnLocalSetExpr_keepsBlocks t s i hno () s1 h)
  case OnLocalTeeExpr i => exact keepsBlocks_length (OnLocalTeeExpr_keepsBlocks t s i hno () s1 h)
  case OnIfExpr sig =>
    obtain ⟨_, _, _, ho⟩ := OnIfExpr_opens h
    exact opensBlock_length ho
  case OnLoopExpr sig => exact opensBlock_length (OnLoopExpr_opens h)
  case OnBlockExpr sig => exact opensBlock_length (OnBlockExpr_opens h)
  case OnTryExpr sig => exact opensBlock_length (OnTryExpr_opens h)
  case OnCatchExpr tag =>
    have := congrArg List.length (processCatchExpr_adds h).1
    simpa using this
  case OnCatchAllExpr =>
    have := congrArg List.length (processCatchExpr_adds h).1
    simpa using this
  case OnEndExpr =>
    simp only [Event.handler] at h
    by_cases h0 : s.m_blockInfo.length = 0
    · rw [OnEndExpr_at_function_level h0] at h
      rw [keepsBlocks_length (generateEndCode_keepsBlocks t s () s1 h), h0]
      rfl
    · obtain ⟨b, hb⟩ := exists_blockAtDepth_zero h0
      have := congrArg List.length (OnEndExpr_pops hb h).1
      simpa using this
  all_goals
    refine keepsBlocks_length (preserves_of_run h ?_)
    apply handler_keepsBlocks <;> first | rfl | (intro i hi; cases hi) | (intro hi; cases hi)

theorem runEvents_cons_ok {t : Target} {e : Event} {rest : List Event}
    {s s2 : WASMBinaryReader} (h : runEvents t (e :: rest) s = Except.ok s2) :
    ∃ s1, e.handler t s = Except.ok ((), s1) ∧ runEvents t rest s1 = Except.ok s2 := by
  simp only [runEvents] at h
  cases hh : e.handler t s with
  | error err => rw [hh] at h; cases h
  | ok p =>
    rw [hh] at h
    exact ⟨p.2, rfl, h⟩

/-- The number of open blocks along a run of handlers none of which rewinds. -/
theorem runEvents_depth (t : Target) (events : List Event) (s s1 : WASMBinaryReader)
    (hno : runsWithoutRewind t events s = true)
    (h : runEvents t events s = Except.ok s1) :
    s1.m_blockInfo.length = depthAfterEvents s.m_blockInfo.length events := by
  induction events generalizing s with
  | nil =>
    simp only [runEvents, Except.ok.injEq] at h
    rw [← h]; rfl
  | cons e rest ih =>
    obtain ⟨s2, h1, h2⟩ := runEvents_cons_ok h
    simp only [runsWithoutRewind, h1, Bool.and_eq_true, Bool.not_eq_true'] at hno
    rw [ih s2 hno.2 h2, handler_depth t e s s2 hno.1 h1]
    rfl

end wabt.WASMBinaryReader

/-! ## The history of the catch infos -/

namespace wabt.WASMBinaryReader

open Walrus

theorem runEvents_append_of_ok {t : Target} {a b : List Event} {s s1 s2 : WASMBinaryReader}
    (h1 : runEvents t a s = Except.ok s1) (h2 : runEvents t b s1 = Except.ok s2) :
    runEvents t (a ++ b) s = Except.ok s2 := by
  induction a generalizing s with
  | nil =>
    simp only [runEvents, Except.ok.injEq] at h1
    rw [h1]; exact h2
  | cons e rest ih =>
    obtain ⟨s3, h3, h4⟩ := runEvents_cons_ok h1
    rw [List.cons_append]
    simp only [runEvents, h3]
    exact ih h4

theorem runEvents_singleton_of_ok {t : Target} {e : Event} {s s1 : WASMBinaryReader}
    (h : e.handler t s = Except.ok ((), s1)) : runEvents t [e] s = Except.ok s1 := by
  simp only [runEvents, h]

end wabt.WASMBinaryReader

namespace wabt.WASMBinaryReader

open Walrus

end wabt.WASMBinaryReader

namespace wabt.WASMBinaryReader

open Walrus

end wabt.WASMBinaryReader

namespace wabt.WASMBinaryReader

open Walrus

end wabt.WASMBinaryReader

/-! ## The ranges of the catch infos -/

open wabt Walrus wabt.WASMBinaryReader

open wabt Walrus wabt.WASMBinaryReader

/-- C22, evaluated on the code: in `i32.const 1  try  i32.const 7  drop  catch 0  drop  drop
catch_all  end` the try block is entered with the watermark 4 (saved in its `BlockInfo`), and
the tag 0 has the parameters `(i32, i64)`, 12 bytes on the stack. At the `end` the catch info
of `catch 0` is committed with `stackSizeToBe = 4`, the frame size at the entry of the block,
and not with 4 + 12: the parameters of the tag are not added. The handler finds its two
parameters at the positions 4 and 8, from `stackSizeToBe` on. -/
theorem catch_stack_size_leaves_out_the_tag_parameters :
    (blockAtDepth (exampleModuleReader exampleTryCatch) 0).toOption.map
        (fun b => (b.m_blockType, b.m_functionStackSizeSoFar))
      = some (BlockType.TryCatch, 4)
    ∧ (tagFunctionType (exampleModuleReader exampleTryCatch) 0).toOption.map
        (fun ft => ft.paramStackSize exampleTarget.sizeofPointer) = some 12
    ∧ (exampleModuleReader exampleTryCatch).m_catchInfo
      = [{ m_tryCatchBlockDepth := 1, m_tryStart := 16, m_tryEnd := 32, m_catchStart := 48,
           m_tagIndex := 0 },
         { m_tryCatchBlockDepth := 1, m_tryStart := 16, m_tryEnd := 32, m_catchStart := 64,
           m_tagIndex := 4294967295 }]
    ∧ (OnEndExpr exampleTarget (exampleModuleReader exampleTryCatch)).toOption.map
        (fun r => r.2.m_currentFunction.m_catchInfo)
      = some [{ m_tryStart := 16, m_tryEnd := 32, m_catchStart := 48, m_stackSizeToBe := 4,
                m_tagIndex := 0 },
              { m_tryStart := 16, m_tryEnd := 32, m_catchStart := 64, m_stackSizeToBe := 4,
                m_tagIndex := 4294967295 }]
    ∧ (exampleModuleReader
        [Event.OnI32ConstExpr 1, Event.OnTryExpr SigType.Void, Event.OnI32ConstExpr 7,
          Event.OnDropExpr, Event.OnCatchExpr 0]).m_vmStack.map (fun e => e.m_position)
      = [0, 4, 8] := by
  decide!

/-- C22, as the code has it: `OnEndExpr` at the end of a try block (the innermost open block
`b` is a try block) commits every pending catch info whose `m_tryCatchBlockDepth - 1` is the
number of blocks left open, once and in the order of the pending list, after the catch infos
the function already has, and removes it from the pending list; the other pending catch infos
stay pending, in their order. Each committed catch info keeps `tryStart`, `tryEnd`,
`catchStart` and the tag index, and gets as `stackSizeToBe` the initial stack size of the
function plus the sizes of the first `b.m_vmStack.size()` entries of the VM stack at that
`end`: the frame below the values of the block, without the parameters of the tag. One block
is closed. For a catch info recorded at depth 1 or more, in a block stack that `size_t` can
count, `m_tryCatchBlockDepth - 1` is the number of blocks left open exactly when the catch
info was recorded for the block that ends. -/
theorem try_end_commits_the_catch_infos_of_the_block (t : Target) (s s1 : WASMBinaryReader)
    (b : BlockInfo) (hb : blockAtDepth s 0 = Except.ok b)
    (htry : b.m_blockType = BlockType.TryCatch)
    (hrun : OnEndExpr t s = Except.ok ((), s1)) :
    s1.m_currentFunction.m_catchInfo = s.m_currentFunction.m_catchInfo ++
        (s.m_catchInfo.filter
          (fun c => decide (decSize c.m_tryCatchBlockDepth = s.m_blockInfo.length - 1))).map
          (fun c => { m_tryStart := c.m_tryStart, m_tryEnd := c.m_tryEnd,
                      m_catchStart := c.m_catchStart,
                      m_stackSizeToBe := s.m_initialFunctionStackSize
                        + ((s.m_vmStack.take b.m_vmStack.length).map (fun e => e.m_size)).sum,
                      m_tagIndex := c.m_tagIndex })
      ∧ s1.m_catchInfo = s.m_catchInfo.filter
          (fun c => decide (decSize c.m_tryCatchBlockDepth ≠ s.m_blockInfo.length - 1))
      ∧ s1.m_blockInfo.length = s.m_blockInfo.length - 1
      ∧ (∀ c : wabt.CatchInfo, 1 ≤ c.m_tryCatchBlockDepth →
          c.m_tryCatchBlockDepth < 18446744073709551616 →
          (decSize c.m_tryCatchBlockDepth = s.m_blockInfo.length - 1
            ↔ c.m_tryCatchBlockDepth = s.m_blockInfo.length)) := by
  obtain ⟨p1, -, -, p4⟩ := OnEndExpr_pops hb hrun
  obtain ⟨q1, q2⟩ := p4 htry
  have hne : 1 ≤ s.m_blockInfo.length := by
    have hlast := blockAtDepth_eq_ok.mp hb
    cases hl : s.m_blockInfo with
    | nil => rw [hl] at hlast; cases hlast
    | cons x xs => simp
  refine ⟨q2, q1, ?_, ?_⟩
  · have := congrArg List.length p1
    simpa using this
  · intro c h1 h2
    rw [decSize_of_pos h1 h2]
    omega

/-- The `end` of the inner one of two try blocks, which was entered with one value of 4 bytes
on the VM stack and the watermark 4: its two catch infos are committed with
`stackSizeToBe = 4`, the catch info of the outer try block stays pending. -/
theorem try_end_commits_the_catch_infos_of_the_block_witness :
    (exampleModuleReader exampleNestedTry).m_catchInfo
      = [{ m_tryCatchBlockDepth := 1, m_tryStart := 16, m_tryEnd := 16, m_catchStart := 32,
           m_tagIndex := 4294967295 },
         { m_tryCatchBlockDepth := 2, m_tryStart := 32, m_tryEnd := 32, m_catchStart := 48,
           m_tagIndex := 4294967295 },
         { m_tryCatchBlockDepth := 2, m_tryStart := 32, m_tryEnd := 32, m_catchStart := 64,
           m_tagIndex := 0 }]
    ∧ (exampleModuleReader (exampleNestedTry ++ [Event.OnEndExpr])).m_currentFunction.m_catchInfo
      = [{ m_tryStart := 32, m_tryEnd := 32, m_catchStart := 48, m_stackSizeToBe := 4,
           m_tagIndex := 4294967295 },
         { m_tryStart := 32, m_tryEnd := 32, m_catchStart := 64, m_stackSizeToBe := 4,
           m_tagIndex := 0 }]
    ∧ (exampleModuleReader (exampleNestedTry ++ [Event.OnEndExpr])).m_catchInfo
      = [{ m_tryCatchBlockDepth := 1, m_tryStart := 16, m_tryEnd := 16, m_catchStart := 32,
           m_tagIndex := 4294967295 }]
    ∧ (exampleModuleReader (exampleNestedTry ++ [Event.OnEndExpr])).m_blockInfo.length = 1 := by
  obtain ⟨h1, h2, h3, -⟩ := try_end_commits_the_catch_infos_of_the_block exampleTarget
    (exampleModuleReader exampleNestedTry)
    (exampleModuleReader (exampleNestedTry ++ [Event.OnEndExpr]))
    { m_blockType := BlockType.TryCatch, m_returnValueType := SigType.Void, m_position := 32,
      m_vmStack := [{ m_size := 4, m_position := 0, m_nonOptimizedPosition := 0,
                      m_localIndex := none }],
      m_parameterPositions := [], m_functionStackSizeSoFar := 4,
      m_shouldRestoreVMStackAtEnd := false, m_byteCodeGenerationStopped := false,
      m_jumpToEndBrInfo := [{ m_type := JumpToEndType.IsJump, m_position := 32 },
                            { m_type := JumpToEndType.IsJump, m_position := 48 }] }
    (by decide!) (by decide!) (by decide!)
  exact ⟨by decide!, h1.trans (by decide!), h2.trans (by decide!), h3.trans (by decide!)⟩

/-! ## The block stack and the nesting of the Wasm code -/

open wabt Walrus wabt.WASMBinaryReader

/-- C23, evaluated on the code: in a function `() -> (i32)` with no block open and nothing on
the VM stack, `OnEndExpr` returns with the reader unchanged: `generateEndCode` leaves at
once when the function has more results than the VM stack has entries ("error case of
global init expr"), and no `End` record is emitted. And the snapshot of an `if` block is the
VM stack after the condition has been popped: `OnIfExpr` with the condition alone on the
VM stack, at watermark 4, saves the empty stack and the watermark 0. -/
theorem function_end_without_the_results_emits_nothing :
    (exampleReader ⟨[], [ValueType.I32]⟩ []).m_blockInfo = []
    ∧ (exampleReader ⟨[], [ValueType.I32]⟩ []).m_currentFunction.m_byteCode = []
    ∧ OnEndExpr exampleTarget (exampleReader ⟨[], [ValueType.I32]⟩ [])
      = Except.ok ((), exampleReader ⟨[], [ValueType.I32]⟩ [])
    ∧ (exampleModuleReader [Event.OnI32ConstExpr 1]).m_vmStack
      = [{ m_size := 4, m_position := 0, m_nonOptimizedPosition := 0, m_localIndex := none }]
    ∧ (exampleModuleReader [Event.OnI32ConstExpr 1]).m_functionStackSizeSoFar = 4
    ∧ (OnIfExpr exampleTarget SigType.Void
        (exampleModuleReader [Event.OnI32ConstExpr 1])).toOption.map
          (fun r => r.2.m_blockInfo.map
            (fun b => (b.m_blockType, b.m_vmStack, b.m_functionStackSizeSoFar)))
      = some [(BlockType.IfElse, [], 0)] := by
  decide!

/-- With a signature that is no type index, the constructor of `BlockInfo` reads nothing it
could miss: `OnBlockExpr`, `OnLoopExpr` and `OnTryExpr` return in every state. -/
theorem block_handlers_return (t : Target) (a : WASMBinaryReader) (sig : SigType)
    (h : sig.IsIndex = false) :
    (∃ a1, OnBlockExpr t sig a = Except.ok ((), a1))
      ∧ (∃ a1, OnLoopExpr t sig a = Except.ok ((), a1))
      ∧ (∃ a1, OnTryExpr t sig a = Except.ok ((), a1)) := by
  cases sig
  case Index i => cases h
  all_goals exact ⟨⟨_, rfl⟩, ⟨_, rfl⟩, ⟨_, rfl⟩⟩

/-- C23, as the code has it. After a run of handlers none of which rewinds, the number of
open `BlockInfo`s is the number of blocks opened and not yet ended (`depthAfterEvents`). For
every state: `OnBlockExpr`, `OnLoopExpr` and `OnTryExpr` push one `BlockInfo` of the matching
type whose snapshot is the VM stack and the watermark at the call, `OnIfExpr` pushes one of
type `IfElse` whose snapshot is the VM stack and the watermark after the condition is popped,
and the blocks below keep their shape (`OpensBlock`); with a signature that is no type index
the first three return in every state; `OnElseExpr`, `OnCatchExpr` and
`OnCatchAllExpr` keep the number and the shape of the open blocks; `OnEndExpr` pops the
innermost `BlockInfo` when one is open; with no block open it emits the `End` record of the
function when the VM stack holds the results of the function (and the bytecode has no record
at its end position), and does nothing when the VM stack holds fewer entries. -/
theorem block_stack_mirrors_nesting (t : Target) (events : List Event)
    (s s1 : WASMBinaryReader)
    (hno : runsWithoutRewind t events s = true)
    (hrun : runEvents t events s = Except.ok s1) :
    s1.m_blockInfo.length = depthAfterEvents s.m_blockInfo.length events
      ∧ (∀ (a a1 : WASMBinaryReader) (sig : SigType),
          (OnBlockExpr t sig a = Except.ok ((), a1) →
            OpensBlock BlockType.Block sig a.m_vmStack a.m_functionStackSizeSoFar a a1)
          ∧ (OnLoopExpr t sig a = Except.ok ((), a1) →
            OpensBlock BlockType.Loop sig a.m_vmStack a.m_functionStackSizeSoFar a a1)
          ∧ (OnTryExpr t sig a = Except.ok ((), a1) →
            OpensBlock BlockType.TryCatch sig a.m_vmStack a.m_functionStackSizeSoFar a a1)
          ∧ (OnIfExpr t sig a = Except.ok ((), a1) →
            ∃ stackPos a0, popVMStack a = Except.ok (stackPos, a0)
              ∧ OpensBlock BlockType.IfElse sig a0.m_vmStack a0.m_functionStackSizeSoFar a a1))
      ∧ (∀ (a a1 : WASMBinaryReader) (tagIndex : Nat),
          (OnElseExpr t a = Except.ok ((), a1) →
            a1.m_blockInfo.map BlockInfo.shape = a.m_blockInfo.map BlockInfo.shape)
          ∧ (OnCatchExpr t tagIndex a = Except.ok ((), a1) →
            a1.m_blockInfo.map BlockInfo.shape = a.m_blockInfo.map BlockInfo.shape)
          ∧ (OnCatchAllExpr t a = Except.ok ((), a1) →
            a1.m_blockInfo.map BlockInfo.shape = a.m_blockInfo.map BlockInfo.shape))
      ∧ (∀ a a1 : WASMBinaryReader, a.m_blockInfo ≠ [] →
          OnEndExpr t a = Except.ok ((), a1) →
          a1.m_blockInfo.map BlockInfo.shape = a.m_blockInfo.dropLast.map BlockInfo.shape
            ∧ a1.m_blockInfo.length + 1 = a.m_blockInfo.length)
      ∧ (∀ a : WASMBinaryReader, a.m_blockInfo = [] →
          a.m_currentFunctionType.result.length ≤ a.m_vmStack.length →
          (∀ x ∈ a.m_currentFunction.m_byteCode, x.1 ≠ a.m_currentFunction.m_byteCodeSize) →
          OnEndExpr t a = Except.ok ((), { a with
            m_lastByteCodePosition := u32 a.m_currentFunction.m_byteCodeSize
            m_lastPushedOpcode := WASMOpcode.End
            m_currentFunction := { a.m_currentFunction with
              m_byteCode := a.m_currentFunction.m_byteCode
                ++ [(a.m_currentFunction.m_byteCodeSize,
                    ByteCode.End a.m_currentFunctionType.result.length
                      ((a.m_vmStack.drop
                        (a.m_vmStack.length - a.m_currentFunctionType.result.length)).map
                        (fun e => u16 e.m_position)))]
              m_byteCodeSize := a.m_currentFunction.m_byteCodeSize + t.sizeofEnd
                + 2 * a.m_currentFunctionType.result.length } }))
      ∧ (∀ a : WASMBinaryReader, a.m_blockInfo = [] →
          a.m_vmStack.length < a.m_currentFunctionType.result.length →
          OnEndExpr t a = Except.ok ((), a))
      ∧ (∀ (a : WASMBinaryReader) (sig : SigType), sig.IsIndex = false →
          (∃ a1, OnBlockExpr t sig a = Except.ok ((), a1))
            ∧ (∃ a1, OnLoopExpr t sig a = Except.ok ((), a1))
            ∧ (∃ a1, OnTryExpr t sig a = Except.ok ((), a1))) := by
  refine ⟨runEvents_depth t events s s1 hno hrun, ?_, ?_, ?_, ?_, ?_,
    fun a sig h => block_handlers_return t a sig h⟩
  · intro a a1 sig
    exact ⟨OnBlockExpr_opens, OnLoopExpr_opens, OnTryExpr_opens, OnIfExpr_opens⟩
  · intro a a1 tagIndex
    exact ⟨fun h => (OnElseExpr_keepsBlocks t a () a1 h).1,
      fun h => (processCatchExpr_adds h).1, fun h => (processCatchExpr_adds h).1⟩
  · intro a a1 hne h
    have h0 : a.m_blockInfo.length ≠ 0 := by simpa using hne
    obtain ⟨b, hb⟩ := exists_blockAtDepth_zero h0
    have hshape := (OnEndExpr_pops hb h).1
    refine ⟨hshape, ?_⟩
    have := congrArg List.length hshape
    simp only [List.length_map, List.length_dropLast] at this
    omega
  · intro a h0 hn hfresh
    rw [OnEndExpr_at_function_level (by rw [h0]; rfl)]
    exact generateEndCode_run t a hn hfresh
  · intro a h0 hn
    rw [OnEndExpr_at_function_level (by rw [h0]; rfl)]
    unfold generateEndCode
    rw [getS_bind, if_pos hn]
    rfl

/-- Blocks of every kind in a function `() -> ()`:
`block  i32.const 1  if  else  end  loop  try  catch_all  end`. The `if` and the `try` are
closed, the `block` and the `loop` are open: two `BlockInfo`s, as `depthAfterEvents` counts. -/
theorem block_stack_mirrors_nesting_witness :
    runsWithoutRewind exampleTarget exampleNesting exampleModuleStart = true
    ∧ runEvents exampleTarget exampleNesting exampleModuleStart
      = Except.ok (exampleModuleReader exampleNesting)
    ∧ depthAfterEvents 0 exampleNesting = 2
    ∧ (exampleModuleReader exampleNesting).m_blockInfo.map (fun b => b.m_blockType)
      = [BlockType.Block, BlockType.Loop]
    ∧ (exampleModuleReader exampleNesting).m_blockInfo.length
      = depthAfterEvents exampleModuleStart.m_blockInfo.length exampleNesting :=
  ⟨by decide!, by decide!, by decide!, by decide!,
    (block_stack_mirrors_nesting exampleTarget exampleNesting exampleModuleStart
      (exampleModuleReader exampleNesting) (by decide!) (by decide!)).1⟩

/-! ## Segment flags -/

namespace wabt

open Walrus

theorem toSegmentMode_of_small :
    ∀ m, m < 256 → toSegmentMode m
      = if m.testBit 0 && m.testBit 1 then SegmentMode.Declared
        else if m.testBit 0 then SegmentMode.Passive
        else SegmentMode.Active := by
  decide!

theorem toSegmentMode_mod (f : Nat) : toSegmentMode f = toSegmentMode (f % 256) := by
  unfold toSegmentMode
  rw [Nat.mod_mod]

theorem toSegmentMode_eq (f : Nat) :
    toSegmentMode f
      = if f.testBit 0 && f.testBit 1 then SegmentMode.Declared
        else if f.testBit 0 then SegmentMode.Passive
        else SegmentMode.Active := by
  rw [toSegmentMode_mod, toSegmentMode_of_small (f % 256) (Nat.mod_lt _ (by decide))]
  have h0 : (f % 256).testBit 0 = f.testBit 0 := by
    rw [show (256 : Nat) = 2 ^ 8 from rfl, Nat.testBit_mod_two_pow]
    simp
  have h1 : (f % 256).testBit 1 = f.testBit 1 := by
    rw [show (256 : Nat) = 2 ^ 8 from rfl, Nat.testBit_mod_two_pow]
    simp
  rw [h0, h1]

end wabt

open wabt Walrus

/-- C24: for every flags value `f` (the function reads it as a `uint8_t`), `toSegmentMode(f)`
is `Declared` exactly when bits 0 and 1 of `f` are both set, `Passive` exactly when bit 0
is set and bit 1 is clear, and `Active` exactly when bit 0 is clear; it never is `None`,
and two flags values that agree on bits 0 and 1 have the same mode, whatever their other
bits. -/
theorem toSegmentMode_by_bits (f : Nat) :
    (toSegmentMode f = SegmentMode.Declared ↔ f.testBit 0 = true ∧ f.testBit 1 = true)
    ∧ (toSegmentMode f = SegmentMode.Passive ↔ f.testBit 0 = true ∧ f.testBit 1 = false)
    ∧ (toSegmentMode f = SegmentMode.Active ↔ f.testBit 0 = false)
    ∧ toSegmentMode f ≠ SegmentMode.None
    ∧ (∀ g : Nat, f.testBit 0 = g.testBit 0 → f.testBit 1 = g.testBit 1 →
        toSegmentMode f = toSegmentMode g) := by
  refine ⟨?_, ?_, ?_, ?_, ?_⟩
  · rw [toSegmentMode_eq]
    cases f.testBit 0 <;> cases f.testBit 1 <;> simp
  · rw [toSegmentMode_eq]
    cases f.testBit 0 <;> cases f.testBit 1 <;> simp
  · rw [toSegmentMode_eq]
    cases f.testBit 0 <;> cases f.testBit 1 <;> simp
  · rw [toSegmentMode_eq]
    cases f.testBit 0 <;> cases f.testBit 1 <;> simp
  · intro g h0 h1
    rw [toSegmentMode_eq, toSegmentMode_eq, h0, h1]

/-! ## The import section -/

namespace wabt

open Walrus

/-- C25: each of `OnImportFunc`, `OnImportGlobal`, `OnImportTable`, `OnImportMemory` and
`OnImportTag` returns, and the state it returns is the old state with exactly one `ImportType` of
the matching kind, with the given module name and field name, appended to `m_imports`, and exactly
one object appended to the matching vector (`m_functions`, `m_globalTypes`, `m_tableTypes`,
`m_memoryTypes`, `m_tagTypes`); every other vector, every entry appended before and the rest of
the reader are the same.  The hypotheses are the handlers' own preconditions: the signature index
of an imported function names a function type, the type of an imported global is a value type,
and the index of the new global, table, memory or tag is the size of its vector (the `ASSERT`s). -/
theorem import_handlers_append_one_import_and_one_object (s : WASMBinaryReader)
    (importIndex funcIndex sigIndex globalIndex tableIndex memoryIndex tagIndex : Nat)
    (moduleName fieldName : String) (ft : FunctionType) (type : SigType) (kind : ValueType)
    (mutable_ : Bool) (initialSize maximumSize : Nat)
    (hsig : s.m_result.m_functionTypes[sigIndex]? = some ft)
    (hkind : toValueKind type = Except.ok kind)
    (hglobal : globalIndex = s.m_result.m_globalTypes.length)
    (htable : tableIndex = s.m_result.m_tableTypes.length)
    (hmemory : memoryIndex = s.m_result.m_memoryTypes.length)
    (htag : tagIndex = s.m_result.m_tagTypes.length) :
    WASMBinaryReader.OnImportFunc importIndex moduleName fieldName funcIndex sigIndex s
        = Except.ok ((), { s with m_result := { s.m_result with
            m_functions := s.m_result.m_functions ++ [{ m_functionType := ft }]
            m_imports := s.m_result.m_imports ++
              [{ m_type := ImportKind.Function, m_moduleName := moduleName,
                 m_fieldName := fieldName, m_ref := ImportRef.function ft }] } })
    ∧ WASMBinaryReader.OnImportGlobal importIndex moduleName fieldName globalIndex type mutable_ s
        = Except.ok ((), { s with m_result := { s.m_result with
            m_globalTypes := s.m_result.m_globalTypes ++ [{ m_type := kind, m_mutable := mutable_ }]
            m_imports := s.m_result.m_imports ++
              [{ m_type := ImportKind.Global, m_moduleName := moduleName,
                 m_fieldName := fieldName,
                 m_ref := ImportRef.global { m_type := kind, m_mutable := mutable_ } }] } })
    ∧ WASMBinaryReader.OnImportTable importIndex moduleName fieldName tableIndex type
          initialSize maximumSize s
        = Except.ok ((), { s with m_result := { s.m_result with
            m_tableTypes := s.m_result.m_tableTypes ++
              [{ m_type := if type = SigType.FuncRef then ValueType.FuncRef
                           else ValueType.ExternRef,
                 m_initialSize := initialSize, m_maximumSize := maximumSize }]
            m_imports := s.m_result.m_imports ++
              [{ m_type := ImportKind.Table, m_moduleName := moduleName,
                 m_fieldName := fieldName,
                 m_ref := ImportRef.table
                   { m_type := if type = SigType.FuncRef then ValueType.FuncRef
                               else ValueType.ExternRef,
                     m_initialSize := initialSize, m_maximumSize := maximumSize } }] } })
    ∧ WASMBinaryReader.OnImportMemory importIndex moduleName fieldName memoryIndex
          initialSize maximumSize s
        = Except.ok ((), { s with m_result := { s.m_result with
            m_memoryTypes := s.m_result.m_memoryTypes ++
              [{ m_initialSize := initialSize, m_maximumSize := maximumSize }]
            m_imports := s.m_result.m_imports ++
              [{ m_type := ImportKind.Memory, m_moduleName := moduleName,
                 m_fieldName := fieldName,
                 m_ref := ImportRef.memory
                   { m_initialSize := initialSize, m_maximumSize := maximumSize } }] } })
    ∧ WASMBinaryReader.OnImportTag importIndex moduleName fieldName tagIndex sigIndex s
        = Except.ok ((), { s with m_result := { s.m_result with
            m_tagTypes := s.m_result.m_tagTypes ++ [{ m_sigIndex := sigIndex }]
            m_imports := s.m_result.m_imports ++
              [{ m_type := ImportKind.Tag, m_moduleName := moduleName,
                 m_fieldName := fieldName,
                 m_ref := ImportRef.tag { m_sigIndex := sigIndex } }] } }) := by
  refine ⟨?_, ?_, ?_, ?_, ?_⟩
  · simp [WASMBinaryReader.OnImportFunc, run_bind, run_getS, run_liftE_ok, run_modifyS, elemAt,
      hsig]
  · simp [WASMBinaryReader.OnImportGlobal, run_bind, run_getS, run_modifyS, elemAt,
      hkind, hglobal]
  · simp [WASMBinaryReader.OnImportTable, run_bind, run_getS, run_modifyS, elemAt, htable]
  · simp [WASMBinaryReader.OnImportMemory, run_bind, run_getS, run_modifyS, elemAt, hmemory]
  · simp [WASMBinaryReader.OnImportTag, run_bind, run_getS, run_modifyS, elemAt, htag]

/-- The import handlers at a reader over the example module (one function type, one function, one
tag): an imported function of type 0, and the first global, table and memory and the second tag
of the module; the `m_result` of each returned state is written out. -/
theorem import_handlers_append_one_import_and_one_object_witness :
    (exampleModuleReader []).m_result = exampleModule
    ∧ (WASMBinaryReader.OnImportFunc 0 "env" "f" 1 0 (exampleModuleReader [])).toOption.map
          (fun r => r.2.m_result)
        = some { exampleModule with
            m_functions := exampleModule.m_functions ++
              [{ m_functionType := ⟨[ValueType.I32, ValueType.I64], [ValueType.I32]⟩ }]
            m_imports := [{ m_type := ImportKind.Function, m_moduleName := "env",
                            m_fieldName := "f",
                            m_ref := ImportRef.function
                              ⟨[ValueType.I32, ValueType.I64], [ValueType.I32]⟩ }] }
    ∧ (WASMBinaryReader.OnImportGlobal 0 "env" "f" 0 SigType.I64 true
          (exampleModuleReader [])).toOption.map (fun r => r.2.m_result)
        = some { exampleModule with
            m_globalTypes := [{ m_type := ValueType.I64, m_mutable := true }]
            m_imports := [{ m_type := ImportKind.Global, m_moduleName := "env",
                            m_fieldName := "f",
                            m_ref := ImportRef.global
                              { m_type := ValueType.I64, m_mutable := true } }] }
    ∧ (WASMBinaryReader.OnImportTable 0 "env" "f" 0 SigType.I64 1 2
          (exampleModuleReader [])).toOption.map (fun r => r.2.m_result)
        = some { exampleModule with
            m_tableTypes := [{ m_type := ValueType.ExternRef, m_initialSize := 1,
                               m_maximumSize := 2 }]
            m_imports := [{ m_type := ImportKind.Table, m_moduleName := "env",
                            m_fieldName := "f",
                            m_ref := ImportRef.table
                              { m_type := ValueType.ExternRef, m_initialSize := 1,
                                m_maximumSize := 2 } }] }
    ∧ (WASMBinaryReader.OnImportMemory 0 "env" "f" 0 1 2
          (exampleModuleReader [])).toOption.map (fun r => r.2.m_result)
        = some { exampleModule with
            m_memoryTypes := [{ m_initialSize := 1, m_maximumSize := 2 }]
            m_imports := [{ m_type := ImportKind.Memory, m_moduleName := "env",
                            m_fieldName := "f",
                            m_ref := ImportRef.memory
                              { m_initialSize := 1, m_maximumSize := 2 } }] }
    ∧ (WASMBinaryReader.OnImportTag 0 "env" "f" 1 0
          (exampleModuleReader [])).toOption.map (fun r => r.2.m_result)
        = some { exampleModule with
            m_tagTypes := exampleModule.m_tagTypes ++ [{ m_sigIndex := 0 }]
            m_imports := [{ m_type := ImportKind.Tag, m_moduleName := "env",
                            m_fieldName := "f",
                            m_ref := ImportRef.tag { m_sigIndex := 0 } }] } := by
  have h := import_handlers_append_one_import_and_one_object (exampleModuleReader [])
    0 1 0 0 0 0 1 "env" "f" ⟨[ValueType.I32, ValueType.I64], [ValueType.I32]⟩ SigType.I64
    ValueType.I64 true 1 2 (by decide!) (by decide!) (by decide!) (by decide!) (by decide!)
    (by decide!)
  obtain ⟨h1, h2, h3, h4, h5⟩ := h
  refine ⟨by decide!, ?_, ?_, ?_, ?_, ?_⟩
  · rw [h1]; decide!
  · rw [h2]; decide!
  · rw [h3]; decide!
  · rw [h4]; decide!
  · rw [h5]; decide!

end wabt

/-! ## The native stack limit -/

open wabt Walrus

/-- C26: `checkStackLimit` traps with "call stack exhausted" exactly when the limit is
crossed: where the stack grows down, when `stackLimit > stackPointer`, and otherwise when
`stackLimit < stackPointer`; in particular it does not trap when the two are equal. It
raises no other error, and when it does not trap it returns the execution state it was
given. -/
theorem checkStackLimit_traps_iff_limit_crossed {σ : Type} (stackLimit : σ → Nat)
    (currentStackPointer : Nat) (state : σ) :
    (Function.checkStackLimit true stackLimit currentStackPointer state
        = Except.error "call stack exhausted" ↔ stackLimit state > currentStackPointer)
    ∧ (Function.checkStackLimit false stackLimit currentStackPointer state
        = Except.error "call stack exhausted" ↔ stackLimit state < currentStackPointer)
    ∧ (stackLimit state = currentStackPointer → ∀ down,
        Function.checkStackLimit down stackLimit currentStackPointer state = Except.ok state)
    ∧ (∀ down e, Function.checkStackLimit down stackLimit currentStackPointer state
        = Except.error e → e = "call stack exhausted")
    ∧ (∀ down, (∃ st, Function.checkStackLimit down stackLimit currentStackPointer state
          = Except.ok st)
        → Function.checkStackLimit down stackLimit currentStackPointer state
          = Except.ok state) := by
  refine ⟨?_, ?_, ?_, ?_, ?_⟩
  · unfold Function.checkStackLimit
    by_cases h : stackLimit state > currentStackPointer <;> simp [h]
  · unfold Function.checkStackLimit
    by_cases h : stackLimit state < currentStackPointer <;> simp [h]
  · intro h down
    unfold Function.checkStackLimit
    cases down <;> simp [h]
  · intro down e h
    unfold Function.checkStackLimit at h
    cases down
    · by_cases hc : stackLimit state < currentStackPointer
      · simp [hc] at h
        exact h.symm
      · simp [hc] at h
    · by_cases hc : stackLimit state > currentStackPointer
      · simp [hc] at h
        exact h.symm
      · simp [hc] at h
  · intro down h
    obtain ⟨st, h⟩ := h
    unfold Function.checkStackLimit at h ⊢
    cases down
    · by_cases hc : stackLimit state < currentStackPointer
      · simp [hc] at h
      · simp [hc]
    · by_cases hc : stackLimit state > currentStackPointer
      · simp [hc] at h
      · simp [hc]

/-! ## File kinds of the shell -/

namespace Shell

theorem char_eq_of_toNat_eq {a b : Char} (h : a.toNat = b.toNat) : a = b := by
  apply Char.ext
  apply UInt32.ext
  exact h

theorem stringCompare_eq_zero : ∀ (a b : List Char), stringCompare a b = 0 ↔ a = b
  | [], [] => by simp [stringCompare]
  | [], _ :: _ => by simp [stringCompare]
  | _ :: _, [] => by simp [stringCompare]
  | a :: as, b :: bs => by
    unfold stringCompare
    by_cases h1 : a.toNat < b.toNat
    · rw [if_pos h1]
      constructor
      · intro h
        cases h
      · intro h
        rw [(List.cons.inj h).1] at h1
        exact absurd h1 (Nat.lt_irrefl _)
    · rw [if_neg h1]
      by_cases h2 : b.toNat < a.toNat
      · rw [if_pos h2]
        constructor
        · intro h
          cases h
        · intro h
          rw [(List.cons.inj h).1] at h2
          exact absurd h2 (Nat.lt_irrefl _)
      · rw [if_neg h2, stringCompare_eq_zero as bs]
        have hab : a = b := char_eq_of_toNat_eq (by omega)
        constructor
        · intro h
          rw [hab, h]
        · intro h
          exact (List.cons.inj h).2

theorem endsWith_iff (str suffix : String) :
    endsWith str suffix = true ↔ suffix.data <:+ str.data := by
  unfold endsWith compareAt
  rw [Bool.and_eq_true, decide_eq_true_eq, decide_eq_true_eq, eq_comm, stringCompare_eq_zero]
  constructor
  · rintro ⟨hlen, h⟩
    have hd : (str.data.drop (str.data.length - suffix.data.length)).length
        = suffix.data.length := by
      rw [List.length_drop]
      omega
    rw [List.take_of_length_le (Nat.le_of_eq hd)] at h
    rw [← h]
    exact List.drop_suffix _ _
  · rintro ⟨t, ht⟩
    have hlen : str.data.length = t.length + suffix.data.length := by
      rw [← ht, List.length_append]
    refine ⟨by omega, ?_⟩
    rw [← ht, List.length_append, Nat.add_sub_cancel, List.drop_left, List.take_length]

theorem getLast?_of_suffix {α : Type} {s l : List α} (h : s <:+ l) (hs : s ≠ []) :
    l.getLast? = s.getLast? := by
  obtain ⟨t, rfl⟩ := h
  exact List.getLast?_append_of_ne_nil t hs

end Shell

open Shell

/-- C27 as stated fails: the path `xwasm` does not end with `.wasm` and `main` treats it as
a binary module, and the path `xwat` does not end with `.wat` or `.wast` and is treated as
a script: the suffixes `main` tests have no dot. -/
theorem path_without_dot_is_treated_as_module :
    fileKind "xwasm" = FileKind.binary
    ∧ ¬ (".wasm".data <:+ "xwasm".data)
    ∧ fileKind "xwat" = FileKind.script
    ∧ ¬ (".wat".data <:+ "xwat".data) ∧ ¬ (".wast".data <:+ "xwat".data) := by
  refine ⟨by decide!, ?_, by decide!, ?_, ?_⟩
  · rw [← endsWith_iff]
    decide!
  · rw [← endsWith_iff]
    decide!
  · rw [← endsWith_iff]
    decide!

/-- C27, amended: `main` treats a file path it could open as a binary module exactly when
the path ends with `wasm`, and as a text or script file exactly when it ends with `wat` or
`wast`, in both cases with or without a dot in front; and `endsWith(str, suffix)` is true
exactly when `suffix` is a suffix of `str`. -/
theorem fileKind_by_suffix (filePath : String) :
    (fileKind filePath = FileKind.binary ↔ "wasm".data <:+ filePath.data)
    ∧ (fileKind filePath = FileKind.script
        ↔ ("wat".data <:+ filePath.data ∨ "wast".data <:+ filePath.data))
    ∧ (∀ str suffix : String, endsWith str suffix = true ↔ suffix.data <:+ str.data) := by
  have hexcl : "wasm".data <:+ filePath.data →
      ¬ ("wat".data <:+ filePath.data ∨ "wast".data <:+ filePath.data) := by
    intro h1 h2
    have e1 := getLast?_of_suffix h1 (by decide)
    rcases h2 with h2 | h2
    · have e2 := getLast?_of_suffix h2 (by decide)
      rw [e1] at e2
      exact absurd e2 (by decide)
    · have e2 := getLast?_of_suffix h2 (by decide)
      rw [e1] at e2
      exact absurd e2 (by decide)
  refine ⟨?_, ?_, endsWith_iff⟩
  · unfold fileKind
    by_cases h1 : endsWith filePath "wasm" = true
    · rw [if_pos h1]
      exact ⟨fun _ => (endsWith_iff _ _).mp h1, fun _ => rfl⟩
    · rw [if_neg h1]
      constructor
      · intro h
        split at h <;> cases h
      · intro h
        exact absurd ((endsWith_iff _ _).mpr h) h1
  · unfold fileKind
    by_cases h1 : endsWith filePath "wasm" = true
    · rw [if_pos h1]
      constructor
      · intro h
        cases h
      · intro h
        exact absurd h (hexcl ((endsWith_iff _ _).mp h1))
    · rw [if_neg h1]
      by_cases h2 : (endsWith filePath "wat" || endsWith filePath "wast") = true
      · rw [if_pos h2]
        rw [Bool.or_eq_true, endsWith_iff, endsWith_iff] at h2
        exact ⟨fun _ => h2, fun _ => rfl⟩
      · rw [if_neg h2]
        rw [Bool.or_eq_true, endsWith_iff, endsWith_iff] at h2
        constructor
        · intro h
          cases h
        · intro h
          exact absurd h h2

/-- C27, amended, at concrete inputs: `a.wasm` and `xwasm` are binary modules, `t.wast` and
`t.wat` scripts. -/
theorem fileKind_by_suffix_witness :
    fileKind "a.wasm" = FileKind.binary ∧ fileKind "xwasm" = FileKind.binary
    ∧ fileKind "t.wast" = FileKind.script ∧ fileKind "t.wat" = FileKind.script :=
  ⟨(fileKind_by_suffix "a.wasm").1.mpr ((fileKind_by_suffix "a.wasm").2.2 _ _ |>.mp (by decide!)),
    (fileKind_by_suffix "xwasm").1.mpr ((fileKind_by_suffix "a.wasm").2.2 _ _ |>.mp (by decide!)),
    (fileKind_by_suffix "t.wast").2.1.mpr
      (Or.inr ((fileKind_by_suffix "a.wasm").2.2 _ _ |>.mp (by decide!))),
    (fileKind_by_suffix "t.wat").2.1.mpr
      (Or.inl ((fileKind_by_suffix "a.wasm").2.2 _ _ |>.mp (by decide!)))⟩

/-! ## The exit code of the shell -/

open Shell

/-- Under `--run-all-exports` the value `main` returns for a binary module that can be opened
does not depend on what `runExports` found: it is 0 whenever `runExports` returns. -/
theorem main_run_all_exports (rt : Runtime) (path : String) (buf : List Nat)
    (hread : rt.readFile path = some buf) (hkind : fileKind path = FileKind.binary)
    (hdash : path.data.head? ≠ some '-') :
    main rt ["--run-all-exports", path]
      = (runExports rt path buf "").map (fun _ => (0 : Int)) := by
  unfold main
  rw [mainLoop]
  simp only [show ("--run-all-exports" : String).data.head? = some '-' from by decide, if_true]
  rw [mainLoop]
  simp only [hdash, if_false, hread, hkind, Bool.true_or, if_true]
  cases h : runExports rt path buf "" with
  | error e => rfl
  | ok r => rfl

/-- C28, evaluated on the code: with a module `t.wasm` whose exported function `f` traps,
`--run-all-exports t.wasm` and `--entry f t.wasm` run `f`, get the trap from `trap.run` and
drop it, and `main` returns 0; with a file `bad.wasm` that does not parse,
`--run-all-exports bad.wasm` prints the parse error and `main` returns 0. Without the
flags the same failures make `main` return -1: a trap during instantiation, and the parse
error, come back from `executeWASM` as the exception of the `TrapResult`, which `main`
tests. A bad command line (`--entry` as the last argument) returns 1, and a run without a
failure returns 0. For every runtime and every binary module that can be opened, the value
`main` returns under `--run-all-exports` is 0 whatever `runExports` found. -/
theorem run_all_exports_returns_zero_after_a_trap :
    runExports exampleRuntime "t.wasm" [0] ""
      = Except.ok (ExportsRun.ran [("f", { exception := some "unreachable" })])
    ∧ main exampleRuntime ["--run-all-exports", "t.wasm"] = Except.ok 0
    ∧ main exampleRuntime ["--entry", "f", "t.wasm"] = Except.ok 0
    ∧ runExports exampleRuntime "bad.wasm" [1] ""
      = Except.ok (ExportsRun.parseError "unexpected end")
    ∧ main exampleRuntime ["--run-all-exports", "bad.wasm"] = Except.ok 0
    ∧ main exampleTrappingRuntime ["t.wasm"] = Except.ok (-1)
    ∧ main exampleRuntime ["bad.wasm"] = Except.ok (-1)
    ∧ main exampleRuntime ["t.wasm", "--entry"] = Except.ok 1
    ∧ main exampleRuntime ["t.wasm"] = Except.ok 0
    ∧ (∀ (rt : Runtime) (path : String) (buf : List Nat) (r : ExportsRun),
        rt.readFile path = some buf → fileKind path = FileKind.binary →
        path.data.head? ≠ some '-' → runExports rt path buf "" = Except.ok r →
        main rt ["--run-all-exports", path] = Except.ok 0) := by
  refine ⟨by decide!, by decide!, by decide!, by decide!, by decide!, by decide!, by decide!,
    by decide!, by decide!, ?_⟩
  intro rt path buf r hread hkind hdash hr
  rw [main_run_all_exports rt path buf hread hkind hdash, hr]
  rfl

/-! ## The globals of the host module `spectest` -/

open Shell

/-- C29, evaluated on the code: the import values `executeWASM` creates for the globals of
`spectest`. `global_i32` and `global_i64` are the integers 666. `global_f32` is made by
`Value(float(0x44268000))`, the conversion of the integer 0x44268000 = 1143373824 to
`float`, whose bit pattern is 0x4E884D00, not 0x44268000 (which is 666.0); `global_f64` is
made by `Value(double(0x4084d00000000000))`, whose bit pattern is 0x43D0213400000000, not
0x4084D00000000000. -/
theorem spectest_float_globals_are_converted_integers (rt : Runtime) :
    spectestImportValue rt "global_i32" = Extern.global (Value.I32 666)
    ∧ spectestImportValue rt "global_i64" = Extern.global (Value.I64 666)
    ∧ spectestImportValue rt "global_f32" = Extern.global (Value.F32 0x4E884D00)
    ∧ spectestImportValue rt "global_f32" ≠ Extern.global (Value.F32 0x44268000)
    ∧ spectestImportValue rt "global_f64" = Extern.global (Value.F64 0x43D0213400000000)
    ∧ spectestImportValue rt "global_f64" ≠ Extern.global (Value.F64 0x4084D00000000000)
    ∧ importValueOf rt none ⟨"spectest", "global_f32"⟩
      = Except.ok (some (Extern.global (Value.F32 0x4E884D00))) := by
  have e1 : Walrus.i32 666 = 666 := by decide!
  have e2 : i64 666 = 666 := by decide!
  have e3 : floatBitsOfNat 23 8 0x44268000 = 0x4E884D00 := by decide!
  have e4 : floatBitsOfNat 52 11 0x4084d00000000000 = 0x43D0213400000000 := by decide!
  have h1 : spectestImportValue rt "global_i32" = Extern.global (Value.I32 666) := by
    simp [spectestImportValue, e1]
  have h2 : spectestImportValue rt "global_i64" = Extern.global (Value.I64 666) := by
    simp [spectestImportValue, e2]
  have h3 : spectestImportValue rt "global_f32" = Extern.global (Value.F32 0x4E884D00) := by
    simp only [spectestImportValue, e3]
    simp
  have h4 : spectestImportValue rt "global_f64"
      = Extern.global (Value.F64 0x43D0213400000000) := by
    simp only [spectestImportValue, e4]
    simp
  refine ⟨h1, h2, h3, ?_, h4, ?_, ?_⟩
  · rw [h3]
    decide
  · rw [h4]
    decide
  · unfold importValueOf
    rw [if_pos rfl, h3]

/-! ## Constants of a script as values -/

namespace Shell

open wabt

theorem ref_bits_succ_of_ne_null (w : Nat) (c : Const) (h : c.ref_bits w ≠ kRefNullBits w) :
    (c.ref_bits w + 1) % 2 ^ w = c.ref_bits w + 1 ∧ c.ref_bits w + 1 ≠ 0 := by
  have hpos : 0 < 2 ^ w := Nat.two_pow_pos w
  have hlt : c.ref_bits w < 2 ^ w := Nat.mod_lt _ hpos
  unfold kRefNullBits at h
  exact ⟨Nat.mod_eq_of_lt (by omega), by omega⟩

end Shell

open wabt Shell

/-- C30: `toWalrusValue` maps a null `FuncRef`/`ExternRef` constant to the null value of the
kind and a constant with the `ref_bits` `b` other than the null bits to the value of the
kind with the raw handle `b + 1`, which is not null; and for every constant `c` of type
`I32`, `I64`, `F32`, `F64`, `FuncRef` or `ExternRef`, `toWalrusValue(c)` returns a value
`v` with `equals(v, c)` true. `w` is the width of `uintptr_t`. -/
theorem toWalrusValue_round_trips (w : Nat) (c : Const) :
    (c.type = SigType.FuncRef →
      (c.ref_bits w = kRefNullBits w → toWalrusValue w c = Except.ok (Value.FuncRef 0)
        ∧ (Value.FuncRef 0).isNull = true)
      ∧ (c.ref_bits w ≠ kRefNullBits w →
        toWalrusValue w c = Except.ok (Value.FuncRef (c.ref_bits w + 1))
        ∧ (Value.FuncRef (c.ref_bits w + 1)).isNull = false))
    ∧ (c.type = SigType.ExternRef →
      (c.ref_bits w = kRefNullBits w → toWalrusValue w c = Except.ok (Value.ExternRef 0)
        ∧ (Value.ExternRef 0).isNull = true)
      ∧ (c.ref_bits w ≠ kRefNullBits w →
        toWalrusValue w c = Except.ok (Value.ExternRef (c.ref_bits w + 1))
        ∧ (Value.ExternRef (c.ref_bits w + 1)).isNull = false))
    ∧ (c.type = SigType.I32 ∨ c.type = SigType.I64 ∨ c.type = SigType.F32
        ∨ c.type = SigType.F64 ∨ c.type = SigType.FuncRef ∨ c.type = SigType.ExternRef →
      ∃ v, toWalrusValue w c = Except.ok v ∧ equals w v c = true) := by
  refine ⟨?_, ?_, ?_⟩
  · intro ht
    constructor
    · intro hn
      simp [toWalrusValue, ht, hn, Value.isNull]
    · intro hn
      obtain ⟨h1, h2⟩ := ref_bits_succ_of_ne_null w c hn
      simp [toWalrusValue, ht, hn, h1, Value.isNull]
  · intro ht
    constructor
    · intro hn
      simp [toWalrusValue, ht, hn, Value.isNull]
    · intro hn
      obtain ⟨h1, h2⟩ := ref_bits_succ_of_ne_null w c hn
      simp [toWalrusValue, ht, hn, h1, Value.isNull]
  · intro ht
    rcases ht with ht | ht | ht | ht | ht | ht
    · exact ⟨Value.I32 (Walrus.i32 (c.u32 : Int)), by simp [toWalrusValue, ht],
        by simp [equals, ht]⟩
    · exact ⟨Value.I64 (i64 (c.u64 : Int)), by simp [toWalrusValue, ht],
        by simp [equals, ht]⟩
    · by_cases hnan : c.is_expected_nan = true
      · refine ⟨Value.F32 quietNaNF32, by simp [toWalrusValue, ht, hnan], ?_⟩
        simp only [equals, ht, hnan, if_true]
        split <;> decide
      · exact ⟨Value.F32 c.f32_bits, by simp [toWalrusValue, ht, hnan],
          by simp [equals, ht, hnan]⟩
    · by_cases hnan : c.is_expected_nan = true
      · refine ⟨Value.F64 quietNaNF64, by simp [toWalrusValue, ht, hnan], ?_⟩
        simp only [equals, ht, hnan, if_true]
        split <;> decide
      · exact ⟨Value.F64 c.f64_bits, by simp [toWalrusValue, ht, hnan],
          by simp [equals, ht, hnan]⟩
    · by_cases hn : c.ref_bits w = kRefNullBits w
      · exact ⟨Value.FuncRef 0, by simp [toWalrusValue, ht, hn],
          by simp [equals, ht, hn, Value.isNull]⟩
      · exact ⟨Value.FuncRef ((c.ref_bits w + 1) % 2 ^ w), by simp [toWalrusValue, ht, hn],
          by simp [equals, ht, hn]⟩
    · by_cases hn : c.ref_bits w = kRefNullBits w
      · exact ⟨Value.ExternRef 0, by simp [toWalrusValue, ht, hn],
          by simp [equals, ht, hn, Value.isNull]⟩
      · exact ⟨Value.ExternRef ((c.ref_bits w + 1) % 2 ^ w),
          by simp [toWalrusValue, ht, hn], by simp [equals, ht, hn]⟩

/-! ## The NaN tests of the shell -/

namespace Shell

/-- The bits of `s` under a mask of `n` ones shifted left by `k`. -/
theorem and_shifted_ones (s k n : Nat) :
    s &&& ((2 ^ n - 1) * 2 ^ k) = ((s / 2 ^ k) % 2 ^ n) * 2 ^ k := by
  apply Nat.eq_of_testBit_eq
  intro i
  rw [← Nat.shiftRight_eq_div_pow, Nat.mul_comm _ (2 ^ k), Nat.mul_comm _ (2 ^ k)]
  simp only [Nat.testBit_and, Nat.testBit_mul_pow_two, Nat.testBit_two_pow_sub_one,
    Nat.testBit_mod_two_pow, Nat.testBit_shiftRight]
  by_cases hk : k ≤ i
  · by_cases hn : i - k < n
    · simp [hk, hn, Nat.add_sub_cancel' hk]
    · simp [hk, hn]
  · simp [hk]

theorem isArithmeticNanF32_iff (s : Nat) :
    isArithmeticNanF32 s = true ↔ (s / 4194304) % 512 = 511 := by
  have h := and_shifted_ones s 22 9
  norm_num at h
  simp only [isArithmeticNanF32, decide_eq_true_eq]
  rw [h]
  omega

theorem isArithmeticNanF64_iff (s : Nat) :
    isArithmeticNanF64 s = true ↔ (s / 2251799813685248) % 4096 = 4095 := by
  have h := and_shifted_ones s 51 12
  norm_num at h
  simp only [isArithmeticNanF64, decide_eq_true_eq]
  rw [h]
  omega

end Shell

open Shell

/-- C38: on bit patterns, `isCanonicalNan(float)` holds exactly for 0x7fc00000 and
0xffc00000, and `isArithmeticNan(float)` holds exactly when `(s & 0x7fc00000) = 0x7fc00000`,
that is, when the eight exponent bits and the top mantissa bit (bits 22 to 30) are all set;
every canonical NaN is an arithmetic NaN; an arithmetic NaN has all exponent bits set and a
mantissa other than 0, so neither test holds for an infinity (exponent 255, mantissa 0) or a
finite number (exponent below 255). The same for `double` with 0x7ff8000000000000,
0xfff8000000000000 and the bits 51 to 62. -/
theorem nan_tests_by_bit_pattern (s : Nat) :
    (isCanonicalNanF32 s = true ↔ s = 0x7fc00000 ∨ s = 0xffc00000)
    ∧ (isArithmeticNanF32 s = true ↔ s &&& 0x7fc00000 = 0x7fc00000)
    ∧ (isArithmeticNanF32 s = true ↔ (s / 2 ^ 22) % 2 ^ 9 = 2 ^ 9 - 1)
    ∧ (isCanonicalNanF32 s = true → isArithmeticNanF32 s = true)
    ∧ (isArithmeticNanF32 s = true → (s / 2 ^ 23) % 2 ^ 8 = 255 ∧ s % 2 ^ 23 ≠ 0)
    ∧ (isCanonicalNanF64 s = true ↔ s = 0x7ff8000000000000 ∨ s = 0xfff8000000000000)
    ∧ (isArithmeticNanF64 s = true ↔ s &&& 0x7ff8000000000000 = 0x7ff8000000000000)
    ∧ (isArithmeticNanF64 s = true ↔ (s / 2 ^ 51) % 2 ^ 12 = 2 ^ 12 - 1)
    ∧ (isCanonicalNanF64 s = true → isArithmeticNanF64 s = true)
    ∧ (isArithmeticNanF64 s = true → (s / 2 ^ 52) % 2 ^ 11 = 2047 ∧ s % 2 ^ 52 ≠ 0) := by
  have c32 : isCanonicalNanF32 s = true ↔ s = 0x7fc00000 ∨ s = 0xffc00000 := by
    simp [isCanonicalNanF32]
  have c64 : isCanonicalNanF64 s = true ↔ s = 0x7ff8000000000000 ∨ s = 0xfff8000000000000 := by
    simp [isCanonicalNanF64]
  refine ⟨c32, by simp [isArithmeticNanF32], ?_, ?_, ?_, c64, by simp [isArithmeticNanF64],
    ?_, ?_, ?_⟩
  · rw [isArithmeticNanF32_iff]; norm_num
  · intro h
    rw [isArithmeticNanF32_iff]
    rcases c32.mp h with h | h <;> rw [h]
  · intro h
    rw [isArithmeticNanF32_iff] at h
    norm_num
    omega
  · rw [isArithmeticNanF64_iff]; norm_num
  · intro h
    rw [isArithmeticNanF64_iff]
    rcases c64.mp h with h | h <;> rw [h]
  · intro h
    rw [isArithmeticNanF64_iff] at h
    norm_num
    omega

/-! ## The import values of the shell -/

namespace Shell

/-- The loop of `executeWASM` pushes at most one value for an import. -/
theorem importValuesOf_length_le (rt : Runtime)
    (registeredInstanceMap : Option (String → Option (String → Option Extern)))
    (imports : List ImportName) (values : List Extern)
    (h : importValuesOf rt registeredInstanceMap imports = Except.ok values) :
    values.length ≤ imports.length := by
  induction imports generalizing values with
  | nil =>
    simp only [importValuesOf, Except.ok.injEq] at h
    rw [← h]; exact Nat.le_refl _
  | cons imp rest ih =>
    simp only [importValuesOf] at h
    cases hv : importValueOf rt registeredInstanceMap imp with
    | error e => rw [hv] at h; cases h
    | ok v =>
      cases hm : importValuesOf rt registeredInstanceMap rest with
      | error e => rw [hv, hm] at h; cases h
      | ok more =>
        rw [hv, hm] at h
        have hlen := ih more hm
        cases v with
        | none =>
          have hval : values = more := by injection h with h; exact h.symm
          rw [hval]
          exact Nat.le_succ_of_le hlen
        | some e =>
          have hval : values = e :: more := by injection h with h; exact h.symm
          rw [hval]
          exact Nat.succ_le_succ hlen

/-- For imports of the module `spectest` alone the vector is positional, whatever the field
names. -/
theorem importValuesOf_spectest (rt : Runtime)
    (registeredInstanceMap : Option (String → Option (String → Option Extern)))
    (imports : List ImportName) (h : ∀ imp ∈ imports, imp.moduleName = "spectest") :
    importValuesOf rt registeredInstanceMap imports
      = Except.ok (imports.map (fun imp => spectestImportValue rt imp.fieldName)) := by
  induction imports with
  | nil => rfl
  | cons imp rest ih =>
    have h1 : imp.moduleName = "spectest" := h imp (List.mem_cons_self _ _)
    have h2 := ih (fun x hx => h x (List.mem_cons_of_mem _ hx))
    simp only [importValuesOf, importValueOf, h1, if_true, h2, List.map_cons]
    rfl

end Shell

open Shell

/-- C37, evaluated on the code: a module that imports `wasi_snapshot_preview1.fd_write` and
then `spectest.global_i32`. The loop of `executeWASM` pushes nothing for the first import
(the branch of `wasi_snapshot_preview1` knows `proc_exit` only) and the global for the
second: `importValues` has one entry for two imports, and `importValues[0]` is the value of
`imports()[1]`. The same with an import of a module that is not registered, with or without
a map of registered instances. An unknown field of `spectest` does get a value (a function
of the type `INVALID`), and for imports of `spectest` alone the vector is positional; in
general it has at most one entry per import. -/
theorem import_values_skip_unresolved_imports (rt : Runtime) :
    importValuesOf rt none
        [⟨"wasi_snapshot_preview1", "fd_write"⟩, ⟨"spectest", "global_i32"⟩]
      = Except.ok [Extern.global (Value.I32 666)]
    ∧ importValuesOf rt none [⟨"env", "f"⟩, ⟨"spectest", "global_i32"⟩]
      = Except.ok [Extern.global (Value.I32 666)]
    ∧ importValuesOf rt (some (fun _ => none)) [⟨"env", "f"⟩, ⟨"spectest", "global_i32"⟩]
      = Except.ok [Extern.global (Value.I32 666)]
    ∧ importValuesOf rt none [⟨"spectest", "no_such_field"⟩, ⟨"spectest", "global_i32"⟩]
      = Except.ok [Extern.importedFunction SpecTestFunctionTypes.Index.INVALID
          HostCallback.nothing, Extern.global (Value.I32 666)]
    ∧ (∀ map imports, (∀ imp ∈ imports, imp.moduleName = "spectest") →
        importValuesOf rt map imports
          = Except.ok (imports.map (fun imp => spectestImportValue rt imp.fieldName)))
    ∧ (∀ map imports values, importValuesOf rt map imports = Except.ok values →
        values.length ≤ imports.length) := by
  have e1 : ("wasi_snapshot_preview1" = "spectest") = False := by decide
  have e2 : ("env" = "spectest") = False := by decide
  have e3 : ("env" = "wasi_snapshot_preview1") = False := by decide
  have e4 : ("fd_write" = "proc_exit") = False := by decide
  have hi : Walrus.i32 666 = 666 := by decide
  have g : spectestImportValue rt "global_i32" = Extern.global (Value.I32 666) := by
    simp [spectestImportValue, hi]
  have n : spectestImportValue rt "no_such_field"
      = Extern.importedFunction SpecTestFunctionTypes.Index.INVALID HostCallback.nothing := by
    simp [spectestImportValue]
  refine ⟨?_, ?_, ?_, ?_, fun map imports h => importValuesOf_spectest rt map imports h,
    fun map imports values h => importValuesOf_length_le rt map imports values h⟩
  · simp only [importValuesOf, importValueOf, e1, e4, if_false, if_true, g]
    rfl
  · simp only [importValuesOf, importValueOf, e2, e3, if_false, if_true, g]
    rfl
  · simp only [importValuesOf, importValueOf, e2, e3, if_false, if_true, g]
    rfl
  · simp only [importValuesOf, importValueOf, if_true, g, n]
    rfl

namespace wabt.WASMBinaryReader

open Walrus

theorem sum_take_le_sum (l : List Nat) (i : Nat) : (l.take i).sum ≤ l.sum := by
  conv_rhs => rw [← List.take_append_drop i l]
  rw [List.sum_append]
  omega

theorem sum_take_succ (l : List Nat) (i : Nat) (a : Nat) (h : l[i]? = some a) :
    (l.take (i + 1)).sum = (l.take i).sum + a := by
  induction l generalizing i with
  | nil => simp at h
  | cons x xs ih =>
    cases i with
    | zero =>
      simp only [List.getElem?_cons_zero, Option.some.injEq] at h
      simp [h]
    | succ i =>
      simp only [List.getElem?_cons_succ] at h
      simp only [List.take_succ_cons, List.sum_cons, ih i h]
      omega

theorem sum_take_mono (l : List Nat) (i j : Nat) (h : i ≤ j) :
    (l.take i).sum ≤ (l.take j).sum := by
  have : l.take i = (l.take j).take i := by
    rw [List.take_take, Nat.min_eq_left h]
  rw [this]
  exact sum_take_le_sum _ _

/-- The pair `resolveLocalOffsetAndSize` returns, before any range assumption. -/
theorem resolveLocalOffsetAndSize_eq (t : Target) (s : WASMBinaryReader) (i : Nat)
    (ty : ValueType) (hi : (localTypes s)[i]? = some ty) :
    resolveLocalOffsetAndSize t s i
      = Except.ok (u32 (localOffset t s i), u32 (valueSizeInStack t.sizeofPointer ty)) := by
  unfold resolveLocalOffsetAndSize localOffset localTypes at *
  by_cases h : i < s.m_currentFunctionType.param.length
  · rw [List.getElem?_append_left h] at hi
    simp only [h, if_true, elemAt, hi]
    rw [List.take_append_of_le_length (Nat.le_of_lt h)]
    rfl
  · rw [List.getElem?_append_right (Nat.le_of_not_lt h)] at hi
    simp only [h, if_false, elemAt, hi]
    rw [List.take_append_eq_append_take, List.take_of_length_le (Nat.le_of_not_lt h)]
    simp only [List.map_append, List.sum_append, FunctionType.paramStackSize]
    rfl

theorem localOffset_add_le (t : Target) (s : WASMBinaryReader) (i : Nat)
    (ty : ValueType) (hi : (localTypes s)[i]? = some ty) :
    localOffset t s i + valueSizeInStack t.sizeofPointer ty ≤ localSlotsSize t s := by
  have h1 : ((localTypes s).map (valueSizeInStack t.sizeofPointer))[i]?
      = some (valueSizeInStack t.sizeofPointer ty) := by
    rw [List.getElem?_map, hi]
    rfl
  have h2 := sum_take_succ _ i _ h1
  have h3 := sum_take_le_sum ((localTypes s).map (valueSizeInStack t.sizeofPointer)) (i + 1)
  unfold localOffset localSlotsSize
  rw [List.map_take]
  omega

theorem localOffset_succ (t : Target) (s : WASMBinaryReader) (i : Nat)
    (ty : ValueType) (hi : (localTypes s)[i]? = some ty) :
    localOffset t s (i + 1) = localOffset t s i + valueSizeInStack t.sizeofPointer ty := by
  have h1 : ((localTypes s).map (valueSizeInStack t.sizeofPointer))[i]?
      = some (valueSizeInStack t.sizeofPointer ty) := by
    rw [List.getElem?_map, hi]
    rfl
  have h2 := sum_take_succ _ i _ h1
  unfold localOffset
  rw [List.map_take, List.map_take]
  exact h2

theorem localOffset_mono (t : Target) (s : WASMBinaryReader) (i j : Nat) (h : i ≤ j) :
    localOffset t s i ≤ localOffset t s j := by
  unfold localOffset
  rw [List.map_take, List.map_take]
  exact sum_take_mono _ _ _ h

theorem iterate_declareLocal_local (t : Target) (k : ValueType) (n : Nat)
    (s : WASMBinaryReader) :
    ((declareLocal t k)^[n] s).m_currentFunction.m_local
      = s.m_currentFunction.m_local ++ List.replicate n k := by
  induction n with
  | zero => simp
  | succ n ih =>
    simp only [Function.iterate_succ_apply']
    show ((declareLocal t k)^[n] s).m_currentFunction.m_local ++ [k] = _
    rw [ih, List.append_assoc, List.replicate_succ', ]

/-- After `beginFunction` on a function without declared locals the initial stack size is
the size of the slots of the parameters. -/
theorem beginFunction_slots (t : Target) (mf : ModuleFunction) (s s1 : WASMBinaryReader)
    (hl : mf.m_local = []) (h : beginFunction t mf s = Except.ok ((), s1)) :
    s1.m_initialFunctionStackSize = u32 (localSlotsSize t s1) := by
  unfold beginFunction modifyS at h
  simp only [Except.ok.injEq, Prod.mk.injEq, true_and] at h
  subst h
  simp only [localSlotsSize, localTypes, hl, List.append_nil, FunctionType.paramStackSize]

/-- `OnLocalDecl` keeps the initial stack size equal to the size of the slots. -/
theorem OnLocalDecl_slots (t : Target) (count : Nat) (type : SigType)
    (s s1 : WASMBinaryReader)
    (hs : s.m_initialFunctionStackSize = u32 (localSlotsSize t s))
    (h : OnLocalDecl t count type s = Except.ok ((), s1)) :
    s1.m_initialFunctionStackSize = u32 (localSlotsSize t s1) := by
  by_cases hc : count = 0
  · unfold OnLocalDecl at h
    simp only [hc, ne_eq, not_true_eq_false, if_false] at h
    cases h
    exact hs
  · cases hk : toValueKind type with
    | error e =>
      unfold OnLocalDecl at h
      simp only [ne_eq, hc, not_false_eq_true, if_true, hk] at h
      cases h
    | ok k =>
      rw [OnLocalDecl_run t count type k s hc hk] at h
      simp only [Except.ok.injEq, Prod.mk.injEq, true_and] at h
      subst h
      obtain ⟨-, -, h3, -, -, -, -, h8⟩ := iterate_declareLocal_fields t k count s
      have hl := iterate_declareLocal_local t k count s
      show ((declareLocal t k)^[count] s).m_initialFunctionStackSize
        = u32 (((((declareLocal t k)^[count] s).m_currentFunctionType.param
            ++ ((declareLocal t k)^[count] s).m_currentFunction.m_local).map
              (valueSizeInStack t.sizeofPointer)).sum)
      rw [h8, h3, hl, iterate_u32_add _ _ _ (by rw [hs]; exact Nat.mod_lt _ (by decide)), hs]
      simp only [localSlotsSize, localTypes, List.map_append, List.sum_append,
        List.map_replicate, List.sum_replicate, smul_eq_mul]
      unfold u32
      omega

end wabt.WASMBinaryReader


namespace wabt.WASMBinaryReader

open Walrus

/-- The loop of the constructor of `BlockInfo` over the parameters: it appends the moves
and touches nothing else the layout of the frame depends on. -/
theorem forEachM_moves_run (t : Target) (top : List VMStackInfo) (s : WASMBinaryReader) :
    ∃ s1, forEachM (fun (e : VMStackInfo) =>
        if e.m_position ≠ e.m_nonOptimizedPosition then
          generateMoveCodeIfNeeds t e.m_position e.m_nonOptimizedPosition e.m_size
        else pure ()) top s = Except.ok ((), s1)
      ∧ s1.m_currentFunction
          = (parameterMoves top).foldl (fun mf c => mf.pushByteCode t c) s.m_currentFunction
      ∧ s1.m_vmStack = s.m_vmStack
      ∧ s1.m_blockInfo = s.m_blockInfo
      ∧ s1.m_localInfo = s.m_localInfo
      ∧ s1.m_functionStackSizeSoFar = s.m_functionStackSizeSoFar
      ∧ s1.m_initialFunctionStackSize = s.m_initialFunctionStackSize
      ∧ s1.m_currentFunctionType = s.m_currentFunctionType := by
  induction top generalizing s with
  | nil => exact ⟨s, rfl, rfl, rfl, rfl, rfl, rfl, rfl, rfl⟩
  | cons e rest ih =>
    by_cases hp : e.m_position = e.m_nonOptimizedPosition
    · obtain ⟨s1, h1, h2⟩ := ih s
      refine ⟨s1, ?_, ?_, h2.2⟩
      · simp only [forEachM, run_bind, hp, ne_eq, not_true_eq_false, if_false, run_pure]
        simpa only [hp, ne_eq, not_true_eq_false, if_false] using h1
      · rw [h2.1]
        simp [parameterMoves, List.filter_cons, hp]
    · by_cases h4 : e.m_size = 4
      · obtain ⟨s1, h1, h2, h3⟩ := ih
          { s with
            m_lastByteCodePosition := u32 s.m_currentFunction.currentByteCodeSize
            m_lastPushedOpcode := WASMOpcode.Move32
            m_currentFunction := s.m_currentFunction.pushByteCode t
              (ByteCode.Move32 (u16 e.m_position) (u16 e.m_nonOptimizedPosition)) }
        refine ⟨s1, ?_, ?_, h3⟩
        · simp only [forEachM, run_bind, ne_eq, hp, not_false_eq_true, if_true,
            generateMoveCodeIfNeeds, h4, pushByteCode, run_modifyS]
          exact h1
        · rw [h2]
          simp [parameterMoves, List.filter_cons, hp, parameterMove, h4]
      · obtain ⟨s1, h1, h2, h3⟩ := ih
          { s with
            m_lastByteCodePosition := u32 s.m_currentFunction.currentByteCodeSize
            m_lastPushedOpcode := WASMOpcode.Move64
            m_currentFunction := s.m_currentFunction.pushByteCode t
              (ByteCode.Move64 (u16 e.m_position) (u16 e.m_nonOptimizedPosition)) }
        refine ⟨s1, ?_, ?_, h3⟩
        · simp only [forEachM, run_bind, ne_eq, hp, not_false_eq_true, if_true,
            generateMoveCodeIfNeeds, h4, if_false, pushByteCode, run_modifyS]
          exact h1
        · rw [h2]
          simp [parameterMoves, List.filter_cons, hp, parameterMove, h4]

/-- The constructor of `BlockInfo` on a signature with `k ≥ 1` parameters, run on a stack
of at least `k` entries. -/
theorem newBlockInfo_params_run (t : Target) (ty : BlockType) (i k : Nat) (ft : FunctionType)
    (s : WASMBinaryReader)
    (hft : functionTypeAt s i = Except.ok ft) (hk : ft.param.length = k) (hk1 : 1 ≤ k)
    (hstack : k ≤ s.m_vmStack.length) :
    ∃ b s1, newBlockInfo t ty (SigType.Index i) s = Except.ok (b, s1)
      ∧ b.m_parameterPositions
          = (s.m_vmStack.reverse.take k).map (fun e => u32 e.m_nonOptimizedPosition)
      ∧ b.m_vmStack = s.m_vmStack
      ∧ b.m_functionStackSizeSoFar = s.m_functionStackSizeSoFar
      ∧ s1.m_currentFunction
          = (parameterMoves (s.m_vmStack.reverse.take k)).foldl
              (fun mf c => mf.pushByteCode t c) s.m_currentFunction
      ∧ s1.m_vmStack = s.m_vmStack.take (s.m_vmStack.length - k)
          ++ (s.m_vmStack.drop (s.m_vmStack.length - k)).map
              (fun e => { e with m_position := e.m_nonOptimizedPosition })
      ∧ b.m_position = s1.m_currentFunction.m_byteCodeSize
      ∧ s1.m_blockInfo = s.m_blockInfo
      ∧ s1.m_localInfo = copyStackRefs s.m_localInfo s.m_vmStack
      ∧ s1.m_functionStackSizeSoFar = s.m_functionStackSizeSoFar
      ∧ s1.m_initialFunctionStackSize = s.m_initialFunctionStackSize
      ∧ s1.m_currentFunctionType = s.m_currentFunctionType := by
  obtain ⟨s1, h1, h2, h3, h4, h5, h6, h7, h8⟩ := forEachM_moves_run t (s.m_vmStack.reverse.take k)
    { s with m_localInfo := copyStackRefs s.m_localInfo s.m_vmStack }
  have hn : ft.param.length ≠ 0 := by omega
  have hle : ¬ ft.param.length > s.m_vmStack.length := by omega
  subst hk
  refine ⟨({ m_blockType := ty,
              m_returnValueType := SigType.Index i,
              m_position := s1.m_currentFunction.currentByteCodeSize,
              m_vmStack := s.m_vmStack,
              m_parameterPositions :=
                (s.m_vmStack.reverse.take ft.param.length).map
                  (fun e => u32 e.m_nonOptimizedPosition),
              m_functionStackSizeSoFar := s.m_functionStackSizeSoFar,
              m_shouldRestoreVMStackAtEnd := false,
              m_byteCodeGenerationStopped := false,
              m_jumpToEndBrInfo := [] } : BlockInfo),
           { s1 with
             m_vmStack := s1.m_vmStack.take (s1.m_vmStack.length - ft.param.length)
               ++ (s1.m_vmStack.drop (s1.m_vmStack.length - ft.param.length)).map
                   (fun e => { e with m_position := e.m_nonOptimizedPosition }) }, ?_, ?_⟩
  · unfold newBlockInfo
    simp only [run_bind, run_getS, run_modifyS, hft, run_liftE_ok, if_pos hn, if_neg hle, h1,
      run_pure, currentByteCodeSize]
  · dsimp only [ModuleFunction.currentByteCodeSize]
    rw [h3]
    exact ⟨rfl, rfl, rfl, h2, rfl, rfl, h4, h5, h6, h7, h8⟩

theorem canUseDirectReference_parameter (s : WASMBinaryReader) (b : BlockInfo)
    (localIndex pos : Nat) (hb : b ∈ s.m_blockInfo) (hp : u32 pos ∈ b.m_parameterPositions) :
    canUseDirectReference s localIndex pos = Except.ok false := by
  unfold canUseDirectReference
  rw [if_pos]
  rw [List.any_eq_true]
  refine ⟨b, hb, ?_⟩
  rw [List.any_eq_true]
  exact ⟨u32 pos, hp, by simp⟩

end wabt.WASMBinaryReader

open wabt Walrus wabt.WASMBinaryReader

/-- C35: the constructor of `BlockInfo` on a signature that is a function type with
`k ≥ 1` parameters, run on a VM stack of at least `k` entries, returns a block. Its
`m_parameterPositions` are the non-optimized positions of the top `k` entries, topmost
first; the bytecode grows by `parameterMoves`, one `Move32` or `Move64` from `m_position` to
`m_nonOptimizedPosition` for each of those entries where the two differ, topmost first;
afterwards the top `k` live entries are at their non-optimized positions and the entries
below are untouched; the block's `m_position` is the bytecode size after the moves; and in
every state with an open block of these parameter positions `canUseDirectReference(i, pos)`
is false for each of them, whatever the flag of local `i`. -/
theorem block_parameters_are_moved_to_their_registers (t : Target) (ty : BlockType)
    (i k : Nat) (ft : FunctionType) (s : WASMBinaryReader)
    (hft : functionTypeAt s i = Except.ok ft) (hk : ft.param.length = k) (hk1 : 1 ≤ k)
    (hstack : k ≤ s.m_vmStack.length) :
    ∃ b s1, newBlockInfo t ty (SigType.Index i) s = Except.ok (b, s1)
      ∧ b.m_parameterPositions
          = (s.m_vmStack.reverse.take k).map (fun e => u32 e.m_nonOptimizedPosition)
      ∧ s1.m_currentFunction
          = (parameterMoves (s.m_vmStack.reverse.take k)).foldl
              (fun mf c => mf.pushByteCode t c) s.m_currentFunction
      ∧ (parameterMoves (s.m_vmStack.reverse.take k)).length
          = ((s.m_vmStack.reverse.take k).filter
              (fun e => decide (e.m_position ≠ e.m_nonOptimizedPosition))).length
      ∧ s1.m_vmStack = s.m_vmStack.take (s.m_vmStack.length - k)
          ++ (s.m_vmStack.drop (s.m_vmStack.length - k)).map
              (fun e => { e with m_position := e.m_nonOptimizedPosition })
      ∧ (∀ e ∈ s1.m_vmStack.reverse.take k, e.m_position = e.m_nonOptimizedPosition)
      ∧ b.m_position = s1.m_currentFunction.m_byteCodeSize
      ∧ (∀ (s2 : WASMBinaryReader) (b2 : BlockInfo) (localIndex pos : Nat),
          b2 ∈ s2.m_blockInfo → b2.m_parameterPositions = b.m_parameterPositions →
          pos ∈ b.m_parameterPositions →
          canUseDirectReference s2 localIndex pos = Except.ok false) := by
  obtain ⟨b, s1, h1, h2, -, -, h3, h4, h5, -⟩ := newBlockInfo_params_run t ty i k ft s hft hk hk1 hstack
  refine ⟨b, s1, h1, h2, h3, ?_, h4, ?_, h5, ?_⟩
  · simp [parameterMoves]
  · intro e he
    rw [h4] at he
    simp only [List.reverse_append, List.take_append_eq_append_take, List.length_reverse,
      List.length_map, List.length_drop, List.mem_append] at he
    rcases he with he | he
    · have he := List.mem_of_mem_take he
      simp only [List.mem_reverse, List.mem_map] at he
      obtain ⟨a, -, rfl⟩ := he
      rfl
    · have hz : k - (s.m_vmStack.length - (s.m_vmStack.length - k)) = 0 := by omega
      rw [hz] at he
      simp at he
  · intro s2 b2 localIndex pos hb hpp hp
    refine canUseDirectReference_parameter s2 b2 localIndex pos hb ?_
    rw [hpp]
    have : u32 pos = pos := by
      rw [h2] at hp
      simp only [List.mem_map] at hp
      obtain ⟨a, -, rfl⟩ := hp
      unfold u32
      omega
    rw [this]
    exact hp

/-- C35 on `exampleBlockParams`, entering a block of type `(i64, i32) -> ()` with the stack
`local.get 1  local.get 0` of a function `(i32, i64)`: the parameter positions are the
registers 20 and 12, and the two locals are moved there, the top entry first. -/
theorem block_parameters_are_moved_to_their_registers_witness :
    ∃ b s1, newBlockInfo exampleTarget BlockType.Block (SigType.Index 0) exampleBlockParams
        = Except.ok (b, s1)
      ∧ b.m_parameterPositions = [20, 12]
      ∧ s1.m_currentFunction.m_byteCode
          = [(0, ByteCode.Move32 0 20), (16, ByteCode.Move64 4 12)]
      ∧ s1.m_vmStack.map (fun e => e.m_position) = [12, 20]
      ∧ b.m_position = 32 := by
  obtain ⟨b, s1, h1, h2, h3, -, h4, -, h5, -⟩ :=
    block_parameters_are_moved_to_their_registers exampleTarget BlockType.Block 0 2
      ⟨[ValueType.I64, ValueType.I32], []⟩ exampleBlockParams (by decide!) (by decide!)
      (by decide!) (by decide!)
  refine ⟨b, s1, h1, ?_, ?_, ?_, ?_⟩
  · rw [h2]
    decide!
  · rw [h3]
    decide!
  · rw [h4]
    decide!
  · rw [h5, h3]
    decide!

open wabt Walrus wabt.WASMBinaryReader

/-- C33, evaluated on the code: `call 0  ref.null func  drop  local.set 0` in a function
`(param i64)` on a 64-bit target, function 0 being of type `() -> (i64)`. Before the
`local.set` the entry to be stored is the result of the call, at position 8, while the record
at `m_lastByteCodePosition` (18) is the `Const64` of `ref.null`, whose destination is 16 and
whose opcode is the last pushed one. `local.set 0` retargets that record to the slot 0 of the
local and emits no move: the bytecode never copies the result of the call to the local. -/
theorem write_back_retargets_a_record_of_another_entry :
    (runEvents exampleTarget
        [Event.OnCallExpr 0, Event.OnRefNullExpr, Event.OnDropExpr] exampleCallReader).toOption.map
      (fun s => (s.m_vmStack, s.m_currentFunction.m_byteCode, s.m_lastByteCodePosition,
        s.m_lastPushedOpcode))
      = some ([⟨8, 8, 8, none⟩],
          [(0, ByteCode.Call 0 1 [8]), (18, ByteCode.Const64 16 0)], 18, WASMOpcode.Const64)
    ∧ (runEvents exampleTarget
        [Event.OnCallExpr 0, Event.OnRefNullExpr, Event.OnDropExpr, Event.OnLocalSetExpr 0]
        exampleCallReader).toOption.map
      (fun s => (s.m_vmStack, s.m_currentFunction.m_byteCode))
      = some ([], [(0, ByteCode.Call 0 1 [8]), (18, ByteCode.Const64 0 0)])
    ∧ (runEvents exampleTarget
        [Event.OnCallExpr 0, Event.OnLocalSetExpr 0] exampleCallReader).toOption.map
      (fun s => (s.m_vmStack, s.m_currentFunction.m_byteCode))
      = some ([], [(0, ByteCode.Call 0 1 [8]), (18, ByteCode.Move64 8 0)]) := by
  decide!

open wabt Walrus wabt.WASMBinaryReader

/-- C34, evaluated on the code: `block (result i32)  i32.const 7  local.get 1  br_if 0
drop  local.get 0  end` in a function `(param i32 i32) (result i32)`. Before the `end` the
block has one pending jump, which carries the constant in slot 8 to the end of the block, and
`m_shouldRestoreVMStackAtEnd` is `false`, as `OnBrIfExpr` never sets it. After the `end` the
result entry on the VM stack has `m_position` 0, the slot of local 0, and
`m_nonOptimizedPosition` 8: the branch leaves the result in slot 8 and the fall-through names
slot 0. With every `m_canUseDirectReference` forced to `false` the entry is at 8. -/
theorem block_result_after_br_if_stays_in_the_local_slot :
    (compileExample ⟨[ValueType.I32, ValueType.I32], [ValueType.I32]⟩ [] true
        [Event.OnBlockExpr SigType.I32, Event.OnI32ConstExpr 7, Event.OnLocalGetExpr 1,
          Event.OnBrIfExpr 0, Event.OnDropExpr, Event.OnLocalGetExpr 0]).toOption.map
      (fun s => s.m_blockInfo.map (fun b => (b.m_returnValueType, b.m_jumpToEndBrInfo.length,
        b.m_shouldRestoreVMStackAtEnd)))
      = some [(SigType.I32, 1, false)]
    ∧ (compileExample ⟨[ValueType.I32, ValueType.I32], [ValueType.I32]⟩ [] true
        [Event.OnBlockExpr SigType.I32, Event.OnI32ConstExpr 7, Event.OnLocalGetExpr 1,
          Event.OnBrIfExpr 0, Event.OnDropExpr, Event.OnLocalGetExpr 0,
          Event.OnEndExpr]).toOption.map
      (fun s => (s.m_vmStack, s.m_blockInfo.length, s.m_currentFunction.m_byteCode))
      = some ([⟨4, 0, 8, some 0⟩], 0,
          [(0, ByteCode.Const32 8 7), (16, ByteCode.JumpIfFalse 4 32), (32, ByteCode.Jump 16)])
    ∧ (compileExample ⟨[ValueType.I32, ValueType.I32], [ValueType.I32]⟩ [] false
        [Event.OnBlockExpr SigType.I32, Event.OnI32ConstExpr 7, Event.OnLocalGetExpr 1,
          Event.OnBrIfExpr 0, Event.OnDropExpr, Event.OnLocalGetExpr 0,
          Event.OnEndExpr]).toOption.map
      (fun s => s.m_vmStack.map (fun e => (e.m_position, e.m_nonOptimizedPosition)))
      = some [(8, 8)] := by
  decide!

namespace wabt

open Walrus

instance (t : Target) (tys : List ValueType) (flags : List Bool) (g : BlockInfo) :
    IsRefl WASMBinaryReader (KeepsFrame t tys flags g) :=
  ⟨fun _ h _ => h⟩

instance (t : Target) (tys : List ValueType) (flags : List Bool) (g : BlockInfo) :
    IsTrans WASMBinaryReader (KeepsFrame t tys flags g) :=
  ⟨fun _ _ _ h1 h2 hI hg => h2 (h1 hI hg) hg⟩

theorem valueSizeInStack_le16 (ptr : Nat) (k : ValueType) (hp : ptr ≤ 16) :
    valueSizeInStack ptr k ≤ 16 := by
  cases k <;> simp only [valueSizeInStack] <;> omega

theorem valueSizeInStack_pos (ptr : Nat) (k : ValueType) (hp : 0 < ptr) :
    0 < valueSizeInStack ptr k := by
  cases k <;> simp only [valueSizeInStack] <;> omega

theorem codeTypeToMemorySize_le16 (c : CodeType) : codeTypeToMemorySize c ≤ 16 := by
  cases c <;> simp only [codeTypeToMemorySize] <;> omega

/-! ### Reference counts -/

theorem getElem?_modifyRefCount (f : Nat → Nat) (idx : Nat) (infos : List LocalInfo) (j : Nat) :
    (modifyRefCount f idx infos)[j]?
      = if j = idx then (infos[j]?).map (fun x => { x with m_refCount := f x.m_refCount })
        else infos[j]? := by
  induction infos generalizing idx j with
  | nil => cases idx <;> simp [modifyRefCount]
  | cons x xs ih =>
    cases idx with
    | zero =>
      cases j with
      | zero => simp [modifyRefCount]
      | succ j => simp [modifyRefCount]
    | succ n =>
      cases j with
      | zero => simp [modifyRefCount]
      | succ j => simp [modifyRefCount, ih]

theorem refsOk_increase {infos : List LocalInfo} {c : Nat → Nat} (h : RefsOk infos c)
    (li : Option Nat) :
    RefsOk (increaseRefCountIfNeeds infos li)
      (fun i => c i + if li = some i then 1 else 0) := by
  intro i info hi
  cases li with
  | none =>
    simp only [increaseRefCountIfNeeds] at hi
    simpa using h i info hi
  | some idx =>
    simp only [increaseRefCountIfNeeds, getElem?_modifyRefCount] at hi
    by_cases hj : i = idx
    · rw [if_pos hj] at hi
      cases hx : infos[i]? with
      | none => simp [hx] at hi
      | some x =>
        simp only [hx, Option.map_some', Option.some.injEq] at hi
        subst hi
        have := h i x hx
        simp only [Option.some.injEq, hj, if_true, incSize]
        rw [hj] at this
        omega
    · rw [if_neg hj] at hi
      have := h i info hi
      have hne : ¬ (some idx = some i) := by
        intro he
        exact hj (Option.some.inj he).symm
      simp only [hne, if_false, Nat.add_zero]
      exact this

theorem refsOk_decrease {infos : List LocalInfo} {c : Nat → Nat} (li : Option Nat)
    (h : RefsOk infos (fun i => c i + if li = some i then 1 else 0)) :
    RefsOk (decreaseRefCountIfNeeds infos li) c := by
  intro i info hi
  cases li with
  | none =>
    simp only [decreaseRefCountIfNeeds] at hi
    simpa using h i info hi
  | some idx =>
    simp only [decreaseRefCountIfNeeds, getElem?_modifyRefCount] at hi
    by_cases hj : i = idx
    · rw [if_pos hj] at hi
      cases hx : infos[i]? with
      | none => simp [hx] at hi
      | some x =>
        simp only [hx, Option.map_some', Option.some.injEq] at hi
        subst hi
        have := h i x hx
        simp only [Option.some.injEq, hj, if_true] at this
        simp only [decSize]
        rw [hj]
        omega
    · rw [if_neg hj] at hi
      have := h i info hi
      have hne : ¬ (some idx = some i) := by
        intro he
        exact hj (Option.some.inj he).symm
      simp only [hne, if_false, Nat.add_zero] at this
      exact this

theorem refsOk_congr {infos : List LocalInfo} {c c1 : Nat → Nat} (h : RefsOk infos c)
    (hc : ∀ i, c i = c1 i) : RefsOk infos c1 := by
  intro i info hi
  rw [← hc i]
  exact h i info hi

theorem refsTo_append (i : Nat) (l1 l2 : List VMStackInfo) :
    refsTo i (l1 ++ l2) = refsTo i l1 + refsTo i l2 := by
  unfold refsTo
  rw [List.countP_append]

theorem refsTo_singleton (i : Nat) (e : VMStackInfo) :
    refsTo i [e] = if e.m_localIndex = some i then 1 else 0 := by
  unfold refsTo
  by_cases h : e.m_localIndex = some i
  · simp [h]
  · simp [h]

theorem refsTo_cons (i : Nat) (e : VMStackInfo) (l : List VMStackInfo) :
    refsTo i (e :: l) = (if e.m_localIndex = some i then 1 else 0) + refsTo i l := by
  have := refsTo_append i [e] l
  rw [refsTo_singleton] at this
  exact this

theorem refsOk_copy {infos : List LocalInfo} {c : Nat → Nat} (h : RefsOk infos c)
    (stack : List VMStackInfo) :
    RefsOk (copyStackRefs infos stack) (fun i => c i + refsTo i stack) := by
  unfold copyStackRefs
  induction stack generalizing infos c with
  | nil =>
    simp only [List.foldl_nil]
    exact refsOk_congr h (fun i => by simp [refsTo])
  | cons e rest ih =>
    simp only [List.foldl_cons]
    refine refsOk_congr (ih (refsOk_increase h e.m_localIndex)) (fun i => ?_)
    rw [refsTo_cons]
    omega

theorem refsOk_destroy {infos : List LocalInfo} {c : Nat → Nat} (stack : List VMStackInfo)
    (h : RefsOk infos (fun i => c i + refsTo i stack)) :
    RefsOk (destroyStackRefs infos stack) c := by
  unfold destroyStackRefs
  induction stack generalizing infos c with
  | nil =>
    simp only [List.foldl_nil]
    exact refsOk_congr h (fun i => by simp [refsTo])
  | cons e rest ih =>
    simp only [List.foldl_cons]
    refine ih (refsOk_decrease e.m_localIndex (refsOk_congr h (fun i => ?_)))
    rw [refsTo_cons]
    omega

end wabt

namespace wabt

open Walrus

/-! ### The layout of a stack -/

theorem layoutOk_nil (w0 : Nat) : LayoutOk w0 [] w0 :=
  ⟨by simp, fun h => absurd rfl h, fun k e h => by simp at h⟩

theorem layoutOk_lt {w0 w : Nat} {stack : List VMStackInfo} (h : LayoutOk w0 stack w)
    (h0 : w0 + 16 < 4294967296) : w + 16 < 4294967296 := by
  obtain ⟨h1, h2, -⟩ := h
  cases stack with
  | nil =>
    simp only [List.map_nil, List.sum_nil, Nat.add_zero] at h1
    omega
  | cons x xs =>
    have := h2 (by simp)
    omega

theorem layoutOk_push {w0 w : Nat} {stack : List VMStackInfo} (h : LayoutOk w0 stack w)
    (h0 : w0 + 16 < 4294967296) (size pos : Nat) (li : Option Nat) (hsz : size ≤ 16)
    (hlim : ¬ u32 (w + size) > 65535) :
    LayoutOk w0 (stack ++ [⟨size, pos, w, li⟩]) (u32 (w + size)) := by
  have hlt := layoutOk_lt h h0
  obtain ⟨h1, h2, h3⟩ := h
  have hu : u32 (w + size) = w + size := by
    unfold u32
    omega
  rw [hu] at hlim ⊢
  refine ⟨?_, fun _ => by omega, ?_⟩
  · simp only [List.map_append, List.map_cons, List.map_nil, List.sum_append, List.sum_cons,
      List.sum_nil]
    omega
  · intro k e hk
    by_cases hlt : k < stack.length
    · rw [List.getElem?_append_left hlt] at hk
      rw [List.take_append_of_le_length (Nat.le_of_lt hlt)]
      exact h3 k e hk
    · have hge : stack.length ≤ k := Nat.le_of_not_lt hlt
      rw [List.getElem?_append_right hge] at hk
      cases hz : k - stack.length with
      | zero =>
        rw [hz] at hk
        simp only [List.getElem?_cons_zero, Option.some.injEq] at hk
        subst hk
        have hk2 : k = stack.length := by omega
        subst hk2
        simp only [List.take_left']
        exact h1
      | succ n =>
        rw [hz] at hk
        simp at hk

theorem layoutOk_pop {w0 w : Nat} {l : List VMStackInfo} {e : VMStackInfo}
    (h : LayoutOk w0 (l ++ [e]) w) :
    subU32 w e.m_size = e.m_nonOptimizedPosition
      ∧ LayoutOk w0 l e.m_nonOptimizedPosition := by
  obtain ⟨h1, h2, h3⟩ := h
  have hw := h2 (by simp)
  have he := h3 l.length e (by simp)
  simp only [List.take_left'] at he
  simp only [List.map_append, List.map_cons, List.map_nil, List.sum_append, List.sum_cons,
    List.sum_nil, Nat.add_zero] at h1
  refine ⟨?_, he, fun _ => by omega, ?_⟩
  · unfold subU32
    omega
  · intro k x hk
    have hlt : k < l.length := by
      rcases Nat.lt_or_ge k l.length with hlt | hge
      · exact hlt
      · rw [List.getElem?_eq_none hge] at hk
        cases hk
    have := h3 k x (by rw [List.getElem?_append_left hlt]; exact hk)
    rw [List.take_append_of_le_length (Nat.le_of_lt hlt)] at this
    exact this

theorem layoutOk_of_map_eq {w0 w : Nat} {l l1 : List VMStackInfo}
    (hm : l1.map (fun e => (e.m_size, e.m_nonOptimizedPosition))
      = l.map (fun e => (e.m_size, e.m_nonOptimizedPosition)))
    (h : LayoutOk w0 l w) : LayoutOk w0 l1 w := by
  have hsz : ∀ (a b : List VMStackInfo),
      a.map (fun e => (e.m_size, e.m_nonOptimizedPosition))
        = b.map (fun e => (e.m_size, e.m_nonOptimizedPosition)) →
      a.map (fun e => e.m_size) = b.map (fun e => e.m_size) := by
    intro a b hab
    have := congrArg (List.map Prod.fst) hab
    simpa [List.map_map, Function.comp_def] using this
  have hlen : l1.length = l.length := by
    have := congrArg List.length hm
    simpa using this
  obtain ⟨h1, h2, h3⟩ := h
  refine ⟨?_, ?_, ?_⟩
  · rw [hsz l1 l hm]
    exact h1
  · intro hne
    apply h2
    intro hnil
    apply hne
    rw [hnil] at hlen
    exact List.length_eq_zero.mp hlen
  · intro k e1 hk
    have hk1 := congrArg (fun x => x[k]?) hm
    simp only [List.getElem?_map, hk, Option.map_some'] at hk1
    cases hl : l[k]? with
    | none => simp [hl] at hk1
    | some e =>
      simp only [hl, Option.map_some', Option.some.injEq, Prod.mk.injEq] at hk1
      have := h3 k e hl
      have htk : (l1.take k).map (fun e => (e.m_size, e.m_nonOptimizedPosition))
          = (l.take k).map (fun e => (e.m_size, e.m_nonOptimizedPosition)) := by
        rw [List.map_take, List.map_take, hm]
      rw [hsz _ _ htk, hk1.2, this]

theorem map_reposition (l : List VMStackInfo) (k : Nat) :
    (l.take k ++ (l.drop k).map
        (fun (e : VMStackInfo) => { e with m_position := e.m_nonOptimizedPosition })).map
        (fun (e : VMStackInfo) => (e.m_size, e.m_nonOptimizedPosition))
      = l.map (fun (e : VMStackInfo) => (e.m_size, e.m_nonOptimizedPosition)) := by
  rw [List.map_append, List.map_map]
  have : ((fun (e : VMStackInfo) => (e.m_size, e.m_nonOptimizedPosition))
      ∘ fun (e : VMStackInfo) => { e with m_position := e.m_nonOptimizedPosition })
        = fun (e : VMStackInfo) => (e.m_size, e.m_nonOptimizedPosition) := rfl
  rw [this, ← List.map_append, List.take_append_drop]

theorem refsTo_reposition (i : Nat) (l : List VMStackInfo) (k : Nat) :
    refsTo i (l.take k
      ++ (l.drop k).map (fun e => { e with m_position := e.m_nonOptimizedPosition }))
      = refsTo i l := by
  conv_rhs => rw [← List.take_append_drop k l]
  rw [refsTo_append, refsTo_append]
  congr 1
  unfold refsTo
  rw [List.countP_map]
  rfl

theorem stackFrameOk_reposition {t : Target} {tys : List ValueType} {flags : List Bool}
    {l : List VMStackInfo} {w : Nat} (h : StackFrameOk t tys flags l w) (k : Nat) :
    StackFrameOk t tys flags
      (l.take k ++ (l.drop k).map (fun e => { e with m_position := e.m_nonOptimizedPosition }))
      w := by
  refine ⟨layoutOk_of_map_eq (map_reposition l k) h.1, ?_⟩
  intro e he
  rcases List.mem_append.mp he with h1 | h1
  · exact h.2 e (List.mem_of_mem_take h1)
  · obtain ⟨a, ha, rfl⟩ := List.mem_map.mp h1
    exact ⟨(h.2 a (List.mem_of_mem_drop ha)).1, Or.inl rfl⟩

theorem stackFrameOk_pop {t : Target} {tys : List ValueType} {flags : List Bool}
    {l : List VMStackInfo} {e : VMStackInfo} {w : Nat}
    (h : StackFrameOk t tys flags (l ++ [e]) w) :
    subU32 w e.m_size = e.m_nonOptimizedPosition
      ∧ StackFrameOk t tys flags l (subU32 w e.m_size) := by
  obtain ⟨h1, h2⟩ := layoutOk_pop h.1
  refine ⟨h1, ?_, fun x hx => h.2 x (List.mem_append_left _ hx)⟩
  rw [h1]
  exact h2

theorem stackFrameOk_push {t : Target} {tys : List ValueType} {flags : List Bool}
    {stack : List VMStackInfo} {w : Nat} (h : StackFrameOk t tys flags stack w)
    (h0 : slotsSize t tys + 16 < 4294967296) (size pos : Nat) (li : Option Nat)
    (hlim : ¬ u32 (w + size) > 65535)
    (he : EntryOk t tys flags ⟨size, pos, w, li⟩) :
    StackFrameOk t tys flags (stack ++ [⟨size, pos, w, li⟩]) (u32 (w + size)) := by
  refine ⟨layoutOk_push h.1 h0 size pos li he.1 hlim, ?_⟩
  intro x hx
  rcases List.mem_append.mp hx with h1 | h1
  · exact h.2 x h1
  · rw [List.mem_singleton.mp h1]
    exact he

/-! ### Changes that keep the invariant -/

theorem snapshots_modifyAt (f : BlockInfo → BlockInfo) (i : Nat) (l : List BlockInfo)
    (hf : ∀ b, (f b).m_vmStack = b.m_vmStack
      ∧ (f b).m_functionStackSizeSoFar = b.m_functionStackSizeSoFar) :
    (WASMBinaryReader.modifyAt f i l).map
        (fun b => (b.m_vmStack, b.m_functionStackSizeSoFar))
      = l.map (fun b => (b.m_vmStack, b.m_functionStackSizeSoFar)) := by
  induction l generalizing i with
  | nil => cases i <;> rfl
  | cons x xs ih =>
    cases i with
    | zero => simp [WASMBinaryReader.modifyAt, (hf x).1, (hf x).2]
    | succ n => simp [WASMBinaryReader.modifyAt, ih]

/-- A change that leaves the locals, the flags, the VM stack, the watermarks and the
snapshots as they are keeps the invariant. -/
theorem frameInvAt_of_fields {t : Target} {tys : List ValueType} {flags : List Bool}
    {s s1 : WASMBinaryReader} (h : FrameInvAt t tys flags s)
    (h1 : localTypes s1 = localTypes s)
    (h2 : s1.m_localInfo = s.m_localInfo)
    (h3 : s1.m_initialFunctionStackSize = s.m_initialFunctionStackSize)
    (h4 : s1.m_vmStack = s.m_vmStack)
    (h5 : s1.m_functionStackSizeSoFar = s.m_functionStackSizeSoFar)
    (h6 : snapshots s1 = snapshots s) :
    FrameInvAt t tys flags s1 := by
  obtain ⟨i1, ⟨i2, i3, i4⟩, i5, i6, i7⟩ := h
  refine ⟨i1, ⟨h1 ▸ i2, ?_, h3 ▸ i4⟩, ?_, ?_, ?_⟩
  · unfold directReferenceFlags at i3 ⊢
    rw [h2]
    exact i3
  · rw [h4, h5]
    exact i5
  · rw [h6]
    exact i6
  · unfold RefCountsOk refCountOf at i7 ⊢
    rw [h2, h4, h6]
    exact i7

theorem keepsFrame_of_modifyAt (t : Target) (tys : List ValueType) (flags : List Bool)
    (g : BlockInfo) (s : WASMBinaryReader) (f : BlockInfo → BlockInfo)
    (i : Nat) (s1 : WASMBinaryReader)
    (hf : ∀ b, (f b).m_vmStack = b.m_vmStack
      ∧ (f b).m_functionStackSizeSoFar = b.m_functionStackSizeSoFar)
    (h1 : localTypes s1 = localTypes s)
    (h2 : s1.m_localInfo = s.m_localInfo)
    (h3 : s1.m_initialFunctionStackSize = s.m_initialFunctionStackSize)
    (h4 : s1.m_vmStack = s.m_vmStack)
    (h5 : s1.m_functionStackSizeSoFar = s.m_functionStackSizeSoFar)
    (h6 : s1.m_blockInfo = WASMBinaryReader.modifyAt f i s.m_blockInfo) :
    KeepsFrame t tys flags g s s1 := by
  intro hI _
  refine frameInvAt_of_fields hI h1 h2 h3 h4 h5 ?_
  unfold snapshots
  rw [h6]
  exact snapshots_modifyAt f i _ hf

end wabt

namespace wabt

open Walrus

theorem readBlock_keepsFrame {β : Type} (t : Target) (tys : List ValueType)
    (flags : List Bool) (g : BlockInfo) (d : Nat)
    (f : WASMBinaryReader → BlockInfo → M β)
    (hf : ∀ s0 b, Preserves (KeepsFrame t tys flags b) (f s0 b)) :
    Preserves (KeepsFrame t tys flags g)
      (getS >>= fun s => liftE (WASMBinaryReader.blockAtDepth s d) >>= fun b => f s b) := by
  intro s a s1 h
  rw [WASMBinaryReader.getS_bind] at h
  obtain ⟨b, s0, h1, h2⟩ := bind_eq_ok.mp h
  obtain ⟨hb, rfl⟩ := liftE_eq_ok.mp h1
  have hmem : b ∈ s0.m_blockInfo := by
    unfold WASMBinaryReader.blockAtDepth at hb
    split at hb
    · exact List.getElem?_mem (WASMBinaryReader.elemAt_eq_ok.mp hb)
    · cases hb
  have hk := hf s0 b s0 a s1 h2
  intro hI _
  refine hk hI (hI.2.2.2.1 (b.m_vmStack, b.m_functionStackSizeSoFar) ?_)
  unfold snapshots
  exact List.mem_map.mpr ⟨b, hmem, rfl⟩

end wabt

namespace wabt.WASMBinaryReader

open Walrus

/-- A push keeps the invariant when the entry has a size of at most 16 and lives at the
watermark or in the slot of the local it refers to. -/
theorem pushVMStackAt_frame (t : Target) (tys : List ValueType) (flags : List Bool)
    (size pos : Nat) (li : Option Nat) (s : WASMBinaryReader) (a : Unit)
    (s1 : WASMBinaryReader) (h : pushVMStackAt size pos li s = Except.ok (a, s1))
    (hI : FrameInvAt t tys flags s)
    (he : EntryOk t tys flags ⟨size, pos, s.m_functionStackSizeSoFar, li⟩) :
    FrameInvAt t tys flags s1 := by
  unfold pushVMStackAt at h
  simp only [getS_bind] at h
  split at h
  · simp at h
  · rename_i hlim
    simp only [run_modifyS, Except.ok.injEq, Prod.mk.injEq, true_and] at h
    subst h
    obtain ⟨i1, ⟨i2, i3, i4⟩, i5, i6, i7⟩ := hI
    refine ⟨i1, ⟨i2, ?_, i4⟩, ?_, i6, ?_⟩
    · unfold directReferenceFlags at i3 ⊢
      exact (increaseRefCountIfNeeds_flags _ _).trans i3
    · exact stackFrameOk_push i5 i1.2.2 size pos li hlim he
    · unfold RefCountsOk at i7 ⊢
      refine refsOk_congr (refsOk_increase i7 li) (fun i => ?_)
      simp only [refCountOf, snapshots, refsTo_append, refsTo_singleton]
      omega

theorem pushVMStack_keepsFrame (t : Target) (tys : List ValueType) (flags : List Bool)
    (g : BlockInfo) (size : Nat) (hsz : t.sizeofPointer ≤ 16 → size ≤ 16) :
    Preserves (KeepsFrame t tys flags g) (pushVMStack size) := by
  intro s a s1 h
  unfold pushVMStack at h
  rw [getS_bind] at h
  obtain ⟨u, s2, h1, h2⟩ := bind_eq_ok.mp h
  simp only [run_pure, Except.ok.injEq, Prod.mk.injEq] at h2
  obtain ⟨-, rfl⟩ := h2
  intro hI _
  exact pushVMStackAt_frame t tys flags size _ none s u s2 h1 hI
    ⟨hsz hI.1.2.1, Or.inl rfl⟩

theorem popVMStackInfo_frame (t : Target) (tys : List ValueType) (flags : List Bool)
    (s : WASMBinaryReader) (e : VMStackInfo) (s1 : WASMBinaryReader)
    (h : popVMStackInfo s = Except.ok (e, s1)) (hI : FrameInvAt t tys flags s) :
    FrameInvAt t tys flags s1 ∧ EntryOk t tys flags e
      ∧ s.m_vmStack = s1.m_vmStack ++ [e] ∧ s1.m_blockInfo = s.m_blockInfo := by
  rcases List.eq_nil_or_concat s.m_vmStack with hnil | ⟨l, e1, hl⟩
  · rw [popVMStackInfo_empty s hnil] at h
    cases h
  · rw [List.concat_eq_append] at hl
    rw [popVMStackInfo_run s l e1 hl] at h
    simp only [Except.ok.injEq, Prod.mk.injEq] at h
    obtain ⟨rfl, rfl⟩ := h
    obtain ⟨i1, ⟨i2, i3, i4⟩, i5, i6, i7⟩ := hI
    rw [hl] at i5
    refine ⟨⟨i1, ⟨i2, ?_, i4⟩, (stackFrameOk_pop i5).2, i6, ?_⟩, i5.2 e1 (by simp), hl, rfl⟩
    · unfold directReferenceFlags at i3 ⊢
      exact (decreaseRefCountIfNeeds_flags _ _).trans i3
    · unfold RefCountsOk at i7 ⊢
      refine refsOk_decrease e1.m_localIndex (refsOk_congr i7 (fun i => ?_))
      simp only [refCountOf, snapshots, hl, refsTo_append, refsTo_singleton]
      omega

theorem popVMStackInfo_keepsFrame (t : Target) (tys : List ValueType) (flags : List Bool)
    (g : BlockInfo) :
    Preserves (KeepsFrame t tys flags g) popVMStackInfo := by
  intro s a s1 h hI _
  exact (popVMStackInfo_frame t tys flags s a s1 h hI).1

theorem restoreVMStackBy_keepsFrame (t : Target) (tys : List ValueType) (flags : List Bool)
    (g : BlockInfo) :
    Preserves (KeepsFrame t tys flags g) (restoreVMStackBy g) := by
  unfold restoreVMStackBy
  apply Preserves.modifyS
  intro s hI hg
  obtain ⟨i1, ⟨i2, i3, i4⟩, i5, i6, i7⟩ := hI
  refine ⟨i1, ⟨i2, ?_, i4⟩, hg, i6, ?_⟩
  · unfold directReferenceFlags at i3 ⊢
    exact ((copyStackRefs_flags _ _).trans (destroyStackRefs_flags _ _)).trans i3
  · unfold RefCountsOk at i7 ⊢
    have hd : RefsOk (destroyStackRefs s.m_localInfo s.m_vmStack)
        (fun i => ((snapshots s).map (fun p => refsTo i p.1)).sum) := by
      refine refsOk_destroy s.m_vmStack (refsOk_congr i7 (fun i => ?_))
      simp only [refCountOf]
      omega
    refine refsOk_congr (refsOk_copy hd g.m_vmStack) (fun i => ?_)
    simp only [refCountOf, snapshots]
    omega

theorem resetFunctionCodeDataFromHere_keepsFrame (t : Target) (tys : List ValueType)
    (flags : List Bool) (g : BlockInfo) :
    Preserves (KeepsFrame t tys flags g) resetFunctionCodeDataFromHere := by
  unfold resetFunctionCodeDataFromHere
  apply Preserves.modifyS
  intro s hI _
  obtain ⟨i1, ⟨i2, i3, i4⟩, i5, i6, i7⟩ := hI
  refine ⟨i1, ⟨i2, ?_, i4⟩, ?_, ?_, ?_⟩
  · unfold directReferenceFlags at i3 ⊢
    show (s.m_localInfo.map LocalInfo.reset).map _ = flags
    rw [List.map_map]
    exact i3
  · refine ⟨?_, fun e he => nomatch he⟩
    show LayoutOk _ [] s.m_initialFunctionStackSize
    rw [i4]
    exact layoutOk_nil _
  · intro p hp
    cases hp
  · intro i info hi
    have hi' : (s.m_localInfo.map LocalInfo.reset)[i]? = some info := hi
    rw [List.getElem?_map] at hi'
    cases hx : s.m_localInfo[i]? with
    | none => simp [hx] at hi'
    | some x =>
      simp only [hx, Option.map_some', Option.some.injEq] at hi'
      subst hi'
      rfl

theorem modifyBlockAtDepth_keepsFrame (t : Target) (tys : List ValueType) (flags : List Bool)
    (g : BlockInfo) (depth : Nat) (f : BlockInfo → BlockInfo)
    (hf : ∀ b, (f b).m_vmStack = b.m_vmStack
      ∧ (f b).m_functionStackSizeSoFar = b.m_functionStackSizeSoFar) :
    Preserves (KeepsFrame t tys flags g) (modifyBlockAtDepth depth f) := by
  unfold modifyBlockAtDepth
  apply Preserves.modifyS
  intro s
  exact keepsFrame_of_modifyAt t tys flags g s f _ _ hf rfl rfl rfl rfl rfl rfl

end wabt.WASMBinaryReader

namespace wabt.WASMBinaryReader

open Walrus

theorem pushVMStackKinds_keepsFrame (t : Target) (tys : List ValueType) (flags : List Bool)
    (g : BlockInfo) (kinds : List ValueType) :
    Preserves (KeepsFrame t tys flags g) (pushVMStackKinds t kinds) := by
  induction kinds with
  | nil =>
    unfold pushVMStackKinds
    exact Preserves.pure _
  | cons k rest ih =>
    unfold pushVMStackKinds
    exact Preserves.bind
      (pushVMStack_keepsFrame t tys flags g _ (valueSizeInStack_le16 _ _))
      (fun _ => Preserves.bind ih (fun _ => Preserves.pure _))

end wabt.WASMBinaryReader

set_option linter.unusedTactic false
set_option linter.unreachableTactic false

namespace wabt.WASMBinaryReader

open Walrus

theorem popVMStackSize_keepsFrame (t : Target) (tys : List ValueType) (flags : List Bool)
    (g : BlockInfo) :
    Preserves (KeepsFrame t tys flags g) (popVMStackSize) := by
  simp only [popVMStackSize]
  repeat (first
    | with_reducible apply Preserves.getS
    | with_reducible apply Preserves.pure
    | with_reducible apply Preserves.failM
    | with_reducible apply Preserves.liftE
    | ((with_reducible apply Preserves.modifyS); intro s; exact fun h _ => h)
    | ((with_reducible apply Preserves.modifyS); intro s;
        exact fun h _ => frameInvAt_of_fields h rfl rfl rfl rfl rfl rfl)
    | ((with_reducible apply Preserves.modifyS); intro s;
        refine keepsFrame_of_modifyAt _ _ _ _ _ _ _ _ ?_ rfl rfl rfl rfl rfl rfl;
        exact fun _ => ⟨rfl, rfl⟩)
    | with_reducible apply popVMStackInfo_keepsFrame
    | with_reducible refine Preserves.forEachM (fun _ => ?_) _
    | with_reducible refine Preserves.repeatM ?_ _
    | with_reducible refine readBlock_keepsFrame _ _ _ _ _ _ (fun _ _ => ?_)
    | with_reducible refine Preserves.bind ?_ (fun _ => ?_)
    | split
    | dsimp only)

theorem popVMStack_keepsFrame (t : Target) (tys : List ValueType) (flags : List Bool)
    (g : BlockInfo) :
    Preserves (KeepsFrame t tys flags g) (popVMStack) := by
  simp only [popVMStack]
  repeat (first
    | with_reducible apply Preserves.getS
    | with_reducible apply Preserves.pure
    | with_reducible apply Preserves.failM
    | with_reducible apply Preserves.liftE
    | ((with_reducible apply Preserves.modifyS); intro s; exact fun h _ => h)
    | ((with_reducible apply Preserves.modifyS); intro s;
        exact fun h _ => frameInvAt_of_fields h rfl rfl rfl rfl rfl rfl)
    | ((with_reducible apply Preserves.modifyS); intro s;
        refine keepsFrame_of_modifyAt _ _ _ _ _ _ _ _ ?_ rfl rfl rfl rfl rfl rfl;
        exact fun _ => ⟨rfl, rfl⟩)
    | with_reducible apply popVMStackInfo_keepsFrame
    | with_reducible refine Preserves.forEachM (fun _ => ?_) _
    | with_reducible refine Preserves.repeatM ?_ _
    | with_reducible refine readBlock_keepsFrame _ _ _ _ _ _ (fun _ _ => ?_)
    | with_reducible refine Preserves.bind ?_ (fun _ => ?_)
    | split
    | dsimp only)

theorem peekVMStackInfo_keepsFrame (t : Target) (tys : List ValueType) (flags : List Bool)
    (g : BlockInfo) :
    Preserves (KeepsFrame t tys flags g) (peekVMStackInfo) := by
  simp only [peekVMStackInfo]
  repeat (first
    | with_reducible apply Preserves.getS
    | with_reducible apply Preserves.pure
    | with_reducible apply Preserves.failM
    | with_reducible apply Preserves.liftE
    | ((with_reducible apply Preserves.modifyS); intro s; exact fun h _ => h)
    | ((with_reducible apply Preserves.modifyS); intro s;
        exact fun h _ => frameInvAt_of_fields h rfl rfl rfl rfl rfl rfl)
    | ((with_reducible apply Preserves.modifyS); intro s;
        refine keepsFrame_of_modifyAt _ _ _ _ _ _ _ _ ?_ rfl rfl rfl rfl rfl rfl;
        exact fun _ => ⟨rfl, rfl⟩)
    | with_reducible refine Preserves.forEachM (fun _ => ?_) _
    | with_reducible refine Preserves.repeatM ?_ _
    | with_reducible refine readBlock_keepsFrame _ _ _ _ _ _ (fun _ _ => ?_)
    | with_reducible refine Preserves.bind ?_ (fun _ => ?_)
    | split
    | dsimp only)

theorem peekVMStackSize_keepsFrame (t : Target) (tys : List ValueType) (flags : List Bool)
    (g : BlockInfo) :
    Preserves (KeepsFrame t tys flags g) (peekVMStackSize) := by
  simp only [peekVMStackSize]
  repeat (first
    | with_reducible apply Preserves.getS
    | with_reducible apply Preserves.pure
    | with_reducible apply Preserves.failM
    | with_reducible apply Preserves.liftE
    | ((with_reducible apply Preserves.modifyS); intro s; exact fun h _ => h)
    | ((with_reducible apply Preserves.modifyS); intro s;
        exact fun h _ => frameInvAt_of_fields h rfl rfl rfl rfl rfl rfl)
    | ((with_reducible apply Preserves.modifyS); intro s;
        refine keepsFrame_of_modifyAt _ _ _ _ _ _ _ _ ?_ rfl rfl rfl rfl rfl rfl;
        exact fun _ => ⟨rfl, rfl⟩)
    | with_reducible apply peekVMStackInfo_keepsFrame
    | with_reducible refine Preserves.forEachM (fun _ => ?_) _
    | with_reducible refine Preserves.repeatM ?_ _
    | with_reducible refine readBlock_keepsFrame _ _ _ _ _ _ (fun _ _ => ?_)
    | with_reducible refine Preserves.bind ?_ (fun _ => ?_)
    | split
    | dsimp only)

theorem peekVMStack_keepsFrame (t : Target) (tys : List ValueType) (flags : List Bool)
    (g : BlockInfo) :
    Preserves (KeepsFrame t tys flags g) (peekVMStack) := by
  simp only [peekVMStack]
  repeat (first
    | with_reducible apply Preserves.getS
    | with_reducible apply Preserves.pure
    | with_reducible apply Preserves.failM
    | with_reducible apply Preserves.liftE
    | ((with_reducible apply Preserves.modifyS); intro s; exact fun h _ => h)
    | ((with_reducible apply Preserves.modifyS); intro s;
        exact fun h _ => frameInvAt_of_fields h rfl rfl rfl rfl rfl rfl)
    | ((with_reducible apply Preserves.modifyS); intro s;
        refine keepsFrame_of_modifyAt _ _ _ _ _ _ _ _ ?_ rfl rfl rfl rfl rfl rfl;
        exact fun _ => ⟨rfl, rfl⟩)
    | with_reducible apply peekVMStackInfo_keepsFrame
    | with_reducible refine Preserves.forEachM (fun _ => ?_) _
    | with_reducible refine Preserves.repeatM ?_ _
    | with_reducible refine readBlock_keepsFrame _ _ _ _ _ _ (fun _ _ => ?_)
    | with_reducible refine Preserves.bind ?_ (fun _ => ?_)
    | split
    | dsimp only)

theorem pushByteCode_keepsFrame (t : Target) (tys : List ValueType) (flags : List Bool)
    (g : BlockInfo) (code : ByteCode) (op : WASMOpcode) :
    Preserves (KeepsFrame t tys flags g) (pushByteCode t code op) := by
  simp only [pushByteCode]
  repeat (first
    | with_reducible apply Preserves.getS
    | with_reducible apply Preserves.pure
    | with_reducible apply Preserves.failM
    | with_reducible apply Preserves.liftE
    | ((with_reducible apply Preserves.modifyS); intro s; exact fun h _ => h)
    | ((with_reducible apply Preserves.modifyS); intro s;
        exact fun h _ => frameInvAt_of_fields h rfl rfl rfl rfl rfl rfl)
    | ((with_reducible apply Preserves.modifyS); intro s;
        refine keepsFrame_of_modifyAt _ _ _ _ _ _ _ _ ?_ rfl rfl rfl rfl rfl rfl;
        exact fun _ => ⟨rfl, rfl⟩)
    | with_reducible refine Preserves.forEachM (fun _ => ?_) _
    | with_reducible refine Preserves.repeatM ?_ _
    | with_reducible refine readBlock_keepsFrame _ _ _ _ _ _ (fun _ _ => ?_)
    | with_reducible refine Preserves.bind ?_ (fun _ => ?_)
    | split
    | dsimp only)

theorem expandByteCode_keepsFrame (t : Target) (tys : List ValueType) (flags : List Bool)
    (g : BlockInfo) (n : Nat) :
    Preserves (KeepsFrame t tys flags g) (expandByteCode n) := by
  simp only [expandByteCode]
  repeat (first
    | with_reducible apply Preserves.getS
    | with_reducible apply Preserves.pure
    | with_reducible apply Preserves.failM
    | with_reducible apply Preserves.liftE
    | ((with_reducible apply Preserves.modifyS); intro s; exact fun h _ => h)
    | ((with_reducible apply Preserves.modifyS); intro s;
        exact fun h _ => frameInvAt_of_fields h rfl rfl rfl rfl rfl rfl)
    | ((with_reducible apply Preserves.modifyS); intro s;
        refine keepsFrame_of_modifyAt _ _ _ _ _ _ _ _ ?_ rfl rfl rfl rfl rfl rfl;
        exact fun _ => ⟨rfl, rfl⟩)
    | with_reducible refine Preserves.forEachM (fun _ => ?_) _
    | with_reducible refine Preserves.repeatM ?_ _
    | with_reducible refine readBlock_keepsFrame _ _ _ _ _ _ (fun _ _ => ?_)
    | with_reducible refine Preserves.bind ?_ (fun _ => ?_)
    | split
    | dsimp only)

theorem currentByteCodeSize_keepsFrame (t : Target) (tys : List ValueType) (flags : List Bool)
    (g : BlockInfo) :
    Preserves (KeepsFrame t tys flags g) (currentByteCodeSize) := by
  simp only [currentByteCodeSize]
  repeat (first
    | with_reducible apply Preserves.getS
    | with_reducible apply Preserves.pure
    | with_reducible apply Preserves.failM
    | with_reducible apply Preserves.liftE
    | ((with_reducible apply Preserves.modifyS); intro s; exact fun h _ => h)
    | ((with_reducible apply Preserves.modifyS); intro s;
        exact fun h _ => frameInvAt_of_fields h rfl rfl rfl rfl rfl rfl)
    | ((with_reducible apply Preserves.modifyS); intro s;
        refine keepsFrame_of_modifyAt _ _ _ _ _ _ _ _ ?_ rfl rfl rfl rfl rfl rfl;
        exact fun _ => ⟨rfl, rfl⟩)
    | with_reducible refine Preserves.forEachM (fun _ => ?_) _
    | with_reducible refine Preserves.repeatM ?_ _
    | with_reducible refine readBlock_keepsFrame _ _ _ _ _ _ (fun _ _ => ?_)
    | with_reducible refine Preserves.bind ?_ (fun _ => ?_)
    | split
    | dsimp only)

theorem pokeByteCode_keepsFrame (t : Target) (tys : List ValueType) (flags : List Bool)
    (g : BlockInfo) (pos : Nat) (f : ByteCode → Option ByteCode) :
    Preserves (KeepsFrame t tys flags g) (pokeByteCode pos f) := by
  simp only [pokeByteCode]
  repeat (first
    | with_reducible apply Preserves.getS
    | with_reducible apply Preserves.pure
    | with_reducible apply Preserves.failM
    | with_reducible apply Preserves.liftE
    | ((with_reducible apply Preserves.modifyS); intro s; exact fun h _ => h)
    | ((with_reducible apply Preserves.modifyS); intro s;
        exact fun h _ => frameInvAt_of_fields h rfl rfl rfl rfl rfl rfl)
    | ((with_reducible apply Preserves.modifyS); intro s;
        refine keepsFrame_of_modifyAt _ _ _ _ _ _ _ _ ?_ rfl rfl rfl rfl rfl rfl;
        exact fun _ => ⟨rfl, rfl⟩)
    | with_reducible refine Preserves.forEachM (fun _ => ?_) _
    | with_reducible refine Preserves.repeatM ?_ _
    | with_reducible refine readBlock_keepsFrame _ _ _ _ _ _ (fun _ _ => ?_)
    | with_reducible refine Preserves.bind ?_ (fun _ => ?_)
    | split
    | dsimp only)

theorem pokeInt32_keepsFrame (t : Target) (tys : List ValueType) (flags : List Bool)
    (g : BlockInfo) (pos : Nat) (f : Int → Int) :
    Preserves (KeepsFrame t tys flags g) (pokeInt32 t pos f) := by
  simp only [pokeInt32]
  repeat (first
    | with_reducible apply Preserves.getS
    | with_reducible apply Preserves.pure
    | with_reducible apply Preserves.failM
    | with_reducible apply Preserves.liftE
    | ((with_reducible apply Preserves.modifyS); intro s; exact fun h _ => h)
    | ((with_reducible apply Preserves.modifyS); intro s;
        exact fun h _ => frameInvAt_of_fields h rfl rfl rfl rfl rfl rfl)
    | ((with_reducible apply Preserves.modifyS); intro s;
        refine keepsFrame_of_modifyAt _ _ _ _ _ _ _ _ ?_ rfl rfl rfl rfl rfl rfl;
        exact fun _ => ⟨rfl, rfl⟩)
    | with_reducible refine Preserves.forEachM (fun _ => ?_) _
    | with_reducible refine Preserves.repeatM ?_ _
    | with_reducible refine readBlock_keepsFrame _ _ _ _ _ _ (fun _ _ => ?_)
    | with_reducible refine Preserves.bind ?_ (fun _ => ?_)
    | split
    | dsimp only)

theorem generateMoveCodeIfNeeds_keepsFrame (t : Target) (tys : List ValueType) (flags : List Bool)
    (g : BlockInfo) (a b c : Nat) :
    Preserves (KeepsFrame t tys flags g) (generateMoveCodeIfNeeds t a b c) := by
  simp only [generateMoveCodeIfNeeds]
  repeat (first
    | with_reducible apply Preserves.getS
    | with_reducible apply Preserves.pure
    | with_reducible apply Preserves.failM
    | with_reducible apply Preserves.liftE
    | ((with_reducible apply Preserves.modifyS); intro s; exact fun h _ => h)
    | ((with_reducible apply Preserves.modifyS); intro s;
        exact fun h _ => frameInvAt_of_fields h rfl rfl rfl rfl rfl rfl)
    | ((with_reducible apply Preserves.modifyS); intro s;
        refine keepsFrame_of_modifyAt _ _ _ _ _ _ _ _ ?_ rfl rfl rfl rfl rfl rfl;
        exact fun _ => ⟨rfl, rfl⟩)
    | with_reducible apply pushByteCode_keepsFrame
    | with_reducible refine Preserves.forEachM (fun _ => ?_) _
    | with_reducible refine Preserves.repeatM ?_ _
    | with_reducible refine readBlock_keepsFrame _ _ _ _ _ _ (fun _ _ => ?_)
    | with_reducible refine Preserves.bind ?_ (fun _ => ?_)
    | split
    | dsimp only)

theorem omitUpdateLocalValueIfPossible_keepsFrame (t : Target) (tys : List ValueType) (flags : List Bool)
    (g : BlockInfo) (i : Nat) (r : Nat × Nat) (e : VMStackInfo) :
    Preserves (KeepsFrame t tys flags g) (omitUpdateLocalValueIfPossible t i r e) := by
  simp only [omitUpdateLocalValueIfPossible]
  repeat (first
    | with_reducible apply Preserves.getS
    | with_reducible apply Preserves.pure
    | with_reducible apply Preserves.failM
    | with_reducible apply Preserves.liftE
    | ((with_reducible apply Preserves.modifyS); intro s; exact fun h _ => h)
    | ((with_reducible apply Preserves.modifyS); intro s;
        exact fun h _ => frameInvAt_of_fields h rfl rfl rfl rfl rfl rfl)
    | ((with_reducible apply Preserves.modifyS); intro s;
        refine keepsFrame_of_modifyAt _ _ _ _ _ _ _ _ ?_ rfl rfl rfl rfl rfl rfl;
        exact fun _ => ⟨rfl, rfl⟩)
    | with_reducible apply pokeByteCode_keepsFrame
    | with_reducible refine Preserves.forEachM (fun _ => ?_) _
    | with_reducible refine Preserves.repeatM ?_ _
    | with_reducible refine readBlock_keepsFrame _ _ _ _ _ _ (fun _ _ => ?_)
    | with_reducible refine Preserves.bind ?_ (fun _ => ?_)
    | split
    | dsimp only)

theorem restoreVMStackRegardToPartOfBlockEnd_keepsFrame (t : Target) (tys : List ValueType) (flags : List Bool)
    (g : BlockInfo) :
    Preserves (KeepsFrame t tys flags g) (restoreVMStackRegardToPartOfBlockEnd g) := by
  simp only [restoreVMStackRegardToPartOfBlockEnd]
  repeat (first
    | with_reducible apply Preserves.getS
    | with_reducible apply Preserves.pure
    | with_reducible apply Preserves.failM
    | with_reducible apply Preserves.liftE
    | ((with_reducible apply Preserves.modifyS); intro s; exact fun h _ => h)
    | ((with_reducible apply Preserves.modifyS); intro s;
        exact fun h _ => frameInvAt_of_fields h rfl rfl rfl rfl rfl rfl)
    | ((with_reducible apply Preserves.modifyS); intro s;
        refine keepsFrame_of_modifyAt _ _ _ _ _ _ _ _ ?_ rfl rfl rfl rfl rfl rfl;
        exact fun _ => ⟨rfl, rfl⟩)
    | with_reducible apply restoreVMStackBy_keepsFrame
    | with_reducible apply popVMStackSize_keepsFrame
    | with_reducible refine Preserves.forEachM (fun _ => ?_) _
    | with_reducible refine Preserves.repeatM ?_ _
    | with_reducible refine readBlock_keepsFrame _ _ _ _ _ _ (fun _ _ => ?_)
    | with_reducible refine Preserves.bind ?_ (fun _ => ?_)
    | split
    | dsimp only)

theorem stopToGenerateByteCodeWhileBlockEnd_keepsFrame (t : Target) (tys : List ValueType) (flags : List Bool)
    (g : BlockInfo) :
    Preserves (KeepsFrame t tys flags g) (stopToGenerateByteCodeWhileBlockEnd) := by
  simp only [stopToGenerateByteCodeWhileBlockEnd]
  repeat (first
    | with_reducible apply Preserves.getS
    | with_reducible apply Preserves.pure
    | with_reducible apply Preserves.failM
    | with_reducible apply Preserves.liftE
    | ((with_reducible apply Preserves.modifyS); intro s; exact fun h _ => h)
    | ((with_reducible apply Preserves.modifyS); intro s;
        exact fun h _ => frameInvAt_of_fields h rfl rfl rfl rfl rfl rfl)
    | ((with_reducible apply Preserves.modifyS); intro s;
        refine keepsFrame_of_modifyAt _ _ _ _ _ _ _ _ ?_ rfl rfl rfl rfl rfl rfl;
        exact fun _ => ⟨rfl, rfl⟩)
    | with_reducible refine Preserves.forEachM (fun _ => ?_) _
    | with_reducible refine Preserves.repeatM ?_ _
    | with_reducible refine readBlock_keepsFrame _ _ _ _ _ _ (fun _ _ => ?_)
    | with_reducible refine Preserves.bind ?_ (fun _ => ?_)
    | split
    | dsimp only)

theorem moveValuesLoop_keepsFrame (t : Target) (tys : List ValueType) (flags : List Bool)
    (g : BlockInfo) (rev : List VMStackInfo) (srcIdx dstIdx : Nat)
    (remain : Int) :
    Preserves (KeepsFrame t tys flags g) (moveValuesLoop t rev srcIdx dstIdx remain) := by
  induction srcIdx generalizing dstIdx remain with
  | zero =>
    unfold moveValuesLoop
    repeat (first
      | with_reducible apply Preserves.getS
      | with_reducible apply Preserves.pure
      | with_reducible apply Preserves.failM
      | with_reducible apply Preserves.liftE
      | ((with_reducible apply Preserves.modifyS); intro s; exact fun h _ => h)
      | ((with_reducible apply Preserves.modifyS); intro s;
          exact fun h _ => frameInvAt_of_fields h rfl rfl rfl rfl rfl rfl)
      | ((with_reducible apply Preserves.modifyS); intro s;
          refine keepsFrame_of_modifyAt _ _ _ _ _ _ _ _ ?_ rfl rfl rfl rfl rfl rfl;
          exact fun _ => ⟨rfl, rfl⟩)
      | with_reducible apply generateMoveCodeIfNeeds_keepsFrame
      | with_reducible refine Preserves.forEachM (fun _ => ?_) _
      | with_reducible refine Preserves.repeatM ?_ _
      | with_reducible refine readBlock_keepsFrame _ _ _ _ _ _ (fun _ _ => ?_)
      | with_reducible refine Preserves.bind ?_ (fun _ => ?_)
      | split
      | dsimp only)
  | succ n ih =>
    unfold moveValuesLoop
    repeat (first
      | with_reducible apply Preserves.getS
      | with_reducible apply Preserves.pure
      | with_reducible apply Preserves.failM
      | with_reducible apply Preserves.liftE
      | ((with_reducible apply Preserves.modifyS); intro s; exact fun h _ => h)
      | ((with_reducible apply Preserves.modifyS); intro s;
          exact fun h _ => frameInvAt_of_fields h rfl rfl rfl rfl rfl rfl)
      | ((with_reducible apply Preserves.modifyS); intro s;
          refine keepsFrame_of_modifyAt _ _ _ _ _ _ _ _ ?_ rfl rfl rfl rfl rfl rfl;
          exact fun _ => ⟨rfl, rfl⟩)
      | with_reducible apply generateMoveCodeIfNeeds_keepsFrame
      | with_reducible apply ih
      | with_reducible refine Preserves.forEachM (fun _ => ?_) _
      | with_reducible refine Preserves.repeatM ?_ _
      | with_reducible refine readBlock_keepsFrame _ _ _ _ _ _ (fun _ _ => ?_)
      | with_reducible refine Preserves.bind ?_ (fun _ => ?_)
      | split
      | dsimp only)

theorem generateMoveValuesCodeRegardToDrop_keepsFrame (t : Target) (tys : List ValueType) (flags : List Bool)
    (g : BlockInfo) (d : Nat × Nat) :
    Preserves (KeepsFrame t tys flags g) (generateMoveValuesCodeRegardToDrop t d) := by
  simp only [generateMoveValuesCodeRegardToDrop]
  repeat (first
    | with_reducible apply Preserves.getS
    | with_reducible apply Preserves.pure
    | with_reducible apply Preserves.failM
    | with_reducible apply Preserves.liftE
    | ((with_reducible apply Preserves.modifyS); intro s; exact fun h _ => h)
    | ((with_reducible apply Preserves.modifyS); intro s;
        exact fun h _ => frameInvAt_of_fields h rfl rfl rfl rfl rfl rfl)
    | ((with_reducible apply Preserves.modifyS); intro s;
        refine keepsFrame_of_modifyAt _ _ _ _ _ _ _ _ ?_ rfl rfl rfl rfl rfl rfl;
        exact fun _ => ⟨rfl, rfl⟩)
    | with_reducible apply moveValuesLoop_keepsFrame
    | with_reducible refine Preserves.forEachM (fun _ => ?_) _
    | with_reducible refine Preserves.repeatM ?_ _
    | with_reducible refine readBlock_keepsFrame _ _ _ _ _ _ (fun _ _ => ?_)
    | with_reducible refine Preserves.bind ?_ (fun _ => ?_)
    | split
    | dsimp only)

theorem keepSubResultsIfNeeds_keepsFrame (t : Target) (tys : List ValueType) (flags : List Bool)
    (g : BlockInfo) :
    Preserves (KeepsFrame t tys flags g) (keepSubResultsIfNeeds t) := by
  simp only [keepSubResultsIfNeeds]
  repeat (first
    | with_reducible apply Preserves.getS
    | with_reducible apply Preserves.pure
    | with_reducible apply Preserves.failM
    | with_reducible apply Preserves.liftE
    | ((with_reducible apply Preserves.modifyS); intro s; exact fun h _ => h)
    | ((with_reducible apply Preserves.modifyS); intro s;
        exact fun h _ => frameInvAt_of_fields h rfl rfl rfl rfl rfl rfl)
    | ((with_reducible apply Preserves.modifyS); intro s;
        refine keepsFrame_of_modifyAt _ _ _ _ _ _ _ _ ?_ rfl rfl rfl rfl rfl rfl;
        exact fun _ => ⟨rfl, rfl⟩)
    | with_reducible refine modifyBlockAtDepth_keepsFrame _ _ _ _ _ _ (fun _ => ⟨rfl, rfl⟩)
    | with_reducible apply generateMoveValuesCodeRegardToDrop_keepsFrame
    | with_reducible refine Preserves.forEachM (fun _ => ?_) _
    | with_reducible refine Preserves.repeatM ?_ _
    | with_reducible refine readBlock_keepsFrame _ _ _ _ _ _ (fun _ _ => ?_)
    | with_reducible refine Preserves.bind ?_ (fun _ => ?_)
    | split
    | dsimp only)

theorem generateEndCode_keepsFrame (t : Target) (tys : List ValueType) (flags : List Bool)
    (g : BlockInfo) :
    Preserves (KeepsFrame t tys flags g) (generateEndCode t) := by
  simp only [generateEndCode]
  repeat (first
    | with_reducible apply Preserves.getS
    | with_reducible apply Preserves.pure
    | with_reducible apply Preserves.failM
    | with_reducible apply Preserves.liftE
    | ((with_reducible apply Preserves.modifyS); intro s; exact fun h _ => h)
    | ((with_reducible apply Preserves.modifyS); intro s;
        exact fun h _ => frameInvAt_of_fields h rfl rfl rfl rfl rfl rfl)
    | ((with_reducible apply Preserves.modifyS); intro s;
        refine keepsFrame_of_modifyAt _ _ _ _ _ _ _ _ ?_ rfl rfl rfl rfl rfl rfl;
        exact fun _ => ⟨rfl, rfl⟩)
    | with_reducible apply currentByteCodeSize_keepsFrame
    | with_reducible apply pushByteCode_keepsFrame
    | with_reducible apply expandByteCode_keepsFrame
    | with_reducible apply pokeByteCode_keepsFrame
    | with_reducible refine Preserves.forEachM (fun _ => ?_) _
    | with_reducible refine Preserves.repeatM ?_ _
    | with_reducible refine readBlock_keepsFrame _ _ _ _ _ _ (fun _ _ => ?_)
    | with_reducible refine Preserves.bind ?_ (fun _ => ?_)
    | split
    | dsimp only)

theorem popWhileDropSize_keepsFrame (t : Target) (tys : List ValueType) (flags : List Bool)
    (g : BlockInfo) (fuel dropSize : Nat) :
    Preserves (KeepsFrame t tys flags g) (popWhileDropSize fuel dropSize) := by
  induction fuel generalizing dropSize with
  | zero =>
    cases dropSize with
    | zero =>
      unfold popWhileDropSize
      exact Preserves.pure ()
    | succ d =>
      unfold popWhileDropSize
      exact Preserves.failM _
  | succ n ih =>
    cases dropSize with
    | zero =>
      unfold popWhileDropSize
      exact Preserves.pure ()
    | succ d =>
      unfold popWhileDropSize
      exact Preserves.bind (popVMStackSize_keepsFrame t tys flags g) (fun _ => ih _)

theorem generateFunctionReturnCode_keepsFrame (t : Target) (tys : List ValueType) (flags : List Bool)
    (g : BlockInfo) (b : Bool) :
    Preserves (KeepsFrame t tys flags g) (generateFunctionReturnCode t b) := by
  simp only [generateFunctionReturnCode]
  repeat (first
    | with_reducible apply Preserves.getS
    | with_reducible apply Preserves.pure
    | with_reducible apply Preserves.failM
    | with_reducible apply Preserves.liftE
    | ((with_reducible apply Preserves.modifyS); intro s; exact fun h _ => h)
    | ((with_reducible apply Preserves.modifyS); intro s;
        exact fun h _ => frameInvAt_of_fields h rfl rfl rfl rfl rfl rfl)
    | ((with_reducible apply Preserves.modifyS); intro s;
        refine keepsFrame_of_modifyAt _ _ _ _ _ _ _ _ ?_ rfl rfl rfl rfl rfl rfl;
        exact fun _ => ⟨rfl, rfl⟩)
    | with_reducible apply generateEndCode_keepsFrame
    | with_reducible apply popWhileDropSize_keepsFrame
    | with_reducible apply popVMStackSize_keepsFrame
    | with_reducible apply stopToGenerateByteCodeWhileBlockEnd_keepsFrame
    | with_reducible refine Preserves.forEachM (fun _ => ?_) _
    | with_reducible refine Preserves.repeatM ?_ _
    | with_reducible refine readBlock_keepsFrame _ _ _ _ _ _ (fun _ _ => ?_)
    | with_reducible refine Preserves.bind ?_ (fun _ => ?_)
    | split
    | dsimp only)

theorem pushJumpToEndIfBlockOrIfElse_keepsFrame (t : Target) (tys : List ValueType) (flags : List Bool)
    (g : BlockInfo) (depth : Nat) (b : BlockInfo) (ty : JumpToEndType) (pos : Nat) :
    Preserves (KeepsFrame t tys flags g) (pushJumpToEndIfBlockOrIfElse depth b ty pos) := by
  simp only [pushJumpToEndIfBlockOrIfElse]
  repeat (first
    | with_reducible apply Preserves.getS
    | with_reducible apply Preserves.pure
    | with_reducible apply Preserves.failM
    | with_reducible apply Preserves.liftE
    | ((with_reducible apply Preserves.modifyS); intro s; exact fun h _ => h)
    | ((with_reducible apply Preserves.modifyS); intro s;
        exact fun h _ => frameInvAt_of_fields h rfl rfl rfl rfl rfl rfl)
    | ((with_reducible apply Preserves.modifyS); intro s;
        refine keepsFrame_of_modifyAt _ _ _ _ _ _ _ _ ?_ rfl rfl rfl rfl rfl rfl;
        exact fun _ => ⟨rfl, rfl⟩)
    | with_reducible refine modifyBlockAtDepth_keepsFrame _ _ _ _ _ _ (fun _ => ⟨rfl, rfl⟩)
    | with_reducible refine Preserves.forEachM (fun _ => ?_) _
    | with_reducible refine Preserves.repeatM ?_ _
    | with_reducible refine readBlock_keepsFrame _ _ _ _ _ _ (fun _ _ => ?_)
    | with_reducible refine Preserves.bind ?_ (fun _ => ?_)
    | split
    | dsimp only)

theorem OnBrExpr_keepsFrame (t : Target) (tys : List ValueType) (flags : List Bool)
    (g : BlockInfo) (depth : Nat) :
    Preserves (KeepsFrame t tys flags g) (OnBrExpr t depth) := by
  simp only [OnBrExpr]
  repeat (first
    | with_reducible apply Preserves.getS
    | with_reducible apply Preserves.pure
    | with_reducible apply Preserves.failM
    | with_reducible apply Preserves.liftE
    | ((with_reducible apply Preserves.modifyS); intro s; exact fun h _ => h)
    | ((with_reducible apply Preserves.modifyS); intro s;
        exact fun h _ => frameInvAt_of_fields h rfl rfl rfl rfl rfl rfl)
    | ((with_reducible apply Preserves.modifyS); intro s;
        refine keepsFrame_of_modifyAt _ _ _ _ _ _ _ _ ?_ rfl rfl rfl rfl rfl rfl;
        exact fun _ => ⟨rfl, rfl⟩)
    | with_reducible apply generateFunctionReturnCode_keepsFrame
    | with_reducible apply generateMoveValuesCodeRegardToDrop_keepsFrame
    | with_reducible apply currentByteCodeSize_keepsFrame
    | with_reducible apply pushJumpToEndIfBlockOrIfElse_keepsFrame
    | with_reducible apply pushByteCode_keepsFrame
    | with_reducible apply stopToGenerateByteCodeWhileBlockEnd_keepsFrame
    | with_reducible refine Preserves.forEachM (fun _ => ?_) _
    | with_reducible refine Preserves.repeatM ?_ _
    | with_reducible refine readBlock_keepsFrame _ _ _ _ _ _ (fun _ _ => ?_)
    | with_reducible refine Preserves.bind ?_ (fun _ => ?_)
    | split
    | dsimp only)

theorem OnBrIfExpr_keepsFrame (t : Target) (tys : List ValueType) (flags : List Bool)
    (g : BlockInfo) (depth : Nat) :
    Preserves (KeepsFrame t tys flags g) (OnBrIfExpr t depth) := by
  simp only [OnBrIfExpr]
  repeat (first
    | with_reducible apply Preserves.getS
    | with_reducible apply Preserves.pure
    | with_reducible apply Preserves.failM
    | with_reducible apply Preserves.liftE
    | ((with_reducible apply Preserves.modifyS); intro s; exact fun h _ => h)
    | ((with_reducible apply Preserves.modifyS); intro s;
        exact fun h _ => frameInvAt_of_fields h rfl rfl rfl rfl rfl rfl)
    | ((with_reducible apply Preserves.modifyS); intro s;
        refine keepsFrame_of_modifyAt _ _ _ _ _ _ _ _ ?_ rfl rfl rfl rfl rfl rfl;
        exact fun _ => ⟨rfl, rfl⟩)
    | with_reducible apply popVMStack_keepsFrame
    | with_reducible apply generateEndCode_keepsFrame
    | with_reducible apply generateMoveValuesCodeRegardToDrop_keepsFrame
    | with_reducible apply currentByteCodeSize_keepsFrame
    | with_reducible apply pushJumpToEndIfBlockOrIfElse_keepsFrame
    | with_reducible apply pushByteCode_keepsFrame
    | with_reducible apply pokeByteCode_keepsFrame
    | with_reducible refine Preserves.forEachM (fun _ => ?_) _
    | with_reducible refine Preserves.repeatM ?_ _
    | with_reducible refine readBlock_keepsFrame _ _ _ _ _ _ (fun _ _ => ?_)
    | with_reducible refine Preserves.bind ?_ (fun _ => ?_)
    | split
    | dsimp only)

theorem emitBrTableCase_keepsFrame (t : Target) (tys : List ValueType) (flags : List Bool)
    (g : BlockInfo) (code depth off : Nat) :
    Preserves (KeepsFrame t tys flags g) (emitBrTableCase t code depth off) := by
  simp only [emitBrTableCase]
  repeat (first
    | with_reducible apply Preserves.getS
    | with_reducible apply Preserves.pure
    | with_reducible apply Preserves.failM
    | with_reducible apply Preserves.liftE
    | ((with_reducible apply Preserves.modifyS); intro s; exact fun h _ => h)
    | ((with_reducible apply Preserves.modifyS); intro s;
        exact fun h _ => frameInvAt_of_fields h rfl rfl rfl rfl rfl rfl)
    | ((with_reducible apply Preserves.modifyS); intro s;
        refine keepsFrame_of_modifyAt _ _ _ _ _ _ _ _ ?_ rfl rfl rfl rfl rfl rfl;
        exact fun _ => ⟨rfl, rfl⟩)
    | with_reducible apply pokeByteCode_keepsFrame
    | with_reducible apply generateEndCode_keepsFrame
    | with_reducible apply OnBrExpr_keepsFrame
    | with_reducible refine modifyBlockAtDepth_keepsFrame _ _ _ _ _ _ (fun _ => ⟨rfl, rfl⟩)
    | with_reducible refine Preserves.forEachM (fun _ => ?_) _
    | with_reducible refine Preserves.repeatM ?_ _
    | with_reducible refine readBlock_keepsFrame _ _ _ _ _ _ (fun _ _ => ?_)
    | with_reducible refine Preserves.bind ?_ (fun _ => ?_)
    | split
    | dsimp only)

theorem OnBrTableExpr_keepsFrame (t : Target) (tys : List ValueType) (flags : List Bool)
    (g : BlockInfo) (targets : List Nat) (dflt : Nat) :
    Preserves (KeepsFrame t tys flags g) (OnBrTableExpr t targets dflt) := by
  simp only [OnBrTableExpr]
  repeat (first
    | with_reducible apply Preserves.getS
    | with_reducible apply Preserves.pure
    | with_reducible apply Preserves.failM
    | with_reducible apply Preserves.liftE
    | ((with_reducible apply Preserves.modifyS); intro s; exact fun h _ => h)
    | ((with_reducible apply Preserves.modifyS); intro s;
        exact fun h _ => frameInvAt_of_fields h rfl rfl rfl rfl rfl rfl)
    | ((with_reducible apply Preserves.modifyS); intro s;
        refine keepsFrame_of_modifyAt _ _ _ _ _ _ _ _ ?_ rfl rfl rfl rfl rfl rfl;
        exact fun _ => ⟨rfl, rfl⟩)
    | with_reducible apply popVMStack_keepsFrame
    | with_reducible apply currentByteCodeSize_keepsFrame
    | with_reducible apply pushByteCode_keepsFrame
    | with_reducible apply expandByteCode_keepsFrame
    | with_reducible apply emitBrTableCase_keepsFrame
    | with_reducible apply stopToGenerateByteCodeWhileBlockEnd_keepsFrame
    | with_reducible refine Preserves.forEachM (fun _ => ?_) _
    | with_reducible refine Preserves.repeatM ?_ _
    | with_reducible refine readBlock_keepsFrame _ _ _ _ _ _ (fun _ _ => ?_)
    | with_reducible refine Preserves.bind ?_ (fun _ => ?_)
    | split
    | dsimp only)

theorem OnElseExpr_keepsFrame (t : Target) (tys : List ValueType) (flags : List Bool)
    (g : BlockInfo) :
    Preserves (KeepsFrame t tys flags g) (OnElseExpr t) := by
  simp only [OnElseExpr]
  repeat (first
    | with_reducible apply Preserves.getS
    | with_reducible apply Preserves.pure
    | with_reducible apply Preserves.failM
    | with_reducible apply Preserves.liftE
    | ((with_reducible apply Preserves.modifyS); intro s; exact fun h _ => h)
    | ((with_reducible apply Preserves.modifyS); intro s;
        exact fun h _ => frameInvAt_of_fields h rfl rfl rfl rfl rfl rfl)
    | ((with_reducible apply Preserves.modifyS); intro s;
        refine keepsFrame_of_modifyAt _ _ _ _ _ _ _ _ ?_ rfl rfl rfl rfl rfl rfl;
        exact fun _ => ⟨rfl, rfl⟩)
    | with_reducible apply keepSubResultsIfNeeds_keepsFrame
    | with_reducible apply currentByteCodeSize_keepsFrame
    | with_reducible refine modifyBlockAtDepth_keepsFrame _ _ _ _ _ _ (fun _ => ⟨rfl, rfl⟩)
    | with_reducible apply pushByteCode_keepsFrame
    | with_reducible apply restoreVMStackRegardToPartOfBlockEnd_keepsFrame
    | with_reducible apply pokeByteCode_keepsFrame
    | with_reducible refine Preserves.forEachM (fun _ => ?_) _
    | with_reducible refine Preserves.repeatM ?_ _
    | with_reducible refine readBlock_keepsFrame _ _ _ _ _ _ (fun _ _ => ?_)
    | with_reducible refine Preserves.bind ?_ (fun _ => ?_)
    | split
    | dsimp only)

theorem patchJumpToEnd_keepsFrame (t : Target) (tys : List ValueType) (flags : List Bool)
    (g : BlockInfo) (info : JumpToEndBrInfo) :
    Preserves (KeepsFrame t tys flags g) (patchJumpToEnd t info) := by
  simp only [patchJumpToEnd]
  repeat (first
    | with_reducible apply Preserves.getS
    | with_reducible apply Preserves.pure
    | with_reducible apply Preserves.failM
    | with_reducible apply Preserves.liftE
    | ((with_reducible apply Preserves.modifyS); intro s; exact fun h _ => h)
    | ((with_reducible apply Preserves.modifyS); intro s;
        exact fun h _ => frameInvAt_of_fields h rfl rfl rfl rfl rfl rfl)
    | ((with_reducible apply Preserves.modifyS); intro s;
        refine keepsFrame_of_modifyAt _ _ _ _ _ _ _ _ ?_ rfl rfl rfl rfl rfl rfl;
        exact fun _ => ⟨rfl, rfl⟩)
    | with_reducible apply currentByteCodeSize_keepsFrame
    | with_reducible apply pokeByteCode_keepsFrame
    | with_reducible apply pokeInt32_keepsFrame
    | with_reducible refine Preserves.forEachM (fun _ => ?_) _
    | with_reducible refine Preserves.repeatM ?_ _
    | with_reducible refine readBlock_keepsFrame _ _ _ _ _ _ (fun _ _ => ?_)
    | with_reducible refine Preserves.bind ?_ (fun _ => ?_)
    | split
    | dsimp only)

theorem popVMStackArgs_keepsFrame (t : Target) (tys : List ValueType) (flags : List Bool)
    (g : BlockInfo) (n : Nat) :
    Preserves (KeepsFrame t tys flags g) (popVMStackArgs n) := by
  induction n with
  | zero =>
    unfold popVMStackArgs
    exact Preserves.pure _
  | succ n ih =>
    unfold popVMStackArgs
    exact Preserves.bind (popVMStack_keepsFrame t tys flags g)
      (fun _ => Preserves.bind ih (fun _ => Preserves.pure _))

theorem OnThrowExpr_keepsFrame (t : Target) (tys : List ValueType) (flags : List Bool)
    (g : BlockInfo) (tag : Nat) :
    Preserves (KeepsFrame t tys flags g) (OnThrowExpr t tag) := by
  simp only [OnThrowExpr]
  repeat (first
    | with_reducible apply Preserves.getS
    | with_reducible apply Preserves.pure
    | with_reducible apply Preserves.failM
    | with_reducible apply Preserves.liftE
    | ((with_reducible apply Preserves.modifyS); intro s; exact fun h _ => h)
    | ((with_reducible apply Preserves.modifyS); intro s;
        exact fun h _ => frameInvAt_of_fields h rfl rfl rfl rfl rfl rfl)
    | ((with_reducible apply Preserves.modifyS); intro s;
        refine keepsFrame_of_modifyAt _ _ _ _ _ _ _ _ ?_ rfl rfl rfl rfl rfl rfl;
        exact fun _ => ⟨rfl, rfl⟩)
    | with_reducible apply currentByteCodeSize_keepsFrame
    | with_reducible apply pushByteCode_keepsFrame
    | with_reducible apply expandByteCode_keepsFrame
    | with_reducible apply pokeByteCode_keepsFrame
    | with_reducible apply popVMStack_keepsFrame
    | with_reducible apply stopToGenerateByteCodeWhileBlockEnd_keepsFrame
    | with_reducible refine Preserves.forEachM (fun _ => ?_) _
    | with_reducible refine Preserves.repeatM ?_ _
    | with_reducible refine readBlock_keepsFrame _ _ _ _ _ _ (fun _ _ => ?_)
    | with_reducible refine Preserves.bind ?_ (fun _ => ?_)
    | split
    | dsimp only)

theorem processCatchExpr_keepsFrame (t : Target) (tys : List ValueType) (flags : List Bool)
    (g : BlockInfo) (tag : Nat) :
    Preserves (KeepsFrame t tys flags g) (processCatchExpr t tag) := by
  simp only [processCatchExpr]
  repeat (first
    | with_reducible apply Preserves.getS
    | with_reducible apply Preserves.pure
    | with_reducible apply Preserves.failM
    | with_reducible apply Preserves.liftE
    | ((with_reducible apply Preserves.modifyS); intro s; exact fun h _ => h)
    | ((with_reducible apply Preserves.modifyS); intro s;
        exact fun h _ => frameInvAt_of_fields h rfl rfl rfl rfl rfl rfl)
    | ((with_reducible apply Preserves.modifyS); intro s;
        refine keepsFrame_of_modifyAt _ _ _ _ _ _ _ _ ?_ rfl rfl rfl rfl rfl rfl;
        exact fun _ => ⟨rfl, rfl⟩)
    | with_reducible apply keepSubResultsIfNeeds_keepsFrame
    | with_reducible apply restoreVMStackRegardToPartOfBlockEnd_keepsFrame
    | with_reducible apply currentByteCodeSize_keepsFrame
    | with_reducible refine modifyBlockAtDepth_keepsFrame _ _ _ _ _ _ (fun _ => ⟨rfl, rfl⟩)
    | with_reducible apply pushByteCode_keepsFrame
    | with_reducible apply pushVMStackKinds_keepsFrame
    | with_reducible refine Preserves.forEachM (fun _ => ?_) _
    | with_reducible refine Preserves.repeatM ?_ _
    | with_reducible refine readBlock_keepsFrame _ _ _ _ _ _ (fun _ _ => ?_)
    | with_reducible refine Preserves.bind ?_ (fun _ => ?_)
    | split
    | dsimp only)

theorem OnCallExpr_keepsFrame (t : Target) (tys : List ValueType) (flags : List Bool)
    (g : BlockInfo) (index : Nat) :
    Preserves (KeepsFrame t tys flags g) (OnCallExpr t index) := by
  simp only [OnCallExpr]
  repeat (first
    | with_reducible apply Preserves.getS
    | with_reducible apply Preserves.pure
    | with_reducible apply Preserves.failM
    | with_reducible apply Preserves.liftE
    | ((with_reducible apply Preserves.modifyS); intro s; exact fun h _ => h)
    | ((with_reducible apply Preserves.modifyS); intro s;
        exact fun h _ => frameInvAt_of_fields h rfl rfl rfl rfl rfl rfl)
    | ((with_reducible apply Preserves.modifyS); intro s;
        refine keepsFrame_of_modifyAt _ _ _ _ _ _ _ _ ?_ rfl rfl rfl rfl rfl rfl;
        exact fun _ => ⟨rfl, rfl⟩)
    | with_reducible apply currentByteCodeSize_keepsFrame
    | with_reducible apply pushByteCode_keepsFrame
    | with_reducible apply expandByteCode_keepsFrame
    | with_reducible apply popVMStackArgs_keepsFrame
    | with_reducible apply pushVMStackKinds_keepsFrame
    | with_reducible apply pokeByteCode_keepsFrame
    | with_reducible refine Preserves.forEachM (fun _ => ?_) _
    | with_reducible refine Preserves.repeatM ?_ _
    | with_reducible refine readBlock_keepsFrame _ _ _ _ _ _ (fun _ _ => ?_)
    | with_reducible refine Preserves.bind ?_ (fun _ => ?_)
    | split
    | dsimp only)

theorem OnCallIndirectExpr_keepsFrame (t : Target) (tys : List ValueType) (flags : List Bool)
    (g : BlockInfo) (sig table : Nat) :
    Preserves (KeepsFrame t tys flags g) (OnCallIndirectExpr t sig table) := by
  simp only [OnCallIndirectExpr]
  repeat (first
    | with_reducible apply Preserves.getS
    | with_reducible apply Preserves.pure
    | with_reducible apply Preserves.failM
    | with_reducible apply Preserves.liftE
    | ((with_reducible apply Preserves.modifyS); intro s; exact fun h _ => h)
    | ((with_reducible apply Preserves.modifyS); intro s;
        exact fun h _ => frameInvAt_of_fields h rfl rfl rfl rfl rfl rfl)
    | ((with_reducible apply Preserves.modifyS); intro s;
        refine keepsFrame_of_modifyAt _ _ _ _ _ _ _ _ ?_ rfl rfl rfl rfl rfl rfl;
        exact fun _ => ⟨rfl, rfl⟩)
    | with_reducible apply currentByteCodeSize_keepsFrame
    | with_reducible apply popVMStack_keepsFrame
    | with_reducible apply pushByteCode_keepsFrame
    | with_reducible apply expandByteCode_keepsFrame
    | with_reducible apply popVMStackArgs_keepsFrame
    | with_reducible apply pushVMStackKinds_keepsFrame
    | with_reducible apply pokeByteCode_keepsFrame
    | with_reducible refine Preserves.forEachM (fun _ => ?_) _
    | with_reducible refine Preserves.repeatM ?_ _
    | with_reducible refine readBlock_keepsFrame _ _ _ _ _ _ (fun _ _ => ?_)
    | with_reducible refine Preserves.bind ?_ (fun _ => ?_)
    | split
    | dsimp only)

end wabt.WASMBinaryReader

namespace wabt.WASMBinaryReader

open Walrus

/-! ### Opening and closing a block -/

theorem foldl_pushByteCode_local (t : Target) (codes : List ByteCode) (mf : ModuleFunction) :
    (codes.foldl (fun mf c => mf.pushByteCode t c) mf).m_local = mf.m_local := by
  induction codes generalizing mf with
  | nil => rfl
  | cons c rest ih =>
    simp only [List.foldl_cons]
    rw [ih]
    rfl

/-- What the constructor of `BlockInfo` does to the frame: the block holds a copy of the VM
stack with the watermark, the reference counts grow by the copy, and some top entries of the
VM stack are brought to their non-optimized positions. -/
theorem newBlockInfo_fields {t : Target} {ty : BlockType} {sig : SigType}
    {s s1 : WASMBinaryReader} {b : BlockInfo}
    (h : newBlockInfo t ty sig s = Except.ok (b, s1)) :
    b.m_vmStack = s.m_vmStack
      ∧ b.m_functionStackSizeSoFar = s.m_functionStackSizeSoFar
      ∧ (∃ k, s1.m_vmStack = s.m_vmStack.take k
          ++ (s.m_vmStack.drop k).map
              (fun e => { e with m_position := e.m_nonOptimizedPosition }))
      ∧ s1.m_localInfo = copyStackRefs s.m_localInfo s.m_vmStack
      ∧ s1.m_blockInfo = s.m_blockInfo
      ∧ s1.m_functionStackSizeSoFar = s.m_functionStackSizeSoFar
      ∧ s1.m_initialFunctionStackSize = s.m_initialFunctionStackSize
      ∧ localTypes s1 = localTypes s := by
  obtain ⟨e1, e2⟩ := newBlockInfo_snapshot h
  refine ⟨e1, e2, ?_⟩
  have hid : s.m_vmStack = s.m_vmStack.take s.m_vmStack.length
      ++ (s.m_vmStack.drop s.m_vmStack.length).map
          (fun e => { e with m_position := e.m_nonOptimizedPosition }) := by
    simp
  simp only [newBlockInfo] at h
  rw [getS_bind, modifyS_bind] at h
  obtain ⟨pp, s2, h2, h3⟩ := bind_eq_ok.mp h
  rw [currentByteCodeSize_bind] at h3
  simp only [run_pure, Except.ok.injEq, Prod.mk.injEq] at h3
  obtain ⟨-, rfl⟩ := h3
  split at h2
  · rename_i i
    obtain ⟨ft, s3, h4, h5⟩ := bind_eq_ok.mp h2
    obtain ⟨-, rfl⟩ := liftE_eq_ok.mp h4
    split at h5
    · split at h5
      · cases h5
      · obtain ⟨u, s4, h6, h7⟩ := bind_eq_ok.mp h5
        obtain ⟨s5, k1, k2, k3, k4, k5, k6, k7, k8⟩ := forEachM_moves_run t
          (s.m_vmStack.reverse.take ft.param.length)
          { s with m_localInfo := copyStackRefs s.m_localInfo s.m_vmStack }
        rw [k1] at h6
        simp only [Except.ok.injEq, Prod.mk.injEq, true_and] at h6
        subst h6
        simp only [run_bind, run_modifyS, run_pure, Except.ok.injEq, Prod.mk.injEq] at h7
        obtain ⟨-, rfl⟩ := h7
        refine ⟨⟨s.m_vmStack.length - ft.param.length, ?_⟩, k5, k4, k6, k7, ?_⟩
        · show s5.m_vmStack.take _ ++ _ = _
          rw [k3]
        · show s5.m_currentFunctionType.param ++ s5.m_currentFunction.m_local = _
          rw [k8, k2, foldl_pushByteCode_local]
          rfl
    · simp only [run_pure, Except.ok.injEq, Prod.mk.injEq] at h5
      obtain ⟨-, rfl⟩ := h5
      exact ⟨⟨_, hid⟩, rfl, rfl, rfl, rfl, rfl⟩
  · simp only [run_pure, Except.ok.injEq, Prod.mk.injEq] at h2
    obtain ⟨-, rfl⟩ := h2
    exact ⟨⟨_, hid⟩, rfl, rfl, rfl, rfl, rfl⟩

/-- A new `BlockInfo` pushed on the block stack keeps the invariant. -/
theorem openBlock_frame (t : Target) (tys : List ValueType) (flags : List Bool)
    {ty : BlockType} {sig : SigType} {s s1 : WASMBinaryReader} {b : BlockInfo}
    (b1 : BlockInfo)
    (h : newBlockInfo t ty sig s = Except.ok (b, s1))
    (hb1 : b1.m_vmStack = b.m_vmStack
      ∧ b1.m_functionStackSizeSoFar = b.m_functionStackSizeSoFar)
    (hI : FrameInvAt t tys flags s) :
    FrameInvAt t tys flags { s1 with m_blockInfo := s1.m_blockInfo ++ [b1] } := by
  obtain ⟨e1, e2, ⟨k, e3⟩, e4, e5, e6, e7, e8⟩ := newBlockInfo_fields h
  obtain ⟨i1, ⟨i2, i3, i4⟩, i5, i6, i7⟩ := hI
  refine ⟨i1, ⟨e8 ▸ i2, ?_, e7 ▸ i4⟩, ?_, ?_, ?_⟩
  · unfold directReferenceFlags at i3 ⊢
    show s1.m_localInfo.map _ = flags
    rw [e4]
    exact (copyStackRefs_flags _ _).trans i3
  · show StackFrameOk t tys flags s1.m_vmStack s1.m_functionStackSizeSoFar
    rw [e3, e6]
    exact stackFrameOk_reposition i5 k
  · intro p hp
    simp only [snapshots, List.map_append, List.map_cons, List.map_nil, List.mem_append,
      List.mem_singleton] at hp
    rcases hp with hp | hp
    · rw [e5] at hp
      exact i6 p hp
    · rw [hp, hb1.1, hb1.2, e1, e2]
      exact i5
  · unfold RefCountsOk at i7 ⊢
    show RefsOk s1.m_localInfo _
    rw [e4]
    refine refsOk_congr (refsOk_copy i7 s.m_vmStack) (fun i => ?_)
    simp only [refCountOf, snapshots, List.map_append, List.map_cons, List.map_nil,
      List.sum_append, List.sum_cons, List.sum_nil, e3, e5, refsTo_reposition, hb1.1, e1]
    omega

theorem openBlock_keepsFrame (t : Target) (tys : List ValueType) (flags : List Bool)
    (g : BlockInfo) (ty : BlockType) (sig : SigType) (f : BlockInfo → BlockInfo)
    (hf : ∀ b, (f b).m_vmStack = b.m_vmStack
      ∧ (f b).m_functionStackSizeSoFar = b.m_functionStackSizeSoFar) :
    Preserves (KeepsFrame t tys flags g)
      (newBlockInfo t ty sig >>= fun b => pushBlockInfo (f b)) := by
  intro s a s2 h hI _
  obtain ⟨b, s1, h1, h2⟩ := bind_eq_ok.mp h
  simp only [pushBlockInfo, run_modifyS, Except.ok.injEq, Prod.mk.injEq, true_and] at h2
  subst h2
  exact openBlock_frame t tys flags (f b) h1 (hf b) hI

/-- The first step of an `end` that closes a block: the block on top of the block stack is
removed and its snapshot is destroyed. -/
theorem closeBlock_frame (t : Target) (tys : List ValueType) (flags : List Bool)
    (s : WASMBinaryReader) (blockInfo : BlockInfo)
    (hb : blockAtDepth s 0 = Except.ok blockInfo)
    (hI : FrameInvAt t tys flags s) :
    FrameInvAt t tys flags { s with
      m_blockInfo := s.m_blockInfo.dropLast
      m_localInfo := destroyStackRefs s.m_localInfo blockInfo.m_vmStack } := by
  have hlast : s.m_blockInfo = s.m_blockInfo.dropLast ++ [blockInfo] := by
    unfold blockAtDepth at hb
    split at hb
    · rename_i hlt
      have h1 := elemAt_eq_ok.mp hb
      rcases List.eq_nil_or_concat s.m_blockInfo with hnil | ⟨l, e, hl⟩
      · rw [hnil] at hlt
        simp at hlt
      · rw [List.concat_eq_append] at hl
        rw [hl] at h1 ⊢
        simp only [List.length_append, List.length_singleton, Nat.add_sub_cancel,
          Nat.sub_zero, List.getElem?_concat_length, Option.some.injEq] at h1
        rw [List.dropLast_concat, h1]
    · cases hb
  obtain ⟨i1, ⟨i2, i3, i4⟩, i5, i6, i7⟩ := hI
  refine ⟨i1, ⟨i2, ?_, i4⟩, i5, ?_, ?_⟩
  · unfold directReferenceFlags at i3 ⊢
    exact (destroyStackRefs_flags _ _).trans i3
  · intro p hp
    refine i6 p ?_
    simp only [snapshots] at hp ⊢
    obtain ⟨b, hbm, rfl⟩ := List.mem_map.mp hp
    exact List.mem_map.mpr ⟨b, List.mem_of_mem_dropLast hbm, rfl⟩
  · unfold RefCountsOk at i7 ⊢
    refine refsOk_destroy blockInfo.m_vmStack (refsOk_congr i7 (fun i => ?_))
    simp only [refCountOf, snapshots]
    conv_lhs => rw [hlast]
    simp only [List.map_append, List.map_cons, List.map_nil, List.sum_append, List.sum_cons,
      List.sum_nil]
    omega

end wabt.WASMBinaryReader

set_option linter.unusedTactic false
set_option linter.unreachableTactic false

namespace wabt.WASMBinaryReader

open Walrus

/-! ### The handlers -/

theorem OnEndExpr_keepsFrame (t : Target) (tys : List ValueType) (flags : List Bool)
    (g : BlockInfo) :
    Preserves (KeepsFrame t tys flags g) (OnEndExpr t) := by
  intro s a s1 h
  unfold OnEndExpr at h
  rw [getS_bind] at h
  split at h
  · obtain ⟨dropSize, sa, h1, k1⟩ := bind_eq_ok.mp h
    obtain ⟨-, rfl⟩ := liftE_eq_ok.mp h1
    obtain ⟨blockInfo, sb, h2, k2⟩ := bind_eq_ok.mp k1
    obtain ⟨hb, rfl⟩ := liftE_eq_ok.mp h2
    have hmem : blockInfo ∈ sb.m_blockInfo := by
      unfold blockAtDepth at hb
      split at hb
      · exact List.getElem?_mem (elemAt_eq_ok.mp hb)
      · cases hb
    obtain ⟨u, sc, h3, k3⟩ := bind_eq_ok.mp k2
    simp only [run_modifyS, Except.ok.injEq, Prod.mk.injEq, true_and] at h3
    subst h3
    intro hI _
    have hgb : StackFrameOk t tys flags blockInfo.m_vmStack
        blockInfo.m_functionStackSizeSoFar :=
      hI.2.2.2.1 (blockInfo.m_vmStack, blockInfo.m_functionStackSizeSoFar)
        (List.mem_map.mpr ⟨blockInfo, hmem, rfl⟩)
    refine (?_ : Preserves (KeepsFrame t tys flags blockInfo) _) _ a s1 k3
      (closeBlock_frame t tys flags sb blockInfo hb hI) hgb
    repeat (first
      | with_reducible apply Preserves.getS
      | with_reducible apply Preserves.pure
      | with_reducible apply Preserves.failM
      | with_reducible apply Preserves.liftE
      | ((with_reducible apply Preserves.modifyS); intro s; exact fun h _ => h)
      | ((with_reducible apply Preserves.modifyS); intro s;
          exact fun h _ => frameInvAt_of_fields h rfl rfl rfl rfl rfl rfl)
      | with_reducible apply stopToGenerateByteCodeWhileBlockEnd_keepsFrame
      | with_reducible apply generateMoveValuesCodeRegardToDrop_keepsFrame
      | with_reducible apply restoreVMStackBy_keepsFrame
      | with_reducible apply popVMStack_keepsFrame
      | with_reducible apply pushVMStackKinds_keepsFrame
      | ((with_reducible refine pushVMStack_keepsFrame _ _ _ _ _ ?_);
          exact valueSizeInStack_le16 _ _)
      | with_reducible apply patchJumpToEnd_keepsFrame
      | with_reducible refine Preserves.forEachM (fun _ => ?_) _
      | with_reducible refine Preserves.repeatM ?_ _
      | with_reducible refine Preserves.bind ?_ (fun _ => ?_)
      | split
      | dsimp only)
  · exact generateEndCode_keepsFrame t tys flags g s a s1 h

/-- A successful `resolveLocalOffsetAndSize` names a local. -/
theorem resolveLocalOffsetAndSize_ok_type {t : Target} {s : WASMBinaryReader} {i : Nat}
    {r : Nat × Nat} (hr : resolveLocalOffsetAndSize t s i = Except.ok r) :
    ∃ ty, (localTypes s)[i]? = some ty := by
  cases hty : (localTypes s)[i]? with
  | some ty => exact ⟨ty, rfl⟩
  | none =>
    exfalso
    unfold localTypes at hty
    unfold resolveLocalOffsetAndSize at hr
    by_cases hlt : i < s.m_currentFunctionType.param.length
    · rw [List.getElem?_append_left hlt] at hty
      simp [hlt, elemAt, hty] at hr
    · rw [List.getElem?_append_right (Nat.le_of_not_lt hlt)] at hty
      simp [hlt, elemAt, hty] at hr

/-- In a frame that satisfies the invariant `resolveLocalOffsetAndSize` returns the offset
and the size of the slot exactly. -/
theorem resolve_frame {t : Target} {tys : List ValueType} {flags : List Bool}
    {s : WASMBinaryReader} {i : Nat} {r : Nat × Nat}
    (hI : FrameInvAt t tys flags s)
    (hr : resolveLocalOffsetAndSize t s i = Except.ok r) :
    ∃ ty, tys[i]? = some ty
      ∧ r = (slotOffset t tys i, valueSizeInStack t.sizeofPointer ty)
      ∧ i < tys.length
      ∧ slotOffset t tys i + valueSizeInStack t.sizeofPointer ty ≤ slotsSize t tys := by
  obtain ⟨ty, hty⟩ := resolveLocalOffsetAndSize_ok_type hr
  have hle := localOffset_add_le t s i ty hty
  rw [resolveLocalOffsetAndSize_eq t s i ty hty] at hr
  simp only [Except.ok.injEq] at hr
  obtain ⟨⟨-, -, hfit⟩, ⟨htys, -, -⟩, -⟩ := hI
  have e1 : localOffset t s i = slotOffset t tys i := by
    rw [← htys]
    rfl
  have e2 : localSlotsSize t s = slotsSize t tys := by
    rw [← htys]
    rfl
  rw [e1, e2] at hle
  rw [e1] at hr
  refine ⟨ty, htys ▸ hty, ?_, ?_, hle⟩
  · rw [← hr]
    unfold u32
    rw [Nat.mod_eq_of_lt (by omega), Nat.mod_eq_of_lt (by omega)]
  · rw [← htys]
    rcases Nat.lt_or_ge i (localTypes s).length with hlt | hge
    · exact hlt
    · rw [List.getElem?_eq_none hge] at hty
      cases hty

theorem canUseDirectReference_true {s : WASMBinaryReader} {i pos : Nat}
    (h : canUseDirectReference s i pos = Except.ok true) :
    (directReferenceFlags s)[i]? = some true := by
  unfold canUseDirectReference at h
  split at h
  · cases h
  · cases hx : s.m_localInfo[i]? with
    | none => simp [elemAt, hx] at h
    | some info =>
      have he : elemAt s.m_localInfo i = Except.ok info := elemAt_eq_ok.mpr hx
      rw [he] at h
      have hf : info.m_canUseDirectReference = true := by
        simpa using h
      unfold directReferenceFlags
      rw [List.getElem?_map, hx]
      simp [hf]

theorem omitUpdateLocalValueIfPossible_true {t : Target} {i : Nat} {r : Nat × Nat}
    {e : VMStackInfo} {s s1 : WASMBinaryReader}
    (h : omitUpdateLocalValueIfPossible t i r e s = Except.ok (true, s1)) :
    (directReferenceFlags s)[i]? = some true := by
  unfold omitUpdateLocalValueIfPossible at h
  rw [getS_bind] at h
  obtain ⟨direct, s2, h1, h2⟩ := bind_eq_ok.mp h
  obtain ⟨hd, rfl⟩ := liftE_eq_ok.mp h1
  cases direct with
  | true => exact canUseDirectReference_true hd
  | false =>
    simp only [Bool.false_and, Bool.false_eq_true, if_false, run_pure, Except.ok.injEq,
      Prod.mk.injEq] at h2
    cases h2.1

theorem OnLocalGetExpr_keepsFrame (t : Target) (tys : List ValueType) (flags : List Bool)
    (g : BlockInfo) (i : Nat) :
    Preserves (KeepsFrame t tys flags g) (OnLocalGetExpr t i) := by
  intro s a s1 h hI hg
  unfold OnLocalGetExpr at h
  rw [getS_bind] at h
  obtain ⟨r, sa, h1, k1⟩ := bind_eq_ok.mp h
  obtain ⟨hr, rfl⟩ := liftE_eq_ok.mp h1
  obtain ⟨direct, sb, h2, k2⟩ := bind_eq_ok.mp k1
  obtain ⟨hd, rfl⟩ := liftE_eq_ok.mp h2
  obtain ⟨ty, hty, hreq, hlt, -⟩ := resolve_frame hI hr
  have hsz : r.2 ≤ 16 := by
    rw [hreq]
    exact valueSizeInStack_le16 _ _ hI.1.2.1
  cases direct with
  | true =>
    simp only [if_true] at k2
    refine pushVMStackAt_frame t tys flags _ _ _ sb a s1 k2 hI ⟨hsz, Or.inr ⟨i, rfl, hlt, ?_, ?_⟩⟩
    · rw [hreq]
    · rw [← hI.2.1.2.1]
      exact canUseDirectReference_true hd
  | false =>
    simp only [Bool.false_eq_true, if_false] at k2
    obtain ⟨u, sc, h3, k3⟩ := bind_eq_ok.mp k2
    have hI2 := pushVMStackAt_frame t tys flags _ _ _ sb u sc h3 hI ⟨hsz, Or.inl rfl⟩
    exact generateMoveCodeIfNeeds_keepsFrame t tys flags g _ _ _ sc a s1 k3 hI2 hg

theorem OnSelectExpr_keepsFrame (t : Target) (tys : List ValueType) (flags : List Bool)
    (g : BlockInfo) :
    Preserves (KeepsFrame t tys flags g) (OnSelectExpr t) := by
  intro s a s1 h hI hg
  unfold OnSelectExpr at h
  obtain ⟨stackPos, sa, h1, k1⟩ := bind_eq_ok.mp h
  have hI1 := popVMStack_keepsFrame t tys flags g s stackPos sa h1 hI hg
  obtain ⟨size, sb, h2, k2⟩ := bind_eq_ok.mp k1
  have hsize : size ≤ 16 ∧ sb = sa := by
    unfold peekVMStackSize peekVMStackInfo at h2
    simp only [run_bind, run_getS] at h2
    cases hl : sa.m_vmStack.getLast? with
    | none => simp [hl] at h2
    | some top =>
      simp only [hl, run_pure, Except.ok.injEq, Prod.mk.injEq] at h2
      obtain ⟨rfl, rfl⟩ := h2
      exact ⟨(hI1.2.2.1.2 top (List.mem_of_mem_getLast? hl)).1, rfl⟩
  obtain ⟨hsz, rfl⟩ := hsize
  obtain ⟨src1, sc, h3, k3⟩ := bind_eq_ok.mp k2
  have hI3 := popVMStack_keepsFrame t tys flags g sb src1 sc h3 hI1 hg
  obtain ⟨src0, sd, h4, k4⟩ := bind_eq_ok.mp k3
  have hI4 := popVMStack_keepsFrame t tys flags g sc src0 sd h4 hI3 hg
  obtain ⟨dst, se, h5, k5⟩ := bind_eq_ok.mp k4
  have hI5 := pushVMStack_keepsFrame t tys flags g size (fun _ => hsz) sd dst se h5 hI4 hg
  exact pushByteCode_keepsFrame t tys flags g _ _ se a s1 k5 hI5 hg

/-- `OnLocalSetExpr` when its rewind condition fails. -/
theorem OnLocalSetExpr_keepsFrame (t : Target) (tys : List ValueType) (flags : List Bool)
    (g : BlockInfo) (s : WASMBinaryReader) (i : Nat)
    (hno : (Event.OnLocalSetExpr i).rewinds t s = false)
    (a : Unit) (s1 : WASMBinaryReader) (h : OnLocalSetExpr t i s = Except.ok (a, s1)) :
    KeepsFrame t tys flags g s s1 := by
  have hrest : ∀ r, Preserves (KeepsFrame t tys flags g) (do
      let src ← popVMStackInfo
      let omitted ← omitUpdateLocalValueIfPossible t i r src
      if !omitted then
        generateMoveCodeIfNeeds t src.m_position r.1 r.2
      else
        pure ()) := by
    intro r
    repeat (first
      | with_reducible apply Preserves.pure
      | with_reducible apply popVMStackInfo_keepsFrame
      | with_reducible apply omitUpdateLocalValueIfPossible_keepsFrame
      | with_reducible apply generateMoveCodeIfNeeds_keepsFrame
      | with_reducible refine Preserves.bind ?_ (fun _ => ?_)
      | split)
  cases hr : resolveLocalOffsetAndSize t s i with
  | error err => simp [OnLocalSetExpr, hr] at h
  | ok r =>
    cases hinfo : s.m_localInfo[i]? with
    | none =>
      have : elemAt s.m_localInfo i = Except.error CompileError.undefined := by
        simp [elemAt, hinfo]
      simp [OnLocalSetExpr, hr, this] at h
    | some info =>
      have hinfo2 : elemAt s.m_localInfo i = Except.ok info := elemAt_eq_ok.mpr hinfo
      simp only [OnLocalSetExpr, run_bind, run_getS, hr, run_liftE_ok, hinfo2] at h
      by_cases hc : info.m_refCount ≠ 0 ∧ info.m_canUseDirectReference = true
      · rw [if_pos hc] at h
        cases htop : s.m_vmStack.getLast? with
        | none =>
          simp [peekVMStackInfo, htop] at h
        | some top =>
          have hp : top.m_position = r.1 := by
            by_contra hne
            simp [Event.rewinds, hr, hinfo, htop, hc.1, hc.2, hne] at hno
          simp only [peekVMStackInfo, run_bind, run_getS, htop, run_pure, hp, ne_eq,
            not_true_eq_false, decide_False, Bool.false_eq_true, if_false] at h
          exact hrest r s a s1 h
      · rw [if_neg hc] at h
        simp only [run_pure, Bool.false_eq_true, if_false] at h
        exact hrest r s a s1 h

/-- `OnLocalTeeExpr` when its rewind condition fails. -/
theorem OnLocalTeeExpr_keepsFrame (t : Target) (tys : List ValueType) (flags : List Bool)
    (g : BlockInfo) (s : WASMBinaryReader) (i : Nat)
    (hno : (Event.OnLocalTeeExpr i).rewinds t s = false)
    (a : Unit) (s1 : WASMBinaryReader) (h : OnLocalTeeExpr t i s = Except.ok (a, s1)) :
    KeepsFrame t tys flags g s s1 := by
  intro hI hg
  cases hinfo : s.m_localInfo[i]? with
  | none =>
    have : elemAt s.m_localInfo i = Except.error CompileError.undefined := by
      simp [elemAt, hinfo]
    simp [OnLocalTeeExpr, this] at h
  | some info =>
    have hinfo2 : elemAt s.m_localInfo i = Except.ok info := elemAt_eq_ok.mpr hinfo
    have hc : ¬ (info.m_refCount ≠ 0 ∧ info.m_canUseDirectReference = true) := by
      intro hc
      simp [Event.rewinds, hinfo, hc.1, hc.2] at hno
    simp only [OnLocalTeeExpr, run_bind, run_getS, run_liftE_ok, hinfo2] at h
    rw [if_neg hc] at h
    cases hr : resolveLocalOffsetAndSize t s i with
    | error err => simp [hr] at h
    | ok r =>
      simp only [hr, run_liftE_ok] at h
      obtain ⟨ty, hty, hreq, hlt, -⟩ := resolve_frame hI hr
      have h' : (peekVMStackInfo >>= fun dstInfo =>
          omitUpdateLocalValueIfPossible t i r dstInfo >>= fun omitted =>
            if omitted = true then
              popVMStackInfo >>= fun oldInfo => pushVMStackAt oldInfo.m_size r.1 (some i)
            else generateMoveCodeIfNeeds t dstInfo.m_position r.1 r.2) s
            = Except.ok (a, s1) := h
      obtain ⟨dstInfo, sa, h1, k1⟩ := bind_eq_ok.mp h'
      have hI1 := peekVMStackInfo_keepsFrame t tys flags g s dstInfo sa h1 hI hg
      obtain ⟨omitted, sb, h2, k2⟩ := bind_eq_ok.mp k1
      have hI2 := omitUpdateLocalValueIfPossible_keepsFrame t tys flags g i r dstInfo
        sa omitted sb h2 hI1 hg
      cases omitted with
      | true =>
        simp only [if_true] at k2
        obtain ⟨oldInfo, sc, h3, k3⟩ := bind_eq_ok.mp k2
        obtain ⟨hI3, hold, -, -⟩ := popVMStackInfo_frame t tys flags sb oldInfo sc h3 hI2
        refine pushVMStackAt_frame t tys flags _ _ _ sc a s1 k3 hI3
          ⟨hold.1, Or.inr ⟨i, rfl, hlt, ?_, ?_⟩⟩
        · rw [hreq]
        · rw [← hI1.2.1.2.1]
          exact omitUpdateLocalValueIfPossible_true h2
      | false =>
        simp only [Bool.false_eq_true, if_false] at k2
        exact generateMoveCodeIfNeeds_keepsFrame t tys flags g _ _ _ sb a s1 k2 hI2 hg

end wabt.WASMBinaryReader

set_option linter.unusedTactic false
set_option linter.unreachableTactic false

namespace wabt.WASMBinaryReader

open Walrus

/-- Every handler that does not rewind keeps the invariant of the frame. -/
theorem handler_keepsFrame (t : Target) (tys : List ValueType) (flags : List Bool)
    (g : BlockInfo) (e : Event) (s : WASMBinaryReader) (hno : e.rewinds t s = false)
    (a : Unit) (s1 : WASMBinaryReader) (h : e.handler t s = Except.ok (a, s1)) :
    KeepsFrame t tys flags g s s1 := by
  cases e
  case OnLocalSetExpr i => exact OnLocalSetExpr_keepsFrame t tys flags g s i hno a s1 h
  case OnLocalTeeExpr i => exact OnLocalTeeExpr_keepsFrame t tys flags g s i hno a s1 h
  case OnLocalGetExpr i => exact OnLocalGetExpr_keepsFrame t tys flags g i s a s1 h
  case OnSelectExpr => exact OnSelectExpr_keepsFrame t tys flags g s a s1 h
  case OnBlockExpr sig =>
    exact openBlock_keepsFrame t tys flags g BlockType.Block sig id (fun _ => ⟨rfl, rfl⟩)
      s a s1 h
  case OnLoopExpr sig =>
    exact openBlock_keepsFrame t tys flags g BlockType.Loop sig id (fun _ => ⟨rfl, rfl⟩)
      s a s1 h
  case OnTryExpr sig =>
    exact openBlock_keepsFrame t tys flags g BlockType.TryCatch sig id (fun _ => ⟨rfl, rfl⟩)
      s a s1 h
  case OnIfExpr sig =>
    simp only [Event.handler] at h
    unfold OnIfExpr at h
    obtain ⟨stackPos, sa, h1, k1⟩ := bind_eq_ok.mp h
    obtain ⟨b, sb, h2, k2⟩ := bind_eq_ok.mp k1
    obtain ⟨u, sc, h3, k3⟩ := bind_eq_ok.mp k2
    simp only [pushBlockInfo, run_modifyS, Except.ok.injEq, Prod.mk.injEq, true_and] at h3
    subst h3
    intro hI hg
    have hI1 := popVMStack_keepsFrame t tys flags g s stackPos sa h1 hI hg
    have hI2 := openBlock_frame t tys flags
      { b with m_jumpToEndBrInfo :=
          b.m_jumpToEndBrInfo ++ [⟨JumpToEndType.IsJumpIf, b.m_position⟩] }
      h2 ⟨rfl, rfl⟩ hI1
    exact pushByteCode_keepsFrame t tys flags g _ _ _ a s1 k3 hI2 hg
  all_goals
    clear hno
    revert s a s1
    show Preserves (KeepsFrame t tys flags g) _
    simp only [Event.handler, OnOpcode, OnI32ConstExpr, OnI64ConstExpr, OnF32ConstExpr,
      OnF64ConstExpr, OnGlobalGetExpr,
      OnGlobalSetExpr, OnDropExpr,
      OnBinaryExpr, OnUnaryExpr, generateBinaryCode, generateUnaryCode,
      OnCatchExpr,
      OnCatchAllExpr, OnMemoryInitExpr, OnMemoryCopyExpr, OnMemoryFillExpr, OnDataDropExpr,
      OnMemoryGrowExpr, OnMemorySizeExpr, OnTableGetExpr, OnTableSetExpr, OnTableGrowExpr,
      OnTableSizeExpr, OnTableCopyExpr, OnTableFillExpr, OnElemDropExpr, OnTableInitExpr,
      OnLoadExpr, OnStoreExpr, generateMemoryLoadCode, generateMemoryStoreCode, OnRefFuncExpr,
      OnRefNullExpr, OnRefIsNullExpr, OnNopExpr, OnReturnExpr, OnUnreachableExpr]
    repeat (first
      | with_reducible apply Preserves.getS
      | with_reducible apply Preserves.pure
      | with_reducible apply Preserves.failM
      | with_reducible apply Preserves.liftE
      | ((with_reducible apply Preserves.modifyS); intro s; exact fun h _ => h)
      | ((with_reducible apply Preserves.modifyS); intro s;
          exact fun h _ => frameInvAt_of_fields h rfl rfl rfl rfl rfl rfl)
      | with_reducible apply popVMStack_keepsFrame
      | with_reducible apply popVMStackInfo_keepsFrame
      | with_reducible apply peekVMStack_keepsFrame
      | with_reducible apply peekVMStackSize_keepsFrame
      | with_reducible apply peekVMStackInfo_keepsFrame
      | ((with_reducible refine pushVMStack_keepsFrame _ _ _ _ _ ?_);
          first
          | exact valueSizeInStack_le16 _ _
          | exact fun _ => codeTypeToMemorySize_le16 _)
      | with_reducible apply pushByteCode_keepsFrame
      | with_reducible apply generateMoveCodeIfNeeds_keepsFrame
      | with_reducible apply stopToGenerateByteCodeWhileBlockEnd_keepsFrame
      | with_reducible apply generateFunctionReturnCode_keepsFrame
      | with_reducible apply processCatchExpr_keepsFrame
      | with_reducible apply OnCallExpr_keepsFrame
      | with_reducible apply OnCallIndirectExpr_keepsFrame
      | with_reducible apply OnBrExpr_keepsFrame
      | with_reducible apply OnBrIfExpr_keepsFrame
      | with_reducible apply OnBrTableExpr_keepsFrame
      | with_reducible apply OnElseExpr_keepsFrame
      | with_reducible apply OnEndExpr_keepsFrame
      | with_reducible apply OnThrowExpr_keepsFrame
      | with_reducible refine Preserves.forEachM (fun _ => ?_) _
      | with_reducible refine Preserves.repeatM ?_ _
      | with_reducible refine Preserves.bind ?_ (fun _ => ?_)
      | split
      | dsimp only)

/-- A state with an empty VM stack, no open block, the watermark at the initial stack size
and no reference counted satisfies the invariant of the frame. -/
theorem frameInvAt_empty {t : Target} {tys : List ValueType} {flags : List Bool}
    {s1 : WASMBinaryReader}
    (hc : 0 < t.sizeofPointer ∧ t.sizeofPointer ≤ 16 ∧ slotsSize t tys + 16 < 4294967296)
    (htys : localTypes s1 = tys) (hflags : directReferenceFlags s1 = flags)
    (hinit : s1.m_initialFunctionStackSize = slotsSize t tys)
    (hstack : s1.m_vmStack = []) (hblocks : s1.m_blockInfo = [])
    (hsofar : s1.m_functionStackSizeSoFar = s1.m_initialFunctionStackSize)
    (hrefs : ∀ (j : Nat) (info : LocalInfo), s1.m_localInfo[j]? = some info →
      info.m_refCount = 0) :
    FrameInvAt t tys flags s1 := by
  refine ⟨hc, ⟨htys, hflags, hinit⟩, ⟨?_, ?_⟩, ?_, ?_⟩
  · rw [hstack, hsofar, hinit]
    exact layoutOk_nil _
  · intro e he
    rw [hstack] at he
    cases he
  · intro p hp
    unfold snapshots at hp
    rw [hblocks] at hp
    cases hp
  · intro j info hj
    rw [hrefs j info hj]
    simp [refCountOf, snapshots, hstack, hblocks, refsTo]

theorem getElem?_map_reset {infos : List LocalInfo} {j : Nat} {info : LocalInfo}
    (h : (infos.map LocalInfo.reset)[j]? = some info) : info.m_refCount = 0 := by
  rw [List.getElem?_map] at h
  cases hx : infos[j]? with
  | none => simp [hx] at h
  | some x =>
    simp only [hx, Option.map_some', Option.some.injEq] at h
    subst h
    rfl

/-- The state a rewind for local `i` leaves satisfies the invariant of the frame, with the
flag of local `i` cleared. -/
theorem rewind_frameInv (t : Target) (i : Nat) (s : WASMBinaryReader) (hI : FrameInv t s) :
    FrameInv t { s with
      m_skipValidationUntil := s.readerOffset
      readerOffset := s.m_codeStartOffset
      m_currentFunction := { s.m_currentFunction with
        m_byteCode := []
        m_byteCodeSize := 0
        m_catchInfo := [] }
      m_blockInfo := []
      m_catchInfo := []
      m_functionStackSizeSoFar := s.m_initialFunctionStackSize
      m_lastByteCodePosition := 0
      m_lastPushedOpcode := WASMOpcode.OpcodeKindEnd
      m_lastOpcode := (0, 0)
      m_vmStack := []
      m_localInfo := (clearDirectReference i s.m_localInfo).map LocalInfo.reset } := by
  obtain ⟨i1, ⟨-, -, i4⟩, -, -, -⟩ := hI
  exact frameInvAt_empty i1 rfl rfl i4 rfl rfl rfl (fun j info hj => getElem?_map_reset hj)

/-- Every handler keeps the invariant of the frame. -/
theorem handler_frameInv (t : Target) (e : Event) (s s1 : WASMBinaryReader)
    (hI : FrameInv t s) (h : e.handler t s = Except.ok ((), s1)) : FrameInv t s1 := by
  cases hrw : e.rewinds t s with
  | false =>
    have hk := handler_keepsFrame t (localTypes s) (directReferenceFlags s)
      ⟨BlockType.Block, SigType.Void, 0, [], [], slotsSize t (localTypes s), false, false, []⟩
      e s hrw () s1 h hI
      ⟨layoutOk_nil _, fun e he => nomatch he⟩
    have h1 := hk.2.1.1
    have h2 := hk.2.1.2.1
    unfold FrameInv
    rw [h1, h2]
    exact hk
  | true =>
    cases e
    case OnLocalSetExpr i =>
      simp only [Event.rewinds] at hrw
      split at hrw
      · rename_i r info top hr hinfo htop
        simp only [Bool.and_eq_true, decide_eq_true_eq] at hrw
        simp only [Event.handler] at h
        rw [OnLocalSetExpr_rewinds t s i r info top hr hinfo htop hrw.1.1 hrw.1.2 hrw.2,
          rewind_run] at h
        simp only [Except.ok.injEq, Prod.mk.injEq, true_and] at h
        subst h
        exact rewind_frameInv t i s hI
      · cases hrw
    case OnLocalTeeExpr i =>
      simp only [Event.rewinds] at hrw
      split at hrw
      · rename_i info hinfo
        simp only [Bool.and_eq_true, decide_eq_true_eq] at hrw
        simp only [Event.handler] at h
        rw [OnLocalTeeExpr_rewinds t s i info hinfo hrw.1 hrw.2, rewind_run] at h
        simp only [Except.ok.injEq, Prod.mk.injEq, true_and] at h
        subst h
        exact rewind_frameInv t i s hI
      · cases hrw
    all_goals cases hrw

/-- Every run of handlers keeps the invariant of the frame. -/
theorem runEvents_frameInv (t : Target) (events : List Event) :
    ∀ (s s1 : WASMBinaryReader), FrameInv t s → runEvents t events s = Except.ok s1 →
      FrameInv t s1 := by
  induction events with
  | nil =>
    intro s s1 hI h
    unfold runEvents at h
    cases h
    exact hI
  | cons e rest ih =>
    intro s s1 hI h
    unfold runEvents at h
    split at h
    · rename_i u s0 h0
      exact ih s0 s1 (handler_frameInv t e s s0 hI h0) h
    · cases h

/-- After `beginFunction` on a function without declared locals, run with an empty VM stack
and no open block, the invariant of the frame holds. -/
theorem beginFunction_frameInv (t : Target) (mf : ModuleFunction) (s s1 : WASMBinaryReader)
    (hp : 0 < t.sizeofPointer ∧ t.sizeofPointer ≤ 16)
    (hl : mf.m_local = []) (hs : s.m_vmStack = []) (hb : s.m_blockInfo = [])
    (hfit : slotsSize t mf.m_functionType.param + 16 < 4294967296)
    (h : beginFunction t mf s = Except.ok ((), s1)) :
    FrameInv t s1 ∧ DeclPhase s1 := by
  obtain ⟨s2, h2, hd⟩ := beginFunction_declPhase t mf s hs hb
  rw [h] at h2
  simp only [Except.ok.injEq, Prod.mk.injEq, true_and] at h2
  subst h2
  refine ⟨?_, hd⟩
  unfold beginFunction modifyS at h
  simp only [Except.ok.injEq, Prod.mk.injEq, true_and] at h
  subst h
  have htys : localTypes
      { s with
        m_currentFunction := { mf with
          m_requiredStackSize := max mf.m_requiredStackSize
            (u32 (mf.m_functionType.paramStackSize t.sizeofPointer)) }
        m_currentFunctionType := mf.m_functionType
        m_localInfo := mf.m_functionType.param.map (fun _ => ({} : LocalInfo))
        m_initialFunctionStackSize := u32 (mf.m_functionType.paramStackSize t.sizeofPointer)
        m_functionStackSizeSoFar := u32 (mf.m_functionType.paramStackSize t.sizeofPointer)
        m_lastByteCodePosition := 0
        m_lastPushedOpcode := WASMOpcode.OpcodeKindEnd } = mf.m_functionType.param := by
    simp [localTypes, hl]
  have hu : u32 (mf.m_functionType.paramStackSize t.sizeofPointer)
      = slotsSize t mf.m_functionType.param := by
    unfold u32 FunctionType.paramStackSize
    unfold slotsSize at hfit ⊢
    omega
  unfold FrameInv
  rw [htys]
  refine frameInvAt_empty ⟨hp.1, hp.2, hfit⟩ htys rfl hu hs hb rfl ?_
  intro j info hj
  have hj' : (mf.m_functionType.param.map (fun _ => ({} : LocalInfo)))[j]? = some info := hj
  rw [List.getElem?_map] at hj'
  cases hx : mf.m_functionType.param[j]? with
  | none => simp [hx] at hj'
  | some x =>
    simp only [hx, Option.map_some', Option.some.injEq] at hj'
    subst hj'
    rfl

end wabt.WASMBinaryReader

namespace wabt.WASMBinaryReader

open Walrus

theorem iterate_declareLocal_localInfo (t : Target) (k : ValueType) (n : Nat)
    (s : WASMBinaryReader) :
    ((declareLocal t k)^[n] s).m_localInfo
      = s.m_localInfo ++ List.replicate n ({} : LocalInfo) := by
  induction n with
  | zero => simp
  | succ n ih =>
    simp only [Function.iterate_succ_apply']
    show ((declareLocal t k)^[n] s).m_localInfo ++ [({} : LocalInfo)] = _
    rw [ih, List.append_assoc, List.replicate_succ']

/-- While the locals are declared, `OnLocalDecl` keeps the invariant of the frame, provided
the slots of the locals still end 16 bytes or more below `2 ^ 32`. -/
theorem OnLocalDecl_frameInv (t : Target) (count : Nat) (type : SigType)
    (s s1 : WASMBinaryReader) (hI : FrameInv t s) (hd : DeclPhase s)
    (h : OnLocalDecl t count type s = Except.ok ((), s1))
    (hfit : localSlotsSize t s1 + 16 < 4294967296) :
    FrameInv t s1 ∧ DeclPhase s1 := by
  have hd1 := (OnLocalDecl_declPhase t count type s s1 hd h).1
  refine ⟨?_, hd1⟩
  obtain ⟨i1, ⟨-, -, i4⟩, -, -, i7⟩ := hI
  have hs0 : s.m_initialFunctionStackSize = u32 (localSlotsSize t s) := by
    rw [i4]
    have : slotsSize t (localTypes s) = localSlotsSize t s := rfl
    rw [this]
    unfold u32
    have h3 := i1.2.2
    rw [this] at h3
    omega
  have hs1 := OnLocalDecl_slots t count type s s1 hs0 h
  have hinit : s1.m_initialFunctionStackSize = slotsSize t (localTypes s1) := by
    rw [hs1]
    show u32 (localSlotsSize t s1) = localSlotsSize t s1
    unfold u32
    omega
  have hold : ∀ (j : Nat) (info : LocalInfo), s.m_localInfo[j]? = some info →
      info.m_refCount = 0 := by
    intro j info hj
    have := i7 j info hj
    rw [this]
    simp [refCountOf, snapshots, hd.1, hd.2.1, refsTo]
  obtain ⟨d1, d2, d3, -, -⟩ := hd1
  refine frameInvAt_empty ⟨i1.1, i1.2.1, hfit⟩ rfl rfl hinit d1 d2 d3.symm ?_
  by_cases hc : count = 0
  · unfold OnLocalDecl at h
    simp only [hc, ne_eq, not_true_eq_false, if_false, pure_bind_run, run_modifyS,
      Except.ok.injEq, Prod.mk.injEq, true_and] at h
    subst h
    exact hold
  · cases hk : toValueKind type with
    | error e =>
      unfold OnLocalDecl at h
      simp only [ne_eq, hc, not_false_eq_true, if_true, hk] at h
      cases h
    | ok k =>
      rw [OnLocalDecl_run t count type k s hc hk] at h
      simp only [Except.ok.injEq, Prod.mk.injEq, true_and] at h
      subst h
      intro j info hj
      have hj' : ((declareLocal t k)^[count] s).m_localInfo[j]? = some info := hj
      rw [iterate_declareLocal_localInfo] at hj'
      by_cases hlt : j < s.m_localInfo.length
      · rw [List.getElem?_append_left hlt] at hj'
        exact hold j info hj'
      · rw [List.getElem?_append_right (Nat.le_of_not_lt hlt)] at hj'
        have := List.getElem?_mem hj'
        rw [List.eq_of_mem_replicate this]

/-! ### What the layout says about the positions -/

theorem layoutOk_ordered {w0 w : Nat} {stack : List VMStackInfo} (h : LayoutOk w0 stack w)
    (j k : Nat) (ej ek : VMStackInfo) (hjk : j < k) (hj : stack[j]? = some ej)
    (hk : stack[k]? = some ek) :
    ej.m_nonOptimizedPosition + ej.m_size ≤ ek.m_nonOptimizedPosition := by
  obtain ⟨-, -, h3⟩ := h
  rw [h3 j ej hj, h3 k ek hk]
  have h1 : (stack.map (fun e => e.m_size))[j]? = some ej.m_size := by
    rw [List.getElem?_map, hj]
    rfl
  have h2 := sum_take_succ _ j _ h1
  have h4 := sum_take_mono (stack.map (fun e => e.m_size)) (j + 1) k hjk
  simp only [List.map_take]
  omega

theorem layoutOk_above {w0 w : Nat} {stack : List VMStackInfo} (h : LayoutOk w0 stack w)
    (e : VMStackInfo) (he : e ∈ stack) :
    w0 ≤ e.m_nonOptimizedPosition ∧ e.m_nonOptimizedPosition + e.m_size ≤ w := by
  obtain ⟨h1, -, h3⟩ := h
  obtain ⟨k, hk⟩ := List.getElem?_of_mem he
  rw [h3 k e hk, h1]
  have h5 : (stack.map (fun e => e.m_size))[k]? = some e.m_size := by
    rw [List.getElem?_map, hk]
    rfl
  have h2 := sum_take_succ _ k _ h5
  have h4 := sum_take_le_sum (stack.map (fun e => e.m_size)) (k + 1)
  simp only [List.map_take]
  omega

end wabt.WASMBinaryReader
open wabt Walrus wabt.WASMBinaryReader

/-- C36: for every local index `i` below the number of parameters plus declared locals,
`resolveLocalOffsetAndSize(i)` returns the sum of the stack sizes of the parameters and
locals of smaller index, and the stack size of the type of local `i`, when the slots of all
parameters and locals fit in `uint32_t`. Hence local 0 starts at 0, the first declared local
starts at `paramStackSize`, the slot of local `i + 1` starts where the slot of local `i`
ends, the slots of two locals `j < i` do not overlap, and, `m_initialFunctionStackSize`
being the size of all slots (as `beginFunction` and `OnLocalDecl` leave it), the slot ends
at or below `m_initialFunctionStackSize`. Both assumptions hold in every state with the
invariant `FrameInv`, which every handler keeps. -/
theorem local_slots_are_laid_out_in_index_order (t : Target) (s : WASMBinaryReader)
    (i : Nat) (ty : ValueType)
    (hi : (localTypes s)[i]? = some ty)
    (hfit : localSlotsSize t s < 2 ^ 32)
    (hinit : s.m_initialFunctionStackSize = u32 (localSlotsSize t s)) :
    resolveLocalOffsetAndSize t s i
        = Except.ok (localOffset t s i, valueSizeInStack t.sizeofPointer ty)
    ∧ localOffset t s i + valueSizeInStack t.sizeofPointer ty ≤ s.m_initialFunctionStackSize
    ∧ localOffset t s 0 = 0
    ∧ localOffset t s s.m_currentFunctionType.param.length
        = s.m_currentFunctionType.paramStackSize t.sizeofPointer
    ∧ (∀ ty1, (localTypes s)[i + 1]? = some ty1 →
        resolveLocalOffsetAndSize t s (i + 1)
          = Except.ok (localOffset t s i + valueSizeInStack t.sizeofPointer ty,
              valueSizeInStack t.sizeofPointer ty1))
    ∧ (∀ j tyj, j < i → (localTypes s)[j]? = some tyj →
        resolveLocalOffsetAndSize t s j
            = Except.ok (localOffset t s j, valueSizeInStack t.sizeofPointer tyj)
          ∧ localOffset t s j + valueSizeInStack t.sizeofPointer tyj ≤ localOffset t s i)
    ∧ (∀ mf s0 s1, mf.m_local = [] → beginFunction t mf s0 = Except.ok ((), s1) →
        s1.m_initialFunctionStackSize = u32 (localSlotsSize t s1))
    ∧ (∀ count type s0 s1, s0.m_initialFunctionStackSize = u32 (localSlotsSize t s0) →
        OnLocalDecl t count type s0 = Except.ok ((), s1) →
        s1.m_initialFunctionStackSize = u32 (localSlotsSize t s1))
    ∧ (∀ s0, FrameInv t s0 →
        localSlotsSize t s0 < 2 ^ 32
          ∧ s0.m_initialFunctionStackSize = u32 (localSlotsSize t s0))
    ∧ (∀ (e : Event) s0 s2, FrameInv t s0 → e.handler t s0 = Except.ok ((), s2) →
        FrameInv t s2) := by
  have hfit1 : localSlotsSize t s < 4294967296 := hfit
  have key : ∀ j tyj, (localTypes s)[j]? = some tyj →
      resolveLocalOffsetAndSize t s j
        = Except.ok (localOffset t s j, valueSizeInStack t.sizeofPointer tyj) := by
    intro j tyj hj
    have h1 := localOffset_add_le t s j tyj hj
    rw [resolveLocalOffsetAndSize_eq t s j tyj hj]
    unfold u32
    rw [Nat.mod_eq_of_lt (by omega), Nat.mod_eq_of_lt (by omega)]
  refine ⟨key i ty hi, ?_, ?_, ?_, ?_, ?_, ?_, ?_, ?_, ?_⟩
  · rw [hinit]
    unfold u32
    rw [Nat.mod_eq_of_lt hfit1]
    exact localOffset_add_le t s i ty hi
  · simp [localOffset]
  · simp [localOffset, localTypes, FunctionType.paramStackSize]
  · intro ty1 h1
    rw [key (i + 1) ty1 h1, localOffset_succ t s i ty hi]
  · intro j tyj hj hjt
    refine ⟨key j tyj hjt, ?_⟩
    rw [← localOffset_succ t s j tyj hjt]
    exact localOffset_mono t s _ _ hj
  · intro mf s0 s1 hl h
    exact beginFunction_slots t mf s0 s1 hl h
  · intro count type s0 s1 hs h
    exact OnLocalDecl_slots t count type s0 s1 hs h
  · intro s0 hI0
    have h1 : slotsSize t (localTypes s0) + 16 < 4294967296 := hI0.1.2.2
    have h2 : s0.m_initialFunctionStackSize = slotsSize t (localTypes s0) := hI0.2.1.2.2
    have h3 : slotsSize t (localTypes s0) = localSlotsSize t s0 := rfl
    rw [h3] at h1 h2
    refine ⟨by omega, ?_⟩
    rw [h2]
    unfold u32
    omega
  · intro e s0 s2 hI0 h
    exact handler_frameInv t e s0 s2 hI0 h

/-- C36 at the third local (`funcref`, index 3) of `exampleLocals`, a function
`(i32, i64)` with `(local funcref funcref) (local f32)` on a 64-bit target: its slot is
`[20, 28)`. -/
theorem local_slots_are_laid_out_in_index_order_witness :
    resolveLocalOffsetAndSize exampleTarget exampleLocals 3 = Except.ok (20, 8)
    ∧ exampleLocals.m_initialFunctionStackSize = 32 :=
  ⟨(local_slots_are_laid_out_in_index_order exampleTarget exampleLocals 3 ValueType.FuncRef
      (by decide!) (by decide!) (by decide!)).1, by decide!⟩

open wabt Walrus wabt.WASMBinaryReader

/-- C31: the layout of the VM stack. In a state `s` with the invariant `FrameInv` (the
pointer size is positive and at most 16, the slots of the parameters and locals end 16 bytes
or more below `2 ^ 32`, `m_initialFunctionStackSize` is the size of those slots), every run
of instruction handlers ends in a state with `FrameInv`, in which
`m_functionStackSizeSoFar` is `m_initialFunctionStackSize` plus the sizes of all entries of
the VM stack, the non-optimized position of every entry is `m_initialFunctionStackSize` plus
the sizes of the entries below it, an entry ends at or below the non-optimized position of
every entry above it (strictly below it when its size is positive), no non-optimized position
is below `m_initialFunctionStackSize` or inside the slot of a local, and the same holds for
the snapshot of every open block. `beginFunction` on a function without declared locals
establishes `FrameInv`, `OnLocalDecl` keeps it while the slots fit, and every handler keeps
it. -/
theorem vm_stack_layout_is_kept (t : Target) (events : List Event) (s s1 : WASMBinaryReader)
    (hI : FrameInv t s) (hrun : runEvents t events s = Except.ok s1) :
    FrameInv t s1
    ∧ s1.m_functionStackSizeSoFar
        = s1.m_initialFunctionStackSize + (s1.m_vmStack.map (fun e => e.m_size)).sum
    ∧ (∀ k e, s1.m_vmStack[k]? = some e →
        e.m_nonOptimizedPosition
          = s1.m_initialFunctionStackSize
            + ((s1.m_vmStack.take k).map (fun e => e.m_size)).sum)
    ∧ (∀ (j k : Nat) (ej ek : VMStackInfo), j < k → s1.m_vmStack[j]? = some ej → s1.m_vmStack[k]? = some ek →
        ej.m_nonOptimizedPosition + ej.m_size ≤ ek.m_nonOptimizedPosition
          ∧ (0 < ej.m_size → ej.m_nonOptimizedPosition < ek.m_nonOptimizedPosition))
    ∧ (∀ e ∈ s1.m_vmStack,
        s1.m_initialFunctionStackSize ≤ e.m_nonOptimizedPosition
          ∧ ∀ i ty, (localTypes s1)[i]? = some ty →
              localOffset t s1 i + valueSizeInStack t.sizeofPointer ty
                ≤ e.m_nonOptimizedPosition)
    ∧ (∀ b ∈ s1.m_blockInfo,
        b.m_functionStackSizeSoFar
            = s1.m_initialFunctionStackSize + (b.m_vmStack.map (fun e => e.m_size)).sum
          ∧ (∀ k e, b.m_vmStack[k]? = some e →
              e.m_nonOptimizedPosition
                = s1.m_initialFunctionStackSize
                  + ((b.m_vmStack.take k).map (fun e => e.m_size)).sum)
          ∧ ∀ e ∈ b.m_vmStack, s1.m_initialFunctionStackSize ≤ e.m_nonOptimizedPosition)
    ∧ (∀ mf s0 s2, 0 < t.sizeofPointer ∧ t.sizeofPointer ≤ 16 → mf.m_local = [] →
        s0.m_vmStack = [] → s0.m_blockInfo = [] →
        slotsSize t mf.m_functionType.param + 16 < 4294967296 →
        beginFunction t mf s0 = Except.ok ((), s2) → FrameInv t s2 ∧ DeclPhase s2)
    ∧ (∀ count type s0 s2, FrameInv t s0 → DeclPhase s0 →
        OnLocalDecl t count type s0 = Except.ok ((), s2) →
        localSlotsSize t s2 + 16 < 4294967296 → FrameInv t s2 ∧ DeclPhase s2)
    ∧ (∀ (e : Event) s0 s2, FrameInv t s0 → e.handler t s0 = Except.ok ((), s2) →
        FrameInv t s2) := by
  have hI1 := runEvents_frameInv t events s s1 hI hrun
  obtain ⟨i1, ⟨-, -, i4⟩, i5, i6, -⟩ := hI1
  have hsl : slotsSize t (localTypes s1) = localSlotsSize t s1 := rfl
  have l5 : LayoutOk s1.m_initialFunctionStackSize s1.m_vmStack
      s1.m_functionStackSizeSoFar := by
    rw [i4]
    exact i5.1
  have l6 : ∀ b ∈ s1.m_blockInfo, LayoutOk s1.m_initialFunctionStackSize b.m_vmStack
      b.m_functionStackSizeSoFar := by
    intro b hb
    rw [i4]
    exact (i6 (b.m_vmStack, b.m_functionStackSizeSoFar) (List.mem_map.mpr ⟨b, hb, rfl⟩)).1
  refine ⟨runEvents_frameInv t events s s1 hI hrun, ?_, ?_, ?_, ?_, ?_, ?_, ?_, ?_⟩
  · exact l5.1
  · exact l5.2.2
  · intro j k ej ek hjk hj hk
    have := layoutOk_ordered l5 j k ej ek hjk hj hk
    exact ⟨this, fun hpos => by omega⟩
  · intro e he
    have h1 := (layoutOk_above l5 e he).1
    refine ⟨h1, fun i ty hty => ?_⟩
    have h2 := localOffset_add_le t s1 i ty hty
    rw [← hsl, ← i4] at h2
    omega
  · intro b hb
    have hb1 := l6 b hb
    exact ⟨hb1.1, hb1.2.2, fun e he => (layoutOk_above hb1 e he).1⟩
  · intro mf s0 s2 hp hl hs hb hfit h
    exact beginFunction_frameInv t mf s0 s2 hp hl hs hb hfit h
  · intro count type s0 s2 hI0 hd h hfit
    exact OnLocalDecl_frameInv t count type s0 s2 hI0 hd h hfit
  · intro e s0 s2 hI0 h
    exact handler_frameInv t e s0 s2 hI0 h

/-- C31 on `exampleLayout`, the function `(i32, i64)` after
`i64.const 5  block  local.get 0  local.get 1  i32.const 1` on a 64-bit target: the initial
stack size is 12, the four entries have the sizes 8, 4, 8 and 4, and the watermark is 36. -/
theorem vm_stack_layout_is_kept_witness :
    exampleLayout.m_initialFunctionStackSize = 12
    ∧ exampleLayout.m_vmStack.map (fun e => (e.m_size, e.m_position, e.m_nonOptimizedPosition))
        = [(8, 12, 12), (4, 0, 20), (8, 4, 24), (4, 32, 32)]
    ∧ exampleLayout.m_functionStackSizeSoFar
        = exampleLayout.m_initialFunctionStackSize
          + (exampleLayout.m_vmStack.map (fun e => e.m_size)).sum :=
  ⟨by decide!, by decide!,
    (vm_stack_layout_is_kept exampleTarget
      [Event.OnI64ConstExpr 5, Event.OnBlockExpr SigType.Void, Event.OnLocalGetExpr 0,
        Event.OnLocalGetExpr 1, Event.OnI32ConstExpr 1]
      (exampleReader ⟨[ValueType.I32, ValueType.I64], []⟩ []) exampleLayout
      (beginFunction_frameInv exampleTarget
        { m_functionType := ⟨[ValueType.I32, ValueType.I64], []⟩ }
        { m_currentFunction := { m_functionType := ⟨[ValueType.I32, ValueType.I64], []⟩ }
          m_currentFunctionType := ⟨[ValueType.I32, ValueType.I64], []⟩
          m_result := { m_functionTypes := [] } }
        _ (by decide) rfl rfl rfl (by decide!) rfl).1
      (by decide!)).2.1⟩

set_option linter.unusedTactic false
set_option linter.unreachableTactic false

namespace wabt

open Walrus

instance : IsRefl WASMBinaryReader SameStacks := ⟨fun _ => ⟨rfl, rfl, rfl⟩⟩

instance : IsTrans WASMBinaryReader SameStacks :=
  ⟨fun _ _ _ h1 h2 => ⟨h2.1.trans h1.1, h2.2.1.trans h1.2.1, h2.2.2.trans h1.2.2⟩⟩

end wabt

namespace wabt.WASMBinaryReader

open Walrus

theorem pushByteCode_sameStacks (t : Target) (code : ByteCode) (op : WASMOpcode) :
    Preserves SameStacks (pushByteCode t code op) := by
  simp only [pushByteCode]
  exact Preserves.modifyS (fun _ => ⟨rfl, rfl, rfl⟩)

theorem pokeByteCode_sameStacks (pos : Nat) (f : ByteCode → Option ByteCode) :
    Preserves SameStacks (pokeByteCode pos f) := by
  simp only [pokeByteCode]
  repeat (first
    | with_reducible apply Preserves.getS
    | with_reducible apply Preserves.pure
    | with_reducible apply Preserves.failM
    | ((with_reducible apply Preserves.modifyS); intro s; exact ⟨rfl, rfl, rfl⟩)
    | with_reducible refine Preserves.bind ?_ (fun _ => ?_)
    | split
    | dsimp only)

theorem generateMoveCodeIfNeeds_sameStacks (t : Target) (a b c : Nat) :
    Preserves SameStacks (generateMoveCodeIfNeeds t a b c) := by
  simp only [generateMoveCodeIfNeeds]
  repeat (first
    | with_reducible apply Preserves.pure
    | with_reducible apply pushByteCode_sameStacks
    | split)

theorem omitUpdateLocalValueIfPossible_sameStacks (t : Target) (i : Nat) (r : Nat × Nat)
    (e : VMStackInfo) :
    Preserves SameStacks (omitUpdateLocalValueIfPossible t i r e) := by
  simp only [omitUpdateLocalValueIfPossible]
  repeat (first
    | with_reducible apply Preserves.getS
    | with_reducible apply Preserves.pure
    | with_reducible apply Preserves.failM
    | with_reducible apply Preserves.liftE
    | with_reducible apply pokeByteCode_sameStacks
    | with_reducible refine Preserves.bind ?_ (fun _ => ?_)
    | split
    | dsimp only)

/-! ### No entry lives in the slot of a local that is not referred to -/

theorem slotOffset_lt_of_lt (t : Target) (tys : List ValueType) (hp : 0 < t.sizeofPointer)
    (i j : Nat) (hij : i < j) (hi : i < tys.length) :
    slotOffset t tys i < slotOffset t tys j := by
  have hty : ∃ ty, tys[i]? = some ty := ⟨tys[i], List.getElem?_eq_getElem hi⟩
  obtain ⟨ty, hty⟩ := hty
  have h1 : (tys.map (valueSizeInStack t.sizeofPointer))[i]?
      = some (valueSizeInStack t.sizeofPointer ty) := by
    rw [List.getElem?_map, hty]
    rfl
  have h2 := sum_take_succ _ i _ h1
  have h3 := sum_take_mono (tys.map (valueSizeInStack t.sizeofPointer)) (i + 1) j hij
  have h4 := valueSizeInStack_pos t.sizeofPointer ty hp
  unfold slotOffset
  simp only [List.map_take]
  omega

theorem slotOffset_inj (t : Target) (tys : List ValueType) (hp : 0 < t.sizeofPointer)
    (i j : Nat) (hi : i < tys.length) (hj : j < tys.length)
    (h : slotOffset t tys i = slotOffset t tys j) : i = j := by
  rcases Nat.lt_trichotomy i j with h1 | h1 | h1
  · have := slotOffset_lt_of_lt t tys hp i j h1 hi
    omega
  · exact h1
  · have := slotOffset_lt_of_lt t tys hp j i h1 hj
    omega

theorem slotOffset_lt_slotsSize (t : Target) (tys : List ValueType) (hp : 0 < t.sizeofPointer)
    (i : Nat) (hi : i < tys.length) : slotOffset t tys i < slotsSize t tys := by
  have h1 := slotOffset_lt_of_lt t tys hp i tys.length hi hi
  have h2 : slotOffset t tys tys.length = slotsSize t tys := by
    unfold slotOffset slotsSize
    rw [List.take_length]
  omega

theorem refsTo_pos {i : Nat} {stack : List VMStackInfo} {e : VMStackInfo} (he : e ∈ stack)
    (hi : e.m_localIndex = some i) : 0 < refsTo i stack := by
  unfold refsTo
  exact List.countP_pos_iff.mpr ⟨e, he, by simp [hi]⟩

theorem refCountOf_pos_of_block {s : WASMBinaryReader} {i : Nat} {b : BlockInfo}
    {e : VMStackInfo} (hb : b ∈ s.m_blockInfo) (he : e ∈ b.m_vmStack)
    (hi : e.m_localIndex = some i) : 0 < refCountOf s i := by
  have h1 := refsTo_pos he hi
  have h2 : refsTo i b.m_vmStack ∈ (snapshots s).map (fun p => refsTo i p.1) := by
    simp only [snapshots, List.map_map, List.mem_map, Function.comp_apply]
    exact ⟨b, hb, rfl⟩
  have h3 := List.single_le_sum (fun x _ => Nat.zero_le x) _ h2
  unfold refCountOf
  omega

/-- An entry that satisfies `EntryOk` and lies above the slots is not in the slot of local
`i`, unless it refers to local `i` and the flag of local `i` is set. -/
theorem entry_not_in_slot {t : Target} {tys : List ValueType} {flags : List Bool}
    {e : VMStackInfo} (hp : 0 < t.sizeofPointer) (he : EntryOk t tys flags e)
    (habove : slotsSize t tys ≤ e.m_nonOptimizedPosition) (i : Nat) (hi : i < tys.length)
    (hfree : ¬ (e.m_localIndex = some i ∧ flags[i]? = some true)) :
    e.m_position ≠ slotOffset t tys i := by
  intro hpos
  rcases he.2 with h1 | ⟨j, hj1, hj2, hj3, hj4⟩
  · have := slotOffset_lt_slotsSize t tys hp i hi
    omega
  · have hij : j = i := slotOffset_inj t tys hp j i hj2 hi (hj3.symm.trans hpos)
    subst hij
    exact hfree ⟨hj1, hj4⟩

/-- In a frame that satisfies the invariant, no entry of the VM stack and of the snapshots
lives in the slot of a local whose reference count is zero or whose flag is cleared. -/
theorem noEntryAt_of_unreferenced {t : Target} {tys : List ValueType} {flags : List Bool}
    {s : WASMBinaryReader} (hI : FrameInvAt t tys flags s) (i : Nat) (hi : i < tys.length)
    (hfree : refCountOf s i = 0 ∨ flags[i]? ≠ some true) :
    NoEntryAt (slotOffset t tys i) s.m_vmStack s.m_blockInfo := by
  obtain ⟨i1, -, i5, i6, -⟩ := hI
  refine ⟨?_, ?_⟩
  · intro e he
    refine entry_not_in_slot i1.1 (i5.2 e he) (layoutOk_above i5.1 e he).1 i hi ?_
    rintro ⟨h1, h2⟩
    rcases hfree with h3 | h3
    · have := refsTo_pos he h1
      unfold refCountOf at h3
      omega
    · exact h3 h2
  · intro b hb e he
    have hb1 := i6 (b.m_vmStack, b.m_functionStackSizeSoFar) (List.mem_map.mpr ⟨b, hb, rfl⟩)
    refine entry_not_in_slot i1.1 (hb1.2 e he) (layoutOk_above hb1.1 e he).1 i hi ?_
    rintro ⟨h1, h2⟩
    rcases hfree with h3 | h3
    · have := refCountOf_pos_of_block hb he h1
      omega
    · exact h3 h2

end wabt.WASMBinaryReader

namespace wabt.WASMBinaryReader

open Walrus

/-- A handler that rewinds leaves an empty VM stack. -/
theorem handler_rewound_stack (t : Target) (e : Event) (s s1 : WASMBinaryReader)
    (hrw : e.rewinds t s = true) (h : e.handler t s = Except.ok ((), s1)) :
    s1.m_vmStack = [] := by
  cases e
  case OnLocalSetExpr i =>
    simp only [Event.rewinds] at hrw
    split at hrw
    · rename_i r info top hr hinfo htop
      simp only [Bool.and_eq_true, decide_eq_true_eq] at hrw
      simp only [Event.handler] at h
      rw [OnLocalSetExpr_rewinds t s i r info top hr hinfo htop hrw.1.1 hrw.1.2 hrw.2,
        rewind_run] at h
      simp only [Except.ok.injEq, Prod.mk.injEq, true_and] at h
      subst h
      rfl
    · cases hrw
  case OnLocalTeeExpr i =>
    simp only [Event.rewinds] at hrw
    split at hrw
    · rename_i info hinfo
      simp only [Bool.and_eq_true, decide_eq_true_eq] at hrw
      simp only [Event.handler] at h
      rw [OnLocalTeeExpr_rewinds t s i info hinfo hrw.1 hrw.2, rewind_run] at h
      simp only [Except.ok.injEq, Prod.mk.injEq, true_and] at h
      subst h
      rfl
    · cases hrw
  all_goals cases hrw

/-- The cases of `OnLocalSetExpr`: it rewinds, or it pops the value and writes it. -/
theorem OnLocalSetExpr_cases (t : Target) (s s1 : WASMBinaryReader) (i : Nat)
    (h : OnLocalSetExpr t i s = Except.ok ((), s1)) :
    ∃ r info, resolveLocalOffsetAndSize t s i = Except.ok r ∧ s.m_localInfo[i]? = some info
      ∧ (((Event.OnLocalSetExpr i).rewinds t s = true ∧ s1.m_vmStack = []
            ∧ s1.m_blockInfo = [])
        ∨ ((Event.OnLocalSetExpr i).rewinds t s = false
            ∧ ((info.m_refCount = 0 ∨ info.m_canUseDirectReference = false)
              ∨ ∃ top, s.m_vmStack.getLast? = some top ∧ top.m_position = r.1)
            ∧ ∃ src s2 omitted s3, popVMStackInfo s = Except.ok (src, s2)
                ∧ omitUpdateLocalValueIfPossible t i r src s2 = Except.ok (omitted, s3)
                ∧ (if !omitted then generateMoveCodeIfNeeds t src.m_position r.1 r.2
                    else pure ()) s3 = Except.ok ((), s1))) := by
  cases hr : resolveLocalOffsetAndSize t s i with
  | error err => simp [OnLocalSetExpr, hr] at h
  | ok r =>
    cases hinfo : s.m_localInfo[i]? with
    | none =>
      have : elemAt s.m_localInfo i = Except.error CompileError.undefined := by
        simp [elemAt, hinfo]
      simp [OnLocalSetExpr, hr, this] at h
    | some info =>
      refine ⟨r, info, rfl, rfl, ?_⟩
      have hinfo2 : elemAt s.m_localInfo i = Except.ok info := elemAt_eq_ok.mpr hinfo
      have h0 : (Event.OnLocalSetExpr i).handler t s = Except.ok ((), s1) := h
      have hrest : ∀ (hno : (Event.OnLocalSetExpr i).rewinds t s = false)
          (hwhy : (info.m_refCount = 0 ∨ info.m_canUseDirectReference = false)
              ∨ ∃ top, s.m_vmStack.getLast? = some top ∧ top.m_position = r.1)
          (hk : (popVMStackInfo >>= fun src =>
            omitUpdateLocalValueIfPossible t i r src >>= fun omitted =>
              if (!omitted) = true then generateMoveCodeIfNeeds t src.m_position r.1 r.2
              else pure ()) s = Except.ok ((), s1)),
          ((Event.OnLocalSetExpr i).rewinds t s = true ∧ s1.m_vmStack = []
            ∧ s1.m_blockInfo = [])
          ∨ ((Event.OnLocalSetExpr i).rewinds t s = false
            ∧ ((info.m_refCount = 0 ∨ info.m_canUseDirectReference = false)
              ∨ ∃ top, s.m_vmStack.getLast? = some top ∧ top.m_position = r.1)
            ∧ ∃ src s2 omitted s3, popVMStackInfo s = Except.ok (src, s2)
                ∧ omitUpdateLocalValueIfPossible t i r src s2 = Except.ok (omitted, s3)
                ∧ (if !omitted then generateMoveCodeIfNeeds t src.m_position r.1 r.2
                    else pure ()) s3 = Except.ok ((), s1)) := by
        intro hno hwhy hk
        obtain ⟨src, s2, k1, k2⟩ := bind_eq_ok.mp hk
        obtain ⟨omitted, s3, k3, k4⟩ := bind_eq_ok.mp k2
        exact Or.inr ⟨hno, hwhy, src, s2, omitted, s3, k1, k3, k4⟩
      simp only [OnLocalSetExpr, run_bind, run_getS, hr, run_liftE_ok, hinfo2] at h
      by_cases hc : info.m_refCount ≠ 0 ∧ info.m_canUseDirectReference = true
      · rw [if_pos hc] at h
        rcases Option.eq_none_or_eq_some s.m_vmStack.getLast? with htop | ⟨top, htop⟩
        · simp [peekVMStackInfo, htop] at h
        · by_cases hp : top.m_position = r.1
          · simp only [peekVMStackInfo, run_bind, run_getS, htop, run_pure, hp, ne_eq,
              not_true_eq_false, decide_False, Bool.false_eq_true, if_false] at h
            refine hrest ?_ (Or.inr ⟨top, htop, hp⟩) h
            simp [Event.rewinds, hr, hinfo, htop, hp]
          · have hrw : (Event.OnLocalSetExpr i).rewinds t s = true := by
              simp [Event.rewinds, hr, hinfo, htop, hc.1, hc.2, hp]
            exact Or.inl ⟨hrw, handler_rewound_stack t _ s s1 hrw h0,
              (handler_rewound t _ s s1 hrw h0).1⟩
      · rw [if_neg hc] at h
        simp only [run_pure, Bool.false_eq_true, if_false] at h
        refine hrest ?_ (Or.inl ?_) h
        · rcases Option.eq_none_or_eq_some s.m_vmStack.getLast? with htop | ⟨top, htop⟩
          · simp [Event.rewinds, hr, hinfo, htop]
          · by_cases h00 : info.m_refCount = 0
            · simp [Event.rewinds, hr, hinfo, htop, h00]
            · have hf : info.m_canUseDirectReference = false := by
                cases hb : info.m_canUseDirectReference with
                | false => rfl
                | true => exact absurd ⟨h00, hb⟩ hc
              simp [Event.rewinds, hr, hinfo, htop, hf]
        · by_cases h00 : info.m_refCount = 0
          · exact Or.inl h00
          · right
            cases hb : info.m_canUseDirectReference with
            | false => rfl
            | true => exact absurd ⟨h00, hb⟩ hc

end wabt.WASMBinaryReader

namespace wabt.WASMBinaryReader

open Walrus

/-- The cases of `OnLocalTeeExpr`: it rewinds, or it writes the value on top of the stack. -/
theorem OnLocalTeeExpr_cases (t : Target) (s s1 : WASMBinaryReader) (i : Nat)
    (h : OnLocalTeeExpr t i s = Except.ok ((), s1)) :
    ∃ info, s.m_localInfo[i]? = some info
      ∧ (((Event.OnLocalTeeExpr i).rewinds t s = true ∧ s1.m_vmStack = []
            ∧ s1.m_blockInfo = [])
        ∨ ((Event.OnLocalTeeExpr i).rewinds t s = false
            ∧ (info.m_refCount = 0 ∨ info.m_canUseDirectReference = false)
            ∧ ∃ r dstInfo omitted sb, resolveLocalOffsetAndSize t s i = Except.ok r
                ∧ omitUpdateLocalValueIfPossible t i r dstInfo s = Except.ok (omitted, sb)
                ∧ (if omitted = true then
                    popVMStackInfo >>= fun oldInfo =>
                      pushVMStackAt oldInfo.m_size r.1 (some i)
                  else generateMoveCodeIfNeeds t dstInfo.m_position r.1 r.2) sb
                    = Except.ok ((), s1))) := by
  have h0 : (Event.OnLocalTeeExpr i).handler t s = Except.ok ((), s1) := h
  cases hinfo : s.m_localInfo[i]? with
  | none =>
    have : elemAt s.m_localInfo i = Except.error CompileError.undefined := by
      simp [elemAt, hinfo]
    simp [OnLocalTeeExpr, this] at h
  | some info =>
    refine ⟨info, rfl, ?_⟩
    have hinfo2 : elemAt s.m_localInfo i = Except.ok info := elemAt_eq_ok.mpr hinfo
    by_cases hc : info.m_refCount ≠ 0 ∧ info.m_canUseDirectReference = true
    · have hrw : (Event.OnLocalTeeExpr i).rewinds t s = true := by
        simp [Event.rewinds, hinfo, hc.1, hc.2]
      exact Or.inl ⟨hrw, handler_rewound_stack t _ s s1 hrw h0,
        (handler_rewound t _ s s1 hrw h0).1⟩
    · have hwhy : info.m_refCount = 0 ∨ info.m_canUseDirectReference = false := by
        by_cases h00 : info.m_refCount = 0
        · exact Or.inl h00
        · right
          cases hb : info.m_canUseDirectReference with
          | false => rfl
          | true => exact absurd ⟨h00, hb⟩ hc
      have hno : (Event.OnLocalTeeExpr i).rewinds t s = false := by
        rcases hwhy with h1 | h1
        · simp [Event.rewinds, hinfo, h1]
        · simp [Event.rewinds, hinfo, h1]
      refine Or.inr ⟨hno, hwhy, ?_⟩
      simp only [OnLocalTeeExpr, run_bind, run_getS, run_liftE_ok, hinfo2] at h
      rw [if_neg hc] at h
      cases hr : resolveLocalOffsetAndSize t s i with
      | error err => simp [hr] at h
      | ok r =>
        simp only [hr, run_liftE_ok] at h
        have h' : (peekVMStackInfo >>= fun dstInfo =>
            omitUpdateLocalValueIfPossible t i r dstInfo >>= fun omitted =>
              if omitted = true then
                popVMStackInfo >>= fun oldInfo => pushVMStackAt oldInfo.m_size r.1 (some i)
              else generateMoveCodeIfNeeds t dstInfo.m_position r.1 r.2) s
              = Except.ok ((), s1) := h
        obtain ⟨dstInfo, sa, h1, k1⟩ := bind_eq_ok.mp h'
        have hsa : sa = s := by
          unfold peekVMStackInfo at h1
          simp only [run_bind, run_getS] at h1
          cases hl : s.m_vmStack.getLast? with
          | none => simp [hl] at h1
          | some top =>
            simp only [hl, run_pure, Except.ok.injEq, Prod.mk.injEq] at h1
            exact h1.2.symm
        subst hsa
        obtain ⟨omitted, sb, h2, k2⟩ := bind_eq_ok.mp k1
        exact ⟨r, dstInfo, omitted, sb, rfl, h2, k2⟩

/-- The peephole does nothing for an entry that is already in the slot. -/
theorem omitUpdateLocalValueIfPossible_same_position {t : Target} {i : Nat} {r : Nat × Nat}
    {e : VMStackInfo} {s s1 : WASMBinaryReader} {b : Bool} (hp : e.m_position = r.1)
    (h : omitUpdateLocalValueIfPossible t i r e s = Except.ok (b, s1)) :
    b = false ∧ s1 = s := by
  unfold omitUpdateLocalValueIfPossible at h
  rw [getS_bind] at h
  obtain ⟨direct, s2, h1, h2⟩ := bind_eq_ok.mp h
  obtain ⟨-, rfl⟩ := liftE_eq_ok.mp h1
  simp only [hp, ne_eq, not_true_eq_false, decide_False, Bool.and_false, Bool.false_and,
    Bool.false_eq_true, if_false, run_pure, Except.ok.injEq, Prod.mk.injEq] at h2
  exact ⟨h2.1.symm, h2.2.symm⟩

end wabt.WASMBinaryReader

open wabt Walrus wabt.WASMBinaryReader

/-- C32: alias safety of the writes to a local. Let the reader be in a state `s` with the
invariant `FrameInv`, in which fewer than `2 ^ 64` `VMStackInfo` objects refer to local `i`,
and let `slot` be the offset of the slot of local `i` (the first component of
`resolveLocalOffsetAndSize(i)`). After `OnLocalSetExpr(i)` either the value on top of the
stack was local `i` itself, read by a direct reference, and the bytecode is unchanged, or no
entry of the VM stack and no entry of the snapshot of an open block has `m_position = slot`.
After `OnLocalTeeExpr(i)` no entry of a snapshot and no entry of the VM stack other than the
top one has `m_position = slot`. -/
theorem local_write_leaves_no_alias (t : Target) (s s1 : WASMBinaryReader) (i : Nat)
    (hI : FrameInv t s) (hcount : refCountOf s i < 18446744073709551616) :
    (∀ r, resolveLocalOffsetAndSize t s i = Except.ok r → r.1 = localOffset t s i)
    ∧ (OnLocalSetExpr t i s = Except.ok ((), s1) →
        ((∃ top, s.m_vmStack.getLast? = some top ∧ top.m_position = localOffset t s i
            ∧ top.m_localIndex = some i)
          ∧ SameByteCode s s1)
        ∨ NoEntryAt (localOffset t s i) s1.m_vmStack s1.m_blockInfo)
    ∧ (OnLocalTeeExpr t i s = Except.ok ((), s1) →
        NoEntryAt (localOffset t s i) s1.m_vmStack.dropLast s1.m_blockInfo) := by
  have hslot : ∀ r, resolveLocalOffsetAndSize t s i = Except.ok r →
      r.1 = localOffset t s i ∧ i < (localTypes s).length := by
    intro r hr
    obtain ⟨ty, -, hreq, hlt, -⟩ := resolve_frame hI hr
    rw [hreq]
    exact ⟨rfl, hlt⟩
  have hfree : ∀ info, s.m_localInfo[i]? = some info →
      info.m_refCount = 0 ∨ info.m_canUseDirectReference = false →
      refCountOf s i = 0 ∨ (directReferenceFlags s)[i]? ≠ some true := by
    intro info hinfo hwhy
    rcases hwhy with h1 | h1
    · left
      have := hI.2.2.2.2 i info hinfo
      rw [h1] at this
      omega
    · right
      unfold directReferenceFlags
      rw [List.getElem?_map, hinfo]
      simp [h1]
  refine ⟨fun r hr => (hslot r hr).1, ?_, ?_⟩
  · intro h
    obtain ⟨r, info, hr, hinfo, hcase⟩ := OnLocalSetExpr_cases t s s1 i h
    obtain ⟨hr1, hlt⟩ := hslot r hr
    rcases hcase with ⟨-, e1, e2⟩ | ⟨-, hwhy, src, s2, omitted, s3, k1, k2, k3⟩
    · right
      rw [e1, e2]
      constructor
      · intro e he
        cases he
      · intro b hb
        cases hb
    · obtain ⟨-, hsrc, hstack, hblocks⟩ :=
        popVMStackInfo_frame t _ _ s src s2 k1 hI
      have q2 := omitUpdateLocalValueIfPossible_sameStacks t i r src s2 omitted s3 k2
      have q3 : SameStacks s3 s1 := by
        revert k3
        cases omitted with
        | true =>
          intro k3
          simp only [Bool.not_true, Bool.false_eq_true, if_false, run_pure, Except.ok.injEq,
            Prod.mk.injEq, true_and] at k3
          subst k3
          exact ⟨rfl, rfl, rfl⟩
        | false =>
          intro k3
          simp only [Bool.not_false, if_true] at k3
          exact generateMoveCodeIfNeeds_sameStacks t _ _ _ s3 () s1 k3
      rcases hwhy with hwhy | ⟨top, htop, hpos⟩
      · right
        have hno := noEntryAt_of_unreferenced hI i hlt (hfree info hinfo hwhy)
        have hno' : NoEntryAt (localOffset t s i) s.m_vmStack s.m_blockInfo := hno
        refine ⟨fun e he => hno'.1 e ?_, fun b hb => hno'.2 b ?_⟩
        · rw [q3.1, q2.1] at he
          rw [hstack]
          exact List.mem_append_left _ he
        · rw [q3.2.1, q2.2.1, hblocks] at hb
          exact hb
      · by_cases hw : info.m_refCount = 0 ∨ info.m_canUseDirectReference = false
        · right
          have hno := noEntryAt_of_unreferenced hI i hlt (hfree info hinfo hw)
          have hno' : NoEntryAt (localOffset t s i) s.m_vmStack s.m_blockInfo := hno
          refine ⟨fun e he => hno'.1 e ?_, fun b hb => hno'.2 b ?_⟩
          · rw [q3.1, q2.1] at he
            rw [hstack]
            exact List.mem_append_left _ he
          · rw [q3.2.1, q2.2.1, hblocks] at hb
            exact hb
        · left
          have htop2 : top = src := by
            rw [hstack] at htop
            simpa using htop.symm
          subst htop2
          have hidx : top.m_localIndex = some i := by
            rcases hsrc.2 with h1 | ⟨j, hj1, hj2, hj3, -⟩
            · exfalso
              have hab := (layoutOk_above hI.2.2.1.1 top
                (by rw [hstack]; exact List.mem_append_right _ (List.mem_singleton.mpr rfl))).1
              have hlt2 := slotOffset_lt_slotsSize t (localTypes s) hI.1.1 i hlt
              have hr2 : r.1 = slotOffset t (localTypes s) i := hr1
              omega
            · have hr2 : r.1 = slotOffset t (localTypes s) i := hr1
              have hij : j = i := slotOffset_inj t (localTypes s) hI.1.1 j i hj2 hlt
                (by omega)
              rw [← hij]
              exact hj1
          refine ⟨⟨top, htop, hr1 ▸ hpos, hidx⟩, ?_⟩
          obtain ⟨hom, hs3⟩ := omitUpdateLocalValueIfPossible_same_position hpos k2
          subst hom
          subst hs3
          simp only [Bool.not_false, if_true, generateMoveCodeIfNeeds, hpos, ne_eq,
            not_true_eq_false, if_false, run_pure, Except.ok.injEq, Prod.mk.injEq,
            true_and] at k3
          subst k3
          rcases List.eq_nil_or_concat s.m_vmStack with hnil | ⟨l, e1, hl⟩
          · rw [popVMStackInfo_empty s hnil] at k1
            cases k1
          · rw [List.concat_eq_append] at hl
            rw [popVMStackInfo_run s l e1 hl] at k1
            simp only [Except.ok.injEq, Prod.mk.injEq] at k1
            obtain ⟨-, rfl⟩ := k1
            exact ⟨rfl, rfl⟩
  · intro h
    obtain ⟨info, hinfo, hcase⟩ := OnLocalTeeExpr_cases t s s1 i h
    rcases hcase with ⟨-, e1, e2⟩ | ⟨-, hwhy, r, dstInfo, omitted, sb, hr, k2, k3⟩
    · rw [e1, e2]
      constructor
      · intro e he
        simp at he
      · intro b hb
        cases hb
    · obtain ⟨hr1, hlt⟩ := hslot r hr
      have hno := noEntryAt_of_unreferenced hI i hlt (hfree info hinfo hwhy)
      have hno' : NoEntryAt (localOffset t s i) s.m_vmStack s.m_blockInfo := hno
      have q2 := omitUpdateLocalValueIfPossible_sameStacks t i r dstInfo s omitted sb k2
      cases omitted with
      | true =>
        simp only [if_true] at k3
        obtain ⟨oldInfo, sc, k4, k5⟩ := bind_eq_ok.mp k3
        have hIb := omitUpdateLocalValueIfPossible_keepsFrame t _ _
          ⟨BlockType.Block, SigType.Void, 0, [], [], slotsSize t (localTypes s), false, false,
            []⟩ i r dstInfo s true sb k2 hI ⟨layoutOk_nil _, fun e he => nomatch he⟩
        obtain ⟨-, -, hstack, hblocks⟩ := popVMStackInfo_frame t _ _ sb oldInfo sc k4 hIb
        unfold pushVMStackAt at k5
        simp only [getS_bind] at k5
        split at k5
        · simp at k5
        · simp only [run_modifyS, Except.ok.injEq, Prod.mk.injEq, true_and] at k5
          subst k5
          refine ⟨fun e he => hno'.1 e ?_, fun b hb => hno'.2 b ?_⟩
          · have he' : e ∈ (sc.m_vmStack ++ [_]).dropLast := he
            rw [List.dropLast_concat] at he'
            rw [← q2.1, hstack]
            exact List.mem_append_left _ he'
          · have hb' : b ∈ sc.m_blockInfo := hb
            rw [hblocks, q2.2.1] at hb'
            exact hb'
      | false =>
        simp only [Bool.false_eq_true, if_false] at k3
        have q3 := generateMoveCodeIfNeeds_sameStacks t _ _ _ sb () s1 k3
        refine ⟨fun e he => hno'.1 e ?_, fun b hb => hno'.2 b ?_⟩
        · rw [q3.1, q2.1] at he
          exact List.mem_of_mem_dropLast he
        · rw [q3.2.1, q2.2.1] at hb
          exact hb

/-- C32 on `exampleLocalWrite`, the function `(i32, i32)` after
`block  local.get 1  i32.const 7`: `local.set 0` emits a `Move32` from the constant at 12 to
the slot 0 of local 0, and the entry that stays on the VM stack, the direct reference to
local 1, is at position 4. -/
theorem local_write_leaves_no_alias_witness :
    exampleLocalWritten.m_currentFunction.m_byteCode
        = [(0, ByteCode.Const32 12 7), (16, ByteCode.Move32 12 0)]
    ∧ exampleLocalWritten.m_vmStack = [⟨4, 4, 8, some 1⟩]
    ∧ localOffset exampleTarget exampleLocalWrite 0 = 0
    ∧ (((∃ top, exampleLocalWrite.m_vmStack.getLast? = some top
            ∧ top.m_position = localOffset exampleTarget exampleLocalWrite 0
            ∧ top.m_localIndex = some 0)
          ∧ SameByteCode exampleLocalWrite exampleLocalWritten)
        ∨ NoEntryAt (localOffset exampleTarget exampleLocalWrite 0)
            exampleLocalWritten.m_vmStack exampleLocalWritten.m_blockInfo) :=
  ⟨by decide!, by decide!, by decide!,
    (local_write_leaves_no_alias exampleTarget exampleLocalWrite exampleLocalWritten 0
      (runEvents_frameInv exampleTarget
        [Event.OnBlockExpr SigType.Void, Event.OnLocalGetExpr 1, Event.OnI32ConstExpr 7]
        (exampleReader ⟨[ValueType.I32, ValueType.I32], []⟩ []) exampleLocalWrite
        (beginFunction_frameInv exampleTarget
          { m_functionType := ⟨[ValueType.I32, ValueType.I32], []⟩ }
          { m_currentFunction := { m_functionType := ⟨[ValueType.I32, ValueType.I32], []⟩ }
            m_currentFunctionType := ⟨[ValueType.I32, ValueType.I32], []⟩
            m_result := { m_functionTypes := [] } }
          _ (by decide) rfl rfl rfl (by decide!) rfl).1
        (by decide!))
      (by decide!)).2.1 (by decide!)⟩
